import Mathlib

/-!
# Scanline rasterizer: interpolation, edge classification, point sorting, depth buffer

A shallow embedding of the C++ sources

* `src/cpp/common/utils.hpp` (`lerp`, `Point2`, `Dims`),
* `src/cpp/common/texcoords.hpp`, `src/cpp/common/vec3.hpp` (the arithmetic operators),
* `src/cpp/common/buffer.hpp` (`Buffer`, `concatenate`),
* `src/cpp/rasterizer/draw2d/tris.cpp` (`interpolate`, `interpolate_points`,
  `interpolate_attributes`, `sort_points_by_y`),
* `src/cpp/rasterizer/depth_buffer.hpp` (`DepthBuffer`),

followed, each under its own heading, by the 3-D pipeline (`draw3d.cpp`, `mesh.cpp`,
`scene.hpp`), the 2-D drawing routines (`canvas.hpp`, `lines.cpp`, `tris.cpp`) and the
intersection search of the raytracer (`raytrace.cpp`).

Modelling conventions.

* `int` is modelled by `Int`; signed overflow is undefined in C++ and is outside the model.
* `float` is read in two ways.  In the first part it is an exact rational `ℚ`: sums,
  products and quotients are exact, and a division by zero has the value `0`.  A statement
  over this reading holds of the program where its conclusion does not depend on rounding:
  the sizes of buffers, comparisons of integers, which calls are made, identities whose two
  sides perform the same arithmetic.  Statements whose conclusion does depend on rounding
  are headed *Exact arithmetic*: they describe the arithmetic that the program approximates.
  In the part headed *Single precision* `float` is `Float32`, the IEEE-754 binary32 format
  with rounding to nearest (ties to even), subnormal numbers, signed zeros, infinities and
  NaN, and the source functions whose results depend on rounding are embedded a second time
  over it, in the namespace `binary32`.  What the program computes at a given input is
  stated over `Float32`.
* A failed `assert` is modelled by `none`.
-/

namespace cgfs

/-! ## `utils.hpp` -/

/-- Linear interpolation `(1 - t) * a + t * b` (`utils.hpp`, `lerp`). -/
def lerp (a b t : ℚ) : ℚ := (1 - t) * a + t * b

/-- Integer 2-D point (`utils.hpp`, `Point2`). -/
structure Point2 where
  x : Int
  y : Int
deriving DecidableEq, Repr

/-- Integer dimensions (`utils.hpp`, `Dims`). -/
structure Dims where
  width : Int
  height : Int
deriving DecidableEq, Repr

/-- Validity of dimensions: `width > 0 && height > 0` (`Dims::is_valid`). -/
def Dims.is_valid (d : Dims) : Bool := decide (d.width > 0) && decide (d.height > 0)

/-! ## `texcoords.hpp` and `vec3.hpp` -/

/-- Texture coordinates, a 2-vector of floats (`texcoords.hpp`). -/
structure TexCoords where
  u : ℚ
  v : ℚ
deriving DecidableEq, Repr

namespace TexCoords

/-- Componentwise sum (`operator+`). -/
def add (lhs rhs : TexCoords) : TexCoords := ⟨lhs.u + rhs.u, lhs.v + rhs.v⟩

/-- Componentwise difference (`operator-`). -/
def sub (lhs rhs : TexCoords) : TexCoords := ⟨lhs.u - rhs.u, lhs.v - rhs.v⟩

/-- Division by a scalar (`operator/`). -/
def div (tc : TexCoords) (amount : ℚ) : TexCoords := ⟨tc.u / amount, tc.v / amount⟩

/-- Multiplication by a scalar (`operator*`). -/
def mul (tc : TexCoords) (amount : ℚ) : TexCoords := ⟨tc.u * amount, tc.v * amount⟩

end TexCoords

/-- A 3-vector of floats (`vec3.hpp`). -/
structure Vec3 where
  x : ℚ
  y : ℚ
  z : ℚ
deriving DecidableEq, Repr

namespace Vec3

/-- Componentwise sum (`operator+`). -/
def add (lhs rhs : Vec3) : Vec3 := ⟨lhs.x + rhs.x, lhs.y + rhs.y, lhs.z + rhs.z⟩

/-- Componentwise difference (`operator-`). -/
def sub (lhs rhs : Vec3) : Vec3 := ⟨lhs.x - rhs.x, lhs.y - rhs.y, lhs.z - rhs.z⟩

/-- Multiplication by a scalar (`operator*(const Vec3&, float)`). -/
def mul (v : Vec3) (amount : ℚ) : Vec3 := ⟨v.x * amount, v.y * amount, v.z * amount⟩

/-- Division by a scalar (`operator/`). -/
def div (v : Vec3) (amount : ℚ) : Vec3 := ⟨v.x / amount, v.y / amount, v.z / amount⟩

end Vec3

/-! ## Linear interpolation of vectors, as the specification words it -/

/-- The specification's `lerp(v0, v1, t) = (1 - t) * v0 + t * v1` on texture coordinates,
written with the operators of `texcoords.hpp` (the source has `lerp` on floats only). -/
def TexCoords.lerp_spec (v0 v1 : TexCoords) (t : ℚ) : TexCoords :=
  TexCoords.add (TexCoords.mul v0 (1 - t)) (TexCoords.mul v1 t)

/-- The specification's `lerp(v0, v1, t) = (1 - t) * v0 + t * v1` on 3-vectors, written
with the operators of `vec3.hpp` (the source has `lerp` on floats only). -/
def Vec3.lerp_spec (v0 v1 : Vec3) (t : ℚ) : Vec3 :=
  Vec3.add (Vec3.mul v0 (1 - t)) (Vec3.mul v1 t)

/-! ## `buffer.hpp` -/

/-- Capacity of a `Buffer`: the default template argument `S = 768`. -/
def kMaxSize : Nat := 768

/-- Fixed-capacity buffer (`buffer.hpp`).  `m_storage` lists the `m_count` live elements; the
slots of the C++ array past `m_count` are never read by the embedded operations. -/
structure Buffer (T : Type) where
  m_storage : List T
deriving DecidableEq, Repr

namespace Buffer

variable {T : Type}

/-- A default-constructed buffer: `m_count = 0`. -/
def empty : Buffer T := ⟨[]⟩

/-- Number of live elements (`size()`, i.e. `m_count`). -/
def size (b : Buffer T) : Nat := b.m_storage.length

/-- Appends a value; `assert(m_count < kMaxSize)`. -/
def push_back (b : Buffer T) (value : T) : Option (Buffer T) :=
  if b.size < kMaxSize then some ⟨b.m_storage ++ [value]⟩ else none

/-- Drops the last element; `assert(m_count > 0)`. -/
def pop_back (b : Buffer T) : Option (Buffer T) :=
  if 0 < b.size then some ⟨b.m_storage.dropLast⟩ else none

/-- Indexing (`operator[]`); `assert(index >= 0 && index < m_count)`. -/
def get (b : Buffer T) (index : Int) : Option T :=
  if 0 ≤ index ∧ index < (b.size : Int) then b.m_storage[index.toNat]? else none

end Buffer

/-- Concatenation of two buffers (`concatenate`);
`assert(lhs.size() + rhs.size() <= result.kMaxSize)`. -/
def concatenate {T : Type} (lhs rhs : Buffer T) : Option (Buffer T) :=
  if lhs.size + rhs.size ≤ kMaxSize then some ⟨lhs.m_storage ++ rhs.m_storage⟩ else none

namespace rasterizer

/-! ## `tris.cpp`: interpolation helpers -/

/-- Conversion `int(d)` of a float to an integer: truncation toward zero. -/
def truncToInt (q : ℚ) : Int := if 0 ≤ q then ⌊q⌋ else ⌈q⌉

/-- The operations which the template `interpolate<T>` applies to its value type `T`.
`F` is the return type of `to_float` on `T`: `float` for `T = int`, and `T` itself otherwise. -/
class Interpolable (T : Type) where
  /-- The type of `to_float(v)`. -/
  F : Type
  /-- The difference `v1 - v0`. -/
  sub : T → T → T
  /-- The conditional cast `to_float`. -/
  to_float : T → F
  /-- Division by the float `to_float(i1 - i0)`. -/
  div : F → ℚ → F
  /-- The accumulation `d += a`. -/
  add : F → F → F
  /-- The conversion `T(d)`. -/
  cast : F → T

/-- The kind `T = int`: `to_float` casts to float, `int(d)` truncates. -/
instance instInterpolableInt : Interpolable Int where
  F := ℚ
  sub v1 v0 := v1 - v0
  to_float i := (i : ℚ)
  div x y := x / y
  add d a := d + a
  cast d := truncToInt d

/-- The kind `T = float`. -/
instance instInterpolableFloat : Interpolable ℚ where
  F := ℚ
  sub v1 v0 := v1 - v0
  to_float v := v
  div x y := x / y
  add d a := d + a
  cast d := d

/-- The kind `T = TexCoords`. -/
instance instInterpolableTexCoords : Interpolable TexCoords where
  F := TexCoords
  sub v1 v0 := TexCoords.sub v1 v0
  to_float v := v
  div x y := TexCoords.div x y
  add d a := TexCoords.add d a
  cast d := d

/-- The kind `T = Vec3`. -/
instance instInterpolableVec3 : Interpolable Vec3 where
  F := Vec3
  sub v1 v0 := Vec3.sub v1 v0
  to_float v := v
  div x y := Vec3.div x y
  add d a := Vec3.add d a
  cast d := d

/-- The loop `for (int i = i0; i <= i1; ++i) { result.push_back(T(d)); d += a; }` of
`interpolate`; the first argument counts the iterations that remain. -/
def interpolate_loop {T : Type} [Interpolable T] (a : Interpolable.F T) :
    Nat → Interpolable.F T → Buffer T → Option (Buffer T)
  | 0, _, result => some result
  | n + 1, d, result =>
    match result.push_back (Interpolable.cast d) with
    | none => none
    | some r => interpolate_loop a n (Interpolable.add d a) r

/-- The template `interpolate` of `tris.cpp`.  The loop counter runs over `i0, ..., i1`,
that is `i1 + 1 - i0` iterations (none when `i1 < i0`). -/
def interpolate {T : Type} [Interpolable T] (i0 : Int) (v0 : T) (i1 : Int) (v1 : T) :
    Option (Buffer T) :=
  if i0 = i1 then
    Buffer.empty.push_back v0
  else
    let a := Interpolable.div (Interpolable.to_float (Interpolable.sub v1 v0))
      (((i1 - i0 : Int)) : ℚ)
    let d := Interpolable.to_float v0
    interpolate_loop a (i1 + 1 - i0).toNat d Buffer.empty

/-- Which side the long edge `p0 → p2` is on (`enum class LeftSide`). -/
inductive LeftSide where
  | k02
  | k01_12
deriving DecidableEq, Repr

/-- Edge X coordinates of a triangle and the left/right tag (`interpolate_points`). -/
def interpolate_points (p0 p1 p2 : Point2) : Option (Buffer Int × Buffer Int × LeftSide) :=
  (interpolate p0.y p0.x p1.y p1.x).bind fun x01 =>
  (interpolate p1.y p1.x p2.y p2.x).bind fun x12 =>
  (interpolate p0.y p0.x p2.y p2.x).bind fun x02 =>
  x01.pop_back.bind fun x01_popped =>
  (concatenate x01_popped x12).bind fun x01_x12 =>
  let m : Nat := x02.size / 2
  (x02.get (Int.ofNat m)).bind fun x02_m =>
  (x01_x12.get (Int.ofNat m)).bind fun x01_x12_m =>
  if x02_m < x01_x12_m then some (x02, x01_x12, LeftSide.k02)
  else some (x01_x12, x02, LeftSide.k01_12)

/-- Edge attribute values of a triangle, ordered by the given tag
(`interpolate_attributes`). -/
def interpolate_attributes {T : Type} [Interpolable T] (p0 p1 p2 : Point2) (a0 a1 a2 : T)
    (left_side : LeftSide) : Option (Buffer T × Buffer T) :=
  (interpolate p0.y a0 p1.y a1).bind fun a01 =>
  (interpolate p1.y a1 p2.y a2).bind fun a12 =>
  (interpolate p0.y a0 p2.y a2).bind fun a02 =>
  a01.pop_back.bind fun a01_popped =>
  (concatenate a01_popped a12).bind fun a01_a12 =>
  match left_side with
  | LeftSide.k02 => some (a02, a01_a12)
  | LeftSide.k01_12 => some (a01_a12, a02)

/-- The sequence along the long edge `p0 → p2`: the local `x02` of `interpolate_points`,
`a02` of `interpolate_attributes`. -/
def long_edge {T : Type} [Interpolable T] (p0 p2 : Point2) (a0 a2 : T) : Option (Buffer T) :=
  interpolate p0.y a0 p2.y a2

/-- The merged sequence along the short edges `p0 → p1 → p2`: the local `x01_x12` of
`interpolate_points`, `a01_a12` of `interpolate_attributes`. -/
def merged_short_edges {T : Type} [Interpolable T] (p0 p1 p2 : Point2) (a0 a1 a2 : T) :
    Option (Buffer T) :=
  (interpolate p0.y a0 p1.y a1).bind fun a01 =>
  (interpolate p1.y a1 p2.y a2).bind fun a12 =>
  a01.pop_back.bind fun a01_popped =>
  concatenate a01_popped a12

/-! ## `tris.cpp`: point sorting -/

/-- Sorting three point bundles by `y` (`sort_points_by_y` on `PointBundle<Attrs...>`).
A bundle is a point with its attributes; `std::swap` on the tuples of references exchanges
the referenced values of both bundles. -/
def sort_point_bundles_by_y {A : Type} (p0 p1 p2 : Point2 × A) :
    (Point2 × A) × (Point2 × A) × (Point2 × A) :=
  let (p0, p1) := if p1.1.y < p0.1.y then (p1, p0) else (p0, p1)
  let (p0, p2) := if p2.1.y < p0.1.y then (p2, p0) else (p0, p2)
  let (p1, p2) := if p2.1.y < p1.1.y then (p2, p1) else (p1, p2)
  (p0, p1, p2)

/-- Sorting three points by `y` (`sort_points_by_y` on plain `Point2`). -/
def sort_points_by_y (p0 p1 p2 : Point2) : Point2 × Point2 × Point2 :=
  let (p0, p1) := if p1.y < p0.y then (p1, p0) else (p0, p1)
  let (p0, p2) := if p2.y < p0.y then (p2, p0) else (p0, p2)
  let (p1, p2) := if p2.y < p1.y then (p2, p1) else (p1, p2)
  (p0, p1, p2)

/-! ## `depth_buffer.hpp` -/

/-- The depth buffer: dimensions and a row-major grid of floats (`DepthBuffer`). -/
structure DepthBuffer where
  m_dimensions : Dims
  m_buffer : List ℚ
deriving DecidableEq, Repr

namespace DepthBuffer

/-- The constructor: `assert(m_dimensions.is_valid())`, then `width * height` cells of `0`. -/
def create (dimensions : Dims) : Option DepthBuffer :=
  if dimensions.is_valid then
    some ⟨dimensions, List.replicate (dimensions.width * dimensions.height).toNat 0⟩
  else none

/-- The depth test (`test_and_set`): returns the boolean result and the buffer afterwards;
`none` is a failure of `assert(buffer_idx < m_buffer.size())`. -/
def test_and_set (self : DepthBuffer) (point : Point2) (inv_z : ℚ) :
    Option (Bool × DepthBuffer) :=
  let x := Int.tdiv self.m_dimensions.width 2 + point.x
  let y := Int.tdiv self.m_dimensions.height 2 - point.y - 1
  if x < 0 ∨ x ≥ self.m_dimensions.width ∨ y < 0 ∨ y ≥ self.m_dimensions.height then
    some (false, self)
  else
    let buffer_idx : Nat := (x + y * self.m_dimensions.width).toNat
    match self.m_buffer[buffer_idx]? with
    | none => none
    | some stored =>
      if stored < inv_z then
        some (true, { self with m_buffer := self.m_buffer.set buffer_idx inv_z })
      else some (false, self)

/-- Resetting every cell (`clear`): `std::fill(begin, end, 0.0f)`. -/
def clear (self : DepthBuffer) : DepthBuffer :=
  { self with m_buffer := self.m_buffer.map fun _ => 0 }

/-- The class invariant established by the constructor: valid dimensions and
`width * height` cells. -/
def WellFormed (self : DepthBuffer) : Prop :=
  self.m_dimensions.is_valid = true ∧
    self.m_buffer.length = (self.m_dimensions.width * self.m_dimensions.height).toNat

/-- A client-side sequence of `test_and_set` calls, one per `(point, inv_z)` of the list, in
order and with no `clear()` in between; the boolean results are dropped.  It serves to state
properties of a buffer over time. -/
def test_and_set_all : DepthBuffer → List (Point2 × ℚ) → Option DepthBuffer
  | self, [] => some self
  | self, (point, inv_z) :: rest =>
    match self.test_and_set point inv_z with
    | none => none
    | some (_, next) => test_and_set_all next rest

end DepthBuffer

end rasterizer

end cgfs

/-! # The 3-D pipeline: algebra, scene data, lighting, clipping and culling -/

namespace cgfs

/-! ## The C++ math library -/

/-- The two functions of `<cmath>` the pipeline calls, `std::sqrt` and `std::pow`.  They
are not rational-valued in general, so the embedding takes them as a parameter. -/
structure Libm where
  /-- The function `std::sqrt`. -/
  sqrt : ℚ → ℚ
  /-- The function `std::pow`. -/
  pow : ℚ → ℚ → ℚ

/-- A math library for evaluating concrete inputs: `sqrt` is the exact square root on
squares of rationals (the integer square root of numerator times denominator, over the
denominator, elsewhere), and `pow` is the exact power for exponents that are natural
numbers (and `0` for other exponents). -/
def Libm.onRationals : Libm where
  sqrt q := ((Nat.sqrt (q.num.toNat * q.den) : Nat) : ℚ) / (q.den : ℚ)
  pow x y := if y.den = 1 ∧ 0 ≤ y.num then x ^ y.num.toNat else 0

/-- The function `std::clamp(v, lo, hi)`: `(v < lo) ? lo : (hi < v) ? hi : v`. -/
def std_clamp (v lo hi : ℚ) : ℚ := if v < lo then lo else if hi < v then hi else v

/-! ## `vec3.hpp`, continued -/

namespace Vec3

/-- Negation (unary `operator-`). -/
def neg (v : Vec3) : Vec3 := ⟨-v.x, -v.y, -v.z⟩

/-- Dot product (`dot`). -/
def dot (lhs rhs : Vec3) : ℚ := (lhs.x * rhs.x) + (lhs.y * rhs.y) + (lhs.z * rhs.z)

/-- Cross product (`cross`). -/
def cross (lhs rhs : Vec3) : Vec3 :=
  ⟨(lhs.y * rhs.z) - (lhs.z * rhs.y),
   (lhs.z * rhs.x) - (lhs.x * rhs.z),
   (lhs.x * rhs.y) - (lhs.y * rhs.x)⟩

/-- Euclidean length (`length`): `std::sqrt(dot(v, v))`. -/
def length (lm : Libm) (v : Vec3) : ℚ := lm.sqrt (dot v v)

/-- Normalisation (`normalize`): `v * (1.0f / length(v))`.  For the zero vector the C++
code multiplies by an infinite `inv_len` and returns NaN components; the theorems that
depend on it exclude that case. -/
def normalize (lm : Libm) (v : Vec3) : Vec3 :=
  let inv_len := 1 / length lm v
  mul v inv_len

end Vec3

/-! ## `vec4.hpp` -/

/-- A 4-vector of floats (`vec4.hpp`). -/
structure Vec4 where
  x : ℚ
  y : ℚ
  z : ℚ
  w : ℚ
deriving DecidableEq, Repr

namespace Vec4

/-- The constructor `Vec4(const Vec3& xyz, float w)`. -/
def ofVec3 (xyz : Vec3) (inW : ℚ) : Vec4 := ⟨xyz.x, xyz.y, xyz.z, inW⟩

/-- The conversion `xyz()`. -/
def xyz (v : Vec4) : Vec3 := ⟨v.x, v.y, v.z⟩

/-- Componentwise sum (`operator+`). -/
def add (lhs rhs : Vec4) : Vec4 :=
  ⟨lhs.x + rhs.x, lhs.y + rhs.y, lhs.z + rhs.z, lhs.w + rhs.w⟩

/-- Componentwise difference (`operator-`). -/
def sub (lhs rhs : Vec4) : Vec4 :=
  ⟨lhs.x - rhs.x, lhs.y - rhs.y, lhs.z - rhs.z, lhs.w - rhs.w⟩

/-- Division by a scalar (`operator/`). -/
def div (v : Vec4) (amount : ℚ) : Vec4 :=
  ⟨v.x / amount, v.y / amount, v.z / amount, v.w / amount⟩

end Vec4

/-! ## `mat3.hpp` and `mat4.hpp` -/

/-- A 3x3 rotation matrix `float m[3][3]` (`mat3.hpp`). -/
structure Mat3 where
  m : Fin 3 → Fin 3 → ℚ

namespace Mat3

/-- The identity (`Mat3::kIdentity`, `mat3.cpp`). -/
def kIdentity : Mat3 := ⟨![![1, 0, 0], ![0, 1, 0], ![0, 0, 1]]⟩

/-- The transpose (`Mat3::transposed`): `result.m[i][j] = mat.m[j][i]`. -/
def transposed (mat : Mat3) : Mat3 := ⟨fun i j => mat.m j i⟩

/-- Matrix times vector (`operator*(const Mat3&, const Vec3&)`):
`result[i] += vec[j] * mat.m[i][j]` for `j = 0, 1, 2`. -/
def mulVec (mat : Mat3) (vec : Vec3) : Vec3 :=
  ⟨vec.x * mat.m 0 0 + vec.y * mat.m 0 1 + vec.z * mat.m 0 2,
   vec.x * mat.m 1 0 + vec.y * mat.m 1 1 + vec.z * mat.m 1 2,
   vec.x * mat.m 2 0 + vec.y * mat.m 2 1 + vec.z * mat.m 2 2⟩

/-- Matrix product (`operator*(const Mat3&, const Mat3&)`):
`result.m[i][j] += matA.m[i][k] * matB.m[k][j]` for `k = 0, 1, 2`. -/
def mul (matA matB : Mat3) : Mat3 :=
  ⟨fun i j => matA.m i 0 * matB.m 0 j + matA.m i 1 * matB.m 1 j + matA.m i 2 * matB.m 2 j⟩

end Mat3

/-- A 4x4 matrix `float m[4][4]` (`mat4.hpp`). -/
structure Mat4 where
  m : Fin 4 → Fin 4 → ℚ

namespace Mat4

/-- Modelled from the spec: the definition of the constant `Mat4::kIdentity` is declared in
`mat4.hpp` but its initialiser is not among the sources; it is taken to be the 4x4 identity
matrix, as `Mat3::kIdentity` is the 3x3 one. -/
def kIdentity : Mat4 := ⟨![![1, 0, 0, 0], ![0, 1, 0, 0], ![0, 0, 1, 0], ![0, 0, 0, 1]]⟩

/-- Uniform scaling matrix (`Mat4::scaling`). -/
def scaling (scale : ℚ) : Mat4 :=
  ⟨![![scale, 0, 0, 0], ![0, scale, 0, 0], ![0, 0, scale, 0], ![0, 0, 0, 1]]⟩

/-- Translation matrix (`Mat4::translation`). -/
def translation (t : Vec3) : Mat4 :=
  ⟨![![1, 0, 0, t.x], ![0, 1, 0, t.y], ![0, 0, 1, t.z], ![0, 0, 0, 1]]⟩

/-- Embedding of a rotation (`Mat4::rotation`): the identity with the upper-left 3x3 block
overwritten by `mat`. -/
def rotation (mat : Mat3) : Mat4 :=
  ⟨fun i j =>
    if h : i.val < 3 ∧ j.val < 3 then mat.m ⟨i.val, h.1⟩ ⟨j.val, h.2⟩ else kIdentity.m i j⟩

/-- The transpose (`Mat4::transposed`). -/
def transposed (mat : Mat4) : Mat4 := ⟨fun i j => mat.m j i⟩

/-- Matrix times vector (`operator*(const Mat4&, const Vec4&)`):
`result[i] += vec[j] * mat.m[i][j]` for `j = 0, ..., 3`. -/
def mulVec (mat : Mat4) (vec : Vec4) : Vec4 :=
  ⟨vec.x * mat.m 0 0 + vec.y * mat.m 0 1 + vec.z * mat.m 0 2 + vec.w * mat.m 0 3,
   vec.x * mat.m 1 0 + vec.y * mat.m 1 1 + vec.z * mat.m 1 2 + vec.w * mat.m 1 3,
   vec.x * mat.m 2 0 + vec.y * mat.m 2 1 + vec.z * mat.m 2 2 + vec.w * mat.m 2 3,
   vec.x * mat.m 3 0 + vec.y * mat.m 3 1 + vec.z * mat.m 3 2 + vec.w * mat.m 3 3⟩

/-- Matrix product (`operator*(const Mat4&, const Mat4&)`):
`result.m[i][j] += matA.m[i][k] * matB.m[k][j]` for `k = 0, ..., 3`. -/
def mul (matA matB : Mat4) : Mat4 :=
  ⟨fun i j => matA.m i 0 * matB.m 0 j + matA.m i 1 * matB.m 1 j + matA.m i 2 * matB.m 2 j
    + matA.m i 3 * matB.m 3 j⟩

end Mat4

/-! ## `plane.hpp` -/

/-- A plane: normal and signed distance (`plane.hpp`). -/
structure Plane where
  normal : Vec3
  distance : ℚ
deriving DecidableEq, Repr

/-- Signed distance of a point to a plane (`signed_distance`). -/
def signed_distance (plane : Plane) (vertex : Vec3) : ℚ :=
  Vec3.dot plane.normal vertex + plane.distance

/-- The five clipping planes `std::array<Plane, kCount>`: near, left, right, top, bottom
(`ClippingPlanes`). -/
structure ClippingPlanes where
  planes : Fin 5 → Plane

/-- The number of clipping planes (`ClippingPlanes::kCount`). -/
def ClippingPlanes.kCount : Nat := 5

/-! ## `color.hpp` -/

/-- An 8-bit RGBA pixel (`RGBA_U8`). -/
structure RGBA_U8 where
  r : Nat
  g : Nat
  b : Nat
  a : Nat
deriving DecidableEq, Repr

/-- A float RGBA colour (`Color`). -/
structure Color where
  r : ℚ
  g : ℚ
  b : ℚ
  a : ℚ
deriving DecidableEq, Repr

/-- Multiplication of a colour by a scalar (`operator*(const Color&, float)`). -/
def Color.mul (c : Color) (amount : ℚ) : Color :=
  ⟨c.r * amount, c.g * amount, c.b * amount, c.a * amount⟩

end cgfs

namespace cgfs

namespace rasterizer

/-! ## `texture.hpp`, `mesh.hpp`, `scene.hpp`, `draw3d.hpp`: the scene data -/

/-- Texture filter modes (`Texture::Filter`). -/
inductive Texture.Filter where
  | kNearest
  | kBilinear
  | kTrilinear
deriving DecidableEq, Repr

/-- A texture: dimensions, filter and pixels (`Texture`). -/
structure Texture where
  m_dimensions : Dims
  m_filter : Texture.Filter
  m_pixels : List RGBA_U8
deriving DecidableEq, Repr

/-- The instance transform: translation, rotation, uniform scaling (`Mesh::Transform`). -/
structure Mesh.Transform where
  translation : Vec3
  rotation : Mat3
  scaling : ℚ

/-- Model matrix `T * R * S` (`Mesh::Transform::to_mat4`). -/
def Mesh.Transform.to_mat4 (self : Mesh.Transform) : Mat4 :=
  let t := Mat4.translation self.translation
  let r := Mat4.rotation self.rotation
  let s := Mat4.scaling self.scaling
  Mat4.mul (Mat4.mul t r) s

/-- The bounding sphere of a mesh (`Mesh::BoundingSphere`). -/
structure Mesh.BoundingSphere where
  center : Vec3
  radius : ℚ
deriving DecidableEq, Repr

/-- A triangle of a mesh (`Mesh::Face`).  The pointer `texture` is `none` when it is the
address of the sentinel `Texture::kNone` and `some t` when it points to the texture `t`. -/
structure Mesh.Face where
  verts : Fin 3 → Nat
  normals : Fin 3 → Nat
  tex_coords : Fin 3 → Nat
  color : Color
  specular : ℚ
  texture : Option Texture

/-- A mesh (`Mesh`). -/
structure Mesh where
  vertices : List Vec3
  normals : List Vec3
  tex_coords : List TexCoords
  faces : List Mesh.Face
  bounding_sphere : Mesh.BoundingSphere

/-- A mesh with its transform (`Mesh::Instance`). -/
structure Mesh.Instance where
  mesh : Mesh
  transform : Mesh.Transform

/-- Kinds of lights (`Light::Type`). -/
inductive Light.Type where
  | kAmbient
  | kDirectional
  | kPoint
deriving DecidableEq, Repr

/-- A light (`Light`); `position` is the direction of a directional light. -/
structure Light where
  type : Light.Type
  position : Vec3
  intensity : ℚ
deriving DecidableEq, Repr

/-- The camera (`Camera`). -/
structure Camera where
  position : Vec3
  rotation : Mat3
  clipping_planes : ClippingPlanes

/-- Camera (view) matrix `C.r⁻¹ * C.t⁻¹` (`Camera::to_mat4`). -/
def Camera.to_mat4 (self : Camera) : Mat4 :=
  let r := Mat4.transposed (Mat4.rotation self.rotation)
  let t := Mat4.translation (Vec3.neg self.position)
  Mat4.mul r t

/-- A scene (`Scene`). -/
structure Scene where
  camera : Camera
  meshes_instances : List Mesh.Instance
  lights : List Light

/-- Draw flag `kWireframe = 1 << 1` (`DrawFlags`). -/
def DrawFlags.kWireframe : Nat := 1 <<< 1

/-- Draw flag `kColorFilled = 1 << 2`. -/
def DrawFlags.kColorFilled : Nat := 1 <<< 2

/-- Draw flag `kTextureMapped = 1 << 3`. -/
def DrawFlags.kTextureMapped : Nat := 1 <<< 3

/-- Draw flag `kOutlines = 1 << 4`. -/
def DrawFlags.kOutlines : Nat := 1 <<< 4

/-- Draw flag `kDepthTest = 1 << 5`. -/
def DrawFlags.kDepthTest : Nat := 1 <<< 5

/-- Draw flag `kBackFaceCull = 1 << 6`. -/
def DrawFlags.kBackFaceCull : Nat := 1 <<< 6

/-- Draw flag `kClipping = 1 << 7`. -/
def DrawFlags.kClipping : Nat := 1 <<< 7

/-- Draw flag `kComputeFaceNormals = 1 << 8`: override model normals with a computed
flat face normal. -/
def DrawFlags.kComputeFaceNormals : Nat := 1 <<< 8

/-- Light model `kDisabled = 0`: no lighting approximation, triangle colours only
(`LightModel`). -/
def LightModel.kDisabled : Nat := 0

/-- Light model flag `kDiffuse = 1 << 1`. -/
def LightModel.kDiffuse : Nat := 1 <<< 1

/-- Light model flag `kSpecular = 1 << 2`. -/
def LightModel.kSpecular : Nat := 1 <<< 2

/-- The test `if (flags & mask)` on an unsigned bitmask: the bitwise and is non-zero. -/
def has_flag (flags mask : Nat) : Bool := (flags &&& mask) != 0

/-- Shading models (`ShadeModel`). -/
inductive ShadeModel where
  | kDisabled
  | kFlat
  | kGouraud
  | kPhong
deriving DecidableEq, Repr

/-- The parameters of `draw_mesh` (`DrawMeshParams`). -/
structure DrawMeshParams where
  mesh : Mesh
  camera : Camera
  lights : List Light
  draw_flags : Nat
  light_model : Nat
  shade_model : ShadeModel
  model_view_mtx : Mat4
  rotation : Mat3
  scaling : ℚ

/-! ## `draw3d.cpp`: lighting -/

/-- The diffuse and specular components of one directional or point light in
`compute_lighting`: the intensity after these two components, from the intensity before
them and the light vector. -/
def compute_lighting_components (lm : Libm) (light_model : Nat) (vertex normal : Vec3)
    (camera : Camera) (specular : ℚ) (intensity : ℚ) (light : Light) (light_vector : Vec3) :
    ℚ :=
  -- Diffuse component.
  let intensity :=
    if has_flag light_model LightModel.kDiffuse then
      let cos_alpha := Vec3.dot light_vector normal /
        (Vec3.length lm light_vector * Vec3.length lm normal)
      if cos_alpha > 0 then intensity + cos_alpha * light.intensity else intensity
    else intensity
  -- Specular component.
  let intensity :=
    if has_flag light_model LightModel.kSpecular then
      let reflected := Vec3.sub (Vec3.mul normal (2 * Vec3.dot normal light_vector))
        light_vector
      let view := Vec3.sub camera.position vertex
      let cos_beta := Vec3.dot reflected view /
        (Vec3.length lm reflected * Vec3.length lm view)
      if cos_beta > 0 then intensity + lm.pow cos_beta specular * light.intensity
      else intensity
    else intensity
  intensity

/-- The body of the loop over the lights in `compute_lighting`: the intensity after the
light `light`, from the intensity before it. -/
def compute_lighting_step (lm : Libm) (light_model : Nat) (vertex normal : Vec3)
    (camera : Camera) (specular : ℚ) (intensity : ℚ) (light : Light) : ℚ :=
  match light.type with
  | Light.Type.kAmbient => intensity + light.intensity
  | Light.Type.kDirectional =>
    let camera_matrix := Mat3.transposed camera.rotation
    let rotated_light := Mat3.mulVec camera_matrix light.position
    -- Position is a vector already for directional lights.
    compute_lighting_components lm light_model vertex normal camera specular intensity light
      rotated_light
  | Light.Type.kPoint =>
    let camera_matrix := camera.to_mat4
    let transformed_light := Mat4.mulVec camera_matrix (Vec4.ofVec3 light.position 1)
    compute_lighting_components lm light_model vertex normal camera specular intensity light
      (Vec3.add (Vec3.mul vertex (-1)) transformed_light.xyz)

/-- The light intensity computed for a vertex (`compute_lighting`). -/
def compute_lighting (lm : Libm) (light_model : Nat) (vertex normal : Vec3) (camera : Camera)
    (specular : ℚ) (lights : List Light) : ℚ :=
  if has_flag light_model LightModel.kDisabled then 1
  else
    let intensity :=
      lights.foldl (compute_lighting_step lm light_model vertex normal camera specular) 0
    std_clamp intensity 0 1

/-! ## `draw3d.cpp`: clipping and culling -/

/-- The bounding-sphere test (`clip_mesh_bounds`): true as soon as one plane has the
transformed centre at a signed distance below `-radius`. -/
def clip_mesh_bounds (clipping_planes : ClippingPlanes) (mesh : Mesh) (model_view_mtx : Mat4)
    (scale : ℚ) : Bool :=
  let center := Mat4.mulVec model_view_mtx (Vec4.ofVec3 mesh.bounding_sphere.center 1)
  let radius := mesh.bounding_sphere.radius * scale
  (List.finRange ClippingPlanes.kCount).any fun p =>
    let plane := clipping_planes.planes p
    let distance := signed_distance plane center.xyz
    decide (distance < -radius)

/-- The per-triangle clip (`clip_triangle`): true as soon as one plane has fewer than three
of the vertices at a positive signed distance. -/
def clip_triangle (clipping_planes : ClippingPlanes) (v0 v1 v2 : Vec4) : Bool :=
  (List.finRange ClippingPlanes.kCount).any fun p =>
    let plane := clipping_planes.planes p
    let in0 : Nat := if signed_distance plane v0.xyz > 0 then 1 else 0
    let in1 : Nat := if signed_distance plane v1.xyz > 0 then 1 else 0
    let in2 : Nat := if signed_distance plane v2.xyz > 0 then 1 else 0
    let count := in0 + in1 + in2
    match count with
    | 0 => true
    | 1 => true
    | 2 => true
    | _ => false

/-- The normal of a triangle (`compute_triangle_normal`). -/
def compute_triangle_normal (lm : Libm) (v0 v1 v2 : Vec4) : Vec3 :=
  let v0v1 := Vec4.sub v1 v0
  let v0v2 := Vec4.sub v2 v0
  Vec3.normalize lm (Vec3.cross v0v1.xyz v0v2.xyz)

/-- The back-face test (`is_back_facing_triangle`): the boolean result and the value
written to `*triangle_normal_out`. -/
def is_back_facing_triangle (lm : Libm) (v0 v1 v2 : Vec4) : Bool × Vec3 :=
  let triangle_normal_out := compute_triangle_normal lm v0 v1 v2
  let vertex_to_camera := Vec3.neg v0.xyz
  if Vec3.dot vertex_to_camera triangle_normal_out ≤ 0 then (true, triangle_normal_out)
  else (false, triangle_normal_out)

end rasterizer

end cgfs

namespace cgfs

/-! ## `canvas.hpp`: projection -/

/-- The canvas: pixel buffer and dimensions (`Canvas`; the name string is left out). -/
structure Canvas where
  m_pixel_buffer : List RGBA_U8
  m_dimensions : Dims
deriving DecidableEq, Repr

namespace Canvas

/-- Viewport to canvas coordinates (`viewport_to_canvas`, `viewport_size = 1.0f`). -/
def viewport_to_canvas (self : Canvas) (x y : ℚ) (viewport_size : ℚ) : Point2 :=
  ⟨rasterizer.truncToInt (x * (self.m_dimensions.width : ℚ) / viewport_size),
   rasterizer.truncToInt (y * (self.m_dimensions.height : ℚ) / viewport_size)⟩

/-- Perspective projection of a view-space point (`project_vertex`,
`projection_plane_z = 1.0f`).  For `v.z = 0` the C++ code divides by zero and converts a
non-finite float to `int`, which is undefined: that case is `none`. -/
def project_vertex (self : Canvas) (v : Vec3) (projection_plane_z : ℚ) : Option Point2 :=
  if v.z = 0 then none
  else some (self.viewport_to_canvas (v.x * projection_plane_z / v.z)
    (v.y * projection_plane_z / v.z) 1)

end Canvas

namespace rasterizer

/-! ## `draw3d.cpp`: drawing a mesh -/

/-- One call made by `draw_mesh` to a routine of `draw2d` (`tris.hpp`, `lines.hpp`), with
its arguments in the order of the declaration, the canvas and the depth buffer left out.
`draw_mesh` touches the canvas and the depth buffer through these calls only. -/
inductive DrawCall where
  | draw_wireframe_triangle (p0 p1 p2 : Point2) (color : Color)
  | draw_filled_triangle (p0 p1 p2 : Point2) (color : Color)
  | draw_textured_triangle (p0 : Point2) (t0 : TexCoords) (p1 : Point2) (t1 : TexCoords)
      (p2 : Point2) (t2 : TexCoords) (texture : Texture)
  | draw_filled_triangle_depth_tested (p0 : Point2) (z0 : ℚ) (p1 : Point2) (z1 : ℚ)
      (p2 : Point2) (z2 : ℚ) (color : Color)
  | draw_textured_triangle_depth_tested (p0 : Point2) (z0 : ℚ) (t0 : TexCoords)
      (p1 : Point2) (z1 : ℚ) (t1 : TexCoords) (p2 : Point2) (z2 : ℚ) (t2 : TexCoords)
      (texture : Texture)
  | draw_shaded_triangle (p0 : Point2) (i0 : ℚ) (p1 : Point2) (i1 : ℚ) (p2 : Point2)
      (i2 : ℚ) (color : Color)
  | draw_shaded_textured_triangle (p0 : Point2) (i0 : ℚ) (t0 : TexCoords) (p1 : Point2)
      (i1 : ℚ) (t1 : TexCoords) (p2 : Point2) (i2 : ℚ) (t2 : TexCoords) (texture : Texture)
  | draw_shaded_triangle_depth_tested (p0 : Point2) (z0 i0 : ℚ) (p1 : Point2) (z1 i1 : ℚ)
      (p2 : Point2) (z2 i2 : ℚ) (color : Color)
  | draw_shaded_textured_triangle_depth_tested (p0 : Point2) (z0 i0 : ℚ) (t0 : TexCoords)
      (p1 : Point2) (z1 i1 : ℚ) (t1 : TexCoords) (p2 : Point2) (z2 i2 : ℚ) (t2 : TexCoords)
      (texture : Texture)
  | draw_phong_shaded_triangle (p0 : Point2) (n0 : Vec3) (p1 : Point2) (n1 : Vec3)
      (p2 : Point2) (n2 : Vec3) (color : Color) (compute_lighting_fn : Vec3 → Vec3 → ℚ)
  | draw_phong_shaded_textured_triangle (p0 : Point2) (n0 : Vec3) (t0 : TexCoords)
      (p1 : Point2) (n1 : Vec3) (t1 : TexCoords) (p2 : Point2) (n2 : Vec3) (t2 : TexCoords)
      (texture : Texture) (compute_lighting_fn : Vec3 → Vec3 → ℚ)
  | draw_phong_shaded_triangle_depth_tested (p0 : Point2) (z0 : ℚ) (n0 : Vec3)
      (p1 : Point2) (z1 : ℚ) (n1 : Vec3) (p2 : Point2) (z2 : ℚ) (n2 : Vec3) (color : Color)
      (compute_lighting_fn : Vec3 → Vec3 → ℚ)
  | draw_phong_shaded_textured_triangle_depth_tested (p0 : Point2) (z0 : ℚ) (n0 : Vec3)
      (t0 : TexCoords) (p1 : Point2) (z1 : ℚ) (n1 : Vec3) (t1 : TexCoords) (p2 : Point2)
      (z2 : ℚ) (n2 : Vec3) (t2 : TexCoords) (texture : Texture)
      (compute_lighting_fn : Vec3 → Vec3 → ℚ)
  | draw_line (p0 p1 : Point2) (color : Color)

/-- The routines that fill a triangle with the face colour, without any texture. -/
def DrawCall.is_color_fill : DrawCall → Bool
  | .draw_filled_triangle .. => true
  | .draw_filled_triangle_depth_tested .. => true
  | .draw_shaded_triangle .. => true
  | .draw_shaded_triangle_depth_tested .. => true
  | .draw_phong_shaded_triangle .. => true
  | .draw_phong_shaded_triangle_depth_tested .. => true
  | _ => false

/-- The routines that take a texture (and sample it). -/
def DrawCall.is_textured : DrawCall → Bool
  | .draw_textured_triangle .. => true
  | .draw_textured_triangle_depth_tested .. => true
  | .draw_shaded_textured_triangle .. => true
  | .draw_shaded_textured_triangle_depth_tested .. => true
  | .draw_phong_shaded_textured_triangle .. => true
  | .draw_phong_shaded_textured_triangle_depth_tested .. => true
  | _ => false

/-- The routine `draw_line`. -/
def DrawCall.is_line : DrawCall → Bool
  | .draw_line .. => true
  | _ => false

/-- The three view-space vertices of a face in `draw_mesh`:
`model_view_mtx * Vec4{ mesh.vertices[face.verts[k]], 1.0f }`.  An index outside
`mesh.vertices` is an out-of-range access: `none`. -/
def face_transformed_verts (params : DrawMeshParams) (face : Mesh.Face) :
    Option (Vec4 × Vec4 × Vec4) :=
  (params.mesh.vertices[face.verts 0]?).bind fun vert0 =>
  (params.mesh.vertices[face.verts 1]?).bind fun vert1 =>
  (params.mesh.vertices[face.verts 2]?).bind fun vert2 =>
  some (Mat4.mulVec params.model_view_mtx (Vec4.ofVec3 vert0 1),
        Mat4.mulVec params.model_view_mtx (Vec4.ofVec3 vert1 1),
        Mat4.mulVec params.model_view_mtx (Vec4.ofVec3 vert2 1))

/-- The back-face stage of `draw_mesh`: `Vec3 triangle_normal{}` followed by
`(draw_flags & kBackFaceCull) && is_back_facing_triangle(&triangle_normal, ...)`.  The
result is whether the face is skipped, and the value of `triangle_normal` afterwards;
`is_back_facing_triangle` is called only when the flag is set. -/
def face_back_face_stage (lm : Libm) (draw_flags : Nat) (v0 v1 v2 : Vec4) : Bool × Vec3 :=
  if has_flag draw_flags DrawFlags.kBackFaceCull then is_back_facing_triangle lm v0 v1 v2
  else (false, ⟨0, 0, 0⟩)

/-- The transformed model normal `normal_mtx * mesh.normals[face.normals[k]]`. -/
def face_model_normal (params : DrawMeshParams) (face : Mesh.Face) (k : Fin 3) :
    Option Vec3 :=
  (params.mesh.normals[face.normals k]?).map fun n =>
    Mat3.mulVec (Mat3.mul (Mat3.transposed params.camera.rotation) params.rotation) n

/-- The light and shading stage of `draw_mesh`: the arrays `intensities[3]` and
`normals[3]`, both zero-initialised, after the branch on the shade model. -/
def face_shading (lm : Libm) (params : DrawMeshParams) (face : Mesh.Face)
    (triangle_normal : Vec3) (v0 v1 v2 : Vec4) :
    Option ((ℚ × ℚ × ℚ) × (Vec3 × Vec3 × Vec3)) :=
  let zero : Vec3 := ⟨0, 0, 0⟩
  match params.shade_model with
  | ShadeModel.kFlat =>
    -- Flat shading: compute lighting for the entire triangle.
    (if has_flag params.draw_flags DrawFlags.kComputeFaceNormals then some triangle_normal
      else face_model_normal params face 0).bind fun n0 =>
    let center := Vec4.div (Vec4.add (Vec4.add v0 v1) v2) 3
    let i0 := compute_lighting lm params.light_model center.xyz n0 params.camera
      face.specular params.lights
    some ((i0, i0, i0), (n0, zero, zero))
  | ShadeModel.kGouraud =>
    -- Gouraud shading: compute lighting at the vertices.
    (if has_flag params.draw_flags DrawFlags.kComputeFaceNormals then
        some (triangle_normal, triangle_normal, triangle_normal)
      else
        (face_model_normal params face 0).bind fun n0 =>
        (face_model_normal params face 1).bind fun n1 =>
        (face_model_normal params face 2).bind fun n2 => some (n0, n1, n2)).bind
    fun normals =>
    some ((compute_lighting lm params.light_model v0.xyz normals.1 params.camera
            face.specular params.lights,
           compute_lighting lm params.light_model v1.xyz normals.2.1 params.camera
            face.specular params.lights,
           compute_lighting lm params.light_model v2.xyz normals.2.2 params.camera
            face.specular params.lights), normals)
  | ShadeModel.kPhong =>
    -- Phong shading: interpolate normal vectors and compute lighting per pixel.
    (if has_flag params.draw_flags DrawFlags.kComputeFaceNormals then
        some (triangle_normal, triangle_normal, triangle_normal)
      else
        (face_model_normal params face 0).bind fun n0 =>
        (face_model_normal params face 1).bind fun n1 =>
        (face_model_normal params face 2).bind fun n2 => some (n0, n1, n2)).bind
    fun normals => some ((0, 0, 0), normals)
  | ShadeModel.kDisabled => some ((0, 0, 0), (zero, zero, zero))

end rasterizer

end cgfs

namespace cgfs

namespace rasterizer

/-- The dispatch stage of `draw_mesh` for one face: the fill (or wireframe) call chosen from
the flags, the texture and the shade model, followed by the three outline calls when
`kOutlines` is set.  Reading a texture coordinate outside `mesh.tex_coords` is `none`. -/
def face_dispatch (lm : Libm) (params : DrawMeshParams) (face : Mesh.Face)
    (v0 v1 v2 : Vec4) (p0 p1 p2 : Point2) (intensities : ℚ × ℚ × ℚ)
    (normals : Vec3 × Vec3 × Vec3) : Option (List DrawCall) :=
  let draw_flags := params.draw_flags
  let texture_mapped := has_flag draw_flags DrawFlags.kTextureMapped && face.texture.isSome
  let color_filled := has_flag draw_flags DrawFlags.kColorFilled || face.texture.isNone
  let wireframe := has_flag draw_flags DrawFlags.kWireframe && !color_filled && !texture_mapped
  let compute_lighting_fn : Vec3 → Vec3 → ℚ := fun point normal =>
    compute_lighting lm params.light_model point normal params.camera face.specular
      params.lights
  let fill : Option (List DrawCall) :=
    if color_filled then
      match params.shade_model with
      | ShadeModel.kDisabled =>
        if has_flag draw_flags DrawFlags.kDepthTest then
          some [DrawCall.draw_filled_triangle_depth_tested p0 v0.z p1 v1.z p2 v2.z face.color]
        else
          some [DrawCall.draw_filled_triangle p0 p1 p2 face.color]
      | ShadeModel.kPhong =>
        if has_flag draw_flags DrawFlags.kDepthTest then
          some [DrawCall.draw_phong_shaded_triangle_depth_tested p0 v0.z normals.1
            p1 v1.z normals.2.1 p2 v2.z normals.2.2 face.color compute_lighting_fn]
        else
          some [DrawCall.draw_phong_shaded_triangle p0 normals.1 p1 normals.2.1
            p2 normals.2.2 face.color compute_lighting_fn]
      | _ =>
        -- kFlat or kGouraud
        if has_flag draw_flags DrawFlags.kDepthTest then
          some [DrawCall.draw_shaded_triangle_depth_tested p0 v0.z intensities.1
            p1 v1.z intensities.2.1 p2 v2.z intensities.2.2 face.color]
        else
          some [DrawCall.draw_shaded_triangle p0 intensities.1 p1 intensities.2.1
            p2 intensities.2.2 face.color]
    else if texture_mapped then
      match face.texture with
      | none => some [] -- not reached: `texture_mapped` holds only with a texture
      | some texture =>
        (params.mesh.tex_coords[face.tex_coords 0]?).bind fun tex_coords0 =>
        (params.mesh.tex_coords[face.tex_coords 1]?).bind fun tex_coords1 =>
        (params.mesh.tex_coords[face.tex_coords 2]?).bind fun tex_coords2 =>
        match params.shade_model with
        | ShadeModel.kDisabled =>
          if has_flag draw_flags DrawFlags.kDepthTest then
            some [DrawCall.draw_textured_triangle_depth_tested p0 v0.z tex_coords0
              p1 v1.z tex_coords1 p2 v2.z tex_coords2 texture]
          else
            some [DrawCall.draw_textured_triangle p0 tex_coords0 p1 tex_coords1
              p2 tex_coords2 texture]
        | ShadeModel.kPhong =>
          if has_flag draw_flags DrawFlags.kDepthTest then
            some [DrawCall.draw_phong_shaded_textured_triangle_depth_tested
              p0 v0.z normals.1 tex_coords0 p1 v1.z normals.2.1 tex_coords1
              p2 v2.z normals.2.2 tex_coords2 texture compute_lighting_fn]
          else
            some [DrawCall.draw_phong_shaded_textured_triangle p0 normals.1 tex_coords0
              p1 normals.2.1 tex_coords1 p2 normals.2.2 tex_coords2 texture
              compute_lighting_fn]
        | _ =>
          -- kFlat or kGouraud
          if has_flag draw_flags DrawFlags.kDepthTest then
            some [DrawCall.draw_shaded_textured_triangle_depth_tested
              p0 v0.z intensities.1 tex_coords0 p1 v1.z intensities.2.1 tex_coords1
              p2 v2.z intensities.2.2 tex_coords2 texture]
          else
            some [DrawCall.draw_shaded_textured_triangle p0 intensities.1 tex_coords0
              p1 intensities.2.1 tex_coords1 p2 intensities.2.2 tex_coords2 texture]
    else if wireframe then
      some [DrawCall.draw_wireframe_triangle p0 p1 p2 face.color]
    else some []
  let outlines : List DrawCall :=
    if has_flag draw_flags DrawFlags.kOutlines then
      let outline_color := Color.mul face.color (3 / 4)
      [DrawCall.draw_line p0 p1 outline_color, DrawCall.draw_line p0 p2 outline_color,
        DrawCall.draw_line p2 p1 outline_color]
    else []
  fill.map fun calls => calls ++ outlines

/-- The body of the loop over the faces in `draw_mesh`: the calls made for one face, `[]`
when the face is skipped by the clip or by the back-face cull (`continue`). -/
def draw_mesh_face (lm : Libm) (canvas : Canvas) (params : DrawMeshParams)
    (face : Mesh.Face) : Option (List DrawCall) :=
  (face_transformed_verts params face).bind fun verts =>
  let transformed_vert0 := verts.1
  let transformed_vert1 := verts.2.1
  let transformed_vert2 := verts.2.2
  if has_flag params.draw_flags DrawFlags.kClipping &&
      clip_triangle params.camera.clipping_planes transformed_vert0 transformed_vert1
        transformed_vert2 then
    some []
  else
    let cull := face_back_face_stage lm params.draw_flags transformed_vert0
      transformed_vert1 transformed_vert2
    if cull.1 then some []
    else
      (canvas.project_vertex transformed_vert0.xyz 1).bind fun projected_vert0 =>
      (canvas.project_vertex transformed_vert1.xyz 1).bind fun projected_vert1 =>
      (canvas.project_vertex transformed_vert2.xyz 1).bind fun projected_vert2 =>
      (face_shading lm params face cull.2 transformed_vert0 transformed_vert1
        transformed_vert2).bind fun shading =>
      face_dispatch lm params face transformed_vert0 transformed_vert1 transformed_vert2
        projected_vert0 projected_vert1 projected_vert2 shading.1 shading.2

/-- The loop over the faces in `draw_mesh`. -/
def draw_mesh_faces (lm : Libm) (canvas : Canvas) (params : DrawMeshParams) :
    List Mesh.Face → Option (List DrawCall)
  | [] => some []
  | face :: rest =>
    (draw_mesh_face lm canvas params face).bind fun calls =>
    (draw_mesh_faces lm canvas params rest).map fun more => calls ++ more

/-- The calls made by `draw_mesh`, in order: none when the clipping flag is set and the
bounding sphere is clipped (early `return`), else those of the faces in turn. -/
def draw_mesh (lm : Libm) (canvas : Canvas) (params : DrawMeshParams) :
    Option (List DrawCall) :=
  if has_flag params.draw_flags DrawFlags.kClipping &&
      clip_mesh_bounds params.camera.clipping_planes params.mesh params.model_view_mtx
        params.scaling then
    some []
  else draw_mesh_faces lm canvas params params.mesh.faces

/-- The effect of `draw_mesh` on the pair of canvas and depth buffer, of type `S`, given the
effect `exec` of each `draw2d` routine: the calls are executed in order. -/
def draw_mesh_run {S : Type} (exec : DrawCall → S → S) (lm : Libm) (canvas : Canvas)
    (params : DrawMeshParams) (state : S) : Option S :=
  (draw_mesh lm canvas params).map fun calls => calls.foldl (fun s call => exec call s) state

/-- The parameters which `draw_scene` passes to `draw_mesh` for one instance. -/
def draw_scene_params (scene : Scene) (draw_flags light_model : Nat)
    (shade_model : ShadeModel) (inst : Mesh.Instance) : DrawMeshParams :=
  let camera_mtx := scene.camera.to_mat4
  let model_to_world_mtx := inst.transform.to_mat4
  let model_view_mtx := Mat4.mul camera_mtx model_to_world_mtx
  { mesh := inst.mesh
    camera := scene.camera
    lights := scene.lights
    draw_flags := draw_flags
    light_model := light_model
    shade_model := shade_model
    model_view_mtx := model_view_mtx
    rotation := inst.transform.rotation
    scaling := inst.transform.scaling }

/-- The loop over the instances in `draw_scene`. -/
def draw_scene_instances (lm : Libm) (canvas : Canvas) (scene : Scene)
    (draw_flags light_model : Nat) (shade_model : ShadeModel) :
    List Mesh.Instance → Option (List DrawCall)
  | [] => some []
  | inst :: rest =>
    (draw_mesh lm canvas
      (draw_scene_params scene draw_flags light_model shade_model inst)).bind fun calls =>
    (draw_scene_instances lm canvas scene draw_flags light_model shade_model rest).map
      fun more => calls ++ more

/-- The calls made by `draw_scene`: those of `draw_mesh` for each instance in turn. -/
def draw_scene (lm : Libm) (canvas : Canvas) (scene : Scene) (draw_flags light_model : Nat)
    (shade_model : ShadeModel) : Option (List DrawCall) :=
  draw_scene_instances lm canvas scene draw_flags light_model shade_model
    scene.meshes_instances

/-- The view-space vertex of an instance: `model_view_mtx * Vec4{ vert, 1.0f }` of
`draw_mesh`, with `model_view_mtx = camera_mtx * model_to_world_mtx` of `draw_scene`. -/
def view_space_vertex (camera : Camera) (transform : Mesh.Transform) (vert : Vec3) : Vec4 :=
  Mat4.mulVec (Mat4.mul camera.to_mat4 transform.to_mat4) (Vec4.ofVec3 vert 1)

/-! ## The diffuse lighting sum, as the specification words it -/

/-- The specification's `cos(angle(L, normal))`: the dot product over the product of the
lengths. -/
def cos_angle_spec (lm : Libm) (l normal : Vec3) : ℚ :=
  Vec3.dot l normal / (Vec3.length lm l * Vec3.length lm normal)

/-- The specification's contribution of one light with only the diffuse flag set:
`light.intensity` for an ambient light, and `max(0, cos(angle(L, normal))) * light.intensity`
for a directional light, with `L = transposed(camera.rotation) * direction`, and for a point
light, with `L = (camera view matrix * position) - vertex`. -/
def diffuse_contribution_spec (lm : Libm) (vertex normal : Vec3) (camera : Camera)
    (light : Light) : ℚ :=
  match light.type with
  | Light.Type.kAmbient => light.intensity
  | Light.Type.kDirectional =>
    max 0 (cos_angle_spec lm (Mat3.mulVec (Mat3.transposed camera.rotation) light.position)
      normal) * light.intensity
  | Light.Type.kPoint =>
    max 0 (cos_angle_spec lm
      (Vec3.sub (Mat4.mulVec camera.to_mat4 (Vec4.ofVec3 light.position 1)).xyz vertex)
      normal) * light.intensity

/-- The specification's diffuse lighting: the sum of the contributions over the whole light
list, clamped once to `[0, 1]`. -/
def diffuse_lighting_spec (lm : Libm) (vertex normal : Vec3) (camera : Camera)
    (lights : List Light) : ℚ :=
  std_clamp ((lights.map (diffuse_contribution_spec lm vertex normal camera)).sum) 0 1

end rasterizer

end cgfs

namespace cgfs

/-! ## `color.cpp` and `rasterizer_demo.cpp`: the demo data -/

/-- The colour `Color::kWhite` (`color.cpp`). -/
def Color.kWhite : Color := ⟨1, 1, 1, 1⟩

/-- The colour `Color::kGray`. -/
def Color.kGray : Color := ⟨1 / 2, 1 / 2, 1 / 2, 1⟩

/-- The colour `Color::kBrightRed`. -/
def Color.kBrightRed : Color := ⟨1, 0, 0, 1⟩

/-- The colour `Color::kBrightGreen`. -/
def Color.kBrightGreen : Color := ⟨0, 1, 0, 1⟩

/-- The colour `Color::kBrightBlue`. -/
def Color.kBrightBlue : Color := ⟨0, 0, 1, 1⟩

/-- The colour `Color::kBrightYellow`. -/
def Color.kBrightYellow : Color := ⟨1, 1, 0, 1⟩

/-- The colour `Color::kCyan`. -/
def Color.kCyan : Color := ⟨0, 1, 1, 1⟩

/-- The colour `Color::kPurple`. -/
def Color.kPurple : Color := ⟨1, 0, 1, 1⟩

namespace rasterizer

/-- The clipping planes of a 90 degrees field of view (`make_clipping_planes_90fov`,
`rasterizer_demo.cpp`).  The constant `s2 = 1.0f / std::sqrt(2.0f)` is the single-precision
float `0.707106769...`, exactly `11863283 / 2^24`. -/
def make_clipping_planes_90fov : ClippingPlanes :=
  let s2 : ℚ := 11863283 / 16777216
  ⟨![⟨⟨0, 0, 1⟩, -1⟩,      -- Near
     ⟨⟨s2, 0, s2⟩, 0⟩,     -- Left
     ⟨⟨-s2, 0, s2⟩, 0⟩,    -- Right
     ⟨⟨0, -s2, s2⟩, 0⟩,    -- Top
     ⟨⟨0, s2, s2⟩, 0⟩]⟩    -- Bottom

/-- The demo cube (`make_demo_cube_mesh`, `rasterizer_demo.cpp`); its texture is loaded
from a file and is a parameter here.  The radius `std::sqrt(3.0f)` of the bounding sphere
is the single-precision float `1.73205077...`, exactly `14529495 / 2^23`. -/
def make_demo_cube_mesh (texture : Texture) : Mesh where
  vertices := [⟨1, 1, 1⟩, ⟨-1, 1, 1⟩, ⟨-1, -1, 1⟩, ⟨1, -1, 1⟩,
    ⟨1, 1, -1⟩, ⟨-1, 1, -1⟩, ⟨-1, -1, -1⟩, ⟨1, -1, -1⟩]
  normals := [⟨0, 0, 1⟩, ⟨1, 0, 0⟩, ⟨0, 0, -1⟩, ⟨-1, 0, 0⟩, ⟨0, 1, 0⟩, ⟨0, -1, 0⟩]
  tex_coords := [⟨0, 0⟩, ⟨0, 1⟩, ⟨1, 0⟩, ⟨1, 1⟩]
  faces := [
      ⟨![0, 1, 2], ![0, 0, 0], ![0, 2, 3], Color.kBrightRed, 50, some texture⟩,
      ⟨![0, 2, 3], ![0, 0, 0], ![0, 3, 1], Color.kBrightRed, 50, some texture⟩,
      ⟨![4, 0, 3], ![1, 1, 1], ![0, 2, 3], Color.kBrightGreen, 50, some texture⟩,
      ⟨![4, 3, 7], ![1, 1, 1], ![0, 3, 1], Color.kBrightGreen, 50, some texture⟩,
      ⟨![5, 4, 7], ![2, 2, 2], ![0, 2, 3], Color.kBrightBlue, 50, some texture⟩,
      ⟨![5, 7, 6], ![2, 2, 2], ![0, 3, 1], Color.kBrightBlue, 50, some texture⟩,
      ⟨![1, 5, 6], ![3, 3, 3], ![0, 2, 3], Color.kBrightYellow, 50, some texture⟩,
      ⟨![1, 6, 2], ![3, 3, 3], ![0, 3, 1], Color.kBrightYellow, 50, some texture⟩,
      ⟨![4, 5, 1], ![4, 4, 4], ![0, 2, 3], Color.kPurple, 50, some texture⟩,
      ⟨![4, 1, 0], ![4, 4, 4], ![1, 3, 0], Color.kPurple, 50, some texture⟩,
      ⟨![2, 6, 7], ![5, 5, 5], ![0, 2, 3], Color.kCyan, 50, some texture⟩,
      ⟨![2, 7, 3], ![5, 5, 5], ![0, 3, 1], Color.kCyan, 50, some texture⟩]
  bounding_sphere := ⟨⟨0, 0, 0⟩, 14529495 / 8388608⟩

end rasterizer

end cgfs

/-! # 2-D drawing: pixels, lines and triangles -/

namespace cgfs

/-! ## `utils.hpp`, `color.hpp` and `canvas.hpp`, continued -/

/-- The test `is_normalized(float)`: `f >= 0.0f && f <= 1.0f`. -/
def is_normalized (f : ℚ) : Bool := decide (f ≥ 0) && decide (f ≤ 1)

/-- The colour `Color::kBlack` (`color.cpp`). -/
def Color.kBlack : Color := ⟨0, 0, 0, 1⟩

/-- The test `is_normalized(const Color&)`. -/
def Color.is_normalized (c : Color) : Bool :=
  cgfs.is_normalized c.r && cgfs.is_normalized c.g && cgfs.is_normalized c.b &&
    cgfs.is_normalized c.a

/-- The conversion `Color::to_rgba_u8`: the assertion that the four channels are normalised,
then `static_cast<std::uint8_t>(channel * 255.0f)`, a truncation of a value of
`[0, 255]`. -/
def Color.to_rgba_u8 (c : Color) : Option RGBA_U8 :=
  if cgfs.is_normalized c.r && cgfs.is_normalized c.g && cgfs.is_normalized c.b &&
      cgfs.is_normalized c.a then
    some ⟨(rasterizer.truncToInt (c.r * 255)).toNat, (rasterizer.truncToInt (c.g * 255)).toNat,
      (rasterizer.truncToInt (c.b * 255)).toNat, (rasterizer.truncToInt (c.a * 255)).toNat⟩
  else none

namespace Canvas

/-- The constructor: `assert(m_dimensions.is_valid())`, then `width * height` cells holding
the converted clear colour. -/
def create (dimensions : Dims) (clearColor : Color) : Option Canvas :=
  if dimensions.is_valid then
    (Color.to_rgba_u8 clearColor).map fun c =>
      ⟨List.replicate (dimensions.width * dimensions.height).toNat c, dimensions⟩
  else none

/-- The class invariant established by the constructor: valid dimensions and
`width * height` cells. -/
def WellFormed (self : Canvas) : Prop :=
  self.m_dimensions.is_valid = true ∧
    self.m_pixel_buffer.length = (self.m_dimensions.width * self.m_dimensions.height).toNat

/-- Writing one pixel (`draw_pixel`).  A point that maps outside the buffer is dropped;
`none` is a failure of `assert(pixel_idx < m_pixel_buffer.size())` or of the assertion of
`Color::to_rgba_u8`. -/
def draw_pixel (self : Canvas) (point : Point2) (color : Color) : Option Canvas :=
  let x := Int.tdiv self.m_dimensions.width 2 + point.x
  let y := Int.tdiv self.m_dimensions.height 2 - point.y - 1
  if x < 0 ∨ x ≥ self.m_dimensions.width ∨ y < 0 ∨ y ≥ self.m_dimensions.height then
    some self
  else
    let pixel_idx : Nat := (x + y * self.m_dimensions.width).toNat
    if pixel_idx < self.m_pixel_buffer.length then
      (Color.to_rgba_u8 color).map fun c =>
        { self with m_pixel_buffer := self.m_pixel_buffer.set pixel_idx c }
    else none

/-- The calls `draw_pixel(point, color)` of a drawing routine, one per element of the list,
in order. -/
def draw_pixels : Canvas → List (Point2 × Color) → Option Canvas
  | self, [] => some self
  | self, (point, color) :: rest =>
    match self.draw_pixel point color with
    | none => none
    | some next => draw_pixels next rest

/-- Whether a point maps inside the pixel buffer: the negation of the bounds check of
`draw_pixel`.  It serves to state what a canvas shows at a point. -/
def in_bounds (self : Canvas) (point : Point2) : Bool :=
  decide (0 ≤ Int.tdiv self.m_dimensions.width 2 + point.x ∧
    Int.tdiv self.m_dimensions.width 2 + point.x < self.m_dimensions.width ∧
    0 ≤ Int.tdiv self.m_dimensions.height 2 - point.y - 1 ∧
    Int.tdiv self.m_dimensions.height 2 - point.y - 1 < self.m_dimensions.height)

/-- The index `pixel_idx` which `draw_pixel` computes for a point:
`(w/2 + x) + (h/2 - y - 1) * w`. -/
def pixel_index (self : Canvas) (point : Point2) : Nat :=
  ((Int.tdiv self.m_dimensions.width 2 + point.x) +
    (Int.tdiv self.m_dimensions.height 2 - point.y - 1) * self.m_dimensions.width).toNat

/-- The cell of the pixel buffer which `draw_pixel` addresses for a point, none when the
point maps outside the buffer.  It serves to state what a canvas shows at a point. -/
def pixel_at (self : Canvas) (point : Point2) : Option RGBA_U8 :=
  if self.in_bounds point then self.m_pixel_buffer[self.pixel_index point]? else none

end Canvas

namespace rasterizer

/-! ## `lines.cpp` -/

/-- The inner loop `while (err > 0) { (is_steep ? x : y) += (is_steep ? sx : sy);
err -= 2 * dx; }` of `draw_line_bresenham`, on the variables `(x, y, err)`.  The first
argument bounds the number of iterations; the callers pass `err` itself, which is enough
when `dx >= 1`.  With `dx <= 0` and `err > 0` the C++ loop does not end: that is `none`. -/
def bresenham_while (is_steep : Bool) (sx sy dx : Int) :
    Nat → Int → Int → Int → Option (Int × Int × Int)
  | fuel, x, y, err =>
    if err > 0 then
      match fuel with
      | 0 => none
      | fuel + 1 =>
        bresenham_while is_steep sx sy dx fuel (if is_steep then x + sx else x)
          (if is_steep then y else y + sy) (err - 2 * dx)
    else some (x, y, err)

/-- The loop `for (int i = 0; i <= dx; ++i)` of `draw_line_bresenham`, on the variables
`(x, y, err)`: the points passed to `draw_pixel`, in order.  The first argument counts the
iterations that remain. -/
def bresenham_for (is_steep : Bool) (sx sy dx dy : Int) :
    Nat → Int → Int → Int → Option (List Point2)
  | 0, _, _, _ => some []
  | n + 1, x, y, err =>
    match bresenham_while is_steep sx sy dx err.toNat x y err with
    | none => none
    | some (x1, y1, err1) =>
      match bresenham_for is_steep sx sy dx dy n (if is_steep then x1 else x1 + sx)
          (if is_steep then y1 + sy else y1) (err1 + 2 * dy) with
      | none => none
      | some rest => some (⟨x, y⟩ :: rest)

/-- The points which `draw_line_bresenham` passes to `draw_pixel`, in order. -/
def draw_line_bresenham_points (p0 p1 : Point2) : Option (List Point2) :=
  let dx := |p1.x - p0.x|
  let dy := |p1.y - p0.y|
  let is_steep := decide (dy > dx)
  let dx' := if is_steep then dy else dx
  let dy' := if is_steep then dx else dy
  let sx : Int := if p0.x < p1.x then 1 else -1
  let sy : Int := if p0.y < p1.y then 1 else -1
  let err := (2 * dy') - dx'
  bresenham_for is_steep sx sy dx' dy' (dx' + 1).toNat p0.x p0.y err

/-- Bresenham's line (`draw_line_bresenham`). -/
def draw_line_bresenham (canvas : Canvas) (p0 p1 : Point2) (color : Color) : Option Canvas :=
  (draw_line_bresenham_points p0 p1).bind fun points =>
    canvas.draw_pixels (points.map fun p => (p, color))

/-- The line routine (`draw_line`). -/
def draw_line (canvas : Canvas) (p0 p1 : Point2) (color : Color) : Option Canvas :=
  draw_line_bresenham canvas p0 p1 color

/-! ## `tris.cpp`: wireframe, filled and shaded triangles -/

/-- The outline of a triangle (`draw_wireframe_triangle`). -/
def draw_wireframe_triangle (canvas : Canvas) (p0 p1 p2 : Point2) (color : Color) :
    Option Canvas :=
  (draw_line canvas p0 p1 color).bind fun canvas =>
  (draw_line canvas p1 p2 color).bind fun canvas =>
  draw_line canvas p2 p0 color

/-- The values taken by the counter of a loop `for (int i = lo; i <= hi; ++i)`. -/
def int_range (lo hi : Int) : List Int :=
  (List.range (hi + 1 - lo).toNat).map fun (k : Nat) => lo + Int.ofNat k

/-- A loop whose body produces a list of `draw_pixel` calls or fails: the calls of all
iterations, in order. -/
def for_each_concat {α β : Type} (body : α → Option (List β)) : List α → Option (List β)
  | [] => some []
  | a :: rest =>
    match body a with
    | none => none
    | some calls =>
      match for_each_concat body rest with
      | none => none
      | some more => some (calls ++ more)

/-- One scanline of `draw_filled_triangle`: the body of the loop over `y`. -/
def draw_filled_triangle_row (x_left x_right : Buffer Int) (p0 : Point2) (color : Color)
    (y : Int) : Option (List (Point2 × Color)) :=
  (x_left.get (y - p0.y)).bind fun xl =>
  (x_right.get (y - p0.y)).bind fun xr =>
  some ((int_range xl xr).map fun x => ((⟨x, y⟩ : Point2), color))

/-- The calls `draw_pixel(point, color)` made by `draw_filled_triangle`, in order. -/
def draw_filled_triangle_pixels (p0 p1 p2 : Point2) (color : Color) :
    Option (List (Point2 × Color)) :=
  let sorted := sort_points_by_y p0 p1 p2
  (interpolate_points sorted.1 sorted.2.1 sorted.2.2).bind fun edges =>
  for_each_concat (draw_filled_triangle_row edges.1 edges.2.1 sorted.1 color)
    (int_range sorted.1.y sorted.2.2.y)

/-- A triangle filled with one colour (`draw_filled_triangle`). -/
def draw_filled_triangle (canvas : Canvas) (p0 p1 p2 : Point2) (color : Color) :
    Option Canvas :=
  (draw_filled_triangle_pixels p0 p1 p2 color).bind canvas.draw_pixels

/-- One pixel of a scanline of `draw_shaded_triangle`: the body of the loop over `x`. -/
def draw_shaded_triangle_pixel (segment_intensities : Buffer ℚ) (xl y : Int) (color : Color)
    (x : Int) : Option (List (Point2 × Color)) :=
  (segment_intensities.get (x - xl)).bind fun s =>
  let intensity_val := min s 1
  some [((⟨x, y⟩ : Point2), color.mul intensity_val)]

/-- One scanline of `draw_shaded_triangle`: the body of the loop over `y`. -/
def draw_shaded_triangle_row (x_left x_right : Buffer Int) (i_left i_right : Buffer ℚ)
    (p0 : Point2) (color : Color) (y : Int) : Option (List (Point2 × Color)) :=
  (x_left.get (y - p0.y)).bind fun xl =>
  (x_right.get (y - p0.y)).bind fun xr =>
  (i_left.get (y - p0.y)).bind fun il =>
  (i_right.get (y - p0.y)).bind fun ir =>
  (interpolate xl il xr ir).bind fun segment_intensities =>
  for_each_concat (draw_shaded_triangle_pixel segment_intensities xl y color)
    (int_range xl xr)

/-- The calls `draw_pixel(point, color * intensity)` made by `draw_shaded_triangle`, in
order; `none` is a failed assertion (intensities not normalised, or a `Buffer` check). -/
def draw_shaded_triangle_pixels (p0 : Point2) (i0 : ℚ) (p1 : Point2) (i1 : ℚ) (p2 : Point2)
    (i2 : ℚ) (color : Color) : Option (List (Point2 × Color)) :=
  if is_normalized i0 && is_normalized i1 && is_normalized i2 then
    let sorted := sort_point_bundles_by_y (p0, i0) (p1, i1) (p2, i2)
    (interpolate_points sorted.1.1 sorted.2.1.1 sorted.2.2.1).bind fun edges =>
    (interpolate_attributes sorted.1.1 sorted.2.1.1 sorted.2.2.1
      sorted.1.2 sorted.2.1.2 sorted.2.2.2 edges.2.2).bind fun intensities =>
    for_each_concat
      (draw_shaded_triangle_row edges.1 edges.2.1 intensities.1 intensities.2 sorted.1.1 color)
      (int_range sorted.1.1.y sorted.2.2.1.y)
  else none

/-- A triangle shaded with one intensity per vertex (`draw_shaded_triangle`). -/
def draw_shaded_triangle (canvas : Canvas) (p0 : Point2) (i0 : ℚ) (p1 : Point2) (i1 : ℚ)
    (p2 : Point2) (i2 : ℚ) (color : Color) : Option Canvas :=
  (draw_shaded_triangle_pixels p0 i0 p1 i1 p2 i2 color).bind canvas.draw_pixels

end rasterizer

end cgfs

/-! # The bounding sphere of a mesh and the raytracer's intersection search -/

namespace cgfs

/-- A math library for evaluating concrete inputs whose `sqrt` never underestimates: the
exact square root on squares of rationals, and the integer square root of numerator times
denominator plus one, over the denominator, elsewhere. -/
def Libm.onRationalsUp : Libm where
  sqrt q :=
    let n := q.num.toNat * q.den
    let s := Nat.sqrt n
    (((if s * s = n then s else s + 1 : Nat)) : ℚ) / (q.den : ℚ)
  pow x y := Libm.onRationals.pow x y

/-- The test `is_zero(const Vec3&)`. -/
def Vec3.is_zero (v : Vec3) : Bool := decide (v.x = 0) && decide (v.y = 0) && decide (v.z = 0)

namespace rasterizer

/-! ## `mesh.cpp`: the bounding sphere -/

/-- Step 1 of `compute_bounding_sphere`, the body of the inner loop over `b`: the state is
`(p0, p1, maxDistSq)`. -/
def bounding_sphere_farthest_step (a : Vec3) (state : Vec3 × Vec3 × ℚ) (b : Vec3) :
    Vec3 × Vec3 × ℚ :=
  let d := Vec3.sub b a
  let distSq := Vec3.dot d d
  if distSq > state.2.2 then (a, b, distSq) else state

/-- Step 3 of `compute_bounding_sphere`, the body of the loop over `p`: the state is
`(center, radius)`. -/
def bounding_sphere_grow (lm : Libm) (state : Vec3 × ℚ) (p : Vec3) : Vec3 × ℚ :=
  let center := state.1
  let radius := state.2
  let d := Vec3.sub p center
  let distSq := Vec3.dot d d
  if distSq > radius * radius then
    let dist := lm.sqrt distSq
    let newRadius := (radius + dist) / 2
    let k := (newRadius - radius) / dist
    (⟨center.x + d.x * k, center.y + d.y * k, center.z + d.z * k⟩, newRadius)
  else state

/-- The bounding sphere of a list of points (`compute_bounding_sphere`). -/
def compute_bounding_sphere (lm : Libm) (points : List Vec3) : Mesh.BoundingSphere :=
  match points with
  | [] => ⟨⟨0, 0, 0⟩, 0⟩
  | first :: _ =>
    let farthest := points.foldl
      (fun state a => points.foldl (bounding_sphere_farthest_step a) state)
      (first, first, (0 : ℚ))
    let center := Vec3.div (Vec3.add farthest.1 farthest.2.1) 2
    let radius := lm.sqrt farthest.2.2 / 2
    let grown := points.foldl (bounding_sphere_grow lm) (center, radius)
    ⟨grown.1, grown.2⟩

end rasterizer

/-! ## `raytracer/scene.hpp` and `raytracer/raytrace.cpp` -/

namespace raytracer

/-- A float that may be `kInfinity`: `none` is `kInfinity`. -/
abbrev ExtFloat := Option ℚ

/-- The comparison `a < b` of two floats that may be `kInfinity`. -/
def ExtFloat.lt : ExtFloat → ExtFloat → Bool
  | some a, some b => decide (a < b)
  | some _, none => true
  | none, _ => false

/-- A surface material (`Material`). -/
structure Material where
  color : Color
  specular : ℚ
  reflectiveness : ℚ
  refractive_index : ℚ
deriving DecidableEq, Repr

/-- The squared radius of a sphere (`Sphere::Radius`). -/
structure Sphere.Radius where
  squared : ℚ
deriving DecidableEq, Repr

/-- The constructor `Radius(const float radius)`. -/
def Sphere.Radius.ofRadius (radius : ℚ) : Sphere.Radius := ⟨radius * radius⟩

/-- A sphere (`Sphere`). -/
structure Sphere where
  material : Material
  center : Vec3
  radius : Sphere.Radius
deriving DecidableEq, Repr

/-- A triangle of a mesh (`Mesh::Face`). -/
structure Mesh.Face where
  verts : Fin 3 → Nat
  normal : Nat

/-- A triangle mesh (`Mesh`). -/
structure Mesh where
  material : Material
  vertices : List Vec3
  normals : List Vec3
  faces : List Mesh.Face

/-- A scene (`Scene`; the lights play no part in the intersection search). -/
structure Scene where
  spheres : List Sphere
  meshes : List Mesh

/-- A ray (`Ray`). -/
structure Ray where
  origin : Vec3
  direction : Vec3
  min_t : ExtFloat
  max_t : ExtFloat
  refractive_index : ℚ

/-- The result of the search (`ClosestIntersection`). -/
structure ClosestIntersection where
  material : Material
  point : Vec3
  normal : Vec3
deriving DecidableEq, Repr

/-- The two parameters `t` of the intersections of a ray and a sphere
(`intersect_ray_sphere`). -/
def intersect_ray_sphere (lm : Libm) (ray : Ray) (sphere : Sphere) : ExtFloat × ExtFloat :=
  let oc := Vec3.sub ray.origin sphere.center
  let k1 := Vec3.dot ray.direction ray.direction
  let k2 := 2 * Vec3.dot oc ray.direction
  let k3 := Vec3.dot oc oc - sphere.radius.squared
  let discriminant := (k2 * k2) - (4 * k1 * k3)
  if discriminant < 0 then (none, none)
  else
    let discriminant_sqrt := lm.sqrt discriminant
    let t0 := (-k2 + discriminant_sqrt) / (2 * k1)
    let t1 := (-k2 - discriminant_sqrt) / (2 * k1)
    (some t0, some t1)

/-- One test `if (t < closest_t && ray.min_t < t && t < ray.max_t)` of
`closest_sphere_intersection` and of `closest_mesh_intersection`, with its assignment.  The
variables `closest_t` and the pointer to the closest object are assigned together: the
state is none while `closest_t` is `kInfinity` and the pointer is null. -/
def closest_update {Obj : Type} (ray : Ray) (object : Obj) (t : ExtFloat)
    (state : Option (ℚ × Obj)) : Option (ℚ × Obj) :=
  match t with
  | none => state
  | some tq =>
    if ExtFloat.lt (some tq) (state.map Prod.fst) && ExtFloat.lt ray.min_t (some tq) &&
        ExtFloat.lt (some tq) ray.max_t then
      some (tq, object)
    else state

/-- The closest sphere hit by a ray (`closest_sphere_intersection`); none is
`std::nullopt`. -/
def closest_sphere_intersection (lm : Libm) (ray : Ray) (spheres : List Sphere) :
    Option ClosestIntersection :=
  let closest := spheres.foldl (fun state sphere =>
    let ts := intersect_ray_sphere lm ray sphere
    closest_update ray sphere ts.2 (closest_update ray sphere ts.1 state)) none
  match closest with
  | none => none
  | some (closest_t, closest_sphere) =>
    let point := Vec3.add ray.origin (Vec3.mul ray.direction closest_t)
    let normal := Vec3.normalize lm (Vec3.sub point closest_sphere.center)
    some ⟨closest_sphere.material, point, normal⟩

/-- The intersection of a ray and a triangle (`RayTriangleIntersection`). -/
structure RayTriangleIntersection where
  bary_coords : Vec3
  distance : ℚ
deriving DecidableEq, Repr

/-- The intersection of a ray and a triangle (`intersect_ray_triangle`); none is
`std::nullopt`. -/
def intersect_ray_triangle (ray : Ray) (vert0 vert1 vert2 : Vec3) :
    Option RayTriangleIntersection :=
  let edge1 := Vec3.sub vert1 vert0
  let edge2 := Vec3.sub vert2 vert0
  let p := Vec3.cross ray.direction edge2
  let det := Vec3.dot edge1 p
  let dist := Vec3.sub ray.origin vert0
  let bary_x := Vec3.dot dist p
  let perpendicular := Vec3.cross dist edge1
  let bary_y := Vec3.dot ray.direction perpendicular
  let inv_det := 1 / det
  let distance := Vec3.dot edge2 perpendicular * inv_det
  let result : RayTriangleIntersection :=
    ⟨Vec3.mul ⟨bary_x, bary_y, 0⟩ inv_det, distance⟩
  if det > 0 then
    if bary_x < 0 ∨ bary_x > det then none
    else if bary_y < 0 ∨ bary_x + bary_y > det then none
    else some result
  else if det < 0 then
    if bary_x > 0 ∨ bary_x < det then none
    else if bary_y > 0 ∨ bary_x + bary_y < det then none
    else some result
  else none

/-- The loop over the faces of one mesh in `closest_mesh_intersection`, which is left by
`break` at the first face that is hit closer than `closest_t`.  The state is
`(closest_t, (closest_normal, closest_mesh))`; the outer none is an out-of-range index or a
failure of `assert(!is_zero(closest_normal))`. -/
def closest_mesh_faces (ray : Ray) (mesh : Mesh) :
    List Mesh.Face → Option (ℚ × Vec3 × Mesh) → Option (Option (ℚ × Vec3 × Mesh))
  | [], state => some state
  | face :: rest, state =>
    match mesh.vertices[face.verts 0]?, mesh.vertices[face.verts 1]?,
        mesh.vertices[face.verts 2]? with
    | some vert0, some vert1, some vert2 =>
      match intersect_ray_triangle ray vert0 vert1 vert2 with
      | some result =>
        if ExtFloat.lt (some result.distance) (state.map Prod.fst) &&
            ExtFloat.lt ray.min_t (some result.distance) &&
            ExtFloat.lt (some result.distance) ray.max_t then
          match mesh.normals[face.normal]? with
          | some closest_normal =>
            if closest_normal.is_zero then none
            else some (some (result.distance, closest_normal, mesh))
          | none => none
        else closest_mesh_faces ray mesh rest state
      | none => closest_mesh_faces ray mesh rest state
    | _, _, _ => none

/-- The loop over the meshes in `closest_mesh_intersection`. -/
def closest_mesh_loop (ray : Ray) :
    List Mesh → Option (ℚ × Vec3 × Mesh) → Option (Option (ℚ × Vec3 × Mesh))
  | [], state => some state
  | mesh :: rest, state =>
    match closest_mesh_faces ray mesh mesh.faces state with
    | none => none
    | some next => closest_mesh_loop ray rest next

/-- The mesh triangle found by the search of `closest_mesh_intersection`; the inner none is
`std::nullopt`, the outer none a failed assertion or an out-of-range index. -/
def closest_mesh_intersection (ray : Ray) (meshes : List Mesh) :
    Option (Option ClosestIntersection) :=
  match closest_mesh_loop ray meshes none with
  | none => none
  | some none => some none
  | some (some (closest_t, closest_normal, closest_mesh)) =>
    let point := Vec3.add ray.origin (Vec3.mul ray.direction closest_t)
    some (some ⟨closest_mesh.material, point, closest_normal⟩)

/-- The intersection returned for a ray and a scene (`closest_intersection`); the inner
none is `std::nullopt`. -/
def closest_intersection (lm : Libm) (ray : Ray) (scene : Scene) :
    Option (Option ClosestIntersection) :=
  match closest_sphere_intersection lm ray scene.spheres with
  | some result => some (some result)
  | none =>
    match closest_mesh_intersection ray scene.meshes with
    | none => none
    | some (some result) => some (some result)
    | some none => some none

end raytracer

end cgfs

/-! # Depth-tested fills, the life of a depth buffer, and the kinds of draw calls -/

namespace cgfs

namespace rasterizer

/-! ## `tris.cpp`: the depth-tested filled triangle -/

/-- One pixel of a scanline of `draw_filled_triangle_depth_tested`: the body of the loop
over `x` up to the depth test, that is the point and the value `z_val` passed to
`test_and_set`. -/
def draw_filled_triangle_depth_tested_pixel (segment_zs : Buffer ℚ) (xl y : Int) (x : Int) :
    Option (List (Point2 × ℚ)) :=
  (segment_zs.get (x - xl)).bind fun z_val =>
  some [((⟨x, y⟩ : Point2), z_val)]

/-- One scanline of `draw_filled_triangle_depth_tested`: the body of the loop over `y`. -/
def draw_filled_triangle_depth_tested_row (x_left x_right : Buffer Int)
    (z_left z_right : Buffer ℚ) (p0 : Point2) (y : Int) : Option (List (Point2 × ℚ)) :=
  (x_left.get (y - p0.y)).bind fun xl =>
  (x_right.get (y - p0.y)).bind fun xr =>
  (z_left.get (y - p0.y)).bind fun zl =>
  (z_right.get (y - p0.y)).bind fun zr =>
  (interpolate xl zl xr zr).bind fun segment_zs =>
  for_each_concat (draw_filled_triangle_depth_tested_pixel segment_zs xl y) (int_range xl xr)

/-- The calls `test_and_set(pt, z_val)` made by `draw_filled_triangle_depth_tested`, in
order; `none` is a failed `Buffer` check.  The values interpolated are the inverses
`1.0f / z`. -/
def draw_filled_triangle_depth_tested_tests (p0 : Point2) (z0 : ℚ) (p1 : Point2) (z1 : ℚ)
    (p2 : Point2) (z2 : ℚ) : Option (List (Point2 × ℚ)) :=
  let sorted := sort_point_bundles_by_y (p0, z0) (p1, z1) (p2, z2)
  (interpolate_points sorted.1.1 sorted.2.1.1 sorted.2.2.1).bind fun edges =>
  (interpolate_attributes sorted.1.1 sorted.2.1.1 sorted.2.2.1
    (1 / sorted.1.2) (1 / sorted.2.1.2) (1 / sorted.2.2.2) edges.2.2).bind fun zs =>
  for_each_concat
    (draw_filled_triangle_depth_tested_row edges.1 edges.2.1 zs.1 zs.2 sorted.1.1)
    (int_range sorted.1.1.y sorted.2.2.1.y)

/-- The statement `if (depth_buffer.test_and_set(pt, z_val)) { canvas.draw_pixel(pt, color); }`
executed for each `(pt, z_val)` of a list, in order, on the canvas and the depth buffer. -/
def depth_tested_draw_pixels (color : Color) :
    Canvas → DepthBuffer → List (Point2 × ℚ) → Option (Canvas × DepthBuffer)
  | canvas, depth_buffer, [] => some (canvas, depth_buffer)
  | canvas, depth_buffer, (pt, z_val) :: rest =>
    match depth_buffer.test_and_set pt z_val with
    | none => none
    | some (true, depth_buffer) =>
      match canvas.draw_pixel pt color with
      | none => none
      | some canvas => depth_tested_draw_pixels color canvas depth_buffer rest
    | some (false, depth_buffer) => depth_tested_draw_pixels color canvas depth_buffer rest

/-- A triangle filled with one colour under the depth test
(`draw_filled_triangle_depth_tested`): the canvas and the depth buffer afterwards. -/
def draw_filled_triangle_depth_tested (canvas : Canvas) (depth_buffer : DepthBuffer)
    (p0 : Point2) (z0 : ℚ) (p1 : Point2) (z1 : ℚ) (p2 : Point2) (z2 : ℚ) (color : Color) :
    Option (Canvas × DepthBuffer) :=
  (draw_filled_triangle_depth_tested_tests p0 z0 p1 z1 p2 z2).bind
    (depth_tested_draw_pixels color canvas depth_buffer)

/-! ## `tris.cpp`: the perspective divide of the depth-tested textured triangle -/

/-- One pixel of a scanline of `draw_textured_triangle_depth_tested`: the body of the loop
over `x` up to the texture sample.  The result is the depth buffer afterwards and, when the
depth test passes, the divisor `z_val` and the texture coordinates
`segment_tex_coords[x - xl] / z_val`; `none` is a failed `Buffer` or depth-buffer check. -/
def draw_textured_triangle_depth_tested_pixel (depth_buffer : DepthBuffer)
    (segment_zs : Buffer ℚ) (segment_tex_coords : Buffer TexCoords) (xl y : Int) (x : Int) :
    Option (DepthBuffer × Option (ℚ × TexCoords)) :=
  (segment_zs.get (x - xl)).bind fun z_val =>
  let pt : Point2 := ⟨x, y⟩
  match depth_buffer.test_and_set pt z_val with
  | none => none
  | some (true, depth_buffer) =>
    -- Perspective correct: divide by Z.
    (segment_tex_coords.get (x - xl)).bind fun tc =>
    some (depth_buffer, some (z_val, TexCoords.div tc z_val))
  | some (false, depth_buffer) => some (depth_buffer, none)

/-! ## `depth_buffer.hpp`: the states of a depth buffer -/

/-- A call of one of the two member functions that change a `DepthBuffer`. -/
inductive DepthBuffer.Call where
  | test_and_set (point : Point2) (inv_z : ℚ)
  | clear
deriving DecidableEq, Repr

/-- A client-side sequence of calls on a depth buffer, in order; the boolean results of
`test_and_set` are dropped.  The states reachable from construction are the values
`(create dimensions).bind (run · calls)`. -/
def DepthBuffer.run : DepthBuffer → List DepthBuffer.Call → Option DepthBuffer
  | self, [] => some self
  | self, DepthBuffer.Call.test_and_set point inv_z :: rest =>
    match self.test_and_set point inv_z with
    | none => none
    | some (_, next) => DepthBuffer.run next rest
  | self, DepthBuffer.Call.clear :: rest => DepthBuffer.run self.clear rest

/-! ## `draw3d.cpp`: the kinds of draw calls, continued -/

/-- The routines that take the depth buffer (the `_depth_tested` variants). -/
def DrawCall.is_depth_tested : DrawCall → Bool
  | .draw_filled_triangle_depth_tested .. => true
  | .draw_textured_triangle_depth_tested .. => true
  | .draw_shaded_triangle_depth_tested .. => true
  | .draw_shaded_textured_triangle_depth_tested .. => true
  | .draw_phong_shaded_triangle_depth_tested .. => true
  | .draw_phong_shaded_textured_triangle_depth_tested .. => true
  | _ => false

/-- The outline calls made at the end of the loop body of `draw_mesh`: the three
`draw_line` calls in the colour `face.color * 0.75f` when `kOutlines` is set. -/
def face_outlines (draw_flags : Nat) (face : Mesh.Face) (p0 p1 p2 : Point2) : List DrawCall :=
  if has_flag draw_flags DrawFlags.kOutlines then
    let outline_color := Color.mul face.color (3 / 4)
    [DrawCall.draw_line p0 p1 outline_color, DrawCall.draw_line p0 p2 outline_color,
      DrawCall.draw_line p2 p1 outline_color]
  else []

end rasterizer

end cgfs

/-! # Single precision: the arithmetic of the C++ type `float` -/

namespace cgfs

/-- A value of the C++ type `float`, an IEEE-754 binary32 number: a finite number other than
the negative zero, given by its exact rational value; the negative zero; an infinity; or a
NaN.  The operations below return representable values only: each one computes the exact
result and rounds it once, to nearest with ties to even, as the hardware does. -/
inductive Float32 where
  | finite (value : ℚ)
  | neg_zero
  | infinity (negative : Bool)
  | nan
deriving DecidableEq, Repr

namespace Float32

/-- The power of two with an integer exponent. -/
def pow2 (k : Int) : ℚ :=
  if 0 ≤ k then ((2 ^ k.toNat : Nat) : ℚ) else 1 / ((2 ^ (-k).toNat : Nat) : ℚ)

/-- The first loop of `log2`: the least `k`, counted up from the second argument, with
`n < 2 ^ 2 ^ k`; the first argument bounds the number of steps. -/
def log2_depth (n : Nat) : Nat → Nat → Nat
  | 0, k => k
  | fuel + 1, k => if n < 2 ^ 2 ^ k then k else log2_depth n fuel (k + 1)

/-- The second loop of `log2`, a bisection: from `2 ^ e ≤ n < 2 ^ (e + 2 ^ k)` to the
exponent of `n`, one bit of the exponent per step. -/
def log2_bisect (n : Nat) : Nat → Nat → Nat
  | 0, e => e
  | k + 1, e => log2_bisect n k (if 2 ^ (e + 2 ^ k) ≤ n then e + 2 ^ k else e)

/-- The binary logarithm of a natural number, rounded down (`0` for `0`). -/
def log2 (n : Nat) : Nat := log2_bisect n (log2_depth n n 0) 0

/-- The loop of `isqrt`: bit `k - 1` of the root is set when the square stays within `n`. -/
def isqrt_loop (n : Nat) : Nat → Nat → Nat
  | 0, r => r
  | k + 1, r => isqrt_loop n k (if (r + 2 ^ k) * (r + 2 ^ k) ≤ n then r + 2 ^ k else r)

/-- The integer square root: the largest `r` with `r * r ≤ n`, found bit by bit from the
top. -/
def isqrt (n : Nat) : Nat := isqrt_loop n (log2 n / 2 + 1) 0

/-- The exponent of a positive rational `a`: the integer `e` with `2^e ≤ a < 2^(e+1)`. -/
def floor_log2 (a : ℚ) : Int :=
  let k : Int := Int.ofNat (log2 a.num.toNat) - Int.ofNat (log2 a.den)
  if pow2 k ≤ a then k else k - 1

/-- The integer nearest to a non-negative rational, ties going to the even one. -/
def round_half_even (x : ℚ) : Nat :=
  let n := x.num.toNat / x.den
  let r := x.num.toNat % x.den
  if 2 * r < x.den then n
  else if x.den < 2 * r then n + 1
  else if n % 2 = 0 then n else n + 1

/-- Rounding of an exact rational result to binary32, to nearest with ties to even: the
significand has 24 bits, the exponent of a normal number is at least `-126` (below that
the spacing stays `2^-149`: subnormal numbers and underflow to a signed zero), and a result
that rounds to `2^128` or more is an infinity. -/
def round (q : ℚ) : Float32 :=
  if q = 0 then finite 0
  else
    let a := |q|
    let e := max (floor_log2 a) (-126)
    let quantum := pow2 (e - 23)
    let n := round_half_even (a / quantum)
    let r := (n : ℚ) * quantum
    if pow2 128 ≤ r then infinity (decide (q < 0))
    else if n = 0 then (if q < 0 then neg_zero else finite 0)
    else finite (if q < 0 then -r else r)

/-- The exact value of a finite number, and `0` for an infinity or a NaN. -/
def toRat : Float32 → ℚ
  | finite q => q
  | _ => 0

/-- The sign bit. -/
def is_negative : Float32 → Bool
  | finite q => decide (q < 0)
  | neg_zero => true
  | infinity negative => negative
  | nan => false

/-- Whether the value is one of the two zeros. -/
def is_zero : Float32 → Bool
  | finite q => decide (q = 0)
  | neg_zero => true
  | _ => false

/-- The zero with the given sign bit. -/
def zero (negative : Bool) : Float32 := if negative then neg_zero else finite 0

/-- The conversion `static_cast<float>(i)` of an `int`. -/
def ofInt (i : Int) : Float32 := round (i : ℚ)

/-- Negation (unary `-`): the sign bit is flipped. -/
def neg : Float32 → Float32
  | finite q => if q = 0 then neg_zero else finite (-q)
  | neg_zero => finite 0
  | infinity negative => infinity (!negative)
  | nan => nan

/-- Addition (`+`). -/
def add : Float32 → Float32 → Float32
  | nan, _ => nan
  | _, nan => nan
  | infinity a, infinity b => if a = b then infinity a else nan
  | infinity a, _ => infinity a
  | _, infinity b => infinity b
  | neg_zero, neg_zero => neg_zero
  | neg_zero, finite y => finite y
  | finite x, neg_zero => finite x
  | finite x, finite y => round (x + y)

/-- Subtraction (`-`). -/
def sub (x y : Float32) : Float32 := add x (neg y)

/-- Multiplication (`*`). -/
def mul : Float32 → Float32 → Float32
  | nan, _ => nan
  | _, nan => nan
  | infinity a, y => if y.is_zero then nan else infinity (xor a y.is_negative)
  | x, infinity b => if x.is_zero then nan else infinity (xor x.is_negative b)
  | x, y =>
    if x.is_zero || y.is_zero then zero (xor x.is_negative y.is_negative)
    else round (x.toRat * y.toRat)

/-- Division (`/`): a non-zero number over a zero is an infinity, a zero over a zero and
an infinity over an infinity are NaN. -/
def div : Float32 → Float32 → Float32
  | nan, _ => nan
  | _, nan => nan
  | infinity _, infinity _ => nan
  | infinity a, y => infinity (xor a y.is_negative)
  | x, infinity b => zero (xor x.is_negative b)
  | x, y =>
    if y.is_zero then
      if x.is_zero then nan else infinity (xor x.is_negative y.is_negative)
    else if x.is_zero then zero (xor x.is_negative y.is_negative)
    else round (x.toRat / y.toRat)

/-- The function `std::sqrt` on `float`, correctly rounded: with `m` the floor of the root
in units of the spacing at the root, the result is `m` or `m + 1` units according to the
side of the midpoint on which the argument lies. -/
def sqrt : Float32 → Float32
  | nan => nan
  | infinity negative => if negative then nan else infinity false
  | neg_zero => neg_zero
  | finite q =>
    if q < 0 then nan
    else if q = 0 then finite 0
    else
      let quantum := pow2 (Int.fdiv (floor_log2 q) 2 - 23)
      let m := isqrt (⌊q / (quantum * quantum)⌋).toNat
      let mid := ((2 * m + 1 : Nat) : ℚ) / 2 * quantum
      if q < mid * mid then finite ((m : ℚ) * quantum)
      else if mid * mid < q then finite (((m + 1 : Nat) : ℚ) * quantum)
      else finite (((if m % 2 = 0 then m else m + 1 : Nat) : ℚ) * quantum)

/-- The comparison `x < y`: false when an operand is a NaN; the two zeros are equal. -/
def lt : Float32 → Float32 → Bool
  | nan, _ => false
  | _, nan => false
  | infinity a, infinity b => a && !b
  | infinity a, _ => a
  | _, infinity b => !b
  | x, y => decide (x.toRat < y.toRat)

/-- The comparison `x <= y`: false when an operand is a NaN; the two zeros are equal. -/
def le : Float32 → Float32 → Bool
  | nan, _ => false
  | _, nan => false
  | infinity a, infinity b => a || !b
  | infinity a, _ => a
  | _, infinity b => !b
  | x, y => decide (x.toRat ≤ y.toRat)

/-- The conversion `int(d)` of a float to an integer: truncation toward zero.  For an
infinity, a NaN or a number outside the range of `int` the conversion is undefined in C++;
the value here is `0` for the first two, and `int` is unbounded. -/
def to_int : Float32 → Int
  | finite q => rasterizer.truncToInt q
  | _ => 0

/-- The function `std::min(a, b)`: `(b < a) ? b : a`. -/
def std_min (a b : Float32) : Float32 := if lt b a then b else a

/-- The function `std::clamp(v, lo, hi)`: `(v < lo) ? lo : (hi < v) ? hi : v`; a NaN
compares false both times and is returned. -/
def std_clamp (v lo hi : Float32) : Float32 := if lt v lo then lo else if lt hi v then hi else v

end Float32

end cgfs

/-! # The sources in single precision

The definitions above read `float` as an exact rational.  The definitions of this part
embed the same source functions with `float` read as `Float32`: every sum, difference,
product, quotient and square root is rounded to binary32, a division by zero gives an
infinity or a NaN, and comparisons with a NaN are false.  Each definition carries the name
of the source function it embeds, in the namespace `binary32`; integers, points, buffers,
sorting and the canvas cells do not involve `float` and are shared with the first part. -/

namespace cgfs

namespace Float32

instance instAdd : Add Float32 := ⟨Float32.add⟩

instance instSub : Sub Float32 := ⟨Float32.sub⟩

instance instMul : Mul Float32 := ⟨Float32.mul⟩

instance instDiv : Div Float32 := ⟨Float32.div⟩

instance instNeg : Neg Float32 := ⟨Float32.neg⟩

/-- A literal such as `2.0f` or `255.0f` with a natural number as its value. -/
instance instOfNat (n : Nat) : OfNat Float32 n := ⟨Float32.round (n : ℚ)⟩

end Float32

namespace binary32

open rasterizer

/-! ## `utils.hpp` -/

/-- Linear interpolation `(1.0f - t) * a + t * b` (`utils.hpp`, `lerp`). -/
def lerp (a b t : Float32) : Float32 := (1 - t) * a + t * b

/-- The test `is_normalized(float)`: `f >= 0.0f && f <= 1.0f`. -/
def is_normalized (f : Float32) : Bool := Float32.le 0 f && Float32.le f 1

/-! ## `tris.cpp`: interpolation helpers -/

/-- The kind `T = int`: `to_float` casts to float, the step `a` and the accumulator `d` are
floats, `int(d)` truncates.  The divisor is `to_float(i1 - i0)`. -/
def instInterpolableInt : Interpolable Int where
  F := Float32
  sub v1 v0 := v1 - v0
  to_float i := Float32.ofInt i
  div x y := x / Float32.round y
  add d a := d + a
  cast d := Float32.to_int d

/-- The kind `T = float`.  The divisor is `to_float(i1 - i0)`. -/
instance instInterpolableFloat : Interpolable Float32 where
  F := Float32
  sub v1 v0 := v1 - v0
  to_float v := v
  div x y := x / Float32.round y
  add d a := d + a
  cast d := d

/-- Edge X coordinates of a triangle and the left/right tag (`interpolate_points`). -/
def interpolate_points (p0 p1 p2 : Point2) : Option (Buffer Int × Buffer Int × LeftSide) :=
  (@interpolate Int instInterpolableInt p0.y p0.x p1.y p1.x).bind fun x01 =>
  (@interpolate Int instInterpolableInt p1.y p1.x p2.y p2.x).bind fun x12 =>
  (@interpolate Int instInterpolableInt p0.y p0.x p2.y p2.x).bind fun x02 =>
  x01.pop_back.bind fun x01_popped =>
  (concatenate x01_popped x12).bind fun x01_x12 =>
  let m : Nat := x02.size / 2
  (x02.get (Int.ofNat m)).bind fun x02_m =>
  (x01_x12.get (Int.ofNat m)).bind fun x01_x12_m =>
  if x02_m < x01_x12_m then some (x02, x01_x12, LeftSide.k02)
  else some (x01_x12, x02, LeftSide.k01_12)

/-! ## `vec3.hpp` and `vec4.hpp` -/

/-- A 3-vector of floats (`vec3.hpp`). -/
structure Vec3 where
  x : Float32
  y : Float32
  z : Float32
deriving DecidableEq, Repr

namespace Vec3

/-- Componentwise sum (`operator+`). -/
def add (lhs rhs : Vec3) : Vec3 := ⟨lhs.x + rhs.x, lhs.y + rhs.y, lhs.z + rhs.z⟩

/-- Componentwise difference (`operator-`). -/
def sub (lhs rhs : Vec3) : Vec3 := ⟨lhs.x - rhs.x, lhs.y - rhs.y, lhs.z - rhs.z⟩

/-- Multiplication by a scalar (`operator*(const Vec3&, float)`). -/
def mul (v : Vec3) (amount : Float32) : Vec3 := ⟨v.x * amount, v.y * amount, v.z * amount⟩

/-- Division by a scalar (`operator/`). -/
def div (v : Vec3) (amount : Float32) : Vec3 := ⟨v.x / amount, v.y / amount, v.z / amount⟩

/-- Negation (unary `operator-`). -/
def neg (v : Vec3) : Vec3 := ⟨-v.x, -v.y, -v.z⟩

/-- Dot product (`dot`). -/
def dot (lhs rhs : Vec3) : Float32 := (lhs.x * rhs.x) + (lhs.y * rhs.y) + (lhs.z * rhs.z)

/-- Cross product (`cross`). -/
def cross (lhs rhs : Vec3) : Vec3 :=
  ⟨(lhs.y * rhs.z) - (lhs.z * rhs.y),
   (lhs.z * rhs.x) - (lhs.x * rhs.z),
   (lhs.x * rhs.y) - (lhs.y * rhs.x)⟩

/-- Euclidean length (`length`): `std::sqrt(dot(v, v))`. -/
def length (v : Vec3) : Float32 := Float32.sqrt (dot v v)

/-- Normalisation (`normalize`): `v * (1.0f / length(v))`. -/
def normalize (v : Vec3) : Vec3 :=
  let inv_len := 1 / length v
  mul v inv_len

end Vec3

/-- A 4-vector of floats (`vec4.hpp`). -/
structure Vec4 where
  x : Float32
  y : Float32
  z : Float32
  w : Float32
deriving DecidableEq, Repr

namespace Vec4

/-- The constructor `Vec4(const Vec3& xyz, float w)`. -/
def ofVec3 (xyz : Vec3) (inW : Float32) : Vec4 := ⟨xyz.x, xyz.y, xyz.z, inW⟩

/-- The conversion `xyz()`. -/
def xyz (v : Vec4) : Vec3 := ⟨v.x, v.y, v.z⟩

/-- Componentwise difference (`operator-`). -/
def sub (lhs rhs : Vec4) : Vec4 :=
  ⟨lhs.x - rhs.x, lhs.y - rhs.y, lhs.z - rhs.z, lhs.w - rhs.w⟩

end Vec4

/-! ## `mat3.hpp` and `mat4.hpp` -/

/-- A 3x3 rotation matrix `float m[3][3]` (`mat3.hpp`). -/
structure Mat3 where
  m : Fin 3 → Fin 3 → Float32

namespace Mat3

/-- The identity (`Mat3::kIdentity`, `mat3.cpp`). -/
def kIdentity : Mat3 := ⟨![![1, 0, 0], ![0, 1, 0], ![0, 0, 1]]⟩

/-- The transpose (`Mat3::transposed`): `result.m[i][j] = mat.m[j][i]`. -/
def transposed (mat : Mat3) : Mat3 := ⟨fun i j => mat.m j i⟩

/-- Matrix times vector (`operator*(const Mat3&, const Vec3&)`): `result` starts at zero and
`result[i] += vec[j] * mat.m[i][j]` runs for `j = 0, 1, 2`. -/
def mulVec (mat : Mat3) (vec : Vec3) : Vec3 :=
  ⟨0 + vec.x * mat.m 0 0 + vec.y * mat.m 0 1 + vec.z * mat.m 0 2,
   0 + vec.x * mat.m 1 0 + vec.y * mat.m 1 1 + vec.z * mat.m 1 2,
   0 + vec.x * mat.m 2 0 + vec.y * mat.m 2 1 + vec.z * mat.m 2 2⟩

end Mat3

/-- A 4x4 matrix `float m[4][4]` (`mat4.hpp`). -/
structure Mat4 where
  m : Fin 4 → Fin 4 → Float32

namespace Mat4

/-- Modelled from the spec: the definition of the constant `Mat4::kIdentity` is declared in
`mat4.hpp` but its initialiser is not among the sources; it is taken to be the 4x4 identity
matrix, as `Mat3::kIdentity` is the 3x3 one. -/
def kIdentity : Mat4 := ⟨![![1, 0, 0, 0], ![0, 1, 0, 0], ![0, 0, 1, 0], ![0, 0, 0, 1]]⟩

/-- Uniform scaling matrix (`Mat4::scaling`). -/
def scaling (scale : Float32) : Mat4 :=
  ⟨![![scale, 0, 0, 0], ![0, scale, 0, 0], ![0, 0, scale, 0], ![0, 0, 0, 1]]⟩

/-- Translation matrix (`Mat4::translation`). -/
def translation (t : Vec3) : Mat4 :=
  ⟨![![1, 0, 0, t.x], ![0, 1, 0, t.y], ![0, 0, 1, t.z], ![0, 0, 0, 1]]⟩

/-- Embedding of a rotation (`Mat4::rotation`): the identity with the upper-left 3x3 block
overwritten by `mat`. -/
def rotation (mat : Mat3) : Mat4 :=
  ⟨fun i j =>
    if h : i.val < 3 ∧ j.val < 3 then mat.m ⟨i.val, h.1⟩ ⟨j.val, h.2⟩ else kIdentity.m i j⟩

/-- The transpose (`Mat4::transposed`). -/
def transposed (mat : Mat4) : Mat4 := ⟨fun i j => mat.m j i⟩

/-- Matrix times vector (`operator*(const Mat4&, const Vec4&)`): `result` starts at zero and
`result[i] += vec[j] * mat.m[i][j]` runs for `j = 0, ..., 3`. -/
def mulVec (mat : Mat4) (vec : Vec4) : Vec4 :=
  ⟨0 + vec.x * mat.m 0 0 + vec.y * mat.m 0 1 + vec.z * mat.m 0 2 + vec.w * mat.m 0 3,
   0 + vec.x * mat.m 1 0 + vec.y * mat.m 1 1 + vec.z * mat.m 1 2 + vec.w * mat.m 1 3,
   0 + vec.x * mat.m 2 0 + vec.y * mat.m 2 1 + vec.z * mat.m 2 2 + vec.w * mat.m 2 3,
   0 + vec.x * mat.m 3 0 + vec.y * mat.m 3 1 + vec.z * mat.m 3 2 + vec.w * mat.m 3 3⟩

/-- Matrix product (`operator*(const Mat4&, const Mat4&)`): `result` starts at zero and
`result.m[i][j] += matA.m[i][k] * matB.m[k][j]` runs for `k = 0, ..., 3`. -/
def mul (matA matB : Mat4) : Mat4 :=
  ⟨fun i j => 0 + matA.m i 0 * matB.m 0 j + matA.m i 1 * matB.m 1 j + matA.m i 2 * matB.m 2 j
    + matA.m i 3 * matB.m 3 j⟩

end Mat4

/-! ## `mesh.hpp` and `scene.hpp`: the scene data of lighting and culling -/

/-- The instance transform: translation, rotation, uniform scaling (`Mesh::Transform`). -/
structure Mesh.Transform where
  translation : Vec3
  rotation : Mat3
  scaling : Float32

/-- Model matrix `T * R * S` (`Mesh::Transform::to_mat4`). -/
def Mesh.Transform.to_mat4 (self : Mesh.Transform) : Mat4 :=
  let t := Mat4.translation self.translation
  let r := Mat4.rotation self.rotation
  let s := Mat4.scaling self.scaling
  Mat4.mul (Mat4.mul t r) s

/-- The bounding sphere of a mesh (`Mesh::BoundingSphere`). -/
structure Mesh.BoundingSphere where
  center : Vec3
  radius : Float32
deriving DecidableEq, Repr

/-- A light (`Light`); `position` is the direction of a directional light. -/
structure Light where
  type : rasterizer.Light.Type
  position : Vec3
  intensity : Float32
deriving DecidableEq, Repr

/-- The camera (`Camera`); the clipping planes play no part in lighting and in the back-face
test and are left out. -/
structure Camera where
  position : Vec3
  rotation : Mat3

/-- Camera (view) matrix `C.r⁻¹ * C.t⁻¹` (`Camera::to_mat4`). -/
def Camera.to_mat4 (self : Camera) : Mat4 :=
  let r := Mat4.transposed (Mat4.rotation self.rotation)
  let t := Mat4.translation (Vec3.neg self.position)
  Mat4.mul r t

/-! ## `draw3d.cpp`: lighting -/

/-- The diffuse and specular components of one directional or point light in
`compute_lighting`: the intensity after these two components, from the intensity before
them and the light vector.  The function `std::pow` is a parameter. -/
def compute_lighting_components (pow : Float32 → Float32 → Float32) (light_model : Nat)
    (vertex normal : Vec3) (camera : Camera) (specular : Float32) (intensity : Float32)
    (light : Light) (light_vector : Vec3) : Float32 :=
  -- Diffuse component.
  let intensity :=
    if has_flag light_model LightModel.kDiffuse then
      let cos_alpha := Vec3.dot light_vector normal /
        (Vec3.length light_vector * Vec3.length normal)
      if Float32.lt 0 cos_alpha then intensity + cos_alpha * light.intensity else intensity
    else intensity
  -- Specular component.
  let intensity :=
    if has_flag light_model LightModel.kSpecular then
      let reflected := Vec3.sub (Vec3.mul normal (2 * Vec3.dot normal light_vector))
        light_vector
      let view := Vec3.sub camera.position vertex
      let cos_beta := Vec3.dot reflected view /
        (Vec3.length reflected * Vec3.length view)
      if Float32.lt 0 cos_beta then intensity + pow cos_beta specular * light.intensity
      else intensity
    else intensity
  intensity

/-- The body of the loop over the lights in `compute_lighting`: the intensity after the
light `light`, from the intensity before it. -/
def compute_lighting_step (pow : Float32 → Float32 → Float32) (light_model : Nat)
    (vertex normal : Vec3) (camera : Camera) (specular : Float32) (intensity : Float32)
    (light : Light) : Float32 :=
  match light.type with
  | Light.Type.kAmbient => intensity + light.intensity
  | Light.Type.kDirectional =>
    let camera_matrix := Mat3.transposed camera.rotation
    let rotated_light := Mat3.mulVec camera_matrix light.position
    -- Position is a vector already for directional lights.
    compute_lighting_components pow light_model vertex normal camera specular intensity light
      rotated_light
  | Light.Type.kPoint =>
    let camera_matrix := camera.to_mat4
    let transformed_light := Mat4.mulVec camera_matrix (Vec4.ofVec3 light.position 1)
    compute_lighting_components pow light_model vertex normal camera specular intensity light
      (Vec3.add (Vec3.mul vertex (-1)) transformed_light.xyz)

/-- The light intensity computed for a vertex (`compute_lighting`). -/
def compute_lighting (pow : Float32 → Float32 → Float32) (light_model : Nat)
    (vertex normal : Vec3) (camera : Camera) (specular : Float32) (lights : List Light) :
    Float32 :=
  if has_flag light_model LightModel.kDisabled then 1
  else
    let intensity :=
      lights.foldl (compute_lighting_step pow light_model vertex normal camera specular) 0
    Float32.std_clamp intensity 0 1

/-! ## `draw3d.cpp`: culling -/

/-- The normal of a triangle (`compute_triangle_normal`). -/
def compute_triangle_normal (v0 v1 v2 : Vec4) : Vec3 :=
  let v0v1 := Vec4.sub v1 v0
  let v0v2 := Vec4.sub v2 v0
  Vec3.normalize (Vec3.cross v0v1.xyz v0v2.xyz)

/-- The back-face test (`is_back_facing_triangle`): the boolean result and the value
written to `*triangle_normal_out`. -/
def is_back_facing_triangle (v0 v1 v2 : Vec4) : Bool × Vec3 :=
  let triangle_normal_out := compute_triangle_normal v0 v1 v2
  let vertex_to_camera := Vec3.neg v0.xyz
  if Float32.le (Vec3.dot vertex_to_camera triangle_normal_out) 0 then
    (true, triangle_normal_out)
  else (false, triangle_normal_out)

/-- The view-space vertex of an instance: `model_view_mtx * Vec4{ vert, 1.0f }` of
`draw_mesh`, with `model_view_mtx = camera_mtx * model_to_world_mtx` of `draw_scene`. -/
def view_space_vertex (camera : Camera) (transform : Mesh.Transform) (vert : Vec3) : Vec4 :=
  Mat4.mulVec (Mat4.mul camera.to_mat4 transform.to_mat4) (Vec4.ofVec3 vert 1)

/-! ## `mesh.cpp`: the bounding sphere -/

/-- Step 1 of `compute_bounding_sphere`, the body of the inner loop over `b`: the state is
`(p0, p1, maxDistSq)`. -/
def bounding_sphere_farthest_step (a : Vec3) (state : Vec3 × Vec3 × Float32) (b : Vec3) :
    Vec3 × Vec3 × Float32 :=
  let d := Vec3.sub b a
  let distSq := Vec3.dot d d
  if Float32.lt state.2.2 distSq then (a, b, distSq) else state

/-- Step 3 of `compute_bounding_sphere`, the body of the loop over `p`: the state is
`(center, radius)`. -/
def bounding_sphere_grow (state : Vec3 × Float32) (p : Vec3) : Vec3 × Float32 :=
  let center := state.1
  let radius := state.2
  let d := Vec3.sub p center
  let distSq := Vec3.dot d d
  if Float32.lt (radius * radius) distSq then
    let dist := Float32.sqrt distSq
    let newRadius := (radius + dist) / 2
    let k := (newRadius - radius) / dist
    (⟨center.x + d.x * k, center.y + d.y * k, center.z + d.z * k⟩, newRadius)
  else state

/-- The bounding sphere of a list of points (`compute_bounding_sphere`). -/
def compute_bounding_sphere (points : List Vec3) : Mesh.BoundingSphere :=
  match points with
  | [] => ⟨⟨0, 0, 0⟩, 0⟩
  | first :: _ =>
    let farthest := points.foldl
      (fun state a => points.foldl (bounding_sphere_farthest_step a) state)
      (first, first, (0 : Float32))
    let center := Vec3.div (Vec3.add farthest.1 farthest.2.1) 2
    let radius := Float32.sqrt farthest.2.2 / 2
    let grown := points.foldl bounding_sphere_grow (center, radius)
    ⟨grown.1, grown.2⟩

/-! ## `color.hpp` and `canvas.hpp` -/

/-- A float RGBA colour (`Color`). -/
structure Color where
  r : Float32
  g : Float32
  b : Float32
  a : Float32
deriving DecidableEq, Repr

/-- Multiplication of a colour by a scalar (`operator*(const Color&, float)`). -/
def Color.mul (c : Color) (amount : Float32) : Color :=
  ⟨c.r * amount, c.g * amount, c.b * amount, c.a * amount⟩

/-- The colour `Color::kBlack` (`color.cpp`). -/
def Color.kBlack : Color := ⟨0, 0, 0, 1⟩

/-- The colour `Color::kWhite`. -/
def Color.kWhite : Color := ⟨1, 1, 1, 1⟩

/-- The colour `Color::kGray`: `{ 0.5f, 0.5f, 0.5f, 1.0f }`. -/
def Color.kGray : Color :=
  ⟨Float32.round (1 / 2), Float32.round (1 / 2), Float32.round (1 / 2), 1⟩

/-- The test `is_normalized(const Color&)`. -/
def Color.is_normalized (c : Color) : Bool :=
  binary32.is_normalized c.r && binary32.is_normalized c.g && binary32.is_normalized c.b &&
    binary32.is_normalized c.a

/-- The conversion `Color::to_rgba_u8`: the assertion that the four channels are normalised,
then `static_cast<std::uint8_t>(channel * 255.0f)`, a truncation of a value of
`[0, 255]`. -/
def Color.to_rgba_u8 (c : Color) : Option RGBA_U8 :=
  if binary32.is_normalized c.r && binary32.is_normalized c.g &&
      binary32.is_normalized c.b && binary32.is_normalized c.a then
    some ⟨(Float32.to_int (c.r * 255)).toNat, (Float32.to_int (c.g * 255)).toNat,
      (Float32.to_int (c.b * 255)).toNat, (Float32.to_int (c.a * 255)).toNat⟩
  else none

/-- The constructor of `Canvas`: `assert(m_dimensions.is_valid())`, then `width * height`
cells holding the converted clear colour. -/
def Canvas.create (dimensions : Dims) (clearColor : Color) : Option Canvas :=
  if dimensions.is_valid then
    (Color.to_rgba_u8 clearColor).map fun c =>
      ⟨List.replicate (dimensions.width * dimensions.height).toNat c, dimensions⟩
  else none

/-- Writing one pixel (`Canvas::draw_pixel`).  A point that maps outside the buffer is
dropped; `none` is a failure of `assert(pixel_idx < m_pixel_buffer.size())` or of the
assertion of `Color::to_rgba_u8`. -/
def Canvas.draw_pixel (self : Canvas) (point : Point2) (color : Color) : Option Canvas :=
  let x := Int.tdiv self.m_dimensions.width 2 + point.x
  let y := Int.tdiv self.m_dimensions.height 2 - point.y - 1
  if x < 0 ∨ x ≥ self.m_dimensions.width ∨ y < 0 ∨ y ≥ self.m_dimensions.height then
    some self
  else
    let pixel_idx : Nat := (x + y * self.m_dimensions.width).toNat
    if pixel_idx < self.m_pixel_buffer.length then
      (Color.to_rgba_u8 color).map fun c =>
        { self with m_pixel_buffer := self.m_pixel_buffer.set pixel_idx c }
    else none

/-- The calls `draw_pixel(point, color)` of a drawing routine, one per element of the list,
in order. -/
def Canvas.draw_pixels : Canvas → List (Point2 × Color) → Option Canvas
  | self, [] => some self
  | self, (point, color) :: rest =>
    match Canvas.draw_pixel self point color with
    | none => none
    | some next => Canvas.draw_pixels next rest

/-! ## `tris.cpp`: filled and shaded triangles -/

/-- One scanline of `draw_filled_triangle`: the body of the loop over `y`. -/
def draw_filled_triangle_row (x_left x_right : Buffer Int) (p0 : Point2) (color : Color)
    (y : Int) : Option (List (Point2 × Color)) :=
  (x_left.get (y - p0.y)).bind fun xl =>
  (x_right.get (y - p0.y)).bind fun xr =>
  some ((int_range xl xr).map fun x => ((⟨x, y⟩ : Point2), color))

/-- The calls `draw_pixel(point, color)` made by `draw_filled_triangle`, in order. -/
def draw_filled_triangle_pixels (p0 p1 p2 : Point2) (color : Color) :
    Option (List (Point2 × Color)) :=
  let sorted := sort_points_by_y p0 p1 p2
  (interpolate_points sorted.1 sorted.2.1 sorted.2.2).bind fun edges =>
  for_each_concat (draw_filled_triangle_row edges.1 edges.2.1 sorted.1 color)
    (int_range sorted.1.y sorted.2.2.y)

/-- A triangle filled with one colour (`draw_filled_triangle`). -/
def draw_filled_triangle (canvas : Canvas) (p0 p1 p2 : Point2) (color : Color) :
    Option Canvas :=
  (draw_filled_triangle_pixels p0 p1 p2 color).bind (Canvas.draw_pixels canvas)

/-- One pixel of a scanline of `draw_shaded_triangle`: the body of the loop over `x`. -/
def draw_shaded_triangle_pixel (segment_intensities : Buffer Float32) (xl y : Int)
    (color : Color) (x : Int) : Option (List (Point2 × Color)) :=
  (segment_intensities.get (x - xl)).bind fun s =>
  let intensity_val := Float32.std_min s 1
  some [((⟨x, y⟩ : Point2), color.mul intensity_val)]

/-- One scanline of `draw_shaded_triangle`: the body of the loop over `y`. -/
def draw_shaded_triangle_row (x_left x_right : Buffer Int) (i_left i_right : Buffer Float32)
    (p0 : Point2) (color : Color) (y : Int) : Option (List (Point2 × Color)) :=
  (x_left.get (y - p0.y)).bind fun xl =>
  (x_right.get (y - p0.y)).bind fun xr =>
  (i_left.get (y - p0.y)).bind fun il =>
  (i_right.get (y - p0.y)).bind fun ir =>
  (interpolate xl il xr ir).bind fun segment_intensities =>
  for_each_concat (draw_shaded_triangle_pixel segment_intensities xl y color)
    (int_range xl xr)

/-- The calls `draw_pixel(point, color * intensity)` made by `draw_shaded_triangle`, in
order; `none` is a failed assertion (intensities not normalised, or a `Buffer` check). -/
def draw_shaded_triangle_pixels (p0 : Point2) (i0 : Float32) (p1 : Point2) (i1 : Float32)
    (p2 : Point2) (i2 : Float32) (color : Color) : Option (List (Point2 × Color)) :=
  if is_normalized i0 && is_normalized i1 && is_normalized i2 then
    let sorted := sort_point_bundles_by_y (p0, i0) (p1, i1) (p2, i2)
    (interpolate_points sorted.1.1 sorted.2.1.1 sorted.2.2.1).bind fun edges =>
    (interpolate_attributes sorted.1.1 sorted.2.1.1 sorted.2.2.1
      sorted.1.2 sorted.2.1.2 sorted.2.2.2 edges.2.2).bind fun intensities =>
    for_each_concat
      (draw_shaded_triangle_row edges.1 edges.2.1 intensities.1 intensities.2 sorted.1.1 color)
      (int_range sorted.1.1.y sorted.2.2.1.y)
  else none

/-- A triangle shaded with one intensity per vertex (`draw_shaded_triangle`). -/
def draw_shaded_triangle (canvas : Canvas) (p0 : Point2) (i0 : Float32) (p1 : Point2)
    (i1 : Float32) (p2 : Point2) (i2 : Float32) (color : Color) : Option Canvas :=
  (draw_shaded_triangle_pixels p0 i0 p1 i1 p2 i2 color).bind (Canvas.draw_pixels canvas)

/-! ## `depth_buffer.hpp` and `tris.cpp`: the depth-tested filled triangle -/

/-- The depth buffer: dimensions and a row-major grid of floats (`DepthBuffer`). -/
structure DepthBuffer where
  m_dimensions : Dims
  m_buffer : List Float32
deriving DecidableEq, Repr

/-- The constructor: `assert(m_dimensions.is_valid())`, then `width * height` cells of
`0.0f`. -/
def DepthBuffer.create (dimensions : Dims) : Option DepthBuffer :=
  if dimensions.is_valid then
    some ⟨dimensions, List.replicate (dimensions.width * dimensions.height).toNat 0⟩
  else none

/-- The depth test (`test_and_set`): returns the boolean result and the buffer afterwards;
`none` is a failure of `assert(buffer_idx < m_buffer.size())`. -/
def DepthBuffer.test_and_set (self : DepthBuffer) (point : Point2) (inv_z : Float32) :
    Option (Bool × DepthBuffer) :=
  let x := Int.tdiv self.m_dimensions.width 2 + point.x
  let y := Int.tdiv self.m_dimensions.height 2 - point.y - 1
  if x < 0 ∨ x ≥ self.m_dimensions.width ∨ y < 0 ∨ y ≥ self.m_dimensions.height then
    some (false, self)
  else
    let buffer_idx : Nat := (x + y * self.m_dimensions.width).toNat
    match self.m_buffer[buffer_idx]? with
    | none => none
    | some stored =>
      if Float32.lt stored inv_z then
        some (true, { self with m_buffer := self.m_buffer.set buffer_idx inv_z })
      else some (false, self)

/-- One pixel of a scanline of `draw_filled_triangle_depth_tested`: the body of the loop
over `x` up to the depth test, that is the point and the value `z_val` passed to
`test_and_set`. -/
def draw_filled_triangle_depth_tested_pixel (segment_zs : Buffer Float32) (xl y : Int)
    (x : Int) : Option (List (Point2 × Float32)) :=
  (segment_zs.get (x - xl)).bind fun z_val =>
  some [((⟨x, y⟩ : Point2), z_val)]

/-- One scanline of `draw_filled_triangle_depth_tested`: the body of the loop over `y`. -/
def draw_filled_triangle_depth_tested_row (x_left x_right : Buffer Int)
    (z_left z_right : Buffer Float32) (p0 : Point2) (y : Int) :
    Option (List (Point2 × Float32)) :=
  (x_left.get (y - p0.y)).bind fun xl =>
  (x_right.get (y - p0.y)).bind fun xr =>
  (z_left.get (y - p0.y)).bind fun zl =>
  (z_right.get (y - p0.y)).bind fun zr =>
  (interpolate xl zl xr zr).bind fun segment_zs =>
  for_each_concat (draw_filled_triangle_depth_tested_pixel segment_zs xl y) (int_range xl xr)

/-- The calls `test_and_set(pt, z_val)` made by `draw_filled_triangle_depth_tested`, in
order; `none` is a failed `Buffer` check.  The values interpolated are the inverses
`1.0f / z`. -/
def draw_filled_triangle_depth_tested_tests (p0 : Point2) (z0 : Float32) (p1 : Point2)
    (z1 : Float32) (p2 : Point2) (z2 : Float32) : Option (List (Point2 × Float32)) :=
  let sorted := sort_point_bundles_by_y (p0, z0) (p1, z1) (p2, z2)
  (interpolate_points sorted.1.1 sorted.2.1.1 sorted.2.2.1).bind fun edges =>
  (interpolate_attributes sorted.1.1 sorted.2.1.1 sorted.2.2.1
    (1 / sorted.1.2) (1 / sorted.2.1.2) (1 / sorted.2.2.2) edges.2.2).bind fun zs =>
  for_each_concat
    (draw_filled_triangle_depth_tested_row edges.1 edges.2.1 zs.1 zs.2 sorted.1.1)
    (int_range sorted.1.1.y sorted.2.2.1.y)

/-- The statement `if (depth_buffer.test_and_set(pt, z_val)) { canvas.draw_pixel(pt, color); }`
executed for each `(pt, z_val)` of a list, in order, on the canvas and the depth buffer. -/
def depth_tested_draw_pixels (color : Color) :
    Canvas → DepthBuffer → List (Point2 × Float32) → Option (Canvas × DepthBuffer)
  | canvas, depth_buffer, [] => some (canvas, depth_buffer)
  | canvas, depth_buffer, (pt, z_val) :: rest =>
    match depth_buffer.test_and_set pt z_val with
    | none => none
    | some (true, depth_buffer) =>
      match Canvas.draw_pixel canvas pt color with
      | none => none
      | some canvas => depth_tested_draw_pixels color canvas depth_buffer rest
    | some (false, depth_buffer) => depth_tested_draw_pixels color canvas depth_buffer rest

/-- A triangle filled with one colour under the depth test
(`draw_filled_triangle_depth_tested`): the canvas and the depth buffer afterwards. -/
def draw_filled_triangle_depth_tested (canvas : Canvas) (depth_buffer : DepthBuffer)
    (p0 : Point2) (z0 : Float32) (p1 : Point2) (z1 : Float32) (p2 : Point2) (z2 : Float32)
    (color : Color) : Option (Canvas × DepthBuffer) :=
  (draw_filled_triangle_depth_tested_tests p0 z0 p1 z1 p2 z2).bind
    (depth_tested_draw_pixels color canvas depth_buffer)

end binary32

end cgfs

namespace cgfs

namespace Float32

/-- The test `std::isfinite`: neither an infinity nor a NaN. -/
def is_finite : Float32 → Bool
  | finite _ => true
  | neg_zero => true
  | _ => false

end Float32

namespace binary32

open rasterizer

/-! ## `texcoords.hpp`, and the vector kinds of `interpolate` -/

/-- Texture coordinates, a 2-vector of floats (`texcoords.hpp`). -/
structure TexCoords where
  u : Float32
  v : Float32
deriving DecidableEq, Repr

namespace TexCoords

/-- Componentwise sum (`operator+`). -/
def add (lhs rhs : TexCoords) : TexCoords := ⟨lhs.u + rhs.u, lhs.v + rhs.v⟩

/-- Componentwise difference (`operator-`). -/
def sub (lhs rhs : TexCoords) : TexCoords := ⟨lhs.u - rhs.u, lhs.v - rhs.v⟩

/-- Division by a scalar (`operator/`). -/
def div (tc : TexCoords) (amount : Float32) : TexCoords := ⟨tc.u / amount, tc.v / amount⟩

end TexCoords

/-- The kind `T = TexCoords`.  The divisor is `to_float(i1 - i0)`. -/
instance instInterpolableTexCoords : Interpolable TexCoords where
  F := TexCoords
  sub v1 v0 := TexCoords.sub v1 v0
  to_float v := v
  div x y := TexCoords.div x (Float32.round y)
  add d a := TexCoords.add d a
  cast d := d

/-- The kind `T = Vec3`.  The divisor is `to_float(i1 - i0)`. -/
instance instInterpolableVec3 : Interpolable Vec3 where
  F := Vec3
  sub v1 v0 := Vec3.sub v1 v0
  to_float v := v
  div x y := Vec3.div x (Float32.round y)
  add d a := Vec3.add d a
  cast d := d

end binary32

end cgfs

namespace cgfs

namespace binary32

/-- The class invariant established by the constructor of `DepthBuffer`: valid dimensions
and `width * height` cells. -/
def DepthBuffer.WellFormed (self : DepthBuffer) : Prop :=
  self.m_dimensions.is_valid = true ∧
    self.m_buffer.length = (self.m_dimensions.width * self.m_dimensions.height).toNat

end binary32

end cgfs

namespace cgfs

namespace binary32

/-- The exact position of a vertex: the rational values of its coordinates `x`, `y`, `z`.
It serves to state geometric conditions on a triangle. -/
def Vec4.exact (v : Vec4) : cgfs.Vec3 := ⟨v.x.toRat, v.y.toRat, v.z.toRat⟩

/-- A vertex whose coordinates `x`, `y`, `z` are finite floats of magnitude at most `B`. -/
def Vec4.within (v : Vec4) (B : ℚ) : Prop :=
  (v.x.is_finite = true ∧ |v.x.toRat| ≤ B) ∧ (v.y.is_finite = true ∧ |v.y.toRat| ≤ B) ∧
    (v.z.is_finite = true ∧ |v.z.toRat| ≤ B)

end binary32

end cgfs

namespace cgfs

namespace Float32

end Float32

end cgfs

namespace cgfs

namespace binary32

/-- The exact position of a model vertex: the rational values of its coordinates. -/
def Vec3.exact (v : Vec3) : cgfs.Vec3 := ⟨v.x.toRat, v.y.toRat, v.z.toRat⟩

/-- The exact matrix of a rotation: the rational values of its entries. -/
def Mat3.exact (mat : Mat3) : cgfs.Mat3 := ⟨fun i j => (mat.m i j).toRat⟩

end binary32

end cgfs

namespace cgfs

namespace binary32

end binary32

end cgfs

/-! # Theorems -/

namespace cgfs

namespace rasterizer

/-! ## The interpolation loop in closed form -/

/-- The loop appends, for each of its `n` iterations `k`, the conversion of the accumulator
after `k` additions of the step; it fails exactly when the capacity would be exceeded. -/
theorem interpolate_loop_eq {T : Type} [Interpolable T] (a : Interpolable.F T) (n : Nat) :
    ∀ (d : Interpolable.F T) (result : Buffer T), result.size ≤ kMaxSize →
      interpolate_loop a n d result =
        if result.size + n ≤ kMaxSize then
          some ⟨result.m_storage ++ (List.range n).map fun k =>
            Interpolable.cast ((fun x => Interpolable.add x a)^[k] d)⟩
        else none := by
  induction n with
  | zero =>
    intro d result hres
    simp [interpolate_loop, hres]
  | succ n ih =>
    intro d result hres
    unfold interpolate_loop
    by_cases hlt : result.size < kMaxSize
    · have hsz : (Buffer.mk (result.m_storage ++ [Interpolable.cast d])).size
          = result.size + 1 := by simp [Buffer.size]
      simp only [Buffer.push_back, hlt, if_true]
      rw [ih (Interpolable.add d a) _ (by rw [hsz]; omega), hsz]
      have hcond : result.size + 1 + n ≤ kMaxSize ↔ result.size + (n + 1) ≤ kMaxSize := by
        omega
      simp only [hcond]
      split
      · simp only [List.range_succ_eq_map, List.map_cons, List.map_map, List.append_assoc,
          List.singleton_append, Function.iterate_zero, id_eq]
        rfl
      · rfl
    · have hge : ¬ result.size + (n + 1) ≤ kMaxSize := by omega
      simp [Buffer.push_back, hlt, hge]

/-- Closed form of `interpolate` when `i0` and `i1` differ. -/
theorem interpolate_eq_of_ne {T : Type} [Interpolable T] (i0 i1 : Int) (v0 v1 : T)
    (hne : i0 ≠ i1) :
    interpolate i0 v0 i1 v1 =
      if (i1 + 1 - i0).toNat ≤ kMaxSize then
        some ⟨(List.range (i1 + 1 - i0).toNat).map fun k =>
          Interpolable.cast ((fun x => Interpolable.add x
            (Interpolable.div (Interpolable.to_float (Interpolable.sub v1 v0))
              (((i1 - i0 : Int)) : ℚ)))^[k] (Interpolable.to_float v0))⟩
      else none := by
  unfold interpolate
  rw [if_neg hne]
  simp only []
  rw [interpolate_loop_eq _ _ _ _ (by simp [Buffer.empty, Buffer.size])]
  simp [Buffer.empty, Buffer.size]

/-- Closed form of `interpolate` on a non-degenerate span `i0 < i1`. -/
theorem interpolate_eq_of_lt {T : Type} [Interpolable T] (i0 i1 : Int) (v0 v1 : T)
    (h : i0 < i1) :
    interpolate i0 v0 i1 v1 =
      if (i1 + 1 - i0).toNat ≤ kMaxSize then
        some ⟨(List.range (i1 + 1 - i0).toNat).map fun k =>
          Interpolable.cast ((fun x => Interpolable.add x
            (Interpolable.div (Interpolable.to_float (Interpolable.sub v1 v0))
              (((i1 - i0 : Int)) : ℚ)))^[k] (Interpolable.to_float v0))⟩
      else none :=
  interpolate_eq_of_ne i0 i1 v0 v1 (ne_of_lt h)

/-- The degenerate span `i0 = i1` gives the one-sample buffer `[v0]`. -/
theorem interpolate_eq_of_eq {T : Type} [Interpolable T] (i0 : Int) (v0 v1 : T) :
    interpolate i0 v0 i0 v1 = some ⟨[v0]⟩ := by
  simp [interpolate, Buffer.push_back, Buffer.empty, Buffer.size, kMaxSize]

/-- Samples of a returned buffer: on `i0 < i1`, the sample at offset `i - i0` is the
conversion of the accumulator after `i - i0` additions of the step. -/
theorem interpolate_get {T : Type} [Interpolable T] (i0 i1 : Int) (v0 v1 : T) (h : i0 < i1)
    (b : Buffer T) (hb : interpolate i0 v0 i1 v1 = some b) (i : Int) (hi0 : i0 ≤ i)
    (hi1 : i ≤ i1) :
    b.get (i - i0) = some (Interpolable.cast ((fun x => Interpolable.add x
      (Interpolable.div (Interpolable.to_float (Interpolable.sub v1 v0))
        (((i1 - i0 : Int)) : ℚ)))^[(i - i0).toNat] (Interpolable.to_float v0))) := by
  rw [interpolate_eq_of_lt i0 i1 v0 v1 h] at hb
  split at hb
  · cases hb
    have hk : (i - i0).toNat < (i1 + 1 - i0).toNat := by omega
    have hin : 0 ≤ i - i0 ∧ i - i0 < (((i1 + 1 - i0).toNat : Nat) : Int) := by omega
    simp only [Buffer.get, Buffer.size, List.length_map, List.length_range, hin, and_self,
      if_true, List.getElem?_map, List.getElem?_range hk, Option.map_some']
  · exact Option.noConfusion hb

/-- A returned buffer exists whenever the span fits the capacity. -/
theorem interpolate_isSome {T : Type} [Interpolable T] (i0 i1 : Int) (v0 v1 : T)
    (h : i0 ≤ i1) (hcap : i1 - i0 + 1 ≤ (kMaxSize : Int)) :
    (interpolate i0 v0 i1 v1).isSome = true := by
  rcases eq_or_lt_of_le h with heq | hlt
  · subst heq
    rw [interpolate_eq_of_eq]
    rfl
  · have hfit : (i1 + 1 - i0).toNat ≤ kMaxSize := by omega
    rw [interpolate_eq_of_lt i0 i1 v0 v1 hlt, if_pos hfit]
    rfl

/-- Whether `interpolate` returns depends on the span only: it returns exactly when the
`i1 + 1 - i0` samples (none if `i1 < i0`) fit the capacity. -/
theorem interpolate_isSome_iff {T : Type} [Interpolable T] (i0 i1 : Int) (v0 v1 : T) :
    (interpolate i0 v0 i1 v1).isSome = true ↔ (i1 + 1 - i0).toNat ≤ kMaxSize := by
  by_cases heq : i0 = i1
  · subst heq
    rw [interpolate_eq_of_eq]
    have : (i0 + 1 - i0).toNat = 1 := by omega
    simp [this, kMaxSize]
  · rw [interpolate_eq_of_ne i0 i1 v0 v1 heq]
    split <;> simp [*]

/-- Every returned buffer has `i1 + 1 - i0` samples (none if `i1 < i0`). -/
theorem interpolate_size_eq {T : Type} [Interpolable T] (i0 i1 : Int) (v0 v1 : T)
    (b : Buffer T) (hb : interpolate i0 v0 i1 v1 = some b) :
    b.size = (i1 + 1 - i0).toNat ∧ b.size ≤ kMaxSize := by
  by_cases heq : i0 = i1
  · subst heq
    rw [interpolate_eq_of_eq] at hb
    cases hb
    have : (i0 + 1 - i0).toNat = 1 := by omega
    simp [Buffer.size, this, kMaxSize]
  · rw [interpolate_eq_of_ne i0 i1 v0 v1 heq] at hb
    split at hb
    · cases hb
      simp only [Buffer.size, List.length_map, List.length_range]
      exact ⟨trivial, by assumption⟩
    · exact Option.noConfusion hb

/-- Repeated addition of a rational step. -/
theorem iterate_add_rat (a d : ℚ) (k : Nat) : (fun x : ℚ => x + a)^[k] d = d + k * a := by
  induction k generalizing d with
  | zero => simp
  | succ k ih =>
    rw [Function.iterate_succ_apply, ih]
    push_cast
    ring

/-- Repeated addition of a step in texture coordinates. -/
theorem iterate_add_texcoords (a d : TexCoords) (k : Nat) :
    (fun x : TexCoords => TexCoords.add x a)^[k] d = ⟨d.u + k * a.u, d.v + k * a.v⟩ := by
  induction k generalizing d with
  | zero => simp
  | succ k ih =>
    rw [Function.iterate_succ_apply, ih]
    simp only [TexCoords.add, TexCoords.mk.injEq]
    push_cast
    constructor <;> ring

/-- Repeated addition of a step in 3-vectors. -/
theorem iterate_add_vec3 (a d : Vec3) (k : Nat) :
    (fun x : Vec3 => Vec3.add x a)^[k] d =
      ⟨d.x + k * a.x, d.y + k * a.y, d.z + k * a.z⟩ := by
  induction k generalizing d with
  | zero => simp
  | succ k ih =>
    rw [Function.iterate_succ_apply, ih]
    simp only [Vec3.add, Vec3.mk.injEq]
    push_cast
    refine ⟨?_, ?_, ?_⟩ <;> ring

/-- The exact value `v0 + k * ((v1 - v0) / n)` is `lerp v0 v1 (k / n)` when `n` is not `0`. -/
theorem step_eq_lerp (v0 v1 k n : ℚ) (hn : n ≠ 0) :
    v0 + k * ((v1 - v0) / n) = lerp v0 v1 (k / n) := by
  unfold lerp
  field_simp
  ring

/-! ## C1: number of samples of `interpolate` -/

/-- C1 (as stated, refuted): the span `i0 = 0 <= i1 = 768` has `769` samples, one more than
the capacity `kMaxSize = 768` of a `Buffer`; the 769th `push_back` fails its assertion, so
no sequence of `i1 - i0 + 1` samples is returned. -/
theorem interpolate_size_counterexample :
    (0 : Int) ≤ 768 ∧ interpolate (0 : Int) (0 : Int) 768 (0 : Int) = none ∧
      ¬ ∃ b : Buffer Int, interpolate (0 : Int) (0 : Int) 768 (0 : Int) = some b ∧
        (b.size : Int) = 768 - 0 + 1 := by
  have hnone : interpolate (0 : Int) (0 : Int) 768 (0 : Int) = none := by
    rw [interpolate_eq_of_lt _ _ _ _ (by decide)]
    decide
  refine ⟨by decide, hnone, ?_⟩
  rintro ⟨b, hb, -⟩
  rw [hnone] at hb
  exact Option.noConfusion hb

/-- C1 (amended): for every kind of value, all `i0 <= i1` whose span `i1 - i0 + 1` fits the
buffer capacity `kMaxSize = 768`, `interpolate i0 v0 i1 v1` returns a buffer of exactly
`i1 - i0 + 1` samples; when `i0 = i1` it returns `[v0]`, and does so whatever the division
of the kind is (the division is not performed). -/
theorem interpolate_size {T : Type} (K : Interpolable T) (i0 i1 : Int) (v0 v1 : T)
    (h : i0 ≤ i1) (hcap : i1 - i0 + 1 ≤ (kMaxSize : Int)) :
    (∃ b : Buffer T, interpolate i0 v0 i1 v1 = some b ∧ (b.size : Int) = i1 - i0 + 1) ∧
      (i0 = i1 → ∀ div : K.F → ℚ → K.F,
        @interpolate T { K with div := div } i0 v0 i1 v1 = some ⟨[v0]⟩) := by
  constructor
  · rcases eq_or_lt_of_le h with heq | hlt
    · subst heq
      exact ⟨_, interpolate_eq_of_eq i0 v0 v1, by simp [Buffer.size]⟩
    · have hfit : (i1 + 1 - i0).toNat ≤ kMaxSize := by omega
      rw [interpolate_eq_of_lt i0 i1 v0 v1 hlt, if_pos hfit]
      refine ⟨_, rfl, ?_⟩
      simp only [Buffer.size, List.length_map, List.length_range]
      omega
  · intro heq div
    subst heq
    exact @interpolate_eq_of_eq T { K with div := div } i0 v0 v1

/-- C1 (amended), instantiated: the integer kind on the span `1..4`, and the degenerate
span `3..3`. -/
theorem interpolate_size_witness :
    (∃ b : Buffer Int, interpolate (1 : Int) (1 : Int) 4 (0 : Int) = some b ∧
      (b.size : Int) = 4 - 1 + 1) ∧
    (∀ div : ℚ → ℚ → ℚ,
      @interpolate Int { instInterpolableInt with div := div } 3 7 3 9 = some ⟨[7]⟩) :=
  ⟨(interpolate_size instInterpolableInt 1 4 1 0 (by decide) (by decide)).1,
   (interpolate_size instInterpolableInt 3 3 7 9 (by decide) (by decide)).2 rfl⟩

/-! ## Samples of the real-valued kinds under exact arithmetic -/

/-- Exact arithmetic.
For the kinds float, `TexCoords` and `Vec3` and all `i0 < i1`, a buffer is returned
whenever the span fits the capacity, and in every returned buffer the sample at offset
`i - i0`, for each `i0 <= i <= i1`, equals `lerp v0 v1 ((i - i0) / (i1 - i0))`, that is
`(1 - t) * v0 + t * v1`, exactly over exact arithmetic, although the code obtains it by
adding the step `(v1 - v0) / (i1 - i0)` repeatedly. -/
theorem interpolate_real_eq_lerp (i0 i1 : Int) (h : i0 < i1) :
    (∀ v0 v1 : ℚ,
      (i1 - i0 + 1 ≤ (kMaxSize : Int) → (interpolate i0 v0 i1 v1).isSome = true) ∧
      ∀ b, interpolate i0 v0 i1 v1 = some b → ∀ i : Int, i0 ≤ i → i ≤ i1 →
        b.get (i - i0) = some (lerp v0 v1 (((i - i0 : Int) : ℚ) / ((i1 - i0 : Int) : ℚ)))) ∧
    (∀ v0 v1 : TexCoords,
      (i1 - i0 + 1 ≤ (kMaxSize : Int) → (interpolate i0 v0 i1 v1).isSome = true) ∧
      ∀ b, interpolate i0 v0 i1 v1 = some b → ∀ i : Int, i0 ≤ i → i ≤ i1 →
        b.get (i - i0) =
          some (TexCoords.lerp_spec v0 v1 (((i - i0 : Int) : ℚ) / ((i1 - i0 : Int) : ℚ)))) ∧
    (∀ v0 v1 : Vec3,
      (i1 - i0 + 1 ≤ (kMaxSize : Int) → (interpolate i0 v0 i1 v1).isSome = true) ∧
      ∀ b, interpolate i0 v0 i1 v1 = some b → ∀ i : Int, i0 ≤ i → i ≤ i1 →
        b.get (i - i0) =
          some (Vec3.lerp_spec v0 v1 (((i - i0 : Int) : ℚ) / ((i1 - i0 : Int) : ℚ)))) := by
  have hn : ((i1 - i0 : Int) : ℚ) ≠ 0 := by
    have : i1 - i0 ≠ 0 := by omega
    exact_mod_cast this
  refine ⟨fun v0 v1 => ⟨interpolate_isSome i0 i1 v0 v1 (le_of_lt h), ?_⟩,
    fun v0 v1 => ⟨interpolate_isSome i0 i1 v0 v1 (le_of_lt h), ?_⟩,
    fun v0 v1 => ⟨interpolate_isSome i0 i1 v0 v1 (le_of_lt h), ?_⟩⟩
  · intro b hb i hi0 hi1
    have hk : (((i - i0).toNat : Nat) : ℚ) = ((i - i0 : Int) : ℚ) := by
      have : (((i - i0).toNat : Nat) : Int) = i - i0 := Int.toNat_of_nonneg (by omega)
      exact_mod_cast this
    rw [interpolate_get i0 i1 v0 v1 h b hb i hi0 hi1]
    show some ((fun x : ℚ => x + (v1 - v0) / ((i1 - i0 : Int) : ℚ))^[(i - i0).toNat] v0) = _
    rw [iterate_add_rat, hk, step_eq_lerp _ _ _ _ hn]
  · intro b hb i hi0 hi1
    have hk : (((i - i0).toNat : Nat) : ℚ) = ((i - i0 : Int) : ℚ) := by
      have : (((i - i0).toNat : Nat) : Int) = i - i0 := Int.toNat_of_nonneg (by omega)
      exact_mod_cast this
    rw [interpolate_get i0 i1 v0 v1 h b hb i hi0 hi1]
    show some ((fun x : TexCoords => TexCoords.add x
      (TexCoords.div (TexCoords.sub v1 v0) ((i1 - i0 : Int) : ℚ)))^[(i - i0).toNat] v0) = _
    rw [iterate_add_texcoords, hk]
    simp only [TexCoords.lerp_spec, TexCoords.add, TexCoords.mul, TexCoords.div,
      TexCoords.sub, Option.some.injEq, TexCoords.mk.injEq]
    constructor <;> (rw [step_eq_lerp _ _ _ _ hn]; unfold lerp; ring)
  · intro b hb i hi0 hi1
    have hk : (((i - i0).toNat : Nat) : ℚ) = ((i - i0 : Int) : ℚ) := by
      have : (((i - i0).toNat : Nat) : Int) = i - i0 := Int.toNat_of_nonneg (by omega)
      exact_mod_cast this
    rw [interpolate_get i0 i1 v0 v1 h b hb i hi0 hi1]
    show some ((fun x : Vec3 => Vec3.add x
      (Vec3.div (Vec3.sub v1 v0) ((i1 - i0 : Int) : ℚ)))^[(i - i0).toNat] v0) = _
    rw [iterate_add_vec3, hk]
    simp only [Vec3.lerp_spec, Vec3.add, Vec3.mul, Vec3.div, Vec3.sub, Option.some.injEq,
      Vec3.mk.injEq]
    refine ⟨?_, ?_, ?_⟩ <;> (rw [step_eq_lerp _ _ _ _ hn]; unfold lerp; ring)

/-- Exact arithmetic, an instance.
On the span `1..4`: the float samples from `1` down to `0`, at `i = 2`,
and the 3-vector samples at `i = 3`. -/
theorem interpolate_real_eq_lerp_witness :
    (1 : Int) < 4 ∧
    (∃ b, interpolate (1 : Int) (1 : ℚ) 4 (0 : ℚ) = some b ∧
      b.get (2 - 1) = some (lerp 1 0 (((2 - 1 : Int) : ℚ) / ((4 - 1 : Int) : ℚ)))) ∧
    (∃ b, interpolate (1 : Int) (Vec3.mk 0 3 6) 4 (Vec3.mk 3 0 6) = some b ∧
      b.get (3 - 1) = some (Vec3.lerp_spec (Vec3.mk 0 3 6) (Vec3.mk 3 0 6)
        (((3 - 1 : Int) : ℚ) / ((4 - 1 : Int) : ℚ)))) := by
  have key := interpolate_real_eq_lerp 1 4 (by decide)
  refine ⟨by decide, ?_, ?_⟩
  · obtain ⟨b, hb⟩ := Option.isSome_iff_exists.mp ((key.1 1 0).1 (by decide))
    exact ⟨b, hb, (key.1 1 0).2 b hb 2 (by decide) (by decide)⟩
  · obtain ⟨b, hb⟩ := Option.isSome_iff_exists.mp
      ((key.2.2 (Vec3.mk 0 3 6) (Vec3.mk 3 0 6)).1 (by decide))
    exact ⟨b, hb, (key.2.2 (Vec3.mk 0 3 6) (Vec3.mk 3 0 6)).2 b hb 3 (by decide) (by decide)⟩

/-! ## Samples of the integer kind under exact arithmetic -/

/-- Truncation toward zero moves a value by less than one. -/
theorem abs_truncToInt_sub_lt_one (q : ℚ) : |((truncToInt q : Int) : ℚ) - q| < 1 := by
  unfold truncToInt
  split
  · have h1 := Int.floor_le q
    have h2 := Int.lt_floor_add_one q
    rw [abs_lt]
    constructor <;> linarith
  · have h1 := Int.le_ceil q
    have h2 := Int.ceil_lt_add_one q
    rw [abs_lt]
    constructor <;> linarith

/-- Truncation toward zero is monotone. -/
theorem truncToInt_mono {p q : ℚ} (h : p ≤ q) : truncToInt p ≤ truncToInt q := by
  unfold truncToInt
  by_cases hp : 0 ≤ p
  · have hq : 0 ≤ q := le_trans hp h
    rw [if_pos hp, if_pos hq]
    exact Int.floor_mono h
  · rw [if_neg hp]
    by_cases hq : 0 ≤ q
    · rw [if_pos hq]
      have h1 : ⌈p⌉ ≤ 0 := Int.ceil_le.mpr (by push_neg at hp; exact_mod_cast le_of_lt hp)
      have h2 : (0 : Int) ≤ ⌊q⌋ := Int.le_floor.mpr (by exact_mod_cast hq)
      exact le_trans h1 h2
    · rw [if_neg hq]
      exact Int.ceil_mono h

/-- Truncation of an integer value is that integer. -/
theorem truncToInt_intCast (n : Int) : truncToInt (n : ℚ) = n := by
  unfold truncToInt
  split <;> simp

/-- Samples of the integer kind: the sample at offset `k` of a returned buffer is the
truncation of the exact value `v0 + k * ((v1 - v0) / (i1 - i0))`. -/
theorem interpolate_int_get (i0 i1 v0 v1 : Int) (h : i0 < i1) (b : Buffer Int)
    (hb : interpolate i0 v0 i1 v1 = some b) (i : Int) (hi0 : i0 ≤ i) (hi1 : i ≤ i1) :
    b.get (i - i0) = some (truncToInt
      ((v0 : ℚ) + ((i - i0 : Int) : ℚ) * ((((v1 : ℚ)) - v0) / ((i1 - i0 : Int) : ℚ)))) := by
  have hk : (((i - i0).toNat : Nat) : ℚ) = ((i - i0 : Int) : ℚ) := by
    have : (((i - i0).toNat : Nat) : Int) = i - i0 := Int.toNat_of_nonneg (by omega)
    exact_mod_cast this
  rw [interpolate_get i0 i1 v0 v1 h b hb i hi0 hi1]
  show some (truncToInt ((fun x : ℚ => x + (((v1 - v0 : Int)) : ℚ) / ((i1 - i0 : Int) : ℚ))^[
    (i - i0).toNat] (v0 : ℚ))) = _
  rw [iterate_add_rat, hk]
  push_cast
  rfl

/-- The integer kind truncates.
On the span `0..2` from `0` to `1` the middle sample is the
integer `0`, whereas `lerp 0 1 (1/2) = 1/2`; they differ by `1/2`, more than `1e-5`. -/
theorem interpolate_int_counterexample :
    (0 : Int) < 2 ∧ ∃ b : Buffer Int, ∃ s : Int,
      interpolate (0 : Int) (0 : Int) 2 (1 : Int) = some b ∧ b.get (1 - 0) = some s ∧
        ¬ |(s : ℚ) - lerp ((0 : Int) : ℚ) ((1 : Int) : ℚ)
            (((1 - 0 : Int) : ℚ) / ((2 - 0 : Int) : ℚ))| ≤ 1 / 100000 := by
  refine ⟨by decide, ⟨[0, 0, 1]⟩, 0, ?_, ?_, ?_⟩
  · rw [interpolate_eq_of_lt _ _ _ _ (by decide)]
    decide!
  · decide
  · norm_num [lerp]
    rw [abs_of_pos (by norm_num)]
    norm_num

/-- Exact arithmetic.
For the integer kind and all `i0 < i1`, a buffer is returned whenever the
span fits the capacity, and in every returned buffer the sample at offset `i - i0`, for each
`i0 <= i <= i1`, is the truncation toward zero of `lerp v0 v1 ((i - i0) / (i1 - i0))`
computed over exact arithmetic; it lies within distance less than `1` of that value. -/
theorem interpolate_int_eq_trunc_lerp (i0 i1 v0 v1 : Int) (h : i0 < i1) :
    (i1 - i0 + 1 ≤ (kMaxSize : Int) → (interpolate i0 v0 i1 v1).isSome = true) ∧
    ∀ b, interpolate i0 v0 i1 v1 = some b → ∀ i : Int, i0 ≤ i → i ≤ i1 →
      ∃ s : Int, b.get (i - i0) = some s ∧
        s = truncToInt (lerp v0 v1 (((i - i0 : Int) : ℚ) / ((i1 - i0 : Int) : ℚ))) ∧
        |(s : ℚ) - lerp v0 v1 (((i - i0 : Int) : ℚ) / ((i1 - i0 : Int) : ℚ))| < 1 := by
  have hn : ((i1 - i0 : Int) : ℚ) ≠ 0 := by
    have : i1 - i0 ≠ 0 := by omega
    exact_mod_cast this
  refine ⟨interpolate_isSome i0 i1 v0 v1 (le_of_lt h), ?_⟩
  intro b hb i hi0 hi1
  refine ⟨_, interpolate_int_get i0 i1 v0 v1 h b hb i hi0 hi1, ?_, ?_⟩
  · rw [step_eq_lerp _ _ _ _ hn]
  · rw [step_eq_lerp _ _ _ _ hn]
    exact abs_truncToInt_sub_lt_one _

/-- Exact arithmetic, an instance on the span `0..2` from `0` to `1`, at `i = 1`. -/
theorem interpolate_int_eq_trunc_lerp_witness :
    (0 : Int) < 2 ∧ ∃ b, interpolate (0 : Int) (0 : Int) 2 (1 : Int) = some b ∧
      ∃ s : Int, b.get (1 - 0) = some s ∧
        s = truncToInt (lerp (0 : Int) (1 : Int) (((1 - 0 : Int) : ℚ) / ((2 - 0 : Int) : ℚ))) ∧
        |(s : ℚ) - lerp (0 : Int) (1 : Int) (((1 - 0 : Int) : ℚ) / ((2 - 0 : Int) : ℚ))| < 1 := by
  have key := interpolate_int_eq_trunc_lerp 0 2 0 1 (by decide)
  obtain ⟨b, hb⟩ := Option.isSome_iff_exists.mp (key.1 (by decide))
  exact ⟨by decide, b, hb, key.2 b hb 1 (by decide) (by decide)⟩

/-! ## The edge classifier in terms of the long edge and the merged short edges -/

/-- What `interpolate_attributes` returns: the long-edge sequence and the merged short-edge
sequence, ordered by the tag. -/
theorem interpolate_attributes_eq_some_iff {T : Type} [Interpolable T] (p0 p1 p2 : Point2)
    (a0 a1 a2 : T) (side : LeftSide) (al ar : Buffer T) :
    interpolate_attributes p0 p1 p2 a0 a1 a2 side = some (al, ar) ↔
      ∃ l m, long_edge p0 p2 a0 a2 = some l ∧ merged_short_edges p0 p1 p2 a0 a1 a2 = some m ∧
        ((side = LeftSide.k02 ∧ al = l ∧ ar = m) ∨
         (side = LeftSide.k01_12 ∧ al = m ∧ ar = l)) := by
  unfold interpolate_attributes long_edge merged_short_edges
  cases h01 : interpolate p0.y a0 p1.y a1 with
  | none => simp
  | some a01 =>
    cases h12 : interpolate p1.y a1 p2.y a2 with
    | none => simp
    | some a12 =>
      cases h02 : interpolate p0.y a0 p2.y a2 with
      | none => simp
      | some a02 =>
        simp only [Option.some_bind]
        cases hpop : a01.pop_back with
        | none => simp
        | some a01p =>
          simp only [Option.some_bind]
          cases hcat : concatenate a01p a12 with
          | none => simp
          | some a01_a12 =>
            cases side <;> simp [eq_comm]

/-- What `interpolate_points` returns: the long-edge sequence and the merged short-edge
sequence of the X coordinates, ordered by comparing them at the probe index `size / 2`. -/
theorem interpolate_points_eq_some_iff (p0 p1 p2 : Point2) (xl xr : Buffer Int)
    (tag : LeftSide) :
    interpolate_points p0 p1 p2 = some (xl, xr, tag) ↔
      ∃ l m a b, long_edge p0 p2 p0.x p2.x = some l ∧
        merged_short_edges p0 p1 p2 p0.x p1.x p2.x = some m ∧
        l.get (Int.ofNat (l.size / 2)) = some a ∧ m.get (Int.ofNat (l.size / 2)) = some b ∧
        ((a < b ∧ tag = LeftSide.k02 ∧ xl = l ∧ xr = m) ∨
         (¬ a < b ∧ tag = LeftSide.k01_12 ∧ xl = m ∧ xr = l)) := by
  unfold interpolate_points long_edge merged_short_edges
  cases h01 : interpolate p0.y p0.x p1.y p1.x with
  | none => simp
  | some x01 =>
    cases h12 : interpolate p1.y p1.x p2.y p2.x with
    | none => simp
    | some x12 =>
      cases h02 : interpolate p0.y p0.x p2.y p2.x with
      | none => simp
      | some x02 =>
        simp only [Option.some_bind]
        cases hpop : x01.pop_back with
        | none => simp
        | some x01p =>
          simp only [Option.some_bind]
          cases hcat : concatenate x01p x12 with
          | none => simp
          | some x01_x12 =>
            simp only [Option.some_bind]
            simp only [Option.some.injEq, exists_and_left, exists_eq_left']
            generalize Int.ofNat (x02.size / 2) = mid
            cases ha : x02.get mid with
            | none => simp
            | some a =>
              cases hb : x01_x12.get mid with
              | none => simp
              | some b =>
                simp only [Option.some_bind, Option.some.injEq, exists_eq_left']
                by_cases hab : a < b
                · rw [if_pos hab]
                  constructor
                  · intro h
                    cases h
                    exact Or.inl ⟨hab, rfl, rfl, rfl⟩
                  · rintro (⟨-, rfl, rfl, rfl⟩ | ⟨hn, -⟩)
                    · rfl
                    · exact absurd hab hn
                · rw [if_neg hab]
                  constructor
                  · intro h
                    cases h
                    exact Or.inr ⟨hab, rfl, rfl, rfl⟩
                  · rintro (⟨hn, -⟩ | ⟨-, rfl, rfl, rfl⟩)
                    · exact absurd hn hab
                    · rfl

/-- Indexing a buffer succeeds exactly on the indices `0 <= index < size`. -/
theorem buffer_get_isSome_iff {T : Type} (b : Buffer T) (index : Int) :
    (b.get index).isSome = true ↔ 0 ≤ index ∧ index < (b.size : Int) := by
  unfold Buffer.get
  by_cases h : 0 ≤ index ∧ index < (b.size : Int)
  · have hlt : index.toNat < b.m_storage.length := by
      have := h.2
      simp only [Buffer.size] at this
      omega
    simp [h, List.getElem?_eq_getElem hlt]
  · simp [h]

/-- What `merged_short_edges` returns: the first short-edge sequence without its last
sample, followed by the second short-edge sequence. -/
theorem merged_short_edges_eq_some_iff {T : Type} [Interpolable T] (p0 p1 p2 : Point2)
    (a0 a1 a2 : T) (m : Buffer T) :
    merged_short_edges p0 p1 p2 a0 a1 a2 = some m ↔
      ∃ a01 a12, interpolate p0.y a0 p1.y a1 = some a01 ∧
        interpolate p1.y a1 p2.y a2 = some a12 ∧ 0 < a01.size ∧
        a01.size - 1 + a12.size ≤ kMaxSize ∧
        m = ⟨a01.m_storage.dropLast ++ a12.m_storage⟩ := by
  unfold merged_short_edges
  cases h01 : interpolate p0.y a0 p1.y a1 with
  | none => simp
  | some a01 =>
    cases h12 : interpolate p1.y a1 p2.y a2 with
    | none => simp
    | some a12 =>
      simp only [Option.some_bind, Option.some.injEq, exists_eq_left', Buffer.pop_back,
        concatenate]
      by_cases hpos : 0 < a01.size
      · simp only [hpos, if_true, Option.some_bind, true_and]
        have hsz : (Buffer.mk a01.m_storage.dropLast).size = a01.size - 1 := by
          simp [Buffer.size]
        rw [hsz]
        by_cases hfit : a01.size - 1 + a12.size ≤ kMaxSize
        · simp [hfit, hpos, eq_comm]
        · simp [hfit]
      · simp [hpos]

/-- Size of the merged short-edge sequence of a sorted triangle. -/
theorem merged_short_edges_size {T : Type} [Interpolable T] (p0 p1 p2 : Point2)
    (a0 a1 a2 : T) (h01 : p0.y ≤ p1.y) (h12 : p1.y ≤ p2.y) (m : Buffer T)
    (hm : merged_short_edges p0 p1 p2 a0 a1 a2 = some m) :
    (m.size : Int) = p2.y - p0.y + 1 := by
  obtain ⟨a01, a12, e01, e12, hpos, -, rfl⟩ :=
    (merged_short_edges_eq_some_iff p0 p1 p2 a0 a1 a2 m).mp hm
  have s01 := (interpolate_size_eq _ _ _ _ _ e01).1
  have s12 := (interpolate_size_eq _ _ _ _ _ e12).1
  simp only [Buffer.size] at s01 s12 hpos
  simp only [Buffer.size, List.length_append, List.length_dropLast, s01, s12]
  omega

/-- The merged short-edge sequence of a sorted triangle is returned whenever the Y span
of the triangle fits the capacity. -/
theorem merged_short_edges_isSome {T : Type} [Interpolable T] (p0 p1 p2 : Point2)
    (a0 a1 a2 : T) (h01 : p0.y ≤ p1.y) (h12 : p1.y ≤ p2.y)
    (hcap : p2.y - p0.y + 1 ≤ (kMaxSize : Int)) :
    ∃ m, merged_short_edges p0 p1 p2 a0 a1 a2 = some m := by
  obtain ⟨a01, e01⟩ := Option.isSome_iff_exists.mp
    (interpolate_isSome p0.y p1.y a0 a1 h01 (by omega))
  obtain ⟨a12, e12⟩ := Option.isSome_iff_exists.mp
    (interpolate_isSome p1.y p2.y a1 a2 h12 (by omega))
  have s01 := (interpolate_size_eq _ _ _ _ _ e01).1
  have s12 := (interpolate_size_eq _ _ _ _ _ e12).1
  refine ⟨_, (merged_short_edges_eq_some_iff p0 p1 p2 a0 a1 a2 _).mpr
    ⟨a01, a12, e01, e12, ?_, ?_, rfl⟩⟩
  · omega
  · omega

/-- Size of the long-edge sequence. -/
theorem long_edge_size {T : Type} [Interpolable T] (p0 p2 : Point2) (a0 a2 : T)
    (h02 : p0.y ≤ p2.y) (l : Buffer T) (hl : long_edge p0 p2 a0 a2 = some l) :
    (l.size : Int) = p2.y - p0.y + 1 := by
  have s02 := (interpolate_size_eq _ _ _ _ _ hl).1
  omega

/-- The edge classifier returns on every sorted triangle whose Y span fits the capacity. -/
theorem interpolate_points_isSome (p0 p1 p2 : Point2) (h01 : p0.y ≤ p1.y)
    (h12 : p1.y ≤ p2.y) (hcap : p2.y - p0.y + 1 ≤ (kMaxSize : Int)) :
    ∃ r, interpolate_points p0 p1 p2 = some r := by
  obtain ⟨l, hl⟩ := Option.isSome_iff_exists.mp
    (interpolate_isSome p0.y p2.y p0.x p2.x (le_trans h01 h12) hcap)
  obtain ⟨m, hm⟩ := merged_short_edges_isSome p0 p1 p2 p0.x p1.x p2.x h01 h12 hcap
  have sl := long_edge_size p0 p2 p0.x p2.x (le_trans h01 h12) l hl
  have sm := merged_short_edges_size p0 p1 p2 p0.x p1.x p2.x h01 h12 m hm
  have hmid : (0 : Int) ≤ Int.ofNat (l.size / 2) ∧ Int.ofNat (l.size / 2) < (l.size : Int) := by
    simp only [Int.ofNat_eq_coe]
    omega
  obtain ⟨a, ha⟩ := Option.isSome_iff_exists.mp ((buffer_get_isSome_iff l _).mpr hmid)
  obtain ⟨b, hb⟩ := Option.isSome_iff_exists.mp
    ((buffer_get_isSome_iff m _).mpr ⟨hmid.1, by rw [sm, ← sl]; exact hmid.2⟩)
  by_cases hab : a < b
  · exact ⟨(l, m, LeftSide.k02), (interpolate_points_eq_some_iff p0 p1 p2 _ _ _).mpr
      ⟨l, m, a, b, hl, hm, ha, hb, Or.inl ⟨hab, rfl, rfl, rfl⟩⟩⟩
  · exact ⟨(m, l, LeftSide.k01_12), (interpolate_points_eq_some_iff p0 p1 p2 _ _ _).mpr
      ⟨l, m, a, b, hl, hm, ha, hb, Or.inr ⟨hab, rfl, rfl, rfl⟩⟩⟩

/-- The attribute interpolation returns on every sorted triangle whose Y span fits the
capacity. -/
theorem interpolate_attributes_isSome {T : Type} [Interpolable T] (p0 p1 p2 : Point2)
    (a0 a1 a2 : T) (side : LeftSide) (h01 : p0.y ≤ p1.y) (h12 : p1.y ≤ p2.y)
    (hcap : p2.y - p0.y + 1 ≤ (kMaxSize : Int)) :
    ∃ r, interpolate_attributes p0 p1 p2 a0 a1 a2 side = some r := by
  obtain ⟨l, hl⟩ := Option.isSome_iff_exists.mp
    (interpolate_isSome p0.y p2.y a0 a2 (le_trans h01 h12) hcap)
  obtain ⟨m, hm⟩ := merged_short_edges_isSome p0 p1 p2 a0 a1 a2 h01 h12 hcap
  cases side
  · exact ⟨(l, m), (interpolate_attributes_eq_some_iff p0 p1 p2 a0 a1 a2 _ _ _).mpr
      ⟨l, m, hl, hm, Or.inl ⟨rfl, rfl, rfl⟩⟩⟩
  · exact ⟨(m, l), (interpolate_attributes_eq_some_iff p0 p1 p2 a0 a1 a2 _ _ _).mpr
      ⟨l, m, hl, hm, Or.inr ⟨rfl, rfl, rfl⟩⟩⟩

/-! ## C5: lengths of the edge sequences -/

/-- C5: for every triangle sorted so that `p0.y <= p1.y <= p2.y` (flat cases included), both
sequences returned by `interpolate_points` and both sequences returned by
`interpolate_attributes` (any kind, any tag) have exactly `p2.y - p0.y + 1` elements, so
indexing them at `y - p0.y` succeeds for every scanline `p0.y <= y <= p2.y`; and both
functions do return whenever that length fits the buffer capacity. -/
theorem edge_sequences_size {T : Type} [Interpolable T] (p0 p1 p2 : Point2)
    (h01 : p0.y ≤ p1.y) (h12 : p1.y ≤ p2.y) :
    (p2.y - p0.y + 1 ≤ (kMaxSize : Int) →
      (interpolate_points p0 p1 p2).isSome = true ∧
      ∀ (a0 a1 a2 : T) (side : LeftSide),
        (interpolate_attributes p0 p1 p2 a0 a1 a2 side).isSome = true) ∧
    (∀ xl xr tag, interpolate_points p0 p1 p2 = some (xl, xr, tag) →
      (xl.size : Int) = p2.y - p0.y + 1 ∧ (xr.size : Int) = p2.y - p0.y + 1 ∧
      ∀ y : Int, p0.y ≤ y → y ≤ p2.y →
        (xl.get (y - p0.y)).isSome = true ∧ (xr.get (y - p0.y)).isSome = true) ∧
    (∀ (a0 a1 a2 : T) (side : LeftSide) (al ar : Buffer T),
      interpolate_attributes p0 p1 p2 a0 a1 a2 side = some (al, ar) →
      (al.size : Int) = p2.y - p0.y + 1 ∧ (ar.size : Int) = p2.y - p0.y + 1 ∧
      ∀ y : Int, p0.y ≤ y → y ≤ p2.y →
        (al.get (y - p0.y)).isSome = true ∧ (ar.get (y - p0.y)).isSome = true) := by
  have hidx : ∀ {U : Type} (b : Buffer U), (b.size : Int) = p2.y - p0.y + 1 →
      ∀ y : Int, p0.y ≤ y → y ≤ p2.y → (b.get (y - p0.y)).isSome = true := by
    intro U b hb y hy0 hy2
    exact (buffer_get_isSome_iff b _).mpr ⟨by omega, by omega⟩
  refine ⟨fun hcap => ⟨?_, fun a0 a1 a2 side => ?_⟩, ?_, ?_⟩
  · obtain ⟨r, hr⟩ := interpolate_points_isSome p0 p1 p2 h01 h12 hcap
    rw [hr]
    rfl
  · obtain ⟨r, hr⟩ := interpolate_attributes_isSome p0 p1 p2 a0 a1 a2 side h01 h12 hcap
    rw [hr]
    rfl
  · intro xl xr tag hx
    obtain ⟨l, m, a, b, hl, hm, -, -, hcase⟩ :=
      (interpolate_points_eq_some_iff p0 p1 p2 xl xr tag).mp hx
    have sl := long_edge_size p0 p2 p0.x p2.x (le_trans h01 h12) l hl
    have sm := merged_short_edges_size p0 p1 p2 p0.x p1.x p2.x h01 h12 m hm
    rcases hcase with ⟨-, -, rfl, rfl⟩ | ⟨-, -, rfl, rfl⟩
    · exact ⟨sl, sm, fun y hy0 hy2 => ⟨hidx _ sl y hy0 hy2, hidx _ sm y hy0 hy2⟩⟩
    · exact ⟨sm, sl, fun y hy0 hy2 => ⟨hidx _ sm y hy0 hy2, hidx _ sl y hy0 hy2⟩⟩
  · intro a0 a1 a2 side al ar ha
    obtain ⟨l, m, hl, hm, hcase⟩ :=
      (interpolate_attributes_eq_some_iff p0 p1 p2 a0 a1 a2 side al ar).mp ha
    have sl := long_edge_size p0 p2 a0 a2 (le_trans h01 h12) l hl
    have sm := merged_short_edges_size p0 p1 p2 a0 a1 a2 h01 h12 m hm
    rcases hcase with ⟨-, rfl, rfl⟩ | ⟨-, rfl, rfl⟩
    · exact ⟨sl, sm, fun y hy0 hy2 => ⟨hidx _ sl y hy0 hy2, hidx _ sm y hy0 hy2⟩⟩
    · exact ⟨sm, sl, fun y hy0 hy2 => ⟨hidx _ sm y hy0 hy2, hidx _ sl y hy0 hy2⟩⟩

/-- C5, instantiated on the flat-top triangle `(0,0), (4,3), (-2,3)` with float attributes:
both functions return, and the returned lengths are `3 - 0 + 1`. -/
theorem edge_sequences_size_witness :
    (0 : Int) ≤ 3 ∧ (3 : Int) ≤ 3 ∧
    (∃ xl xr tag, interpolate_points ⟨0, 0⟩ ⟨4, 3⟩ ⟨-2, 3⟩ = some (xl, xr, tag) ∧
      (xl.size : Int) = 3 - 0 + 1 ∧ (xr.size : Int) = 3 - 0 + 1) ∧
    (∃ al ar : Buffer ℚ,
      interpolate_attributes ⟨0, 0⟩ ⟨4, 3⟩ ⟨-2, 3⟩ (1 : ℚ) (1 / 2) (1 / 4) LeftSide.k02
        = some (al, ar) ∧
      (al.size : Int) = 3 - 0 + 1 ∧ (ar.size : Int) = 3 - 0 + 1) := by
  have key := edge_sequences_size (T := ℚ) ⟨0, 0⟩ ⟨4, 3⟩ ⟨-2, 3⟩ (by decide) (by decide)
  refine ⟨by decide, by decide, ?_, ?_⟩
  · obtain ⟨⟨xl, xr, tag⟩, hr⟩ := Option.isSome_iff_exists.mp (key.1 (by decide)).1
    exact ⟨xl, xr, tag, hr, (key.2.1 xl xr tag hr).1, (key.2.1 xl xr tag hr).2.1⟩
  · obtain ⟨⟨al, ar⟩, hr⟩ := Option.isSome_iff_exists.mp
      ((key.1 (by decide)).2 1 (1 / 2) (1 / 4) LeftSide.k02)
    exact ⟨al, ar, hr, (key.2.2 _ _ _ _ al ar hr).1, (key.2.2 _ _ _ _ al ar hr).2.1⟩

/-! ## C6: the tag is applied unchanged to the attributes -/

/-- Whether the merged short-edge sequence is returned depends on the triangle only, not on
the kind of the values nor on the values. -/
theorem merged_short_edges_isSome_transfer {S T : Type} [Interpolable S] [Interpolable T]
    (p0 p1 p2 : Point2) (b0 b1 b2 : S) (a0 a1 a2 : T) (m : Buffer S)
    (hm : merged_short_edges p0 p1 p2 b0 b1 b2 = some m) :
    ∃ m', merged_short_edges p0 p1 p2 a0 a1 a2 = some m' := by
  obtain ⟨b01, b12, e01, e12, hpos, hfit, -⟩ :=
    (merged_short_edges_eq_some_iff p0 p1 p2 b0 b1 b2 m).mp hm
  have t01 := (interpolate_size_eq _ _ _ _ _ e01)
  have t12 := (interpolate_size_eq _ _ _ _ _ e12)
  obtain ⟨a01, f01⟩ := Option.isSome_iff_exists.mp
    ((interpolate_isSome_iff p0.y p1.y a0 a1).mpr (by omega))
  obtain ⟨a12, f12⟩ := Option.isSome_iff_exists.mp
    ((interpolate_isSome_iff p1.y p2.y a1 a2).mpr (by omega))
  have s01 := (interpolate_size_eq _ _ _ _ _ f01).1
  have s12 := (interpolate_size_eq _ _ _ _ _ f12).1
  exact ⟨_, (merged_short_edges_eq_some_iff p0 p1 p2 a0 a1 a2 _).mpr
    ⟨a01, a12, f01, f12, by omega, by omega, rfl⟩⟩

/-- Whether the long-edge sequence is returned depends on the triangle only. -/
theorem long_edge_isSome_transfer {S T : Type} [Interpolable S] [Interpolable T]
    (p0 p2 : Point2) (b0 b2 : S) (a0 a2 : T) (l : Buffer S)
    (hl : long_edge p0 p2 b0 b2 = some l) :
    ∃ l', long_edge p0 p2 a0 a2 = some l' := by
  have t := interpolate_size_eq _ _ _ _ _ hl
  exact Option.isSome_iff_exists.mp ((interpolate_isSome_iff p0.y p2.y a0 a2).mpr (by omega))

/-- C6: for every sorted triangle the classifier returns whenever the Y span fits the
capacity, and whenever it returns `(x_left, x_right, tag)`:
(1) `interpolate_attributes` called with the X coordinates of the vertices as attributes and
that tag returns exactly `(x_left, x_right)`;
(2) for attributes of any kind, `interpolate_attributes` with that tag returns a pair whose
left sequence comes from the same edge as `x_left` (the long edge `p0 → p2` when the tag is
`k02`, the merged short edges `p0 → p1 → p2` when it is `k01_12`), and whose right sequence
comes from the same edge as `x_right`. -/
theorem attributes_follow_tag {T : Type} [Interpolable T] (p0 p1 p2 : Point2)
    (h01 : p0.y ≤ p1.y) (h12 : p1.y ≤ p2.y) :
    (p2.y - p0.y + 1 ≤ (kMaxSize : Int) → (interpolate_points p0 p1 p2).isSome = true) ∧
    ∀ xl xr tag, interpolate_points p0 p1 p2 = some (xl, xr, tag) →
      interpolate_attributes p0 p1 p2 p0.x p1.x p2.x tag = some (xl, xr) ∧
      ∀ a0 a1 a2 : T, ∃ al ar,
        interpolate_attributes p0 p1 p2 a0 a1 a2 tag = some (al, ar) ∧
        ((tag = LeftSide.k02 ∧
            long_edge p0 p2 p0.x p2.x = some xl ∧ long_edge p0 p2 a0 a2 = some al ∧
            merged_short_edges p0 p1 p2 p0.x p1.x p2.x = some xr ∧
            merged_short_edges p0 p1 p2 a0 a1 a2 = some ar) ∨
         (tag = LeftSide.k01_12 ∧
            merged_short_edges p0 p1 p2 p0.x p1.x p2.x = some xl ∧
            merged_short_edges p0 p1 p2 a0 a1 a2 = some al ∧
            long_edge p0 p2 p0.x p2.x = some xr ∧ long_edge p0 p2 a0 a2 = some ar)) := by
  constructor
  · intro hcap
    obtain ⟨r, hr⟩ := interpolate_points_isSome p0 p1 p2 h01 h12 hcap
    rw [hr]
    rfl
  · intro xl xr tag hx
    obtain ⟨l, m, a, b, hl, hm, -, -, hcase⟩ :=
      (interpolate_points_eq_some_iff p0 p1 p2 xl xr tag).mp hx
    constructor
    · refine (interpolate_attributes_eq_some_iff p0 p1 p2 _ _ _ tag xl xr).mpr
        ⟨l, m, hl, hm, ?_⟩
      rcases hcase with ⟨-, ht, rfl, rfl⟩ | ⟨-, ht, rfl, rfl⟩
      · exact Or.inl ⟨ht, rfl, rfl⟩
      · exact Or.inr ⟨ht, rfl, rfl⟩
    · intro a0 a1 a2
      obtain ⟨l', hl'⟩ := long_edge_isSome_transfer p0 p2 p0.x p2.x a0 a2 l hl
      obtain ⟨m', hm'⟩ :=
        merged_short_edges_isSome_transfer p0 p1 p2 p0.x p1.x p2.x a0 a1 a2 m hm
      rcases hcase with ⟨-, ht, rfl, rfl⟩ | ⟨-, ht, rfl, rfl⟩
      · exact ⟨l', m', (interpolate_attributes_eq_some_iff p0 p1 p2 a0 a1 a2 tag _ _).mpr
          ⟨l', m', hl', hm', Or.inl ⟨ht, rfl, rfl⟩⟩, Or.inl ⟨ht, hl, hl', hm, hm'⟩⟩
      · exact ⟨m', l', (interpolate_attributes_eq_some_iff p0 p1 p2 a0 a1 a2 tag _ _).mpr
          ⟨l', m', hl', hm', Or.inr ⟨ht, rfl, rfl⟩⟩, Or.inr ⟨ht, hm, hm', hl, hl'⟩⟩

/-- C6, instantiated on the triangle `(0,0), (4,2), (-2,3)`: the X coordinates passed as
attributes with the returned tag give back the pair of X sequences. -/
theorem attributes_follow_tag_witness :
    (0 : Int) ≤ 2 ∧ (2 : Int) ≤ 3 ∧
    ∃ xl xr tag, interpolate_points ⟨0, 0⟩ ⟨4, 2⟩ ⟨-2, 3⟩ = some (xl, xr, tag) ∧
      interpolate_attributes ⟨0, 0⟩ ⟨4, 2⟩ ⟨-2, 3⟩ (0 : Int) 4 (-2) tag = some (xl, xr) := by
  have key := attributes_follow_tag (T := ℚ) ⟨0, 0⟩ ⟨4, 2⟩ ⟨-2, 3⟩ (by decide) (by decide)
  obtain ⟨⟨xl, xr, tag⟩, hr⟩ := Option.isSome_iff_exists.mp (key.1 (by decide))
  exact ⟨by decide, by decide, xl, xr, tag, hr, (key.2 xl xr tag hr).1⟩

/-! ## C7: sorting the points of a triangle -/

/-- C7: `sort_points_by_y` on bundles returns a permutation of the three input
(point, attributes) pairs, each attribute still paired with the point it came with, ordered
so that `p0.y <= p1.y <= p2.y`; and the overload on plain points returns the points in the
same order as the overload on bundles. -/
theorem sort_point_bundles_by_y_sorted_perm {A : Type} (b0 b1 b2 : Point2 × A) :
    List.Perm
      [(sort_point_bundles_by_y b0 b1 b2).1, (sort_point_bundles_by_y b0 b1 b2).2.1,
        (sort_point_bundles_by_y b0 b1 b2).2.2] [b0, b1, b2] ∧
    (sort_point_bundles_by_y b0 b1 b2).1.1.y ≤ (sort_point_bundles_by_y b0 b1 b2).2.1.1.y ∧
    (sort_point_bundles_by_y b0 b1 b2).2.1.1.y ≤ (sort_point_bundles_by_y b0 b1 b2).2.2.1.y ∧
    sort_points_by_y b0.1 b1.1 b2.1 =
      ((sort_point_bundles_by_y b0 b1 b2).1.1, (sort_point_bundles_by_y b0 b1 b2).2.1.1,
        (sort_point_bundles_by_y b0 b1 b2).2.2.1) := by
  have p1 : List.Perm [b1, b0, b2] [b0, b1, b2] := List.Perm.swap b0 b1 [b2]
  have p2 : List.Perm [b0, b2, b1] [b0, b1, b2] := (List.Perm.swap b1 b2 []).cons b0
  have p3 : List.Perm [b2, b0, b1] [b0, b1, b2] := (List.Perm.swap b0 b2 [b1]).trans p2
  have p4 : List.Perm [b1, b2, b0] [b0, b1, b2] :=
    ((List.Perm.swap b0 b2 []).cons b1).trans p1
  have p5 : List.Perm [b2, b1, b0] [b0, b1, b2] := (List.Perm.swap b1 b2 [b0]).trans p4
  unfold sort_point_bundles_by_y sort_points_by_y
  rcases Classical.em (b1.1.y < b0.1.y) with c10 | c10 <;>
  rcases Classical.em (b2.1.y < b0.1.y) with c20 | c20 <;>
  rcases Classical.em (b2.1.y < b1.1.y) with c21 | c21 <;>
  rcases Classical.em (b0.1.y < b1.1.y) with c01 | c01 <;>
  rcases Classical.em (b0.1.y < b2.1.y) with c02 | c02 <;>
  rcases Classical.em (b1.1.y < b2.1.y) with c12 | c12 <;>
  simp only [c10, c20, c21, c01, c02, c12, if_true, if_false] <;>
  refine ⟨by first | assumption | exact List.Perm.refl _,
    by omega, by omega, by first | rfl | trivial⟩

/-! ## The depth buffer -/

/-- A cell inside a `w × h` grid has a row-major index below `w * h`. -/
theorem row_major_index_lt (w h x y : Int) (hx0 : 0 ≤ x) (hxw : x < w) (hy0 : 0 ≤ y)
    (hyh : y < h) : 0 ≤ x + y * w ∧ x + y * w < w * h := by
  have h1 : 0 ≤ y * w := mul_nonneg hy0 (by omega)
  have h2 : y * w ≤ (h - 1) * w := mul_le_mul_of_nonneg_right (by omega) (by omega)
  have h3 : (h - 1) * w = w * h - w := by ring
  constructor
  · omega
  · omega

/-- The depth test on a well-formed buffer, in closed form: out of bounds it returns false
and leaves the buffer; in bounds the addressed cell exists, and the test compares the
stored value with `inv_z`. -/
theorem test_and_set_eq (b : DepthBuffer) (hwf : b.WellFormed) (point : Point2) (inv_z : ℚ) :
    (¬ (0 ≤ Int.tdiv b.m_dimensions.width 2 + point.x ∧
        Int.tdiv b.m_dimensions.width 2 + point.x < b.m_dimensions.width ∧
        0 ≤ Int.tdiv b.m_dimensions.height 2 - point.y - 1 ∧
        Int.tdiv b.m_dimensions.height 2 - point.y - 1 < b.m_dimensions.height) →
      b.test_and_set point inv_z = some (false, b)) ∧
    ((0 ≤ Int.tdiv b.m_dimensions.width 2 + point.x ∧
        Int.tdiv b.m_dimensions.width 2 + point.x < b.m_dimensions.width ∧
        0 ≤ Int.tdiv b.m_dimensions.height 2 - point.y - 1 ∧
        Int.tdiv b.m_dimensions.height 2 - point.y - 1 < b.m_dimensions.height) →
      ∃ stored, b.m_buffer[((Int.tdiv b.m_dimensions.width 2 + point.x) +
          (Int.tdiv b.m_dimensions.height 2 - point.y - 1) * b.m_dimensions.width).toNat]?
            = some stored ∧
        b.test_and_set point inv_z =
          if stored < inv_z then
            some (true, DepthBuffer.mk b.m_dimensions (b.m_buffer.set
              ((Int.tdiv b.m_dimensions.width 2 + point.x) +
                (Int.tdiv b.m_dimensions.height 2 - point.y - 1) *
                  b.m_dimensions.width).toNat inv_z))
          else some (false, b)) := by
  constructor
  · intro hout
    have hcond : Int.tdiv b.m_dimensions.width 2 + point.x < 0 ∨
        Int.tdiv b.m_dimensions.width 2 + point.x ≥ b.m_dimensions.width ∨
        Int.tdiv b.m_dimensions.height 2 - point.y - 1 < 0 ∨
        Int.tdiv b.m_dimensions.height 2 - point.y - 1 ≥ b.m_dimensions.height := by
      by_contra hc
      push_neg at hc
      exact hout ⟨hc.1, hc.2.1, hc.2.2.1, hc.2.2.2⟩
    unfold DepthBuffer.test_and_set
    simp only []
    rw [if_pos hcond]
  · rintro ⟨hx0, hxw, hy0, hyh⟩
    have hcond : ¬ (Int.tdiv b.m_dimensions.width 2 + point.x < 0 ∨
        Int.tdiv b.m_dimensions.width 2 + point.x ≥ b.m_dimensions.width ∨
        Int.tdiv b.m_dimensions.height 2 - point.y - 1 < 0 ∨
        Int.tdiv b.m_dimensions.height 2 - point.y - 1 ≥ b.m_dimensions.height) := by
      push_neg
      exact ⟨hx0, hxw, hy0, hyh⟩
    have hidx := row_major_index_lt _ _ _ _ hx0 hxw hy0 hyh
    have hlt : ((Int.tdiv b.m_dimensions.width 2 + point.x) +
        (Int.tdiv b.m_dimensions.height 2 - point.y - 1) * b.m_dimensions.width).toNat
          < b.m_buffer.length := by
      rw [hwf.2]
      omega
    refine ⟨b.m_buffer[((Int.tdiv b.m_dimensions.width 2 + point.x) +
        (Int.tdiv b.m_dimensions.height 2 - point.y - 1) * b.m_dimensions.width).toNat],
      List.getElem?_eq_getElem hlt, ?_⟩
    unfold DepthBuffer.test_and_set
    simp only []
    rw [if_neg hcond, List.getElem?_eq_getElem hlt]

/-! ## C8: the depth test -/

/-- C8: on a well-formed `w × h` buffer `test_and_set point inv_z` always returns, and it
returns true if and only if the point maps inside the buffer (`0 <= w/2 + x < w` and
`0 <= h/2 - y - 1 < h`) and the value stored in its cell is strictly less than `inv_z`.
When it returns true, the cell at index `(w/2 + x) + (h/2 - y - 1) * w` holds `inv_z`
afterwards and every other cell and the dimensions are unchanged; when it returns false
(out of bounds, or stored `>= inv_z`, a tie included) the buffer is unchanged.
Scenario B: on a cleared `4 × 4` buffer, `test_and_set (0,0) 2` is true, after which
`test_and_set (0,0) 1` is false and the stored value is still `2`. -/
theorem test_and_set_spec :
    (∀ (b : DepthBuffer), b.WellFormed → ∀ (point : Point2) (inv_z : ℚ),
      ∃ r b', b.test_and_set point inv_z = some (r, b') ∧
        (r = true ↔
          (0 ≤ Int.tdiv b.m_dimensions.width 2 + point.x ∧
            Int.tdiv b.m_dimensions.width 2 + point.x < b.m_dimensions.width ∧
            0 ≤ Int.tdiv b.m_dimensions.height 2 - point.y - 1 ∧
            Int.tdiv b.m_dimensions.height 2 - point.y - 1 < b.m_dimensions.height) ∧
          ∃ stored, b.m_buffer[((Int.tdiv b.m_dimensions.width 2 + point.x) +
              (Int.tdiv b.m_dimensions.height 2 - point.y - 1) *
                b.m_dimensions.width).toNat]? = some stored ∧ stored < inv_z) ∧
        (r = true →
          b'.m_dimensions = b.m_dimensions ∧ b'.m_buffer.length = b.m_buffer.length ∧
          b'.m_buffer[((Int.tdiv b.m_dimensions.width 2 + point.x) +
              (Int.tdiv b.m_dimensions.height 2 - point.y - 1) *
                b.m_dimensions.width).toNat]? = some inv_z ∧
          ∀ j : Nat, j ≠ ((Int.tdiv b.m_dimensions.width 2 + point.x) +
              (Int.tdiv b.m_dimensions.height 2 - point.y - 1) *
                b.m_dimensions.width).toNat → b'.m_buffer[j]? = b.m_buffer[j]?) ∧
        (r = false → b' = b)) ∧
    (∃ b0 b1 b2, DepthBuffer.create ⟨4, 4⟩ = some b0 ∧
      b0.clear.test_and_set ⟨0, 0⟩ 2 = some (true, b1) ∧
      b1.test_and_set ⟨0, 0⟩ 1 = some (false, b2) ∧
      b2.m_buffer[((Int.tdiv 4 2 + 0) + (Int.tdiv 4 2 - 0 - 1) * 4).toNat]? = some 2) := by
  constructor
  · intro b hwf point inv_z
    obtain ⟨hout, hin⟩ := test_and_set_eq b hwf point inv_z
    by_cases hb : (0 ≤ Int.tdiv b.m_dimensions.width 2 + point.x ∧
        Int.tdiv b.m_dimensions.width 2 + point.x < b.m_dimensions.width ∧
        0 ≤ Int.tdiv b.m_dimensions.height 2 - point.y - 1 ∧
        Int.tdiv b.m_dimensions.height 2 - point.y - 1 < b.m_dimensions.height)
    · obtain ⟨stored, hst, heq⟩ := hin hb
      have hlt : ((Int.tdiv b.m_dimensions.width 2 + point.x) +
          (Int.tdiv b.m_dimensions.height 2 - point.y - 1) * b.m_dimensions.width).toNat
            < b.m_buffer.length := by
        by_contra hge
        rw [List.getElem?_eq_none (not_lt.mp hge)] at hst
        exact Option.noConfusion hst
      by_cases hcmp : stored < inv_z
      · rw [if_pos hcmp] at heq
        refine ⟨true, _, heq, ?_, ?_, ?_⟩
        · exact ⟨fun _ => ⟨hb, stored, hst, hcmp⟩, fun _ => rfl⟩
        · intro _
          refine ⟨rfl, by simp, ?_, ?_⟩
          · simp [List.getElem?_set, hlt]
          · intro j hj
            simp [List.getElem?_set, Ne.symm hj]
        · intro hf
          exact Bool.noConfusion hf
      · rw [if_neg hcmp] at heq
        refine ⟨false, b, heq, ?_, ?_, ?_⟩
        · constructor
          · intro hf
            exact Bool.noConfusion hf
          · rintro ⟨-, s, hs, hslt⟩
            rw [hst] at hs
            cases hs
            exact absurd hslt hcmp
        · intro hf
          exact Bool.noConfusion hf
        · intro _
          rfl
    · refine ⟨false, b, hout hb, ?_, ?_, ?_⟩
      · constructor
        · intro hf
          exact Bool.noConfusion hf
        · rintro ⟨hb', -⟩
          exact absurd hb' hb
      · intro hf
        exact Bool.noConfusion hf
      · intro _
        rfl
  · refine ⟨⟨⟨4, 4⟩, List.replicate 16 0⟩, ⟨⟨4, 4⟩, (List.replicate 16 (0 : ℚ)).set 6 2⟩,
      ⟨⟨4, 4⟩, (List.replicate 16 (0 : ℚ)).set 6 2⟩, ?_, ?_, ?_, ?_⟩
    · decide
    · decide!
    · decide!
    · decide!

/-- C8, instantiated on the `4 × 4` buffer of scenario B after `(0,0)` was written with
`2`: the general statement applied to the call `test_and_set (0,0) 1`. -/
theorem test_and_set_spec_witness :
    (DepthBuffer.mk ⟨4, 4⟩ ((List.replicate 16 (0 : ℚ)).set 6 2)).WellFormed ∧
    ∃ r b', (DepthBuffer.mk ⟨4, 4⟩ ((List.replicate 16 (0 : ℚ)).set 6 2)).test_and_set
        ⟨0, 0⟩ 1 = some (r, b') ∧
      (r = false → b' = DepthBuffer.mk ⟨4, 4⟩ ((List.replicate 16 (0 : ℚ)).set 6 2)) := by
  have hwf : (DepthBuffer.mk ⟨4, 4⟩ ((List.replicate 16 (0 : ℚ)).set 6 2)).WellFormed :=
    ⟨by decide, by decide⟩
  obtain ⟨r, b', h1, -, -, h4⟩ := test_and_set_spec.1 _ hwf ⟨0, 0⟩ 1
  exact ⟨hwf, r, b', h1, h4⟩

/-! ## C9: monotonicity of the depth test -/

/-- A successful depth test was in bounds and wrote `inv_z` into the addressed cell. -/
theorem test_and_set_true (b : DepthBuffer) (hwf : b.WellFormed) (point : Point2)
    (inv_z : ℚ) (b1 : DepthBuffer) (h : b.test_and_set point inv_z = some (true, b1)) :
    (0 ≤ Int.tdiv b.m_dimensions.width 2 + point.x ∧
      Int.tdiv b.m_dimensions.width 2 + point.x < b.m_dimensions.width ∧
      0 ≤ Int.tdiv b.m_dimensions.height 2 - point.y - 1 ∧
      Int.tdiv b.m_dimensions.height 2 - point.y - 1 < b.m_dimensions.height) ∧
    b1.WellFormed ∧ b1.m_dimensions = b.m_dimensions ∧
    b1.m_buffer[((Int.tdiv b.m_dimensions.width 2 + point.x) +
      (Int.tdiv b.m_dimensions.height 2 - point.y - 1) * b.m_dimensions.width).toNat]?
        = some inv_z := by
  obtain ⟨hout, hin⟩ := test_and_set_eq b hwf point inv_z
  by_cases hb : (0 ≤ Int.tdiv b.m_dimensions.width 2 + point.x ∧
      Int.tdiv b.m_dimensions.width 2 + point.x < b.m_dimensions.width ∧
      0 ≤ Int.tdiv b.m_dimensions.height 2 - point.y - 1 ∧
      Int.tdiv b.m_dimensions.height 2 - point.y - 1 < b.m_dimensions.height)
  · obtain ⟨stored, hst, heq⟩ := hin hb
    have hlt : ((Int.tdiv b.m_dimensions.width 2 + point.x) +
        (Int.tdiv b.m_dimensions.height 2 - point.y - 1) * b.m_dimensions.width).toNat
          < b.m_buffer.length := by
      by_contra hge
      rw [List.getElem?_eq_none (not_lt.mp hge)] at hst
      exact Option.noConfusion hst
    rw [h] at heq
    by_cases hcmp : stored < inv_z
    · rw [if_pos hcmp] at heq
      cases heq
      refine ⟨hb, ⟨hwf.1, ?_⟩, rfl, ?_⟩
      · simp only [List.length_set]
        exact hwf.2
      · simp [List.getElem?_set, hlt]
    · rw [if_neg hcmp] at heq
      cases heq
  · rw [hout hb] at h
    cases h

/-- Every depth test on a well-formed buffer returns, keeps the buffer well-formed, keeps
the dimensions, and never lowers a stored value. -/
theorem test_and_set_preserves (b : DepthBuffer) (hwf : b.WellFormed) (point : Point2)
    (inv_z : ℚ) :
    ∃ r b', b.test_and_set point inv_z = some (r, b') ∧ b'.WellFormed ∧
      b'.m_dimensions = b.m_dimensions ∧
      ∀ (j : Nat) (s : ℚ), b.m_buffer[j]? = some s →
        ∃ s', b'.m_buffer[j]? = some s' ∧ s ≤ s' := by
  obtain ⟨hout, hin⟩ := test_and_set_eq b hwf point inv_z
  by_cases hb : (0 ≤ Int.tdiv b.m_dimensions.width 2 + point.x ∧
      Int.tdiv b.m_dimensions.width 2 + point.x < b.m_dimensions.width ∧
      0 ≤ Int.tdiv b.m_dimensions.height 2 - point.y - 1 ∧
      Int.tdiv b.m_dimensions.height 2 - point.y - 1 < b.m_dimensions.height)
  · obtain ⟨stored, hst, heq⟩ := hin hb
    by_cases hcmp : stored < inv_z
    · rw [if_pos hcmp] at heq
      refine ⟨true, _, heq, ⟨hwf.1, ?_⟩, rfl, ?_⟩
      · simp only [List.length_set]
        exact hwf.2
      · intro j s hs
        by_cases hj : ((Int.tdiv b.m_dimensions.width 2 + point.x) +
            (Int.tdiv b.m_dimensions.height 2 - point.y - 1) *
              b.m_dimensions.width).toNat = j
        · subst hj
          rw [hst] at hs
          cases hs
          have hlt : ((Int.tdiv b.m_dimensions.width 2 + point.x) +
              (Int.tdiv b.m_dimensions.height 2 - point.y - 1) *
                b.m_dimensions.width).toNat < b.m_buffer.length := by
            by_contra hge
            rw [List.getElem?_eq_none (not_lt.mp hge)] at hst
            exact Option.noConfusion hst
          exact ⟨inv_z, by simp [List.getElem?_set, hlt], le_of_lt hcmp⟩
        · exact ⟨s, by simp [List.getElem?_set, hj, hs], le_refl s⟩
    · rw [if_neg hcmp] at heq
      exact ⟨false, b, heq, hwf, rfl, fun j s hs => ⟨s, hs, le_refl s⟩⟩
  · exact ⟨false, b, hout hb, hwf, rfl, fun j s hs => ⟨s, hs, le_refl s⟩⟩

/-- A sequence of depth tests on a well-formed buffer returns a well-formed buffer of the
same dimensions in which no stored value is lower than before. -/
theorem test_and_set_all_preserves (calls : List (Point2 × ℚ)) :
    ∀ (b : DepthBuffer), b.WellFormed →
      ∃ b', b.test_and_set_all calls = some b' ∧ b'.WellFormed ∧
        b'.m_dimensions = b.m_dimensions ∧
        ∀ (j : Nat) (s : ℚ), b.m_buffer[j]? = some s →
          ∃ s', b'.m_buffer[j]? = some s' ∧ s ≤ s' := by
  induction calls with
  | nil =>
    intro b hwf
    exact ⟨b, rfl, hwf, rfl, fun j s hs => ⟨s, hs, le_refl s⟩⟩
  | cons call rest ih =>
    intro b hwf
    obtain ⟨point, inv_z⟩ := call
    obtain ⟨r, b1, h1, hwf1, hd1, hm1⟩ := test_and_set_preserves b hwf point inv_z
    obtain ⟨b2, h2, hwf2, hd2, hm2⟩ := ih b1 hwf1
    refine ⟨b2, ?_, hwf2, hd2.trans hd1, ?_⟩
    · simp only [DepthBuffer.test_and_set_all, h1]
      exact h2
    · intro j s hs
      obtain ⟨s1, hs1, hle1⟩ := hm1 j s hs
      obtain ⟨s2, hs2, hle2⟩ := hm2 j s1 hs1
      exact ⟨s2, hs2, le_trans hle1 hle2⟩

/-- C9: if `test_and_set p z` returned true on a (well-formed) buffer, then after any
further sequence of `test_and_set` calls, on any points and with any values and with no
`clear()`, every call `test_and_set p z'` with `z' <= z` returns false (and leaves the
buffer unchanged). -/
theorem depth_test_monotone (b : DepthBuffer) (hwf : b.WellFormed) (p : Point2) (z : ℚ)
    (b1 : DepthBuffer) (h1 : b.test_and_set p z = some (true, b1))
    (calls : List (Point2 × ℚ)) :
    ∃ b2, b1.test_and_set_all calls = some b2 ∧
      ∀ z' : ℚ, z' ≤ z → b2.test_and_set p z' = some (false, b2) := by
  obtain ⟨hb, hwf1, hd1, hcell⟩ := test_and_set_true b hwf p z b1 h1
  obtain ⟨b2, h2, hwf2, hd2, hm2⟩ := test_and_set_all_preserves calls b1 hwf1
  refine ⟨b2, h2, ?_⟩
  intro z' hz'
  obtain ⟨s2, hs2, hle⟩ := hm2 _ z hcell
  have hd : b2.m_dimensions = b.m_dimensions := hd2.trans hd1
  obtain ⟨-, hin⟩ := test_and_set_eq b2 hwf2 p z'
  rw [hd] at hin
  obtain ⟨stored, hst, heq⟩ := hin hb
  rw [hs2] at hst
  cases hst
  rw [heq, if_neg (not_lt.mpr (le_trans hz' hle))]

/-- C9, instantiated: on a fresh `4 × 4` buffer, `test_and_set (0,0) 2` succeeds; after
tests at `(1,1)` with `5`, at `(0,0)` with `3` and at `(9,9)` with `1`, the test at `(0,0)`
with `2` fails. -/
theorem depth_test_monotone_witness :
    (DepthBuffer.mk ⟨4, 4⟩ (List.replicate 16 0)).WellFormed ∧
    (DepthBuffer.mk ⟨4, 4⟩ (List.replicate 16 0)).test_and_set ⟨0, 0⟩ 2 =
      some (true, DepthBuffer.mk ⟨4, 4⟩ ((List.replicate 16 (0 : ℚ)).set 6 2)) ∧
    ∃ b2, (DepthBuffer.mk ⟨4, 4⟩ ((List.replicate 16 (0 : ℚ)).set 6 2)).test_and_set_all
        [(⟨1, 1⟩, 5), (⟨0, 0⟩, 3), (⟨9, 9⟩, 1)] = some b2 ∧
      ∀ z' : ℚ, z' ≤ 2 → b2.test_and_set ⟨0, 0⟩ z' = some (false, b2) := by
  have hwf : (DepthBuffer.mk ⟨4, 4⟩ (List.replicate 16 0)).WellFormed :=
    ⟨by decide, by decide⟩
  have h1 : (DepthBuffer.mk ⟨4, 4⟩ (List.replicate 16 0)).test_and_set ⟨0, 0⟩ 2 =
      some (true, DepthBuffer.mk ⟨4, 4⟩ ((List.replicate 16 (0 : ℚ)).set 6 2)) := by
    decide!
  exact ⟨hwf, h1, depth_test_monotone _ hwf ⟨0, 0⟩ 2 _ h1 _⟩

/-! ## C10: clearing the depth buffer -/

/-- The constructor establishes the class invariant. -/
theorem create_wellFormed (dimensions : Dims) (b : DepthBuffer)
    (h : DepthBuffer.create dimensions = some b) : b.WellFormed := by
  unfold DepthBuffer.create at h
  split at h
  · cases h
    exact ⟨by assumption, by simp⟩
  · exact Option.noConfusion h

/-- Clearing keeps the class invariant. -/
theorem clear_wellFormed (b : DepthBuffer) (hwf : b.WellFormed) : b.clear.WellFormed := by
  refine ⟨hwf.1, ?_⟩
  simp only [DepthBuffer.clear, List.length_map]
  exact hwf.2

/-- C10: `clear()` leaves the dimensions and the number of cells unchanged and sets every
cell to `0`, whatever the previous contents; consequently, on a (well-formed) buffer that
was just cleared, `test_and_set p z` returns true for every in-bounds point `p` and every
`z > 0`. -/
theorem clear_spec (b : DepthBuffer) :
    (b.clear.m_dimensions = b.m_dimensions ∧
      b.clear.m_buffer.length = b.m_buffer.length ∧
      ∀ j : Nat, j < b.m_buffer.length → b.clear.m_buffer[j]? = some 0) ∧
    (b.WellFormed → ∀ (p : Point2) (z : ℚ),
      (0 ≤ Int.tdiv b.m_dimensions.width 2 + p.x ∧
        Int.tdiv b.m_dimensions.width 2 + p.x < b.m_dimensions.width ∧
        0 ≤ Int.tdiv b.m_dimensions.height 2 - p.y - 1 ∧
        Int.tdiv b.m_dimensions.height 2 - p.y - 1 < b.m_dimensions.height) →
      0 < z → ∃ b', b.clear.test_and_set p z = some (true, b')) := by
  have hcells : ∀ j : Nat, j < b.m_buffer.length → b.clear.m_buffer[j]? = some 0 := by
    intro j hj
    simp only [DepthBuffer.clear, List.getElem?_map, List.getElem?_eq_getElem hj,
      Option.map_some']
  refine ⟨⟨rfl, by simp [DepthBuffer.clear], hcells⟩, ?_⟩
  intro hwf p z hb hz
  obtain ⟨-, hin⟩ := test_and_set_eq b.clear (clear_wellFormed b hwf) p z
  have hd : b.clear.m_dimensions = b.m_dimensions := rfl
  rw [hd] at hin
  obtain ⟨stored, hst, heq⟩ := hin hb
  have hlt : ((Int.tdiv b.m_dimensions.width 2 + p.x) +
      (Int.tdiv b.m_dimensions.height 2 - p.y - 1) * b.m_dimensions.width).toNat
        < b.m_buffer.length := by
    have hidx := row_major_index_lt _ _ _ _ hb.1 hb.2.1 hb.2.2.1 hb.2.2.2
    rw [hwf.2]
    omega
  rw [hcells _ hlt] at hst
  cases hst
  rw [if_pos hz] at heq
  exact ⟨_, heq⟩

/-- C10, instantiated: the `2 × 2` buffer holding `7, 8, 9, 10` is cleared, after which the
depth test at the in-bounds point `(-1, 0)` with `1/1000` succeeds. -/
theorem clear_spec_witness :
    (DepthBuffer.mk ⟨2, 2⟩ [7, 8, 9, 10]).WellFormed ∧
    (DepthBuffer.mk ⟨2, 2⟩ [7, 8, 9, 10]).clear.m_buffer = [0, 0, 0, 0] ∧
    ∃ b', (DepthBuffer.mk ⟨2, 2⟩ [7, 8, 9, 10]).clear.test_and_set ⟨-1, 0⟩ (1 / 1000)
      = some (true, b') :=
  ⟨⟨by decide, by decide⟩, by decide,
    (clear_spec (DepthBuffer.mk ⟨2, 2⟩ [7, 8, 9, 10])).2 ⟨by decide, by decide⟩ ⟨-1, 0⟩
      (1 / 1000) (by decide) (by norm_num)⟩

/-! ## Left and right edge sequences under exact arithmetic -/

/-- Indexing a buffer inside its range reads the list of live elements. -/
theorem buffer_get_natCast {T : Type} (b : Buffer T) (k : Nat) (hk : k < b.size) :
    b.get (k : Int) = b.m_storage[k]? := by
  unfold Buffer.get
  have h : (0 : Int) ≤ (k : Int) ∧ (k : Int) < (b.size : Int) := by omega
  rw [if_pos h, Int.toNat_ofNat]

/-- Samples of the integer kind on any span `i0 <= i1`, the degenerate span included: the
element `k` of a returned buffer is the truncation of `v0 + k * ((v1 - v0) / (i1 - i0))`. -/
theorem interpolate_int_getElem (i0 i1 v0 v1 : Int) (h : i0 ≤ i1) (b : Buffer Int)
    (hb : interpolate i0 v0 i1 v1 = some b) (k : Nat) (hk : (k : Int) ≤ i1 - i0) :
    b.m_storage[k]? = some (truncToInt
      ((v0 : ℚ) + (k : ℚ) * ((((v1 : ℚ)) - v0) / ((i1 - i0 : Int) : ℚ)))) := by
  rcases eq_or_lt_of_le h with heq | hlt
  · subst heq
    rw [interpolate_eq_of_eq] at hb
    cases hb
    have hk0 : k = 0 := by omega
    subst hk0
    simp [truncToInt_intCast]
  · have hget := interpolate_int_get i0 i1 v0 v1 hlt b hb (i0 + k) (by omega) (by omega)
    have hsz := (interpolate_size_eq _ _ _ _ _ hb).1
    have hidx : i0 + (k : Int) - i0 = (k : Int) := by omega
    rw [hidx, buffer_get_natCast b k (by omega)] at hget
    rw [hget]
    push_cast
    rfl

/-- Elements of the merged short-edge sequence of the X coordinates of a sorted triangle:
below `p1.y - p0.y` they are the samples of the edge `p0 → p1`, from there on the samples of
the edge `p1 → p2`. -/
theorem merged_short_edges_getElem (p0 p1 p2 : Point2) (h01 : p0.y ≤ p1.y)
    (h12 : p1.y ≤ p2.y) (m : Buffer Int)
    (hm : merged_short_edges p0 p1 p2 p0.x p1.x p2.x = some m) (k : Nat)
    (hk : (k : Int) ≤ p2.y - p0.y) :
    m.m_storage[k]? = some (truncToInt
      (if (k : Int) < p1.y - p0.y then
        (p0.x : ℚ) + (k : ℚ) * ((((p1.x : ℚ)) - p0.x) / ((p1.y - p0.y : Int) : ℚ))
      else
        (p1.x : ℚ) + ((k - (p1.y - p0.y).toNat : Nat) : ℚ) *
          ((((p2.x : ℚ)) - p1.x) / ((p2.y - p1.y : Int) : ℚ)))) := by
  obtain ⟨x01, x12, e01, e12, hpos, -, rfl⟩ :=
    (merged_short_edges_eq_some_iff p0 p1 p2 p0.x p1.x p2.x m).mp hm
  have s01 := (interpolate_size_eq _ _ _ _ _ e01).1
  have s12 := (interpolate_size_eq _ _ _ _ _ e12).1
  simp only [Buffer.size] at s01 s12
  have hlen : x01.m_storage.dropLast.length = (p1.y - p0.y).toNat := by
    rw [List.length_dropLast, s01]
    omega
  by_cases hlt : (k : Int) < p1.y - p0.y
  · rw [if_pos hlt]
    have hk1 : k < x01.m_storage.dropLast.length := by omega
    have hk2 : k < x01.m_storage.length - 1 := by omega
    simp only []
    rw [List.getElem?_append_left hk1, List.getElem?_dropLast, if_pos hk2]
    exact interpolate_int_getElem p0.y p1.y p0.x p1.x h01 x01 e01 k (by omega)
  · rw [if_neg hlt]
    have hk1 : x01.m_storage.dropLast.length ≤ k := by omega
    simp only []
    rw [List.getElem?_append_right hk1, hlen]
    exact interpolate_int_getElem p1.y p2.y p1.x p2.x h12 x12 e12 _ (by omega)

/-- Exact geometry of a sorted triangle with Y spans `h1` (edge `p0 → p1`) and `h2` (edge
`p1 → p2`): at every scanline offset `k` the exact X of the short edges minus the exact X of
the long edge is a non-negative multiple of one and the same quantity, the cross product
`(X1 - X0) * (h1 + h2) - (X2 - X0) * h1`. -/
theorem short_sub_long_eq (X0 X1 X2 : ℚ) (h1 h2 : Int) (hh1 : 0 ≤ h1) (hh2 : 0 ≤ h2)
    (hpos : 0 < h1 + h2) (k : Nat) (hk : (k : Int) ≤ h1 + h2) :
    ∃ w : ℚ, 0 ≤ w ∧
      (if (k : Int) < h1 then X0 + (k : ℚ) * ((X1 - X0) / (h1 : ℚ))
        else X1 + ((k - h1.toNat : Nat) : ℚ) * ((X2 - X1) / (h2 : ℚ)))
        - (X0 + (k : ℚ) * ((X2 - X0) / ((h1 + h2 : Int) : ℚ)))
      = w * ((X1 - X0) * ((h1 + h2 : Int) : ℚ) - (X2 - X0) * (h1 : ℚ)) := by
  have hq1 : (0 : ℚ) ≤ (h1 : ℚ) := by exact_mod_cast hh1
  have hq2 : (0 : ℚ) ≤ (h2 : ℚ) := by exact_mod_cast hh2
  have hq : (0 : ℚ) < ((h1 + h2 : Int) : ℚ) := by exact_mod_cast hpos
  have hqk : (0 : ℚ) ≤ (k : ℚ) := Nat.cast_nonneg k
  have hkq : (k : ℚ) ≤ ((h1 + h2 : Int) : ℚ) := by exact_mod_cast hk
  have hsum : ((h1 + h2 : Int) : ℚ) = (h1 : ℚ) + (h2 : ℚ) := by push_cast; ring
  by_cases hlt : (k : Int) < h1
  · rw [if_pos hlt]
    have h1pos : (0 : ℚ) < (h1 : ℚ) := by
      have : (0 : Int) < h1 := by omega
      exact_mod_cast this
    refine ⟨(k : ℚ) / ((h1 : ℚ) * ((h1 + h2 : Int) : ℚ)),
      div_nonneg hqk (mul_nonneg hq1 (le_of_lt hq)), ?_⟩
    have hne1 : (h1 : ℚ) ≠ 0 := ne_of_gt h1pos
    have hne : ((h1 + h2 : Int) : ℚ) ≠ 0 := ne_of_gt hq
    field_simp
    ring
  · rw [if_neg hlt]
    have hcast : ((k - h1.toNat : Nat) : ℚ) = (k : ℚ) - (h1 : ℚ) := by
      have hle : h1.toNat ≤ k := by omega
      have : (((k - h1.toNat : Nat)) : Int) = (k : Int) - h1 := by omega
      have h2' : (((k - h1.toNat : Nat) : Int) : ℚ) = (((k : Int) - h1 : Int) : ℚ) := by
        rw [this]
      push_cast at h2'
      exact h2'
    rw [hcast]
    have hne : ((h1 + h2 : Int) : ℚ) ≠ 0 := ne_of_gt hq
    rcases eq_or_lt_of_le hh2 with h20 | h2pos
    · have hk1 : (k : Int) = h1 := by omega
      have hkq1 : (k : ℚ) = (h1 : ℚ) := by exact_mod_cast hk1
      have h2z : (h2 : ℚ) = 0 := by exact_mod_cast h20.symm
      refine ⟨1 / ((h1 + h2 : Int) : ℚ), div_nonneg zero_le_one (le_of_lt hq), ?_⟩
      rw [hkq1, hsum, h2z]
      have hne1 : (h1 : ℚ) ≠ 0 := by
        rw [hsum, h2z, add_zero] at hne
        exact hne
      field_simp
      ring
    · have h2q : (0 : ℚ) < (h2 : ℚ) := by exact_mod_cast h2pos
      have hne2 : (h2 : ℚ) ≠ 0 := ne_of_gt h2q
      refine ⟨(((h1 + h2 : Int) : ℚ) - (k : ℚ)) / ((h2 : ℚ) * ((h1 + h2 : Int) : ℚ)),
        div_nonneg (by linarith) (mul_nonneg hq2 (le_of_lt hq)), ?_⟩
      rw [hsum] at hne ⊢
      field_simp
      ring

/-- The long-edge and merged short-edge X sequences of a sorted triangle never cross: if
they are strictly ordered at one offset `j`, they are ordered the same way (weakly) at every
offset `k`. -/
theorem long_vs_merged (p0 p1 p2 : Point2) (h01 : p0.y ≤ p1.y) (h12 : p1.y ≤ p2.y)
    (l m : Buffer Int) (hl : long_edge p0 p2 p0.x p2.x = some l)
    (hm : merged_short_edges p0 p1 p2 p0.x p1.x p2.x = some m) (j k : Nat)
    (hj : (j : Int) ≤ p2.y - p0.y) (hk : (k : Int) ≤ p2.y - p0.y) (a b : Int)
    (ha : l.m_storage[j]? = some a) (hb : m.m_storage[j]? = some b) :
    ∃ a' b', l.m_storage[k]? = some a' ∧ m.m_storage[k]? = some b' ∧
      (a < b → a' ≤ b') ∧ (b < a → b' ≤ a') := by
  have e : p2.y - p0.y = (p1.y - p0.y) + (p2.y - p1.y) := by ring
  have gl := fun (n : Nat) (hn : (n : Int) ≤ p2.y - p0.y) =>
    interpolate_int_getElem p0.y p2.y p0.x p2.x (le_trans h01 h12) l hl n hn
  have gm := fun (n : Nat) (hn : (n : Int) ≤ p2.y - p0.y) =>
    merged_short_edges_getElem p0 p1 p2 h01 h12 m hm n hn
  rcases eq_or_lt_of_le (le_trans h01 h12) with h0 | hpos
  · have hj0 : j = 0 := by omega
    have hk0 : k = 0 := by omega
    subst hj0
    subst hk0
    exact ⟨a, b, ha, hb, le_of_lt, le_of_lt⟩
  · have hlj := gl j hj
    have hmj := gm j hj
    have hlk := gl k hk
    have hmk := gm k hk
    rw [ha] at hlj
    rw [hb] at hmj
    cases hlj
    cases hmj
    rw [e] at hj hk
    obtain ⟨wj, hwj, ej⟩ := short_sub_long_eq p0.x p1.x p2.x (p1.y - p0.y) (p2.y - p1.y)
      (by omega) (by omega) (by omega) j hj
    obtain ⟨wk, hwk, ek⟩ := short_sub_long_eq p0.x p1.x p2.x (p1.y - p0.y) (p2.y - p1.y)
      (by omega) (by omega) (by omega) k hk
    rw [← e] at ej ek
    refine ⟨_, _, hlk, hmk, ?_, ?_⟩
    · intro hab
      apply truncToInt_mono
      have hlt : ¬ (_ ≤ _) := fun hle => absurd (truncToInt_mono hle) (not_le.mpr hab)
      have hc : 0 < wj * ((↑p1.x - ↑p0.x) * ((p2.y - p0.y : Int) : ℚ) -
          (↑p2.x - ↑p0.x) * ((p1.y - p0.y : Int) : ℚ)) := by
        rw [← ej]
        linarith [not_le.mp hlt]
      have hcpos : 0 < ((↑p1.x - ↑p0.x) * ((p2.y - p0.y : Int) : ℚ) -
          (↑p2.x - ↑p0.x) * ((p1.y - p0.y : Int) : ℚ)) := by
        by_contra hneg
        have := mul_nonpos_of_nonneg_of_nonpos hwj (not_lt.mp hneg)
        linarith
      have := mul_nonneg hwk (le_of_lt hcpos)
      linarith
    · intro hba
      apply truncToInt_mono
      have hlt : ¬ (_ ≤ _) := fun hle => absurd (truncToInt_mono hle) (not_le.mpr hba)
      have hc : wj * ((↑p1.x - ↑p0.x) * ((p2.y - p0.y : Int) : ℚ) -
          (↑p2.x - ↑p0.x) * ((p1.y - p0.y : Int) : ℚ)) < 0 := by
        rw [← ej]
        linarith [not_le.mp hlt]
      have hcneg : ((↑p1.x - ↑p0.x) * ((p2.y - p0.y : Int) : ℚ) -
          (↑p2.x - ↑p0.x) * ((p1.y - p0.y : Int) : ℚ)) < 0 := by
        by_contra hneg
        have := mul_nonneg hwj (not_lt.mp hneg)
        linarith
      have := mul_nonpos_of_nonneg_of_nonpos hwk (le_of_lt hcneg)
      linarith

/-- A tie at the probe.
For the sorted triangle `(0,0), (1,1), (0,4)` the long edge
gives `[0,0,0,0,0]` and the merged short edges give `[0,1,0,0,0]`; they tie at the probe
index `2`, so the merged short edges are returned as the left sequence, and at offset `1`
the left X is `1` and the right X is `0`. -/
theorem interpolate_points_counterexample :
    ((0 : Int) ≤ 1 ∧ (1 : Int) ≤ 4) ∧ ((0 : Int) ≤ 1 ∧ (1 : Int) ≤ 4 - 0) ∧
    ∃ xl xr tag, interpolate_points ⟨0, 0⟩ ⟨1, 1⟩ ⟨0, 4⟩ = some (xl, xr, tag) ∧
      ∃ a b, xl.get 1 = some a ∧ xr.get 1 = some b ∧ ¬ a ≤ b := by
  refine ⟨by decide, by decide, ⟨[0, 1, 0, 0, 0]⟩, ⟨[0, 0, 0, 0, 0]⟩, LeftSide.k01_12,
    ?_, 1, 0, by decide, by decide, by decide⟩
  decide!

/-- Exact arithmetic.
For every triangle sorted so that `p0.y <= p1.y <= p2.y`, the classifier
returns whenever the Y span fits the capacity, and for every returned `(x_left, x_right)`:
at the probe index `size / 2` the left X is at most the right X; and if the two sequences
differ at the probe index, then `x_left[k] <= x_right[k]` at every scanline offset
`0 <= k <= p2.y - p0.y` (interpolated values being computed exactly). -/
theorem interpolate_points_left_le_right (p0 p1 p2 : Point2) (h01 : p0.y ≤ p1.y)
    (h12 : p1.y ≤ p2.y) :
    (p2.y - p0.y + 1 ≤ (kMaxSize : Int) → (interpolate_points p0 p1 p2).isSome = true) ∧
    ∀ xl xr tag, interpolate_points p0 p1 p2 = some (xl, xr, tag) →
      ∃ am bm, xl.get (Int.ofNat (xl.size / 2)) = some am ∧
        xr.get (Int.ofNat (xl.size / 2)) = some bm ∧ am ≤ bm ∧
        (am ≠ bm → ∀ k : Int, 0 ≤ k → k ≤ p2.y - p0.y →
          ∃ a b, xl.get k = some a ∧ xr.get k = some b ∧ a ≤ b) := by
  constructor
  · intro hcap
    obtain ⟨r, hr⟩ := interpolate_points_isSome p0 p1 p2 h01 h12 hcap
    rw [hr]
    rfl
  · intro xl xr tag hx
    obtain ⟨l, m, a, b, hl, hm, ha, hb, hcase⟩ :=
      (interpolate_points_eq_some_iff p0 p1 p2 xl xr tag).mp hx
    have sl := long_edge_size p0 p2 p0.x p2.x (le_trans h01 h12) l hl
    have sm := merged_short_edges_size p0 p1 p2 p0.x p1.x p2.x h01 h12 m hm
    have hsz : m.size = l.size := by omega
    have hmid : l.size / 2 < l.size := by omega
    have hmidh : ((l.size / 2 : Nat) : Int) ≤ p2.y - p0.y := by omega
    have ha' : l.m_storage[l.size / 2]? = some a := by
      rw [← buffer_get_natCast l _ hmid]
      exact ha
    have hb' : m.m_storage[l.size / 2]? = some b := by
      rw [← buffer_get_natCast m _ (by omega)]
      exact hb
    have hall : ∀ k : Int, 0 ≤ k → k ≤ p2.y - p0.y →
        ∃ a' b', l.get k = some a' ∧ m.get k = some b' ∧
          (a < b → a' ≤ b') ∧ (b < a → b' ≤ a') := by
      intro k hk0 hkh
      obtain ⟨a', b', h1, h2, h3, h4⟩ := long_vs_merged p0 p1 p2 h01 h12 l m hl hm
        (l.size / 2) k.toNat hmidh (by omega) a b ha' hb'
      have hkc : ((k.toNat : Nat) : Int) = k := Int.toNat_of_nonneg hk0
      refine ⟨a', b', ?_, ?_, h3, h4⟩
      · rw [← hkc, buffer_get_natCast l _ (by omega)]
        exact h1
      · rw [← hkc, buffer_get_natCast m _ (by omega)]
        exact h2
    rcases hcase with ⟨hab, -, rfl, rfl⟩ | ⟨hab, -, rfl, rfl⟩
    · refine ⟨a, b, ha, hb, le_of_lt hab, ?_⟩
      intro _ k hk0 hkh
      obtain ⟨a', b', h1, h2, h3, -⟩ := hall k hk0 hkh
      exact ⟨a', b', h1, h2, h3 hab⟩
    · rw [hsz]
      refine ⟨b, a, hb, ha, not_lt.mp hab, ?_⟩
      intro hne k hk0 hkh
      obtain ⟨a', b', h1, h2, -, h4⟩ := hall k hk0 hkh
      exact ⟨b', a', h2, h1, h4 (lt_of_le_of_ne (not_lt.mp hab) hne)⟩

/-- Exact arithmetic, an instance.
On the triangle `(0,0), (4,2), (-2,3)`: the sequences
`[0,0,-1,-2]` and `[0,2,4,-2]` differ at the probe index `2`, and the left one is at most
the right one at every offset `0..3`. -/
theorem interpolate_points_left_le_right_witness :
    ((0 : Int) ≤ 2 ∧ (2 : Int) ≤ 3) ∧
    interpolate_points ⟨0, 0⟩ ⟨4, 2⟩ ⟨-2, 3⟩ =
      some (⟨[0, 0, -1, -2]⟩, ⟨[0, 2, 4, -2]⟩, LeftSide.k02) ∧
    ∀ k : Int, 0 ≤ k → k ≤ 3 - 0 →
      ∃ a b, (Buffer.mk [0, 0, -1, -2]).get k = some a ∧
        (Buffer.mk [0, 2, 4, -2]).get k = some b ∧ a ≤ b := by
  have hr : interpolate_points ⟨0, 0⟩ ⟨4, 2⟩ ⟨-2, 3⟩ =
      some (⟨[0, 0, -1, -2]⟩, ⟨[0, 2, 4, -2]⟩, LeftSide.k02) := by decide!
  obtain ⟨am, bm, h1, h2, -, hall⟩ :=
    (interpolate_points_left_le_right ⟨0, 0⟩ ⟨4, 2⟩ ⟨-2, 3⟩ (by decide) (by decide)).2
      _ _ _ hr
  have e1 : (Buffer.mk [0, 0, -1, -2]).get (Int.ofNat ((Buffer.mk [0, 0, -1, -2]).size / 2))
      = some (-1 : Int) := by decide
  have e2 : (Buffer.mk [0, 2, 4, -2]).get (Int.ofNat ((Buffer.mk [0, 0, -1, -2]).size / 2))
      = some (4 : Int) := by decide
  rw [e1] at h1
  rw [e2] at h2
  cases h1
  cases h2
  exact ⟨⟨by decide, by decide⟩, hr, hall (by decide)⟩

/-! ## The lighting result under exact arithmetic -/

/-- The value of `std::clamp(v, 0, 1)` lies in `[0, 1]`. -/
theorem std_clamp_mem_unit (v : ℚ) : 0 ≤ std_clamp v 0 1 ∧ std_clamp v 0 1 ≤ 1 := by
  unfold std_clamp
  split
  · exact ⟨le_refl 0, zero_le_one⟩
  · split
    · exact ⟨zero_le_one, le_refl 1⟩
    · constructor
      · linarith
      · linarith

/-- Exact arithmetic.
For every light-model bitmask, every list of lights, every vertex, normal, camera
and specular exponent (and whatever `std::sqrt` and `std::pow` return), the value returned
by `compute_lighting` lies in the closed interval `[0, 1]` (over exact arithmetic). -/
theorem compute_lighting_mem_unit (lm : Libm) (light_model : Nat) (vertex normal : Vec3)
    (camera : Camera) (specular : ℚ) (lights : List Light) :
    0 ≤ compute_lighting lm light_model vertex normal camera specular lights ∧
      compute_lighting lm light_model vertex normal camera specular lights ≤ 1 := by
  unfold compute_lighting
  split
  · exact ⟨zero_le_one, le_refl 1⟩
  · exact std_clamp_mem_unit _

/-! ## C12: the diffuse-only lighting sum -/

/-- The test of the zero mask `kDisabled` never succeeds. -/
theorem has_flag_kDisabled (light_model : Nat) :
    has_flag light_model LightModel.kDisabled = false := by
  simp [has_flag, LightModel.kDisabled]

/-- With only the diffuse flag set, one light adds its specified contribution. -/
theorem compute_lighting_step_diffuse (lm : Libm) (vertex normal : Vec3) (camera : Camera)
    (specular : ℚ) (intensity : ℚ) (light : Light) :
    compute_lighting_step lm LightModel.kDiffuse vertex normal camera specular intensity light
      = intensity + diffuse_contribution_spec lm vertex normal camera light := by
  have hd : has_flag LightModel.kDiffuse LightModel.kDiffuse = true := by decide
  have hs : has_flag LightModel.kDiffuse LightModel.kSpecular = false := by decide
  have hcomp : ∀ l : Vec3,
      compute_lighting_components lm LightModel.kDiffuse vertex normal camera specular
        intensity light l = intensity + max 0 (cos_angle_spec lm l normal) * light.intensity := by
    intro l
    unfold compute_lighting_components cos_angle_spec
    simp only [hd, hs, if_true, Bool.false_eq_true, if_false]
    by_cases hpos : Vec3.dot l normal / (Vec3.length lm l * Vec3.length lm normal) > 0
    · rw [if_pos hpos, max_eq_right (le_of_lt hpos)]
    · rw [if_neg hpos, max_eq_left (not_lt.mp hpos)]
      ring
  have hsub : Vec3.add (Vec3.mul vertex (-1))
      (Mat4.mulVec camera.to_mat4 (Vec4.ofVec3 light.position 1)).xyz =
      Vec3.sub (Mat4.mulVec camera.to_mat4 (Vec4.ofVec3 light.position 1)).xyz vertex := by
    simp only [Vec3.add, Vec3.mul, Vec3.sub, Vec3.mk.injEq]
    refine ⟨?_, ?_, ?_⟩ <;> ring
  unfold compute_lighting_step diffuse_contribution_spec
  cases light.type
  · rfl
  · exact hcomp _
  · simp only []
    rw [hsub]
    exact hcomp _

/-- C12: with only the diffuse flag set, `compute_lighting` returns `clamp(S, 0, 1)`, where
`S` is the sum over the whole light list of `light.intensity` for each ambient light and of
`max(0, cos(angle(L, normal))) * light.intensity` for each directional or point light, `L`
being `transposed(camera.rotation) * direction` for a directional light and
`(camera view matrix * position) - vertex` for a point light; the clamp is applied once, to
the total. -/
theorem compute_lighting_diffuse_eq_spec (lm : Libm) (vertex normal : Vec3) (camera : Camera)
    (specular : ℚ) (lights : List Light) :
    compute_lighting lm LightModel.kDiffuse vertex normal camera specular lights =
      diffuse_lighting_spec lm vertex normal camera lights := by
  have hfold : ∀ (ls : List Light) (acc : ℚ),
      ls.foldl (compute_lighting_step lm LightModel.kDiffuse vertex normal camera specular) acc
        = acc + (ls.map (diffuse_contribution_spec lm vertex normal camera)).sum := by
    intro ls
    induction ls with
    | nil => intro acc; simp
    | cons l rest ih =>
      intro acc
      rw [List.foldl_cons, ih, compute_lighting_step_diffuse, List.map_cons, List.sum_cons]
      ring
  unfold compute_lighting diffuse_lighting_spec
  rw [has_flag_kDisabled]
  simp only [Bool.false_eq_true, if_false]
  rw [hfold, zero_add]

/-! ## C13, C14, C15: the lighting evaluator at concrete inputs -/

/-- C13 (the code at the failing input): a matte face (specular exponent `0`) at the
view-space point `(0,4,3)` with normal `(0,0,-1)`, lit by one directional light of direction
`(0,0,-1)` and intensity `1/4`, the camera at the origin.  With the flags
`kDiffuse | kSpecular` the result is `1/2`: the specular term `pow(3/5, 0) * 1/4 = 1/4` is
added although the exponent is `0`.  With the flag `kDiffuse` alone the result is `1/4`. -/
theorem compute_lighting_matte_specular :
    compute_lighting Libm.onRationals (LightModel.kDiffuse ||| LightModel.kSpecular)
        ⟨0, 4, 3⟩ ⟨0, 0, -1⟩ ⟨⟨0, 0, 0⟩, Mat3.kIdentity, make_clipping_planes_90fov⟩ 0
        [⟨Light.Type.kDirectional, ⟨0, 0, -1⟩, 1 / 4⟩] = 1 / 2 ∧
    compute_lighting Libm.onRationals LightModel.kDiffuse
        ⟨0, 4, 3⟩ ⟨0, 0, -1⟩ ⟨⟨0, 0, 0⟩, Mat3.kIdentity, make_clipping_planes_90fov⟩ 0
        [⟨Light.Type.kDirectional, ⟨0, 0, -1⟩, 1 / 4⟩] = 1 / 4 := by
  constructor
  · decide!
  · decide!

/-- C14 (the code at the failing input): with the light model `kDisabled` the test
`light_model & kDisabled` is a test against the zero mask and never succeeds, so the lights
are evaluated: with one ambient light of intensity `1/5` and one directional light the
result is `1/5`, and with no light it is `0`; neither is the full intensity `1`. -/
theorem compute_lighting_disabled_not_full :
    compute_lighting Libm.onRationals LightModel.kDisabled
        ⟨0, 4, 3⟩ ⟨0, 0, -1⟩ ⟨⟨0, 0, 0⟩, Mat3.kIdentity, make_clipping_planes_90fov⟩ 50
        [⟨Light.Type.kAmbient, ⟨0, 0, 0⟩, 1 / 5⟩,
         ⟨Light.Type.kDirectional, ⟨0, 0, -1⟩, 1 / 2⟩] = 1 / 5 ∧
    compute_lighting Libm.onRationals LightModel.kDisabled
        ⟨0, 4, 3⟩ ⟨0, 0, -1⟩ ⟨⟨0, 0, 0⟩, Mat3.kIdentity, make_clipping_planes_90fov⟩ 50
        [] = 0 := by
  constructor
  · decide!
  · decide!

/-- C15 (the code at the failing input): the view vector is `camera.position - vertex`,
with the world-space position of the camera.  For the view-space point `(0,4,3)` with normal
`(0,0,-1)`, specular exponent `1`, the flag `kSpecular` and one directional light of
direction `(0,0,-1)` and intensity `1/2`, two cameras with the same rotation give `3/10`
when positioned at `(0,0,0)` and `1/2` when positioned at `(0,4,0)`. -/
theorem compute_lighting_depends_on_camera_position :
    compute_lighting Libm.onRationals LightModel.kSpecular
        ⟨0, 4, 3⟩ ⟨0, 0, -1⟩ ⟨⟨0, 0, 0⟩, Mat3.kIdentity, make_clipping_planes_90fov⟩ 1
        [⟨Light.Type.kDirectional, ⟨0, 0, -1⟩, 1 / 2⟩] = 3 / 10 ∧
    compute_lighting Libm.onRationals LightModel.kSpecular
        ⟨0, 4, 3⟩ ⟨0, 0, -1⟩ ⟨⟨0, 4, 0⟩, Mat3.kIdentity, make_clipping_planes_90fov⟩ 1
        [⟨Light.Type.kDirectional, ⟨0, 0, -1⟩, 1 / 2⟩] = 1 / 2 := by
  constructor
  · decide!
  · decide!

/-! ## C16: the bounding-sphere test -/

/-- The result of `clip_mesh_bounds` in terms of the five planes. -/
theorem clip_mesh_bounds_eq_true_iff (clipping_planes : ClippingPlanes) (mesh : Mesh)
    (model_view_mtx : Mat4) (scale : ℚ) :
    clip_mesh_bounds clipping_planes mesh model_view_mtx scale = true ↔
      ∃ p : Fin 5, signed_distance (clipping_planes.planes p)
        (Mat4.mulVec model_view_mtx (Vec4.ofVec3 mesh.bounding_sphere.center 1)).xyz
          < -(mesh.bounding_sphere.radius * scale) := by
  unfold clip_mesh_bounds ClippingPlanes.kCount
  simp only [List.any_eq_true, List.mem_finRange, true_and, decide_eq_true_eq]

/-- C16: `clip_mesh_bounds` returns true if and only if, for at least one of the 5 clipping
planes, the signed distance of the view-space centre of the bounding sphere
(`model_view_mtx * centre`) to that plane is less than `-(radius * scale)`; and whenever it
returns true with the clipping flag set, `draw_mesh` makes no call to any fill or line
routine, so that the canvas and the depth buffer are unchanged whatever the routines do. -/
theorem clip_mesh_bounds_spec (lm : Libm) (canvas : Canvas) (params : DrawMeshParams) :
    (clip_mesh_bounds params.camera.clipping_planes params.mesh params.model_view_mtx
        params.scaling = true ↔
      ∃ p : Fin 5, signed_distance (params.camera.clipping_planes.planes p)
        (Mat4.mulVec params.model_view_mtx
          (Vec4.ofVec3 params.mesh.bounding_sphere.center 1)).xyz
            < -(params.mesh.bounding_sphere.radius * params.scaling)) ∧
    (has_flag params.draw_flags DrawFlags.kClipping = true →
      clip_mesh_bounds params.camera.clipping_planes params.mesh params.model_view_mtx
        params.scaling = true →
      draw_mesh lm canvas params = some [] ∧
      ∀ (S : Type) (exec : DrawCall → S → S) (state : S),
        draw_mesh_run exec lm canvas params state = some state) := by
  refine ⟨clip_mesh_bounds_eq_true_iff _ _ _ _, ?_⟩
  intro hflag hclip
  have h : draw_mesh lm canvas params = some [] := by
    unfold draw_mesh
    rw [hflag, hclip]
    rfl
  refine ⟨h, ?_⟩
  intro S exec state
  unfold draw_mesh_run
  rw [h]
  rfl

/-- C16, instantiated (scenario C): the demo cube (with a one-pixel texture) translated to
`(0,0,-10)`, seen by a camera at the origin with the 90 degrees planes, drawn on a
`1024 x 1024` canvas with the flags `kWireframe | kClipping`: the centre is at view-space
`z = -10`, at signed distance `-11` of the near plane, the sphere is clipped and no call is
made. -/
theorem clip_mesh_bounds_spec_witness :
    has_flag (DrawFlags.kWireframe ||| DrawFlags.kClipping) DrawFlags.kClipping = true ∧
    (Mat4.mulVec
      (Mat4.mul (Camera.to_mat4 ⟨⟨0, 0, 0⟩, Mat3.kIdentity, make_clipping_planes_90fov⟩)
        (Mesh.Transform.to_mat4 ⟨⟨0, 0, -10⟩, Mat3.kIdentity, 1⟩))
      (Vec4.ofVec3 ⟨0, 0, 0⟩ 1)) = ⟨0, 0, -10, 1⟩ ∧
    draw_mesh Libm.onRationals ⟨List.replicate (1024 * 1024) ⟨255, 255, 255, 255⟩,
        ⟨1024, 1024⟩⟩
      (draw_scene_params
        ⟨⟨⟨0, 0, 0⟩, Mat3.kIdentity, make_clipping_planes_90fov⟩,
          [⟨make_demo_cube_mesh ⟨⟨1, 1⟩, Texture.Filter.kBilinear, [⟨255, 255, 255, 255⟩]⟩,
            ⟨⟨0, 0, -10⟩, Mat3.kIdentity, 1⟩⟩], []⟩
        (DrawFlags.kWireframe ||| DrawFlags.kClipping) LightModel.kDisabled
        ShadeModel.kDisabled
        ⟨make_demo_cube_mesh ⟨⟨1, 1⟩, Texture.Filter.kBilinear, [⟨255, 255, 255, 255⟩]⟩,
          ⟨⟨0, 0, -10⟩, Mat3.kIdentity, 1⟩⟩) = some [] := by
  refine ⟨by decide, by decide!, ?_⟩
  refine ((clip_mesh_bounds_spec Libm.onRationals _ _).2 (by decide) ?_).1
  rw [clip_mesh_bounds_eq_true_iff]
  exact ⟨0, by decide!⟩

/-! ## C17: the per-triangle clip -/

/-- The result of `clip_triangle` in terms of the five planes. -/
theorem clip_triangle_eq_false_iff (clipping_planes : ClippingPlanes) (v0 v1 v2 : Vec4) :
    clip_triangle clipping_planes v0 v1 v2 = false ↔
      ∀ p : Fin 5, 0 < signed_distance (clipping_planes.planes p) v0.xyz ∧
        0 < signed_distance (clipping_planes.planes p) v1.xyz ∧
        0 < signed_distance (clipping_planes.planes p) v2.xyz := by
  unfold clip_triangle ClippingPlanes.kCount
  rw [List.any_eq_false]
  simp only [List.mem_finRange, true_implies, gt_iff_lt]
  refine forall_congr' fun p => ?_
  by_cases h0 : 0 < signed_distance (clipping_planes.planes p) v0.xyz <;>
  by_cases h1 : 0 < signed_distance (clipping_planes.planes p) v1.xyz <;>
  by_cases h2 : 0 < signed_distance (clipping_planes.planes p) v2.xyz <;>
  simp [h0, h1, h2]

/-- C17: `clip_triangle` returns false (keep) if and only if all three view-space vertices
have a signed distance strictly greater than `0` to every one of the 5 clipping planes; in
every other case it returns true, and then, the clipping flag being set, `draw_mesh` makes
no call for that face (the triangle is discarded whole). -/
theorem clip_triangle_spec (lm : Libm) (canvas : Canvas) (params : DrawMeshParams)
    (face : Mesh.Face) (v0 v1 v2 : Vec4)
    (hverts : face_transformed_verts params face = some (v0, v1, v2)) :
    (clip_triangle params.camera.clipping_planes v0 v1 v2 = false ↔
      ∀ p : Fin 5, 0 < signed_distance (params.camera.clipping_planes.planes p) v0.xyz ∧
        0 < signed_distance (params.camera.clipping_planes.planes p) v1.xyz ∧
        0 < signed_distance (params.camera.clipping_planes.planes p) v2.xyz) ∧
    (has_flag params.draw_flags DrawFlags.kClipping = true →
      clip_triangle params.camera.clipping_planes v0 v1 v2 = true →
      draw_mesh_face lm canvas params face = some []) := by
  refine ⟨clip_triangle_eq_false_iff _ _ _ _, ?_⟩
  intro hflag hclip
  unfold draw_mesh_face
  rw [hverts]
  simp only [Option.some_bind, hflag, hclip, Bool.and_self, if_true]

/-- C17, instantiated: the face `(5, 4, 7)` of the demo cube translated to `(0, 0, 3/2)`,
seen by a camera at the origin with the 90 degrees planes: its view-space vertices have
`z = 1/2`, behind the near plane `z = 1`; the triangle is clipped and no call is made. -/
theorem clip_triangle_spec_witness :
    face_transformed_verts
      (draw_scene_params
        ⟨⟨⟨0, 0, 0⟩, Mat3.kIdentity, make_clipping_planes_90fov⟩, [], []⟩
        (DrawFlags.kColorFilled ||| DrawFlags.kClipping) LightModel.kDisabled
        ShadeModel.kDisabled
        ⟨make_demo_cube_mesh ⟨⟨1, 1⟩, Texture.Filter.kBilinear, [⟨255, 255, 255, 255⟩]⟩,
          ⟨⟨0, 0, 3 / 2⟩, Mat3.kIdentity, 1⟩⟩)
      ⟨![5, 4, 7], ![2, 2, 2], ![0, 2, 3], Color.kBrightBlue, 50, none⟩
      = some (⟨-1, 1, 1 / 2, 1⟩, ⟨1, 1, 1 / 2, 1⟩, ⟨1, -1, 1 / 2, 1⟩) ∧
    clip_triangle make_clipping_planes_90fov
      ⟨-1, 1, 1 / 2, 1⟩ ⟨1, 1, 1 / 2, 1⟩ ⟨1, -1, 1 / 2, 1⟩ = true ∧
    draw_mesh_face Libm.onRationals ⟨[], ⟨1024, 1024⟩⟩
      (draw_scene_params
        ⟨⟨⟨0, 0, 0⟩, Mat3.kIdentity, make_clipping_planes_90fov⟩, [], []⟩
        (DrawFlags.kColorFilled ||| DrawFlags.kClipping) LightModel.kDisabled
        ShadeModel.kDisabled
        ⟨make_demo_cube_mesh ⟨⟨1, 1⟩, Texture.Filter.kBilinear, [⟨255, 255, 255, 255⟩]⟩,
          ⟨⟨0, 0, 3 / 2⟩, Mat3.kIdentity, 1⟩⟩)
      ⟨![5, 4, 7], ![2, 2, 2], ![0, 2, 3], Color.kBrightBlue, 50, none⟩ = some [] := by
  have hverts : face_transformed_verts
      (draw_scene_params
        ⟨⟨⟨0, 0, 0⟩, Mat3.kIdentity, make_clipping_planes_90fov⟩, [], []⟩
        (DrawFlags.kColorFilled ||| DrawFlags.kClipping) LightModel.kDisabled
        ShadeModel.kDisabled
        ⟨make_demo_cube_mesh ⟨⟨1, 1⟩, Texture.Filter.kBilinear, [⟨255, 255, 255, 255⟩]⟩,
          ⟨⟨0, 0, 3 / 2⟩, Mat3.kIdentity, 1⟩⟩)
      ⟨![5, 4, 7], ![2, 2, 2], ![0, 2, 3], Color.kBrightBlue, 50, none⟩
      = some (⟨-1, 1, 1 / 2, 1⟩, ⟨1, 1, 1 / 2, 1⟩, ⟨1, -1, 1 / 2, 1⟩) := by decide!
  have hclip : clip_triangle make_clipping_planes_90fov
      ⟨-1, 1, 1 / 2, 1⟩ ⟨1, 1, 1 / 2, 1⟩ ⟨1, -1, 1 / 2, 1⟩ = true := by decide!
  exact ⟨hverts, hclip,
    (clip_triangle_spec Libm.onRationals _ _ _ _ _ _ hverts).2 (by decide) hclip⟩

/-! ## C20: faces without texture -/

/-- The dispatch for a face whose texture is `Texture::kNone`: one colour-fill call, then
the outlines; no call takes a texture. -/
theorem face_dispatch_untextured (lm : Libm) (params : DrawMeshParams) (face : Mesh.Face)
    (hnone : face.texture = none) (v0 v1 v2 : Vec4) (p0 p1 p2 : Point2)
    (intensities : ℚ × ℚ × ℚ) (normals : Vec3 × Vec3 × Vec3) :
    ∃ c outlines, face_dispatch lm params face v0 v1 v2 p0 p1 p2 intensities normals
        = some (c :: outlines) ∧ c.is_color_fill = true ∧ c.is_textured = false ∧
      ∀ r ∈ outlines, r.is_line = true ∧ r.is_textured = false := by
  have houtl : ∀ r ∈ (if has_flag params.draw_flags DrawFlags.kOutlines = true then
        [DrawCall.draw_line p0 p1 (Color.mul face.color (3 / 4)),
          DrawCall.draw_line p0 p2 (Color.mul face.color (3 / 4)),
          DrawCall.draw_line p2 p1 (Color.mul face.color (3 / 4))]
      else []), r.is_line = true ∧ r.is_textured = false := by
    intro r hr
    split at hr
    · simp only [List.mem_cons, List.mem_singleton, List.not_mem_nil, or_false] at hr
      rcases hr with rfl | rfl | rfl <;> exact ⟨rfl, rfl⟩
    · exact absurd hr (List.not_mem_nil r)
  unfold face_dispatch
  simp only [hnone, Option.isNone_none, Bool.or_true, if_true]
  cases params.shade_model <;>
    by_cases hd : has_flag params.draw_flags DrawFlags.kDepthTest = true <;>
    simp only [hd, if_true, if_false, Option.map_some', List.singleton_append,
      Bool.false_eq_true] <;>
    exact ⟨_, _, rfl, rfl, rfl, houtl⟩

/-- C20: for every face whose texture is the sentinel `Texture::kNone`, whatever the draw
flags (also with `kTextureMapped` set and `kColorFilled` clear) and the shade model, no
call made by `draw_mesh` for that face takes a texture; and when the face survives the clip
and the back-face cull (and its vertices project and its normals are read), the calls are
one colour-fill routine followed by the outline `draw_line` calls. -/
theorem untextured_face_color_fill (lm : Libm) (canvas : Canvas) (params : DrawMeshParams)
    (face : Mesh.Face) (hnone : face.texture = none) :
    (∀ calls, draw_mesh_face lm canvas params face = some calls →
      ∀ c ∈ calls, c.is_textured = false) ∧
    (∀ v0 v1 v2 p0 p1 p2 shading,
      face_transformed_verts params face = some (v0, v1, v2) →
      (has_flag params.draw_flags DrawFlags.kClipping &&
        clip_triangle params.camera.clipping_planes v0 v1 v2) = false →
      (face_back_face_stage lm params.draw_flags v0 v1 v2).1 = false →
      canvas.project_vertex v0.xyz 1 = some p0 →
      canvas.project_vertex v1.xyz 1 = some p1 →
      canvas.project_vertex v2.xyz 1 = some p2 →
      face_shading lm params face (face_back_face_stage lm params.draw_flags v0 v1 v2).2
        v0 v1 v2 = some shading →
      ∃ c outlines, draw_mesh_face lm canvas params face = some (c :: outlines) ∧
        c.is_color_fill = true ∧ c.is_textured = false ∧
        ∀ r ∈ outlines, r.is_line = true) := by
  constructor
  · intro calls hcalls c hc
    unfold draw_mesh_face at hcalls
    cases hv : face_transformed_verts params face with
    | none => rw [hv] at hcalls; exact Option.noConfusion hcalls
    | some verts =>
      rw [hv] at hcalls
      simp only [Option.some_bind] at hcalls
      split at hcalls
      · cases hcalls
        exact absurd hc (List.not_mem_nil c)
      · split at hcalls
        · cases hcalls
          exact absurd hc (List.not_mem_nil c)
        · cases h0 : canvas.project_vertex verts.1.xyz 1 with
          | none => rw [h0] at hcalls; exact Option.noConfusion hcalls
          | some q0 =>
            cases h1 : canvas.project_vertex verts.2.1.xyz 1 with
            | none => rw [h0, h1] at hcalls; exact Option.noConfusion hcalls
            | some q1 =>
              cases h2 : canvas.project_vertex verts.2.2.xyz 1 with
              | none => rw [h0, h1, h2] at hcalls; exact Option.noConfusion hcalls
              | some q2 =>
                cases hs : face_shading lm params face
                    (face_back_face_stage lm params.draw_flags verts.1 verts.2.1
                      verts.2.2).2 verts.1 verts.2.1 verts.2.2 with
                | none => rw [h0, h1, h2, hs] at hcalls; exact Option.noConfusion hcalls
                | some sh =>
                  rw [h0, h1, h2, hs] at hcalls
                  simp only [Option.some_bind] at hcalls
                  obtain ⟨c', outl, hd, -, hc', houtl⟩ := face_dispatch_untextured lm params
                    face hnone verts.1 verts.2.1 verts.2.2 q0 q1 q2 sh.1 sh.2
                  rw [hd] at hcalls
                  cases hcalls
                  rcases List.mem_cons.mp hc with rfl | hmem
                  · exact hc'
                  · exact (houtl c hmem).2
  · intro v0 v1 v2 p0 p1 p2 shading hv hclip hcull h0 h1 h2 hs
    obtain ⟨c, outl, hd, hfill, htex, houtl⟩ := face_dispatch_untextured lm params
      face hnone v0 v1 v2 p0 p1 p2 shading.1 shading.2
    refine ⟨c, outl, ?_, hfill, htex, fun r hr => (houtl r hr).1⟩
    unfold draw_mesh_face
    rw [hv]
    simp only [Option.some_bind, hclip, hcull, Bool.false_eq_true, if_false, h0, h1, h2, hs]
    exact hd

/-- C20, instantiated: an untextured face drawn with the flags `kTextureMapped | kOutlines`
(and `kColorFilled` clear), shading disabled, on a `1024 x 1024` canvas: a colour fill
followed by outline lines. -/
theorem untextured_face_color_fill_witness :
    ∃ c outlines,
      draw_mesh_face Libm.onRationals ⟨[], ⟨1024, 1024⟩⟩
        ⟨⟨[⟨0, 0, 4⟩, ⟨0, 1, 4⟩, ⟨1, 0, 4⟩], [⟨0, 0, -1⟩], [],
            [⟨![0, 1, 2], ![0, 0, 0], ![0, 0, 0], Color.kGray, 0, none⟩], ⟨⟨0, 0, 0⟩, 0⟩⟩,
          ⟨⟨0, 0, 0⟩, Mat3.kIdentity, make_clipping_planes_90fov⟩, [],
          DrawFlags.kTextureMapped ||| DrawFlags.kOutlines, LightModel.kDisabled,
          ShadeModel.kDisabled, Mat4.kIdentity, Mat3.kIdentity, 1⟩
        ⟨![0, 1, 2], ![0, 0, 0], ![0, 0, 0], Color.kGray, 0, none⟩ = some (c :: outlines) ∧
      c.is_color_fill = true ∧ c.is_textured = false ∧ ∀ r ∈ outlines, r.is_line = true :=
  (untextured_face_color_fill Libm.onRationals ⟨[], ⟨1024, 1024⟩⟩
    ⟨⟨[⟨0, 0, 4⟩, ⟨0, 1, 4⟩, ⟨1, 0, 4⟩], [⟨0, 0, -1⟩], [],
        [⟨![0, 1, 2], ![0, 0, 0], ![0, 0, 0], Color.kGray, 0, none⟩], ⟨⟨0, 0, 0⟩, 0⟩⟩,
      ⟨⟨0, 0, 0⟩, Mat3.kIdentity, make_clipping_planes_90fov⟩, [],
      DrawFlags.kTextureMapped ||| DrawFlags.kOutlines, LightModel.kDisabled,
      ShadeModel.kDisabled, Mat4.kIdentity, Mat3.kIdentity, 1⟩
    ⟨![0, 1, 2], ![0, 0, 0], ![0, 0, 0], Color.kGray, 0, none⟩ rfl).2
    ⟨0, 0, 4, 1⟩ ⟨0, 1, 4, 1⟩ ⟨1, 0, 4, 1⟩ ⟨0, 0⟩ ⟨0, 256⟩ ⟨256, 0⟩
    ((0, 0, 0), (⟨0, 0, 0⟩, ⟨0, 0, 0⟩, ⟨0, 0, 0⟩))
    (by decide!) (by decide!) (by decide!) (by decide!) (by decide!) (by decide!)
    (by decide!)

/-! ## C19: the normal used for flat shading -/

/-- C19 (the code at the failing input): the face `(0,0,4), (0,1,4), (1,0,4)` (view space),
flat shading with the diffuse light model, an ambient light of intensity `1/5` and a
directional light of direction `(0,0,-1)` and intensity `1/2`.  Its computed normal is
`(0,0,-1)`.  With the flags `kColorFilled | kComputeFaceNormals` and back-face culling
off, `is_back_facing_triangle` is not called, `triangle_normal` keeps its initial value
`(0,0,0)`, and this zero vector is the normal passed to `compute_lighting`: the intensity is
`1/5`.  With `kBackFaceCull` added the face is still drawn (it is front-facing) but the
normal passed is `(0,0,-1)` and the intensity is `7/10`. -/
theorem flat_normal_depends_on_cull_flag :
    compute_triangle_normal Libm.onRationals ⟨0, 0, 4, 1⟩ ⟨0, 1, 4, 1⟩ ⟨1, 0, 4, 1⟩
      = ⟨0, 0, -1⟩ ∧
    face_back_face_stage Libm.onRationals
      (DrawFlags.kColorFilled ||| DrawFlags.kComputeFaceNormals)
      ⟨0, 0, 4, 1⟩ ⟨0, 1, 4, 1⟩ ⟨1, 0, 4, 1⟩ = (false, ⟨0, 0, 0⟩) ∧
    face_shading Libm.onRationals
      ⟨⟨[⟨0, 0, 4⟩, ⟨0, 1, 4⟩, ⟨1, 0, 4⟩], [⟨0, 0, -1⟩], [],
          [⟨![0, 1, 2], ![0, 0, 0], ![0, 0, 0], Color.kGray, 0, none⟩], ⟨⟨0, 0, 0⟩, 0⟩⟩,
        ⟨⟨0, 0, 0⟩, Mat3.kIdentity, make_clipping_planes_90fov⟩,
        [⟨Light.Type.kAmbient, ⟨0, 0, 0⟩, 1 / 5⟩,
          ⟨Light.Type.kDirectional, ⟨0, 0, -1⟩, 1 / 2⟩],
        DrawFlags.kColorFilled ||| DrawFlags.kComputeFaceNormals, LightModel.kDiffuse,
        ShadeModel.kFlat, Mat4.kIdentity, Mat3.kIdentity, 1⟩
      ⟨![0, 1, 2], ![0, 0, 0], ![0, 0, 0], Color.kGray, 0, none⟩
      ⟨0, 0, 0⟩ ⟨0, 0, 4, 1⟩ ⟨0, 1, 4, 1⟩ ⟨1, 0, 4, 1⟩
      = some ((1 / 5, 1 / 5, 1 / 5), (⟨0, 0, 0⟩, ⟨0, 0, 0⟩, ⟨0, 0, 0⟩)) ∧
    face_back_face_stage Libm.onRationals
      (DrawFlags.kColorFilled ||| DrawFlags.kComputeFaceNormals ||| DrawFlags.kBackFaceCull)
      ⟨0, 0, 4, 1⟩ ⟨0, 1, 4, 1⟩ ⟨1, 0, 4, 1⟩ = (false, ⟨0, 0, -1⟩) ∧
    face_shading Libm.onRationals
      ⟨⟨[⟨0, 0, 4⟩, ⟨0, 1, 4⟩, ⟨1, 0, 4⟩], [⟨0, 0, -1⟩], [],
          [⟨![0, 1, 2], ![0, 0, 0], ![0, 0, 0], Color.kGray, 0, none⟩], ⟨⟨0, 0, 0⟩, 0⟩⟩,
        ⟨⟨0, 0, 0⟩, Mat3.kIdentity, make_clipping_planes_90fov⟩,
        [⟨Light.Type.kAmbient, ⟨0, 0, 0⟩, 1 / 5⟩,
          ⟨Light.Type.kDirectional, ⟨0, 0, -1⟩, 1 / 2⟩],
        DrawFlags.kColorFilled ||| DrawFlags.kComputeFaceNormals ||| DrawFlags.kBackFaceCull,
        LightModel.kDiffuse, ShadeModel.kFlat, Mat4.kIdentity, Mat3.kIdentity, 1⟩
      ⟨![0, 1, 2], ![0, 0, 0], ![0, 0, 0], Color.kGray, 0, none⟩
      ⟨0, 0, -1⟩ ⟨0, 0, 4, 1⟩ ⟨0, 1, 4, 1⟩ ⟨1, 0, 4, 1⟩
      = some ((7 / 10, 7 / 10, 7 / 10), (⟨0, 0, -1⟩, ⟨0, 0, 0⟩, ⟨0, 0, 0⟩)) := by
  refine ⟨by decide!, by decide!, by decide!, by decide!, by decide!⟩

/-! ## The back-face decision and the scaling of the instance, under exact arithmetic -/

theorem mat4_mulVec_mul (A B : Mat4) (v : Vec4) :
    Mat4.mulVec (Mat4.mul A B) v = Mat4.mulVec A (Mat4.mulVec B v) := by
  simp only [Mat4.mulVec, Mat4.mul, Vec4.mk.injEq]
  refine ⟨?_, ?_, ?_, ?_⟩ <;> ring

theorem mat4_mulVec_scaling (s : ℚ) (v : Vec4) :
    Mat4.mulVec (Mat4.scaling s) v = ⟨v.x * s, v.y * s, v.z * s, v.w⟩ := by
  have h : Mat4.mulVec (Mat4.scaling s) v =
      ⟨v.x * s + v.y * 0 + v.z * 0 + v.w * 0, v.x * 0 + v.y * s + v.z * 0 + v.w * 0,
       v.x * 0 + v.y * 0 + v.z * s + v.w * 0, v.x * 0 + v.y * 0 + v.z * 0 + v.w * 1⟩ := rfl
  rw [h, Vec4.mk.injEq]
  refine ⟨?_, ?_, ?_, ?_⟩ <;> ring

theorem mat4_mulVec_translation (t : Vec3) (v : Vec4) :
    Mat4.mulVec (Mat4.translation t) v =
      ⟨v.x + v.w * t.x, v.y + v.w * t.y, v.z + v.w * t.z, v.w⟩ := by
  have h : Mat4.mulVec (Mat4.translation t) v =
      ⟨v.x * 1 + v.y * 0 + v.z * 0 + v.w * t.x, v.x * 0 + v.y * 1 + v.z * 0 + v.w * t.y,
       v.x * 0 + v.y * 0 + v.z * 1 + v.w * t.z, v.x * 0 + v.y * 0 + v.z * 0 + v.w * 1⟩ := rfl
  rw [h, Vec4.mk.injEq]
  refine ⟨?_, ?_, ?_, ?_⟩ <;> ring

theorem mat4_mulVec_rotation (R : Mat3) (v : Vec4) :
    Mat4.mulVec (Mat4.rotation R) v =
      ⟨v.x * R.m 0 0 + v.y * R.m 0 1 + v.z * R.m 0 2,
       v.x * R.m 1 0 + v.y * R.m 1 1 + v.z * R.m 1 2,
       v.x * R.m 2 0 + v.y * R.m 2 1 + v.z * R.m 2 2, v.w⟩ := by
  have h : Mat4.mulVec (Mat4.rotation R) v =
      ⟨v.x * R.m 0 0 + v.y * R.m 0 1 + v.z * R.m 0 2 + v.w * 0,
       v.x * R.m 1 0 + v.y * R.m 1 1 + v.z * R.m 1 2 + v.w * 0,
       v.x * R.m 2 0 + v.y * R.m 2 1 + v.z * R.m 2 2 + v.w * 0,
       v.x * 0 + v.y * 0 + v.z * 0 + v.w * 1⟩ := rfl
  rw [h, Vec4.mk.injEq]
  refine ⟨?_, ?_, ?_, ?_⟩ <;> ring

theorem mat4_mulVec_transposed_rotation (R : Mat3) (v : Vec4) :
    Mat4.mulVec (Mat4.transposed (Mat4.rotation R)) v =
      ⟨v.x * R.m 0 0 + v.y * R.m 1 0 + v.z * R.m 2 0,
       v.x * R.m 0 1 + v.y * R.m 1 1 + v.z * R.m 2 1,
       v.x * R.m 0 2 + v.y * R.m 1 2 + v.z * R.m 2 2, v.w⟩ := by
  have h : Mat4.mulVec (Mat4.transposed (Mat4.rotation R)) v =
      ⟨v.x * R.m 0 0 + v.y * R.m 1 0 + v.z * R.m 2 0 + v.w * 0,
       v.x * R.m 0 1 + v.y * R.m 1 1 + v.z * R.m 2 1 + v.w * 0,
       v.x * R.m 0 2 + v.y * R.m 1 2 + v.z * R.m 2 2 + v.w * 0,
       v.x * 0 + v.y * 0 + v.z * 0 + v.w * 1⟩ := rfl
  rw [h, Vec4.mk.injEq]
  refine ⟨?_, ?_, ?_, ?_⟩ <;> ring

/-- The view-space vertex as the chain of the five transforms: scale, rotate, translate
(model), then translate by minus the camera position and rotate by the transposed camera
rotation (view). -/
theorem view_space_vertex_eq (camera : Camera) (transform : Mesh.Transform) (vert : Vec3) :
    view_space_vertex camera transform vert =
      Mat4.mulVec (Mat4.transposed (Mat4.rotation camera.rotation))
        (Mat4.mulVec (Mat4.translation (Vec3.neg camera.position))
          (Mat4.mulVec (Mat4.translation transform.translation)
            (Mat4.mulVec (Mat4.rotation transform.rotation)
              (Mat4.mulVec (Mat4.scaling transform.scaling) (Vec4.ofVec3 vert 1))))) := by
  simp only [view_space_vertex, Camera.to_mat4, Mesh.Transform.to_mat4, mat4_mulVec_mul]

/-- Scaling the instance by `s` moves a view-space vertex along the ray from the view-space
instance origin `o` through its position `a` at scale one: `o + (a - o) * s`. -/
theorem view_space_vertex_scaling (camera : Camera) (translation : Vec3) (rotation : Mat3)
    (s : ℚ) (vert : Vec3) :
    (view_space_vertex camera ⟨translation, rotation, s⟩ vert).xyz =
      Vec3.add (view_space_vertex camera ⟨translation, rotation, 1⟩ ⟨0, 0, 0⟩).xyz
        (Vec3.mul (Vec3.sub (view_space_vertex camera ⟨translation, rotation, 1⟩ vert).xyz
          (view_space_vertex camera ⟨translation, rotation, 1⟩ ⟨0, 0, 0⟩).xyz) s) := by
  simp only [view_space_vertex_eq,
    mat4_mulVec_scaling, mat4_mulVec_translation, mat4_mulVec_rotation,
    mat4_mulVec_transposed_rotation, Vec4.ofVec3, Vec4.xyz, Vec3.neg, Vec3.add, Vec3.mul,
    Vec3.sub, Vec3.mk.injEq]
  refine ⟨?_, ?_, ?_⟩ <;> ring

theorem vec4_sub_xyz (u v : Vec4) : (Vec4.sub u v).xyz = Vec3.sub u.xyz v.xyz := rfl

/-- A non-zero vector has a positive squared length. -/
theorem vec3_dot_self_pos (w : Vec3) (hw : w ≠ ⟨0, 0, 0⟩) : 0 < Vec3.dot w w := by
  by_contra h
  push_neg at h
  simp only [Vec3.dot] at h
  have hx : w.x * w.x = 0 := by
    nlinarith [mul_self_nonneg w.x, mul_self_nonneg w.y, mul_self_nonneg w.z]
  have hy : w.y * w.y = 0 := by
    nlinarith [mul_self_nonneg w.x, mul_self_nonneg w.y, mul_self_nonneg w.z]
  have hz : w.z * w.z = 0 := by
    nlinarith [mul_self_nonneg w.x, mul_self_nonneg w.y, mul_self_nonneg w.z]
  apply hw
  cases w with
  | mk x y z =>
    simp only [Vec3.mk.injEq]
    exact ⟨mul_self_eq_zero.mp hx, mul_self_eq_zero.mp hy, mul_self_eq_zero.mp hz⟩

/-- The back-face test of a non-degenerate triangle, for a square root that is positive on
positive numbers: the triangle is back-facing exactly when the first vertex has a
non-negative dot product with the (unnormalised) cross product of the edges. -/
theorem is_back_facing_triangle_iff (lm : Libm) (hsqrt : ∀ x : ℚ, 0 < x → 0 < lm.sqrt x)
    (v0 v1 v2 : Vec4)
    (hnd : Vec3.cross (Vec3.sub v1.xyz v0.xyz) (Vec3.sub v2.xyz v0.xyz) ≠ ⟨0, 0, 0⟩) :
    (is_back_facing_triangle lm v0 v1 v2).1 = true ↔
      0 ≤ Vec3.dot v0.xyz (Vec3.cross (Vec3.sub v1.xyz v0.xyz) (Vec3.sub v2.xyz v0.xyz)) := by
  have hinv := one_div_pos.mpr (hsqrt _ (vec3_dot_self_pos _ hnd))
  have hdot : Vec3.dot (Vec3.neg v0.xyz) (compute_triangle_normal lm v0 v1 v2) =
      -(Vec3.dot v0.xyz (Vec3.cross (Vec3.sub v1.xyz v0.xyz) (Vec3.sub v2.xyz v0.xyz)) *
        (1 / lm.sqrt (Vec3.dot (Vec3.cross (Vec3.sub v1.xyz v0.xyz) (Vec3.sub v2.xyz v0.xyz))
          (Vec3.cross (Vec3.sub v1.xyz v0.xyz) (Vec3.sub v2.xyz v0.xyz))))) := by
    simp only [compute_triangle_normal, vec4_sub_xyz, Vec3.normalize, Vec3.length]
    simp only [Vec3.dot, Vec3.neg, Vec3.mul]
    ring
  simp only [is_back_facing_triangle, hdot]
  constructor
  · intro h
    by_contra hn
    push_neg at hn
    have := mul_neg_of_neg_of_pos hn hinv
    rw [if_neg (by linarith)] at h
    exact Bool.false_ne_true h
  · intro h
    have := mul_nonneg h hinv.le
    rw [if_pos (by linarith)]

/-- The cross product and the back-face dot product of a triangle scaled by `s` about a
point `o`. -/
theorem scaled_triangle (o a0 a1 a2 : Vec3) (s : ℚ) :
    Vec3.cross
        (Vec3.sub (Vec3.add o (Vec3.mul (Vec3.sub a1 o) s))
          (Vec3.add o (Vec3.mul (Vec3.sub a0 o) s)))
        (Vec3.sub (Vec3.add o (Vec3.mul (Vec3.sub a2 o) s))
          (Vec3.add o (Vec3.mul (Vec3.sub a0 o) s))) =
      Vec3.mul (Vec3.cross (Vec3.sub a1 a0) (Vec3.sub a2 a0)) (s * s) ∧
    Vec3.dot (Vec3.add o (Vec3.mul (Vec3.sub a0 o) s))
        (Vec3.mul (Vec3.cross (Vec3.sub a1 a0) (Vec3.sub a2 a0)) (s * s)) =
      s * s * (Vec3.dot o (Vec3.cross (Vec3.sub a1 a0) (Vec3.sub a2 a0)) +
        s * Vec3.dot (Vec3.sub a0 o) (Vec3.cross (Vec3.sub a1 a0) (Vec3.sub a2 a0))) := by
  constructor
  · simp only [Vec3.cross, Vec3.sub, Vec3.add, Vec3.mul, Vec3.mk.injEq]
    refine ⟨?_, ?_, ?_⟩ <;> ring
  · simp only [Vec3.dot, Vec3.cross, Vec3.sub, Vec3.add, Vec3.mul]
    ring

theorem vec3_mul_ne_zero (w : Vec3) (k : ℚ) (hw : w ≠ ⟨0, 0, 0⟩) (hk : k ≠ 0) :
    Vec3.mul w k ≠ ⟨0, 0, 0⟩ := by
  intro h
  apply hw
  cases w with
  | mk x y z =>
    simp only [Vec3.mul, Vec3.mk.injEq, mul_eq_zero] at h ⊢
    exact ⟨h.1.resolve_right hk, h.2.1.resolve_right hk, h.2.2.resolve_right hk⟩

/-- The sign of `s * s * (A + s * B)` for `s > 0` when `A` and `B` do not have opposite
signs. -/
theorem scale_sign (A B s : ℚ) (hs : 0 < s) (hAB : 0 ≤ A * B) :
    0 ≤ s * s * (A + s * B) ↔ (0 ≤ A ∧ 0 ≤ B) := by
  constructor
  · intro h
    have h1 : 0 ≤ A + s * B := by
      by_contra hn
      push_neg at hn
      have := mul_neg_of_pos_of_neg (mul_pos hs hs) hn
      linarith
    by_contra hP
    rw [not_and_or] at hP
    rcases hP with hA | hB
    · push_neg at hA
      have hB : B ≤ 0 := by
        by_contra hB
        push_neg at hB
        have := mul_neg_of_neg_of_pos hA hB
        linarith
      have := mul_nonpos_of_nonneg_of_nonpos hs.le hB
      linarith
    · push_neg at hB
      have hA : A ≤ 0 := by
        by_contra hA
        push_neg at hA
        have := mul_neg_of_pos_of_neg hA hB
        linarith
      have := mul_neg_of_pos_of_neg hs hB
      linarith
  · rintro ⟨hA, hB⟩
    exact mul_nonneg (mul_nonneg hs.le hs.le) (add_nonneg hA (mul_nonneg hs.le hB))

/-- The back-face decision of a face of an instance scaled by `s > 0`, in terms of the
scale-one view-space data: `o` the instance origin, `a0` the first vertex and `w` the cross
product of the edges. -/
theorem back_facing_scaled_iff (lm : Libm) (hsqrt : ∀ x : ℚ, 0 < x → 0 < lm.sqrt x)
    (camera : Camera) (translation : Vec3) (rotation : Mat3) (p0 p1 p2 : Vec3) (s : ℚ)
    (hs : 0 < s)
    (hnd : Vec3.cross
        (Vec3.sub (view_space_vertex camera ⟨translation, rotation, 1⟩ p1).xyz
          (view_space_vertex camera ⟨translation, rotation, 1⟩ p0).xyz)
        (Vec3.sub (view_space_vertex camera ⟨translation, rotation, 1⟩ p2).xyz
          (view_space_vertex camera ⟨translation, rotation, 1⟩ p0).xyz) ≠ ⟨0, 0, 0⟩)
    (hside : 0 ≤
      Vec3.dot (view_space_vertex camera ⟨translation, rotation, 1⟩ ⟨0, 0, 0⟩).xyz
        (Vec3.cross
          (Vec3.sub (view_space_vertex camera ⟨translation, rotation, 1⟩ p1).xyz
            (view_space_vertex camera ⟨translation, rotation, 1⟩ p0).xyz)
          (Vec3.sub (view_space_vertex camera ⟨translation, rotation, 1⟩ p2).xyz
            (view_space_vertex camera ⟨translation, rotation, 1⟩ p0).xyz)) *
      Vec3.dot
        (Vec3.sub (view_space_vertex camera ⟨translation, rotation, 1⟩ p0).xyz
          (view_space_vertex camera ⟨translation, rotation, 1⟩ ⟨0, 0, 0⟩).xyz)
        (Vec3.cross
          (Vec3.sub (view_space_vertex camera ⟨translation, rotation, 1⟩ p1).xyz
            (view_space_vertex camera ⟨translation, rotation, 1⟩ p0).xyz)
          (Vec3.sub (view_space_vertex camera ⟨translation, rotation, 1⟩ p2).xyz
            (view_space_vertex camera ⟨translation, rotation, 1⟩ p0).xyz))) :
    (is_back_facing_triangle lm
        (view_space_vertex camera ⟨translation, rotation, s⟩ p0)
        (view_space_vertex camera ⟨translation, rotation, s⟩ p1)
        (view_space_vertex camera ⟨translation, rotation, s⟩ p2)).1 = true ↔
      (0 ≤ Vec3.dot (view_space_vertex camera ⟨translation, rotation, 1⟩ ⟨0, 0, 0⟩).xyz
        (Vec3.cross
          (Vec3.sub (view_space_vertex camera ⟨translation, rotation, 1⟩ p1).xyz
            (view_space_vertex camera ⟨translation, rotation, 1⟩ p0).xyz)
          (Vec3.sub (view_space_vertex camera ⟨translation, rotation, 1⟩ p2).xyz
            (view_space_vertex camera ⟨translation, rotation, 1⟩ p0).xyz)) ∧
      0 ≤ Vec3.dot
        (Vec3.sub (view_space_vertex camera ⟨translation, rotation, 1⟩ p0).xyz
          (view_space_vertex camera ⟨translation, rotation, 1⟩ ⟨0, 0, 0⟩).xyz)
        (Vec3.cross
          (Vec3.sub (view_space_vertex camera ⟨translation, rotation, 1⟩ p1).xyz
            (view_space_vertex camera ⟨translation, rotation, 1⟩ p0).xyz)
          (Vec3.sub (view_space_vertex camera ⟨translation, rotation, 1⟩ p2).xyz
            (view_space_vertex camera ⟨translation, rotation, 1⟩ p0).xyz))) := by
  have hc := (scaled_triangle (view_space_vertex camera ⟨translation, rotation, 1⟩ ⟨0, 0, 0⟩).xyz
    (view_space_vertex camera ⟨translation, rotation, 1⟩ p0).xyz
    (view_space_vertex camera ⟨translation, rotation, 1⟩ p1).xyz
    (view_space_vertex camera ⟨translation, rotation, 1⟩ p2).xyz s)
  have hcross :
      Vec3.cross
        (Vec3.sub (view_space_vertex camera ⟨translation, rotation, s⟩ p1).xyz
          (view_space_vertex camera ⟨translation, rotation, s⟩ p0).xyz)
        (Vec3.sub (view_space_vertex camera ⟨translation, rotation, s⟩ p2).xyz
          (view_space_vertex camera ⟨translation, rotation, s⟩ p0).xyz) =
      Vec3.mul (Vec3.cross
        (Vec3.sub (view_space_vertex camera ⟨translation, rotation, 1⟩ p1).xyz
          (view_space_vertex camera ⟨translation, rotation, 1⟩ p0).xyz)
        (Vec3.sub (view_space_vertex camera ⟨translation, rotation, 1⟩ p2).xyz
          (view_space_vertex camera ⟨translation, rotation, 1⟩ p0).xyz)) (s * s) := by
    rw [view_space_vertex_scaling camera translation rotation s p0,
      view_space_vertex_scaling camera translation rotation s p1,
      view_space_vertex_scaling camera translation rotation s p2]
    exact hc.1
  have hnds := vec3_mul_ne_zero _ (s * s) hnd (mul_pos hs hs).ne'
  rw [← hcross] at hnds
  rw [is_back_facing_triangle_iff lm hsqrt _ _ _ hnds, hcross,
    view_space_vertex_scaling camera translation rotation s p0, hc.2]
  exact scale_sign _ _ s hs hside

/-- The square root of `Libm.onRationals` is positive on positive numbers. -/
theorem onRationals_sqrt_pos (x : ℚ) (hx : 0 < x) : 0 < Libm.onRationals.sqrt x := by
  have hnum : 0 < x.num := Rat.num_pos.mpr hx
  have hprod : 0 < x.num.toNat * x.den :=
    Nat.mul_pos (by omega) x.den_pos
  have hs : 0 < Nat.sqrt (x.num.toNat * x.den) := Nat.sqrt_pos.mpr hprod
  have hden : (0 : ℚ) < (x.den : ℚ) := by exact_mod_cast x.den_pos
  have hsq : (0 : ℚ) < ((Nat.sqrt (x.num.toNat * x.den) : Nat) : ℚ) := by exact_mod_cast hs
  exact div_pos hsq hden

/-- A scaling that carries the plane of a face across the eye.
Camera at the origin with the identity rotation, instance
translation `(0,0,5)`, identity instance rotation, face `(0,0,-1), (0,1,-1), (1,0,-1)`.
With scale `1` the view-space face lies at depth `4` and `is_back_facing_triangle` answers
`false`; with scale `6` the face lies at depth `-1`, on the other side of the eye, and the
answer is `true`. -/
theorem back_face_scaling_counterexample :
    (is_back_facing_triangle Libm.onRationals
      (view_space_vertex ⟨⟨0, 0, 0⟩, Mat3.kIdentity, make_clipping_planes_90fov⟩
        ⟨⟨0, 0, 5⟩, Mat3.kIdentity, 1⟩ ⟨0, 0, -1⟩)
      (view_space_vertex ⟨⟨0, 0, 0⟩, Mat3.kIdentity, make_clipping_planes_90fov⟩
        ⟨⟨0, 0, 5⟩, Mat3.kIdentity, 1⟩ ⟨0, 1, -1⟩)
      (view_space_vertex ⟨⟨0, 0, 0⟩, Mat3.kIdentity, make_clipping_planes_90fov⟩
        ⟨⟨0, 0, 5⟩, Mat3.kIdentity, 1⟩ ⟨1, 0, -1⟩)).1 = false ∧
    (is_back_facing_triangle Libm.onRationals
      (view_space_vertex ⟨⟨0, 0, 0⟩, Mat3.kIdentity, make_clipping_planes_90fov⟩
        ⟨⟨0, 0, 5⟩, Mat3.kIdentity, 6⟩ ⟨0, 0, -1⟩)
      (view_space_vertex ⟨⟨0, 0, 0⟩, Mat3.kIdentity, make_clipping_planes_90fov⟩
        ⟨⟨0, 0, 5⟩, Mat3.kIdentity, 6⟩ ⟨0, 1, -1⟩)
      (view_space_vertex ⟨⟨0, 0, 0⟩, Mat3.kIdentity, make_clipping_planes_90fov⟩
        ⟨⟨0, 0, 5⟩, Mat3.kIdentity, 6⟩ ⟨1, 0, -1⟩)).1 = true ∧
    view_space_vertex ⟨⟨0, 0, 0⟩, Mat3.kIdentity, make_clipping_planes_90fov⟩
        ⟨⟨0, 0, 5⟩, Mat3.kIdentity, 1⟩ ⟨0, 0, -1⟩ = ⟨0, 0, 4, 1⟩ ∧
    view_space_vertex ⟨⟨0, 0, 0⟩, Mat3.kIdentity, make_clipping_planes_90fov⟩
        ⟨⟨0, 0, 5⟩, Mat3.kIdentity, 6⟩ ⟨0, 0, -1⟩ = ⟨0, 0, -1, 1⟩ := by
  refine ⟨by decide!, by decide!, by decide!, by decide!⟩

/-- Exact arithmetic.
The back-face decision is invariant under uniform positive scaling of the
instance when the scaling does not carry the face's plane across the eye.  Let `o` be the
view-space position of the instance origin, `a0` the view-space first vertex of the face at
scale one and `w` the cross product of the view-space edges at scale one.  For a square root
that is positive on positive numbers, a non-degenerate face (`w ≠ 0`), scaling factors
`s1, s2 > 0`, and `0 ≤ dot o w * dot (a0 - o) w` (which holds in particular when the
instance origin is at the eye), `is_back_facing_triangle` gives the same answer on the
view-space vertices computed with scale `s1` as with scale `s2`. -/
theorem back_face_scaling_invariant (lm : Libm) (hsqrt : ∀ x : ℚ, 0 < x → 0 < lm.sqrt x)
    (camera : Camera) (translation : Vec3) (rotation : Mat3) (p0 p1 p2 : Vec3) (s1 s2 : ℚ)
    (hs1 : 0 < s1) (hs2 : 0 < s2) (o a0 w : Vec3)
    (ho : o = (view_space_vertex camera ⟨translation, rotation, 1⟩ ⟨0, 0, 0⟩).xyz)
    (ha0 : a0 = (view_space_vertex camera ⟨translation, rotation, 1⟩ p0).xyz)
    (hw : w = Vec3.cross
      (Vec3.sub (view_space_vertex camera ⟨translation, rotation, 1⟩ p1).xyz a0)
      (Vec3.sub (view_space_vertex camera ⟨translation, rotation, 1⟩ p2).xyz a0))
    (hnd : w ≠ ⟨0, 0, 0⟩)
    (hside : 0 ≤ Vec3.dot o w * Vec3.dot (Vec3.sub a0 o) w) :
    (is_back_facing_triangle lm
        (view_space_vertex camera ⟨translation, rotation, s1⟩ p0)
        (view_space_vertex camera ⟨translation, rotation, s1⟩ p1)
        (view_space_vertex camera ⟨translation, rotation, s1⟩ p2)).1 =
    (is_back_facing_triangle lm
        (view_space_vertex camera ⟨translation, rotation, s2⟩ p0)
        (view_space_vertex camera ⟨translation, rotation, s2⟩ p1)
        (view_space_vertex camera ⟨translation, rotation, s2⟩ p2)).1 := by
  subst ho ha0 hw
  exact Bool.eq_iff_iff.mpr
    ((back_facing_scaled_iff lm hsqrt camera translation rotation p0 p1 p2 s1 hs1 hnd
        hside).trans
      (back_facing_scaled_iff lm hsqrt camera translation rotation p0 p1 p2 s2 hs2 hnd
        hside).symm)

/-- Exact arithmetic, an instance.
The face `(0,0,-1), (0,1,-1), (1,0,-1)` of an instance translated to
`(0,0,-5)`, seen from the origin, with the scales `1` and `6`: here `o = (0,0,-5)`,
`a0 = (0,0,-6)`, `w = (0,0,-1)` and `dot o w * dot (a0 - o) w = 5`. -/
theorem back_face_scaling_invariant_witness :
    (0 : ℚ) ≤ Vec3.dot ⟨0, 0, -5⟩ ⟨0, 0, -1⟩ *
      Vec3.dot (Vec3.sub ⟨0, 0, -6⟩ ⟨0, 0, -5⟩) ⟨0, 0, -1⟩ ∧
    (is_back_facing_triangle Libm.onRationals
      (view_space_vertex ⟨⟨0, 0, 0⟩, Mat3.kIdentity, make_clipping_planes_90fov⟩
        ⟨⟨0, 0, -5⟩, Mat3.kIdentity, 1⟩ ⟨0, 0, -1⟩)
      (view_space_vertex ⟨⟨0, 0, 0⟩, Mat3.kIdentity, make_clipping_planes_90fov⟩
        ⟨⟨0, 0, -5⟩, Mat3.kIdentity, 1⟩ ⟨0, 1, -1⟩)
      (view_space_vertex ⟨⟨0, 0, 0⟩, Mat3.kIdentity, make_clipping_planes_90fov⟩
        ⟨⟨0, 0, -5⟩, Mat3.kIdentity, 1⟩ ⟨1, 0, -1⟩)).1 =
    (is_back_facing_triangle Libm.onRationals
      (view_space_vertex ⟨⟨0, 0, 0⟩, Mat3.kIdentity, make_clipping_planes_90fov⟩
        ⟨⟨0, 0, -5⟩, Mat3.kIdentity, 6⟩ ⟨0, 0, -1⟩)
      (view_space_vertex ⟨⟨0, 0, 0⟩, Mat3.kIdentity, make_clipping_planes_90fov⟩
        ⟨⟨0, 0, -5⟩, Mat3.kIdentity, 6⟩ ⟨0, 1, -1⟩)
      (view_space_vertex ⟨⟨0, 0, 0⟩, Mat3.kIdentity, make_clipping_planes_90fov⟩
        ⟨⟨0, 0, -5⟩, Mat3.kIdentity, 6⟩ ⟨1, 0, -1⟩)).1 :=
  ⟨by decide!,
    back_face_scaling_invariant Libm.onRationals onRationals_sqrt_pos
      ⟨⟨0, 0, 0⟩, Mat3.kIdentity, make_clipping_planes_90fov⟩ ⟨0, 0, -5⟩ Mat3.kIdentity
      ⟨0, 0, -1⟩ ⟨0, 1, -1⟩ ⟨1, 0, -1⟩ 1 6 (by norm_num) (by norm_num)
      ⟨0, 0, -5⟩ ⟨0, 0, -6⟩ ⟨0, 0, -1⟩ (by decide!) (by decide!) (by decide!) (by decide!)
      (by decide!)⟩

/-! ## C25: the camera in view space -/

/-- C25: for every camera position and every rotation matrix, the view matrix
`Camera::to_mat4()` maps the homogeneous camera position `Vec4(camera.position, 1)` to
`(0, 0, 0, 1)`: the camera sits at the origin of view space. -/
theorem camera_at_view_origin (camera : Camera) :
    Mat4.mulVec camera.to_mat4 (Vec4.ofVec3 camera.position 1) = ⟨0, 0, 0, 1⟩ := by
  simp only [Camera.to_mat4, mat4_mulVec_mul, mat4_mulVec_translation,
    mat4_mulVec_transposed_rotation, Vec4.ofVec3, Vec3.neg, Vec4.mk.injEq]
  refine ⟨?_, ?_, ?_, trivial⟩ <;> ring

/-! ## C27: the bounding-sphere test against the per-triangle clip -/

/-- The Cauchy-Schwarz inequality for the dot product of `vec3.hpp`. -/
theorem vec3_dot_sq_le (u w : Vec3) :
    Vec3.dot u w * Vec3.dot u w ≤ Vec3.dot u u * Vec3.dot w w := by
  simp only [Vec3.dot]
  nlinarith [sq_nonneg (u.x * w.y - u.y * w.x), sq_nonneg (u.x * w.z - u.z * w.x),
    sq_nonneg (u.y * w.z - u.z * w.y)]

/-- A point within distance `r` of a centre whose signed distance to a plane with a unit
normal is below `-r` lies strictly behind the plane. -/
theorem signed_distance_neg_of_near (plane : Plane) (c v : Vec3) (r : ℚ)
    (hunit : Vec3.dot plane.normal plane.normal = 1) (hr : 0 ≤ r)
    (hc : signed_distance plane c < -r)
    (hv : Vec3.dot (Vec3.sub v c) (Vec3.sub v c) ≤ r * r) :
    signed_distance plane v < 0 := by
  have hcs := vec3_dot_sq_le plane.normal (Vec3.sub v c)
  rw [hunit, one_mul] at hcs
  have hsq : Vec3.dot plane.normal (Vec3.sub v c) ^ 2 ≤ r ^ 2 := by
    rw [sq, sq]
    exact le_trans hcs hv
  have hle := (abs_le_of_sq_le_sq' hsq hr).2
  have hsplit : signed_distance plane v =
      signed_distance plane c + Vec3.dot plane.normal (Vec3.sub v c) := by
    simp only [signed_distance, Vec3.dot, Vec3.sub]
    ring
  rw [hsplit]
  linarith

/-- C27: the bounding-sphere cull is conservative with respect to the per-triangle clip.  If
every clipping plane has a unit-length normal (`dot(n, n) = 1`), `radius * scale >= 0` and
`clip_mesh_bounds` discards the instance, then every triangle whose three view-space
vertices lie within distance `radius * scale` of the transformed sphere centre (squared
distance at most `(radius * scale)^2`) is discarded by `clip_triangle`. -/
theorem clip_mesh_bounds_conservative (clipping_planes : ClippingPlanes) (mesh : Mesh)
    (model_view_mtx : Mat4) (scale : ℚ) (v0 v1 v2 : Vec4)
    (hunit : ∀ p : Fin 5,
      Vec3.dot (clipping_planes.planes p).normal (clipping_planes.planes p).normal = 1)
    (hr : 0 ≤ mesh.bounding_sphere.radius * scale)
    (hclip : clip_mesh_bounds clipping_planes mesh model_view_mtx scale = true)
    (h0 : Vec3.dot
        (Vec3.sub v0.xyz
          (Mat4.mulVec model_view_mtx (Vec4.ofVec3 mesh.bounding_sphere.center 1)).xyz)
        (Vec3.sub v0.xyz
          (Mat4.mulVec model_view_mtx (Vec4.ofVec3 mesh.bounding_sphere.center 1)).xyz)
      ≤ (mesh.bounding_sphere.radius * scale) * (mesh.bounding_sphere.radius * scale))
    (h1 : Vec3.dot
        (Vec3.sub v1.xyz
          (Mat4.mulVec model_view_mtx (Vec4.ofVec3 mesh.bounding_sphere.center 1)).xyz)
        (Vec3.sub v1.xyz
          (Mat4.mulVec model_view_mtx (Vec4.ofVec3 mesh.bounding_sphere.center 1)).xyz)
      ≤ (mesh.bounding_sphere.radius * scale) * (mesh.bounding_sphere.radius * scale))
    (h2 : Vec3.dot
        (Vec3.sub v2.xyz
          (Mat4.mulVec model_view_mtx (Vec4.ofVec3 mesh.bounding_sphere.center 1)).xyz)
        (Vec3.sub v2.xyz
          (Mat4.mulVec model_view_mtx (Vec4.ofVec3 mesh.bounding_sphere.center 1)).xyz)
      ≤ (mesh.bounding_sphere.radius * scale) * (mesh.bounding_sphere.radius * scale)) :
    clip_triangle clipping_planes v0 v1 v2 = true ∧
    ∃ p : Fin 5, signed_distance (clipping_planes.planes p) v0.xyz < 0 ∧
      signed_distance (clipping_planes.planes p) v1.xyz < 0 ∧
      signed_distance (clipping_planes.planes p) v2.xyz < 0 := by
  obtain ⟨p, hp⟩ := (clip_mesh_bounds_eq_true_iff _ _ _ _).mp hclip
  have hd0 := signed_distance_neg_of_near _ _ _ _ (hunit p) hr hp h0
  have hd1 := signed_distance_neg_of_near _ _ _ _ (hunit p) hr hp h1
  have hd2 := signed_distance_neg_of_near _ _ _ _ (hunit p) hr hp h2
  refine ⟨?_, p, hd0, hd1, hd2⟩
  by_contra hne
  have hfalse : clip_triangle clipping_planes v0 v1 v2 = false := by
    cases h : clip_triangle clipping_planes v0 v1 v2
    · rfl
    · exact absurd h hne
  have := ((clip_triangle_eq_false_iff _ _ _ _).mp hfalse p).1
  linarith

/-- C27, instantiated: five copies of the near plane `z = 1` (unit normal `(0,0,1)`), a
bounding sphere of centre `(0,0,-5)` and radius `1`, the identity model-view matrix and the
triangle `(0,0,-5), (1,0,-5), (0,1,-5)` inside the sphere. -/
theorem clip_mesh_bounds_conservative_witness :
    clip_mesh_bounds ⟨fun _ => ⟨⟨0, 0, 1⟩, -1⟩⟩ ⟨[], [], [], [], ⟨⟨0, 0, -5⟩, 1⟩⟩
      Mat4.kIdentity 1 = true ∧
    clip_triangle ⟨fun _ => ⟨⟨0, 0, 1⟩, -1⟩⟩ ⟨0, 0, -5, 1⟩ ⟨1, 0, -5, 1⟩ ⟨0, 1, -5, 1⟩
      = true :=
  ⟨by decide!,
    (clip_mesh_bounds_conservative ⟨fun _ => ⟨⟨0, 0, 1⟩, -1⟩⟩
      ⟨[], [], [], [], ⟨⟨0, 0, -5⟩, 1⟩⟩ Mat4.kIdentity 1
      ⟨0, 0, -5, 1⟩ ⟨1, 0, -5, 1⟩ ⟨0, 1, -5, 1⟩ (by decide!) (by decide!)
      (by decide!) (by decide!) (by decide!) (by decide!)).1⟩

/-! ## Loops over scanlines and pixels -/

theorem mem_int_range (lo hi x : Int) : x ∈ int_range lo hi ↔ lo ≤ x ∧ x ≤ hi := by
  unfold int_range
  simp only [List.mem_map, List.mem_range]
  constructor
  · rintro ⟨k, hk, rfl⟩
    simp only [Int.ofNat_eq_coe]
    omega
  · rintro ⟨h1, h2⟩
    refine ⟨(x - lo).toNat, by omega, ?_⟩
    simp only [Int.ofNat_eq_coe]
    omega

theorem int_range_nodup (lo hi : Int) : (int_range lo hi).Nodup := by
  unfold int_range
  refine List.Nodup.map ?_ (List.nodup_range _)
  intro a b h
  simp only [Int.ofNat_eq_coe] at h
  omega

theorem for_each_concat_cons {α β : Type} (body : α → Option (List β)) (a : α)
    (rest : List α) :
    for_each_concat body (a :: rest) =
      (body a).bind fun calls => (for_each_concat body rest).map fun more => calls ++ more := by
  show (match body a with
    | none => none
    | some calls =>
      match for_each_concat body rest with
      | none => none
      | some more => some (calls ++ more)) = _
  cases body a with
  | none => rfl
  | some calls =>
    cases for_each_concat body rest with
    | none => rfl
    | some more => rfl

/-- A loop succeeds when each of its iterations does. -/
theorem for_each_concat_isSome {α β : Type} (body : α → Option (List β)) (l : List α)
    (h : ∀ a ∈ l, ∃ calls, body a = some calls) :
    ∃ all, for_each_concat body l = some all := by
  induction l with
  | nil => exact ⟨[], rfl⟩
  | cons a rest ih =>
    obtain ⟨calls, hcalls⟩ := h a (List.mem_cons_self _ _)
    obtain ⟨more, hmore⟩ := ih (fun b hb => h b (List.mem_cons_of_mem _ hb))
    exact ⟨calls ++ more, by rw [for_each_concat_cons, hcalls, hmore]; rfl⟩

/-- The calls of a loop are the calls of its iterations, each of which succeeds. -/
theorem for_each_concat_mem {α β : Type} (body : α → Option (List β)) (l : List α)
    (all : List β) (h : for_each_concat body l = some all) :
    (∀ a ∈ l, ∃ calls, body a = some calls) ∧
    ∀ b, b ∈ all ↔ ∃ a ∈ l, ∃ calls, body a = some calls ∧ b ∈ calls := by
  induction l generalizing all with
  | nil =>
    simp only [for_each_concat, Option.some.injEq] at h
    subst h
    simp
  | cons a rest ih =>
    rw [for_each_concat_cons] at h
    cases hbody : body a with
    | none => rw [hbody] at h; exact Option.noConfusion h
    | some calls =>
      rw [hbody] at h
      cases hrest : for_each_concat body rest with
      | none => rw [hrest] at h; exact Option.noConfusion h
      | some more =>
        rw [hrest] at h
        simp only [Option.some_bind, Option.map_some', Option.some.injEq] at h
        subst h
        obtain ⟨ih1, ih2⟩ := ih more hrest
        constructor
        · intro x hx
          rcases List.mem_cons.mp hx with he | hr
          · subst he
            exact ⟨calls, hbody⟩
          · exact ih1 x hr
        · intro b
          rw [List.mem_append, ih2 b]
          constructor
          · rintro (hb | ⟨x, hx, cx, hcx, hbx⟩)
            · exact ⟨a, List.mem_cons_self _ _, calls, hbody, hb⟩
            · exact ⟨x, List.mem_cons_of_mem _ hx, cx, hcx, hbx⟩
          · rintro ⟨x, hx, cx, hcx, hbx⟩
            rcases List.mem_cons.mp hx with he | hr
            · subst he
              rw [hbody] at hcx
              simp only [Option.some.injEq] at hcx
              subst hcx
              exact Or.inl hbx
            · exact Or.inr ⟨x, hr, cx, hcx, hbx⟩

/-- Two loops whose iterations agree have the same calls. -/
theorem for_each_concat_congr {α β : Type} (body body' : α → Option (List β)) (l : List α)
    (h : ∀ a ∈ l, body a = body' a) :
    for_each_concat body l = for_each_concat body' l := by
  induction l with
  | nil => rfl
  | cons a rest ih =>
    rw [for_each_concat_cons, for_each_concat_cons, h a (List.mem_cons_self _ _),
      ih (fun b hb => h b (List.mem_cons_of_mem _ hb))]

/-- A loop whose iterations each make their calls without failing. -/
theorem for_each_concat_some {α β : Type} (calls : α → List β) (l : List α) :
    for_each_concat (fun a => some (calls a)) l = some (l.flatMap calls) := by
  induction l with
  | nil => rfl
  | cons a rest ih =>
    rw [for_each_concat_cons, ih]
    rfl

theorem buffer_get_eq_some_iff {T : Type} (b : Buffer T) (index : Int) (v : T) :
    b.get index = some v ↔ 0 ≤ index ∧ b.m_storage[index.toNat]? = some v := by
  unfold Buffer.get Buffer.size
  constructor
  · intro h
    split at h
    · rename_i hin
      exact ⟨hin.1, h⟩
    · exact Option.noConfusion h
  · rintro ⟨h0, hget⟩
    have hlt : index.toNat < b.m_storage.length := by
      by_contra hcon
      rw [List.getElem?_eq_none (by omega)] at hget
      exact Option.noConfusion hget
    rw [if_pos ⟨h0, by omega⟩]
    exact hget

theorem buffer_get_mem {T : Type} (b : Buffer T) (index : Int) (v : T)
    (h : b.get index = some v) : v ∈ b.m_storage :=
  List.getElem?_mem ((buffer_get_eq_some_iff b index v).mp h).2

/-! ## Sorting, continued -/

/-- The sorted bundles are the given bundles in some order. -/
theorem sort_point_bundles_by_y_forall {A : Type} (P : Point2 × A → Prop)
    (b0 b1 b2 : Point2 × A) (h0 : P b0) (h1 : P b1) (h2 : P b2) :
    P (sort_point_bundles_by_y b0 b1 b2).1 ∧ P (sort_point_bundles_by_y b0 b1 b2).2.1 ∧
      P (sort_point_bundles_by_y b0 b1 b2).2.2 := by
  unfold sort_point_bundles_by_y
  by_cases c1 : b1.1.y < b0.1.y <;> by_cases c2 : b2.1.y < b0.1.y <;>
    by_cases c3 : b2.1.y < b1.1.y <;> by_cases c5 : b0.1.y < b1.1.y <;>
    by_cases c6 : b1.1.y < b2.1.y <;> by_cases c7 : b0.1.y < b2.1.y <;>
    simp [c1, c2, c3, c5, c6, c7, h0, h1, h2]

/-- The sorted bundles are in increasing order of `y`. -/
theorem sort_point_bundles_by_y_sorted {A : Type} (b0 b1 b2 : Point2 × A) :
    (sort_point_bundles_by_y b0 b1 b2).1.1.y ≤ (sort_point_bundles_by_y b0 b1 b2).2.1.1.y ∧
    (sort_point_bundles_by_y b0 b1 b2).2.1.1.y ≤ (sort_point_bundles_by_y b0 b1 b2).2.2.1.y := by
  unfold sort_point_bundles_by_y
  by_cases c1 : b1.1.y < b0.1.y <;> by_cases c2 : b2.1.y < b0.1.y <;>
    by_cases c3 : b2.1.y < b1.1.y <;> by_cases c5 : b0.1.y < b1.1.y <;>
    by_cases c6 : b1.1.y < b2.1.y <;> by_cases c7 : b0.1.y < b2.1.y <;>
    simp [c1, c2, c3, c5, c6, c7] <;> omega

/-- Sorting plain points is sorting the bundles and forgetting the attributes. -/
theorem sort_points_by_y_eq_bundles {A : Type} (b0 b1 b2 : Point2 × A) :
    sort_points_by_y b0.1 b1.1 b2.1 =
      ((sort_point_bundles_by_y b0 b1 b2).1.1, (sort_point_bundles_by_y b0 b1 b2).2.1.1,
        (sort_point_bundles_by_y b0 b1 b2).2.2.1) := by
  unfold sort_point_bundles_by_y sort_points_by_y
  by_cases c1 : b1.1.y < b0.1.y <;> by_cases c2 : b2.1.y < b0.1.y <;>
    by_cases c3 : b2.1.y < b1.1.y <;> by_cases c5 : b0.1.y < b1.1.y <;>
    by_cases c6 : b1.1.y < b2.1.y <;> by_cases c7 : b0.1.y < b2.1.y <;>
    simp [c1, c2, c3, c5, c6, c7]

/-- The sorted points are in increasing order of `y`. -/
theorem sort_points_by_y_sorted (p0 p1 p2 : Point2) :
    (sort_points_by_y p0 p1 p2).1.y ≤ (sort_points_by_y p0 p1 p2).2.1.y ∧
    (sort_points_by_y p0 p1 p2).2.1.y ≤ (sort_points_by_y p0 p1 p2).2.2.y := by
  have h := sort_point_bundles_by_y_sorted (p0, ()) (p1, ()) (p2, ())
  have e := sort_points_by_y_eq_bundles (p0, ()) (p1, ()) (p2, ())
  simp only [] at e
  rw [e]
  exact h

/-- The sizes of the two edge sequences of a sorted triangle. -/
theorem interpolate_points_sizes (q0 q1 q2 : Point2) (h01 : q0.y ≤ q1.y) (h12 : q1.y ≤ q2.y)
    (x_left x_right : Buffer Int) (tag : LeftSide)
    (hpts : interpolate_points q0 q1 q2 = some (x_left, x_right, tag)) :
    (x_left.size : Int) = q2.y - q0.y + 1 ∧ (x_right.size : Int) = q2.y - q0.y + 1 := by
  obtain ⟨l, m, a, b, hl, hm, _, _, hcase⟩ :=
    (interpolate_points_eq_some_iff q0 q1 q2 x_left x_right tag).mp hpts
  have hls := long_edge_size q0 q2 q0.x q2.x (le_trans h01 h12) l hl
  have hms := merged_short_edges_size q0 q1 q2 q0.x q1.x q2.x h01 h12 m hm
  rcases hcase with ⟨_, _, rfl, rfl⟩ | ⟨_, _, rfl, rfl⟩
  · exact ⟨hls, hms⟩
  · exact ⟨hms, hls⟩

/-- The sizes of the two attribute sequences of a sorted triangle. -/
theorem interpolate_attributes_sizes {T : Type} [Interpolable T] (q0 q1 q2 : Point2)
    (h01 : q0.y ≤ q1.y) (h12 : q1.y ≤ q2.y) (a0 a1 a2 : T) (side : LeftSide)
    (al ar : Buffer T) (hatt : interpolate_attributes q0 q1 q2 a0 a1 a2 side = some (al, ar)) :
    (al.size : Int) = q2.y - q0.y + 1 ∧ (ar.size : Int) = q2.y - q0.y + 1 := by
  obtain ⟨l, m, hl, hm, hcase⟩ :=
    (interpolate_attributes_eq_some_iff q0 q1 q2 a0 a1 a2 side al ar).mp hatt
  have hls := long_edge_size q0 q2 a0 a2 (le_trans h01 h12) l hl
  have hms := merged_short_edges_size q0 q1 q2 a0 a1 a2 h01 h12 m hm
  rcases hcase with ⟨_, rfl, rfl⟩ | ⟨_, rfl, rfl⟩
  · exact ⟨hls, hms⟩
  · exact ⟨hms, hls⟩

/-- A buffer can be read at every index below its size. -/
theorem buffer_get_of_lt {T : Type} (b : Buffer T) (index : Int) (h0 : 0 ≤ index)
    (hlt : index < (b.size : Int)) : ∃ v, b.get index = some v := by
  have h := (buffer_get_isSome_iff b index).mpr ⟨h0, hlt⟩
  exact Option.isSome_iff_exists.mp h

/-! ## The pixels of a filled triangle -/

/-- The pixels written by `draw_filled_triangle`, in terms of the edge sequences of the
sorted triangle: the routine makes its calls without failing, and the points written are
the points `(x, y)` of the scanlines `y` with `x_left[y] <= x <= x_right[y]`, all with the
given colour. -/
theorem draw_filled_triangle_pixels_spec (p0 p1 p2 : Point2) (color : Color)
    (x_left x_right : Buffer Int) (tag : LeftSide)
    (hpts : interpolate_points (sort_points_by_y p0 p1 p2).1 (sort_points_by_y p0 p1 p2).2.1
      (sort_points_by_y p0 p1 p2).2.2 = some (x_left, x_right, tag)) :
    ∃ pixels, draw_filled_triangle_pixels p0 p1 p2 color = some pixels ∧
      ∀ (pt : Point2) (c : Color), (pt, c) ∈ pixels ↔
        c = color ∧ (sort_points_by_y p0 p1 p2).1.y ≤ pt.y ∧
          pt.y ≤ (sort_points_by_y p0 p1 p2).2.2.y ∧
          ∃ xl xr, x_left.get (pt.y - (sort_points_by_y p0 p1 p2).1.y) = some xl ∧
            x_right.get (pt.y - (sort_points_by_y p0 p1 p2).1.y) = some xr ∧
            xl ≤ pt.x ∧ pt.x ≤ xr := by
  obtain ⟨h01, h12⟩ := sort_points_by_y_sorted p0 p1 p2
  obtain ⟨hsl, hsr⟩ := interpolate_points_sizes _ _ _ h01 h12 x_left x_right tag hpts
  have hrun : draw_filled_triangle_pixels p0 p1 p2 color =
      for_each_concat (draw_filled_triangle_row x_left x_right (sort_points_by_y p0 p1 p2).1
        color) (int_range (sort_points_by_y p0 p1 p2).1.y (sort_points_by_y p0 p1 p2).2.2.y) := by
    unfold draw_filled_triangle_pixels
    simp only []
    rw [hpts]
    rfl
  have hrows : ∀ y ∈ int_range (sort_points_by_y p0 p1 p2).1.y (sort_points_by_y p0 p1 p2).2.2.y,
      ∃ calls, draw_filled_triangle_row x_left x_right (sort_points_by_y p0 p1 p2).1 color y
        = some calls := by
    intro y hy
    rw [mem_int_range] at hy
    obtain ⟨xl, hxl⟩ := buffer_get_of_lt x_left (y - (sort_points_by_y p0 p1 p2).1.y)
      (by omega) (by omega)
    obtain ⟨xr, hxr⟩ := buffer_get_of_lt x_right (y - (sort_points_by_y p0 p1 p2).1.y)
      (by omega) (by omega)
    unfold draw_filled_triangle_row
    rw [hxl, hxr]
    exact ⟨_, rfl⟩
  obtain ⟨pixels, hpixels⟩ := for_each_concat_isSome _ _ hrows
  refine ⟨pixels, hrun.trans hpixels, ?_⟩
  intro pt c
  rw [(for_each_concat_mem _ _ _ hpixels).2]
  constructor
  · rintro ⟨y, hy, calls, hcalls, hmem⟩
    rw [mem_int_range] at hy
    unfold draw_filled_triangle_row at hcalls
    cases hxl : x_left.get (y - (sort_points_by_y p0 p1 p2).1.y) with
    | none => rw [hxl] at hcalls; exact Option.noConfusion hcalls
    | some xl =>
      cases hxr : x_right.get (y - (sort_points_by_y p0 p1 p2).1.y) with
      | none => rw [hxl, hxr] at hcalls; exact Option.noConfusion hcalls
      | some xr =>
        rw [hxl, hxr] at hcalls
        simp only [Option.some_bind, Option.some.injEq] at hcalls
        subst hcalls
        rw [List.mem_map] at hmem
        obtain ⟨x, hx, hxe⟩ := hmem
        rw [mem_int_range] at hx
        simp only [Prod.mk.injEq] at hxe
        obtain ⟨hpt, hc⟩ := hxe
        subst hpt
        exact ⟨hc.symm, hy.1, hy.2, xl, xr, hxl, hxr, hx.1, hx.2⟩
  · rintro ⟨hc, hy0, hy1, xl, xr, hxl, hxr, hx0, hx1⟩
    refine ⟨pt.y, (mem_int_range _ _ _).mpr ⟨hy0, hy1⟩,
      (int_range xl xr).map (fun x => ((⟨x, pt.y⟩ : Point2), color)), ?_, ?_⟩
    · unfold draw_filled_triangle_row
      rw [hxl, hxr]
      rfl
    · rw [List.mem_map]
      exact ⟨pt.x, (mem_int_range _ _ _).mpr ⟨hx0, hx1⟩, by rw [hc]⟩

/-! ## The canvas -/

theorem is_normalized_iff (f : ℚ) : is_normalized f = true ↔ 0 ≤ f ∧ f ≤ 1 := by
  simp [is_normalized]

theorem color_is_normalized_iff (c : Color) :
    c.is_normalized = true ↔
      (0 ≤ c.r ∧ c.r ≤ 1) ∧ (0 ≤ c.g ∧ c.g ≤ 1) ∧ (0 ≤ c.b ∧ c.b ≤ 1) ∧
        (0 ≤ c.a ∧ c.a ≤ 1) := by
  simp only [Color.is_normalized, Bool.and_eq_true, is_normalized_iff]
  tauto

/-- The conversion of a normalised colour succeeds. -/
theorem to_rgba_u8_of_normalized (c : Color) (h : c.is_normalized = true) :
    Color.to_rgba_u8 c =
      some ⟨(truncToInt (c.r * 255)).toNat, (truncToInt (c.g * 255)).toNat,
        (truncToInt (c.b * 255)).toNat, (truncToInt (c.a * 255)).toNat⟩ := by
  unfold Color.to_rgba_u8
  unfold Color.is_normalized at h
  rw [if_pos h]

/-- The conversion of a colour that is not normalised fails. -/
theorem to_rgba_u8_of_not_normalized (c : Color) (h : c.is_normalized = false) :
    Color.to_rgba_u8 c = none := by
  unfold Color.to_rgba_u8
  unfold Color.is_normalized at h
  rw [if_neg (by simp [h])]

theorem in_bounds_iff (canvas : Canvas) (point : Point2) :
    canvas.in_bounds point = true ↔
      (0 ≤ Int.tdiv canvas.m_dimensions.width 2 + point.x ∧
        Int.tdiv canvas.m_dimensions.width 2 + point.x < canvas.m_dimensions.width ∧
        0 ≤ Int.tdiv canvas.m_dimensions.height 2 - point.y - 1 ∧
        Int.tdiv canvas.m_dimensions.height 2 - point.y - 1 < canvas.m_dimensions.height) := by
  simp [Canvas.in_bounds]

/-- A point that maps inside a well-formed canvas has its index inside the buffer. -/
theorem pixel_index_lt (canvas : Canvas) (hwf : canvas.WellFormed) (point : Point2)
    (hin : canvas.in_bounds point = true) :
    canvas.pixel_index point < canvas.m_pixel_buffer.length := by
  rw [in_bounds_iff] at hin
  obtain ⟨hx0, hxw, hy0, hyh⟩ := hin
  have h := row_major_index_lt canvas.m_dimensions.width canvas.m_dimensions.height _ _
    hx0 hxw hy0 hyh
  rw [hwf.2]
  unfold Canvas.pixel_index
  omega

/-- The effect of `draw_pixel` in terms of `in_bounds` and `pixel_index`. -/
theorem draw_pixel_eq (canvas : Canvas) (point : Point2) (color : Color) :
    canvas.draw_pixel point color =
      if canvas.in_bounds point = true then
        if canvas.pixel_index point < canvas.m_pixel_buffer.length then
          (Color.to_rgba_u8 color).map fun c =>
            ⟨canvas.m_pixel_buffer.set (canvas.pixel_index point) c, canvas.m_dimensions⟩
        else none
      else some canvas := by
  unfold Canvas.draw_pixel
  by_cases hin : canvas.in_bounds point = true
  · rw [if_pos hin]
    rw [in_bounds_iff] at hin
    obtain ⟨hx0, hxw, hy0, hyh⟩ := hin
    simp only []
    rw [if_neg (by omega)]
    rfl
  · rw [if_neg hin]
    rw [in_bounds_iff] at hin
    simp only []
    rw [if_pos (by omega)]

theorem row_major_index_injective (a b c d w : Int) (ha0 : 0 ≤ a) (haw : a < w)
    (hc0 : 0 ≤ c) (hcw : c < w) (hb0 : 0 ≤ b) (hd0 : 0 ≤ d)
    (h : (a + b * w).toNat = (c + d * w).toNat) : a = c ∧ b = d := by
  have hwpos : 0 < w := by omega
  have h1 : 0 ≤ a + b * w := by positivity
  have h2 : 0 ≤ c + d * w := by positivity
  have heq : a + b * w = c + d * w := by omega
  have hbd : b = d := by
    have e1 : (a + b * w) / w = b := by
      rw [Int.add_mul_ediv_right _ _ hwpos.ne', Int.ediv_eq_zero_of_lt ha0 haw, zero_add]
    have e2 : (c + d * w) / w = d := by
      rw [Int.add_mul_ediv_right _ _ hwpos.ne', Int.ediv_eq_zero_of_lt hc0 hcw, zero_add]
    rw [← e1, ← e2, heq]
  refine ⟨?_, hbd⟩
  rw [hbd] at heq
  omega

/-- Two points that map inside a canvas and have the same index are equal. -/
theorem pixel_index_injective (canvas : Canvas) (p q : Point2)
    (hp : canvas.in_bounds p = true) (hq : canvas.in_bounds q = true)
    (h : canvas.pixel_index p = canvas.pixel_index q) : p = q := by
  rw [in_bounds_iff] at hp hq
  obtain ⟨hpx0, hpxw, hpy0, hpyh⟩ := hp
  obtain ⟨hqx0, hqxw, hqy0, hqyh⟩ := hq
  unfold Canvas.pixel_index at h
  have := row_major_index_injective _ _ _ _ _ hpx0 hpxw hqx0 hqxw hpy0 hqy0 h
  cases p with
  | mk px py =>
    cases q with
    | mk qx qy =>
      simp only [Point2.mk.injEq]
      simp only [] at this
      constructor <;> omega

/-- Writing a pixel keeps a canvas well-formed and keeps its dimensions. -/
theorem draw_pixel_wellFormed (canvas : Canvas) (hwf : canvas.WellFormed) (point : Point2)
    (color : Color) (next : Canvas) (h : canvas.draw_pixel point color = some next) :
    next.WellFormed ∧ next.m_dimensions = canvas.m_dimensions := by
  rw [draw_pixel_eq] at h
  split at h
  · split at h
    · cases hc : Color.to_rgba_u8 color with
      | none => rw [hc] at h; exact Option.noConfusion h
      | some c =>
        rw [hc] at h
        simp only [Option.map_some', Option.some.injEq] at h
        subst h
        exact ⟨⟨hwf.1, by simpa using hwf.2⟩, rfl⟩
    · exact Option.noConfusion h
  · simp only [Option.some.injEq] at h
    subst h
    exact ⟨hwf, rfl⟩

/-- Writing a pixel of a normalised colour to a well-formed canvas succeeds. -/
theorem draw_pixel_isSome (canvas : Canvas) (hwf : canvas.WellFormed) (point : Point2)
    (color : Color) (hcol : color.is_normalized = true) :
    ∃ next, canvas.draw_pixel point color = some next := by
  rw [draw_pixel_eq]
  split
  · rename_i hin
    rw [if_pos (pixel_index_lt canvas hwf point hin), to_rgba_u8_of_normalized color hcol]
    exact ⟨_, rfl⟩
  · exact ⟨_, rfl⟩

/-- What a canvas shows after a pixel is written: the converted colour at the point written
(when it maps inside the canvas), and the former content elsewhere. -/
theorem pixel_at_draw_pixel (canvas : Canvas) (hwf : canvas.WellFormed) (point : Point2)
    (color : Color) (next : Canvas) (h : canvas.draw_pixel point color = some next)
    (q : Point2) :
    (q ≠ point → next.pixel_at q = canvas.pixel_at q) ∧
    (canvas.in_bounds point = true → next.pixel_at point = Color.to_rgba_u8 color) := by
  have hdims := (draw_pixel_wellFormed canvas hwf point color next h).2
  have hinb : ∀ r, next.in_bounds r = canvas.in_bounds r := by
    intro r
    unfold Canvas.in_bounds
    rw [hdims]
  have hidx : ∀ r, next.pixel_index r = canvas.pixel_index r := by
    intro r
    unfold Canvas.pixel_index
    rw [hdims]
  rw [draw_pixel_eq] at h
  by_cases hin : canvas.in_bounds point = true
  · rw [if_pos hin, if_pos (pixel_index_lt canvas hwf point hin)] at h
    cases hc : Color.to_rgba_u8 color with
    | none => rw [hc] at h; exact Option.noConfusion h
    | some c =>
      rw [hc] at h
      simp only [Option.map_some', Option.some.injEq] at h
      constructor
      · intro hne
        unfold Canvas.pixel_at
        rw [hinb, hidx]
        by_cases hq : canvas.in_bounds q = true
        · rw [if_pos hq, if_pos hq, ← h]
          simp only []
          rw [List.getElem?_set_ne]
          intro he
          exact hne (pixel_index_injective canvas point q hin hq he).symm
        · rw [if_neg hq, if_neg hq]
      · intro _
        unfold Canvas.pixel_at
        rw [hinb, hidx, if_pos hin, ← h]
        simp only []
        rw [List.getElem?_set_eq_of_lt _ (pixel_index_lt canvas hwf point hin)]
  · rw [if_neg hin] at h
    simp only [Option.some.injEq] at h
    subst h
    exact ⟨fun _ => rfl, fun hcontra => absurd hcontra hin⟩

/-- A sequence of pixel writes of normalised colours to a well-formed canvas succeeds and
keeps the canvas well-formed; a point that is not written keeps its content, and a point
inside the canvas that is written, always with the same colour, shows that colour. -/
theorem draw_pixels_spec (pixels : List (Point2 × Color)) :
    ∀ (canvas : Canvas), canvas.WellFormed →
      (∀ pc ∈ pixels, pc.2.is_normalized = true) →
      ∃ next, canvas.draw_pixels pixels = some next ∧ next.WellFormed ∧
        next.m_dimensions = canvas.m_dimensions ∧
        (∀ q, (∀ pc ∈ pixels, pc.1 ≠ q) → next.pixel_at q = canvas.pixel_at q) ∧
        (∀ q color, canvas.in_bounds q = true → (∃ pc ∈ pixels, pc.1 = q) →
          (∀ pc ∈ pixels, pc.1 = q → pc.2 = color) →
          next.pixel_at q = Color.to_rgba_u8 color) := by
  induction pixels with
  | nil =>
    intro canvas hwf _
    refine ⟨canvas, rfl, hwf, rfl, fun _ _ => rfl, ?_⟩
    intro q color _ hex _
    obtain ⟨pc, hpc, _⟩ := hex
    exact absurd hpc (List.not_mem_nil pc)
  | cons head rest ih =>
    intro canvas hwf hcol
    obtain ⟨point, color⟩ := head
    obtain ⟨mid, hmid⟩ := draw_pixel_isSome canvas hwf point color
      (hcol (point, color) (List.mem_cons_self _ _))
    obtain ⟨hmidwf, hmiddims⟩ := draw_pixel_wellFormed canvas hwf point color mid hmid
    obtain ⟨next, hnext, hnextwf, hnextdims, hkeep, hshow⟩ := ih mid hmidwf
      (fun pc hpc => hcol pc (List.mem_cons_of_mem _ hpc))
    have hinb : ∀ r, mid.in_bounds r = canvas.in_bounds r := by
      intro r
      unfold Canvas.in_bounds
      rw [hmiddims]
    refine ⟨next, ?_, hnextwf, hnextdims.trans hmiddims, ?_, ?_⟩
    · show (match canvas.draw_pixel point color with
        | none => none
        | some next => Canvas.draw_pixels next rest) = some next
      rw [hmid]
      exact hnext
    · intro q hq
      rw [hkeep q (fun pc hpc => hq pc (List.mem_cons_of_mem _ hpc))]
      exact (pixel_at_draw_pixel canvas hwf point color mid hmid q).1
        (fun he => hq (point, color) (List.mem_cons_self _ _) he.symm)
    · intro q col hin hex hall
      by_cases hrest : ∃ pc ∈ rest, pc.1 = q
      · exact hshow q col (by rw [hinb]; exact hin) hrest
          (fun pc hpc => hall pc (List.mem_cons_of_mem _ hpc))
      · have hq : point = q := by
          obtain ⟨pc, hpc, hpcq⟩ := hex
          rcases List.mem_cons.mp hpc with he | hr
          · rw [he] at hpcq
            exact hpcq
          · exact absurd ⟨pc, hr, hpcq⟩ hrest
        have hcolor : color = col := hall (point, color) (List.mem_cons_self _ _) hq
        rw [hkeep q (fun pc hpc he => hrest ⟨pc, hpc, he⟩)]
        subst hq
        rw [← hcolor]
        exact (pixel_at_draw_pixel canvas hwf point color mid hmid point).2 hin

/-! ## C23: writing one pixel -/

/-- C23 as stated fails: on a well-formed `2 x 2` canvas the point `(0,0)` maps inside the
buffer, and `draw_pixel` with the colour `(2, 0, 0, 1)`, which is not normalised, fails the
assertion of `Color::to_rgba_u8`. -/
theorem draw_pixel_counterexample :
    (Canvas.mk (List.replicate 4 ⟨0, 0, 0, 255⟩) ⟨2, 2⟩).WellFormed ∧
    (Canvas.mk (List.replicate 4 ⟨0, 0, 0, 255⟩) ⟨2, 2⟩).in_bounds ⟨0, 0⟩ = true ∧
    (Canvas.mk (List.replicate 4 ⟨0, 0, 0, 255⟩) ⟨2, 2⟩).draw_pixel ⟨0, 0⟩ ⟨2, 0, 0, 1⟩
      = none := by
  refine ⟨⟨by decide, by decide⟩, by decide, by decide!⟩

/-- C23, amended: on a well-formed canvas (`width * height` cells), `draw_pixel` leaves the
canvas completely unchanged for a point that maps outside the buffer, whatever the colour;
for a point that maps inside and a normalised colour it succeeds and overwrites exactly the
cell of index `(w/2 + x) + (h/2 - y - 1) * w` with the converted colour, every other cell
and the dimensions being unchanged; for a point that maps inside and a colour that is not
normalised it fails (the assertion of `Color::to_rgba_u8`). -/
theorem draw_pixel_spec (canvas : Canvas) (hwf : canvas.WellFormed) (point : Point2)
    (color : Color) :
    canvas.pixel_index point =
      ((Int.tdiv canvas.m_dimensions.width 2 + point.x) +
        (Int.tdiv canvas.m_dimensions.height 2 - point.y - 1) *
          canvas.m_dimensions.width).toNat ∧
    (canvas.in_bounds point = false → canvas.draw_pixel point color = some canvas) ∧
    (canvas.in_bounds point = true → color.is_normalized = true →
      ∃ c next, Color.to_rgba_u8 color = some c ∧
        canvas.draw_pixel point color = some next ∧
        next.m_dimensions = canvas.m_dimensions ∧
        next.m_pixel_buffer.length = canvas.m_pixel_buffer.length ∧
        next.m_pixel_buffer[canvas.pixel_index point]? = some c ∧
        ∀ j : Nat, j ≠ canvas.pixel_index point →
          next.m_pixel_buffer[j]? = canvas.m_pixel_buffer[j]?) ∧
    (canvas.in_bounds point = true → color.is_normalized = false →
      canvas.draw_pixel point color = none) := by
  refine ⟨rfl, ?_, ?_, ?_⟩
  · intro hout
    rw [draw_pixel_eq, if_neg (by simp [hout])]
  · intro hin hcol
    have hlt := pixel_index_lt canvas hwf point hin
    refine ⟨_, ⟨canvas.m_pixel_buffer.set (canvas.pixel_index point)
      ⟨(truncToInt (color.r * 255)).toNat, (truncToInt (color.g * 255)).toNat,
        (truncToInt (color.b * 255)).toNat, (truncToInt (color.a * 255)).toNat⟩,
      canvas.m_dimensions⟩, to_rgba_u8_of_normalized color hcol, ?_, rfl, ?_, ?_, ?_⟩
    · rw [draw_pixel_eq, if_pos hin, if_pos hlt, to_rgba_u8_of_normalized color hcol]
      rfl
    · simp
    · simp only []
      rw [List.getElem?_set_eq_of_lt _ hlt]
    · intro j hj
      simp only []
      rw [List.getElem?_set_ne (Ne.symm hj)]
  · intro hin hcol
    rw [draw_pixel_eq, if_pos hin, if_pos (pixel_index_lt canvas hwf point hin),
      to_rgba_u8_of_not_normalized color hcol]
    rfl

/-- C23, instantiated: a well-formed black `2 x 2` canvas, the point `(0,0)` (index `1`) and
the colour white. -/
theorem draw_pixel_spec_witness :
    (Canvas.mk (List.replicate 4 ⟨0, 0, 0, 255⟩) ⟨2, 2⟩).WellFormed ∧
    (Canvas.mk (List.replicate 4 ⟨0, 0, 0, 255⟩) ⟨2, 2⟩).pixel_index ⟨0, 0⟩ = 1 ∧
    (Canvas.mk (List.replicate 4 ⟨0, 0, 0, 255⟩) ⟨2, 2⟩).draw_pixel ⟨0, 0⟩ Color.kWhite =
      some ⟨[⟨0, 0, 0, 255⟩, ⟨255, 255, 255, 255⟩, ⟨0, 0, 0, 255⟩, ⟨0, 0, 0, 255⟩],
        ⟨2, 2⟩⟩ ∧
    (Canvas.mk (List.replicate 4 ⟨0, 0, 0, 255⟩) ⟨2, 2⟩).draw_pixel ⟨5, 0⟩ Color.kWhite =
      some (Canvas.mk (List.replicate 4 ⟨0, 0, 0, 255⟩) ⟨2, 2⟩) :=
  ⟨⟨by decide, by decide⟩, by decide, by decide!,
    (draw_pixel_spec (Canvas.mk (List.replicate 4 ⟨0, 0, 0, 255⟩) ⟨2, 2⟩)
      ⟨by decide, by decide⟩ ⟨5, 0⟩ Color.kWhite).2.1 (by decide)⟩

/-! ## C28: Bresenham's line -/

/-- The inner loop of `draw_line_bresenham` does nothing when `err <= 0`. -/
theorem bresenham_while_of_nonpos (is_steep : Bool) (sx sy dx : Int) (fuel : Nat)
    (x y err : Int) (herr : err ≤ 0) :
    bresenham_while is_steep sx sy dx fuel x y err = some (x, y, err) := by
  unfold bresenham_while
  rw [if_neg (by omega)]

/-- The inner loop of `draw_line_bresenham` for `dx >= 1`: it ends after some number `j` of
iterations, with `err - 2 * dx * j <= 0`, and `err - 2 * dx * j > -2 * dx` when `j > 0`. -/
theorem bresenham_while_spec (is_steep : Bool) (sx sy dx : Int) (hdx : 0 < dx) :
    ∀ (fuel : Nat) (x y err : Int), err ≤ (fuel : Int) →
      ∃ j : Nat, bresenham_while is_steep sx sy dx fuel x y err =
          some (if is_steep then x + sx * j else x, if is_steep then y else y + sy * j,
            err - 2 * dx * j) ∧
        err - 2 * dx * j ≤ 0 ∧ (j = 0 ∨ -(2 * dx) < err - 2 * dx * j) ∧
        (err ≤ 0 → j = 0) := by
  intro fuel
  induction fuel with
  | zero =>
    intro x y err herr
    refine ⟨0, ?_, by simpa using herr, Or.inl rfl, fun _ => rfl⟩
    rw [bresenham_while_of_nonpos _ _ _ _ _ _ _ _ (by simpa using herr)]
    simp
  | succ fuel ih =>
    intro x y err herr
    by_cases hpos : err > 0
    · obtain ⟨j, hj, hle, hlow, _⟩ := ih (if is_steep then x + sx else x)
        (if is_steep then y else y + sy) (err - 2 * dx) (by omega)
      refine ⟨j + 1, ?_, ?_, Or.inr ?_, fun h => absurd hpos (by omega)⟩
      · unfold bresenham_while
        rw [if_pos hpos]
        simp only []
        rw [hj]
        cases is_steep
        · simp only [Bool.false_eq_true, if_false, Option.some.injEq, Prod.mk.injEq]
          refine ⟨trivial, ?_, ?_⟩ <;> push_cast <;> ring
        · simp only [if_true, Option.some.injEq, Prod.mk.injEq]
          refine ⟨?_, trivial, ?_⟩ <;> push_cast <;> ring
      · push_cast
        linarith
      · push_cast
        rcases hlow with h0 | h1
        · subst h0
          simp only [Nat.cast_zero, mul_zero, sub_zero] at hle ⊢
          linarith
        · linarith
    · refine ⟨0, ?_, by simpa using hpos, Or.inl rfl, fun _ => rfl⟩
      rw [bresenham_while_of_nonpos _ _ _ _ _ _ _ _ (by omega)]
      simp

/-- The inner loop of `draw_line_bresenham` ends whenever `dx >= 1` or `err <= 0`. -/
theorem bresenham_while_total (is_steep : Bool) (sx sy dx : Int) (x y err : Int)
    (h : 0 < dx ∨ err ≤ 0) :
    ∃ j : Nat, bresenham_while is_steep sx sy dx err.toNat x y err =
        some (if is_steep then x + sx * j else x, if is_steep then y else y + sy * j,
          err - 2 * dx * j) ∧
      err - 2 * dx * j ≤ 0 ∧ (j = 0 ∨ -(2 * dx) < err - 2 * dx * j) := by
  by_cases herr : err ≤ 0
  · refine ⟨0, ?_, by simpa using herr, Or.inl rfl⟩
    rw [bresenham_while_of_nonpos _ _ _ _ _ _ _ _ herr]
    simp
  · have hdx : 0 < dx := by
      rcases h with h | h
      · exact h
      · exact absurd h herr
    obtain ⟨j, hj, hle, hlow, _⟩ :=
      bresenham_while_spec is_steep sx sy dx hdx err.toNat x y err (by omega)
    exact ⟨j, hj, hle, hlow⟩

/-- The outer loop of `draw_line_bresenham`, started with `2*dy - 2*dx <= err <= 2*dy`: it
plots one point per iteration; the point of iteration `i` has the offset `i` along the major
axis and some offset `j >= 0` along the minor axis, and the value of `err` at that iteration,
`err + 2*dy*i - 2*dx*j`, again lies between `2*dy - 2*dx` and `2*dy`. -/
theorem bresenham_for_spec (is_steep : Bool) (sx sy dx dy : Int) (hdy0 : 0 ≤ dy)
    (hdydx : dy ≤ dx) :
    ∀ (n : Nat) (x y err : Int), 2 * dy - 2 * dx ≤ err → err ≤ 2 * dy →
      ∃ points, bresenham_for is_steep sx sy dx dy n x y err = some points ∧
        points.length = n ∧
        ∀ i : Nat, i < n → ∃ j : Int, 0 ≤ j ∧
          points[i]? = some (if is_steep then ⟨x + sx * j, y + sy * i⟩
            else ⟨x + sx * i, y + sy * j⟩) ∧
          2 * dy - 2 * dx ≤ err + 2 * dy * i - 2 * dx * j ∧
          err + 2 * dy * i - 2 * dx * j ≤ 2 * dy := by
  intro n
  induction n with
  | zero =>
    intro x y err _ _
    exact ⟨[], rfl, rfl, fun i hi => absurd hi (Nat.not_lt_zero i)⟩
  | succ n ih =>
    intro x y err hlo hhi
    have hcond : 0 < dx ∨ err ≤ 0 := by
      by_cases h : 0 < dx
      · exact Or.inl h
      · exact Or.inr (by omega)
    obtain ⟨j0, hwhile, hle, hlow⟩ := bresenham_while_total is_steep sx sy dx x y err hcond
    have hlo' : 2 * dy - 2 * dx ≤ err - 2 * dx * j0 + 2 * dy := by
      rcases hlow with h0 | h1
      · subst h0
        simp only [Nat.cast_zero, mul_zero, sub_zero]
        omega
      · omega
    obtain ⟨rest, hrest, hlen, hpts⟩ := ih
      (if is_steep then (if is_steep then x + sx * j0 else x)
        else (if is_steep then x + sx * j0 else x) + sx)
      (if is_steep then (if is_steep then y else y + sy * j0) + sy
        else (if is_steep then y else y + sy * j0))
      (err - 2 * dx * j0 + 2 * dy) hlo' (by omega)
    refine ⟨⟨x, y⟩ :: rest, ?_, by simp [hlen], ?_⟩
    · show (match bresenham_while is_steep sx sy dx err.toNat x y err with
        | none => none
        | some (x1, y1, err1) =>
          match bresenham_for is_steep sx sy dx dy n (if is_steep then x1 else x1 + sx)
              (if is_steep then y1 + sy else y1) (err1 + 2 * dy) with
          | none => none
          | some rest => some ((⟨x, y⟩ : Point2) :: rest)) = _
      rw [hwhile]
      simp only []
      rw [hrest]
    · intro i hi
      cases i with
      | zero =>
        refine ⟨0, le_refl _, ?_, ?_, ?_⟩
        · cases is_steep <;> simp
        · simp only [Nat.cast_zero, mul_zero, add_zero, sub_zero]
          exact hlo
        · simp only [Nat.cast_zero, mul_zero, add_zero, sub_zero]
          exact hhi
      | succ i =>
        obtain ⟨j, hj0, hget, hjlo, hjhi⟩ := hpts i (by omega)
        refine ⟨(j0 : Int) + j, by positivity, ?_, ?_, ?_⟩
        · rw [List.getElem?_cons_succ, hget]
          cases is_steep
          · simp only [Bool.false_eq_true, if_false, Option.some.injEq, Point2.mk.injEq]
            constructor
            · push_cast
              ring
            · ring
          · simp only [if_true, Option.some.injEq, Point2.mk.injEq]
            constructor
            · ring
            · push_cast
              ring
        · push_cast
          linarith
        · push_cast
          linarith

/-- C28: `draw_line` is `draw_line_bresenham`, which computes with integers only.  With
`is_steep`, `dx >= dy >= 0` (the major and minor extents after the steepness swap), `sx` and
`sy` as the code computes them, the routine ends and plots `dx + 1` points; the `k`-th
plotted point (`0 <= k <= dx`) has the offset `k` from `p0` along the major axis and an
offset `m >= 0` along the minor axis with `|2*dx*m - 2*dy*k| <= dx`: it is within half a
pixel of the ideal line through `p0` and `p1`. -/
theorem bresenham_within_half_pixel (p0 p1 : Point2) (is_steep : Bool) (dx dy sx sy : Int)
    (hsteep : is_steep = decide (|p1.y - p0.y| > |p1.x - p0.x|))
    (hdx : dx = if is_steep then |p1.y - p0.y| else |p1.x - p0.x|)
    (hdy : dy = if is_steep then |p1.x - p0.x| else |p1.y - p0.y|)
    (hsx : sx = if p0.x < p1.x then 1 else -1)
    (hsy : sy = if p0.y < p1.y then 1 else -1) :
    0 ≤ dy ∧ dy ≤ dx ∧
    ∃ points, draw_line_bresenham_points p0 p1 = some points ∧
      (∀ (canvas : Canvas) (color : Color),
        draw_line canvas p0 p1 color = canvas.draw_pixels (points.map fun p => (p, color))) ∧
      points.length = (dx + 1).toNat ∧
      ∀ k : Nat, (k : Int) ≤ dx → ∃ m : Int, 0 ≤ m ∧
        points[k]? = some (if is_steep then ⟨p0.x + sx * m, p0.y + sy * k⟩
          else ⟨p0.x + sx * k, p0.y + sy * m⟩) ∧
        |2 * dx * m - 2 * dy * k| ≤ dx := by
  have hdy0 : 0 ≤ dy := by
    rw [hdy]
    split <;> exact abs_nonneg _
  have hdydx : dy ≤ dx := by
    rw [hdx, hdy]
    by_cases h : |p1.y - p0.y| > |p1.x - p0.x|
    · rw [hsteep]
      simp only [h, decide_True, if_true]
      exact h.le
    · rw [hsteep]
      simp only [h, decide_False, Bool.false_eq_true, if_false]
      exact not_lt.mp h
  obtain ⟨points, hpoints, hlen, hspec⟩ := bresenham_for_spec is_steep sx sy dx dy hdy0 hdydx
    (dx + 1).toNat p0.x p0.y (2 * dy - dx) (by omega) (by omega)
  have hrun : draw_line_bresenham_points p0 p1 = some points := by
    unfold draw_line_bresenham_points
    simp only []
    rw [← hsteep, ← hdx, ← hdy, ← hsx, ← hsy]
    exact hpoints
  refine ⟨hdy0, hdydx, points, hrun, ?_, hlen, ?_⟩
  · intro canvas color
    unfold draw_line draw_line_bresenham
    rw [hrun]
    rfl
  · intro k hk
    obtain ⟨m, hm0, hget, hlo, hhi⟩ := hspec k (by omega)
    refine ⟨m, hm0, hget, ?_⟩
    rw [abs_le]
    constructor <;> linarith

/-- C28, instantiated: the line from `(0,0)` to `(5,2)` (`dx = 5`, `dy = 2`, not steep);
its points are `(0,0), (1,0), (2,1), (3,1), (4,2), (5,2)`. -/
theorem bresenham_within_half_pixel_witness :
    draw_line_bresenham_points ⟨0, 0⟩ ⟨5, 2⟩ =
      some [⟨0, 0⟩, ⟨1, 0⟩, ⟨2, 1⟩, ⟨3, 1⟩, ⟨4, 2⟩, ⟨5, 2⟩] ∧
    ∃ points, draw_line_bresenham_points ⟨0, 0⟩ ⟨5, 2⟩ = some points ∧
      points.length = ((5 : Int) + 1).toNat ∧
      ∀ k : Nat, (k : Int) ≤ 5 → ∃ m : Int, 0 ≤ m ∧
        points[k]? = some (if false = true then ⟨0 + 1 * m, 0 + 1 * k⟩
          else ⟨0 + 1 * k, 0 + 1 * m⟩) ∧
        |2 * 5 * m - 2 * 2 * k| ≤ 5 := by
  refine ⟨by decide, ?_⟩
  obtain ⟨_, _, points, hpoints, _, hlen, hspec⟩ :=
    bresenham_within_half_pixel ⟨0, 0⟩ ⟨5, 2⟩ false 5 2 1 1 (by decide) (by decide)
      (by decide) (by decide) (by decide)
  exact ⟨points, hpoints, hlen, hspec⟩

/-! ## C21: scenario A -/

/-- The routine `draw_line_bresenham` ends, for all end points. -/
theorem draw_line_bresenham_points_isSome (p0 p1 : Point2) :
    ∃ points, draw_line_bresenham_points p0 p1 = some points := by
  unfold draw_line_bresenham_points
  simp only []
  by_cases h : |p1.y - p0.y| > |p1.x - p0.x|
  · simp only [h, decide_True, if_true]
    obtain ⟨points, hpoints, _⟩ := bresenham_for_spec true
      (if p0.x < p1.x then 1 else -1) (if p0.y < p1.y then 1 else -1)
      |p1.y - p0.y| |p1.x - p0.x| (abs_nonneg _) h.le (|p1.y - p0.y| + 1).toNat p0.x p0.y
      (2 * |p1.x - p0.x| - |p1.y - p0.y|) (by have := abs_nonneg (p1.y - p0.y); omega)
      (by have := abs_nonneg (p1.y - p0.y); omega)
    exact ⟨points, hpoints⟩
  · simp only [h, decide_False, Bool.false_eq_true, if_false]
    obtain ⟨points, hpoints, _⟩ := bresenham_for_spec false
      (if p0.x < p1.x then 1 else -1) (if p0.y < p1.y then 1 else -1)
      |p1.x - p0.x| |p1.y - p0.y| (abs_nonneg _) (not_lt.mp h) (|p1.x - p0.x| + 1).toNat
      p0.x p0.y (2 * |p1.y - p0.y| - |p1.x - p0.x|)
      (by have := abs_nonneg (p1.x - p0.x); omega)
      (by have := abs_nonneg (p1.x - p0.x); omega)
    exact ⟨points, hpoints⟩

/-- The line routine makes its calls without failing: on a well-formed canvas and with a
normalised colour it returns a well-formed canvas of the same dimensions, which shows the
former content at every point that is not among the points of the line. -/
theorem draw_line_spec (canvas : Canvas) (hwf : canvas.WellFormed) (p0 p1 : Point2)
    (color : Color) (hcol : color.is_normalized = true) :
    ∃ points next, draw_line_bresenham_points p0 p1 = some points ∧
      draw_line canvas p0 p1 color = some next ∧ next.WellFormed ∧
      next.m_dimensions = canvas.m_dimensions ∧
      ∀ q, q ∉ points → next.pixel_at q = canvas.pixel_at q := by
  obtain ⟨points, hpoints⟩ := draw_line_bresenham_points_isSome p0 p1
  have hdraw : ∀ (canvas : Canvas) (color : Color),
      draw_line canvas p0 p1 color = canvas.draw_pixels (points.map fun p => (p, color)) := by
    intro canvas color
    unfold draw_line draw_line_bresenham
    rw [hpoints]
    rfl
  obtain ⟨next, hnext, hnextwf, hdims, hkeep, _⟩ := draw_pixels_spec
    (points.map fun p => (p, color)) canvas hwf (by
      intro pc hpc
      rw [List.mem_map] at hpc
      obtain ⟨p, _, rfl⟩ := hpc
      exact hcol)
  refine ⟨points, next, hpoints, (hdraw canvas color).trans hnext, hnextwf, hdims, ?_⟩
  intro q hq
  apply hkeep q
  intro pc hpc he
  rw [List.mem_map] at hpc
  obtain ⟨p, hp, rfl⟩ := hpc
  exact hq (he ▸ hp)

/-- The white `1024 x 1024` canvas of the demos. -/
theorem create_white_1024 :
    Canvas.create ⟨1024, 1024⟩ Color.kWhite =
      some ⟨List.replicate (1024 * 1024) ⟨255, 255, 255, 255⟩, ⟨1024, 1024⟩⟩ := by
  have hc : Color.to_rgba_u8 Color.kWhite = some ⟨255, 255, 255, 255⟩ := by decide!
  have hn : ((1024 : Int) * 1024).toNat = 1024 * 1024 := by decide
  unfold Canvas.create
  rw [if_pos (by decide), hc]
  simp only [Option.map_some', hn]

/-- A canvas made of one colour shows it at every point that maps inside. -/
theorem pixel_at_replicate (n : Nat) (c : RGBA_U8) (dimensions : Dims) (q : Point2)
    (hin : (Canvas.mk (List.replicate n c) dimensions).in_bounds q = true)
    (hlt : (Canvas.mk (List.replicate n c) dimensions).pixel_index q < n) :
    (Canvas.mk (List.replicate n c) dimensions).pixel_at q = some c := by
  unfold Canvas.pixel_at
  rw [if_pos hin]
  simp only []
  rw [List.getElem?_replicate, if_pos hlt]

/-- The edge sequences of the triangle of scenario A at the scanline `y = 0` (offset `250`,
which is also the index probed by `interpolate_points`): the long edge is at `x = -90` and
the short edges are at `x = 133`, so the long edge is the left one. -/
theorem scenario_A_edges (x_left x_right : Buffer Int) (tag : LeftSide)
    (hpts : interpolate_points ⟨-200, -250⟩ ⟨200, 50⟩ ⟨20, 250⟩ = some (x_left, x_right, tag)) :
    x_left.get 250 = some (-90) ∧ x_right.get 250 = some 133 := by
  obtain ⟨l, m, a, b, hl, hm, ha, hb, hcase⟩ :=
    (interpolate_points_eq_some_iff _ _ _ x_left x_right tag).mp hpts
  have hls := long_edge_size ⟨-200, -250⟩ ⟨20, 250⟩ (-200 : Int) 20 (by decide) l hl
  have hms := merged_short_edges_size ⟨-200, -250⟩ ⟨200, 50⟩ ⟨20, 250⟩ (-200 : Int) 200 20
    (by decide) (by decide) m hm
  simp only [] at hls hms
  have hlsize : l.size = 501 := by omega
  have hmsize : m.size = 501 := by omega
  have hl250 : l.m_storage[250]? = some (-90) := by
    have h := interpolate_int_getElem (-250) 250 (-200) 20 (by decide) l hl 250 (by decide)
    rw [h]
    decide!
  have hm250 : m.m_storage[250]? = some 133 := by
    have h := merged_short_edges_getElem ⟨-200, -250⟩ ⟨200, 50⟩ ⟨20, 250⟩ (by decide)
      (by decide) m hm 250 (by decide)
    rw [h]
    decide!
  have hgl : l.get 250 = some (-90) := by
    have := buffer_get_natCast l 250 (by omega)
    simp only [Nat.cast_ofNat] at this
    rw [this, hl250]
  have hgm : m.get 250 = some 133 := by
    have := buffer_get_natCast m 250 (by omega)
    simp only [Nat.cast_ofNat] at this
    rw [this, hm250]
  rw [hlsize] at ha hb
  have ha' : a = -90 := by
    have e : Int.ofNat (501 / 2) = 250 := by decide
    rw [e, hgl] at ha
    exact (Option.some.inj ha).symm
  have hb' : b = 133 := by
    have e : Int.ofNat (501 / 2) = 250 := by decide
    rw [e, hgm] at hb
    exact (Option.some.inj hb).symm
  rcases hcase with ⟨_, _, rfl, rfl⟩ | ⟨hn, _, _, _⟩
  · exact ⟨hgl, hgm⟩
  · rw [ha', hb'] at hn
    exact absurd (by decide : (-90 : Int) < 133) hn

/-- C21 (scenario A): on a `1024 x 1024` canvas cleared to white, `draw_filled_triangle`
with the vertices `(-200,-250), (200,50), (20,250)` in green followed by
`draw_wireframe_triangle` with the same vertices in black both return (no assertion fails
and no index is out of range), and the final canvas shows green, `(0,255,0,255)`, at the
centre point `(0,0)` and the clear colour, `(255,255,255,255)`, at the point
`(-500,-500)`. -/
theorem scenario_A_filled_triangle :
    ∃ canvas0 canvas1 canvas2 : Canvas,
      Canvas.create ⟨1024, 1024⟩ Color.kWhite = some canvas0 ∧
      draw_filled_triangle canvas0 ⟨-200, -250⟩ ⟨200, 50⟩ ⟨20, 250⟩ Color.kBrightGreen
        = some canvas1 ∧
      draw_wireframe_triangle canvas1 ⟨-200, -250⟩ ⟨200, 50⟩ ⟨20, 250⟩ Color.kBlack
        = some canvas2 ∧
      canvas2.pixel_at ⟨0, 0⟩ = some ⟨0, 255, 0, 255⟩ ∧
      canvas0.pixel_at ⟨-500, -500⟩ = some ⟨255, 255, 255, 255⟩ ∧
      canvas2.pixel_at ⟨-500, -500⟩ = some ⟨255, 255, 255, 255⟩ := by
  have hwf0 : (Canvas.mk (List.replicate (1024 * 1024) ⟨255, 255, 255, 255⟩)
      ⟨1024, 1024⟩).WellFormed := by
    refine ⟨by decide, ?_⟩
    rw [List.length_replicate]
    decide
  have hwhite : (Canvas.mk (List.replicate (1024 * 1024) ⟨255, 255, 255, 255⟩)
      ⟨1024, 1024⟩).pixel_at ⟨-500, -500⟩ = some ⟨255, 255, 255, 255⟩ :=
    pixel_at_replicate _ _ _ _ (by decide) (by decide)
  have hgreen : Color.to_rgba_u8 Color.kBrightGreen = some ⟨0, 255, 0, 255⟩ := by decide!
  have hsorted : sort_points_by_y ⟨-200, -250⟩ ⟨200, 50⟩ ⟨20, 250⟩ =
      (⟨-200, -250⟩, ⟨200, 50⟩, ⟨20, 250⟩) := by decide
  -- the filled triangle
  obtain ⟨⟨x_left, x_right, tag⟩, hpts⟩ := interpolate_points_isSome
    ⟨-200, -250⟩ ⟨200, 50⟩ ⟨20, 250⟩ (by decide) (by decide) (by decide)
  obtain ⟨hxl, hxr⟩ := scenario_A_edges x_left x_right tag hpts
  obtain ⟨fill, hfill, hfillmem⟩ := draw_filled_triangle_pixels_spec
    ⟨-200, -250⟩ ⟨200, 50⟩ ⟨20, 250⟩ Color.kBrightGreen x_left x_right tag
    (by rw [hsorted]; exact hpts)
  rw [hsorted] at hfillmem
  simp only [] at hfillmem
  obtain ⟨canvas1, hcanvas1, hwf1, hdims1, hkeep1, hshow1⟩ := draw_pixels_spec fill
    ⟨List.replicate (1024 * 1024) ⟨255, 255, 255, 255⟩, ⟨1024, 1024⟩⟩ hwf0 (by
      intro pc hpc
      have := ((hfillmem pc.1 pc.2).mp hpc).1
      rw [this]
      decide)
  have hcentre1 : canvas1.pixel_at ⟨0, 0⟩ = some ⟨0, 255, 0, 255⟩ := by
    rw [hshow1 ⟨0, 0⟩ Color.kBrightGreen (by decide)
      ⟨(⟨0, 0⟩, Color.kBrightGreen), (hfillmem ⟨0, 0⟩ Color.kBrightGreen).mpr
        ⟨rfl, by decide, by decide, -90, 133, hxl, hxr, by decide, by decide⟩, rfl⟩
      (fun pc hpc _ => ((hfillmem pc.1 pc.2).mp hpc).1), hgreen]
  have hcorner1 : canvas1.pixel_at ⟨-500, -500⟩ = some ⟨255, 255, 255, 255⟩ := by
    rw [hkeep1 ⟨-500, -500⟩ (by
      intro pc hpc he
      have h := ((hfillmem pc.1 pc.2).mp hpc).2.1
      rw [he] at h
      exact absurd h (by decide)), hwhite]
  -- the three lines of the outline
  have hblack : Color.kBlack.is_normalized = true := by decide
  obtain ⟨pts01, canvas2a, hpts01, hline01, hwf2a, hdims2a, hkeep2a⟩ :=
    draw_line_spec canvas1 hwf1 ⟨-200, -250⟩ ⟨200, 50⟩ Color.kBlack hblack
  obtain ⟨pts12, canvas2b, hpts12, hline12, hwf2b, hdims2b, hkeep2b⟩ :=
    draw_line_spec canvas2a hwf2a ⟨200, 50⟩ ⟨20, 250⟩ Color.kBlack hblack
  obtain ⟨pts20, canvas2, hpts20, hline20, hwf2, hdims2, hkeep2⟩ :=
    draw_line_spec canvas2b hwf2b ⟨20, 250⟩ ⟨-200, -250⟩ Color.kBlack hblack
  have hfree01 : (draw_line_bresenham_points ⟨-200, -250⟩ ⟨200, 50⟩).map
      (fun pts => decide ((⟨0, 0⟩ : Point2) ∈ pts) || decide ((⟨-500, -500⟩ : Point2) ∈ pts))
      = some false := by decide!
  have hfree12 : (draw_line_bresenham_points ⟨200, 50⟩ ⟨20, 250⟩).map
      (fun pts => decide ((⟨0, 0⟩ : Point2) ∈ pts) || decide ((⟨-500, -500⟩ : Point2) ∈ pts))
      = some false := by decide!
  have hfree20 : (draw_line_bresenham_points ⟨20, 250⟩ ⟨-200, -250⟩).map
      (fun pts => decide ((⟨0, 0⟩ : Point2) ∈ pts) || decide ((⟨-500, -500⟩ : Point2) ∈ pts))
      = some false := by decide!
  rw [hpts01] at hfree01
  rw [hpts12] at hfree12
  rw [hpts20] at hfree20
  simp only [Option.map_some', Option.some.injEq, Bool.or_eq_false_iff,
    decide_eq_false_iff_not] at hfree01 hfree12 hfree20
  refine ⟨_, canvas1, canvas2, create_white_1024, ?_, ?_, ?_, hwhite, ?_⟩
  · unfold draw_filled_triangle
    rw [hfill]
    exact hcanvas1
  · unfold draw_wireframe_triangle
    rw [hline01]
    simp only [Option.some_bind]
    rw [hline12]
    simp only [Option.some_bind]
    exact hline20
  · rw [hkeep2 _ hfree20.1, hkeep2b _ hfree12.1, hkeep2a _ hfree01.1, hcentre1]
  · rw [hkeep2 _ hfree20.2, hkeep2b _ hfree12.2, hkeep2a _ hfree01.2, hcorner1]

/-! ## Interpolated intensities -/

/-- The samples of `interpolate` on floats, by index. -/
theorem interpolate_rat_getElem (i0 i1 : Int) (v0 v1 : ℚ) (b : Buffer ℚ)
    (hb : interpolate i0 v0 i1 v1 = some b) (k : Nat) (hk : k < b.size) :
    (k : Int) ≤ i1 - i0 ∧
      b.m_storage[k]? = some (v0 + (k : ℚ) * ((v1 - v0) / ((i1 - i0 : Int) : ℚ))) := by
  have hsize := (interpolate_size_eq i0 i1 v0 v1 b hb).1
  by_cases he : i0 = i1
  · subst he
    rw [interpolate_eq_of_eq] at hb
    simp only [Option.some.injEq] at hb
    subst hb
    have hk0 : k = 0 := by
      simp only [Buffer.size, List.length_singleton] at hk
      omega
    subst hk0
    simp
  · have hlt : i0 < i1 := by
      rw [hsize] at hk
      omega
    refine ⟨by rw [hsize] at hk; omega, ?_⟩
    have hget := interpolate_get i0 i1 v0 v1 hlt b hb (i0 + k) (by omega)
      (by rw [hsize] at hk; omega)
    have e : i0 + (k : Int) - i0 = (k : Int) := by ring
    rw [e, buffer_get_natCast b k hk] at hget
    rw [hget]
    show some ((fun x : ℚ => x + (v1 - v0) / ((i1 - i0 : Int) : ℚ))^[(k : Int).toNat] v0) = _
    rw [iterate_add_rat, Int.toNat_ofNat]

/-- The samples of `interpolate` on floats lie between the end values. -/
theorem interpolate_rat_bounds (lo hi : ℚ) (i0 i1 : Int) (v0 v1 : ℚ) (h0 : lo ≤ v0 ∧ v0 ≤ hi)
    (h1 : lo ≤ v1 ∧ v1 ≤ hi) (b : Buffer ℚ) (hb : interpolate i0 v0 i1 v1 = some b) :
    ∀ v ∈ b.m_storage, lo ≤ v ∧ v ≤ hi := by
  intro v hv
  obtain ⟨k, hklt, hkv⟩ := List.getElem_of_mem hv
  obtain ⟨hk, hget⟩ := interpolate_rat_getElem i0 i1 v0 v1 b hb k hklt
  rw [List.getElem?_eq_getElem hklt, hkv] at hget
  simp only [Option.some.injEq] at hget
  rw [hget]
  by_cases hz : i1 - i0 = 0
  · have hk0 : k = 0 := by omega
    subst hk0
    simp only [Nat.cast_zero, zero_mul, add_zero]
    exact h0
  · have hpos : (0 : ℚ) < ((i1 - i0 : Int) : ℚ) := by
      have : 0 < i1 - i0 := by omega
      exact_mod_cast this
    have hkq : (k : ℚ) ≤ ((i1 - i0 : Int) : ℚ) := by exact_mod_cast hk
    have hk0 : (0 : ℚ) ≤ (k : ℚ) := Nat.cast_nonneg k
    rw [step_eq_lerp _ _ _ _ hpos.ne']
    unfold lerp
    have ht0 : 0 ≤ (k : ℚ) / ((i1 - i0 : Int) : ℚ) := div_nonneg hk0 hpos.le
    have ht1 : (k : ℚ) / ((i1 - i0 : Int) : ℚ) ≤ 1 := (div_le_one hpos).mpr hkq
    generalize (k : ℚ) / ((i1 - i0 : Int) : ℚ) = t at ht0 ht1
    constructor
    · nlinarith [mul_nonneg (sub_nonneg.mpr ht1) (sub_nonneg.mpr h0.1),
        mul_nonneg ht0 (sub_nonneg.mpr h1.1)]
    · nlinarith [mul_nonneg (sub_nonneg.mpr ht1) (sub_nonneg.mpr h0.2),
        mul_nonneg ht0 (sub_nonneg.mpr h1.2)]

/-- The intensities along the edges of a triangle lie between the bounds of the vertex
intensities. -/
theorem interpolate_attributes_bounds (lo hi : ℚ) (q0 q1 q2 : Point2) (a0 a1 a2 : ℚ)
    (h0 : lo ≤ a0 ∧ a0 ≤ hi) (h1 : lo ≤ a1 ∧ a1 ≤ hi) (h2 : lo ≤ a2 ∧ a2 ≤ hi)
    (side : LeftSide) (al ar : Buffer ℚ)
    (hatt : interpolate_attributes q0 q1 q2 a0 a1 a2 side = some (al, ar)) :
    (∀ v ∈ al.m_storage, lo ≤ v ∧ v ≤ hi) ∧ (∀ v ∈ ar.m_storage, lo ≤ v ∧ v ≤ hi) := by
  obtain ⟨l, m, hl, hm, hcase⟩ :=
    (interpolate_attributes_eq_some_iff q0 q1 q2 a0 a1 a2 side al ar).mp hatt
  have hlb : ∀ v ∈ l.m_storage, lo ≤ v ∧ v ≤ hi :=
    interpolate_rat_bounds lo hi _ _ _ _ h0 h2 l hl
  have hmb : ∀ v ∈ m.m_storage, lo ≤ v ∧ v ≤ hi := by
    obtain ⟨a01, a12, h01, h12, _, _, hmeq⟩ :=
      (merged_short_edges_eq_some_iff q0 q1 q2 a0 a1 a2 m).mp hm
    intro v hv
    rw [hmeq] at hv
    rcases List.mem_append.mp hv with h | h
    · exact interpolate_rat_bounds lo hi _ _ _ _ h0 h1 a01 h01 v (List.mem_of_mem_dropLast h)
    · exact interpolate_rat_bounds lo hi _ _ _ _ h1 h2 a12 h12 v h
  rcases hcase with ⟨_, rfl, rfl⟩ | ⟨_, rfl, rfl⟩
  · exact ⟨hlb, hmb⟩
  · exact ⟨hmb, hlb⟩

/-! ## The pixels of a shaded triangle -/

/-- The calls of one scanline of `draw_shaded_triangle`. -/
theorem draw_shaded_triangle_row_mem (x_left x_right : Buffer Int) (i_left i_right : Buffer ℚ)
    (p0 : Point2) (color : Color) (y : Int) (calls : List (Point2 × Color))
    (h : draw_shaded_triangle_row x_left x_right i_left i_right p0 color y = some calls) :
    ∃ xl xr il ir segment_intensities,
      x_left.get (y - p0.y) = some xl ∧ x_right.get (y - p0.y) = some xr ∧
      i_left.get (y - p0.y) = some il ∧ i_right.get (y - p0.y) = some ir ∧
      interpolate xl il xr ir = some segment_intensities ∧
      ∀ (pt : Point2) (c : Color), (pt, c) ∈ calls ↔
        pt.y = y ∧ xl ≤ pt.x ∧ pt.x ≤ xr ∧
          ∃ s, segment_intensities.get (pt.x - xl) = some s ∧ c = color.mul (min s 1) := by
  unfold draw_shaded_triangle_row at h
  cases hxl : x_left.get (y - p0.y) with
  | none => rw [hxl] at h; exact Option.noConfusion h
  | some xl =>
    cases hxr : x_right.get (y - p0.y) with
    | none => rw [hxl, hxr] at h; exact Option.noConfusion h
    | some xr =>
      cases hil : i_left.get (y - p0.y) with
      | none => rw [hxl, hxr, hil] at h; exact Option.noConfusion h
      | some il =>
        cases hir : i_right.get (y - p0.y) with
        | none => rw [hxl, hxr, hil, hir] at h; exact Option.noConfusion h
        | some ir =>
          rw [hxl, hxr, hil, hir] at h
          simp only [Option.some_bind] at h
          cases hseg : interpolate xl il xr ir with
          | none => rw [hseg] at h; exact Option.noConfusion h
          | some seg =>
            rw [hseg] at h
            simp only [Option.some_bind] at h
            refine ⟨xl, xr, il, ir, seg, rfl, rfl, rfl, rfl, hseg, ?_⟩
            intro pt c
            rw [(for_each_concat_mem _ _ _ h).2]
            constructor
            · rintro ⟨x, hx, one, hone, hmem⟩
              rw [mem_int_range] at hx
              unfold draw_shaded_triangle_pixel at hone
              cases hs : seg.get (x - xl) with
              | none => rw [hs] at hone; exact Option.noConfusion hone
              | some s =>
                rw [hs] at hone
                simp only [Option.some_bind, Option.some.injEq] at hone
                subst hone
                simp only [List.mem_singleton, Prod.mk.injEq] at hmem
                obtain ⟨hpt, hc⟩ := hmem
                subst hpt
                exact ⟨rfl, hx.1, hx.2, s, hs, hc⟩
            · rintro ⟨hy, hx0, hx1, s, hs, hc⟩
              refine ⟨pt.x, (mem_int_range _ _ _).mpr ⟨hx0, hx1⟩,
                [(pt, color.mul (min s 1))], ?_, ?_⟩
              · unfold draw_shaded_triangle_pixel
                rw [hs]
                simp only [Option.some_bind, Option.some.injEq, List.cons.injEq, and_true,
                  Prod.mk.injEq]
                cases pt
                simp only [] at hy
                subst hy
                exact rfl
              · rw [hc]
                exact List.mem_singleton_self _

/-- The attribute sequences exist whenever the edge sequences do. -/
theorem interpolate_attributes_of_points {T : Type} [Interpolable T] (q0 q1 q2 : Point2)
    (a0 a1 a2 : T) (x_left x_right : Buffer Int) (tag : LeftSide)
    (hpts : interpolate_points q0 q1 q2 = some (x_left, x_right, tag)) :
    ∃ al ar, interpolate_attributes q0 q1 q2 a0 a1 a2 tag = some (al, ar) := by
  obtain ⟨l, m, a, b, hl, hm, _, _, hcase⟩ :=
    (interpolate_points_eq_some_iff q0 q1 q2 x_left x_right tag).mp hpts
  obtain ⟨l', hl'⟩ := long_edge_isSome_transfer q0 q2 q0.x q2.x a0 a2 l hl
  obtain ⟨m', hm'⟩ := merged_short_edges_isSome_transfer q0 q1 q2 q0.x q1.x q2.x a0 a1 a2 m hm
  rcases hcase with ⟨_, htag, _, _⟩ | ⟨_, htag, _, _⟩
  · exact ⟨l', m', (interpolate_attributes_eq_some_iff _ _ _ _ _ _ _ _ _).mpr
      ⟨l', m', hl', hm', Or.inl ⟨htag, rfl, rfl⟩⟩⟩
  · exact ⟨m', l', (interpolate_attributes_eq_some_iff _ _ _ _ _ _ _ _ _).mpr
      ⟨l', m', hl', hm', Or.inr ⟨htag, rfl, rfl⟩⟩⟩

/-- The edge sequences exist whenever the attribute sequences do. -/
theorem interpolate_points_of_attributes {T : Type} [Interpolable T] (q0 q1 q2 : Point2)
    (a0 a1 a2 : T) (side : LeftSide) (al ar : Buffer T) (h01 : q0.y ≤ q1.y)
    (h12 : q1.y ≤ q2.y)
    (hatt : interpolate_attributes q0 q1 q2 a0 a1 a2 side = some (al, ar)) :
    ∃ edges, interpolate_points q0 q1 q2 = some edges := by
  have hsz := (interpolate_attributes_sizes q0 q1 q2 h01 h12 a0 a1 a2 side al ar hatt).1
  obtain ⟨l, m, hl, _, _⟩ :=
    (interpolate_attributes_eq_some_iff q0 q1 q2 a0 a1 a2 side al ar).mp hatt
  have hls := long_edge_size q0 q2 a0 a2 (le_trans h01 h12) l hl
  have hcap := (interpolate_size_eq q0.y q2.y a0 a2 l hl).2
  exact interpolate_points_isSome q0 q1 q2 h01 h12 (by omega)

/-- The body of `draw_shaded_triangle_pixels` once the assertion and the edge sequences are
known. -/
theorem draw_shaded_triangle_pixels_eq (p0 : Point2) (i0 : ℚ) (p1 : Point2) (i1 : ℚ)
    (p2 : Point2) (i2 : ℚ) (color : Color)
    (hnorm : (is_normalized i0 && is_normalized i1 && is_normalized i2) = true)
    (x_left x_right : Buffer Int) (tag : LeftSide) (i_left i_right : Buffer ℚ)
    (hpts : interpolate_points (sort_point_bundles_by_y (p0, i0) (p1, i1) (p2, i2)).1.1
      (sort_point_bundles_by_y (p0, i0) (p1, i1) (p2, i2)).2.1.1
      (sort_point_bundles_by_y (p0, i0) (p1, i1) (p2, i2)).2.2.1 = some (x_left, x_right, tag))
    (hatt : interpolate_attributes (sort_point_bundles_by_y (p0, i0) (p1, i1) (p2, i2)).1.1
      (sort_point_bundles_by_y (p0, i0) (p1, i1) (p2, i2)).2.1.1
      (sort_point_bundles_by_y (p0, i0) (p1, i1) (p2, i2)).2.2.1
      (sort_point_bundles_by_y (p0, i0) (p1, i1) (p2, i2)).1.2
      (sort_point_bundles_by_y (p0, i0) (p1, i1) (p2, i2)).2.1.2
      (sort_point_bundles_by_y (p0, i0) (p1, i1) (p2, i2)).2.2.2 tag = some (i_left, i_right)) :
    draw_shaded_triangle_pixels p0 i0 p1 i1 p2 i2 color =
      for_each_concat
        (draw_shaded_triangle_row x_left x_right i_left i_right
          (sort_point_bundles_by_y (p0, i0) (p1, i1) (p2, i2)).1.1 color)
        (int_range (sort_point_bundles_by_y (p0, i0) (p1, i1) (p2, i2)).1.1.y
          (sort_point_bundles_by_y (p0, i0) (p1, i1) (p2, i2)).2.2.1.y) := by
  unfold draw_shaded_triangle_pixels
  rw [if_pos hnorm]
  simp only []
  rw [hpts]
  simp only [Option.some_bind]
  rw [hatt]
  rfl

/-- A segment of interpolated intensities can be read at every pixel of its scanline. -/
theorem segment_get (xl xr : Int) (il ir : ℚ) (seg : Buffer ℚ)
    (hseg : interpolate xl il xr ir = some seg) (x : Int) (hx0 : xl ≤ x) (hx1 : x ≤ xr) :
    ∃ s, seg.get (x - xl) = some s := by
  have hsize := (interpolate_size_eq xl xr il ir seg hseg).1
  exact buffer_get_of_lt seg (x - xl) (by omega) (by omega)

/-- One scanline of `draw_shaded_triangle` makes its calls without failing when the
scanline fits the capacity of a `Buffer`. -/
theorem draw_shaded_triangle_row_isSome (x_left x_right : Buffer Int)
    (i_left i_right : Buffer ℚ) (p0 : Point2) (color : Color) (y : Int) (xl xr : Int)
    (il ir : ℚ) (hxl : x_left.get (y - p0.y) = some xl) (hxr : x_right.get (y - p0.y) = some xr)
    (hil : i_left.get (y - p0.y) = some il) (hir : i_right.get (y - p0.y) = some ir)
    (hw : xr - xl + 1 ≤ (kMaxSize : Int)) :
    ∃ calls, draw_shaded_triangle_row x_left x_right i_left i_right p0 color y = some calls := by
  have hsome : (interpolate xl il xr ir).isSome = true :=
    (interpolate_isSome_iff xl xr il ir).mpr (by omega)
  obtain ⟨seg, hseg⟩ := Option.isSome_iff_exists.mp hsome
  obtain ⟨calls, hcalls⟩ := for_each_concat_isSome
    (draw_shaded_triangle_pixel seg xl y color) (int_range xl xr) (by
      intro x hx
      rw [mem_int_range] at hx
      obtain ⟨s, hs⟩ := segment_get xl xr il ir seg hseg x hx.1 hx.2
      unfold draw_shaded_triangle_pixel
      rw [hs]
      exact ⟨_, rfl⟩)
  refine ⟨calls, ?_⟩
  unfold draw_shaded_triangle_row
  rw [hxl, hxr, hil, hir]
  simp only [Option.some_bind]
  rw [hseg]
  exact hcalls

/-- The routine `draw_shaded_triangle` computes its pixels without failing when the
intensities are normalised, the triangle spans at most `kMaxSize` scanlines and each
scanline spans at most `kMaxSize` pixels. -/
theorem draw_shaded_triangle_pixels_isSome (p0 : Point2) (i0 : ℚ) (p1 : Point2) (i1 : ℚ)
    (p2 : Point2) (i2 : ℚ) (color : Color)
    (hnorm : (is_normalized i0 && is_normalized i1 && is_normalized i2) = true)
    (hcap : (sort_point_bundles_by_y (p0, i0) (p1, i1) (p2, i2)).2.2.1.y -
      (sort_point_bundles_by_y (p0, i0) (p1, i1) (p2, i2)).1.1.y + 1 ≤ (kMaxSize : Int))
    (hw : ∀ x_left x_right tag,
      interpolate_points (sort_point_bundles_by_y (p0, i0) (p1, i1) (p2, i2)).1.1
        (sort_point_bundles_by_y (p0, i0) (p1, i1) (p2, i2)).2.1.1
        (sort_point_bundles_by_y (p0, i0) (p1, i1) (p2, i2)).2.2.1
          = some (x_left, x_right, tag) →
      ∀ (k xl xr : Int), x_left.get k = some xl → x_right.get k = some xr →
        xr - xl + 1 ≤ (kMaxSize : Int)) :
    ∃ pixels, draw_shaded_triangle_pixels p0 i0 p1 i1 p2 i2 color = some pixels := by
  obtain ⟨h01, h12⟩ := sort_point_bundles_by_y_sorted (p0, i0) (p1, i1) (p2, i2)
  obtain ⟨⟨x_left, x_right, tag⟩, hpts⟩ := interpolate_points_isSome _ _ _ h01 h12 hcap
  obtain ⟨i_left, i_right, hatt⟩ := interpolate_attributes_of_points _ _ _
    (sort_point_bundles_by_y (p0, i0) (p1, i1) (p2, i2)).1.2
    (sort_point_bundles_by_y (p0, i0) (p1, i1) (p2, i2)).2.1.2
    (sort_point_bundles_by_y (p0, i0) (p1, i1) (p2, i2)).2.2.2 x_left x_right tag hpts
  obtain ⟨hsl, hsr⟩ := interpolate_points_sizes _ _ _ h01 h12 x_left x_right tag hpts
  obtain ⟨hal, har⟩ := interpolate_attributes_sizes _ _ _ h01 h12 _ _ _ tag i_left i_right hatt
  rw [draw_shaded_triangle_pixels_eq p0 i0 p1 i1 p2 i2 color hnorm x_left x_right tag
    i_left i_right hpts hatt]
  apply for_each_concat_isSome
  intro y hy
  rw [mem_int_range] at hy
  obtain ⟨xl, hxl⟩ := buffer_get_of_lt x_left
    (y - (sort_point_bundles_by_y (p0, i0) (p1, i1) (p2, i2)).1.1.y) (by omega) (by omega)
  obtain ⟨xr, hxr⟩ := buffer_get_of_lt x_right
    (y - (sort_point_bundles_by_y (p0, i0) (p1, i1) (p2, i2)).1.1.y) (by omega) (by omega)
  obtain ⟨il, hil⟩ := buffer_get_of_lt i_left
    (y - (sort_point_bundles_by_y (p0, i0) (p1, i1) (p2, i2)).1.1.y) (by omega) (by omega)
  obtain ⟨ir, hir⟩ := buffer_get_of_lt i_right
    (y - (sort_point_bundles_by_y (p0, i0) (p1, i1) (p2, i2)).1.1.y) (by omega) (by omega)
  exact draw_shaded_triangle_row_isSome _ _ _ _ _ _ _ xl xr il ir hxl hxr hil hir
    (hw x_left x_right tag hpts _ xl xr hxl hxr)

/-! ## The colours passed to `draw_pixel` by `draw_shaded_triangle`, under exact arithmetic -/

/-- Exact arithmetic.
When the colour and the three vertex intensities are normalised, every colour that
`draw_shaded_triangle` passes to `Canvas::draw_pixel` is normalised in all four channels,
so that its conversion by `Color::to_rgba_u8` succeeds and the routine draws its pixels on
every well-formed canvas without failing (over exact arithmetic).  The pixels themselves
are computed without failing when the triangle spans at most `kMaxSize` scanlines and each
scanline at most `kMaxSize` pixels. -/
theorem shaded_colors_normalized (p0 : Point2) (i0 : ℚ) (p1 : Point2) (i1 : ℚ) (p2 : Point2)
    (i2 : ℚ) (color : Color) (hcolor : color.is_normalized = true)
    (h0 : is_normalized i0 = true) (h1 : is_normalized i1 = true)
    (h2 : is_normalized i2 = true) :
    ((sort_point_bundles_by_y (p0, i0) (p1, i1) (p2, i2)).2.2.1.y -
        (sort_point_bundles_by_y (p0, i0) (p1, i1) (p2, i2)).1.1.y + 1 ≤ (kMaxSize : Int) →
      (∀ x_left x_right tag,
        interpolate_points (sort_point_bundles_by_y (p0, i0) (p1, i1) (p2, i2)).1.1
          (sort_point_bundles_by_y (p0, i0) (p1, i1) (p2, i2)).2.1.1
          (sort_point_bundles_by_y (p0, i0) (p1, i1) (p2, i2)).2.2.1
            = some (x_left, x_right, tag) →
        ∀ (k xl xr : Int), x_left.get k = some xl → x_right.get k = some xr →
          xr - xl + 1 ≤ (kMaxSize : Int)) →
      ∃ pixels, draw_shaded_triangle_pixels p0 i0 p1 i1 p2 i2 color = some pixels) ∧
    ∀ pixels, draw_shaded_triangle_pixels p0 i0 p1 i1 p2 i2 color = some pixels →
      (∀ pc ∈ pixels, pc.2.is_normalized = true ∧ (Color.to_rgba_u8 pc.2).isSome = true) ∧
      ∀ canvas : Canvas, canvas.WellFormed →
        ∃ next, draw_shaded_triangle canvas p0 i0 p1 i1 p2 i2 color = some next := by
  have hnorm : (is_normalized i0 && is_normalized i1 && is_normalized i2) = true := by
    rw [h0, h1, h2]
    rfl
  refine ⟨fun hcap hw =>
    draw_shaded_triangle_pixels_isSome p0 i0 p1 i1 p2 i2 color hnorm hcap hw, ?_⟩
  intro pixels hpixels
  have hall : ∀ pc ∈ pixels, pc.2.is_normalized = true := by
    obtain ⟨hs0, hs1, hs2⟩ := sort_point_bundles_by_y_forall
      (fun b : Point2 × ℚ => 0 ≤ b.2 ∧ b.2 ≤ 1) (p0, i0) (p1, i1) (p2, i2)
      ((is_normalized_iff i0).mp h0) ((is_normalized_iff i1).mp h1)
      ((is_normalized_iff i2).mp h2)
    have hrun := hpixels
    unfold draw_shaded_triangle_pixels at hrun
    rw [if_pos hnorm] at hrun
    simp only [] at hrun
    cases hpts : interpolate_points (sort_point_bundles_by_y (p0, i0) (p1, i1) (p2, i2)).1.1
        (sort_point_bundles_by_y (p0, i0) (p1, i1) (p2, i2)).2.1.1
        (sort_point_bundles_by_y (p0, i0) (p1, i1) (p2, i2)).2.2.1 with
    | none => rw [hpts] at hrun; exact Option.noConfusion hrun
    | some edges =>
      obtain ⟨x_left, x_right, tag⟩ := edges
      rw [hpts] at hrun
      simp only [Option.some_bind] at hrun
      cases hatt : interpolate_attributes
          (sort_point_bundles_by_y (p0, i0) (p1, i1) (p2, i2)).1.1
          (sort_point_bundles_by_y (p0, i0) (p1, i1) (p2, i2)).2.1.1
          (sort_point_bundles_by_y (p0, i0) (p1, i1) (p2, i2)).2.2.1
          (sort_point_bundles_by_y (p0, i0) (p1, i1) (p2, i2)).1.2
          (sort_point_bundles_by_y (p0, i0) (p1, i1) (p2, i2)).2.1.2
          (sort_point_bundles_by_y (p0, i0) (p1, i1) (p2, i2)).2.2.2 tag with
      | none => rw [hatt] at hrun; exact Option.noConfusion hrun
      | some attrs =>
        obtain ⟨i_left, i_right⟩ := attrs
        rw [hatt] at hrun
        simp only [Option.some_bind] at hrun
        obtain ⟨hlb, hrb⟩ := interpolate_attributes_bounds 0 1 _ _ _ _ _ _ hs0 hs1 hs2 tag
          i_left i_right hatt
        intro pc hpc
        obtain ⟨y, _, calls, hcalls, hmem⟩ := ((for_each_concat_mem _ _ _ hrun).2 pc).mp hpc
        obtain ⟨xl, xr, il, ir, seg, _, _, hil, hir, hseg, hrow⟩ :=
          draw_shaded_triangle_row_mem _ _ _ _ _ _ _ _ hcalls
        obtain ⟨_, _, _, s, hs, hc⟩ := (hrow pc.1 pc.2).mp hmem
        have hsb := interpolate_rat_bounds 0 1 xl xr il ir
          (hlb il (buffer_get_mem _ _ _ hil)) (hrb ir (buffer_get_mem _ _ _ hir)) seg hseg s
          (buffer_get_mem _ _ _ hs)
        have hm0 : 0 ≤ min s 1 := le_min hsb.1 (by norm_num)
        have hm1 : min s 1 ≤ 1 := min_le_right _ _
        rw [hc, color_is_normalized_iff]
        obtain ⟨hr, hg, hb, ha⟩ := (color_is_normalized_iff color).mp hcolor
        simp only [Color.mul]
        refine ⟨⟨mul_nonneg hr.1 hm0, mul_le_one₀ hr.2 hm0 hm1⟩,
          ⟨mul_nonneg hg.1 hm0, mul_le_one₀ hg.2 hm0 hm1⟩,
          ⟨mul_nonneg hb.1 hm0, mul_le_one₀ hb.2 hm0 hm1⟩,
          ⟨mul_nonneg ha.1 hm0, mul_le_one₀ ha.2 hm0 hm1⟩⟩
  refine ⟨fun pc hpc => ⟨hall pc hpc, ?_⟩, ?_⟩
  · rw [to_rgba_u8_of_normalized _ (hall pc hpc)]
    rfl
  · intro canvas hwf
    obtain ⟨next, hnext, _⟩ := draw_pixels_spec pixels canvas hwf hall
    refine ⟨next, ?_⟩
    unfold draw_shaded_triangle
    rw [hpixels]
    exact hnext

/-- Exact arithmetic, an instance.
The triangle `(0,0), (4,2), (-2,3)` with the intensities
`1, 1/2, 1/4` and the colour gray: the pixels are computed, and each of their colours is
normalised. -/
theorem shaded_colors_normalized_witness :
    (draw_shaded_triangle_pixels ⟨0, 0⟩ 1 ⟨4, 2⟩ (1 / 2) ⟨-2, 3⟩ (1 / 4) Color.kGray).isSome
      = true ∧
    ∀ pixels,
      draw_shaded_triangle_pixels ⟨0, 0⟩ 1 ⟨4, 2⟩ (1 / 2) ⟨-2, 3⟩ (1 / 4) Color.kGray
        = some pixels →
      ∀ pc ∈ pixels, pc.2.is_normalized = true ∧ (Color.to_rgba_u8 pc.2).isSome = true :=
  ⟨by decide!, fun pixels hpixels =>
    ((shaded_colors_normalized ⟨0, 0⟩ 1 ⟨4, 2⟩ (1 / 2) ⟨-2, 3⟩ (1 / 4) Color.kGray
      (by decide!) (by decide!) (by decide!) (by decide!)).2 pixels hpixels).1⟩

/-! ## C26: flat shading against a constant fill -/

theorem flatMap_singleton_eq_map {α β : Type} (f : α → β) (l : List α) :
    l.flatMap (fun a => [f a]) = l.map f := by
  induction l with
  | nil => rfl
  | cons a rest ih =>
    rw [List.flatMap_cons, ih]
    rfl

/-- One scanline of `draw_shaded_triangle` with the constant intensity `c` makes the calls
of `draw_filled_triangle` with the colour `color * c`. -/
theorem draw_shaded_triangle_row_constant (x_left x_right : Buffer Int)
    (i_left i_right : Buffer ℚ) (p0 : Point2) (color : Color) (c : ℚ) (hc1 : c ≤ 1) (y : Int)
    (xl xr : Int) (hxl : x_left.get (y - p0.y) = some xl)
    (hxr : x_right.get (y - p0.y) = some xr) (hil : i_left.get (y - p0.y) = some c)
    (hir : i_right.get (y - p0.y) = some c) (hw : xr - xl + 1 ≤ (kMaxSize : Int)) :
    draw_shaded_triangle_row x_left x_right i_left i_right p0 color y =
      draw_filled_triangle_row x_left x_right p0 (color.mul c) y := by
  have hsome : (interpolate xl c xr c).isSome = true :=
    (interpolate_isSome_iff xl xr c c).mpr (by omega)
  obtain ⟨seg, hseg⟩ := Option.isSome_iff_exists.mp hsome
  unfold draw_shaded_triangle_row draw_filled_triangle_row
  rw [hxl, hxr, hil, hir]
  simp only [Option.some_bind]
  rw [hseg]
  simp only [Option.some_bind]
  rw [for_each_concat_congr (draw_shaded_triangle_pixel seg xl y color)
    (fun x => some [((⟨x, y⟩ : Point2), color.mul c)]) (int_range xl xr) (by
      intro x hx
      rw [mem_int_range] at hx
      obtain ⟨s, hs⟩ := segment_get xl xr c c seg hseg x hx.1 hx.2
      have hsb := interpolate_rat_bounds c c xl xr c c ⟨le_refl _, le_refl _⟩
        ⟨le_refl _, le_refl _⟩ seg hseg s (buffer_get_mem _ _ _ hs)
      have hsc : s = c := le_antisymm hsb.2 hsb.1
      unfold draw_shaded_triangle_pixel
      rw [hs, hsc]
      simp only [Option.some_bind, min_eq_left hc1]),
    for_each_concat_some, flatMap_singleton_eq_map]

/-- A loop fails when one of its iterations does. -/
theorem for_each_concat_none {α β : Type} (body : α → Option (List β)) (l : List α) (a : α)
    (ha : a ∈ l) (hbody : body a = none) : for_each_concat body l = none := by
  cases h : for_each_concat body l with
  | none => rfl
  | some all =>
    obtain ⟨calls, hcalls⟩ := (for_each_concat_mem body l all h).1 a ha
    rw [hbody] at hcalls
    exact Option.noConfusion hcalls

/-- One scanline of `draw_shaded_triangle` fails when the scanline exceeds the capacity of a
`Buffer`. -/
theorem draw_shaded_triangle_row_none (x_left x_right : Buffer Int)
    (i_left i_right : Buffer ℚ) (p0 : Point2) (color : Color) (y : Int) (xl xr : Int)
    (il ir : ℚ) (hxl : x_left.get (y - p0.y) = some xl) (hxr : x_right.get (y - p0.y) = some xr)
    (hil : i_left.get (y - p0.y) = some il) (hir : i_right.get (y - p0.y) = some ir)
    (hw : (kMaxSize : Int) < xr - xl + 1) :
    draw_shaded_triangle_row x_left x_right i_left i_right p0 color y = none := by
  have hnone : interpolate xl il xr ir = none := by
    cases h : interpolate xl il xr ir with
    | none => rfl
    | some b =>
      have := (interpolate_isSome_iff xl xr il ir).mp (by rw [h]; rfl)
      omega
  unfold draw_shaded_triangle_row
  rw [hxl, hxr, hil, hir]
  simp only [Option.some_bind]
  rw [hnone]
  rfl

/-- C26 as stated fails: the triangle `(0,0), (800,1), (0,2)` has a scanline of `801`
pixels, from `x = 0` to `x = 800` at `y = 1`.  `draw_filled_triangle` draws it (here on a
white `2 x 2` canvas), whereas `draw_shaded_triangle` with the intensity `1` at the three
vertices fails: the interpolation of the intensities along that scanline overflows the
`Buffer` capacity of `768`. -/
theorem shaded_constant_counterexample :
    interpolate_points ⟨0, 0⟩ ⟨800, 1⟩ ⟨0, 2⟩ =
      some (⟨[0, 0, 0]⟩, ⟨[0, 800, 0]⟩, LeftSide.k02) ∧
    (∃ pixels next, draw_filled_triangle_pixels ⟨0, 0⟩ ⟨800, 1⟩ ⟨0, 2⟩ (Color.kGray.mul 1)
        = some pixels ∧
      draw_filled_triangle ⟨List.replicate 4 ⟨255, 255, 255, 255⟩, ⟨2, 2⟩⟩
        ⟨0, 0⟩ ⟨800, 1⟩ ⟨0, 2⟩ (Color.kGray.mul 1) = some next) ∧
    draw_shaded_triangle_pixels ⟨0, 0⟩ 1 ⟨800, 1⟩ 1 ⟨0, 2⟩ 1 Color.kGray = none ∧
    draw_shaded_triangle ⟨List.replicate 4 ⟨255, 255, 255, 255⟩, ⟨2, 2⟩⟩
      ⟨0, 0⟩ 1 ⟨800, 1⟩ 1 ⟨0, 2⟩ 1 Color.kGray = none := by
  have hpts : interpolate_points ⟨0, 0⟩ ⟨800, 1⟩ ⟨0, 2⟩ =
      some (⟨[0, 0, 0]⟩, ⟨[0, 800, 0]⟩, LeftSide.k02) := by decide!
  have hatt : interpolate_attributes ⟨0, 0⟩ ⟨800, 1⟩ ⟨0, 2⟩ (1 : ℚ) 1 1 LeftSide.k02 =
      some (⟨[1, 1, 1]⟩, ⟨[1, 1, 1]⟩) := by decide!
  have hsort : sort_points_by_y ⟨0, 0⟩ ⟨800, 1⟩ ⟨0, 2⟩ = (⟨0, 0⟩, ⟨800, 1⟩, ⟨0, 2⟩) := by
    decide
  have hsortb : sort_point_bundles_by_y ((⟨0, 0⟩ : Point2), (1 : ℚ)) (⟨800, 1⟩, 1) (⟨0, 2⟩, 1)
      = ((⟨0, 0⟩, 1), (⟨800, 1⟩, 1), (⟨0, 2⟩, 1)) := by decide
  have hshaded : draw_shaded_triangle_pixels ⟨0, 0⟩ 1 ⟨800, 1⟩ 1 ⟨0, 2⟩ 1 Color.kGray
      = none := by
    rw [draw_shaded_triangle_pixels_eq ⟨0, 0⟩ 1 ⟨800, 1⟩ 1 ⟨0, 2⟩ 1 Color.kGray (by decide)
      ⟨[0, 0, 0]⟩ ⟨[0, 800, 0]⟩ LeftSide.k02 ⟨[1, 1, 1]⟩ ⟨[1, 1, 1]⟩
      (by rw [hsortb]; exact hpts) (by rw [hsortb]; exact hatt), hsortb]
    apply for_each_concat_none _ _ 1 ((mem_int_range _ _ _).mpr ⟨by decide, by decide⟩)
    exact draw_shaded_triangle_row_none _ _ _ _ _ _ _ 0 800 1 1 (by decide) (by decide)
      (by decide) (by decide) (by decide)
  obtain ⟨pixels, hpixels, hmem⟩ := draw_filled_triangle_pixels_spec ⟨0, 0⟩ ⟨800, 1⟩ ⟨0, 2⟩
    (Color.kGray.mul 1) ⟨[0, 0, 0]⟩ ⟨[0, 800, 0]⟩ LeftSide.k02 (by rw [hsort]; exact hpts)
  obtain ⟨next, hnext, _⟩ := draw_pixels_spec pixels
    ⟨List.replicate 4 ⟨255, 255, 255, 255⟩, ⟨2, 2⟩⟩ ⟨by decide, by decide⟩ (by
      intro pc hpc
      rw [((hmem pc.1 pc.2).mp hpc).1]
      decide!)
  refine ⟨hpts, ⟨pixels, next, hpixels, ?_⟩, hshaded, ?_⟩
  · unfold draw_filled_triangle
    rw [hpixels]
    exact hnext
  · unfold draw_shaded_triangle
    rw [hshaded]
    rfl

/-- C26, amended: for every triangle whose scanlines each span at most `kMaxSize = 768`
pixels, every colour and every intensity `c` in `[0,1]`, `draw_shaded_triangle` with the
intensity `c` at the three vertices makes exactly the calls `draw_pixel` of
`draw_filled_triangle` with the colour `color * c`, and so produces exactly the same canvas
(or fails exactly when it does). -/
theorem shaded_constant_eq_filled (canvas : Canvas) (p0 p1 p2 : Point2) (color : Color)
    (c : ℚ) (hc : is_normalized c = true)
    (hw : ∀ x_left x_right tag,
      interpolate_points (sort_points_by_y p0 p1 p2).1 (sort_points_by_y p0 p1 p2).2.1
        (sort_points_by_y p0 p1 p2).2.2 = some (x_left, x_right, tag) →
      ∀ (k xl xr : Int), x_left.get k = some xl → x_right.get k = some xr →
        xr - xl + 1 ≤ (kMaxSize : Int)) :
    draw_shaded_triangle_pixels p0 c p1 c p2 c color =
      draw_filled_triangle_pixels p0 p1 p2 (color.mul c) ∧
    draw_shaded_triangle canvas p0 c p1 c p2 c color =
      draw_filled_triangle canvas p0 p1 p2 (color.mul c) := by
  have hpix : draw_shaded_triangle_pixels p0 c p1 c p2 c color =
      draw_filled_triangle_pixels p0 p1 p2 (color.mul c) := by
    have hnorm : (is_normalized c && is_normalized c && is_normalized c) = true := by
      rw [hc]
      rfl
    have hsort := sort_points_by_y_eq_bundles (p0, c) (p1, c) (p2, c)
    simp only [] at hsort
    obtain ⟨hs0, hs1, hs2⟩ := sort_point_bundles_by_y_forall
      (fun b : Point2 × ℚ => b.2 = c) (p0, c) (p1, c) (p2, c) rfl rfl rfl
    obtain ⟨h01, h12⟩ := sort_point_bundles_by_y_sorted (p0, c) (p1, c) (p2, c)
    rw [hsort] at hw
    simp only [] at hw
    cases hpts : interpolate_points (sort_point_bundles_by_y (p0, c) (p1, c) (p2, c)).1.1
        (sort_point_bundles_by_y (p0, c) (p1, c) (p2, c)).2.1.1
        (sort_point_bundles_by_y (p0, c) (p1, c) (p2, c)).2.2.1 with
    | none =>
      unfold draw_shaded_triangle_pixels draw_filled_triangle_pixels
      rw [if_pos hnorm, hsort]
      simp only []
      rw [hpts]
      rfl
    | some edges =>
      obtain ⟨x_left, x_right, tag⟩ := edges
      obtain ⟨i_left, i_right, hatt⟩ := interpolate_attributes_of_points _ _ _
        (sort_point_bundles_by_y (p0, c) (p1, c) (p2, c)).1.2
        (sort_point_bundles_by_y (p0, c) (p1, c) (p2, c)).2.1.2
        (sort_point_bundles_by_y (p0, c) (p1, c) (p2, c)).2.2.2 x_left x_right tag hpts
      obtain ⟨hsl, hsr⟩ := interpolate_points_sizes _ _ _ h01 h12 x_left x_right tag hpts
      obtain ⟨hal, har⟩ := interpolate_attributes_sizes _ _ _ h01 h12 _ _ _ tag i_left i_right
        hatt
      have hbounds := interpolate_attributes_bounds c c _ _ _ _ _ _
        ⟨hs0.ge, hs0.le⟩ ⟨hs1.ge, hs1.le⟩ ⟨hs2.ge, hs2.le⟩ tag i_left i_right hatt
      rw [draw_shaded_triangle_pixels_eq p0 c p1 c p2 c color hnorm x_left x_right tag
        i_left i_right hpts hatt]
      have hfilled : draw_filled_triangle_pixels p0 p1 p2 (color.mul c) =
          for_each_concat (draw_filled_triangle_row x_left x_right
            (sort_point_bundles_by_y (p0, c) (p1, c) (p2, c)).1.1 (color.mul c))
            (int_range (sort_point_bundles_by_y (p0, c) (p1, c) (p2, c)).1.1.y
              (sort_point_bundles_by_y (p0, c) (p1, c) (p2, c)).2.2.1.y) := by
        unfold draw_filled_triangle_pixels
        rw [hsort]
        simp only []
        rw [hpts]
        rfl
      rw [hfilled]
      apply for_each_concat_congr
      intro y hy
      rw [mem_int_range] at hy
      obtain ⟨xl, hxl⟩ := buffer_get_of_lt x_left
        (y - (sort_point_bundles_by_y (p0, c) (p1, c) (p2, c)).1.1.y) (by omega) (by omega)
      obtain ⟨xr, hxr⟩ := buffer_get_of_lt x_right
        (y - (sort_point_bundles_by_y (p0, c) (p1, c) (p2, c)).1.1.y) (by omega) (by omega)
      obtain ⟨il, hil⟩ := buffer_get_of_lt i_left
        (y - (sort_point_bundles_by_y (p0, c) (p1, c) (p2, c)).1.1.y) (by omega) (by omega)
      obtain ⟨ir, hir⟩ := buffer_get_of_lt i_right
        (y - (sort_point_bundles_by_y (p0, c) (p1, c) (p2, c)).1.1.y) (by omega) (by omega)
      have hilc : il = c := by
        have := hbounds.1 il (buffer_get_mem _ _ _ hil)
        exact le_antisymm this.2 this.1
      have hirc : ir = c := by
        have := hbounds.2 ir (buffer_get_mem _ _ _ hir)
        exact le_antisymm this.2 this.1
      rw [hilc] at hil
      rw [hirc] at hir
      exact draw_shaded_triangle_row_constant _ _ _ _ _ _ c ((is_normalized_iff c).mp hc).2 y
        xl xr hxl hxr hil hir (hw x_left x_right tag hpts _ xl xr hxl hxr)
  refine ⟨hpix, ?_⟩
  unfold draw_shaded_triangle draw_filled_triangle
  rw [hpix]

/-- C26, instantiated: the triangle `(0,0), (4,2), (-2,3)` with the intensity `1/2` and
the colour gray on a white `8 x 8` canvas; its scanlines run from `x_left = [0, 0, -1, -2]`
to `x_right = [0, 2, 4, -2]`. -/
theorem shaded_constant_eq_filled_witness :
    draw_shaded_triangle ⟨List.replicate 64 ⟨255, 255, 255, 255⟩, ⟨8, 8⟩⟩
        ⟨0, 0⟩ (1 / 2) ⟨4, 2⟩ (1 / 2) ⟨-2, 3⟩ (1 / 2) Color.kGray =
      draw_filled_triangle ⟨List.replicate 64 ⟨255, 255, 255, 255⟩, ⟨8, 8⟩⟩
        ⟨0, 0⟩ ⟨4, 2⟩ ⟨-2, 3⟩ (Color.kGray.mul (1 / 2)) ∧
    (draw_filled_triangle ⟨List.replicate 64 ⟨255, 255, 255, 255⟩, ⟨8, 8⟩⟩
        ⟨0, 0⟩ ⟨4, 2⟩ ⟨-2, 3⟩ (Color.kGray.mul (1 / 2))).isSome = true := by
  refine ⟨(shaded_constant_eq_filled ⟨List.replicate 64 ⟨255, 255, 255, 255⟩, ⟨8, 8⟩⟩
    ⟨0, 0⟩ ⟨4, 2⟩ ⟨-2, 3⟩ Color.kGray (1 / 2) (by decide!) ?_).2, by decide!⟩
  intro x_left x_right tag h k xl xr hxl hxr
  have hpts : interpolate_points (sort_points_by_y ⟨0, 0⟩ ⟨4, 2⟩ ⟨-2, 3⟩).1
      (sort_points_by_y ⟨0, 0⟩ ⟨4, 2⟩ ⟨-2, 3⟩).2.1 (sort_points_by_y ⟨0, 0⟩ ⟨4, 2⟩ ⟨-2, 3⟩).2.2
      = some (⟨[0, 0, -1, -2]⟩, ⟨[0, 2, 4, -2]⟩, LeftSide.k02) := by decide!
  rw [hpts] at h
  simp only [Option.some.injEq, Prod.mk.injEq] at h
  obtain ⟨hl, hr, _⟩ := h
  subst hl hr
  have h1 := buffer_get_mem _ _ _ hxl
  have h2 := buffer_get_mem _ _ _ hxr
  simp only [List.mem_cons, List.mem_singleton, List.not_mem_nil, or_false] at h1 h2
  unfold kMaxSize
  omega

/-! ## C22: scenario D, the brightness along the edges of a shaded triangle -/

/-- The first sample of a segment of interpolated intensities is the left intensity. -/
theorem segment_first (xl xr : Int) (il ir : ℚ) (seg : Buffer ℚ)
    (hseg : interpolate xl il xr ir = some seg) (h : xl ≤ xr) :
    seg.get (xl - xl) = some il := by
  have hsize := (interpolate_size_eq xl xr il ir seg hseg).1
  have h0 : 0 < seg.size := by omega
  have hget := (interpolate_rat_getElem xl xr il ir seg hseg 0 h0).2
  have e : xl - xl = ((0 : Nat) : Int) := by simp
  rw [e, buffer_get_natCast seg 0 h0, hget]
  simp

/-- The last sample of a segment of interpolated intensities that spans more than one pixel
is the right intensity. -/
theorem segment_last (xl xr : Int) (il ir : ℚ) (seg : Buffer ℚ)
    (hseg : interpolate xl il xr ir = some seg) (h : xl < xr) :
    seg.get (xr - xl) = some ir := by
  have hsize := (interpolate_size_eq xl xr il ir seg hseg).1
  have hk : (xr - xl).toNat < seg.size := by omega
  have hget := (interpolate_rat_getElem xl xr il ir seg hseg (xr - xl).toNat hk).2
  have hg : seg.get (((xr - xl).toNat : Nat) : Int) = seg.m_storage[(xr - xl).toNat]? :=
    buffer_get_natCast seg _ hk
  have e : (((xr - xl).toNat : Nat) : Int) = xr - xl := by omega
  have hq : (((xr - xl).toNat : Nat) : ℚ) = ((xr - xl : Int) : ℚ) := by
    exact_mod_cast congrArg (fun z : Int => (z : ℚ)) e
  have hne : ((xr - xl : Int) : ℚ) ≠ 0 := by
    have : xr - xl ≠ 0 := by omega
    exact_mod_cast this
  rw [e] at hg
  rw [hg, hget, hq]
  congr 1
  generalize ((xr - xl : Int) : ℚ) = n at hne
  field_simp

/-- The samples of `interpolate` on floats are ordered as the end values are. -/
theorem interpolate_rat_monotone (i0 i1 : Int) (v0 v1 : ℚ) (b : Buffer ℚ)
    (hb : interpolate i0 v0 i1 v1 = some b) (k k' : Nat) (hkk : k ≤ k') (a a' : ℚ)
    (ha : b.m_storage[k]? = some a) (ha' : b.m_storage[k']? = some a') :
    (v0 ≤ v1 → a ≤ a') ∧ (v1 ≤ v0 → a' ≤ a) := by
  have hk' : k' < b.size := by
    by_contra hcon
    rw [List.getElem?_eq_none (by unfold Buffer.size at hcon; omega)] at ha'
    exact Option.noConfusion ha'
  obtain ⟨hle', hget'⟩ := interpolate_rat_getElem i0 i1 v0 v1 b hb k' hk'
  obtain ⟨_, hget⟩ := interpolate_rat_getElem i0 i1 v0 v1 b hb k (by omega)
  rw [hget] at ha
  rw [hget'] at ha'
  simp only [Option.some.injEq] at ha ha'
  rw [← ha, ← ha']
  have hkq : (k : ℚ) ≤ (k' : ℚ) := by exact_mod_cast hkk
  have hn : (0 : ℚ) ≤ ((i1 - i0 : Int) : ℚ) := by
    have : 0 ≤ i1 - i0 := by omega
    exact_mod_cast this
  constructor
  · intro hv
    have hs : 0 ≤ (v1 - v0) / ((i1 - i0 : Int) : ℚ) := div_nonneg (by linarith) hn
    nlinarith
  · intro hv
    have hs : (v1 - v0) / ((i1 - i0 : Int) : ℚ) ≤ 0 := div_nonpos_of_nonpos_of_nonneg
      (by linarith) hn
    nlinarith

/-- The samples of the merged short edges, on floats, are those of the edge `p0 → p1` below
the offset of `p1` and those of the edge `p1 → p2` from that offset on. -/
theorem merged_short_edges_rat_getElem (q0 q1 q2 : Point2) (h01 : q0.y ≤ q1.y)
    (a0 a1 a2 : ℚ) (m : Buffer ℚ)
    (hm : merged_short_edges q0 q1 q2 a0 a1 a2 = some m) :
    ∃ a01 a12, interpolate q0.y a0 q1.y a1 = some a01 ∧
      interpolate q1.y a1 q2.y a2 = some a12 ∧
      ∀ k : Nat, m.m_storage[k]? =
        if (k : Int) < q1.y - q0.y then a01.m_storage[k]?
        else a12.m_storage[k - (q1.y - q0.y).toNat]? := by
  obtain ⟨a01, a12, e01, e12, hpos, -, rfl⟩ :=
    (merged_short_edges_eq_some_iff q0 q1 q2 a0 a1 a2 m).mp hm
  refine ⟨a01, a12, e01, e12, ?_⟩
  intro k
  have s01 := (interpolate_size_eq _ _ _ _ _ e01).1
  simp only [Buffer.size] at s01
  have hlen : a01.m_storage.dropLast.length = (q1.y - q0.y).toNat := by
    rw [List.length_dropLast, s01]
    omega
  by_cases hlt : (k : Int) < q1.y - q0.y
  · rw [if_pos hlt]
    have hk1 : k < a01.m_storage.dropLast.length := by omega
    have hk2 : k < a01.m_storage.length - 1 := by omega
    simp only []
    rw [List.getElem?_append_left hk1, List.getElem?_dropLast, if_pos hk2]
  · rw [if_neg hlt]
    have hk1 : a01.m_storage.dropLast.length ≤ k := by omega
    simp only []
    rw [List.getElem?_append_right hk1, hlen]

/-- The intensities along the merged short edges `p0 → p1 → p2` are ordered as the vertex
intensities are: non-increasing when `i0 >= i1 >= i2`, non-decreasing when
`i0 <= i1 <= i2`, non-decreasing up to the offset of `p1` when `i0 <= i1`, and
non-increasing from the offset of `p1` on when `i1 >= i2`. -/
theorem merged_intensity_monotone (q0 q1 q2 : Point2) (h01 : q0.y ≤ q1.y)
    (j0 j1 j2 : ℚ) (m : Buffer ℚ) (hm : merged_short_edges q0 q1 q2 j0 j1 j2 = some m)
    (k k' : Nat) (hkk : k ≤ k') (a a' : ℚ) (ha : m.m_storage[k]? = some a)
    (ha' : m.m_storage[k']? = some a') :
    (j1 ≤ j0 → j2 ≤ j1 → a' ≤ a) ∧ (j0 ≤ j1 → j1 ≤ j2 → a ≤ a') ∧
    (j0 ≤ j1 → (k' : Int) ≤ q1.y - q0.y → a ≤ a') ∧
    (j2 ≤ j1 → q1.y - q0.y ≤ (k : Int) → a' ≤ a) := by
  obtain ⟨a01, a12, e01, e12, hget⟩ := merged_short_edges_rat_getElem q0 q1 q2 h01 j0 j1 j2 m hm
  rw [hget k] at ha
  rw [hget k'] at ha'
  have hfirst : ∀ v, a12.m_storage[0]? = some v → v = j1 := by
    intro v hv
    have hlt : 0 < a12.size := by
      by_contra hcon
      rw [List.getElem?_eq_none (by unfold Buffer.size at hcon; omega)] at hv
      exact Option.noConfusion hv
    have := (interpolate_rat_getElem q1.y q2.y j1 j2 a12 e12 0 hlt).2
    rw [this] at hv
    simp only [Nat.cast_zero, zero_mul, add_zero, Option.some.injEq] at hv
    exact hv.symm
  by_cases hk' : (k' : Int) < q1.y - q0.y
  · -- both samples on the edge `p0 → p1`
    have hk : (k : Int) < q1.y - q0.y := by omega
    rw [if_pos hk] at ha
    rw [if_pos hk'] at ha'
    have hmono := interpolate_rat_monotone q0.y q1.y j0 j1 a01 e01 k k' hkk a a' ha ha'
    refine ⟨fun h _ => hmono.2 h, fun h _ => hmono.1 h, fun h _ => hmono.1 h, ?_⟩
    intro _ hcon
    omega
  · rw [if_neg hk'] at ha'
    by_cases hk : (k : Int) < q1.y - q0.y
    · -- the first sample on the edge `p0 → p1`, the second on the edge `p1 → p2`
      rw [if_pos hk] at ha
      refine ⟨?_, ?_, ?_, ?_⟩
      · intro h10 h21
        have hb1 := interpolate_rat_bounds j1 j0 q0.y q1.y j0 j1 ⟨h10, le_refl _⟩
          ⟨le_refl _, h10⟩ a01 e01 a (List.getElem?_mem ha)
        have hb2 := interpolate_rat_bounds j2 j1 q1.y q2.y j1 j2 ⟨h21, le_refl _⟩
          ⟨le_refl _, h21⟩ a12 e12 a' (List.getElem?_mem ha')
        linarith [hb1.1, hb2.2]
      · intro h01' h12'
        have hb1 := interpolate_rat_bounds j0 j1 q0.y q1.y j0 j1 ⟨le_refl _, h01'⟩
          ⟨h01', le_refl _⟩ a01 e01 a (List.getElem?_mem ha)
        have hb2 := interpolate_rat_bounds j1 j2 q1.y q2.y j1 j2 ⟨le_refl _, h12'⟩
          ⟨h12', le_refl _⟩ a12 e12 a' (List.getElem?_mem ha')
        linarith [hb1.2, hb2.1]
      · intro h01' hle
        have hidx : k' - (q1.y - q0.y).toNat = 0 := by omega
        rw [hidx] at ha'
        have hb1 := interpolate_rat_bounds j0 j1 q0.y q1.y j0 j1 ⟨le_refl _, h01'⟩
          ⟨h01', le_refl _⟩ a01 e01 a (List.getElem?_mem ha)
        rw [hfirst a' ha']
        exact hb1.2
      · intro _ hcon
        omega
    · -- both samples on the edge `p1 → p2`
      rw [if_neg hk] at ha
      have hmono := interpolate_rat_monotone q1.y q2.y j1 j2 a12 e12
        (k - (q1.y - q0.y).toNat) (k' - (q1.y - q0.y).toNat) (by omega) a a' ha ha'
      refine ⟨fun _ h => hmono.2 h, fun _ h => hmono.1 h, ?_, fun h _ => hmono.2 h⟩
      intro _ hle
      have hidx : k' - (q1.y - q0.y).toNat = k - (q1.y - q0.y).toNat := by omega
      rw [hidx] at ha'
      rw [ha] at ha'
      exact le_of_eq (Option.some.inj ha')

/-- The sorted bundles are the given bundles in one of the six orders. -/
theorem sort_point_bundles_by_y_perm {A : Type} (b0 b1 b2 : Point2 × A) :
    sort_point_bundles_by_y b0 b1 b2 = (b0, b1, b2) ∨
    sort_point_bundles_by_y b0 b1 b2 = (b0, b2, b1) ∨
    sort_point_bundles_by_y b0 b1 b2 = (b1, b0, b2) ∨
    sort_point_bundles_by_y b0 b1 b2 = (b1, b2, b0) ∨
    sort_point_bundles_by_y b0 b1 b2 = (b2, b0, b1) ∨
    sort_point_bundles_by_y b0 b1 b2 = (b2, b1, b0) := by
  unfold sort_point_bundles_by_y
  by_cases c1 : b1.1.y < b0.1.y <;> by_cases c2 : b2.1.y < b0.1.y <;>
    by_cases c3 : b2.1.y < b1.1.y <;> by_cases c5 : b0.1.y < b1.1.y <;>
    by_cases c6 : b1.1.y < b2.1.y <;> by_cases c7 : b0.1.y < b2.1.y <;>
    simp [c1, c2, c3, c5, c6, c7]

/-- The intensities along an edge sequence of a triangle whose sorted vertex intensities are
`1, 1/5, 1/5` in some order: non-increasing with the scanline when the bottom vertex carries
the `1`, non-decreasing when the top vertex does, and non-decreasing up to the middle vertex
and non-increasing from it on when the middle vertex does. -/
theorem edge_intensity_monotone (q0 q1 q2 : Point2) (h01 : q0.y ≤ q1.y) (j0 j1 j2 : ℚ)
    (hj : (j0 = 1 ∧ j1 = 1 / 5 ∧ j2 = 1 / 5) ∨ (j0 = 1 / 5 ∧ j1 = 1 ∧ j2 = 1 / 5) ∨
      (j0 = 1 / 5 ∧ j1 = 1 / 5 ∧ j2 = 1))
    (buf : Buffer ℚ)
    (hbuf : long_edge q0 q2 j0 j2 = some buf ∨
      merged_short_edges q0 q1 q2 j0 j1 j2 = some buf)
    (k k' : Int) (a a' : ℚ) (hkk : k ≤ k') (ha : buf.get k = some a)
    (ha' : buf.get k' = some a') :
    (j0 = 1 → a' ≤ a) ∧ (j2 = 1 → a ≤ a') ∧
    (j1 = 1 → (k' ≤ q1.y - q0.y → a ≤ a') ∧ (q1.y - q0.y ≤ k → a' ≤ a)) := by
  obtain ⟨hk0, hsa⟩ := (buffer_get_eq_some_iff buf k a).mp ha
  obtain ⟨hk0', hsa'⟩ := (buffer_get_eq_some_iff buf k' a').mp ha'
  have hnat : k.toNat ≤ k'.toNat := by omega
  rcases hbuf with hl | hm
  · unfold long_edge at hl
    have hmono := interpolate_rat_monotone q0.y q2.y j0 j2 buf hl k.toNat k'.toNat hnat a a'
      hsa hsa'
    rcases hj with ⟨e0, e1, e2⟩ | ⟨e0, e1, e2⟩ | ⟨e0, e1, e2⟩ <;> subst e0 e1 e2
    · exact ⟨fun _ => hmono.2 (by norm_num), fun h => absurd h (by norm_num),
        fun h => absurd h (by norm_num)⟩
    · exact ⟨fun h => absurd h (by norm_num), fun h => absurd h (by norm_num),
        fun _ => ⟨fun _ => hmono.1 (le_refl _), fun _ => hmono.2 (le_refl _)⟩⟩
    · exact ⟨fun h => absurd h (by norm_num), fun _ => hmono.1 (by norm_num),
        fun h => absurd h (by norm_num)⟩
  · obtain ⟨m1, m2, m3, m4⟩ := merged_intensity_monotone q0 q1 q2 h01 j0 j1 j2 buf hm
      k.toNat k'.toNat hnat a a' hsa hsa'
    rcases hj with ⟨e0, e1, e2⟩ | ⟨e0, e1, e2⟩ | ⟨e0, e1, e2⟩ <;> subst e0 e1 e2
    · exact ⟨fun _ => m1 (by norm_num) (le_refl _), fun h => absurd h (by norm_num),
        fun h => absurd h (by norm_num)⟩
    · exact ⟨fun h => absurd h (by norm_num), fun h => absurd h (by norm_num),
        fun _ => ⟨fun h => m3 (by norm_num) (by omega),
          fun h => m4 (by norm_num) (by omega)⟩⟩
    · exact ⟨fun h => absurd h (by norm_num), fun _ => m2 (le_refl _) (by norm_num),
        fun h => absurd h (by norm_num)⟩

/-- What `draw_shaded_triangle` writes at a pixel of a scanline, knowing the interpolated
intensity at that pixel. -/
theorem shaded_pixel_iff (x_left x_right : Buffer Int) (i_left i_right : Buffer ℚ)
    (q0 q2 : Point2) (color : Color) (pixels : List (Point2 × Color))
    (hpix : for_each_concat (draw_shaded_triangle_row x_left x_right i_left i_right q0 color)
      (int_range q0.y q2.y) = some pixels)
    (y : Int) (hy : q0.y ≤ y ∧ y ≤ q2.y) (xl xr : Int) (il ir : ℚ) (seg : Buffer ℚ)
    (hxl : x_left.get (y - q0.y) = some xl) (hxr : x_right.get (y - q0.y) = some xr)
    (hil : i_left.get (y - q0.y) = some il) (hir : i_right.get (y - q0.y) = some ir)
    (hseg : interpolate xl il xr ir = some seg)
    (x : Int) (s : ℚ) (hx0 : xl ≤ x) (hx1 : x ≤ xr) (hs : seg.get (x - xl) = some s)
    (hs1 : s ≤ 1) (c : Color) :
    ((⟨x, y⟩ : Point2), c) ∈ pixels ↔ c = color.mul s := by
  obtain ⟨hrows, hmem⟩ := for_each_concat_mem _ _ _ hpix
  obtain ⟨calls, hcalls⟩ := hrows y ((mem_int_range _ _ _).mpr hy)
  obtain ⟨xl', xr', il', ir', seg', hxl', hxr', hil', hir', hseg', hrow⟩ :=
    draw_shaded_triangle_row_mem _ _ _ _ _ _ _ _ hcalls
  rw [hxl] at hxl'
  rw [hxr] at hxr'
  rw [hil] at hil'
  rw [hir] at hir'
  simp only [Option.some.injEq] at hxl' hxr' hil' hir'
  subst hxl' hxr' hil' hir'
  rw [hseg] at hseg'
  simp only [Option.some.injEq] at hseg'
  subst hseg'
  rw [hmem]
  constructor
  · rintro ⟨y0, _, calls0, hcalls0, hin⟩
    obtain ⟨_, _, _, _, _, _, _, _, _, _, hrow0⟩ :=
      draw_shaded_triangle_row_mem _ _ _ _ _ _ _ _ hcalls0
    have hy0 : y = y0 := ((hrow0 ⟨x, y⟩ c).mp hin).1
    subst hy0
    rw [hcalls] at hcalls0
    simp only [Option.some.injEq] at hcalls0
    subst hcalls0
    obtain ⟨_, _, _, s', hs', hc⟩ := (hrow ⟨x, y⟩ c).mp hin
    simp only [] at hs'
    rw [hs] at hs'
    simp only [Option.some.injEq] at hs'
    subst hs'
    rw [hc, min_eq_left hs1]
  · intro hc
    refine ⟨y, (mem_int_range _ _ _).mpr hy, calls, hcalls, ?_⟩
    exact (hrow ⟨x, y⟩ c).mpr ⟨rfl, hx0, hx1, s, hs, by rw [hc, min_eq_left hs1]⟩

/-- The bytes that `draw_shaded_triangle` writes, computed in single precision, for the thin
triangle `(0,0), (-1,5), (0,10)` with the intensities `1.0f, 0.2f, 0.2f` and the colour
gray. -/
theorem shaded_thin_triangle_bytes :
    (binary32.draw_shaded_triangle_pixels ⟨0, 0⟩ 1 ⟨-1, 5⟩ (Float32.round (1 / 5)) ⟨0, 10⟩
        (Float32.round (1 / 5)) binary32.Color.kGray).map
      (fun pixels => pixels.map fun pc => (pc.1, binary32.Color.to_rgba_u8 pc.2)) =
      some [(⟨0, 0⟩, some ⟨127, 127, 127, 255⟩), (⟨0, 1⟩, some ⟨107, 107, 107, 214⟩),
        (⟨0, 2⟩, some ⟨86, 86, 86, 173⟩), (⟨0, 3⟩, some ⟨66, 66, 66, 132⟩),
        (⟨0, 4⟩, some ⟨45, 45, 45, 91⟩), (⟨-1, 5⟩, some ⟨25, 25, 25, 51⟩),
        (⟨0, 5⟩, some ⟨76, 76, 76, 153⟩), (⟨0, 6⟩, some ⟨25, 25, 25, 51⟩),
        (⟨0, 7⟩, some ⟨25, 25, 25, 51⟩), (⟨0, 8⟩, some ⟨25, 25, 25, 51⟩),
        (⟨0, 9⟩, some ⟨25, 25, 25, 51⟩), (⟨0, 10⟩, some ⟨25, 25, 25, 51⟩)] := by
  decide!

/-- C22 as stated fails: the thin triangle `(0,0), (-1,5), (0,10)` with the intensities
`1, 1/5, 1/5` and the colour gray.  The edge from `(0,0)` (intensity `1`) to `(0,10)` is the
long edge, at `x = 0` on every scanline, and it is the right edge.  The scanlines `y = 0..4`
are one pixel wide, and their single pixel `(0,y)` is written with the intensity of the left
edge, `1 - 4y/25`: the pixel `(0,4)` gets the intensity `9/25` (red channel `9/50`, byte
`45`).  The scanline `y = 5` is two pixels wide and its right pixel `(0,5)` gets the
intensity `3/5` of the long edge (red channel `3/10`, byte `76`): the brightness on the
boundary pixels of that edge increases from `y = 4` to `y = 5`, moving away from the
vertex of intensity `1`.  The bytes are the same when every operation is rounded to single
precision: `45` at `(0,4)` and `76` at `(0,5)`. -/
theorem shaded_monotone_counterexample :
    long_edge ⟨0, 0⟩ ⟨0, 10⟩ (0 : Int) 0 = some ⟨[0, 0, 0, 0, 0, 0, 0, 0, 0, 0, 0]⟩ ∧
    interpolate_points ⟨0, 0⟩ ⟨-1, 5⟩ ⟨0, 10⟩ =
      some (⟨[0, 0, 0, 0, 0, -1, 0, 0, 0, 0, 0]⟩, ⟨[0, 0, 0, 0, 0, 0, 0, 0, 0, 0, 0]⟩,
        LeftSide.k01_12) ∧
    draw_shaded_triangle_pixels ⟨0, 0⟩ 1 ⟨-1, 5⟩ (1 / 5) ⟨0, 10⟩ (1 / 5) Color.kGray =
      some [(⟨0, 0⟩, ⟨1 / 2, 1 / 2, 1 / 2, 1⟩),
        (⟨0, 1⟩, ⟨21 / 50, 21 / 50, 21 / 50, 21 / 25⟩),
        (⟨0, 2⟩, ⟨17 / 50, 17 / 50, 17 / 50, 17 / 25⟩),
        (⟨0, 3⟩, ⟨13 / 50, 13 / 50, 13 / 50, 13 / 25⟩),
        (⟨0, 4⟩, ⟨9 / 50, 9 / 50, 9 / 50, 9 / 25⟩),
        (⟨-1, 5⟩, ⟨1 / 10, 1 / 10, 1 / 10, 1 / 5⟩),
        (⟨0, 5⟩, ⟨3 / 10, 3 / 10, 3 / 10, 3 / 5⟩),
        (⟨0, 6⟩, ⟨1 / 10, 1 / 10, 1 / 10, 1 / 5⟩),
        (⟨0, 7⟩, ⟨1 / 10, 1 / 10, 1 / 10, 1 / 5⟩),
        (⟨0, 8⟩, ⟨1 / 10, 1 / 10, 1 / 10, 1 / 5⟩),
        (⟨0, 9⟩, ⟨1 / 10, 1 / 10, 1 / 10, 1 / 5⟩),
        (⟨0, 10⟩, ⟨1 / 10, 1 / 10, 1 / 10, 1 / 5⟩)] ∧
    Color.to_rgba_u8 ⟨9 / 50, 9 / 50, 9 / 50, 9 / 25⟩ = some ⟨45, 45, 45, 91⟩ ∧
    Color.to_rgba_u8 ⟨3 / 10, 3 / 10, 3 / 10, 3 / 5⟩ = some ⟨76, 76, 76, 153⟩ ∧
    binary32.interpolate_points ⟨0, 0⟩ ⟨-1, 5⟩ ⟨0, 10⟩ =
      some (⟨[0, 0, 0, 0, 0, -1, 0, 0, 0, 0, 0]⟩, ⟨[0, 0, 0, 0, 0, 0, 0, 0, 0, 0, 0]⟩,
        LeftSide.k01_12) ∧
    (binary32.draw_shaded_triangle_pixels ⟨0, 0⟩ 1 ⟨-1, 5⟩ (Float32.round (1 / 5)) ⟨0, 10⟩
        (Float32.round (1 / 5)) binary32.Color.kGray).map
      (fun pixels => pixels.map fun pc => (pc.1, binary32.Color.to_rgba_u8 pc.2)) =
      some [(⟨0, 0⟩, some ⟨127, 127, 127, 255⟩), (⟨0, 1⟩, some ⟨107, 107, 107, 214⟩),
        (⟨0, 2⟩, some ⟨86, 86, 86, 173⟩), (⟨0, 3⟩, some ⟨66, 66, 66, 132⟩),
        (⟨0, 4⟩, some ⟨45, 45, 45, 91⟩), (⟨-1, 5⟩, some ⟨25, 25, 25, 51⟩),
        (⟨0, 5⟩, some ⟨76, 76, 76, 153⟩), (⟨0, 6⟩, some ⟨25, 25, 25, 51⟩),
        (⟨0, 7⟩, some ⟨25, 25, 25, 51⟩), (⟨0, 8⟩, some ⟨25, 25, 25, 51⟩),
        (⟨0, 9⟩, some ⟨25, 25, 25, 51⟩), (⟨0, 10⟩, some ⟨25, 25, 25, 51⟩)] := by
  refine ⟨by decide!, by decide!, by decide!, by decide!, by decide!, by decide!,
    shaded_thin_triangle_bytes⟩

/-- The boundary pixels of a shaded triangle and the intensities along its edges, under
exact arithmetic.  For `draw_shaded_triangle` with the vertex intensities `1, 1/5, 1/5`
(whichever vertex carries the `1`) and the colour gray, let `(q0, j0), (q1, j1), (q2, j2)`
be the vertices sorted by `y`, `x_left`, `x_right` the edge sequences and `i_left`,
`i_right` the intensities along them.

* On every scanline with `x_left <= x_right` the left boundary pixel is written with the
  colour `gray * i_left[y]` and, when the scanline is more than one pixel wide
  (`x_left < x_right`), the right boundary pixel is written with `gray * i_right[y]` (on a
  scanline of one pixel the single pixel gets the intensity of the left edge).
* The intensities `i_left` and `i_right` are monotonically decreasing (never increasing)
  from scanline to scanline as one moves away from the vertex of intensity `1`: with the
  scanline when that vertex is the bottom one, against it when it is the top one, and in
  both directions from the scanline of the middle vertex when it is the middle one.

So the brightness written on the boundary pixels of the two edges adjacent to the vertex of
intensity `1` is monotonically decreasing away from that vertex over the scanlines that are
more than one pixel wide (over exact arithmetic). -/
theorem shaded_boundary_pixels (p0 p1 p2 : Point2) (i0 i1 i2 : ℚ)
    (q0 q1 q2 : Point2) (j0 j1 j2 : ℚ)
    (hint : (i0 = 1 ∧ i1 = 1 / 5 ∧ i2 = 1 / 5) ∨ (i0 = 1 / 5 ∧ i1 = 1 ∧ i2 = 1 / 5) ∨
      (i0 = 1 / 5 ∧ i1 = 1 / 5 ∧ i2 = 1))
    (hsort : sort_point_bundles_by_y (p0, i0) (p1, i1) (p2, i2) =
      ((q0, j0), (q1, j1), (q2, j2)))
    (x_left x_right : Buffer Int) (tag : LeftSide) (i_left i_right : Buffer ℚ)
    (pixels : List (Point2 × Color))
    (hpts : interpolate_points q0 q1 q2 = some (x_left, x_right, tag))
    (hatt : interpolate_attributes q0 q1 q2 j0 j1 j2 tag = some (i_left, i_right))
    (hpix : draw_shaded_triangle_pixels p0 i0 p1 i1 p2 i2 Color.kGray = some pixels) :
    ((j0 = 1 ∧ j1 = 1 / 5 ∧ j2 = 1 / 5) ∨ (j0 = 1 / 5 ∧ j1 = 1 ∧ j2 = 1 / 5) ∨
      (j0 = 1 / 5 ∧ j1 = 1 / 5 ∧ j2 = 1)) ∧
    (∀ (y xl xr : Int) (il ir : ℚ),
      x_left.get (y - q0.y) = some xl → x_right.get (y - q0.y) = some xr →
      i_left.get (y - q0.y) = some il → i_right.get (y - q0.y) = some ir → xl ≤ xr →
      (∀ c, ((⟨xl, y⟩ : Point2), c) ∈ pixels ↔ c = Color.kGray.mul il) ∧
      (xl < xr → ∀ c, ((⟨xr, y⟩ : Point2), c) ∈ pixels ↔ c = Color.kGray.mul ir)) ∧
    (∀ (k k' : Int) (a a' b b' : ℚ), k ≤ k' →
      i_left.get k = some a → i_left.get k' = some a' →
      i_right.get k = some b → i_right.get k' = some b' →
      (j0 = 1 → a' ≤ a ∧ b' ≤ b) ∧ (j2 = 1 → a ≤ a' ∧ b ≤ b') ∧
      (j1 = 1 → (k' ≤ q1.y - q0.y → a ≤ a' ∧ b ≤ b') ∧
        (q1.y - q0.y ≤ k → a' ≤ a ∧ b' ≤ b))) := by
  have hsorted := sort_point_bundles_by_y_sorted (p0, i0) (p1, i1) (p2, i2)
  rw [hsort] at hsorted
  obtain ⟨h01, h12⟩ := hsorted
  simp only [] at h01 h12
  have hj : (j0 = 1 ∧ j1 = 1 / 5 ∧ j2 = 1 / 5) ∨ (j0 = 1 / 5 ∧ j1 = 1 ∧ j2 = 1 / 5) ∨
      (j0 = 1 / 5 ∧ j1 = 1 / 5 ∧ j2 = 1) := by
    have hperm := sort_point_bundles_by_y_perm (p0, i0) (p1, i1) (p2, i2)
    rw [hsort] at hperm
    simp only [Prod.mk.injEq] at hperm
    rcases hperm with h | h | h | h | h | h <;>
      obtain ⟨⟨-, e0⟩, ⟨-, e1⟩, ⟨-, e2⟩⟩ := h <;> subst e0 e1 e2 <;> tauto
  have hnorm : (is_normalized i0 && is_normalized i1 && is_normalized i2) = true := by
    rcases hint with ⟨e0, e1, e2⟩ | ⟨e0, e1, e2⟩ | ⟨e0, e1, e2⟩ <;> subst e0 e1 e2 <;> decide!
  have hjb : (1 / 5 ≤ j0 ∧ j0 ≤ 1) ∧ (1 / 5 ≤ j1 ∧ j1 ≤ 1) ∧ (1 / 5 ≤ j2 ∧ j2 ≤ 1) := by
    rcases hj with ⟨e0, e1, e2⟩ | ⟨e0, e1, e2⟩ | ⟨e0, e1, e2⟩ <;> subst e0 e1 e2 <;> norm_num
  obtain ⟨hlb, hrb⟩ := interpolate_attributes_bounds (1 / 5) 1 q0 q1 q2 j0 j1 j2 hjb.1 hjb.2.1
    hjb.2.2 tag i_left i_right hatt
  refine ⟨hj, ?_, ?_⟩
  · -- what is written at the boundary pixels
    have hrun := draw_shaded_triangle_pixels_eq p0 i0 p1 i1 p2 i2 Color.kGray hnorm
      x_left x_right tag i_left i_right (by rw [hsort]; exact hpts) (by rw [hsort]; exact hatt)
    rw [hrun, hsort] at hpix
    simp only [] at hpix
    obtain ⟨hsl, _⟩ := interpolate_points_sizes q0 q1 q2 h01 h12 x_left x_right tag hpts
    intro y xl xr il ir hxl hxr hil hir hle
    have hy : q0.y ≤ y ∧ y ≤ q2.y := by
      have h1 := ((buffer_get_eq_some_iff x_left _ xl).mp hxl).1
      have h2 := (buffer_get_isSome_iff x_left (y - q0.y)).mp (by rw [hxl]; rfl)
      omega
    obtain ⟨calls, hcalls⟩ := (for_each_concat_mem _ _ _ hpix).1 y
      ((mem_int_range _ _ _).mpr hy)
    obtain ⟨xl', xr', il', ir', seg, hxl', hxr', hil', hir', hseg, _⟩ :=
      draw_shaded_triangle_row_mem _ _ _ _ _ _ _ _ hcalls
    rw [hxl] at hxl'
    rw [hxr] at hxr'
    rw [hil] at hil'
    rw [hir] at hir'
    simp only [Option.some.injEq] at hxl' hxr' hil' hir'
    subst hxl' hxr' hil' hir'
    constructor
    · intro c
      exact shaded_pixel_iff x_left x_right i_left i_right q0 q2 Color.kGray pixels hpix y hy
        xl xr il ir seg hxl hxr hil hir hseg xl il (le_refl _) hle
        (segment_first xl xr il ir seg hseg hle) (hlb il (buffer_get_mem _ _ _ hil)).2 c
    · intro hlt c
      exact shaded_pixel_iff x_left x_right i_left i_right q0 q2 Color.kGray pixels hpix y hy
        xl xr il ir seg hxl hxr hil hir hseg xr ir hle (le_refl _)
        (segment_last xl xr il ir seg hseg hlt) (hrb ir (buffer_get_mem _ _ _ hir)).2 c
  · -- the intensities along the two edge sequences
    obtain ⟨l, m, hl, hm, hcase⟩ :=
      (interpolate_attributes_eq_some_iff q0 q1 q2 j0 j1 j2 tag i_left i_right).mp hatt
    intro k k' a a' b b' hkk ha ha' hb hb'
    have hleft : long_edge q0 q2 j0 j2 = some i_left ∨
        merged_short_edges q0 q1 q2 j0 j1 j2 = some i_left := by
      rcases hcase with ⟨_, e, _⟩ | ⟨_, e, _⟩
      · exact Or.inl (e ▸ hl)
      · exact Or.inr (e ▸ hm)
    have hright : long_edge q0 q2 j0 j2 = some i_right ∨
        merged_short_edges q0 q1 q2 j0 j1 j2 = some i_right := by
      rcases hcase with ⟨_, _, e⟩ | ⟨_, _, e⟩
      · exact Or.inr (e ▸ hm)
      · exact Or.inl (e ▸ hl)
    obtain ⟨l1, l2, l3⟩ := edge_intensity_monotone q0 q1 q2 h01 j0 j1 j2 hj i_left hleft
      k k' a a' hkk ha ha'
    obtain ⟨r1, r2, r3⟩ := edge_intensity_monotone q0 q1 q2 h01 j0 j1 j2 hj i_right hright
      k k' b b' hkk hb hb'
    exact ⟨fun h => ⟨l1 h, r1 h⟩, fun h => ⟨l2 h, r2 h⟩,
      fun h => ⟨fun h' => ⟨(l3 h).1 h', (r3 h).1 h'⟩, fun h' => ⟨(l3 h).2 h', (r3 h).2 h'⟩⟩⟩

/-- C22, amended.  For `draw_shaded_triangle` with the vertex intensities `1, 1/5, 1/5`
(whichever vertex carries the `1`) and the colour gray, let `(q0, j0), (q1, j1), (q2, j2)`
be the vertices sorted by `y`, `x_left`, `x_right` the edge sequences, `i_left`, `i_right`
the intensities along them, and let a scanline be named by its offset `k = y - q0.y`.

* On every scanline with `x_left <= x_right` the left boundary pixel is written once, with
  the colour `gray * min(i_left[y], 1)`; on a scanline of one pixel this is the only pixel
  written, also where it lies on the right edge.
* The intensities `i_left` and `i_right` are monotonically decreasing (never increasing)
  from scanline to scanline as one moves away from the vertex of intensity `1`: with the
  scanline when that vertex is the bottom one, against it when it is the top one, and in
  both directions from the scanline of the middle vertex when it is the middle one.
* Over the scanlines that are more than one pixel wide (`x_left < x_right`), the colour
  written on the right boundary pixel is monotonically decreasing, channel by channel, as
  one moves away from the vertex of intensity `1` along an edge adjacent to it that lies on
  the right: the long edge when the tag is `k01_12`, else the short edge below the middle
  vertex (`k' <= q1.y - q0.y`) or above it (`q1.y - q0.y <= k`).

On a scanline with `x_left > x_right` nothing is written. -/
theorem shaded_edge_brightness_monotone (p0 p1 p2 : Point2) (i0 i1 i2 : ℚ)
    (q0 q1 q2 : Point2) (j0 j1 j2 : ℚ)
    (hint : (i0 = 1 ∧ i1 = 1 / 5 ∧ i2 = 1 / 5) ∨ (i0 = 1 / 5 ∧ i1 = 1 ∧ i2 = 1 / 5) ∨
      (i0 = 1 / 5 ∧ i1 = 1 / 5 ∧ i2 = 1))
    (hsort : sort_point_bundles_by_y (p0, i0) (p1, i1) (p2, i2) =
      ((q0, j0), (q1, j1), (q2, j2)))
    (x_left x_right : Buffer Int) (tag : LeftSide) (i_left i_right : Buffer ℚ)
    (pixels : List (Point2 × Color))
    (hpts : interpolate_points q0 q1 q2 = some (x_left, x_right, tag))
    (hatt : interpolate_attributes q0 q1 q2 j0 j1 j2 tag = some (i_left, i_right))
    (hpix : draw_shaded_triangle_pixels p0 i0 p1 i1 p2 i2 Color.kGray = some pixels) :
    ((j0 = 1 ∧ j1 = 1 / 5 ∧ j2 = 1 / 5) ∨ (j0 = 1 / 5 ∧ j1 = 1 ∧ j2 = 1 / 5) ∨
      (j0 = 1 / 5 ∧ j1 = 1 / 5 ∧ j2 = 1)) ∧
    (∀ (k xl xr : Int) (il : ℚ),
      x_left.get k = some xl → x_right.get k = some xr → i_left.get k = some il → xl ≤ xr →
      ∀ c, ((⟨xl, q0.y + k⟩ : Point2), c) ∈ pixels ↔ c = Color.kGray.mul (min il 1)) ∧
    (∀ (k k' : Int) (a a' b b' : ℚ), k ≤ k' →
      i_left.get k = some a → i_left.get k' = some a' →
      i_right.get k = some b → i_right.get k' = some b' →
      (j0 = 1 → a' ≤ a ∧ b' ≤ b) ∧ (j2 = 1 → a ≤ a' ∧ b ≤ b') ∧
      (j1 = 1 → (k' ≤ q1.y - q0.y → a ≤ a' ∧ b ≤ b') ∧
        (q1.y - q0.y ≤ k → a' ≤ a ∧ b' ≤ b))) ∧
    (∀ (k k' xl xr xl' xr' : Int) (c c' : Color), k ≤ k' →
      x_left.get k = some xl → x_right.get k = some xr → xl < xr →
      x_left.get k' = some xl' → x_right.get k' = some xr' → xl' < xr' →
      ((⟨xr, q0.y + k⟩ : Point2), c) ∈ pixels → ((⟨xr', q0.y + k'⟩ : Point2), c') ∈ pixels →
      (j0 = 1 → (tag = LeftSide.k01_12 ∨ k' ≤ q1.y - q0.y) →
        c'.r ≤ c.r ∧ c'.g ≤ c.g ∧ c'.b ≤ c.b) ∧
      (j2 = 1 → (tag = LeftSide.k01_12 ∨ q1.y - q0.y ≤ k) →
        c.r ≤ c'.r ∧ c.g ≤ c'.g ∧ c.b ≤ c'.b) ∧
      (j1 = 1 → tag = LeftSide.k02 →
        (k' ≤ q1.y - q0.y → c.r ≤ c'.r ∧ c.g ≤ c'.g ∧ c.b ≤ c'.b) ∧
        (q1.y - q0.y ≤ k → c'.r ≤ c.r ∧ c'.g ≤ c.g ∧ c'.b ≤ c.b))) := by
  obtain ⟨hj, hwritten, hmono⟩ := shaded_boundary_pixels p0 p1 p2 i0 i1 i2
    q0 q1 q2 j0 j1 j2 hint hsort x_left x_right tag i_left i_right pixels hpts hatt hpix
  have hsorted := sort_point_bundles_by_y_sorted (p0, i0) (p1, i1) (p2, i2)
  rw [hsort] at hsorted
  obtain ⟨h01, h12⟩ := hsorted
  simp only [] at h01 h12
  have hjb : (1 / 5 ≤ j0 ∧ j0 ≤ 1) ∧ (1 / 5 ≤ j1 ∧ j1 ≤ 1) ∧ (1 / 5 ≤ j2 ∧ j2 ≤ 1) := by
    rcases hj with ⟨e0, e1, e2⟩ | ⟨e0, e1, e2⟩ | ⟨e0, e1, e2⟩ <;> subst e0 e1 e2 <;> norm_num
  obtain ⟨hlb, _⟩ := interpolate_attributes_bounds (1 / 5) 1 q0 q1 q2 j0 j1 j2 hjb.1 hjb.2.1
    hjb.2.2 tag i_left i_right hatt
  obtain ⟨hsl, _⟩ := interpolate_points_sizes q0 q1 q2 h01 h12 x_left x_right tag hpts
  obtain ⟨hil_size, hir_size⟩ := interpolate_attributes_sizes q0 q1 q2 h01 h12 j0 j1 j2 tag
    i_left i_right hatt
  -- every scanline that has an x_left has the two intensities
  have hrow : ∀ (k xl : Int), x_left.get k = some xl →
      ∃ il ir, i_left.get k = some il ∧ i_right.get k = some ir := by
    intro k xl hxl
    have h0 := ((buffer_get_eq_some_iff x_left k xl).mp hxl).1
    have h1 := (buffer_get_isSome_iff x_left k).mp (by rw [hxl]; rfl)
    obtain ⟨il, hil⟩ := buffer_get_of_lt i_left k h0 (by omega)
    obtain ⟨ir, hir⟩ := buffer_get_of_lt i_right k h0 (by omega)
    exact ⟨il, ir, hil, hir⟩
  have hoff : ∀ k : Int, q0.y + k - q0.y = k := fun k => by omega
  have hgray : ∀ (s t : ℚ), s ≤ t →
      (Color.kGray.mul s).r ≤ (Color.kGray.mul t).r ∧
      (Color.kGray.mul s).g ≤ (Color.kGray.mul t).g ∧
      (Color.kGray.mul s).b ≤ (Color.kGray.mul t).b := by
    intro s t hst
    simp only [Color.mul, Color.kGray]
    refine ⟨?_, ?_, ?_⟩ <;> linarith
  refine ⟨hj, ?_, hmono, ?_⟩
  · intro k xl xr il hxl hxr hil hle c
    obtain ⟨il', ir, hil', hir⟩ := hrow k xl hxl
    rw [hil] at hil'
    cases hil'
    have h := (hwritten (q0.y + k) xl xr il ir (by rw [hoff]; exact hxl)
      (by rw [hoff]; exact hxr) (by rw [hoff]; exact hil) (by rw [hoff]; exact hir) hle).1 c
    rw [min_eq_left (hlb il (buffer_get_mem _ _ _ hil)).2]
    exact h
  · intro k k' xl xr xl' xr' c c' hkk hxl hxr hlt hxl' hxr' hlt' hc hc'
    obtain ⟨il, ir, hil, hir⟩ := hrow k xl hxl
    obtain ⟨il', ir', hil', hir'⟩ := hrow k' xl' hxl'
    have e := ((hwritten (q0.y + k) xl xr il ir (by rw [hoff]; exact hxl)
      (by rw [hoff]; exact hxr) (by rw [hoff]; exact hil) (by rw [hoff]; exact hir)
      (le_of_lt hlt)).2 hlt c).mp hc
    have e' := ((hwritten (q0.y + k') xl' xr' il' ir' (by rw [hoff]; exact hxl')
      (by rw [hoff]; exact hxr') (by rw [hoff]; exact hil') (by rw [hoff]; exact hir')
      (le_of_lt hlt')).2 hlt' c').mp hc'
    subst e e'
    obtain ⟨m0, m2, m1⟩ := hmono k k' il il' ir ir' hkk hil hil' hir hir'
    refine ⟨fun h _ => hgray _ _ (m0 h).2, fun h _ => hgray _ _ (m2 h).2, fun h _ => ?_⟩
    exact ⟨fun h' => hgray _ _ ((m1 h).1 h').2, fun h' => hgray _ _ ((m1 h).2 h').2⟩

/-- C22, instantiated: the triangle `(0,0), (4,2), (-2,3)` with the intensities
`1, 1/5, 1/5`; the edge sequences are `x_left = [0, 0, -1, -2]`, `x_right = [0, 2, 4, -2]`,
`i_left = [1, 11/15, 7/15, 1/5]` and `i_right = [1, 3/5, 1/5, 1/5]`, the long edge is on
the left (tag `k02`) and the short edge from `(0,0)` to `(4,2)` on the right.  On the
scanline `y = 1` the left boundary pixel `(0,1)` is written with `gray * 11/15`; the right
boundary pixels `(2,1)` and `(4,2)` of the scanlines `y = 1` and `y = 2` carry the red
channels `3/10` and `1/10`, decreasing away from the vertex `(0,0)` of intensity `1`. -/
theorem shaded_edge_brightness_monotone_witness :
    interpolate_points ⟨0, 0⟩ ⟨4, 2⟩ ⟨-2, 3⟩ =
      some (⟨[0, 0, -1, -2]⟩, ⟨[0, 2, 4, -2]⟩, LeftSide.k02) ∧
    interpolate_attributes ⟨0, 0⟩ ⟨4, 2⟩ ⟨-2, 3⟩ (1 : ℚ) (1 / 5) (1 / 5) LeftSide.k02 =
      some (⟨[1, 11 / 15, 7 / 15, 1 / 5]⟩, ⟨[1, 3 / 5, 1 / 5, 1 / 5]⟩) ∧
    ∃ pixels, draw_shaded_triangle_pixels ⟨0, 0⟩ 1 ⟨4, 2⟩ (1 / 5) ⟨-2, 3⟩ (1 / 5) Color.kGray
        = some pixels ∧
      (∀ c, ((⟨0, 0 + 1⟩ : Point2), c) ∈ pixels ↔ c = Color.kGray.mul (min (11 / 15) 1)) ∧
      ((⟨2, 0 + 1⟩ : Point2), Color.kGray.mul (3 / 5)) ∈ pixels ∧
      ((⟨4, 0 + 2⟩ : Point2), Color.kGray.mul (1 / 5)) ∈ pixels ∧
      (Color.kGray.mul (1 / 5)).r ≤ (Color.kGray.mul (3 / 5)).r ∧
      (Color.kGray.mul (1 / 5)).g ≤ (Color.kGray.mul (3 / 5)).g ∧
      (Color.kGray.mul (1 / 5)).b ≤ (Color.kGray.mul (3 / 5)).b := by
  have hpts : interpolate_points ⟨0, 0⟩ ⟨4, 2⟩ ⟨-2, 3⟩ =
      some (⟨[0, 0, -1, -2]⟩, ⟨[0, 2, 4, -2]⟩, LeftSide.k02) := by decide!
  have hatt : interpolate_attributes ⟨0, 0⟩ ⟨4, 2⟩ ⟨-2, 3⟩ (1 : ℚ) (1 / 5) (1 / 5)
      LeftSide.k02 = some (⟨[1, 11 / 15, 7 / 15, 1 / 5]⟩, ⟨[1, 3 / 5, 1 / 5, 1 / 5]⟩) := by
    decide!
  have hpix : draw_shaded_triangle_pixels ⟨0, 0⟩ 1 ⟨4, 2⟩ (1 / 5) ⟨-2, 3⟩ (1 / 5) Color.kGray =
      some [(⟨0, 0⟩, Color.kGray.mul 1), (⟨0, 1⟩, Color.kGray.mul (11 / 15)),
        (⟨1, 1⟩, Color.kGray.mul (2 / 3)), (⟨2, 1⟩, Color.kGray.mul (3 / 5)),
        (⟨-1, 2⟩, Color.kGray.mul (7 / 15)), (⟨0, 2⟩, Color.kGray.mul (31 / 75)),
        (⟨1, 2⟩, Color.kGray.mul (9 / 25)), (⟨2, 2⟩, Color.kGray.mul (23 / 75)),
        (⟨3, 2⟩, Color.kGray.mul (19 / 75)), (⟨4, 2⟩, Color.kGray.mul (1 / 5)),
        (⟨-2, 3⟩, Color.kGray.mul (1 / 5))] := by decide!
  have hmem1 : ((⟨2, 0 + 1⟩ : Point2), Color.kGray.mul (3 / 5)) ∈
      [((⟨0, 0⟩ : Point2), Color.kGray.mul 1), (⟨0, 1⟩, Color.kGray.mul (11 / 15)),
        (⟨1, 1⟩, Color.kGray.mul (2 / 3)), (⟨2, 1⟩, Color.kGray.mul (3 / 5)),
        (⟨-1, 2⟩, Color.kGray.mul (7 / 15)), (⟨0, 2⟩, Color.kGray.mul (31 / 75)),
        (⟨1, 2⟩, Color.kGray.mul (9 / 25)), (⟨2, 2⟩, Color.kGray.mul (23 / 75)),
        (⟨3, 2⟩, Color.kGray.mul (19 / 75)), (⟨4, 2⟩, Color.kGray.mul (1 / 5)),
        (⟨-2, 3⟩, Color.kGray.mul (1 / 5))] := by decide!
  have hmem2 : ((⟨4, 0 + 2⟩ : Point2), Color.kGray.mul (1 / 5)) ∈
      [((⟨0, 0⟩ : Point2), Color.kGray.mul 1), (⟨0, 1⟩, Color.kGray.mul (11 / 15)),
        (⟨1, 1⟩, Color.kGray.mul (2 / 3)), (⟨2, 1⟩, Color.kGray.mul (3 / 5)),
        (⟨-1, 2⟩, Color.kGray.mul (7 / 15)), (⟨0, 2⟩, Color.kGray.mul (31 / 75)),
        (⟨1, 2⟩, Color.kGray.mul (9 / 25)), (⟨2, 2⟩, Color.kGray.mul (23 / 75)),
        (⟨3, 2⟩, Color.kGray.mul (19 / 75)), (⟨4, 2⟩, Color.kGray.mul (1 / 5)),
        (⟨-2, 3⟩, Color.kGray.mul (1 / 5))] := by decide!
  have h := shaded_edge_brightness_monotone ⟨0, 0⟩ ⟨4, 2⟩ ⟨-2, 3⟩ 1 (1 / 5) (1 / 5)
    ⟨0, 0⟩ ⟨4, 2⟩ ⟨-2, 3⟩ 1 (1 / 5) (1 / 5) (Or.inl ⟨rfl, rfl, rfl⟩) (by decide!)
    ⟨[0, 0, -1, -2]⟩ ⟨[0, 2, 4, -2]⟩ LeftSide.k02 ⟨[1, 11 / 15, 7 / 15, 1 / 5]⟩
    ⟨[1, 3 / 5, 1 / 5, 1 / 5]⟩ _ hpts hatt hpix
  have hleft := h.2.1 1 0 2 (11 / 15) (by decide) (by decide) (by decide!) (by decide)
  have hright := (h.2.2.2 1 2 0 2 (-1) 4 (Color.kGray.mul (3 / 5)) (Color.kGray.mul (1 / 5))
    (by decide) (by decide) (by decide) (by decide) (by decide) (by decide) (by decide)
    hmem1 hmem2).1 rfl (Or.inr (by decide))
  exact ⟨hpts, hatt, _, hpix, hleft, hmem1, hmem2, hright⟩

/-! ## The bounding sphere under exact arithmetic -/

theorem vec3_dot_self_nonneg (v : Vec3) : 0 ≤ Vec3.dot v v := by
  simp only [Vec3.dot]
  nlinarith [mul_self_nonneg v.x, mul_self_nonneg v.y, mul_self_nonneg v.z]

/-- The square root of `Libm.onRationalsUp` is non-negative and never underestimates. -/
theorem onRationalsUp_sqrt_spec (x : ℚ) (hx : 0 ≤ x) :
    0 ≤ Libm.onRationalsUp.sqrt x ∧
      x ≤ Libm.onRationalsUp.sqrt x * Libm.onRationalsUp.sqrt x := by
  have hden : (0 : ℚ) < (x.den : ℚ) := by exact_mod_cast x.den_pos
  have hnum : 0 ≤ x.num := Rat.num_nonneg.mpr hx
  show 0 ≤ (((if Nat.sqrt (x.num.toNat * x.den) * Nat.sqrt (x.num.toNat * x.den)
        = x.num.toNat * x.den then Nat.sqrt (x.num.toNat * x.den)
        else Nat.sqrt (x.num.toNat * x.den) + 1 : Nat)) : ℚ) / (x.den : ℚ) ∧
    x ≤ (((if Nat.sqrt (x.num.toNat * x.den) * Nat.sqrt (x.num.toNat * x.den)
        = x.num.toNat * x.den then Nat.sqrt (x.num.toNat * x.den)
        else Nat.sqrt (x.num.toNat * x.den) + 1 : Nat)) : ℚ) / (x.den : ℚ) *
      ((((if Nat.sqrt (x.num.toNat * x.den) * Nat.sqrt (x.num.toNat * x.den)
        = x.num.toNat * x.den then Nat.sqrt (x.num.toNat * x.den)
        else Nat.sqrt (x.num.toNat * x.den) + 1 : Nat)) : ℚ) / (x.den : ℚ))
  generalize ht : (if Nat.sqrt (x.num.toNat * x.den) * Nat.sqrt (x.num.toNat * x.den)
        = x.num.toNat * x.den then Nat.sqrt (x.num.toNat * x.den)
        else Nat.sqrt (x.num.toNat * x.den) + 1 : Nat) = t
  have htt : x.num.toNat * x.den ≤ t * t := by
    rw [← ht]
    split
    · rename_i h
      exact h.ge
    · exact (Nat.lt_succ_sqrt _).le
  constructor
  · positivity
  · have hxeq : x = ((x.num.toNat * x.den : Nat) : ℚ) / ((x.den : ℚ) * (x.den : ℚ)) := by
      have h1 : ((x.num.toNat : Nat) : ℚ) = (x.num : ℚ) := by
        have : ((x.num.toNat : Nat) : Int) = x.num := Int.toNat_of_nonneg hnum
        exact_mod_cast congrArg (fun z : Int => (z : ℚ)) this
      have h2 : (x.num : ℚ) * (x.den : ℚ) / ((x.den : ℚ) * (x.den : ℚ)) =
          (x.num : ℚ) / (x.den : ℚ) := mul_div_mul_right _ _ hden.ne'
      push_cast
      rw [h1, h2]
      exact (Rat.num_div_den x).symm
    have hcast : ((x.num.toNat * x.den : Nat) : ℚ) ≤ (t : ℚ) * (t : ℚ) := by
      exact_mod_cast htt
    rw [div_mul_div_comm]
    conv_lhs => rw [hxeq]
    exact div_le_div_of_nonneg_right hcast (by positivity)

/-- One growth step of `compute_bounding_sphere`, for a square root that is non-negative
and never underestimates: the radius stays non-negative, the new point is enclosed, and
every point that was enclosed stays enclosed. -/
theorem bounding_sphere_grow_spec (lm : Libm)
    (hsqrt : ∀ x : ℚ, 0 ≤ x → 0 ≤ lm.sqrt x ∧ x ≤ lm.sqrt x * lm.sqrt x)
    (center : Vec3) (radius : ℚ) (hr : 0 ≤ radius) (p : Vec3) :
    0 ≤ (bounding_sphere_grow lm (center, radius) p).2 ∧
    Vec3.dot (Vec3.sub p (bounding_sphere_grow lm (center, radius) p).1)
        (Vec3.sub p (bounding_sphere_grow lm (center, radius) p).1) ≤
      (bounding_sphere_grow lm (center, radius) p).2 *
        (bounding_sphere_grow lm (center, radius) p).2 ∧
    ∀ q : Vec3, Vec3.dot (Vec3.sub q center) (Vec3.sub q center) ≤ radius * radius →
      Vec3.dot (Vec3.sub q (bounding_sphere_grow lm (center, radius) p).1)
          (Vec3.sub q (bounding_sphere_grow lm (center, radius) p).1) ≤
        (bounding_sphere_grow lm (center, radius) p).2 *
          (bounding_sphere_grow lm (center, radius) p).2 := by
  unfold bounding_sphere_grow
  simp only []
  by_cases hgt : Vec3.dot (Vec3.sub p center) (Vec3.sub p center) > radius * radius
  · rw [if_pos hgt]
    simp only []
    have hD0 : 0 ≤ Vec3.dot (Vec3.sub p center) (Vec3.sub p center) :=
      vec3_dot_self_nonneg _
    obtain ⟨hd0, hd⟩ := hsqrt _ hD0
    generalize lm.sqrt (Vec3.dot (Vec3.sub p center) (Vec3.sub p center)) = dist at hd0 hd ⊢
    have hdr : radius < dist := by
      by_contra hcon
      push_neg at hcon
      have : dist * dist ≤ radius * radius := mul_le_mul hcon hcon hd0 hr
      linarith
    have hdpos : 0 < dist := lt_of_le_of_lt hr hdr
    have hk : ((radius + dist) / 2 - radius) / dist * dist = (dist - radius) / 2 := by
      field_simp
      ring
    generalize ((radius + dist) / 2 - radius) / dist = k at hk ⊢
    have hk0 : 0 ≤ k := by
      by_contra hcon
      push_neg at hcon
      have := mul_neg_of_neg_of_pos hcon hdpos
      linarith
    have hnew : (radius + dist) / 2 = radius + k * dist := by
      rw [hk]
      ring
    refine ⟨by linarith, ?_, ?_⟩
    · have hexp : Vec3.dot
          (Vec3.sub p ⟨center.x + (Vec3.sub p center).x * k,
            center.y + (Vec3.sub p center).y * k, center.z + (Vec3.sub p center).z * k⟩)
          (Vec3.sub p ⟨center.x + (Vec3.sub p center).x * k,
            center.y + (Vec3.sub p center).y * k, center.z + (Vec3.sub p center).z * k⟩) =
          Vec3.dot (Vec3.sub p center) (Vec3.sub p center) * ((1 - k) * (1 - k)) := by
        simp only [Vec3.dot, Vec3.sub]
        ring
      rw [hexp]
      have h1 : (radius + dist) / 2 = (1 - k) * dist := by
        rw [hnew]
        have : k * dist = (dist - radius) / 2 := hk
        linarith
      rw [h1]
      have hsq : 0 ≤ (1 - k) * (1 - k) := mul_self_nonneg _
      nlinarith [mul_le_mul_of_nonneg_right hd hsq]
    · intro q hq
      have hexp : Vec3.dot
          (Vec3.sub q ⟨center.x + (Vec3.sub p center).x * k,
            center.y + (Vec3.sub p center).y * k, center.z + (Vec3.sub p center).z * k⟩)
          (Vec3.sub q ⟨center.x + (Vec3.sub p center).x * k,
            center.y + (Vec3.sub p center).y * k, center.z + (Vec3.sub p center).z * k⟩) =
          Vec3.dot (Vec3.sub q center) (Vec3.sub q center)
            - 2 * k * Vec3.dot (Vec3.sub q center) (Vec3.sub p center)
            + k * k * Vec3.dot (Vec3.sub p center) (Vec3.sub p center) := by
        simp only [Vec3.dot, Vec3.sub]
        ring
      rw [hexp, hnew]
      have hcs := vec3_dot_sq_le (Vec3.sub q center) (Vec3.sub p center)
      have hU0 : 0 ≤ Vec3.dot (Vec3.sub q center) (Vec3.sub q center) :=
        vec3_dot_self_nonneg _
      generalize Vec3.dot (Vec3.sub q center) (Vec3.sub q center) = U at hq hcs hU0 ⊢
      generalize Vec3.dot (Vec3.sub q center) (Vec3.sub p center) = X at hcs ⊢
      generalize Vec3.dot (Vec3.sub p center) (Vec3.sub p center) = D at hgt hD0 hd hcs ⊢
      have hUD : U * D ≤ (radius * radius) * (dist * dist) :=
        mul_le_mul hq hd hD0 (mul_nonneg hr hr)
      have hX : X ^ 2 ≤ (radius * dist) ^ 2 := by
        rw [sq, sq]
        calc X * X ≤ U * D := hcs
          _ ≤ (radius * radius) * (dist * dist) := hUD
          _ = radius * dist * (radius * dist) := by ring
      have hXle := (abs_le_of_sq_le_sq' hX (mul_nonneg hr hd0)).1
      have hkX : -(2 * k * X) ≤ 2 * k * (radius * dist) := by
        have := mul_le_mul_of_nonneg_left hXle (mul_nonneg (by norm_num : (0 : ℚ) ≤ 2) hk0)
        linarith
      have hkD : k * k * D ≤ k * k * (dist * dist) :=
        mul_le_mul_of_nonneg_left hd (mul_nonneg hk0 hk0)
      nlinarith
  · rw [if_neg hgt]
    push_neg at hgt
    exact ⟨hr, hgt, fun q hq => hq⟩

/-- The growth loop of `compute_bounding_sphere` encloses every point it visits and keeps
enclosed the points that were. -/
theorem bounding_sphere_grow_fold (lm : Libm)
    (hsqrt : ∀ x : ℚ, 0 ≤ x → 0 ≤ lm.sqrt x ∧ x ≤ lm.sqrt x * lm.sqrt x)
    (points : List Vec3) :
    ∀ (state : Vec3 × ℚ), 0 ≤ state.2 →
      0 ≤ (points.foldl (bounding_sphere_grow lm) state).2 ∧
      (∀ q : Vec3, Vec3.dot (Vec3.sub q state.1) (Vec3.sub q state.1) ≤ state.2 * state.2 →
        Vec3.dot (Vec3.sub q (points.foldl (bounding_sphere_grow lm) state).1)
            (Vec3.sub q (points.foldl (bounding_sphere_grow lm) state).1) ≤
          (points.foldl (bounding_sphere_grow lm) state).2 *
            (points.foldl (bounding_sphere_grow lm) state).2) ∧
      ∀ p ∈ points,
        Vec3.dot (Vec3.sub p (points.foldl (bounding_sphere_grow lm) state).1)
            (Vec3.sub p (points.foldl (bounding_sphere_grow lm) state).1) ≤
          (points.foldl (bounding_sphere_grow lm) state).2 *
            (points.foldl (bounding_sphere_grow lm) state).2 := by
  induction points with
  | nil =>
    intro state hr
    exact ⟨hr, fun q hq => hq, fun p hp => absurd hp (List.not_mem_nil p)⟩
  | cons head rest ih =>
    intro state hr
    obtain ⟨center, radius⟩ := state
    obtain ⟨h0, hhead, hkeep⟩ := bounding_sphere_grow_spec lm hsqrt center radius hr head
    obtain ⟨hr', hkeep', hall⟩ := ih (bounding_sphere_grow lm (center, radius) head) h0
    rw [List.foldl_cons]
    refine ⟨hr', fun q hq => hkeep' q (hkeep q hq), ?_⟩
    intro p hp
    rcases List.mem_cons.mp hp with he | hr
    · subst he
      exact hkeep' p hhead
    · exact hall p hr

/-- Step 1 of `compute_bounding_sphere` keeps `maxDistSq` non-negative. -/
theorem bounding_sphere_farthest_nonneg (points outer : List Vec3) :
    ∀ (state : Vec3 × Vec3 × ℚ), 0 ≤ state.2.2 →
      0 ≤ (outer.foldl
        (fun state a => points.foldl (bounding_sphere_farthest_step a) state) state).2.2 := by
  have hinner : ∀ (a : Vec3) (inner : List Vec3) (state : Vec3 × Vec3 × ℚ), 0 ≤ state.2.2 →
      0 ≤ (inner.foldl (bounding_sphere_farthest_step a) state).2.2 := by
    intro a inner
    induction inner with
    | nil => intro state h; exact h
    | cons b rest ih =>
      intro state h
      rw [List.foldl_cons]
      apply ih
      unfold bounding_sphere_farthest_step
      simp only []
      split
      · exact vec3_dot_self_nonneg _
      · exact h
  induction outer with
  | nil => intro state h; exact h
  | cons a rest ih =>
    intro state h
    rw [List.foldl_cons]
    exact ih _ (hinner a points state h)

/-- Exact arithmetic.
For a square root that is non-negative and never underestimates (as the exact
square root), the sphere returned by `compute_bounding_sphere` has a non-negative radius and
encloses every input point: the squared distance of each point to the centre is at most the
squared radius.  For an empty list the result is the default sphere, of centre `(0,0,0)` and
radius `0`. -/
theorem compute_bounding_sphere_encloses (lm : Libm)
    (hsqrt : ∀ x : ℚ, 0 ≤ x → 0 ≤ lm.sqrt x ∧ x ≤ lm.sqrt x * lm.sqrt x)
    (points : List Vec3) :
    0 ≤ (compute_bounding_sphere lm points).radius ∧
    (∀ p ∈ points,
      Vec3.dot (Vec3.sub p (compute_bounding_sphere lm points).center)
          (Vec3.sub p (compute_bounding_sphere lm points).center) ≤
        (compute_bounding_sphere lm points).radius *
          (compute_bounding_sphere lm points).radius) ∧
    compute_bounding_sphere lm [] = ⟨⟨0, 0, 0⟩, 0⟩ := by
  refine ⟨?_, ?_, rfl⟩
  · cases points with
    | nil => exact le_refl _
    | cons first rest =>
      have hmax := bounding_sphere_farthest_nonneg (first :: rest) (first :: rest)
        (first, first, 0) (le_refl _)
      have hr0 := div_nonneg (hsqrt _ hmax).1 (by norm_num : (0 : ℚ) ≤ 2)
      exact (bounding_sphere_grow_fold lm hsqrt (first :: rest) (_, _) hr0).1
  · cases points with
    | nil => intro p hp; exact absurd hp (List.not_mem_nil p)
    | cons first rest =>
      have hmax := bounding_sphere_farthest_nonneg (first :: rest) (first :: rest)
        (first, first, 0) (le_refl _)
      have hr0 := div_nonneg (hsqrt _ hmax).1 (by norm_num : (0 : ℚ) ≤ 2)
      exact (bounding_sphere_grow_fold lm hsqrt (first :: rest) (_, _) hr0).2.2

/-- Exact arithmetic, an instance.
The points `(0,0,0), (3,4,0), (0,5,1)` with the square root rounded
up: the sphere has centre `(3/14, 73/28, 13/28)` and radius `13/4`. -/
theorem compute_bounding_sphere_encloses_witness :
    compute_bounding_sphere Libm.onRationalsUp [⟨0, 0, 0⟩, ⟨3, 4, 0⟩, ⟨0, 5, 1⟩] =
      ⟨⟨3 / 14, 73 / 28, 13 / 28⟩, 13 / 4⟩ ∧
    ∀ p ∈ [(⟨0, 0, 0⟩ : Vec3), ⟨3, 4, 0⟩, ⟨0, 5, 1⟩],
      Vec3.dot
          (Vec3.sub p (compute_bounding_sphere Libm.onRationalsUp
            [⟨0, 0, 0⟩, ⟨3, 4, 0⟩, ⟨0, 5, 1⟩]).center)
          (Vec3.sub p (compute_bounding_sphere Libm.onRationalsUp
            [⟨0, 0, 0⟩, ⟨3, 4, 0⟩, ⟨0, 5, 1⟩]).center) ≤
        (compute_bounding_sphere Libm.onRationalsUp
            [⟨0, 0, 0⟩, ⟨3, 4, 0⟩, ⟨0, 5, 1⟩]).radius *
          (compute_bounding_sphere Libm.onRationalsUp
            [⟨0, 0, 0⟩, ⟨3, 4, 0⟩, ⟨0, 5, 1⟩]).radius :=
  ⟨by decide!,
    (compute_bounding_sphere_encloses Libm.onRationalsUp onRationalsUp_sqrt_spec
      [⟨0, 0, 0⟩, ⟨3, 4, 0⟩, ⟨0, 5, 1⟩]).2.1⟩

end rasterizer

namespace raytracer

/-! ## C30: the intersection returned by `closest_intersection` -/

/-- C30 (the code at the failing inputs): the ray from the origin along `(0,0,1)` with
`min_t = 1` and `max_t = kInfinity`.

First scene: a sphere of centre `(0,0,11)` and radius `1` (hit at `t = 10` and `t = 12`)
and a mesh with the triangle `(-1,-1,5), (1,-1,5), (0,1,5)` (hit at `t = 5`).  The
intersection returned is the sphere's, at the point `(0,0,10)`: the meshes are searched only
when no sphere is hit.

Second scene: no sphere, and one mesh whose first face is the triangle at `z = 8` and whose
second face is the triangle at `z = 5`.  The intersection returned is at the point
`(0,0,8)`: the loop over the faces of a mesh is left at the first face that is hit. -/
theorem closest_intersection_not_closest :
    intersect_ray_sphere Libm.onRationals ⟨⟨0, 0, 0⟩, ⟨0, 0, 1⟩, some 1, none, 1⟩
      ⟨⟨Color.kBrightRed, 0, 0, 0⟩, ⟨0, 0, 11⟩, Sphere.Radius.ofRadius 1⟩
      = (some 12, some 10) ∧
    (intersect_ray_triangle ⟨⟨0, 0, 0⟩, ⟨0, 0, 1⟩, some 1, none, 1⟩
      ⟨-1, -1, 5⟩ ⟨1, -1, 5⟩ ⟨0, 1, 5⟩).map (fun r => r.distance) = some 5 ∧
    (intersect_ray_triangle ⟨⟨0, 0, 0⟩, ⟨0, 0, 1⟩, some 1, none, 1⟩
      ⟨-1, -1, 8⟩ ⟨1, -1, 8⟩ ⟨0, 1, 8⟩).map (fun r => r.distance) = some 8 ∧
    closest_intersection Libm.onRationals ⟨⟨0, 0, 0⟩, ⟨0, 0, 1⟩, some 1, none, 1⟩
      ⟨[⟨⟨Color.kBrightRed, 0, 0, 0⟩, ⟨0, 0, 11⟩, Sphere.Radius.ofRadius 1⟩],
        [⟨⟨Color.kBrightBlue, 0, 0, 0⟩, [⟨-1, -1, 5⟩, ⟨1, -1, 5⟩, ⟨0, 1, 5⟩],
          [⟨0, 0, -1⟩], [⟨![0, 1, 2], 0⟩]⟩]⟩
      = some (some ⟨⟨Color.kBrightRed, 0, 0, 0⟩, ⟨0, 0, 10⟩, ⟨0, 0, -1⟩⟩) ∧
    closest_intersection Libm.onRationals ⟨⟨0, 0, 0⟩, ⟨0, 0, 1⟩, some 1, none, 1⟩
      ⟨[], [⟨⟨Color.kBrightBlue, 0, 0, 0⟩,
          [⟨-1, -1, 8⟩, ⟨1, -1, 8⟩, ⟨0, 1, 8⟩, ⟨-1, -1, 5⟩, ⟨1, -1, 5⟩, ⟨0, 1, 5⟩],
          [⟨0, 0, -1⟩], [⟨![0, 1, 2], 0⟩, ⟨![3, 4, 5], 0⟩]⟩]⟩
      = some (some ⟨⟨Color.kBrightBlue, 0, 0, 0⟩, ⟨0, 0, 8⟩, ⟨0, 0, -1⟩⟩) := by
  refine ⟨by decide!, by decide!, by decide!, by decide!, by decide!⟩

end raytracer

namespace rasterizer

/-! ## C31: the points of a Bresenham line -/

/-- The outer loop of `draw_line_bresenham` for `dx >= 1`, started with
`2*dy - 2*dx < err <= 2*dy`: the points plotted are, in order, the points at the offsets
`i = 0, 1, ...` along the major axis and `j i` along the minor axis, where `j 0 = 0` and `j`
grows by `0` or `1` at each step; the value of `err` at iteration `i` is
`err + 2*dy*i - 2*dx*(j i)` and again lies in that range. -/
theorem bresenham_for_steps (is_steep : Bool) (sx sy dx dy : Int) (hdx : 0 < dx)
    (hdy0 : 0 ≤ dy) (hdydx : dy ≤ dx) :
    ∀ (n : Nat) (x y err : Int), 2 * dy - 2 * dx < err → err ≤ 2 * dy →
      ∃ j : Nat → Int, j 0 = 0 ∧ (∀ i, j (i + 1) = j i ∨ j (i + 1) = j i + 1) ∧
        bresenham_for is_steep sx sy dx dy n x y err =
          some ((List.range n).map fun i =>
            if is_steep then (⟨x + sx * j i, y + sy * i⟩ : Point2)
            else ⟨x + sx * i, y + sy * j i⟩) ∧
        ∀ i : Nat, i < n → 2 * dy - 2 * dx < err + 2 * dy * i - 2 * dx * j i ∧
          err + 2 * dy * i - 2 * dx * j i ≤ 2 * dy := by
  intro n
  induction n with
  | zero =>
    intro x y err _ _
    exact ⟨fun _ => 0, rfl, fun _ => Or.inl rfl, rfl, fun i hi => absurd hi (Nat.not_lt_zero i)⟩
  | succ n ih =>
    intro x y err hlo hhi
    obtain ⟨jw, hw, hw0, hw1⟩ := bresenham_while_total is_steep sx sy dx x y err (Or.inl hdx)
    have hjw : jw = 0 ∨ jw = 1 := by
      rcases hw1 with h | h
      · exact Or.inl h
      · have h2 : (jw : Int) < 2 := by
          by_contra hge
          push_neg at hge
          nlinarith
        omega
    have hlo' : 2 * dy - 2 * dx < err - 2 * dx * jw + 2 * dy := by
      rcases hjw with h | h
      · rw [h]
        simp only [Nat.cast_zero, mul_zero, sub_zero]
        linarith
      · rcases hw1 with h0 | h1
        · omega
        · linarith
    have hhi' : err - 2 * dx * jw + 2 * dy ≤ 2 * dy := by linarith
    obtain ⟨j', hj0, hjs, hrest, hbound⟩ := ih
      (if is_steep then (if is_steep then x + sx * jw else x)
        else (if is_steep then x + sx * jw else x) + sx)
      (if is_steep then (if is_steep then y else y + sy * jw) + sy
        else (if is_steep then y else y + sy * jw))
      (err - 2 * dx * jw + 2 * dy) hlo' hhi'
    refine ⟨fun i => match i with | 0 => 0 | i + 1 => jw + j' i, rfl, ?_, ?_, ?_⟩
    · intro i
      cases i with
      | zero =>
        simp only [hj0, add_zero]
        rcases hjw with h | h
        · left; rw [h]; rfl
        · right; rw [h]; simp
      | succ i =>
        simp only
        rcases hjs i with h | h
        · left; rw [h]
        · right; rw [h]; ring
    · unfold bresenham_for
      rw [hw]
      simp only [hrest]
      rw [List.range_succ_eq_map, List.map_cons, List.map_map]
      simp only [Nat.cast_zero, mul_zero, add_zero, Option.some.injEq]
      congr 1
      · cases is_steep <;> rfl
      · apply List.map_congr_left
        intro i _
        cases is_steep
        · simp only [Bool.false_eq_true, if_false, Function.comp, Nat.cast_succ,
            Point2.mk.injEq]
          constructor <;> ring
        · simp only [if_true, Function.comp, Nat.cast_succ, Point2.mk.injEq]
          constructor <;> ring
    · intro i hi
      cases i with
      | zero =>
        simp only [Nat.cast_zero, mul_zero, add_zero, sub_zero]
        exact ⟨hlo, hhi⟩
      | succ i =>
        have h := hbound i (Nat.lt_of_succ_lt_succ hi)
        simp only [Nat.cast_succ]
        constructor
        · have := h.1; linarith
        · have := h.2; linarith

/-- Moving from `a` by `|b - a|` steps of sign `(a < b) ? 1 : -1` arrives at `b`. -/
theorem step_abs (a b : Int) : a + (if a < b then 1 else -1) * |b - a| = b := by
  by_cases h : a < b
  · rw [if_pos h, abs_of_pos (by omega)]
    ring
  · rw [if_neg h, abs_of_nonpos (by omega)]
    ring

/-- The points of `draw_line_bresenham` in closed form: with `dx >= dy >= 0` the extents
after the steepness swap, the points are, in order, those at the offsets `i = 0, ..., dx`
along the major axis and `j i` along the minor axis, where `j 0 = 0`, `j dx = dy` and `j`
grows by `0` or `1` at each step. -/
theorem draw_line_bresenham_points_eq (p0 p1 : Point2) :
    ∃ j : Nat → Int, j 0 = 0 ∧ (∀ i, j (i + 1) = j i ∨ j (i + 1) = j i + 1) ∧
      j (max |p1.x - p0.x| |p1.y - p0.y|).toNat = min |p1.x - p0.x| |p1.y - p0.y| ∧
      draw_line_bresenham_points p0 p1 =
        some ((List.range (max |p1.x - p0.x| |p1.y - p0.y| + 1).toNat).map fun i =>
          if |p1.y - p0.y| > |p1.x - p0.x| then
            (⟨p0.x + (if p0.x < p1.x then 1 else -1) * j i,
              p0.y + (if p0.y < p1.y then 1 else -1) * i⟩ : Point2)
          else ⟨p0.x + (if p0.x < p1.x then 1 else -1) * i,
            p0.y + (if p0.y < p1.y then 1 else -1) * j i⟩) := by
  have hD : 0 ≤ |p1.x - p0.x| := abs_nonneg _
  have hE : 0 ≤ |p1.y - p0.y| := abs_nonneg _
  generalize hDdef : |p1.x - p0.x| = D at hD
  generalize hEdef : |p1.y - p0.y| = E at hE
  have hmax : max D E = if E > D then E else D := by
    by_cases h : E > D
    · rw [if_pos h]; exact max_eq_right h.le
    · rw [if_neg h]; exact max_eq_left (not_lt.mp h)
  have hmin : min D E = if E > D then D else E := by
    by_cases h : E > D
    · rw [if_pos h]; exact min_eq_left h.le
    · rw [if_neg h]; exact min_eq_right (not_lt.mp h)
  have hunf : draw_line_bresenham_points p0 p1 =
      bresenham_for (decide (E > D)) (if p0.x < p1.x then 1 else -1)
        (if p0.y < p1.y then 1 else -1) (max D E) (min D E) (max D E + 1).toNat p0.x p0.y
        (2 * min D E - max D E) := by
    unfold draw_line_bresenham_points
    simp only [hDdef, hEdef, hmax, hmin, decide_eq_true_eq]
  rw [hunf]
  have hmm : min D E ≤ max D E := min_le_max
  have hmin0 : 0 ≤ min D E := le_min hD hE
  by_cases hpos : 0 < max D E
  · obtain ⟨j, hj0, hjs, hfor, hbound⟩ := bresenham_for_steps (decide (E > D))
      (if p0.x < p1.x then 1 else -1) (if p0.y < p1.y then 1 else -1) (max D E) (min D E)
      hpos hmin0 hmm (max D E + 1).toNat p0.x p0.y (2 * min D E - max D E)
      (by linarith) (by linarith)
    refine ⟨j, hj0, hjs, ?_, ?_⟩
    · have h := hbound (max D E).toNat (by omega)
      have hcast : (((max D E).toNat : Nat) : Int) = max D E := Int.toNat_of_nonneg hpos.le
      rw [hcast] at h
      obtain ⟨h1, h2⟩ := h
      generalize j (max D E).toNat = J at h1 h2
      generalize max D E = M at hpos h1 h2 hmm
      generalize min D E = m at h1 h2 hmm hmin0
      by_contra hne
      rcases lt_or_gt_of_ne hne with hlt | hgt
      · have : J + 1 ≤ m := hlt
        nlinarith
      · have : m + 1 ≤ J := hgt
        nlinarith
    · rw [hfor]
      simp only [decide_eq_true_eq]
  · have hM : max D E = 0 := le_antisymm (not_lt.mp hpos) (le_max_of_le_left hD)
    have hm : min D E = 0 := le_antisymm (hM ▸ hmm) hmin0
    have hD0 : D = 0 := le_antisymm (hM ▸ le_max_left D E) hD
    have hE0 : E = 0 := le_antisymm (hM ▸ le_max_right D E) hE
    refine ⟨fun _ => 0, rfl, fun _ => Or.inl rfl, ?_, ?_⟩
    · rw [hm]
    · rw [hM, hm, hD0, hE0]
      simp only [gt_iff_lt, lt_self_iff_false, decide_False, zero_add, Int.toNat_one,
        mul_zero, sub_zero, if_false]
      rw [show List.range 1 = [0] from rfl]
      simp only [List.map_cons, List.map_nil, Nat.cast_zero, mul_zero, add_zero]
      unfold bresenham_for bresenham_while
      simp only [gt_iff_lt, lt_self_iff_false, if_false, bresenham_for]

/-- C31: for all integer end points `p0`, `p1`, `draw_line` (Bresenham) ends and makes
exactly `max(|p1.x - p0.x|, |p1.y - p0.y|) + 1` calls of `draw_pixel`, the first at `p0` and
the last at `p1`.  Between consecutive calls the coordinate of the major axis (`y` when
`|p1.y - p0.y| > |p1.x - p0.x|`, else `x`) moves by exactly one step towards `p1`, and the
coordinate of the minor axis by zero or one step towards `p1`; so consecutive pixels are
8-connected, and the pixels plotted are pairwise distinct. -/
theorem draw_line_points_connected (p0 p1 : Point2) :
    ∃ points, draw_line_bresenham_points p0 p1 = some points ∧
      (∀ (canvas : Canvas) (color : Color),
        draw_line canvas p0 p1 color = canvas.draw_pixels (points.map fun p => (p, color))) ∧
      points.length = (max |p1.x - p0.x| |p1.y - p0.y| + 1).toNat ∧
      points.head? = some p0 ∧ points.getLast? = some p1 ∧
      (∀ (k : Nat) (p q : Point2), points[k]? = some p → points[k + 1]? = some q →
        if |p1.y - p0.y| > |p1.x - p0.x| then
          q.y = p.y + (if p0.y < p1.y then 1 else -1) ∧
            (q.x = p.x ∨ q.x = p.x + (if p0.x < p1.x then 1 else -1))
        else
          q.x = p.x + (if p0.x < p1.x then 1 else -1) ∧
            (q.y = p.y ∨ q.y = p.y + (if p0.y < p1.y then 1 else -1))) ∧
      (∀ (k : Nat) (p q : Point2), points[k]? = some p → points[k + 1]? = some q →
        |q.x - p.x| ≤ 1 ∧ |q.y - p.y| ≤ 1) ∧
      points.Nodup := by
  obtain ⟨j, hj0, hjs, hjlast, hpts⟩ := draw_line_bresenham_points_eq p0 p1
  have hM0 : 0 ≤ max |p1.x - p0.x| |p1.y - p0.y| := le_max_of_le_left (abs_nonneg _)
  have hsx : ∀ (a b : Int), (if a < b then (1 : Int) else -1) = 1 ∨
      (if a < b then (1 : Int) else -1) = -1 := by
    intro a b
    by_cases h : a < b
    · left; rw [if_pos h]
    · right; rw [if_neg h]
  have hstep : ∀ (k : Nat) (p q : Point2),
      ((List.range (max |p1.x - p0.x| |p1.y - p0.y| + 1).toNat).map fun i =>
        if |p1.y - p0.y| > |p1.x - p0.x| then
          (⟨p0.x + (if p0.x < p1.x then 1 else -1) * j i,
            p0.y + (if p0.y < p1.y then 1 else -1) * i⟩ : Point2)
        else ⟨p0.x + (if p0.x < p1.x then 1 else -1) * i,
          p0.y + (if p0.y < p1.y then 1 else -1) * j i⟩)[k]? = some p →
      ((List.range (max |p1.x - p0.x| |p1.y - p0.y| + 1).toNat).map fun i =>
        if |p1.y - p0.y| > |p1.x - p0.x| then
          (⟨p0.x + (if p0.x < p1.x then 1 else -1) * j i,
            p0.y + (if p0.y < p1.y then 1 else -1) * i⟩ : Point2)
        else ⟨p0.x + (if p0.x < p1.x then 1 else -1) * i,
          p0.y + (if p0.y < p1.y then 1 else -1) * j i⟩)[k + 1]? = some q →
      if |p1.y - p0.y| > |p1.x - p0.x| then
          q.y = p.y + (if p0.y < p1.y then 1 else -1) ∧
            (q.x = p.x ∨ q.x = p.x + (if p0.x < p1.x then 1 else -1))
        else
          q.x = p.x + (if p0.x < p1.x then 1 else -1) ∧
            (q.y = p.y ∨ q.y = p.y + (if p0.y < p1.y then 1 else -1)) := by
    intro k p q hp hq
    rw [List.getElem?_map] at hp hq
    cases hk : (List.range (max |p1.x - p0.x| |p1.y - p0.y| + 1).toNat)[k]? with
    | none => rw [hk] at hp; exact Option.noConfusion hp
    | some a =>
      cases hk1 : (List.range (max |p1.x - p0.x| |p1.y - p0.y| + 1).toNat)[k + 1]? with
      | none => rw [hk1] at hq; exact Option.noConfusion hq
      | some b =>
        rw [hk] at hp
        rw [hk1] at hq
        have ha : a = k := by
          have := List.getElem?_range (m := k)
            (n := (max |p1.x - p0.x| |p1.y - p0.y| + 1).toNat)
            (by
              by_contra hge
              rw [List.getElem?_eq_none (by rw [List.length_range]; omega)] at hk
              exact Option.noConfusion hk)
          rw [this] at hk
          exact (Option.some.inj hk).symm
        have hb : b = k + 1 := by
          have := List.getElem?_range (m := k + 1)
            (n := (max |p1.x - p0.x| |p1.y - p0.y| + 1).toNat)
            (by
              by_contra hge
              rw [List.getElem?_eq_none (by rw [List.length_range]; omega)] at hk1
              exact Option.noConfusion hk1)
          rw [this] at hk1
          exact (Option.some.inj hk1).symm
        subst ha hb
        simp only [Option.map_some', Option.some.injEq] at hp hq
        by_cases hs : |p1.y - p0.y| > |p1.x - p0.x|
        · rw [if_pos hs] at hp hq ⊢
          subst hp hq
          simp only [Nat.cast_succ]
          refine ⟨by ring, ?_⟩
          rcases hjs a with h | h
          · left; rw [h]
          · right; rw [h]; ring
        · rw [if_neg hs] at hp hq ⊢
          subst hp hq
          simp only [Nat.cast_succ]
          refine ⟨by ring, ?_⟩
          rcases hjs a with h | h
          · left; rw [h]
          · right; rw [h]; ring
  refine ⟨_, hpts, ?_, ?_, ?_, ?_, hstep, ?_, ?_⟩
  · intro canvas color
    unfold draw_line draw_line_bresenham
    rw [hpts]
    rfl
  · rw [List.length_map, List.length_range]
  · have hn : (max |p1.x - p0.x| |p1.y - p0.y| + 1).toNat =
        (max |p1.x - p0.x| |p1.y - p0.y|).toNat + 1 := by omega
    rw [hn, List.range_succ_eq_map, List.map_cons, List.head?_cons, hj0]
    simp only [Nat.cast_zero, mul_zero, add_zero, ite_self]
  · rw [List.getLast?_eq_getElem?, List.length_map, List.length_range, List.getElem?_map,
      List.getElem?_range (by omega)]
    have hn : (max |p1.x - p0.x| |p1.y - p0.y| + 1).toNat - 1 =
        (max |p1.x - p0.x| |p1.y - p0.y|).toNat := by omega
    rw [hn]
    simp only [Option.map_some', Option.some.injEq, hjlast, Int.toNat_of_nonneg hM0]
    by_cases hs : |p1.y - p0.y| > |p1.x - p0.x|
    · rw [if_pos hs, max_eq_right hs.le, min_eq_left hs.le, step_abs, step_abs]
    · rw [if_neg hs, max_eq_left (not_lt.mp hs), min_eq_right (not_lt.mp hs), step_abs,
        step_abs]
  · intro k p q hp hq
    have h := hstep k p q hp hq
    have hx := hsx p0.x p1.x
    have hy := hsx p0.y p1.y
    generalize (if p0.x < p1.x then (1 : Int) else -1) = sx at h hx
    generalize (if p0.y < p1.y then (1 : Int) else -1) = sy at h hy
    have h1 : |(1 : Int)| ≤ 1 := by decide
    have hm1 : |(-1 : Int)| ≤ 1 := by decide
    have h0 : |(0 : Int)| ≤ 1 := by decide
    split at h
    · obtain ⟨hy', hx'⟩ := h
      constructor
      · rcases hx' with e | e
        · rw [e, sub_self]; exact h0
        · rw [e, add_sub_cancel_left]
          rcases hx with e' | e' <;> rw [e'] <;> assumption
      · rw [hy', add_sub_cancel_left]
        rcases hy with e' | e' <;> rw [e'] <;> assumption
    · obtain ⟨hx', hy'⟩ := h
      constructor
      · rw [hx', add_sub_cancel_left]
        rcases hx with e' | e' <;> rw [e'] <;> assumption
      · rcases hy' with e | e
        · rw [e, sub_self]; exact h0
        · rw [e, add_sub_cancel_left]
          rcases hy with e' | e' <;> rw [e'] <;> assumption
  · apply List.Nodup.map_on _ (List.nodup_range _)
    intro a _ b _ hab
    have hx := hsx p0.x p1.x
    have hy := hsx p0.y p1.y
    generalize (if p0.x < p1.x then (1 : Int) else -1) = sx at hab hx
    generalize (if p0.y < p1.y then (1 : Int) else -1) = sy at hab hy
    by_cases hs : |p1.y - p0.y| > |p1.x - p0.x|
    · simp only [hs, if_true, Point2.mk.injEq] at hab
      rcases hy with e | e <;> rw [e] at hab <;> omega
    · simp only [hs, if_false, Point2.mk.injEq] at hab
      rcases hx with e | e <;> rw [e] at hab <;> omega

/-! ## The end samples of an interpolation under exact arithmetic -/

/-- The first sample of a returned buffer, for a kind whose conversion `T(to_float(v))`
gives back `v`. -/
theorem interpolate_first {T : Type} [Interpolable T]
    (hcast : ∀ v : T, Interpolable.cast (Interpolable.to_float v) = v)
    (i0 i1 : Int) (v0 v1 : T) (h : i0 ≤ i1) (b : Buffer T)
    (hb : interpolate i0 v0 i1 v1 = some b) : b.get 0 = some v0 := by
  rcases h.lt_or_eq with hlt | heq
  · have hg := interpolate_get i0 i1 v0 v1 hlt b hb i0 (le_refl _) h
    rw [sub_self] at hg
    rw [hg]
    simp only [Int.toNat_zero, Function.iterate_zero, id_eq, hcast]
  · subst heq
    rw [interpolate_eq_of_eq] at hb
    cases hb
    rfl

/-- The last sample of a returned buffer of floats on a span `i0 < i1`. -/
theorem interpolate_rat_last (i0 i1 : Int) (v0 v1 : ℚ) (h : i0 < i1) (b : Buffer ℚ)
    (hb : interpolate i0 v0 i1 v1 = some b) : b.get (i1 - i0) = some v1 := by
  have hg := interpolate_get i0 i1 v0 v1 h b hb i1 h.le (le_refl _)
  rw [hg]
  have hn : (((i1 - i0).toNat : Nat) : ℚ) = ((i1 - i0 : Int) : ℚ) := by
    rw [← Int.cast_natCast, Int.toNat_of_nonneg (by omega)]
  have hne : ((i1 - i0 : Int) : ℚ) ≠ 0 := by
    have : (i1 - i0 : Int) ≠ 0 := by omega
    exact_mod_cast this
  show some ((fun x : ℚ => x + (v1 - v0) / ((i1 - i0 : Int) : ℚ))^[(i1 - i0).toNat] v0) = _
  rw [iterate_add_rat, hn]
  generalize ((i1 - i0 : Int) : ℚ) = n at hne
  congr 1
  field_simp

/-- The last sample of a returned buffer of integers on a span `i0 < i1`. -/
theorem interpolate_int_last (i0 i1 v0 v1 : Int) (h : i0 < i1) (b : Buffer Int)
    (hb : interpolate i0 v0 i1 v1 = some b) : b.get (i1 - i0) = some v1 := by
  have hg := interpolate_int_get i0 i1 v0 v1 h b hb i1 h.le (le_refl _)
  rw [hg]
  have hne : ((i1 - i0 : Int) : ℚ) ≠ 0 := by
    have : (i1 - i0 : Int) ≠ 0 := by omega
    exact_mod_cast this
  have e : (v0 : ℚ) + ((i1 - i0 : Int) : ℚ) * ((((v1 : ℚ)) - v0) / ((i1 - i0 : Int) : ℚ))
      = ((v1 : Int) : ℚ) := by
    generalize ((i1 - i0 : Int) : ℚ) = n at hne
    field_simp
  rw [e, truncToInt_intCast]

/-- The last sample of a returned buffer of texture coordinates on a span `i0 < i1`. -/
theorem interpolate_texcoords_last (i0 i1 : Int) (v0 v1 : TexCoords) (h : i0 < i1)
    (b : Buffer TexCoords) (hb : interpolate i0 v0 i1 v1 = some b) :
    b.get (i1 - i0) = some v1 := by
  have hg := interpolate_get i0 i1 v0 v1 h b hb i1 h.le (le_refl _)
  rw [hg]
  have hn : (((i1 - i0).toNat : Nat) : ℚ) = ((i1 - i0 : Int) : ℚ) := by
    rw [← Int.cast_natCast, Int.toNat_of_nonneg (by omega)]
  have hne : ((i1 - i0 : Int) : ℚ) ≠ 0 := by
    have : (i1 - i0 : Int) ≠ 0 := by omega
    exact_mod_cast this
  show some ((fun x : TexCoords => TexCoords.add x
    (TexCoords.div (TexCoords.sub v1 v0) ((i1 - i0 : Int) : ℚ)))^[(i1 - i0).toNat] v0) = _
  rw [iterate_add_texcoords, hn]
  generalize ((i1 - i0 : Int) : ℚ) = n at hne
  simp only [TexCoords.div, TexCoords.sub]
  congr 1
  cases v1
  simp only [TexCoords.mk.injEq]
  constructor <;> field_simp

/-- The last sample of a returned buffer of 3-vectors on a span `i0 < i1`. -/
theorem interpolate_vec3_last (i0 i1 : Int) (v0 v1 : Vec3) (h : i0 < i1)
    (b : Buffer Vec3) (hb : interpolate i0 v0 i1 v1 = some b) :
    b.get (i1 - i0) = some v1 := by
  have hg := interpolate_get i0 i1 v0 v1 h b hb i1 h.le (le_refl _)
  rw [hg]
  have hn : (((i1 - i0).toNat : Nat) : ℚ) = ((i1 - i0 : Int) : ℚ) := by
    rw [← Int.cast_natCast, Int.toNat_of_nonneg (by omega)]
  have hne : ((i1 - i0 : Int) : ℚ) ≠ 0 := by
    have : (i1 - i0 : Int) ≠ 0 := by omega
    exact_mod_cast this
  show some ((fun x : Vec3 => Vec3.add x
    (Vec3.div (Vec3.sub v1 v0) ((i1 - i0 : Int) : ℚ)))^[(i1 - i0).toNat] v0) = _
  rw [iterate_add_vec3, hn]
  generalize ((i1 - i0 : Int) : ℚ) = n at hne
  simp only [Vec3.div, Vec3.sub]
  congr 1
  cases v1
  simp only [Vec3.mk.injEq]
  refine ⟨?_, ?_, ?_⟩ <;> field_simp

/-- The merged short-edge sequence of a sorted triangle holds the value of the middle
vertex at the offset `p1.y - p0.y`, for a kind whose conversion `T(to_float(v))` gives back
`v`. -/
theorem merged_short_edges_middle {T : Type} [Interpolable T]
    (hcast : ∀ v : T, Interpolable.cast (Interpolable.to_float v) = v)
    (p0 p1 p2 : Point2) (a0 a1 a2 : T) (h01 : p0.y ≤ p1.y) (h12 : p1.y ≤ p2.y)
    (m : Buffer T) (hm : merged_short_edges p0 p1 p2 a0 a1 a2 = some m) :
    m.get (p1.y - p0.y) = some a1 := by
  obtain ⟨a01, a12, h01', h12', hpos, _, hmeq⟩ :=
    (merged_short_edges_eq_some_iff p0 p1 p2 a0 a1 a2 m).mp hm
  have hs01 := (interpolate_size_eq p0.y p1.y a0 a1 a01 h01').1
  have hs12 := (interpolate_size_eq p1.y p2.y a1 a2 a12 h12').1
  have hfirst := interpolate_first hcast p1.y p2.y a1 a2 h12 a12 h12'
  have h12pos : 0 < a12.size := by rw [hs12]; omega
  unfold Buffer.get at hfirst ⊢
  have hsize : m.size = a01.size - 1 + a12.size := by
    rw [hmeq]
    simp only [Buffer.size, List.length_append, List.length_dropLast]
  have hidx : (p1.y - p0.y).toNat = a01.size - 1 := by rw [hs01]; omega
  rw [if_pos ⟨by omega, by rw [hsize]; omega⟩]
  rw [if_pos ⟨le_refl _, by exact_mod_cast h12pos⟩] at hfirst
  rw [hmeq, hidx]
  simp only [Buffer.size] at hfirst ⊢
  rw [List.getElem?_append_right (by rw [List.length_dropLast])]
  simp only [List.length_dropLast, Nat.sub_self]
  exact hfirst

/-- A flat triangle.
The flat triangle `(0,0), (1,0), (2,0)` has its three vertices
on one scanline, so the long-edge sequence of `interpolate_points` is the one-sample buffer
`[p0.x] = [0]` of the degenerate span: it does not end at `p2.x = 2`.  The edge sequences
returned are `[0]` and `[1]`, and `draw_filled_triangle` writes the pixels `(0,0)` and
`(1,0)` only. -/
theorem long_edge_end_counterexample :
    sort_points_by_y ⟨0, 0⟩ ⟨1, 0⟩ ⟨2, 0⟩ = (⟨0, 0⟩, ⟨1, 0⟩, ⟨2, 0⟩) ∧
    long_edge ⟨0, 0⟩ ⟨2, 0⟩ (0 : Int) 2 = some ⟨[0]⟩ ∧
    (¬ ∃ l : Buffer Int, long_edge ⟨0, 0⟩ ⟨2, 0⟩ (0 : Int) 2 = some l ∧
      l.get (Int.ofNat (l.size - 1)) = some 2) ∧
    interpolate_points ⟨0, 0⟩ ⟨1, 0⟩ ⟨2, 0⟩ = some (⟨[0]⟩, ⟨[1]⟩, LeftSide.k02) ∧
    draw_filled_triangle_pixels ⟨0, 0⟩ ⟨1, 0⟩ ⟨2, 0⟩ Color.kBrightGreen =
      some [(⟨0, 0⟩, Color.kBrightGreen), (⟨1, 0⟩, Color.kBrightGreen)] := by
  have hl : long_edge ⟨0, 0⟩ ⟨2, 0⟩ (0 : Int) 2 = some ⟨[0]⟩ := by decide
  refine ⟨by decide, hl, ?_, by decide, by decide⟩
  rintro ⟨l, hl', hget⟩
  rw [hl] at hl'
  cases hl'
  revert hget
  decide

/-- Exact arithmetic.  Over exact arithmetic, for each kind (integer, float, `TexCoords`,
`Vec3`) and all `i0 <= i1`: `interpolate(i0, v0, i1, v1)` returns whenever the span fits
the capacity, the first sample of a returned buffer is `v0` and, when `i0 < i1`, its last
sample is `v1`.  Hence in `interpolate_points` on a triangle sorted by `y` the long-edge
sequence starts at `p0.x`; it ends at `p2.x` when `p0.y < p2.y`, and it is the single
sample `p0.x` when `p0.y = p2.y`; and the merged short-edge sequence holds `p1.x` at the
offset `p1.y - p0.y`. -/
theorem interpolate_end_samples (i0 i1 : Int) (h : i0 ≤ i1) :
    (∀ v0 v1 : Int,
      (i1 - i0 + 1 ≤ (kMaxSize : Int) → (interpolate i0 v0 i1 v1).isSome = true) ∧
      ∀ b, interpolate i0 v0 i1 v1 = some b →
        b.get 0 = some v0 ∧ (i0 < i1 → b.get (i1 - i0) = some v1)) ∧
    (∀ v0 v1 : ℚ,
      (i1 - i0 + 1 ≤ (kMaxSize : Int) → (interpolate i0 v0 i1 v1).isSome = true) ∧
      ∀ b, interpolate i0 v0 i1 v1 = some b →
        b.get 0 = some v0 ∧ (i0 < i1 → b.get (i1 - i0) = some v1)) ∧
    (∀ v0 v1 : TexCoords,
      (i1 - i0 + 1 ≤ (kMaxSize : Int) → (interpolate i0 v0 i1 v1).isSome = true) ∧
      ∀ b, interpolate i0 v0 i1 v1 = some b →
        b.get 0 = some v0 ∧ (i0 < i1 → b.get (i1 - i0) = some v1)) ∧
    (∀ v0 v1 : Vec3,
      (i1 - i0 + 1 ≤ (kMaxSize : Int) → (interpolate i0 v0 i1 v1).isSome = true) ∧
      ∀ b, interpolate i0 v0 i1 v1 = some b →
        b.get 0 = some v0 ∧ (i0 < i1 → b.get (i1 - i0) = some v1)) ∧
    (∀ p0 p1 p2 : Point2, p0.y ≤ p1.y → p1.y ≤ p2.y →
      (p2.y - p0.y + 1 ≤ (kMaxSize : Int) → ∃ r, interpolate_points p0 p1 p2 = some r) ∧
      ∀ x_left x_right tag, interpolate_points p0 p1 p2 = some (x_left, x_right, tag) →
        ∃ l m, long_edge p0 p2 p0.x p2.x = some l ∧
          merged_short_edges p0 p1 p2 p0.x p1.x p2.x = some m ∧
          ((tag = LeftSide.k02 ∧ x_left = l ∧ x_right = m) ∨
            (tag = LeftSide.k01_12 ∧ x_left = m ∧ x_right = l)) ∧
          l.get 0 = some p0.x ∧
          (p0.y < p2.y → l.get (p2.y - p0.y) = some p2.x) ∧
          (p0.y = p2.y → l = ⟨[p0.x]⟩) ∧
          m.get (p1.y - p0.y) = some p1.x) := by
  have hcI : ∀ v : Int, Interpolable.cast (Interpolable.to_float v) = v :=
    fun v => truncToInt_intCast v
  have hcQ : ∀ v : ℚ, Interpolable.cast (Interpolable.to_float v) = v := fun _ => rfl
  have hcT : ∀ v : TexCoords, Interpolable.cast (Interpolable.to_float v) = v := fun _ => rfl
  have hcV : ∀ v : Vec3, Interpolable.cast (Interpolable.to_float v) = v := fun _ => rfl
  refine ⟨?_, ?_, ?_, ?_, ?_⟩
  · intro v0 v1
    exact ⟨interpolate_isSome i0 i1 v0 v1 h, fun b hb =>
      ⟨interpolate_first hcI i0 i1 v0 v1 h b hb,
        fun hlt => interpolate_int_last i0 i1 v0 v1 hlt b hb⟩⟩
  · intro v0 v1
    exact ⟨interpolate_isSome i0 i1 v0 v1 h, fun b hb =>
      ⟨interpolate_first hcQ i0 i1 v0 v1 h b hb,
        fun hlt => interpolate_rat_last i0 i1 v0 v1 hlt b hb⟩⟩
  · intro v0 v1
    exact ⟨interpolate_isSome i0 i1 v0 v1 h, fun b hb =>
      ⟨interpolate_first hcT i0 i1 v0 v1 h b hb,
        fun hlt => interpolate_texcoords_last i0 i1 v0 v1 hlt b hb⟩⟩
  · intro v0 v1
    exact ⟨interpolate_isSome i0 i1 v0 v1 h, fun b hb =>
      ⟨interpolate_first hcV i0 i1 v0 v1 h b hb,
        fun hlt => interpolate_vec3_last i0 i1 v0 v1 hlt b hb⟩⟩
  · intro p0 p1 p2 h01 h12
    refine ⟨interpolate_points_isSome p0 p1 p2 h01 h12, ?_⟩
    intro x_left x_right tag hpts
    obtain ⟨l, m, a, b, hl, hm, _, _, hcase⟩ :=
      (interpolate_points_eq_some_iff p0 p1 p2 x_left x_right tag).mp hpts
    refine ⟨l, m, hl, hm, ?_, ?_, ?_, ?_, ?_⟩
    · rcases hcase with ⟨_, ht, hxl, hxr⟩ | ⟨_, ht, hxl, hxr⟩
      · exact Or.inl ⟨ht, hxl, hxr⟩
      · exact Or.inr ⟨ht, hxl, hxr⟩
    · exact interpolate_first hcI p0.y p2.y p0.x p2.x (h01.trans h12) l hl
    · intro hlt
      exact interpolate_int_last p0.y p2.y p0.x p2.x hlt l hl
    · intro heq
      unfold long_edge at hl
      rw [← heq, interpolate_eq_of_eq] at hl
      exact (Option.some.inj hl).symm
    · exact merged_short_edges_middle hcI p0 p1 p2 p0.x p1.x p2.x h01 h12 m hm

/-- Exact arithmetic, an instance.
The span `0..2`, and the triangle `(0,0), (4,2), (1,5)`, whose
long-edge sequence `[0,0,0,0,0,1]` starts at `p0.x = 0` and ends at `p2.x = 1` and whose
merged short-edge sequence `[0,2,4,3,2,1]` holds `p1.x = 4` at the offset `2`. -/
theorem interpolate_end_samples_witness :
    ((0 : Int) ≤ 2 ∧
      interpolate 0 (3 : Int) 2 8 = some ⟨[3, 5, 8]⟩ ∧
      long_edge ⟨0, 0⟩ ⟨1, 5⟩ (0 : Int) 1 = some ⟨[0, 0, 0, 0, 0, 1]⟩ ∧
      merged_short_edges ⟨0, 0⟩ ⟨4, 2⟩ ⟨1, 5⟩ (0 : Int) 4 1 = some ⟨[0, 2, 4, 3, 2, 1]⟩) ∧
    ((∀ v0 v1 : Int,
      ((2 : Int) - 0 + 1 ≤ (kMaxSize : Int) → (interpolate 0 v0 2 v1).isSome = true) ∧
      ∀ b, interpolate 0 v0 2 v1 = some b →
        b.get 0 = some v0 ∧ ((0 : Int) < 2 → b.get (2 - 0) = some v1)) ∧
    (∀ v0 v1 : ℚ,
      ((2 : Int) - 0 + 1 ≤ (kMaxSize : Int) → (interpolate 0 v0 2 v1).isSome = true) ∧
      ∀ b, interpolate 0 v0 2 v1 = some b →
        b.get 0 = some v0 ∧ ((0 : Int) < 2 → b.get (2 - 0) = some v1)) ∧
    (∀ v0 v1 : TexCoords,
      ((2 : Int) - 0 + 1 ≤ (kMaxSize : Int) → (interpolate 0 v0 2 v1).isSome = true) ∧
      ∀ b, interpolate 0 v0 2 v1 = some b →
        b.get 0 = some v0 ∧ ((0 : Int) < 2 → b.get (2 - 0) = some v1)) ∧
    (∀ v0 v1 : Vec3,
      ((2 : Int) - 0 + 1 ≤ (kMaxSize : Int) → (interpolate 0 v0 2 v1).isSome = true) ∧
      ∀ b, interpolate 0 v0 2 v1 = some b →
        b.get 0 = some v0 ∧ ((0 : Int) < 2 → b.get (2 - 0) = some v1)) ∧
    (∀ p0 p1 p2 : Point2, p0.y ≤ p1.y → p1.y ≤ p2.y →
      (p2.y - p0.y + 1 ≤ (kMaxSize : Int) → ∃ r, interpolate_points p0 p1 p2 = some r) ∧
      ∀ x_left x_right tag, interpolate_points p0 p1 p2 = some (x_left, x_right, tag) →
        ∃ l m, long_edge p0 p2 p0.x p2.x = some l ∧
          merged_short_edges p0 p1 p2 p0.x p1.x p2.x = some m ∧
          ((tag = LeftSide.k02 ∧ x_left = l ∧ x_right = m) ∨
            (tag = LeftSide.k01_12 ∧ x_left = m ∧ x_right = l)) ∧
          l.get 0 = some p0.x ∧
          (p0.y < p2.y → l.get (p2.y - p0.y) = some p2.x) ∧
          (p0.y = p2.y → l = ⟨[p0.x]⟩) ∧
          m.get (p1.y - p0.y) = some p1.x)) :=
  ⟨⟨by decide, by decide!, by decide!, by decide!⟩, interpolate_end_samples 0 2 (by decide)⟩

/-! ## Loops over scanlines and pixels, continued -/

/-- The calls of a loop have pairwise distinct keys when the counter values are distinct,
the calls of each iteration have distinct keys, and the calls of two different iterations
have different keys. -/
theorem for_each_concat_nodup {α β γ : Type} (key : β → γ) (body : α → Option (List β)) :
    ∀ (l : List α) (all : List β), for_each_concat body l = some all → l.Nodup →
      (∀ a ∈ l, ∀ calls, body a = some calls → (calls.map key).Nodup) →
      (∀ a ∈ l, ∀ a' ∈ l, a ≠ a' → ∀ calls calls', body a = some calls →
        body a' = some calls' → ∀ b ∈ calls, ∀ b' ∈ calls', key b ≠ key b') →
      (all.map key).Nodup := by
  intro l
  induction l with
  | nil =>
    intro all h _ _ _
    simp only [for_each_concat, Option.some.injEq] at h
    subst h
    exact List.nodup_nil
  | cons a rest ih =>
    intro all h hl hrow hdisj
    rw [for_each_concat_cons] at h
    cases hb : body a with
    | none => rw [hb] at h; exact Option.noConfusion h
    | some calls =>
      rw [hb] at h
      simp only [Option.some_bind] at h
      cases hr : for_each_concat body rest with
      | none => rw [hr] at h; exact Option.noConfusion h
      | some more =>
        rw [hr] at h
        simp only [Option.map_some', Option.some.injEq] at h
        subst h
        rw [List.map_append, List.nodup_append]
        refine ⟨hrow a (List.mem_cons_self _ _) calls hb, ?_, ?_⟩
        · exact ih more hr (List.nodup_cons.mp hl).2
            (fun a' ha' => hrow a' (List.mem_cons_of_mem _ ha'))
            (fun a1 h1 a2 h2 => hdisj a1 (List.mem_cons_of_mem _ h1) a2
              (List.mem_cons_of_mem _ h2))
        · intro k hk1 hk2
          rw [List.mem_map] at hk1 hk2
          obtain ⟨b, hbm, hbk⟩ := hk1
          obtain ⟨b', hbm', hbk'⟩ := hk2
          obtain ⟨a', ha', calls', hcalls', hb'⟩ := ((for_each_concat_mem body rest more hr).2 b').mp
            hbm'
          have hne : a ≠ a' := by
            intro heq
            rw [← heq] at ha'
            exact (List.nodup_cons.mp hl).1 ha'
          exact hdisj a (List.mem_cons_self _ _) a' (List.mem_cons_of_mem _ ha') hne calls
            calls' hb hcalls' b hbm b' hb' (hbk.trans hbk'.symm)

/-! ## The edge sequences stay between the vertices -/

/-- The truncation of a value interpolated between two integers lies between them. -/
theorem truncToInt_step_between (v0 v1 n : Int) (k : Nat) (hk : (k : Int) ≤ n) :
    min v0 v1 ≤ truncToInt ((v0 : ℚ) + (k : ℚ) * ((((v1 : ℚ)) - v0) / (n : ℚ))) ∧
      truncToInt ((v0 : ℚ) + (k : ℚ) * ((((v1 : ℚ)) - v0) / (n : ℚ))) ≤ max v0 v1 := by
  have hkq : ((k : Int) : ℚ) ≤ (n : ℚ) := by exact_mod_cast hk
  have hk0 : (0 : ℚ) ≤ (k : ℚ) := Nat.cast_nonneg k
  simp only [Int.cast_natCast] at hkq
  have hbetween : ((min v0 v1 : Int) : ℚ) ≤ (v0 : ℚ) + (k : ℚ) * ((((v1 : ℚ)) - v0) / (n : ℚ)) ∧
      (v0 : ℚ) + (k : ℚ) * ((((v1 : ℚ)) - v0) / (n : ℚ)) ≤ ((max v0 v1 : Int) : ℚ) := by
    have hmin0 : ((min v0 v1 : Int) : ℚ) ≤ v0 := by exact_mod_cast min_le_left v0 v1
    have hmin1 : ((min v0 v1 : Int) : ℚ) ≤ v1 := by exact_mod_cast min_le_right v0 v1
    have hmax0 : (v0 : ℚ) ≤ ((max v0 v1 : Int) : ℚ) := by exact_mod_cast le_max_left v0 v1
    have hmax1 : (v1 : ℚ) ≤ ((max v0 v1 : Int) : ℚ) := by exact_mod_cast le_max_right v0 v1
    by_cases hn : (n : ℚ) = 0
    · rw [hn, div_zero, mul_zero, add_zero]
      exact ⟨hmin0, hmax0⟩
    · have hnpos : (0 : ℚ) < n := lt_of_le_of_ne (hk0.trans hkq) (Ne.symm hn)
      have e : (v0 : ℚ) + (k : ℚ) * ((((v1 : ℚ)) - v0) / (n : ℚ)) =
          (1 - (k : ℚ) / n) * v0 + ((k : ℚ) / n) * v1 := by
        field_simp
        ring
      have ht0 : (0 : ℚ) ≤ (k : ℚ) / n := div_nonneg hk0 hnpos.le
      have ht1 : (k : ℚ) / n ≤ 1 := (div_le_one hnpos).mpr hkq
      rw [e]
      constructor
      · nlinarith
      · nlinarith
  constructor
  · have := truncToInt_mono hbetween.1
    rwa [truncToInt_intCast] at this
  · have := truncToInt_mono hbetween.2
    rwa [truncToInt_intCast] at this

/-- Every value of the two edge sequences of a sorted triangle lies between the least and
the greatest `x` of the three vertices. -/
theorem edge_sequences_between (q0 q1 q2 : Point2) (h01 : q0.y ≤ q1.y) (h12 : q1.y ≤ q2.y)
    (x_left x_right : Buffer Int) (tag : LeftSide)
    (hpts : interpolate_points q0 q1 q2 = some (x_left, x_right, tag)) (lo hi : Int)
    (h0 : lo ≤ q0.x ∧ q0.x ≤ hi) (h1 : lo ≤ q1.x ∧ q1.x ≤ hi) (h2 : lo ≤ q2.x ∧ q2.x ≤ hi) :
    ∀ (k : Int) (v : Int), (x_left.get k = some v ∨ x_right.get k = some v) →
      lo ≤ v ∧ v ≤ hi := by
  obtain ⟨l, m, a, b, hl, hm, _, _, hcase⟩ :=
    (interpolate_points_eq_some_iff q0 q1 q2 x_left x_right tag).mp hpts
  have hls := long_edge_size q0 q2 q0.x q2.x (h01.trans h12) l hl
  have hms := merged_short_edges_size q0 q1 q2 q0.x q1.x q2.x h01 h12 m hm
  have hlb : ∀ (k : Int) (v : Int), l.get k = some v → lo ≤ v ∧ v ≤ hi := by
    intro k v hv
    have hk := (buffer_get_isSome_iff l k).mp (by rw [hv]; rfl)
    unfold Buffer.get at hv
    rw [if_pos hk] at hv
    unfold long_edge at hl
    rw [interpolate_int_getElem q0.y q2.y q0.x q2.x (h01.trans h12) l hl k.toNat
      (by omega)] at hv
    have hb := truncToInt_step_between q0.x q2.x (q2.y - q0.y) k.toNat (by omega)
    rw [← Option.some.inj hv]
    constructor
    · exact le_trans (le_min h0.1 h2.1) hb.1
    · exact le_trans hb.2 (max_le h0.2 h2.2)
  have hmb : ∀ (k : Int) (v : Int), m.get k = some v → lo ≤ v ∧ v ≤ hi := by
    intro k v hv
    have hk := (buffer_get_isSome_iff m k).mp (by rw [hv]; rfl)
    unfold Buffer.get at hv
    rw [if_pos hk] at hv
    rw [merged_short_edges_getElem q0 q1 q2 h01 h12 m hm k.toNat (by omega)] at hv
    rw [← Option.some.inj hv]
    by_cases hlt : ((k.toNat : Nat) : Int) < q1.y - q0.y
    · rw [if_pos hlt]
      have hb := truncToInt_step_between q0.x q1.x (q1.y - q0.y) k.toNat (by omega)
      constructor
      · exact le_trans (le_min h0.1 h1.1) hb.1
      · exact le_trans hb.2 (max_le h0.2 h1.2)
    · rw [if_neg hlt]
      have hb := truncToInt_step_between q1.x q2.x (q2.y - q1.y)
        (k.toNat - (q1.y - q0.y).toNat) (by omega)
      constructor
      · exact le_trans (le_min h1.1 h2.1) hb.1
      · exact le_trans hb.2 (max_le h1.2 h2.2)
  intro k v hv
  rcases hcase with ⟨_, _, hxl, hxr⟩ | ⟨_, _, hxl, hxr⟩
  · rw [hxl, hxr] at hv
    rcases hv with hv | hv
    · exact hlb k v hv
    · exact hmb k v hv
  · rw [hxl, hxr] at hv
    rcases hv with hv | hv
    · exact hmb k v hv
    · exact hlb k v hv

/-! ## The pixels of a filled triangle, continued -/

/-- The body of `draw_filled_triangle_pixels` once the edge sequences are known. -/
theorem draw_filled_triangle_pixels_eq (p0 p1 p2 : Point2) (color : Color)
    (x_left x_right : Buffer Int) (tag : LeftSide)
    (hpts : interpolate_points (sort_points_by_y p0 p1 p2).1 (sort_points_by_y p0 p1 p2).2.1
      (sort_points_by_y p0 p1 p2).2.2 = some (x_left, x_right, tag)) :
    draw_filled_triangle_pixels p0 p1 p2 color =
      for_each_concat (draw_filled_triangle_row x_left x_right (sort_points_by_y p0 p1 p2).1
        color) (int_range (sort_points_by_y p0 p1 p2).1.y (sort_points_by_y p0 p1 p2).2.2.y) := by
  unfold draw_filled_triangle_pixels
  simp only []
  rw [hpts]
  rfl

/-- The points written by `draw_filled_triangle` are pairwise distinct. -/
theorem draw_filled_triangle_pixels_nodup (p0 p1 p2 : Point2) (color : Color)
    (pixels : List (Point2 × Color))
    (h : draw_filled_triangle_pixels p0 p1 p2 color = some pixels) :
    (pixels.map Prod.fst).Nodup := by
  cases hpts : interpolate_points (sort_points_by_y p0 p1 p2).1 (sort_points_by_y p0 p1 p2).2.1
      (sort_points_by_y p0 p1 p2).2.2 with
  | none =>
    unfold draw_filled_triangle_pixels at h
    simp only [] at h
    rw [hpts] at h
    exact Option.noConfusion h
  | some edges =>
    obtain ⟨x_left, x_right, tag⟩ := edges
    rw [draw_filled_triangle_pixels_eq p0 p1 p2 color x_left x_right tag hpts] at h
    have hrow : ∀ (y : Int) (calls : List (Point2 × Color)),
        draw_filled_triangle_row x_left x_right (sort_points_by_y p0 p1 p2).1 color y
          = some calls →
        ∃ xl xr, calls = (int_range xl xr).map fun x => ((⟨x, y⟩ : Point2), color) := by
      intro y calls hc
      unfold draw_filled_triangle_row at hc
      cases hxl : x_left.get (y - (sort_points_by_y p0 p1 p2).1.y) with
      | none => rw [hxl] at hc; exact Option.noConfusion hc
      | some xl =>
        cases hxr : x_right.get (y - (sort_points_by_y p0 p1 p2).1.y) with
        | none => rw [hxl, hxr] at hc; exact Option.noConfusion hc
        | some xr =>
          rw [hxl, hxr] at hc
          simp only [Option.some_bind, Option.some.injEq] at hc
          exact ⟨xl, xr, hc.symm⟩
    apply for_each_concat_nodup Prod.fst _ _ _ h (int_range_nodup _ _)
    · intro y _ calls hc
      obtain ⟨xl, xr, hcalls⟩ := hrow y calls hc
      rw [hcalls, List.map_map]
      apply List.Nodup.map_on _ (int_range_nodup xl xr)
      intro a _ b _ hab
      simp only [Function.comp, Point2.mk.injEq] at hab
      exact hab.1
    · intro y _ y' _ hne calls calls' hc hc' b hb b' hb' hkey
      obtain ⟨xl, xr, hcalls⟩ := hrow y calls hc
      obtain ⟨xl', xr', hcalls'⟩ := hrow y' calls' hc'
      rw [hcalls, List.mem_map] at hb
      rw [hcalls', List.mem_map] at hb'
      obtain ⟨x, _, hx⟩ := hb
      obtain ⟨x', _, hx'⟩ := hb'
      rw [← hx, ← hx'] at hkey
      simp only [Point2.mk.injEq] at hkey
      exact hne hkey.2

/-! ## The bounding box of a filled triangle under exact arithmetic -/

/-- Exact arithmetic.
The routine `draw_filled_triangle` never paints outside the bounding box of its vertices.  The
routine makes its calls whenever the triangle spans at most `kMaxSize` scanlines; whenever
it does, every point `(x, y)` it passes to `draw_pixel` satisfies
`min(p0.y,p1.y,p2.y) <= y <= max(p0.y,p1.y,p2.y)` and
`min(p0.x,p1.x,p2.x) <= x <= max(p0.x,p1.x,p2.x)`, and no point is passed twice (over exact
arithmetic). -/
theorem draw_filled_triangle_in_bounding_box (p0 p1 p2 : Point2) (color : Color) :
    (max p0.y (max p1.y p2.y) - min p0.y (min p1.y p2.y) + 1 ≤ (kMaxSize : Int) →
      ∃ pixels, draw_filled_triangle_pixels p0 p1 p2 color = some pixels) ∧
    ∀ pixels, draw_filled_triangle_pixels p0 p1 p2 color = some pixels →
      (∀ (canvas : Canvas),
        draw_filled_triangle canvas p0 p1 p2 color = canvas.draw_pixels pixels) ∧
      (∀ pc ∈ pixels,
        min p0.y (min p1.y p2.y) ≤ pc.1.y ∧ pc.1.y ≤ max p0.y (max p1.y p2.y) ∧
        min p0.x (min p1.x p2.x) ≤ pc.1.x ∧ pc.1.x ≤ max p0.x (max p1.x p2.x)) ∧
      (pixels.map Prod.fst).Nodup := by
  obtain ⟨h01, h12⟩ := sort_points_by_y_sorted p0 p1 p2
  have hsort := sort_points_by_y_eq_bundles (p0, ()) (p1, ()) (p2, ())
  simp only [] at hsort
  have hbox := sort_point_bundles_by_y_forall
    (fun b : Point2 × Unit =>
      (min p0.y (min p1.y p2.y) ≤ b.1.y ∧ b.1.y ≤ max p0.y (max p1.y p2.y)) ∧
      (min p0.x (min p1.x p2.x) ≤ b.1.x ∧ b.1.x ≤ max p0.x (max p1.x p2.x)))
    (p0, ()) (p1, ()) (p2, ())
    ⟨⟨min_le_left _ _, le_max_left _ _⟩, ⟨min_le_left _ _, le_max_left _ _⟩⟩
    ⟨⟨(min_le_right _ _).trans (min_le_left _ _), (le_max_left _ _).trans (le_max_right _ _)⟩,
      ⟨(min_le_right _ _).trans (min_le_left _ _), (le_max_left _ _).trans (le_max_right _ _)⟩⟩
    ⟨⟨(min_le_right _ _).trans (min_le_right _ _), (le_max_right _ _).trans (le_max_right _ _)⟩,
      ⟨(min_le_right _ _).trans (min_le_right _ _),
        (le_max_right _ _).trans (le_max_right _ _)⟩⟩
  have e0 : (sort_point_bundles_by_y (p0, ()) (p1, ()) (p2, ())).1.1 =
      (sort_points_by_y p0 p1 p2).1 := by rw [hsort]
  have e1 : (sort_point_bundles_by_y (p0, ()) (p1, ()) (p2, ())).2.1.1 =
      (sort_points_by_y p0 p1 p2).2.1 := by rw [hsort]
  have e2 : (sort_point_bundles_by_y (p0, ()) (p1, ()) (p2, ())).2.2.1 =
      (sort_points_by_y p0 p1 p2).2.2 := by rw [hsort]
  simp only [e0, e1, e2] at hbox
  obtain ⟨⟨hy0, hx0⟩, ⟨hy1, hx1⟩, ⟨hy2, hx2⟩⟩ := hbox
  constructor
  · intro hcap
    obtain ⟨⟨x_left, x_right, tag⟩, hpts⟩ := interpolate_points_isSome _ _ _ h01 h12
      (by omega)
    obtain ⟨pixels, hpix, _⟩ := draw_filled_triangle_pixels_spec p0 p1 p2 color x_left x_right
      tag hpts
    exact ⟨pixels, hpix⟩
  · intro pixels hpix
    refine ⟨?_, ?_, draw_filled_triangle_pixels_nodup p0 p1 p2 color pixels hpix⟩
    · intro canvas
      unfold draw_filled_triangle
      rw [hpix]
      rfl
    · intro pc hpc
      cases hpts : interpolate_points (sort_points_by_y p0 p1 p2).1
          (sort_points_by_y p0 p1 p2).2.1 (sort_points_by_y p0 p1 p2).2.2 with
      | none =>
        unfold draw_filled_triangle_pixels at hpix
        simp only [] at hpix
        rw [hpts] at hpix
        exact Option.noConfusion hpix
      | some edges =>
        obtain ⟨x_left, x_right, tag⟩ := edges
        obtain ⟨pixels', hpix', hmem⟩ := draw_filled_triangle_pixels_spec p0 p1 p2 color x_left
          x_right tag hpts
        rw [hpix] at hpix'
        cases hpix'
        obtain ⟨_, hya, hyb, xl, xr, hxl, hxr, hxa, hxb⟩ := (hmem pc.1 pc.2).mp hpc
        have hbl := edge_sequences_between _ _ _ h01 h12 x_left x_right tag hpts
          (min p0.x (min p1.x p2.x)) (max p0.x (max p1.x p2.x)) hx0 hx1 hx2 _ xl (Or.inl hxl)
        have hbr := edge_sequences_between _ _ _ h01 h12 x_left x_right tag hpts
          (min p0.x (min p1.x p2.x)) (max p0.x (max p1.x p2.x)) hx0 hx1 hx2 _ xr (Or.inr hxr)
        exact ⟨hy0.1.trans hya, hyb.trans hy2.2, hbl.1.trans hxa, hxb.trans hbr.2⟩

/-! ## Depth tests on a depth buffer of the dimensions of the canvas -/

/-- The depth test at a point that maps outside the canvas, on a depth buffer of the same
dimensions, returns false. -/
theorem test_and_set_out_of_canvas (db : DepthBuffer) (hdb : db.WellFormed) (canvas : Canvas)
    (hdim : db.m_dimensions = canvas.m_dimensions) (pt : Point2) (z : ℚ)
    (hout : canvas.in_bounds pt = false) : db.test_and_set pt z = some (false, db) := by
  apply (test_and_set_eq db hdb pt z).1
  intro hb
  rw [hdim] at hb
  rw [(in_bounds_iff canvas pt).mpr hb] at hout
  exact Bool.noConfusion hout

/-- The depth test at a point that maps inside the canvas and whose cell holds `0`, on a
depth buffer of the same dimensions, passes for every `z > 0` and writes `z` to the cell. -/
theorem test_and_set_in_canvas (db : DepthBuffer) (hdb : db.WellFormed) (canvas : Canvas)
    (hdim : db.m_dimensions = canvas.m_dimensions) (pt : Point2) (z : ℚ) (hz : 0 < z)
    (hin : canvas.in_bounds pt = true)
    (hcell : db.m_buffer[canvas.pixel_index pt]? = some 0) :
    db.test_and_set pt z =
      some (true, ⟨db.m_dimensions, db.m_buffer.set (canvas.pixel_index pt) z⟩) := by
  have hb := (in_bounds_iff canvas pt).mp hin
  rw [← hdim] at hb
  obtain ⟨stored, hstored, heq⟩ := (test_and_set_eq db hdb pt z).2 hb
  have hidx : ((Int.tdiv db.m_dimensions.width 2 + pt.x) +
      (Int.tdiv db.m_dimensions.height 2 - pt.y - 1) * db.m_dimensions.width).toNat =
      canvas.pixel_index pt := by
    unfold Canvas.pixel_index
    rw [hdim]
  rw [hidx] at hstored heq
  rw [hcell] at hstored
  cases hstored
  rw [heq, if_pos hz]

/-- Whether a point maps inside a canvas depends on the dimensions only. -/
theorem in_bounds_of_dimensions (c1 c2 : Canvas) (h : c1.m_dimensions = c2.m_dimensions)
    (pt : Point2) : c1.in_bounds pt = c2.in_bounds pt := by
  unfold Canvas.in_bounds
  rw [h]

/-- The index of a point in a canvas depends on the dimensions only. -/
theorem pixel_index_of_dimensions (c1 c2 : Canvas) (h : c1.m_dimensions = c2.m_dimensions)
    (pt : Point2) : c1.pixel_index pt = c2.pixel_index pt := by
  unfold Canvas.pixel_index
  rw [h]

/-- A sequence of depth-tested pixel writes at pairwise distinct points, with values
`z > 0`, on a depth buffer of the dimensions of the canvas that holds `0` at each of these
points, changes the canvas as the plain writes of the same points do. -/
theorem depth_tested_draw_pixels_fresh (color : Color) (tests : List (Point2 × ℚ)) :
    ∀ (canvas : Canvas) (db : DepthBuffer), canvas.WellFormed → db.WellFormed →
      db.m_dimensions = canvas.m_dimensions →
      (tests.map Prod.fst).Nodup → (∀ t ∈ tests, 0 < t.2) →
      (∀ t ∈ tests, canvas.in_bounds t.1 = true →
        db.m_buffer[canvas.pixel_index t.1]? = some 0) →
      (depth_tested_draw_pixels color canvas db tests).map Prod.fst =
        canvas.draw_pixels (tests.map fun t => (t.1, color)) := by
  induction tests with
  | nil =>
    intro canvas db _ _ _ _ _ _
    rfl
  | cons t rest ih =>
    intro canvas db hwf hdb hdim hnd hpos hcells
    obtain ⟨pt, z⟩ := t
    rw [List.map_cons, List.nodup_cons] at hnd
    have hz : 0 < z := hpos (pt, z) (List.mem_cons_self _ _)
    rw [List.map_cons]
    unfold depth_tested_draw_pixels Canvas.draw_pixels
    cases hin : canvas.in_bounds pt with
    | false =>
      rw [test_and_set_out_of_canvas db hdb canvas hdim pt z hin]
      have hdraw : canvas.draw_pixel pt color = some canvas := by
        rw [draw_pixel_eq, hin]
        rfl
      simp only [hdraw]
      exact ih canvas db hwf hdb hdim hnd.2
        (fun t ht => hpos t (List.mem_cons_of_mem _ ht))
        (fun t ht => hcells t (List.mem_cons_of_mem _ ht))
    | true =>
      rw [test_and_set_in_canvas db hdb canvas hdim pt z hz hin
        (hcells (pt, z) (List.mem_cons_self _ _) hin)]
      simp only []
      cases hdraw : canvas.draw_pixel pt color with
      | none => rfl
      | some next =>
        simp only []
        obtain ⟨hwf', hdim'⟩ := draw_pixel_wellFormed canvas hwf pt color next hdraw
        have hdb' : (DepthBuffer.mk db.m_dimensions
            (db.m_buffer.set (canvas.pixel_index pt) z)).WellFormed :=
          ⟨hdb.1, by rw [List.length_set]; exact hdb.2⟩
        apply ih next _ hwf' hdb' (by rw [hdim']; exact hdim) hnd.2
          (fun t ht => hpos t (List.mem_cons_of_mem _ ht))
        intro t ht hint
        rw [in_bounds_of_dimensions next canvas hdim'] at hint
        rw [pixel_index_of_dimensions next canvas hdim']
        have hne : canvas.pixel_index pt ≠ canvas.pixel_index t.1 := by
          intro heq
          have := pixel_index_injective canvas pt t.1 hin hint heq
          apply hnd.1
          rw [this]
          exact List.mem_map.mpr ⟨t, ht, rfl⟩
        simp only []
        rw [List.getElem?_set_ne hne]
        exact hcells t (List.mem_cons_of_mem _ ht) hint

/-! ## The depth tests of a depth-tested filled triangle -/

/-- Mapping the calls of a loop, iteration by iteration. -/
theorem for_each_concat_map {α β γ : Type} (f : β → γ) (body : α → Option (List β))
    (body' : α → Option (List γ)) (l : List α)
    (h : ∀ a ∈ l, (body a).map (List.map f) = body' a) :
    (for_each_concat body l).map (List.map f) = for_each_concat body' l := by
  induction l with
  | nil => rfl
  | cons a rest ih =>
    rw [for_each_concat_cons, for_each_concat_cons, ← h a (List.mem_cons_self _ _),
      ← ih (fun a' ha' => h a' (List.mem_cons_of_mem _ ha'))]
    cases body a with
    | none => rfl
    | some calls =>
      cases for_each_concat body rest with
      | none => rfl
      | some more =>
        simp only [Option.some_bind, Option.map_some', List.map_append]

/-- The body of `draw_filled_triangle_depth_tested_tests` once the edge sequences are
known. -/
theorem draw_filled_triangle_depth_tested_tests_eq (p0 : Point2) (z0 : ℚ) (p1 : Point2)
    (z1 : ℚ) (p2 : Point2) (z2 : ℚ) (x_left x_right : Buffer Int) (tag : LeftSide)
    (z_left z_right : Buffer ℚ)
    (hpts : interpolate_points (sort_point_bundles_by_y (p0, z0) (p1, z1) (p2, z2)).1.1
      (sort_point_bundles_by_y (p0, z0) (p1, z1) (p2, z2)).2.1.1
      (sort_point_bundles_by_y (p0, z0) (p1, z1) (p2, z2)).2.2.1 = some (x_left, x_right, tag))
    (hatt : interpolate_attributes (sort_point_bundles_by_y (p0, z0) (p1, z1) (p2, z2)).1.1
      (sort_point_bundles_by_y (p0, z0) (p1, z1) (p2, z2)).2.1.1
      (sort_point_bundles_by_y (p0, z0) (p1, z1) (p2, z2)).2.2.1
      (1 / (sort_point_bundles_by_y (p0, z0) (p1, z1) (p2, z2)).1.2)
      (1 / (sort_point_bundles_by_y (p0, z0) (p1, z1) (p2, z2)).2.1.2)
      (1 / (sort_point_bundles_by_y (p0, z0) (p1, z1) (p2, z2)).2.2.2) tag
        = some (z_left, z_right)) :
    draw_filled_triangle_depth_tested_tests p0 z0 p1 z1 p2 z2 =
      for_each_concat
        (draw_filled_triangle_depth_tested_row x_left x_right z_left z_right
          (sort_point_bundles_by_y (p0, z0) (p1, z1) (p2, z2)).1.1)
        (int_range (sort_point_bundles_by_y (p0, z0) (p1, z1) (p2, z2)).1.1.y
          (sort_point_bundles_by_y (p0, z0) (p1, z1) (p2, z2)).2.2.1.y) := by
  unfold draw_filled_triangle_depth_tested_tests
  simp only []
  rw [hpts]
  simp only [Option.some_bind]
  rw [hatt]
  rfl

/-- One scanline of `draw_filled_triangle_depth_tested` that fits the capacity of a
`Buffer`: it tests the points of the scanline of `draw_filled_triangle`, in order, each with
a value of the interpolated segment. -/
theorem draw_filled_triangle_depth_tested_row_spec (x_left x_right : Buffer Int)
    (z_left z_right : Buffer ℚ) (p0 : Point2) (y : Int) (xl xr : Int) (zl zr : ℚ)
    (hxl : x_left.get (y - p0.y) = some xl) (hxr : x_right.get (y - p0.y) = some xr)
    (hzl : z_left.get (y - p0.y) = some zl) (hzr : z_right.get (y - p0.y) = some zr)
    (hw : xr - xl + 1 ≤ (kMaxSize : Int)) :
    ∃ tests segment_zs, interpolate xl zl xr zr = some segment_zs ∧
      draw_filled_triangle_depth_tested_row x_left x_right z_left z_right p0 y = some tests ∧
      tests.map Prod.fst = (int_range xl xr).map (fun x => (⟨x, y⟩ : Point2)) ∧
      ∀ t ∈ tests, t.2 ∈ segment_zs.m_storage := by
  have hsome : (interpolate xl zl xr zr).isSome = true :=
    (interpolate_isSome_iff xl xr zl zr).mpr (by omega)
  obtain ⟨seg, hseg⟩ := Option.isSome_iff_exists.mp hsome
  have hrow : draw_filled_triangle_depth_tested_row x_left x_right z_left z_right p0 y =
      some ((int_range xl xr).map fun x =>
        ((⟨x, y⟩ : Point2), (seg.get (x - xl)).getD 0)) := by
    unfold draw_filled_triangle_depth_tested_row
    rw [hxl, hxr, hzl, hzr]
    simp only [Option.some_bind]
    rw [hseg]
    simp only [Option.some_bind]
    rw [for_each_concat_congr (draw_filled_triangle_depth_tested_pixel seg xl y)
      (fun x => some [((⟨x, y⟩ : Point2), (seg.get (x - xl)).getD 0)]) (int_range xl xr) (by
        intro x hx
        rw [mem_int_range] at hx
        obtain ⟨s, hs⟩ := segment_get xl xr zl zr seg hseg x hx.1 hx.2
        unfold draw_filled_triangle_depth_tested_pixel
        simp only [hs, Option.some_bind, Option.getD_some]),
      for_each_concat_some, flatMap_singleton_eq_map]
  refine ⟨_, seg, hseg, hrow, ?_, ?_⟩
  · rw [List.map_map]
    rfl
  · intro t ht
    rw [List.mem_map] at ht
    obtain ⟨x, hx, hxt⟩ := ht
    rw [mem_int_range] at hx
    obtain ⟨s, hs⟩ := segment_get xl xr zl zr seg hseg x hx.1 hx.2
    rw [← hxt, hs]
    exact buffer_get_mem _ _ _ hs

/-- One scanline of `draw_filled_triangle_depth_tested` fails when the scanline exceeds the
capacity of a `Buffer`. -/
theorem draw_filled_triangle_depth_tested_row_none (x_left x_right : Buffer Int)
    (z_left z_right : Buffer ℚ) (p0 : Point2) (y : Int) (xl xr : Int) (zl zr : ℚ)
    (hxl : x_left.get (y - p0.y) = some xl) (hxr : x_right.get (y - p0.y) = some xr)
    (hzl : z_left.get (y - p0.y) = some zl) (hzr : z_right.get (y - p0.y) = some zr)
    (hw : (kMaxSize : Int) < xr - xl + 1) :
    draw_filled_triangle_depth_tested_row x_left x_right z_left z_right p0 y = none := by
  have hnone : interpolate xl zl xr zr = none := by
    cases h : interpolate xl zl xr zr with
    | none => rfl
    | some b =>
      have := (interpolate_isSome_iff xl xr zl zr).mp (by rw [h]; rfl)
      omega
  unfold draw_filled_triangle_depth_tested_row
  rw [hxl, hxr, hzl, hzr]
  simp only [Option.some_bind]
  rw [hnone]
  rfl

/-- The depth tests of `draw_filled_triangle_depth_tested` on a triangle with depths
`z > 0` whose scanlines each span at most `kMaxSize` pixels: the points tested are the
points written by `draw_filled_triangle`, in order, and each value tested is `> 0`. -/
theorem draw_filled_triangle_depth_tested_tests_spec (p0 : Point2) (z0 : ℚ) (p1 : Point2)
    (z1 : ℚ) (p2 : Point2) (z2 : ℚ) (color : Color) (hz0 : 0 < z0) (hz1 : 0 < z1)
    (hz2 : 0 < z2)
    (hw : ∀ x_left x_right tag,
      interpolate_points (sort_points_by_y p0 p1 p2).1 (sort_points_by_y p0 p1 p2).2.1
        (sort_points_by_y p0 p1 p2).2.2 = some (x_left, x_right, tag) →
      ∀ (k xl xr : Int), x_left.get k = some xl → x_right.get k = some xr →
        xr - xl + 1 ≤ (kMaxSize : Int)) :
    (draw_filled_triangle_depth_tested_tests p0 z0 p1 z1 p2 z2).map
        (List.map fun t => (t.1, color)) = draw_filled_triangle_pixels p0 p1 p2 color ∧
    ∀ tests, draw_filled_triangle_depth_tested_tests p0 z0 p1 z1 p2 z2 = some tests →
      ∀ t ∈ tests, 0 < t.2 := by
  have hsort := sort_points_by_y_eq_bundles (p0, z0) (p1, z1) (p2, z2)
  simp only [] at hsort
  obtain ⟨hs0, hs1, hs2⟩ := sort_point_bundles_by_y_forall
    (fun b : Point2 × ℚ => 0 < b.2) (p0, z0) (p1, z1) (p2, z2) hz0 hz1 hz2
  obtain ⟨h01, h12⟩ := sort_point_bundles_by_y_sorted (p0, z0) (p1, z1) (p2, z2)
  rw [hsort] at hw
  simp only [] at hw
  cases hpts : interpolate_points (sort_point_bundles_by_y (p0, z0) (p1, z1) (p2, z2)).1.1
      (sort_point_bundles_by_y (p0, z0) (p1, z1) (p2, z2)).2.1.1
      (sort_point_bundles_by_y (p0, z0) (p1, z1) (p2, z2)).2.2.1 with
  | none =>
    have htests : draw_filled_triangle_depth_tested_tests p0 z0 p1 z1 p2 z2 = none := by
      unfold draw_filled_triangle_depth_tested_tests
      simp only []
      rw [hpts]
      rfl
    constructor
    · rw [htests]
      unfold draw_filled_triangle_pixels
      rw [hsort]
      simp only []
      rw [hpts]
      rfl
    · intro tests h
      rw [htests] at h
      exact Option.noConfusion h
  | some edges =>
    obtain ⟨x_left, x_right, tag⟩ := edges
    obtain ⟨z_left, z_right, hatt⟩ := interpolate_attributes_of_points _ _ _
      (1 / (sort_point_bundles_by_y (p0, z0) (p1, z1) (p2, z2)).1.2)
      (1 / (sort_point_bundles_by_y (p0, z0) (p1, z1) (p2, z2)).2.1.2)
      (1 / (sort_point_bundles_by_y (p0, z0) (p1, z1) (p2, z2)).2.2.2) x_left x_right tag hpts
    obtain ⟨hsl, hsr⟩ := interpolate_points_sizes _ _ _ h01 h12 x_left x_right tag hpts
    obtain ⟨hal, har⟩ := interpolate_attributes_sizes _ _ _ h01 h12 _ _ _ tag z_left z_right
      hatt
    have hi0 : 0 < 1 / (sort_point_bundles_by_y (p0, z0) (p1, z1) (p2, z2)).1.2 :=
      one_div_pos.mpr hs0
    have hi1 : 0 < 1 / (sort_point_bundles_by_y (p0, z0) (p1, z1) (p2, z2)).2.1.2 :=
      one_div_pos.mpr hs1
    have hi2 : 0 < 1 / (sort_point_bundles_by_y (p0, z0) (p1, z1) (p2, z2)).2.2.2 :=
      one_div_pos.mpr hs2
    have hbounds := interpolate_attributes_bounds
      (min (1 / (sort_point_bundles_by_y (p0, z0) (p1, z1) (p2, z2)).1.2)
        (min (1 / (sort_point_bundles_by_y (p0, z0) (p1, z1) (p2, z2)).2.1.2)
          (1 / (sort_point_bundles_by_y (p0, z0) (p1, z1) (p2, z2)).2.2.2)))
      (max (1 / (sort_point_bundles_by_y (p0, z0) (p1, z1) (p2, z2)).1.2)
        (max (1 / (sort_point_bundles_by_y (p0, z0) (p1, z1) (p2, z2)).2.1.2)
          (1 / (sort_point_bundles_by_y (p0, z0) (p1, z1) (p2, z2)).2.2.2)))
      _ _ _ _ _ _
      ⟨min_le_left _ _, le_max_left _ _⟩
      ⟨(min_le_right _ _).trans (min_le_left _ _), (le_max_left _ _).trans (le_max_right _ _)⟩
      ⟨(min_le_right _ _).trans (min_le_right _ _),
        (le_max_right _ _).trans (le_max_right _ _)⟩
      tag z_left z_right hatt
    have hlo : 0 < min (1 / (sort_point_bundles_by_y (p0, z0) (p1, z1) (p2, z2)).1.2)
        (min (1 / (sort_point_bundles_by_y (p0, z0) (p1, z1) (p2, z2)).2.1.2)
          (1 / (sort_point_bundles_by_y (p0, z0) (p1, z1) (p2, z2)).2.2.2)) :=
      lt_min hi0 (lt_min hi1 hi2)
    rw [draw_filled_triangle_depth_tested_tests_eq p0 z0 p1 z1 p2 z2 x_left x_right tag
      z_left z_right hpts hatt]
    have hfilled : draw_filled_triangle_pixels p0 p1 p2 color =
        for_each_concat (draw_filled_triangle_row x_left x_right
          (sort_point_bundles_by_y (p0, z0) (p1, z1) (p2, z2)).1.1 color)
          (int_range (sort_point_bundles_by_y (p0, z0) (p1, z1) (p2, z2)).1.1.y
            (sort_point_bundles_by_y (p0, z0) (p1, z1) (p2, z2)).2.2.1.y) := by
      unfold draw_filled_triangle_pixels
      rw [hsort]
      simp only []
      rw [hpts]
      rfl
    have hrows : ∀ y ∈ int_range (sort_point_bundles_by_y (p0, z0) (p1, z1) (p2, z2)).1.1.y
        (sort_point_bundles_by_y (p0, z0) (p1, z1) (p2, z2)).2.2.1.y,
        ∃ tests xl xr zl zr segment_zs,
          x_left.get (y - (sort_point_bundles_by_y (p0, z0) (p1, z1) (p2, z2)).1.1.y)
            = some xl ∧
          x_right.get (y - (sort_point_bundles_by_y (p0, z0) (p1, z1) (p2, z2)).1.1.y)
            = some xr ∧
          z_left.get (y - (sort_point_bundles_by_y (p0, z0) (p1, z1) (p2, z2)).1.1.y)
            = some zl ∧
          z_right.get (y - (sort_point_bundles_by_y (p0, z0) (p1, z1) (p2, z2)).1.1.y)
            = some zr ∧
          interpolate xl zl xr zr = some segment_zs ∧
          draw_filled_triangle_depth_tested_row x_left x_right z_left z_right
            (sort_point_bundles_by_y (p0, z0) (p1, z1) (p2, z2)).1.1 y = some tests ∧
          tests.map Prod.fst = (int_range xl xr).map (fun x => (⟨x, y⟩ : Point2)) ∧
          ∀ t ∈ tests, t.2 ∈ segment_zs.m_storage := by
      intro y hy
      rw [mem_int_range] at hy
      obtain ⟨xl, hxl⟩ := buffer_get_of_lt x_left
        (y - (sort_point_bundles_by_y (p0, z0) (p1, z1) (p2, z2)).1.1.y) (by omega) (by omega)
      obtain ⟨xr, hxr⟩ := buffer_get_of_lt x_right
        (y - (sort_point_bundles_by_y (p0, z0) (p1, z1) (p2, z2)).1.1.y) (by omega) (by omega)
      obtain ⟨zl, hzl⟩ := buffer_get_of_lt z_left
        (y - (sort_point_bundles_by_y (p0, z0) (p1, z1) (p2, z2)).1.1.y) (by omega) (by omega)
      obtain ⟨zr, hzr⟩ := buffer_get_of_lt z_right
        (y - (sort_point_bundles_by_y (p0, z0) (p1, z1) (p2, z2)).1.1.y) (by omega) (by omega)
      obtain ⟨tests, seg, hseg, hrow, hfst, hval⟩ :=
        draw_filled_triangle_depth_tested_row_spec x_left x_right z_left z_right _ y xl xr
          zl zr hxl hxr hzl hzr (hw x_left x_right tag hpts _ xl xr hxl hxr)
      exact ⟨tests, xl, xr, zl, zr, seg, hxl, hxr, hzl, hzr, hseg, hrow, hfst, hval⟩
    constructor
    · rw [hfilled]
      apply for_each_concat_map
      intro y hy
      obtain ⟨tests, xl, xr, zl, zr, seg, hxl, hxr, hzl, hzr, hseg, hrow, hfst, hval⟩ :=
        hrows y hy
      rw [hrow]
      unfold draw_filled_triangle_row
      rw [hxl, hxr]
      simp only [Option.some_bind, Option.map_some', Option.some.injEq]
      have e : List.map (fun t : Point2 × ℚ => (t.1, color)) tests =
          List.map (fun p : Point2 => (p, color)) (tests.map Prod.fst) := by
        rw [List.map_map]
        rfl
      rw [e, hfst, List.map_map]
      rfl
    · intro all hall t ht
      obtain ⟨y, hy, calls, hcalls, htc⟩ := ((for_each_concat_mem _ _ _ hall).2 t).mp ht
      obtain ⟨tests, xl, xr, zl, zr, seg, hxl, hxr, hzl, hzr, hseg, hrow, hfst, hval⟩ :=
        hrows y hy
      rw [hrow] at hcalls
      cases hcalls
      have hzlb := hbounds.1 zl (buffer_get_mem _ _ _ hzl)
      have hzrb := hbounds.2 zr (buffer_get_mem _ _ _ hzr)
      have := interpolate_rat_bounds _ _ xl xr zl zr hzlb hzrb seg hseg t.2 (hval t htc)
      exact lt_of_lt_of_le hlo this.1

/-! ## The depth-tested fill on a cleared depth buffer, under exact arithmetic -/

/-- A scanline wider than the buffer capacity.
The triangle `(0,0), (800,1), (0,2)` has a scanline of `801`
pixels, from `x = 0` to `x = 800` at `y = 1`.  `draw_filled_triangle` draws it (here on a
white `2 x 2` canvas), whereas `draw_filled_triangle_depth_tested` with the depths `1, 1, 1`
on a fresh depth buffer of the same dimensions fails: the interpolation of the inverse
depths along that scanline overflows the `Buffer` capacity of `768`. -/
theorem depth_tested_fill_counterexample :
    DepthBuffer.create ⟨2, 2⟩ = some ⟨⟨2, 2⟩, [0, 0, 0, 0]⟩ ∧
    interpolate_points ⟨0, 0⟩ ⟨800, 1⟩ ⟨0, 2⟩ =
      some (⟨[0, 0, 0]⟩, ⟨[0, 800, 0]⟩, LeftSide.k02) ∧
    (∃ pixels next, draw_filled_triangle_pixels ⟨0, 0⟩ ⟨800, 1⟩ ⟨0, 2⟩ Color.kBrightGreen
        = some pixels ∧
      draw_filled_triangle ⟨List.replicate 4 ⟨255, 255, 255, 255⟩, ⟨2, 2⟩⟩
        ⟨0, 0⟩ ⟨800, 1⟩ ⟨0, 2⟩ Color.kBrightGreen = some next) ∧
    draw_filled_triangle_depth_tested_tests ⟨0, 0⟩ 1 ⟨800, 1⟩ 1 ⟨0, 2⟩ 1 = none ∧
    draw_filled_triangle_depth_tested ⟨List.replicate 4 ⟨255, 255, 255, 255⟩, ⟨2, 2⟩⟩
      ⟨⟨2, 2⟩, [0, 0, 0, 0]⟩ ⟨0, 0⟩ 1 ⟨800, 1⟩ 1 ⟨0, 2⟩ 1 Color.kBrightGreen = none := by
  have hpts : interpolate_points ⟨0, 0⟩ ⟨800, 1⟩ ⟨0, 2⟩ =
      some (⟨[0, 0, 0]⟩, ⟨[0, 800, 0]⟩, LeftSide.k02) := by decide!
  have hatt : interpolate_attributes ⟨0, 0⟩ ⟨800, 1⟩ ⟨0, 2⟩ (1 / 1 : ℚ) (1 / 1) (1 / 1)
      LeftSide.k02 = some (⟨[1, 1, 1]⟩, ⟨[1, 1, 1]⟩) := by decide!
  have hsort : sort_points_by_y ⟨0, 0⟩ ⟨800, 1⟩ ⟨0, 2⟩ = (⟨0, 0⟩, ⟨800, 1⟩, ⟨0, 2⟩) := by
    decide
  have hsortb : sort_point_bundles_by_y ((⟨0, 0⟩ : Point2), (1 : ℚ)) (⟨800, 1⟩, 1) (⟨0, 2⟩, 1)
      = ((⟨0, 0⟩, 1), (⟨800, 1⟩, 1), (⟨0, 2⟩, 1)) := by decide
  have htests : draw_filled_triangle_depth_tested_tests ⟨0, 0⟩ 1 ⟨800, 1⟩ 1 ⟨0, 2⟩ 1
      = none := by
    rw [draw_filled_triangle_depth_tested_tests_eq ⟨0, 0⟩ 1 ⟨800, 1⟩ 1 ⟨0, 2⟩ 1
      ⟨[0, 0, 0]⟩ ⟨[0, 800, 0]⟩ LeftSide.k02 ⟨[1, 1, 1]⟩ ⟨[1, 1, 1]⟩
      (by rw [hsortb]; exact hpts) (by rw [hsortb]; exact hatt), hsortb]
    apply for_each_concat_none _ _ 1 ((mem_int_range _ _ _).mpr ⟨by decide, by decide⟩)
    exact draw_filled_triangle_depth_tested_row_none _ _ _ _ _ _ 0 800 1 1 (by decide)
      (by decide) (by decide) (by decide) (by decide)
  obtain ⟨pixels, hpixels, hmem⟩ := draw_filled_triangle_pixels_spec ⟨0, 0⟩ ⟨800, 1⟩ ⟨0, 2⟩
    Color.kBrightGreen ⟨[0, 0, 0]⟩ ⟨[0, 800, 0]⟩ LeftSide.k02 (by rw [hsort]; exact hpts)
  obtain ⟨next, hnext, _⟩ := draw_pixels_spec pixels
    ⟨List.replicate 4 ⟨255, 255, 255, 255⟩, ⟨2, 2⟩⟩ ⟨by decide, by decide⟩ (by
      intro pc hpc
      rw [((hmem pc.1 pc.2).mp hpc).1]
      decide)
  refine ⟨by decide, hpts, ⟨pixels, next, hpixels, ?_⟩, htests, ?_⟩
  · unfold draw_filled_triangle
    rw [hpixels]
    exact hnext
  · unfold draw_filled_triangle_depth_tested
    rw [htests]
    rfl

/-- Exact arithmetic.  On a depth buffer whose cells are all `0` (freshly constructed or
cleared) and whose dimensions equal the canvas's, for a triangle with vertex depths
`z0, z1, z2 > 0` whose scanlines each span at most `kMaxSize = 768` pixels,
`draw_filled_triangle_depth_tested` produces exactly the same canvas as
`draw_filled_triangle` with the same points and colour (and fails exactly when it does):
every interpolated inverse depth is `> 0`, each point is visited once, and a point passes
`test_and_set` exactly when it maps inside the canvas, where `draw_pixel` writes it (over
exact arithmetic). -/
theorem depth_tested_fill_eq_filled (canvas : Canvas) (depth_buffer : DepthBuffer)
    (p0 : Point2) (z0 : ℚ) (p1 : Point2) (z1 : ℚ) (p2 : Point2) (z2 : ℚ) (color : Color)
    (hwf : canvas.WellFormed) (hdb : depth_buffer.WellFormed)
    (hdim : depth_buffer.m_dimensions = canvas.m_dimensions)
    (hzero : ∀ cell ∈ depth_buffer.m_buffer, cell = 0)
    (hz0 : 0 < z0) (hz1 : 0 < z1) (hz2 : 0 < z2)
    (hw : ∀ x_left x_right tag,
      interpolate_points (sort_points_by_y p0 p1 p2).1 (sort_points_by_y p0 p1 p2).2.1
        (sort_points_by_y p0 p1 p2).2.2 = some (x_left, x_right, tag) →
      ∀ (k xl xr : Int), x_left.get k = some xl → x_right.get k = some xr →
        xr - xl + 1 ≤ (kMaxSize : Int)) :
    (draw_filled_triangle_depth_tested canvas depth_buffer p0 z0 p1 z1 p2 z2 color).map
        Prod.fst = draw_filled_triangle canvas p0 p1 p2 color ∧
    ((draw_filled_triangle_depth_tested_tests p0 z0 p1 z1 p2 z2).map
        (List.map fun t => (t.1, color)) = draw_filled_triangle_pixels p0 p1 p2 color) ∧
    ∀ tests, draw_filled_triangle_depth_tested_tests p0 z0 p1 z1 p2 z2 = some tests →
      (∀ t ∈ tests, 0 < t.2) ∧ (tests.map Prod.fst).Nodup ∧
      ∀ t ∈ tests, ∃ next,
        depth_buffer.test_and_set t.1 t.2 = some (canvas.in_bounds t.1, next) := by
  obtain ⟨hmap, hpos⟩ := draw_filled_triangle_depth_tested_tests_spec p0 z0 p1 z1 p2 z2 color
    hz0 hz1 hz2 hw
  have hcell : ∀ pt, canvas.in_bounds pt = true →
      depth_buffer.m_buffer[canvas.pixel_index pt]? = some 0 := by
    intro pt hin
    have hlt : canvas.pixel_index pt < depth_buffer.m_buffer.length := by
      have := pixel_index_lt canvas hwf pt hin
      rw [hwf.2] at this
      rw [hdb.2, hdim]
      exact this
    rw [List.getElem?_eq_getElem hlt]
    exact congrArg some (hzero _ (List.getElem_mem _))
  have hnodup : ∀ tests, draw_filled_triangle_depth_tested_tests p0 z0 p1 z1 p2 z2
      = some tests → (tests.map Prod.fst).Nodup := by
    intro tests htests
    rw [htests, Option.map_some'] at hmap
    have := draw_filled_triangle_pixels_nodup p0 p1 p2 color _ hmap.symm
    rw [List.map_map] at this
    exact this
  refine ⟨?_, hmap, ?_⟩
  · unfold draw_filled_triangle_depth_tested draw_filled_triangle
    rw [← hmap]
    cases htests : draw_filled_triangle_depth_tested_tests p0 z0 p1 z1 p2 z2 with
    | none => rfl
    | some tests =>
      simp only [Option.some_bind, Option.map_some']
      exact depth_tested_draw_pixels_fresh color tests canvas depth_buffer hwf hdb hdim
        (hnodup tests htests) (hpos tests htests) (fun t _ hin => hcell t.1 hin)
  · intro tests htests
    refine ⟨hpos tests htests, hnodup tests htests, ?_⟩
    intro t ht
    cases hin : canvas.in_bounds t.1 with
    | false =>
      exact ⟨_, test_and_set_out_of_canvas depth_buffer hdb canvas hdim t.1 t.2 hin⟩
    | true =>
      exact ⟨_, test_and_set_in_canvas depth_buffer hdb canvas hdim t.1 t.2
        (hpos tests htests t ht) hin (hcell t.1 hin)⟩

/-- Exact arithmetic, an instance.
The triangle `(0,0), (4,2), (-2,3)` with the depths `1, 2, 4` in
green on a white `8 x 8` canvas with a fresh `8 x 8` depth buffer; its scanlines run from
`x_left = [0, 0, -1, -2]` to `x_right = [0, 2, 4, -2]`. -/
theorem depth_tested_fill_eq_filled_witness :
    DepthBuffer.create ⟨8, 8⟩ = some ⟨⟨8, 8⟩, List.replicate 64 0⟩ ∧
    (draw_filled_triangle_depth_tested ⟨List.replicate 64 ⟨255, 255, 255, 255⟩, ⟨8, 8⟩⟩
        ⟨⟨8, 8⟩, List.replicate 64 0⟩ ⟨0, 0⟩ 1 ⟨4, 2⟩ 2 ⟨-2, 3⟩ 4 Color.kBrightGreen).map
        Prod.fst =
      draw_filled_triangle ⟨List.replicate 64 ⟨255, 255, 255, 255⟩, ⟨8, 8⟩⟩
        ⟨0, 0⟩ ⟨4, 2⟩ ⟨-2, 3⟩ Color.kBrightGreen ∧
    (draw_filled_triangle ⟨List.replicate 64 ⟨255, 255, 255, 255⟩, ⟨8, 8⟩⟩
        ⟨0, 0⟩ ⟨4, 2⟩ ⟨-2, 3⟩ Color.kBrightGreen).isSome = true := by
  refine ⟨by decide, (depth_tested_fill_eq_filled
    ⟨List.replicate 64 ⟨255, 255, 255, 255⟩, ⟨8, 8⟩⟩ ⟨⟨8, 8⟩, List.replicate 64 0⟩
    ⟨0, 0⟩ 1 ⟨4, 2⟩ 2 ⟨-2, 3⟩ 4 Color.kBrightGreen ⟨by decide, by decide⟩
    ⟨by decide, by decide⟩ rfl (fun cell h => (List.mem_replicate.mp h).2)
    (by decide) (by decide) (by decide) ?_).1, by decide!⟩
  intro x_left x_right tag h k xl xr hxl hxr
  have hpts : interpolate_points (sort_points_by_y ⟨0, 0⟩ ⟨4, 2⟩ ⟨-2, 3⟩).1
      (sort_points_by_y ⟨0, 0⟩ ⟨4, 2⟩ ⟨-2, 3⟩).2.1 (sort_points_by_y ⟨0, 0⟩ ⟨4, 2⟩ ⟨-2, 3⟩).2.2
      = some (⟨[0, 0, -1, -2]⟩, ⟨[0, 2, 4, -2]⟩, LeftSide.k02) := by decide!
  rw [hpts] at h
  simp only [Option.some.injEq, Prod.mk.injEq] at h
  obtain ⟨hl, hr, _⟩ := h
  subst hl hr
  have h1 := buffer_get_mem _ _ _ hxl
  have h2 := buffer_get_mem _ _ _ hxr
  simp only [List.mem_cons, List.mem_singleton, List.not_mem_nil, or_false] at h1 h2
  unfold kMaxSize
  omega

/-! ## C35: the cells of a depth buffer are never negative -/

/-- A depth test on a well-formed buffer whose cells are all `>= 0` returns, keeps the
buffer well-formed with all cells `>= 0`, and passes only with `inv_z > 0`. -/
theorem test_and_set_nonneg (b : DepthBuffer) (hwf : b.WellFormed)
    (hnn : ∀ cell ∈ b.m_buffer, 0 ≤ cell) (point : Point2) (inv_z : ℚ) :
    ∃ r b', b.test_and_set point inv_z = some (r, b') ∧ b'.WellFormed ∧
      (∀ cell ∈ b'.m_buffer, 0 ≤ cell) ∧ (r = true → 0 < inv_z) ∧
      (inv_z ≤ 0 → r = false ∧ b' = b) := by
  obtain ⟨hout, hin⟩ := test_and_set_eq b hwf point inv_z
  by_cases hb : (0 ≤ Int.tdiv b.m_dimensions.width 2 + point.x ∧
        Int.tdiv b.m_dimensions.width 2 + point.x < b.m_dimensions.width ∧
        0 ≤ Int.tdiv b.m_dimensions.height 2 - point.y - 1 ∧
        Int.tdiv b.m_dimensions.height 2 - point.y - 1 < b.m_dimensions.height)
  · obtain ⟨stored, hstored, heq⟩ := hin hb
    have hs0 : 0 ≤ stored := hnn stored (List.getElem?_mem hstored)
    by_cases hlt : stored < inv_z
    · rw [if_pos hlt] at heq
      refine ⟨true, _, heq, ?_, ?_, fun _ => lt_of_le_of_lt hs0 hlt, ?_⟩
      · exact ⟨hwf.1, by rw [List.length_set]; exact hwf.2⟩
      · intro cell hcell
        rcases List.mem_or_eq_of_mem_set hcell with h | h
        · exact hnn cell h
        · rw [h]; exact (lt_of_le_of_lt hs0 hlt).le
      · intro hz
        exact absurd (lt_of_le_of_lt hs0 hlt) (not_lt.mpr hz)
    · rw [if_neg hlt] at heq
      exact ⟨false, b, heq, hwf, hnn, fun h => Bool.noConfusion h, fun _ => ⟨rfl, rfl⟩⟩
  · exact ⟨false, b, hout hb, hwf, hnn, fun h => Bool.noConfusion h, fun _ => ⟨rfl, rfl⟩⟩

/-- Every sequence of `test_and_set` and `clear` calls on a well-formed buffer whose cells
are all `>= 0` returns a well-formed buffer whose cells are all `>= 0`. -/
theorem run_nonneg (calls : List DepthBuffer.Call) :
    ∀ (b : DepthBuffer), b.WellFormed → (∀ cell ∈ b.m_buffer, 0 ≤ cell) →
      ∃ b', b.run calls = some b' ∧ b'.WellFormed ∧ b'.m_dimensions = b.m_dimensions ∧
        ∀ cell ∈ b'.m_buffer, 0 ≤ cell := by
  induction calls with
  | nil => intro b hwf hnn; exact ⟨b, rfl, hwf, rfl, hnn⟩
  | cons call rest ih =>
    intro b hwf hnn
    cases call with
    | test_and_set point inv_z =>
      obtain ⟨r, b1, h1, hwf1, hnn1, _, _⟩ := test_and_set_nonneg b hwf hnn point inv_z
      obtain ⟨_, _, h1', _, hdim1, _⟩ := test_and_set_preserves b hwf point inv_z
      rw [h1] at h1'
      obtain ⟨b', hb', hwf', hdim', hnn'⟩ := ih b1 hwf1 hnn1
      refine ⟨b', ?_, hwf', ?_, hnn'⟩
      · unfold DepthBuffer.run
        rw [h1]
        exact hb'
      · rw [hdim']
        cases h1'
        exact hdim1
    | clear =>
      have hnn1 : ∀ cell ∈ b.clear.m_buffer, 0 ≤ cell := by
        intro cell hcell
        simp only [DepthBuffer.clear, List.mem_map] at hcell
        obtain ⟨_, _, h⟩ := hcell
        exact h ▸ le_refl 0
      obtain ⟨b', hb', hwf', hdim', hnn'⟩ := ih b.clear (clear_wellFormed b hwf) hnn1
      refine ⟨b', ?_, hwf', ?_, hnn'⟩
      · unfold DepthBuffer.run
        exact hb'
      · rw [hdim']
        rfl

/-- The cells of a freshly constructed depth buffer are all `0`. -/
theorem create_cells (dimensions : Dims) (b : DepthBuffer)
    (h : DepthBuffer.create dimensions = some b) :
    b.m_dimensions = dimensions ∧ ∀ cell ∈ b.m_buffer, cell = 0 := by
  unfold DepthBuffer.create at h
  split at h
  · cases h
    exact ⟨rfl, fun cell hcell => (List.mem_replicate.mp hcell).2⟩
  · exact Option.noConfusion h

/-- C35: in every state reachable from the construction of a depth buffer (of valid
dimensions) by any sequence of `test_and_set` and `clear` calls (every such sequence runs
without a failed check), every cell is `>= 0`.  Hence in such a state `test_and_set(p, z)`
with `z <= 0` returns false for every point (and leaves the buffer unchanged), and the body
of the inner loop of `draw_textured_triangle_depth_tested` executes its perspective divide
`segment_tex_coords[x - xl] / z_val` only with `z_val > 0`. -/
theorem depth_buffer_cells_nonneg (dimensions : Dims) (hvalid : dimensions.is_valid = true)
    (calls : List DepthBuffer.Call) :
    ∃ b0 b, DepthBuffer.create dimensions = some b0 ∧ b0.run calls = some b ∧
      b.WellFormed ∧ b.m_dimensions = dimensions ∧
      (∀ cell ∈ b.m_buffer, 0 ≤ cell) ∧
      (∀ (p : Point2) (z : ℚ), z ≤ 0 → b.test_and_set p z = some (false, b)) ∧
      (∀ (segment_zs : Buffer ℚ) (segment_tex_coords : Buffer TexCoords) (xl y x : Int)
        (next : DepthBuffer) (z_val : ℚ) (tex_coords : TexCoords),
        draw_textured_triangle_depth_tested_pixel b segment_zs segment_tex_coords xl y x =
          some (next, some (z_val, tex_coords)) →
        0 < z_val ∧ segment_zs.get (x - xl) = some z_val ∧
          b.test_and_set ⟨x, y⟩ z_val = some (true, next) ∧
          ∃ tc, segment_tex_coords.get (x - xl) = some tc ∧
            tex_coords = TexCoords.div tc z_val) := by
  have hc : DepthBuffer.create dimensions = some
      ⟨dimensions, List.replicate (dimensions.width * dimensions.height).toNat 0⟩ := by
    unfold DepthBuffer.create
    rw [if_pos hvalid]
  have hwf0 := create_wellFormed dimensions _ hc
  obtain ⟨hdim0, hcells0⟩ := create_cells dimensions _ hc
  obtain ⟨b, hb, hwf, hdim, hnn⟩ := run_nonneg calls _ hwf0
    (fun cell hcell => (hcells0 cell hcell).ge)
  refine ⟨_, b, hc, hb, hwf, hdim, hnn, ?_, ?_⟩
  · intro p z hz
    obtain ⟨r, b', h, _, _, _, hfalse⟩ := test_and_set_nonneg b hwf hnn p z
    obtain ⟨hr, hb'⟩ := hfalse hz
    rw [h, hr, hb']
  · intro segment_zs segment_tex_coords xl y x next z_val tex_coords h
    unfold draw_textured_triangle_depth_tested_pixel at h
    cases hz : segment_zs.get (x - xl) with
    | none =>
      rw [hz] at h
      exact Option.noConfusion h
    | some z =>
      rw [hz] at h
      simp only [Option.some_bind] at h
      obtain ⟨r, b', ht, _, _, hpos, _⟩ := test_and_set_nonneg b hwf hnn ⟨x, y⟩ z
      rw [ht] at h
      cases r with
      | false =>
        simp only [Option.some.injEq, Prod.mk.injEq] at h
        exact Option.noConfusion h.2
      | true =>
        simp only at h
        cases htc : segment_tex_coords.get (x - xl) with
        | none =>
          rw [htc] at h
          exact Option.noConfusion h
        | some tc =>
          rw [htc] at h
          simp only [Option.some_bind, Option.some.injEq, Prod.mk.injEq] at h
          obtain ⟨hnext, hz', htex⟩ := h
          subst hnext hz'
          exact ⟨hpos rfl, rfl, ht, tc, rfl, htex.symm⟩

/-- An instance of C35: a `4 x 4` depth buffer after `test_and_set((0,0), 2)`, `clear()`,
`test_and_set((1,1), -1)` and `test_and_set((1,0), 3)` holds `3` in the cell of `(1,0)` and
`0` elsewhere; there the pixel `(0,0)` of a textured scanline with `z_val = 1/2` passes the
depth test and divides its texture coordinates `(1/4, 1/2)` by `1/2`. -/
theorem depth_buffer_cells_nonneg_witness :
    Dims.is_valid ⟨4, 4⟩ = true ∧
    (DepthBuffer.create ⟨4, 4⟩).bind (fun b0 => b0.run
      [DepthBuffer.Call.test_and_set ⟨0, 0⟩ 2, DepthBuffer.Call.clear,
        DepthBuffer.Call.test_and_set ⟨1, 1⟩ (-1), DepthBuffer.Call.test_and_set ⟨1, 0⟩ 3])
      = some ⟨⟨4, 4⟩, [0, 0, 0, 0, 0, 0, 0, 3, 0, 0, 0, 0, 0, 0, 0, 0]⟩ ∧
    draw_textured_triangle_depth_tested_pixel
      ⟨⟨4, 4⟩, [0, 0, 0, 0, 0, 0, 0, 3, 0, 0, 0, 0, 0, 0, 0, 0]⟩
      ⟨[1 / 2]⟩ ⟨[⟨1 / 4, 1 / 2⟩]⟩ 0 0 0 =
      some (⟨⟨4, 4⟩, [0, 0, 0, 0, 0, 0, 1 / 2, 3, 0, 0, 0, 0, 0, 0, 0, 0]⟩,
        some (1 / 2, ⟨1 / 2, 1⟩)) ∧
    ∃ b0 b, DepthBuffer.create ⟨4, 4⟩ = some b0 ∧
      b0.run [DepthBuffer.Call.test_and_set ⟨0, 0⟩ 2, DepthBuffer.Call.clear,
        DepthBuffer.Call.test_and_set ⟨1, 1⟩ (-1),
        DepthBuffer.Call.test_and_set ⟨1, 0⟩ 3] = some b ∧
      b.WellFormed ∧ b.m_dimensions = ⟨4, 4⟩ ∧
      (∀ cell ∈ b.m_buffer, 0 ≤ cell) ∧
      (∀ (p : Point2) (z : ℚ), z ≤ 0 → b.test_and_set p z = some (false, b)) ∧
      (∀ (segment_zs : Buffer ℚ) (segment_tex_coords : Buffer TexCoords) (xl y x : Int)
        (next : DepthBuffer) (z_val : ℚ) (tex_coords : TexCoords),
        draw_textured_triangle_depth_tested_pixel b segment_zs segment_tex_coords xl y x =
          some (next, some (z_val, tex_coords)) →
        0 < z_val ∧ segment_zs.get (x - xl) = some z_val ∧
          b.test_and_set ⟨x, y⟩ z_val = some (true, next) ∧
          ∃ tc, segment_tex_coords.get (x - xl) = some tc ∧
            tex_coords = TexCoords.div tc z_val) :=
  ⟨by decide, by decide!, by decide!, depth_buffer_cells_nonneg ⟨4, 4⟩ (by decide) _⟩

/-! ## C36: the capacity of the buffers in `draw_shaded_triangle` -/

/-- Sorting leaves bundles that are already in increasing order of `y` as they are. -/
theorem sort_point_bundles_by_y_of_sorted {A : Type} (b0 b1 b2 : Point2 × A)
    (h01 : b0.1.y ≤ b1.1.y) (h12 : b1.1.y ≤ b2.1.y) :
    sort_point_bundles_by_y b0 b1 b2 = (b0, b1, b2) := by
  unfold sort_point_bundles_by_y
  have c1 : ¬ b1.1.y < b0.1.y := not_lt.mpr h01
  have c2 : ¬ b2.1.y < b0.1.y := not_lt.mpr (h01.trans h12)
  have c3 : ¬ b2.1.y < b1.1.y := not_lt.mpr h12
  simp only [c1, c2, c3, if_false]

/-- The edge sequences of a sorted triangle exist only if its scanlines fit the capacity of
a `Buffer`. -/
theorem interpolate_points_height (q0 q1 q2 : Point2) (h01 : q0.y ≤ q1.y) (h12 : q1.y ≤ q2.y)
    (x_left x_right : Buffer Int) (tag : LeftSide)
    (hpts : interpolate_points q0 q1 q2 = some (x_left, x_right, tag)) :
    q2.y - q0.y + 1 ≤ (kMaxSize : Int) := by
  obtain ⟨l, m, a, b, hl, _, _, _, _⟩ :=
    (interpolate_points_eq_some_iff q0 q1 q2 x_left x_right tag).mp hpts
  unfold long_edge at hl
  obtain ⟨hsize, hcap⟩ := interpolate_size_eq q0.y q2.y q0.x q2.x l hl
  omega

/-- C36: during `draw_shaded_triangle` on a triangle sorted by `y` (with normalised
intensities, so that the entry assertion holds), no `Buffer` assertion fails if and only if
`p2.y - p0.y + 1 <= 768` and every scanline span `x_right - x_left + 1` is `<= 768` (an
empty scanline, with `x_right < x_left`, has a span `<= 0`).  So a triangle taller than
`768` scanlines, or with a scanline wider than `768` pixels, makes the routine fail. -/
theorem shaded_buffer_capacity_iff (p0 : Point2) (i0 : ℚ) (p1 : Point2) (i1 : ℚ)
    (p2 : Point2) (i2 : ℚ) (color : Color)
    (hnorm : (is_normalized i0 && is_normalized i1 && is_normalized i2) = true)
    (h01 : p0.y ≤ p1.y) (h12 : p1.y ≤ p2.y) :
    ((draw_shaded_triangle_pixels p0 i0 p1 i1 p2 i2 color).isSome = true ↔
      p2.y - p0.y + 1 ≤ (kMaxSize : Int) ∧
      ∃ x_left x_right tag, interpolate_points p0 p1 p2 = some (x_left, x_right, tag) ∧
        ∀ (k xl xr : Int), x_left.get k = some xl → x_right.get k = some xr →
          xr - xl + 1 ≤ (kMaxSize : Int)) ∧
    ((kMaxSize : Int) < p2.y - p0.y + 1 →
      draw_shaded_triangle_pixels p0 i0 p1 i1 p2 i2 color = none) ∧
    (∀ x_left x_right tag, interpolate_points p0 p1 p2 = some (x_left, x_right, tag) →
      ∀ (k xl xr : Int), x_left.get k = some xl → x_right.get k = some xr →
        (kMaxSize : Int) < xr - xl + 1 →
        draw_shaded_triangle_pixels p0 i0 p1 i1 p2 i2 color = none) := by
  have hsort := sort_point_bundles_by_y_of_sorted (p0, i0) (p1, i1) (p2, i2) h01 h12
  have htall : (kMaxSize : Int) < p2.y - p0.y + 1 →
      draw_shaded_triangle_pixels p0 i0 p1 i1 p2 i2 color = none := by
    intro hgt
    cases hpts : interpolate_points p0 p1 p2 with
    | none =>
      unfold draw_shaded_triangle_pixels
      rw [if_pos hnorm, hsort]
      simp only []
      rw [hpts]
      rfl
    | some edges =>
      obtain ⟨x_left, x_right, tag⟩ := edges
      have := interpolate_points_height p0 p1 p2 h01 h12 x_left x_right tag hpts
      omega
  have hwide : ∀ x_left x_right tag, interpolate_points p0 p1 p2 = some (x_left, x_right, tag) →
      ∀ (k xl xr : Int), x_left.get k = some xl → x_right.get k = some xr →
        (kMaxSize : Int) < xr - xl + 1 →
        draw_shaded_triangle_pixels p0 i0 p1 i1 p2 i2 color = none := by
    intro x_left x_right tag hpts k xl xr hxl hxr hgt
    obtain ⟨i_left, i_right, hatt⟩ := interpolate_attributes_of_points p0 p1 p2 i0 i1 i2
      x_left x_right tag hpts
    obtain ⟨hsl, hsr⟩ := interpolate_points_sizes p0 p1 p2 h01 h12 x_left x_right tag hpts
    obtain ⟨hal, har⟩ := interpolate_attributes_sizes p0 p1 p2 h01 h12 i0 i1 i2 tag
      i_left i_right hatt
    have hk := (buffer_get_isSome_iff x_left k).mp (by rw [hxl]; rfl)
    obtain ⟨il, hil⟩ := buffer_get_of_lt i_left k (by omega) (by omega)
    obtain ⟨ir, hir⟩ := buffer_get_of_lt i_right k (by omega) (by omega)
    rw [draw_shaded_triangle_pixels_eq p0 i0 p1 i1 p2 i2 color hnorm x_left x_right tag
      i_left i_right (by rw [hsort]; exact hpts) (by rw [hsort]; exact hatt), hsort]
    have hky : p0.y + k - p0.y = k := by ring
    simp only []
    apply for_each_concat_none _ _ (p0.y + k) ((mem_int_range _ _ _).mpr ⟨by omega, by omega⟩)
    exact draw_shaded_triangle_row_none _ _ _ _ _ _ _ xl xr il ir (by rw [hky]; exact hxl)
      (by rw [hky]; exact hxr) (by rw [hky]; exact hil) (by rw [hky]; exact hir) hgt
  refine ⟨⟨?_, ?_⟩, htall, hwide⟩
  · intro hsome
    have hheight : p2.y - p0.y + 1 ≤ (kMaxSize : Int) := by
      by_contra hgt
      rw [htall (by omega)] at hsome
      exact Bool.noConfusion hsome
    obtain ⟨⟨x_left, x_right, tag⟩, hpts⟩ := interpolate_points_isSome p0 p1 p2 h01 h12 hheight
    refine ⟨hheight, x_left, x_right, tag, hpts, ?_⟩
    intro k xl xr hxl hxr
    by_contra hgt
    rw [hwide x_left x_right tag hpts k xl xr hxl hxr (by omega)] at hsome
    exact Bool.noConfusion hsome
  · rintro ⟨hheight, x_left, x_right, tag, hpts, hw⟩
    obtain ⟨pixels, hpixels⟩ := draw_shaded_triangle_pixels_isSome p0 i0 p1 i1 p2 i2 color
      hnorm (by rw [hsort]; exact hheight) (by
        rw [hsort]
        intro xl' xr' tag' hpts' k xl xr hxl hxr
        simp only [] at hpts'
        rw [hpts] at hpts'
        simp only [Option.some.injEq, Prod.mk.injEq] at hpts'
        obtain ⟨e1, e2, _⟩ := hpts'
        subst e1 e2
        exact hw k xl xr hxl hxr)
    rw [hpixels]
    rfl

/-- C36, instantiated.  The triangle `(0,0), (4,2), (-2,3)` with the intensities
`1, 1/2, 1/4`: four scanlines, from `x_left = [0, 0, -1, -2]` to `x_right = [0, 2, 4, -2]`,
and the routine makes its calls.  The triangle `(-500,0), (500,1), (-500,2)`, which lies
inside a `1024 x 1024` canvas: its scanline `y = 1` runs from `-500` to `500`, `1001`
pixels, and the routine fails. -/
theorem shaded_buffer_capacity_iff_witness :
    ((draw_shaded_triangle_pixels ⟨0, 0⟩ 1 ⟨4, 2⟩ (1 / 2) ⟨-2, 3⟩ (1 / 4)
        Color.kGray).isSome = true ↔
      ((3 : Int) - 0 + 1 ≤ (kMaxSize : Int) ∧
      ∃ x_left x_right tag,
        interpolate_points ⟨0, 0⟩ ⟨4, 2⟩ ⟨-2, 3⟩ = some (x_left, x_right, tag) ∧
        ∀ (k xl xr : Int), x_left.get k = some xl → x_right.get k = some xr →
          xr - xl + 1 ≤ (kMaxSize : Int))) ∧
    (draw_shaded_triangle_pixels ⟨0, 0⟩ 1 ⟨4, 2⟩ (1 / 2) ⟨-2, 3⟩ (1 / 4)
      Color.kGray).isSome = true ∧
    interpolate_points ⟨-500, 0⟩ ⟨500, 1⟩ ⟨-500, 2⟩ =
      some (⟨[-500, -500, -500]⟩, ⟨[-500, 500, -500]⟩, LeftSide.k02) ∧
    draw_shaded_triangle_pixels ⟨-500, 0⟩ 1 ⟨500, 1⟩ 1 ⟨-500, 2⟩ 1 Color.kGray = none := by
  have hpts : interpolate_points ⟨-500, 0⟩ ⟨500, 1⟩ ⟨-500, 2⟩ =
      some (⟨[-500, -500, -500]⟩, ⟨[-500, 500, -500]⟩, LeftSide.k02) := by decide!
  exact ⟨(shaded_buffer_capacity_iff ⟨0, 0⟩ 1 ⟨4, 2⟩ (1 / 2) ⟨-2, 3⟩ (1 / 4) Color.kGray
      (by decide!) (by decide) (by decide)).1, by decide!, hpts,
    (shaded_buffer_capacity_iff ⟨-500, 0⟩ 1 ⟨500, 1⟩ 1 ⟨-500, 2⟩ 1 Color.kGray
      (by decide!) (by decide) (by decide)).2.2 _ _ _ hpts 1 (-500) 500 (by decide)
      (by decide) (by decide)⟩

/-! ## The back-face decision under a cyclic change of the first vertex, under exact arithmetic -/

/-- The cross product of the edges at the first vertex of a triangle is the same for the
three cyclic orders of the vertices. -/
theorem cross_edges_cyclic (a b c : Vec3) :
    Vec3.cross (Vec3.sub c b) (Vec3.sub a b) = Vec3.cross (Vec3.sub b a) (Vec3.sub c a) := by
  simp only [Vec3.cross, Vec3.sub, Vec3.mk.injEq]
  refine ⟨?_, ?_, ?_⟩ <;> ring

/-- The computed normal of a triangle is the same for the three cyclic orders. -/
theorem compute_triangle_normal_cyclic (lm : Libm) (v0 v1 v2 : Vec4) :
    compute_triangle_normal lm v1 v2 v0 = compute_triangle_normal lm v0 v1 v2 := by
  have h := cross_edges_cyclic v0.xyz v1.xyz v2.xyz
  simp only [Vec4.xyz, Vec3.sub] at h
  simp only [compute_triangle_normal, Vec4.sub, Vec4.xyz]
  rw [h]

/-- The computed normal of a triangle is perpendicular to the edge from the first vertex to
the second: the dot products of the normal with the first two vertices are equal. -/
theorem dot_normal_first_second (lm : Libm) (v0 v1 v2 : Vec4) :
    Vec3.dot (Vec3.neg v1.xyz) (compute_triangle_normal lm v0 v1 v2) =
      Vec3.dot (Vec3.neg v0.xyz) (compute_triangle_normal lm v0 v1 v2) := by
  simp only [compute_triangle_normal, Vec3.normalize, Vec3.length, Vec3.dot, Vec3.neg,
    Vec3.mul, Vec3.cross, Vec4.sub, Vec4.xyz]
  ring

/-- Exact arithmetic.
For all view-space vertices `v0, v1, v2` the back-face decision and the computed
normal are the same for the three cyclic orders of the vertices:
`is_back_facing_triangle(v0, v1, v2) = is_back_facing_triangle(v1, v2, v0) =
is_back_facing_triangle(v2, v0, v1)`, result and normal written, and the normal `n` has the
same dot product with the three vectors to the eye, `dot(-v0, n) = dot(-v1, n) =
dot(-v2, n)` (over exact arithmetic, for any square root). -/
theorem back_facing_cyclic (lm : Libm) (v0 v1 v2 : Vec4) :
    is_back_facing_triangle lm v1 v2 v0 = is_back_facing_triangle lm v0 v1 v2 ∧
    is_back_facing_triangle lm v2 v0 v1 = is_back_facing_triangle lm v0 v1 v2 ∧
    compute_triangle_normal lm v1 v2 v0 = compute_triangle_normal lm v0 v1 v2 ∧
    compute_triangle_normal lm v2 v0 v1 = compute_triangle_normal lm v0 v1 v2 ∧
    Vec3.dot (Vec3.neg v1.xyz) (compute_triangle_normal lm v0 v1 v2) =
      Vec3.dot (Vec3.neg v0.xyz) (compute_triangle_normal lm v0 v1 v2) ∧
    Vec3.dot (Vec3.neg v2.xyz) (compute_triangle_normal lm v0 v1 v2) =
      Vec3.dot (Vec3.neg v0.xyz) (compute_triangle_normal lm v0 v1 v2) := by
  have hn1 := compute_triangle_normal_cyclic lm v0 v1 v2
  have hn2 : compute_triangle_normal lm v2 v0 v1 = compute_triangle_normal lm v0 v1 v2 := by
    rw [compute_triangle_normal_cyclic lm v1 v2 v0, hn1]
  have hd1 := dot_normal_first_second lm v0 v1 v2
  have hd2 : Vec3.dot (Vec3.neg v2.xyz) (compute_triangle_normal lm v0 v1 v2) =
      Vec3.dot (Vec3.neg v0.xyz) (compute_triangle_normal lm v0 v1 v2) := by
    have h := dot_normal_first_second lm v2 v0 v1
    rw [hn2] at h
    exact h.symm
  refine ⟨?_, ?_, hn1, hn2, hd1, hd2⟩
  · simp only [is_back_facing_triangle, hn1, hd1]
  · simp only [is_back_facing_triangle, hn2, hd2]

/-! ## The back-face decision under a scaling about the camera, under exact arithmetic -/

/-- The cross product of the edges of a triangle scaled by `s` about the origin of view
space is `s * s` times the cross product of the edges of the triangle. -/
theorem cross_edges_scaled (a b c : Vec3) (s : ℚ) :
    Vec3.cross (Vec3.sub (Vec3.mul b s) (Vec3.mul a s)) (Vec3.sub (Vec3.mul c s) (Vec3.mul a s))
      = Vec3.mul (Vec3.cross (Vec3.sub b a) (Vec3.sub c a)) (s * s) := by
  simp only [Vec3.cross, Vec3.sub, Vec3.mul, Vec3.mk.injEq]
  refine ⟨?_, ?_, ?_⟩ <;> ring

/-- Exact arithmetic.
For every non-degenerate view-space triangle `(v0, v1, v2)` and every `s > 0`, the
triangle scaled about the camera, `(s*v0, s*v1, s*v2)`, has the same computed unit normal
and the same back-face decision: `is_back_facing_triangle(s*v0, s*v1, s*v2) =
is_back_facing_triangle(v0, v1, v2)`, result and normal written.  Over exact arithmetic: the
square root is positive on positive numbers, and the length computed for the scaled cross
product is `s * s` times the length computed for the cross product. -/
theorem back_facing_scaled_about_camera (lm : Libm)
    (hsqrt : ∀ x : ℚ, 0 < x → 0 < lm.sqrt x) (v0 v1 v2 : Vec4) (s : ℚ) (hs : 0 < s)
    (hnd : Vec3.cross (Vec3.sub v1.xyz v0.xyz) (Vec3.sub v2.xyz v0.xyz) ≠ ⟨0, 0, 0⟩)
    (hlen : Vec3.length lm
        (Vec3.mul (Vec3.cross (Vec3.sub v1.xyz v0.xyz) (Vec3.sub v2.xyz v0.xyz)) (s * s)) =
      s * s * Vec3.length lm (Vec3.cross (Vec3.sub v1.xyz v0.xyz) (Vec3.sub v2.xyz v0.xyz))) :
    compute_triangle_normal lm (Vec4.ofVec3 (Vec3.mul v0.xyz s) v0.w)
        (Vec4.ofVec3 (Vec3.mul v1.xyz s) v1.w) (Vec4.ofVec3 (Vec3.mul v2.xyz s) v2.w) =
      compute_triangle_normal lm v0 v1 v2 ∧
    is_back_facing_triangle lm (Vec4.ofVec3 (Vec3.mul v0.xyz s) v0.w)
        (Vec4.ofVec3 (Vec3.mul v1.xyz s) v1.w) (Vec4.ofVec3 (Vec3.mul v2.xyz s) v2.w) =
      is_back_facing_triangle lm v0 v1 v2 := by
  have hpos : 0 < Vec3.length lm
      (Vec3.cross (Vec3.sub v1.xyz v0.xyz) (Vec3.sub v2.xyz v0.xyz)) :=
    hsqrt _ (vec3_dot_self_pos _ hnd)
  have hcross := cross_edges_scaled v0.xyz v1.xyz v2.xyz s
  have hn : compute_triangle_normal lm (Vec4.ofVec3 (Vec3.mul v0.xyz s) v0.w)
        (Vec4.ofVec3 (Vec3.mul v1.xyz s) v1.w) (Vec4.ofVec3 (Vec3.mul v2.xyz s) v2.w) =
      compute_triangle_normal lm v0 v1 v2 := by
    have e1 : (Vec4.sub (Vec4.ofVec3 (Vec3.mul v1.xyz s) v1.w)
        (Vec4.ofVec3 (Vec3.mul v0.xyz s) v0.w)).xyz =
        Vec3.sub (Vec3.mul v1.xyz s) (Vec3.mul v0.xyz s) := rfl
    have e2 : (Vec4.sub (Vec4.ofVec3 (Vec3.mul v2.xyz s) v2.w)
        (Vec4.ofVec3 (Vec3.mul v0.xyz s) v0.w)).xyz =
        Vec3.sub (Vec3.mul v2.xyz s) (Vec3.mul v0.xyz s) := rfl
    have e3 : (Vec4.sub v1 v0).xyz = Vec3.sub v1.xyz v0.xyz := rfl
    have e4 : (Vec4.sub v2 v0).xyz = Vec3.sub v2.xyz v0.xyz := rfl
    unfold compute_triangle_normal
    simp only [e1, e2, e3, e4, hcross]
    unfold Vec3.normalize
    simp only [hlen]
    generalize Vec3.length lm
      (Vec3.cross (Vec3.sub v1.xyz v0.xyz) (Vec3.sub v2.xyz v0.xyz)) = len at hpos
    generalize Vec3.cross (Vec3.sub v1.xyz v0.xyz) (Vec3.sub v2.xyz v0.xyz) = w
    have hs0 : s ≠ 0 := hs.ne'
    have hl0 : len ≠ 0 := hpos.ne'
    simp only [Vec3.mul, Vec3.mk.injEq]
    refine ⟨?_, ?_, ?_⟩ <;> field_simp <;> ring
  refine ⟨hn, ?_⟩
  unfold is_back_facing_triangle
  simp only [hn]
  have hdot : Vec3.dot (Vec3.neg (Vec4.ofVec3 (Vec3.mul v0.xyz s) v0.w).xyz)
      (compute_triangle_normal lm v0 v1 v2) =
      s * Vec3.dot (Vec3.neg v0.xyz) (compute_triangle_normal lm v0 v1 v2) := by
    simp only [Vec3.dot, Vec3.neg, Vec3.mul, Vec4.ofVec3, Vec4.xyz]
    ring
  rw [hdot]
  by_cases h : Vec3.dot (Vec3.neg v0.xyz) (compute_triangle_normal lm v0 v1 v2) ≤ 0
  · have h' : s * Vec3.dot (Vec3.neg v0.xyz) (compute_triangle_normal lm v0 v1 v2) ≤ 0 :=
      mul_nonpos_of_nonneg_of_nonpos hs.le h
    simp only [h, h', if_true]
  · have h' : ¬ s * Vec3.dot (Vec3.neg v0.xyz) (compute_triangle_normal lm v0 v1 v2) ≤ 0 := by
      intro hle
      apply h
      by_contra hpos'
      push_neg at hpos'
      have := mul_pos hs hpos'
      linarith
    simp only [h, h', if_false]

/-- Exact arithmetic, an instance.
The triangle `(1,0,-3), (0,1,-3), (0,0,-3)` in front of the camera,
scaled by `2` into `(2,0,-6), (0,2,-6), (0,0,-6)`, with the square root of
`Libm.onRationals`: the normal is `(0,0,1)` and the triangle is front-facing, before and
after. -/
theorem back_facing_scaled_about_camera_witness :
    (Vec4.ofVec3 (Vec3.mul (Vec4.xyz ⟨1, 0, -3, 1⟩) 2) 1 = ⟨2, 0, -6, 1⟩ ∧
      is_back_facing_triangle Libm.onRationals ⟨1, 0, -3, 1⟩ ⟨0, 1, -3, 1⟩ ⟨0, 0, -3, 1⟩ =
        (false, ⟨0, 0, 1⟩)) ∧
    (compute_triangle_normal Libm.onRationals
        (Vec4.ofVec3 (Vec3.mul (Vec4.xyz ⟨1, 0, -3, 1⟩) 2) 1)
        (Vec4.ofVec3 (Vec3.mul (Vec4.xyz ⟨0, 1, -3, 1⟩) 2) 1)
        (Vec4.ofVec3 (Vec3.mul (Vec4.xyz ⟨0, 0, -3, 1⟩) 2) 1) =
      compute_triangle_normal Libm.onRationals ⟨1, 0, -3, 1⟩ ⟨0, 1, -3, 1⟩ ⟨0, 0, -3, 1⟩ ∧
    is_back_facing_triangle Libm.onRationals
        (Vec4.ofVec3 (Vec3.mul (Vec4.xyz ⟨1, 0, -3, 1⟩) 2) 1)
        (Vec4.ofVec3 (Vec3.mul (Vec4.xyz ⟨0, 1, -3, 1⟩) 2) 1)
        (Vec4.ofVec3 (Vec3.mul (Vec4.xyz ⟨0, 0, -3, 1⟩) 2) 1) =
      is_back_facing_triangle Libm.onRationals ⟨1, 0, -3, 1⟩ ⟨0, 1, -3, 1⟩ ⟨0, 0, -3, 1⟩) :=
  ⟨⟨by decide!, by decide!⟩,
    back_facing_scaled_about_camera Libm.onRationals onRationals_sqrt_pos
      ⟨1, 0, -3, 1⟩ ⟨0, 1, -3, 1⟩ ⟨0, 0, -3, 1⟩ 2 (by decide) (by decide!) (by decide!)⟩

/-! ## C39: the routine chosen for a face -/

/-- The calls made by `draw_mesh` for a face that survives the clip and the cull (and whose
vertices project and whose normals are read) are those of the dispatch stage. -/
theorem draw_mesh_face_eq_dispatch (lm : Libm) (canvas : Canvas) (params : DrawMeshParams)
    (face : Mesh.Face) (v0 v1 v2 : Vec4) (p0 p1 p2 : Point2)
    (shading : (ℚ × ℚ × ℚ) × (Vec3 × Vec3 × Vec3))
    (hv : face_transformed_verts params face = some (v0, v1, v2))
    (hclip : (has_flag params.draw_flags DrawFlags.kClipping &&
      clip_triangle params.camera.clipping_planes v0 v1 v2) = false)
    (hcull : (face_back_face_stage lm params.draw_flags v0 v1 v2).1 = false)
    (h0 : canvas.project_vertex v0.xyz 1 = some p0)
    (h1 : canvas.project_vertex v1.xyz 1 = some p1)
    (h2 : canvas.project_vertex v2.xyz 1 = some p2)
    (hsh : face_shading lm params face (face_back_face_stage lm params.draw_flags v0 v1 v2).2
      v0 v1 v2 = some shading) :
    draw_mesh_face lm canvas params face =
      face_dispatch lm params face v0 v1 v2 p0 p1 p2 shading.1 shading.2 := by
  unfold draw_mesh_face
  simp only [hv, Option.some_bind, hclip, hcull, h0, h1, h2, hsh, Bool.false_eq_true,
    if_false]

/-- C39: for a face that survives the clip and the cull (and whose vertices project and
whose normals are read) the calls of `draw_mesh` are those of its dispatch stage, which
makes at most one call of a fill or wireframe routine, chosen by strict priority, followed
by the outline `draw_line` calls only:

* if `kColorFilled` is set or the face has no texture, one colour fill, whatever the other
  flags (so with `kColorFilled` and `kTextureMapped` both set on a textured face, the
  texture is ignored), in its depth-tested variant exactly when `kDepthTest` is set;
* otherwise, if `kTextureMapped` is set, one textured fill, in its depth-tested variant
  exactly when `kDepthTest` is set (the call is made when the three texture coordinates of
  the face are read inside `mesh.tex_coords`);
* otherwise, if `kWireframe` is set, the call `draw_wireframe_triangle`, which has no
  depth-tested variant;
* otherwise nothing. -/
theorem face_dispatch_priority (lm : Libm) (params : DrawMeshParams) (face : Mesh.Face)
    (v0 v1 v2 : Vec4) (p0 p1 p2 : Point2) (intensities : ℚ × ℚ × ℚ)
    (normals : Vec3 × Vec3 × Vec3) :
    (∀ (canvas : Canvas),
      face_transformed_verts params face = some (v0, v1, v2) →
      (has_flag params.draw_flags DrawFlags.kClipping &&
        clip_triangle params.camera.clipping_planes v0 v1 v2) = false →
      (face_back_face_stage lm params.draw_flags v0 v1 v2).1 = false →
      canvas.project_vertex v0.xyz 1 = some p0 →
      canvas.project_vertex v1.xyz 1 = some p1 →
      canvas.project_vertex v2.xyz 1 = some p2 →
      face_shading lm params face (face_back_face_stage lm params.draw_flags v0 v1 v2).2
        v0 v1 v2 = some (intensities, normals) →
      draw_mesh_face lm canvas params face =
        face_dispatch lm params face v0 v1 v2 p0 p1 p2 intensities normals) ∧
    (∀ r ∈ face_outlines params.draw_flags face p0 p1 p2, r.is_line = true) ∧
    ((has_flag params.draw_flags DrawFlags.kColorFilled = true ∨ face.texture = none) →
      ∃ c, face_dispatch lm params face v0 v1 v2 p0 p1 p2 intensities normals =
          some (c :: face_outlines params.draw_flags face p0 p1 p2) ∧
        c.is_color_fill = true ∧ c.is_textured = false ∧
        c.is_depth_tested = has_flag params.draw_flags DrawFlags.kDepthTest) ∧
    (has_flag params.draw_flags DrawFlags.kColorFilled = false →
      ∀ texture, face.texture = some texture →
      has_flag params.draw_flags DrawFlags.kTextureMapped = true →
      (∀ tex_coords0 tex_coords1 tex_coords2,
        params.mesh.tex_coords[face.tex_coords 0]? = some tex_coords0 →
        params.mesh.tex_coords[face.tex_coords 1]? = some tex_coords1 →
        params.mesh.tex_coords[face.tex_coords 2]? = some tex_coords2 →
        ∃ c, face_dispatch lm params face v0 v1 v2 p0 p1 p2 intensities normals =
            some (c :: face_outlines params.draw_flags face p0 p1 p2)) ∧
      ∀ calls, face_dispatch lm params face v0 v1 v2 p0 p1 p2 intensities normals =
          some calls →
        ∃ c, calls = c :: face_outlines params.draw_flags face p0 p1 p2 ∧
          c.is_textured = true ∧ c.is_color_fill = false ∧
          c.is_depth_tested = has_flag params.draw_flags DrawFlags.kDepthTest) ∧
    (has_flag params.draw_flags DrawFlags.kColorFilled = false →
      face.texture ≠ none →
      has_flag params.draw_flags DrawFlags.kTextureMapped = false →
      has_flag params.draw_flags DrawFlags.kWireframe = true →
      face_dispatch lm params face v0 v1 v2 p0 p1 p2 intensities normals =
        some (DrawCall.draw_wireframe_triangle p0 p1 p2 face.color ::
          face_outlines params.draw_flags face p0 p1 p2)) ∧
    (has_flag params.draw_flags DrawFlags.kColorFilled = false →
      face.texture ≠ none →
      has_flag params.draw_flags DrawFlags.kTextureMapped = false →
      has_flag params.draw_flags DrawFlags.kWireframe = false →
      face_dispatch lm params face v0 v1 v2 p0 p1 p2 intensities normals =
        some (face_outlines params.draw_flags face p0 p1 p2)) := by
  refine ⟨?_, ?_, ?_, ?_, ?_, ?_⟩
  · intro canvas hv hclip hcull h0 h1 h2 hsh
    exact draw_mesh_face_eq_dispatch lm canvas params face v0 v1 v2 p0 p1 p2
      (intensities, normals) hv hclip hcull h0 h1 h2 hsh
  · intro r hr
    unfold face_outlines at hr
    split at hr
    · simp only [List.mem_cons, List.mem_singleton, List.not_mem_nil, or_false] at hr
      rcases hr with rfl | rfl | rfl <;> rfl
    · exact absurd hr (List.not_mem_nil _)
  · intro hcf
    have hcf' : (has_flag params.draw_flags DrawFlags.kColorFilled ||
        face.texture.isNone) = true := by
      rcases hcf with h | h
      · simp only [h, Bool.true_or]
      · simp only [h, Option.isNone_none, Bool.or_true]
    unfold face_dispatch face_outlines
    simp only [hcf', if_true]
    cases params.shade_model <;>
      by_cases hd : has_flag params.draw_flags DrawFlags.kDepthTest = true <;>
      simp only [hd, if_true, if_false, Option.map_some', List.singleton_append,
        Bool.false_eq_true] <;>
      refine ⟨_, rfl, rfl, rfl, ?_⟩ <;>
      simp only [DrawCall.is_depth_tested, hd]
  · intro hcf texture htex htm
    constructor
    · intro t0 t1 t2 h0 h1 h2
      unfold face_dispatch face_outlines
      simp only [htex, hcf, htm, Option.isNone_some, Option.isSome_some, Bool.or_false,
        Bool.and_true, Bool.and_self, Bool.or_self, h0, h1, h2, Option.some_bind, if_true,
        Bool.false_eq_true, if_false]
      cases params.shade_model <;>
        by_cases hd : has_flag params.draw_flags DrawFlags.kDepthTest = true <;>
        simp only [hd, if_true, if_false, Option.map_some', List.singleton_append,
          Bool.false_eq_true] <;>
        exact ⟨_, rfl⟩
    · intro calls hcalls
      unfold face_dispatch at hcalls
      simp only [htex, hcf, htm, Option.isNone_some, Option.isSome_some, Bool.or_false,
        Bool.and_true, Bool.and_self, Bool.or_self, if_true, Bool.false_eq_true,
        if_false] at hcalls
      cases h0 : params.mesh.tex_coords[face.tex_coords 0]? with
      | none =>
        rw [h0] at hcalls
        simp only [Option.none_bind, Option.map_none'] at hcalls
        exact Option.noConfusion hcalls
      | some t0 =>
        cases h1 : params.mesh.tex_coords[face.tex_coords 1]? with
        | none =>
          rw [h0, h1] at hcalls
          simp only [Option.some_bind, Option.none_bind, Option.map_none'] at hcalls
          exact Option.noConfusion hcalls
        | some t1 =>
          cases h2 : params.mesh.tex_coords[face.tex_coords 2]? with
          | none =>
            rw [h0, h1, h2] at hcalls
            simp only [Option.some_bind, Option.none_bind, Option.map_none'] at hcalls
            exact Option.noConfusion hcalls
          | some t2 =>
            rw [h0, h1, h2] at hcalls
            simp only [Option.some_bind] at hcalls
            unfold face_outlines
            revert hcalls
            cases params.shade_model <;>
              by_cases hd : has_flag params.draw_flags DrawFlags.kDepthTest = true <;>
              simp only [hd, if_true, if_false, Option.map_some', List.singleton_append,
                Bool.false_eq_true, Option.some.injEq] <;>
              intro hcalls <;>
              refine ⟨_, hcalls.symm, rfl, rfl, ?_⟩ <;>
              simp only [DrawCall.is_depth_tested, hd]
  · intro hcf htex htm hwf
    have htex' : face.texture.isNone = false := by
      cases h : face.texture with
      | none => exact absurd h htex
      | some t => rfl
    unfold face_dispatch face_outlines
    simp only [hcf, htm, hwf, htex', Bool.or_false, Bool.false_and, Bool.not_false,
      Bool.and_true, Bool.and_self, Bool.false_eq_true, if_false, if_true, Option.map_some',
      List.singleton_append]
  · intro hcf htex htm hwf
    have htex' : face.texture.isNone = false := by
      cases h : face.texture with
      | none => exact absurd h htex
      | some t => rfl
    unfold face_dispatch face_outlines
    simp only [hcf, htm, hwf, htex', Bool.or_false, Bool.false_and, Bool.not_false,
      Bool.and_true, Bool.and_self, Bool.false_eq_true, if_false, if_true, Option.map_some',
      List.nil_append]

end rasterizer

end cgfs

namespace cgfs

namespace binary32

open rasterizer

/-! # Single precision: the program at inputs where rounding decides -/

/-! ## C2, C3, C32: the samples of `interpolate` -/

/-- The step and the last sample of the float interpolation from `0.2f` to `1.0f` over the
span `0..759`: the step is `4526975/4294967296` and the accumulator after `759` additions
is `8388491/8388608`. -/
theorem interpolate_fifth_to_one_last :
    (interpolate (T := Float32) 0 (Float32.round (1 / 5)) 759 1).bind (fun b => b.get 759) =
      some (Float32.finite (8388491 / 8388608)) := by
  obtain ⟨b, hb⟩ := Option.isSome_iff_exists.mp
    (interpolate_isSome (T := Float32) 0 759 (Float32.round (1 / 5)) 1 (by decide) (by decide))
  have hget := interpolate_get (T := Float32) 0 759 (Float32.round (1 / 5)) 1 (by decide) b hb
    759 (by decide) (by decide)
  have hiter : (fun x : Float32 => x + (1 - Float32.round (1 / 5)) /
      Float32.round (((759 - 0 : Int)) : ℚ))^[759] (Float32.round (1 / 5)) =
      Float32.finite (8388491 / 8388608) := by decide!
  rw [hb, Option.some_bind]
  exact hget.trans (congrArg some hiter)

/-- C2 as stated fails.  The float samples from `0.0f` to
`1000.5f` over the span `0..10` are computed by ten additions of the rounded step; the
last sample, at `i = 10`, is `16392191/16384 = 1000.49993896...`, whereas
`lerp(0, 1000.5, t)` at `t = 10/10` is `1000.5`, both as the source computes it in single
precision and exactly: the two differ by `1/16384 = 0.000061...`, more than the tolerance
`1e-5`.  The same happens with values in `[0, 1]`: from `0.2f` to `1.0f` over the span
`0..759` the last sample is `8388491/8388608 = 0.99998605...` against `lerp = 1`, a
difference of `117/8388608 = 0.0000139...`. -/
theorem interpolate_float_misses_lerp :
    ((interpolate (T := Float32) 0 0 10 (Float32.round (2001 / 2))).bind (fun b => b.get 10) =
      some (Float32.finite (16392191 / 16384)) ∧
    lerp 0 (Float32.round (2001 / 2)) (Float32.ofInt (10 - 0) / Float32.ofInt (10 - 0)) =
      Float32.finite (2001 / 2) ∧
    cgfs.lerp 0 (2001 / 2) ((10 - 0) / (10 - 0)) = 2001 / 2 ∧
    (1 / 100000 : ℚ) < |2001 / 2 - 16392191 / 16384|) ∧
    ((interpolate (T := Float32) 0 (Float32.round (1 / 5)) 759 1).bind (fun b => b.get 759) =
      some (Float32.finite (8388491 / 8388608)) ∧
    lerp (Float32.round (1 / 5)) 1 (Float32.ofInt (759 - 0) / Float32.ofInt (759 - 0)) =
      Float32.finite 1 ∧
    (1 / 100000 : ℚ) < |1 - 8388491 / 8388608|) := by
  refine ⟨⟨by decide!, by decide!, by decide!, by decide!⟩,
    ⟨interpolate_fifth_to_one_last, by decide!, by decide!⟩⟩

/-- C3 as stated fails, and by more than the truncation of `int(d)` accounts for.  On the span `0..6` from `0` to `7` the step is the float nearest to
`7/6`, the accumulator after six additions is `6.99999952...`, and `int(d)` truncates it:
the samples are `0, 1, 2, 3, 4, 5, 6`.  At `i = 6` the value of `lerp(0, 7, 6/6)` is the
integer `7`, so the last sample is off by `1`.  (On the span `0..2` from `0` to `1` the
samples are `0, 0, 1`: the middle one is `0`, where `lerp` is `1/2`.) -/
theorem interpolate_int_misses_lerp :
    @interpolate Int instInterpolableInt 0 0 6 7 = some ⟨[0, 1, 2, 3, 4, 5, 6]⟩ ∧
    cgfs.lerp 0 7 ((6 - 0) / (6 - 0)) = 7 ∧
    lerp (Float32.ofInt 0) (Float32.ofInt 7) (Float32.ofInt (6 - 0) / Float32.ofInt (6 - 0)) =
      Float32.finite 7 ∧
    @interpolate Int instInterpolableInt 0 0 2 1 = some ⟨[0, 0, 1]⟩ ∧
    cgfs.lerp 0 1 ((1 - 0) / (2 - 0)) = 1 / 2 := by
  refine ⟨by decide!, by decide!, by decide!, by decide!, by decide!⟩

/-- C32 as stated fails.  The last sample of a non-degenerate span is not `v1`: for the
integer kind the span `0..6` from `0` to `7` ends in `6`; for the float kind the span
`0..3` from `1.0f` to `0.0f` ends in `-2^-24`.  Hence the long edge of the triangle
`(0,0), (3,3), (7,6)` is `0, 1, 2, 3, 4, 5, 6`: it does not end at `p2.x = 7`, while the
merged short edges do.  For the flat triangle `(0,0), (1,0), (2,0)` the long edge is the
single sample `p0.x = 0` of the degenerate span and does not end at `p2.x = 2` either.  The
first sample of the integer kind is `int(float(v0))`: from `v0 = 2^24 + 1` it is `2^24`. -/
theorem interpolate_last_sample_misses_end :
    ((@interpolate Int instInterpolableInt 0 0 6 7).bind (fun b => b.get 6) = some 6 ∧
      (@interpolate Int instInterpolableInt 0 0 6 7).bind (fun b => b.get 0) = some 0) ∧
    ((interpolate (T := Float32) 0 1 3 0).bind (fun b => b.get 3) =
        some (Float32.finite (-1 / 16777216)) ∧
      (interpolate (T := Float32) 0 1 3 0).bind (fun b => b.get 0) = some 1) ∧
    (@long_edge Int instInterpolableInt ⟨0, 0⟩ ⟨7, 6⟩ 0 7 = some ⟨[0, 1, 2, 3, 4, 5, 6]⟩ ∧
      @merged_short_edges Int instInterpolableInt ⟨0, 0⟩ ⟨3, 3⟩ ⟨7, 6⟩ 0 3 7 =
        some ⟨[0, 1, 2, 3, 4, 5, 7]⟩ ∧
      interpolate_points ⟨0, 0⟩ ⟨3, 3⟩ ⟨7, 6⟩ =
        some (⟨[0, 1, 2, 3, 4, 5, 7]⟩, ⟨[0, 1, 2, 3, 4, 5, 6]⟩, LeftSide.k01_12)) ∧
    (@long_edge Int instInterpolableInt ⟨0, 0⟩ ⟨2, 0⟩ 0 2 = some ⟨[0]⟩ ∧
      interpolate_points ⟨0, 0⟩ ⟨1, 0⟩ ⟨2, 0⟩ = some (⟨[0]⟩, ⟨[1]⟩, LeftSide.k02)) ∧
    @interpolate Int instInterpolableInt 0 16777217 1 16777217 =
      some ⟨[16777216, 16777216]⟩ := by
  refine ⟨⟨by decide!, by decide!⟩, ⟨by decide!, by decide!⟩,
    ⟨by decide!, by decide!, by decide!⟩, ⟨by decide!, by decide!⟩, by decide!⟩

/-! ## C4, C33: the edge sequences and the filled triangle -/

/-- C4 fails for the code.  For the sorted triangle `(0,0), (5,0), (2,1)` the long edge is
`0, 2` and the merged short edges are `5, 2`: they tie at the probe offset `1`, the last
scanline, where all edges meet, so the merged short edges are returned as the left
sequence although they lie on the right.  At the offset `0` the left value `5` exceeds the
right value `0`, the loop from `x_left` to `x_right` is empty and `draw_filled_triangle`
draws the single pixel `(2,1)`: the scanline `y = 0` of the triangle, from `x = 0` to
`x = 5`, is missing.  The same tie happens for `(0,0), (1,1), (0,4)`, with the left
sequence `0, 1, 0, 0, 0` and the right one `0, 0, 0, 0, 0`.  Without a tie: for
`(0,0), (-8,0), (-7,3)` the short edge from `(-8,0)` to `(-7,3)` is computed as
`-8, -7, -7, -6` (its accumulator ends at `-6.99999952...`, truncated to `-6`) and the long
edge as `0, -2, -4, -7`; the two differ at the probe offset `2`, and at the offset `3` the
left value `-6` exceeds the right value `-7`, where in exact arithmetic the two sequences
meet in `-7`. -/
theorem interpolate_points_left_exceeds_right :
    (interpolate_points ⟨0, 0⟩ ⟨5, 0⟩ ⟨2, 1⟩ =
        some (⟨[5, 2]⟩, ⟨[0, 2]⟩, LeftSide.k01_12) ∧
      (∃ x_left x_right tag l r, interpolate_points ⟨0, 0⟩ ⟨5, 0⟩ ⟨2, 1⟩ =
          some (x_left, x_right, tag) ∧
        x_left.get 0 = some l ∧ x_right.get 0 = some r ∧ r < l) ∧
      sort_points_by_y ⟨0, 0⟩ ⟨5, 0⟩ ⟨2, 1⟩ = (⟨0, 0⟩, ⟨5, 0⟩, ⟨2, 1⟩) ∧
      draw_filled_triangle_pixels ⟨0, 0⟩ ⟨5, 0⟩ ⟨2, 1⟩ Color.kGray =
        some [(⟨2, 1⟩, Color.kGray)]) ∧
    (interpolate_points ⟨0, 0⟩ ⟨1, 1⟩ ⟨0, 4⟩ =
        some (⟨[0, 1, 0, 0, 0]⟩, ⟨[0, 0, 0, 0, 0]⟩, LeftSide.k01_12) ∧
      ∃ x_left x_right tag l r, interpolate_points ⟨0, 0⟩ ⟨1, 1⟩ ⟨0, 4⟩ =
          some (x_left, x_right, tag) ∧
        x_left.get 1 = some l ∧ x_right.get 1 = some r ∧ r < l) ∧
    (interpolate_points ⟨0, 0⟩ ⟨-8, 0⟩ ⟨-7, 3⟩ =
        some (⟨[-8, -7, -7, -6]⟩, ⟨[0, -2, -4, -7]⟩, LeftSide.k01_12) ∧
      (∃ x_left x_right tag l r, interpolate_points ⟨0, 0⟩ ⟨-8, 0⟩ ⟨-7, 3⟩ =
          some (x_left, x_right, tag) ∧
        x_left.get 3 = some l ∧ x_right.get 3 = some r ∧ r < l) ∧
      rasterizer.interpolate_points ⟨0, 0⟩ ⟨-8, 0⟩ ⟨-7, 3⟩ =
        some (⟨[-8, -7, -7, -7]⟩, ⟨[0, -2, -4, -7]⟩, LeftSide.k01_12)) := by
  have h0 : interpolate_points ⟨0, 0⟩ ⟨5, 0⟩ ⟨2, 1⟩ =
      some (⟨[5, 2]⟩, ⟨[0, 2]⟩, LeftSide.k01_12) := by decide!
  have h1 : interpolate_points ⟨0, 0⟩ ⟨-8, 0⟩ ⟨-7, 3⟩ =
      some (⟨[-8, -7, -7, -6]⟩, ⟨[0, -2, -4, -7]⟩, LeftSide.k01_12) := by decide!
  have h2 : interpolate_points ⟨0, 0⟩ ⟨1, 1⟩ ⟨0, 4⟩ =
      some (⟨[0, 1, 0, 0, 0]⟩, ⟨[0, 0, 0, 0, 0]⟩, LeftSide.k01_12) := by decide!
  refine ⟨⟨h0, ⟨_, _, _, 5, 0, h0, by decide, by decide, by decide⟩, by decide, by decide!⟩,
    ⟨h2, ⟨_, _, _, 1, 0, h2, by decide, by decide, by decide⟩⟩,
    ⟨h1, ⟨_, _, _, -6, -7, h1, by decide, by decide, by decide⟩, by decide!⟩⟩

/-- C33 as stated fails.  The triangle `(1,0), (2,0), (1,3)` has the bounding box
`1 <= x <= 2`, `0 <= y <= 3`.  Its short edge from `(2,0)` to `(1,3)` is computed as
`2, 1, 1, 0`: the accumulator ends at `0.99999990...`, truncated to `0`.  That sequence is
the left one, so the scanline `y = 3` runs from `x = 0` to `x = 1` and
`draw_filled_triangle` passes the point `(0,3)`, left of the box, to `draw_pixel`.  In
exact arithmetic the calls are `(1,1), (1,2), (1,3)`. -/
theorem draw_filled_triangle_leaves_bounding_box :
    interpolate_points ⟨1, 0⟩ ⟨2, 0⟩ ⟨1, 3⟩ =
      some (⟨[2, 1, 1, 0]⟩, ⟨[1, 1, 1, 1]⟩, LeftSide.k01_12) ∧
    draw_filled_triangle_pixels ⟨1, 0⟩ ⟨2, 0⟩ ⟨1, 3⟩ Color.kGray =
      some [(⟨1, 1⟩, Color.kGray), (⟨1, 2⟩, Color.kGray), (⟨0, 3⟩, Color.kGray),
        (⟨1, 3⟩, Color.kGray)] ∧
    (∃ pixels, draw_filled_triangle_pixels ⟨1, 0⟩ ⟨2, 0⟩ ⟨1, 3⟩ Color.kGray = some pixels ∧
      ∃ pc ∈ pixels, pc.1.x < min (1 : Int) (min 2 1)) ∧
    rasterizer.draw_filled_triangle_pixels ⟨1, 0⟩ ⟨2, 0⟩ ⟨1, 3⟩ cgfs.Color.kGray =
      some [(⟨1, 1⟩, cgfs.Color.kGray), (⟨1, 2⟩, cgfs.Color.kGray),
        (⟨1, 3⟩, cgfs.Color.kGray)] := by
  have h : draw_filled_triangle_pixels ⟨1, 0⟩ ⟨2, 0⟩ ⟨1, 3⟩ Color.kGray =
      some [(⟨1, 1⟩, Color.kGray), (⟨1, 2⟩, Color.kGray), (⟨0, 3⟩, Color.kGray),
        (⟨1, 3⟩, Color.kGray)] := by decide!
  refine ⟨by decide!, h, ⟨_, h, (⟨0, 3⟩, Color.kGray), by simp, by decide⟩, by decide!⟩

/-! ## C29: the shaded triangle -/

/-- C29 fails for the code.  The colour gray and the intensities `1, 0, 0` are normalised.
On the triangle `(0,0), (2,3), (0,3)` the intensity along the edge from `(0,0)` to `(0,3)`
is accumulated as `1, 0.66666662..., 0.33333328..., -2^-24`: three additions of the
rounded step `-1/3` overshoot `0`.  Only the upper bound is clamped (`std::min` with
`1.0f`), so the pixels `(0,3)` and `(1,3)` are passed colours with negative channels, the
assertion of `Color::to_rgba_u8` fails, and `draw_shaded_triangle` does not return. -/
theorem draw_shaded_triangle_not_normalized :
    (is_normalized 1 && is_normalized 0 && Color.kGray.is_normalized) = true ∧
    draw_shaded_triangle_pixels ⟨0, 0⟩ 1 ⟨2, 3⟩ 0 ⟨0, 3⟩ 0 Color.kGray =
      some [(⟨0, 0⟩, ⟨Float32.finite (1 / 2), Float32.finite (1 / 2), Float32.finite (1 / 2), 1⟩),
        (⟨0, 1⟩, ⟨Float32.finite (5592405 / 16777216), Float32.finite (5592405 / 16777216),
          Float32.finite (5592405 / 16777216), Float32.finite (5592405 / 8388608)⟩),
        (⟨0, 2⟩, ⟨Float32.finite (11184809 / 67108864), Float32.finite (11184809 / 67108864),
          Float32.finite (11184809 / 67108864), Float32.finite (11184809 / 33554432)⟩),
        (⟨1, 2⟩, ⟨Float32.finite (11184809 / 67108864), Float32.finite (11184809 / 67108864),
          Float32.finite (11184809 / 67108864), Float32.finite (11184809 / 33554432)⟩),
        (⟨0, 3⟩, ⟨Float32.finite (-1 / 33554432), Float32.finite (-1 / 33554432),
          Float32.finite (-1 / 33554432), Float32.finite (-1 / 16777216)⟩),
        (⟨1, 3⟩, ⟨Float32.finite (-1 / 67108864), Float32.finite (-1 / 67108864),
          Float32.finite (-1 / 67108864), Float32.finite (-1 / 33554432)⟩),
        (⟨2, 3⟩, ⟨0, 0, 0, 0⟩)] ∧
    Color.to_rgba_u8 ⟨Float32.finite (-1 / 33554432), Float32.finite (-1 / 33554432),
      Float32.finite (-1 / 33554432), Float32.finite (-1 / 16777216)⟩ = none ∧
    (Canvas.create ⟨8, 8⟩ Color.kBlack).isSome = true ∧
    (Canvas.create ⟨8, 8⟩ Color.kBlack).bind
      (fun canvas => draw_shaded_triangle canvas ⟨0, 0⟩ 1 ⟨2, 3⟩ 0 ⟨0, 3⟩ 0 Color.kGray) =
        none := by
  refine ⟨by decide!, by decide!, by decide!, by decide!, by decide!⟩

end binary32

end cgfs

namespace cgfs

namespace binary32

open rasterizer

/-! ## C11: the lighting result -/

/-- Without the specular flag `compute_lighting` never calls `std::pow`: the intensity after
a light does not depend on that function. -/
theorem compute_lighting_step_no_specular (pow pow' : Float32 → Float32 → Float32)
    (light_model : Nat) (h : has_flag light_model LightModel.kSpecular = false)
    (vertex normal : Vec3) (camera : Camera) (specular : Float32) :
    compute_lighting_step pow light_model vertex normal camera specular =
      compute_lighting_step pow' light_model vertex normal camera specular := by
  funext intensity light
  unfold compute_lighting_step compute_lighting_components
  simp only [h, Bool.false_eq_true, if_false]

/-- Without the specular flag the result of `compute_lighting` does not depend on
`std::pow`. -/
theorem compute_lighting_no_specular (pow pow' : Float32 → Float32 → Float32)
    (light_model : Nat) (h : has_flag light_model LightModel.kSpecular = false)
    (vertex normal : Vec3) (camera : Camera) (specular : Float32) (lights : List Light) :
    compute_lighting pow light_model vertex normal camera specular lights =
      compute_lighting pow' light_model vertex normal camera specular lights := by
  unfold compute_lighting
  rw [compute_lighting_step_no_specular pow pow' light_model h]

/-- C11 fails for the code.  Light model `kDiffuse`, camera at the origin with the identity
rotation, vertex `(0,0,0)`, normal `(1,0,0)`, one directional light of direction
`(1e-30f, 0, 0)` and intensity `0`.  The dot product of the light vector and the normal is
`1e-30f`, positive; the squared length of the light vector underflows to `0`, so its length
is `0` and `cos_alpha` is the quotient of a positive number by `0`, an infinity.  The test
`cos_alpha > 0` passes and `intensity += cos_alpha * light.intensity` adds the product of
an infinity and `0`, a NaN.  Both comparisons of `std::clamp` are false for a NaN, which is
returned: the result is not in `[0, 1]`, whatever `std::pow` is. -/
theorem compute_lighting_returns_nan (pow : Float32 → Float32 → Float32) :
    compute_lighting pow LightModel.kDiffuse ⟨0, 0, 0⟩ ⟨1, 0, 0⟩ ⟨⟨0, 0, 0⟩, Mat3.kIdentity⟩ 0
        [⟨Light.Type.kDirectional,
          ⟨Float32.round (1 / 1000000000000000000000000000000), 0, 0⟩, 0⟩] = Float32.nan ∧
    is_normalized Float32.nan = false ∧
    Vec3.length ⟨Float32.round (1 / 1000000000000000000000000000000), 0, 0⟩ = 0 ∧
    Vec3.dot ⟨Float32.round (1 / 1000000000000000000000000000000), 0, 0⟩ ⟨1, 0, 0⟩ /
        (Vec3.length ⟨Float32.round (1 / 1000000000000000000000000000000), 0, 0⟩ *
          Vec3.length ⟨1, 0, 0⟩) = Float32.infinity false ∧
    Float32.infinity false * 0 = Float32.nan ∧
    Float32.std_clamp Float32.nan 0 1 = Float32.nan := by
  refine ⟨?_, by decide!, by decide!, by decide!, by decide!, by decide!⟩
  rw [compute_lighting_no_specular pow (fun _ _ => 0) LightModel.kDiffuse (by decide)]
  decide!

/-! ## C18, C37, C38: the back-face decision -/

/-- C37 as stated fails.  For the view-space triangle `(98,-165,192)`,
`(-220,-251,-77)`, `(219,251,76)`, whose coordinates are exact in single precision, the
three cyclic orders give the same computed normal, but the rounded dot product of that
normal with `-v0` is positive for the first order and negative for the other two: the
answers are `false, true, true`.  (The exact triple product `v0 . (v1 x v2)` is `1`, so
the exact dot product with the normal is negative in all three orders.)  For the triangle
`(0.8,1.7,0.5), (-0.2,-2.6,0), (-0.6,0.9,-0.5)` of float literals the answers are
`true, false, true` and the three computed normals differ. -/
theorem back_facing_cyclic_orders_differ :
    ((is_back_facing_triangle ⟨98, -165, 192, 1⟩ ⟨-220, -251, -77, 1⟩ ⟨219, 251, 76, 1⟩).1 =
        false ∧
      (is_back_facing_triangle ⟨-220, -251, -77, 1⟩ ⟨219, 251, 76, 1⟩ ⟨98, -165, 192, 1⟩).1 =
        true ∧
      (is_back_facing_triangle ⟨219, 251, 76, 1⟩ ⟨98, -165, 192, 1⟩ ⟨-220, -251, -77, 1⟩).1 =
        true ∧
      cgfs.Vec3.dot ⟨98, -165, 192⟩ (cgfs.Vec3.cross ⟨-220, -251, -77⟩ ⟨219, 251, 76⟩) = 1) ∧
    ((is_back_facing_triangle
          ⟨Float32.round (8 / 10), Float32.round (17 / 10), Float32.round (5 / 10), 1⟩
          ⟨Float32.round (-2 / 10), Float32.round (-26 / 10), 0, 1⟩
          ⟨Float32.round (-6 / 10), Float32.round (9 / 10), Float32.round (-5 / 10), 1⟩).1 =
        true ∧
      (is_back_facing_triangle
          ⟨Float32.round (-2 / 10), Float32.round (-26 / 10), 0, 1⟩
          ⟨Float32.round (-6 / 10), Float32.round (9 / 10), Float32.round (-5 / 10), 1⟩
          ⟨Float32.round (8 / 10), Float32.round (17 / 10), Float32.round (5 / 10), 1⟩).1 =
        false ∧
      (is_back_facing_triangle
          ⟨Float32.round (-6 / 10), Float32.round (9 / 10), Float32.round (-5 / 10), 1⟩
          ⟨Float32.round (8 / 10), Float32.round (17 / 10), Float32.round (5 / 10), 1⟩
          ⟨Float32.round (-2 / 10), Float32.round (-26 / 10), 0, 1⟩).1 = true ∧
      (is_back_facing_triangle
          ⟨Float32.round (8 / 10), Float32.round (17 / 10), Float32.round (5 / 10), 1⟩
          ⟨Float32.round (-2 / 10), Float32.round (-26 / 10), 0, 1⟩
          ⟨Float32.round (-6 / 10), Float32.round (9 / 10), Float32.round (-5 / 10), 1⟩).2 ≠
        (is_back_facing_triangle
          ⟨Float32.round (-2 / 10), Float32.round (-26 / 10), 0, 1⟩
          ⟨Float32.round (-6 / 10), Float32.round (9 / 10), Float32.round (-5 / 10), 1⟩
          ⟨Float32.round (8 / 10), Float32.round (17 / 10), Float32.round (5 / 10), 1⟩).2) := by
  refine ⟨⟨by decide!, by decide!, by decide!, by decide!⟩,
    ⟨by decide!, by decide!, by decide!, by decide!⟩⟩

/-- C38 as stated fails.  The view-space triangle `(98,-165,192)`, `(-220,-251,-77)`,
`(219,251,76)` is not degenerate (its cross product is not zero) and all coordinates,
also when multiplied by `3`, are exact in single precision.  The decision is `false` for
the triangle and `true` for the triangle scaled by `3` about the camera, and the two
computed normals differ.  For the triangle `(-2.5,-1.6,-2.6), (2.3,-0.2,1.1), (1.6,-1,0.1)`
of float literals, scaled by `v * 3.0f`, the decision changes from `true` to `false`. -/
theorem back_facing_changes_under_scaling :
    ((is_back_facing_triangle ⟨98, -165, 192, 1⟩ ⟨-220, -251, -77, 1⟩ ⟨219, 251, 76, 1⟩).1 =
        false ∧
      (is_back_facing_triangle (Vec4.ofVec3 (Vec3.mul ⟨98, -165, 192⟩ 3) 1)
        (Vec4.ofVec3 (Vec3.mul ⟨-220, -251, -77⟩ 3) 1)
        (Vec4.ofVec3 (Vec3.mul ⟨219, 251, 76⟩ 3) 1)).1 = true ∧
      (Vec3.mul ⟨98, -165, 192⟩ 3 = ⟨294, -495, 576⟩ ∧
        Vec3.mul ⟨-220, -251, -77⟩ 3 = ⟨-660, -753, -231⟩ ∧
        Vec3.mul ⟨219, 251, 76⟩ 3 = ⟨657, 753, 228⟩) ∧
      (is_back_facing_triangle ⟨98, -165, 192, 1⟩ ⟨-220, -251, -77, 1⟩ ⟨219, 251, 76, 1⟩).2 ≠
        (is_back_facing_triangle ⟨294, -495, 576, 1⟩ ⟨-660, -753, -231, 1⟩
          ⟨657, 753, 228, 1⟩).2 ∧
      cgfs.Vec3.cross (cgfs.Vec3.sub ⟨-220, -251, -77⟩ ⟨98, -165, 192⟩)
        (cgfs.Vec3.sub ⟨219, 251, 76⟩ ⟨98, -165, 192⟩) ≠ ⟨0, 0, 0⟩) ∧
    ((is_back_facing_triangle
        (Vec4.ofVec3 ⟨Float32.round (-25 / 10), Float32.round (-16 / 10),
          Float32.round (-26 / 10)⟩ 1)
        (Vec4.ofVec3 ⟨Float32.round (23 / 10), Float32.round (-2 / 10),
          Float32.round (11 / 10)⟩ 1)
        (Vec4.ofVec3 ⟨Float32.round (16 / 10), -1, Float32.round (1 / 10)⟩ 1)).1 = true ∧
      (is_back_facing_triangle
        (Vec4.ofVec3 (Vec3.mul ⟨Float32.round (-25 / 10), Float32.round (-16 / 10),
          Float32.round (-26 / 10)⟩ 3) 1)
        (Vec4.ofVec3 (Vec3.mul ⟨Float32.round (23 / 10), Float32.round (-2 / 10),
          Float32.round (11 / 10)⟩ 3) 1)
        (Vec4.ofVec3 (Vec3.mul ⟨Float32.round (16 / 10), -1, Float32.round (1 / 10)⟩ 3)
          1)).1 = false) := by
  refine ⟨⟨by decide!, by decide!, ⟨by decide!, by decide!, by decide!⟩, by decide!,
    by decide!⟩, ⟨by decide!, by decide!⟩⟩

/-- C24 fails for the code.  For the points `(-2,0,-3), (-1,-3,-3), (-3,-3,-3)`
`compute_bounding_sphere` returns the centre
`(-1.69098294..., -1.69098294..., -3)` and the radius `15529239/2^23 = 1.85122954...`.
The distance from the point `(-3,-3,-3)` to that centre, computed as the source computes a
length (`length(p - center)`), is `15529240/2^23`, one unit in the last place more than
the radius; the exact squared distance exceeds the exact square of the radius as well.
For the points `(0,0,0), (1,1,0)` the radius is the float `0.707106769...`, whose square is
below the squared distance `1/2` of either point from the centre `(0.5, 0.5, 0)`. -/
theorem compute_bounding_sphere_misses_point :
    (compute_bounding_sphere [⟨-2, 0, -3⟩, ⟨-1, -3, -3⟩, ⟨-3, -3, -3⟩] =
        ⟨⟨Float32.finite (-14184993 / 8388608), Float32.finite (-14184993 / 8388608), -3⟩,
          Float32.finite (15529239 / 8388608)⟩ ∧
      Vec3.length (Vec3.sub ⟨-3, -3, -3⟩
          ⟨Float32.finite (-14184993 / 8388608), Float32.finite (-14184993 / 8388608), -3⟩) =
        Float32.finite (15529240 / 8388608) ∧
      Float32.lt (Float32.finite (15529239 / 8388608))
        (Vec3.length (Vec3.sub ⟨-3, -3, -3⟩
          ⟨Float32.finite (-14184993 / 8388608), Float32.finite (-14184993 / 8388608), -3⟩))
        = true ∧
      (15529239 / 8388608 : ℚ) * (15529239 / 8388608) <
        (-3 - -14184993 / 8388608) * (-3 - -14184993 / 8388608) +
          (-3 - -14184993 / 8388608) * (-3 - -14184993 / 8388608) + (-3 - -3) * (-3 - -3)) ∧
    (compute_bounding_sphere [⟨0, 0, 0⟩, ⟨1, 1, 0⟩] =
        ⟨⟨Float32.finite (1 / 2), Float32.finite (1 / 2), 0⟩,
          Float32.finite (11863283 / 16777216)⟩ ∧
      (11863283 / 16777216 : ℚ) * (11863283 / 16777216) <
        (1 - 1 / 2) * (1 - 1 / 2) + (1 - 1 / 2) * (1 - 1 / 2) + (0 - 0) * (0 - 0)) := by
  refine ⟨⟨by decide!, by decide!, by decide!, by decide!⟩, ⟨by decide!, by decide!⟩⟩

end binary32

end cgfs

namespace cgfs

namespace Float32

/-! ## The rounding function: exponents -/

theorem log2_depth_spec (n : Nat) : ∀ (fuel k : Nat), n < 2 ^ 2 ^ (k + fuel) →
    n < 2 ^ 2 ^ log2_depth n fuel k
  | 0, k, h => by simpa [log2_depth] using h
  | fuel + 1, k, h => by
    unfold log2_depth
    split
    · assumption
    · exact log2_depth_spec n fuel (k + 1) (by rwa [Nat.add_assoc, Nat.add_comm 1 fuel])

theorem log2_bisect_spec (n : Nat) : ∀ (k e : Nat), 2 ^ e ≤ n → n < 2 ^ (e + 2 ^ k) →
    2 ^ log2_bisect n k e ≤ n ∧ n < 2 ^ (log2_bisect n k e + 1)
  | 0, e, h1, h2 => by simpa [log2_bisect] using ⟨h1, h2⟩
  | k + 1, e, h1, h2 => by
    unfold log2_bisect
    split
    · rename_i h
      exact log2_bisect_spec n k _ h (by rwa [Nat.add_assoc, ← two_mul, ← pow_succ'])
    · rename_i h
      exact log2_bisect_spec n k _ h1 (by omega)

/-- The exponent of a positive natural number: `2 ^ log2 n ≤ n < 2 ^ (log2 n + 1)`. -/
theorem log2_spec (n : Nat) (h : 0 < n) : 2 ^ log2 n ≤ n ∧ n < 2 ^ (log2 n + 1) := by
  unfold log2
  refine log2_bisect_spec n _ 0 (by simpa using h) ?_
  rw [Nat.zero_add]
  refine log2_depth_spec n n 0 ?_
  rw [Nat.zero_add]
  calc n < 2 ^ n := Nat.lt_two_pow n
    _ ≤ 2 ^ 2 ^ n := Nat.pow_le_pow_right (by decide) (Nat.le_of_lt (Nat.lt_two_pow n))

theorem pow2_eq_zpow (k : Int) : pow2 k = (2 : ℚ) ^ k := by
  unfold pow2
  split
  · rename_i h
    obtain ⟨n, rfl⟩ := Int.eq_ofNat_of_zero_le h
    simp
  · rename_i h
    have h' : 0 ≤ -k := by omega
    obtain ⟨n, hn⟩ := Int.eq_ofNat_of_zero_le h'
    have hk : k = -(n : Int) := by omega
    subst hk
    simp

theorem pow2_pos (k : Int) : 0 < pow2 k := by
  rw [pow2_eq_zpow]; positivity

theorem pow2_add (a b : Int) : pow2 (a + b) = pow2 a * pow2 b := by
  simp only [pow2_eq_zpow]
  exact zpow_add₀ (by norm_num) a b

theorem pow2_le_pow2 {a b : Int} (h : a ≤ b) : pow2 a ≤ pow2 b := by
  simp only [pow2_eq_zpow]
  exact zpow_le_zpow_right₀ (by norm_num) h

theorem pow2_lt_pow2 {a b : Int} (h : a < b) : pow2 a < pow2 b := by
  simp only [pow2_eq_zpow]
  exact zpow_lt_zpow_right₀ (by norm_num) h

/-- The exponent of a positive rational: `2 ^ e ≤ a < 2 ^ (e + 1)` for `e = floor_log2 a`. -/
theorem floor_log2_spec (a : ℚ) (h : 0 < a) :
    pow2 (floor_log2 a) ≤ a ∧ a < pow2 (floor_log2 a + 1) := by
  have hnum : 0 < a.num := Rat.num_pos.mpr h
  have hnum' : 0 < a.num.toNat := by omega
  obtain ⟨n1, n2⟩ := log2_spec a.num.toNat hnum'
  obtain ⟨d1, d2⟩ := log2_spec a.den a.den_pos
  have ha : a = (a.num.toNat : ℚ) / (a.den : ℚ) := by
    have : ((a.num.toNat : Int) : ℚ) = (a.num : ℚ) := by
      rw [Int.toNat_of_nonneg (le_of_lt hnum)]
    rw [← Int.cast_natCast, this]
    exact (Rat.num_div_den a).symm
  have hden : (0 : ℚ) < (a.den : ℚ) := by exact_mod_cast a.den_pos
  set ln := log2 a.num.toNat
  set ld := log2 a.den
  have n1' : (2 : ℚ) ^ (ln : Int) ≤ (a.num.toNat : ℚ) := by
    rw [zpow_natCast]; exact_mod_cast n1
  have n2' : (a.num.toNat : ℚ) < (2 : ℚ) ^ ((ln : Int) + 1) := by
    have : ((ln : Int) + 1) = ((ln + 1 : Nat) : Int) := by push_cast; rfl
    rw [this, zpow_natCast]; exact_mod_cast n2
  have d1' : (2 : ℚ) ^ (ld : Int) ≤ (a.den : ℚ) := by
    rw [zpow_natCast]; exact_mod_cast d1
  have d2' : (a.den : ℚ) < (2 : ℚ) ^ ((ld : Int) + 1) := by
    have : ((ld : Int) + 1) = ((ld + 1 : Nat) : Int) := by push_cast; rfl
    rw [this, zpow_natCast]; exact_mod_cast d2
  have two_ne : (2 : ℚ) ≠ 0 := by norm_num
  -- a < 2 ^ (ln - ld + 1)
  have up : a < (2 : ℚ) ^ ((ln : Int) - ld + 1) := by
    have e : (2 : ℚ) ^ ((ln : Int) - ld + 1) = (2 : ℚ) ^ ((ln : Int) + 1) / (2 : ℚ) ^ (ld : Int) := by
      rw [← zpow_sub₀ two_ne]; congr 1; ring
    rw [e, ha]
    calc (a.num.toNat : ℚ) / (a.den : ℚ)
        < (2 : ℚ) ^ ((ln : Int) + 1) / (a.den : ℚ) := by
          exact div_lt_div_of_pos_right n2' hden
      _ ≤ (2 : ℚ) ^ ((ln : Int) + 1) / (2 : ℚ) ^ (ld : Int) := by
          exact div_le_div_of_nonneg_left (by positivity) (by positivity) d1'
  have lo : (2 : ℚ) ^ ((ln : Int) - ld - 1) < a := by
    have e : (2 : ℚ) ^ ((ln : Int) - ld - 1) = (2 : ℚ) ^ (ln : Int) / (2 : ℚ) ^ ((ld : Int) + 1) := by
      rw [← zpow_sub₀ two_ne]; congr 1; ring
    rw [e]
    conv_rhs => rw [ha]
    calc (2 : ℚ) ^ (ln : Int) / (2 : ℚ) ^ ((ld : Int) + 1)
        < (2 : ℚ) ^ (ln : Int) / (a.den : ℚ) := by
          exact div_lt_div_of_pos_left (by positivity) hden d2'
      _ ≤ (a.num.toNat : ℚ) / (a.den : ℚ) := by
          exact div_le_div_of_nonneg_right n1' (le_of_lt hden)
  unfold floor_log2
  simp only [Int.ofNat_eq_coe]
  split
  · rename_i hk
    exact ⟨hk, by rw [pow2_eq_zpow]; exact up⟩
  · rename_i hk
    refine ⟨by rw [pow2_eq_zpow]; exact le_of_lt lo, ?_⟩
    have : (ln : Int) - ld - 1 + 1 = (ln : Int) - ld := by ring
    rw [this]
    exact lt_of_not_le hk

end Float32

end cgfs

namespace cgfs

namespace Float32

/-! ## The rounding function: values -/

/-- Rounding a natural number to the nearest integer leaves it unchanged. -/
theorem round_half_even_natCast (m : Nat) : round_half_even (m : ℚ) = m := by
  unfold round_half_even
  simp [Nat.mod_one]

/-- The nearest integer is within one half. -/
theorem round_half_even_spec (x : ℚ) (h : 0 ≤ x) :
    |(round_half_even x : ℚ) - x| ≤ 1 / 2 := by
  have hnum : 0 ≤ x.num := Rat.num_nonneg.mpr h
  have hden : (0 : ℚ) < (x.den : ℚ) := by exact_mod_cast x.den_pos
  have hx : x = (x.num.toNat : ℚ) / (x.den : ℚ) := by
    have : ((x.num.toNat : Int) : ℚ) = (x.num : ℚ) := by
      rw [Int.toNat_of_nonneg hnum]
    rw [← Int.cast_natCast, this]
    exact (Rat.num_div_den x).symm
  have hdm := Nat.div_add_mod x.num.toNat x.den
  have hmod := Nat.mod_lt x.num.toNat x.den_pos
  set n := x.num.toNat / x.den
  set r := x.num.toNat % x.den
  have hx' : x = (n : ℚ) + (r : ℚ) / (x.den : ℚ) := by
    have : (x.num.toNat : ℚ) = (x.den : ℚ) * (n : ℚ) + (r : ℚ) := by exact_mod_cast hdm.symm
    conv_lhs => rw [hx, this]
    field_simp
    ring
  have hr : (r : ℚ) < (x.den : ℚ) := by exact_mod_cast hmod
  have hr0 : (0 : ℚ) ≤ (r : ℚ) := by positivity
  unfold round_half_even
  simp only []
  split
  · rename_i h1
    have h1' : 2 * (r : ℚ) < (x.den : ℚ) := by exact_mod_cast h1
    have : (n : ℚ) - x = -((r : ℚ) / (x.den : ℚ)) := by
      conv_lhs => rw [hx']
      ring
    show |((x.num.toNat / x.den : Nat) : ℚ) - x| ≤ 1 / 2
    rw [this, abs_neg, abs_of_nonneg (by positivity)]
    rw [div_le_iff₀ hden]; linarith
  · split
    · rename_i h1 h2
      have h2' : (x.den : ℚ) < 2 * (r : ℚ) := by exact_mod_cast h2
      have : ((n + 1 : Nat) : ℚ) - x = 1 - (r : ℚ) / (x.den : ℚ) := by
        conv_lhs => rw [hx']
        push_cast
        ring
      show |((x.num.toNat / x.den + 1 : Nat) : ℚ) - x| ≤ 1 / 2
      rw [this]
      have hq : (r : ℚ) / (x.den : ℚ) < 1 := by rw [div_lt_one hden]; exact hr
      have hq2 : 1 / 2 ≤ (r : ℚ) / (x.den : ℚ) := by
        rw [le_div_iff₀ hden]; linarith
      rw [abs_of_nonneg (by linarith)]
      linarith
    · rename_i h1 h2
      have e : 2 * (r : ℚ) = (x.den : ℚ) := by
        have : 2 * r = x.den := by omega
        exact_mod_cast this
      have hq : (r : ℚ) / (x.den : ℚ) = 1 / 2 := by
        rw [div_eq_iff (ne_of_gt hden)]; linarith
      split
      · have : (n : ℚ) - x = -(1 / 2) := by
          conv_lhs => rw [hx']
          rw [hq]; ring
        show |((x.num.toNat / x.den : Nat) : ℚ) - x| ≤ 1 / 2
        rw [this, abs_neg, abs_of_nonneg (by norm_num)]
      · have : ((n + 1 : Nat) : ℚ) - x = 1 / 2 := by
          conv_lhs => rw [hx']
          rw [hq]; push_cast; ring
        show |((x.num.toNat / x.den + 1 : Nat) : ℚ) - x| ≤ 1 / 2
        rw [this, abs_of_nonneg (by norm_num)]

/-- A non-zero rational whose magnitude is a whole number `m` of units `2 ^ (e - 23)`, with
`e` its exponent (or `-126` for a lower exponent), and that is less than `2 ^ 128`, is
representable: it rounds to itself. -/
theorem round_of_units (q : ℚ) (hq : q ≠ 0) (m : Nat)
    (hm : |q| / pow2 (max (floor_log2 |q|) (-126) - 23) = (m : ℚ))
    (hlt : |q| < pow2 128) : round q = finite q := by
  have hq_pos : 0 < |q| := abs_pos.mpr hq
  have hquant := pow2_pos (max (floor_log2 |q|) (-126) - 23)
  have hr : (m : ℚ) * pow2 (max (floor_log2 |q|) (-126) - 23) = |q| := by
    rw [← hm]; field_simp
  have hm0 : m ≠ 0 := by
    rintro rfl
    rw [Nat.cast_zero, zero_mul] at hr
    exact (ne_of_gt hq_pos) hr.symm
  unfold round
  simp only [hq, if_false, hm, round_half_even_natCast, hr, not_le.mpr hlt, hm0]
  by_cases hneg : q < 0
  · simp only [hneg, if_true, abs_of_neg hneg, neg_neg]
  · simp only [hneg, if_false, abs_of_nonneg (not_lt.mp hneg)]

/-- The conversion of an `int` of magnitude at most `2 ^ 24` to `float` is exact. -/
theorem ofInt_exact (v : Int) (h : |v| ≤ 16777216) : ofInt v = finite (v : ℚ) := by
  unfold ofInt
  by_cases hv : v = 0
  · subst hv; simp [round]
  have hq : (v : ℚ) ≠ 0 := by exact_mod_cast hv
  have habs : |(v : ℚ)| = ((v.natAbs : Nat) : ℚ) := by
    rw [← Int.cast_abs, Int.abs_eq_natAbs, Int.cast_natCast]
  have hm1 : 1 ≤ v.natAbs := Int.natAbs_pos.mpr hv
  have hm2 : v.natAbs ≤ 16777216 := by
    have := Int.abs_eq_natAbs v
    omega
  have hpos : (0 : ℚ) < ((v.natAbs : Nat) : ℚ) := by exact_mod_cast hm1
  obtain ⟨f1, f2⟩ := floor_log2_spec _ hpos
  set f := floor_log2 ((v.natAbs : Nat) : ℚ)
  have hf0 : 0 ≤ f := by
    by_contra hneg
    have : f + 1 ≤ 0 := by omega
    have h1 := pow2_le_pow2 this
    have : pow2 0 = 1 := by simp [pow2]
    rw [this] at h1
    have : (1 : ℚ) ≤ ((v.natAbs : Nat) : ℚ) := by exact_mod_cast hm1
    linarith
  have hf24 : f ≤ 24 := by
    by_contra hgt
    have : (25 : Int) ≤ f := by omega
    have h1 := pow2_le_pow2 this
    have : pow2 25 = 33554432 := by simp [pow2]
    rw [this] at h1
    have : ((v.natAbs : Nat) : ℚ) ≤ 16777216 := by exact_mod_cast hm2
    linarith
  have hmax : max f (-126) = f := max_eq_left (by omega)
  have hlt : |(v : ℚ)| < pow2 128 := by
    rw [habs]
    have : ((v.natAbs : Nat) : ℚ) ≤ 16777216 := by exact_mod_cast hm2
    have h128 := pow2_le_pow2 (show (25 : Int) ≤ 128 by decide)
    have : pow2 25 = 33554432 := by simp [pow2]
    linarith
  by_cases hf : f ≤ 23
  · -- the unit is `2 ^ (f - 23) ≤ 1`
    obtain ⟨k, hk⟩ := Int.eq_ofNat_of_zero_le (show 0 ≤ 23 - f by omega)
    refine round_of_units (v : ℚ) hq (v.natAbs * 2 ^ k) ?_ hlt
    rw [habs, hmax]
    have e : pow2 (f - 23) = 1 / (2 : ℚ) ^ k := by
      rw [pow2_eq_zpow, show f - 23 = -(k : Int) by omega, zpow_neg, zpow_natCast]
      simp
    rw [e]; push_cast; field_simp
  · -- `f = 24`, so the magnitude is `2 ^ 24`
    have hf' : f = 24 := by omega
    have h24 : pow2 24 = 16777216 := by simp [pow2]
    rw [hf', h24] at f1
    have hm : v.natAbs = 16777216 := by
      have : (16777216 : ℚ) ≤ ((v.natAbs : Nat) : ℚ) := f1
      have : 16777216 ≤ v.natAbs := by exact_mod_cast this
      omega
    refine round_of_units (v : ℚ) hq 8388608 ?_ hlt
    rw [habs, hmax, hf', hm]
    have : pow2 (24 - 23) = 2 := by simp [pow2]
    rw [this]; norm_num

/-- Converting an `int` of magnitude at most `2 ^ 24` to `float` and back gives the same
`int`. -/
theorem to_int_ofInt (v : Int) (h : |v| ≤ 16777216) : to_int (ofInt v) = v := by
  rw [ofInt_exact v h]
  exact rasterizer.truncToInt_intCast v

end Float32

end cgfs

namespace cgfs

namespace Float32

/-! ## The rounding function: the error of one rounding -/

theorem pow2_neg_150_le : pow2 (-150) ≤ 1 / 1000000000000000000000000000000 := by
  have h : pow2 (-150) = 1 / ((2 ^ 150 : Nat) : ℚ) := by simp [pow2]
  rw [h]
  norm_num

theorem pow2_sub_one (k : Int) : pow2 (k - 1) = pow2 k / 2 := by
  have h := pow2_add (k - 1) 1
  have h1 : pow2 1 = 2 := by simp [pow2]
  rw [show k - 1 + 1 = k by ring, h1] at h
  rw [h]; ring

theorem pow2_sub_24 (k : Int) : pow2 (k - 24) = pow2 k / 16777216 := by
  have h := pow2_add (k - 24) 24
  have h1 : pow2 24 = 16777216 := by simp [pow2]
  rw [show k - 24 + 24 = k by ring, h1] at h
  rw [h]; ring

/-- One rounding: a result of magnitude at most `2 ^ 127` rounds to a finite number, within
the relative error `2 ^ -24` (and the absolute error `2 ^ -150` of the subnormal range). -/
theorem round_error (q : ℚ) (h : |q| ≤ pow2 127) :
    (round q).is_finite = true ∧ |(round q).toRat - q| ≤ |q| / 16777216 + pow2 (-150) := by
  have heta := pow2_pos (-150)
  by_cases hq : q = 0
  · subst hq
    simp only [round, if_true, is_finite, toRat, sub_self, abs_zero, zero_div, zero_add]
    exact ⟨trivial, le_of_lt heta⟩
  have ha : 0 < |q| := abs_pos.mpr hq
  obtain ⟨f1, f2⟩ := floor_log2_spec |q| ha
  set f := floor_log2 |q| with hf
  set e := max f (-126) with he
  have hquant := pow2_pos (e - 23)
  have hN := round_half_even_spec (|q| / pow2 (e - 23)) (le_of_lt (div_pos ha hquant))
  set N := round_half_even (|q| / pow2 (e - 23)) with hNdef
  -- the distance of the rounded magnitude from the magnitude
  have hdist : |(N : ℚ) * pow2 (e - 23) - abs q| ≤ pow2 (e - 23) / 2 := by
    have e1 : (N : ℚ) * pow2 (e - 23) - abs q =
        ((N : ℚ) - abs q / pow2 (e - 23)) * pow2 (e - 23) := by
      field_simp
    rw [e1, abs_mul, abs_of_pos hquant]
    calc |(N : ℚ) - |q| / pow2 (e - 23)| * pow2 (e - 23) ≤ 1 / 2 * pow2 (e - 23) :=
          mul_le_mul_of_nonneg_right hN (le_of_lt hquant)
      _ = pow2 (e - 23) / 2 := by ring
  have hhalf : pow2 (e - 23) / 2 = pow2 (e - 24) := by
    rw [show e - 24 = e - 23 - 1 by ring, pow2_sub_one]
  -- the half unit is within the error bound
  have hbound : pow2 (e - 24) ≤ |q| / 16777216 + pow2 (-150) := by
    rcases le_total (-126) f with hge | hlt
    · have : e = f := max_eq_left hge
      rw [this, pow2_sub_24]
      have : pow2 f / 16777216 ≤ |q| / 16777216 := by
        apply div_le_div_of_nonneg_right f1; norm_num
      linarith
    · have : e = -126 := max_eq_right hlt
      rw [this, show (-126 : Int) - 24 = -150 by norm_num]
      have : 0 ≤ |q| / 16777216 := by positivity
      linarith
  -- no overflow
  have hf127 : f ≤ 127 := by
    by_contra hgt
    have h128 : (128 : Int) ≤ f := by omega
    have h1 := pow2_le_pow2 h128
    have h2 := pow2_lt_pow2 (show (127 : Int) < 128 by decide)
    linarith
  have he127 : e ≤ 127 := max_le hf127 (by decide)
  have hno : (N : ℚ) * pow2 (e - 23) < pow2 128 := by
    have h1 : (N : ℚ) * pow2 (e - 23) ≤ |q| + pow2 (e - 24) := by
      have := (abs_le.mp hdist).2
      rw [hhalf] at this
      linarith
    have h2 : pow2 (e - 24) ≤ pow2 103 := pow2_le_pow2 (by omega)
    have h3 : pow2 103 < pow2 127 := pow2_lt_pow2 (by decide)
    have h4 : pow2 128 = pow2 127 + pow2 127 := by
      have := pow2_sub_one 128
      rw [show (128 : Int) - 1 = 127 by norm_num] at this
      linarith
    linarith
  have hr : |(N : ℚ) * pow2 (e - 23) - abs q| ≤ |q| / 16777216 + pow2 (-150) := by
    rw [hhalf] at hdist
    exact le_trans hdist hbound
  have hround : round q = if N = 0 then (if q < 0 then neg_zero else finite 0)
      else finite (if q < 0 then -((N : ℚ) * pow2 (e - 23)) else (N : ℚ) * pow2 (e - 23)) := by
    unfold round
    simp only [hq, if_false]
    rw [if_neg (not_le.mpr hno)]
  rw [hround]
  by_cases hN0 : N = 0
  · rw [if_pos hN0]
    rw [hN0, Nat.cast_zero, zero_mul, zero_sub, abs_neg, abs_abs] at hr
    by_cases hneg : q < 0
    · simp only [hneg, if_true, is_finite, toRat, zero_sub, abs_neg]
      exact ⟨trivial, hr⟩
    · simp only [hneg, if_false, is_finite, toRat, zero_sub, abs_neg]
      exact ⟨trivial, hr⟩
  · rw [if_neg hN0]
    refine ⟨rfl, ?_⟩
    by_cases hneg : q < 0
    · simp only [hneg, if_true, toRat]
      rw [abs_of_neg hneg] at hr
      rw [show -((N : ℚ) * pow2 (e - 23)) - q = -((N : ℚ) * pow2 (e - 23) - -q) by ring, abs_neg]
      rw [abs_of_neg hneg]
      exact hr
    · simp only [hneg, if_false, toRat]
      rw [abs_of_nonneg (not_lt.mp hneg)] at hr
      rw [abs_of_nonneg (not_lt.mp hneg)]
      exact hr

/-! ## The operations on finite numbers -/

theorem is_finite_cases (x : Float32) (h : x.is_finite = true) :
    (∃ q, x = finite q) ∨ x = neg_zero := by
  cases x with
  | finite q => exact Or.inl ⟨q, rfl⟩
  | neg_zero => exact Or.inr rfl
  | infinity n => simp [is_finite] at h
  | nan => simp [is_finite] at h

/-- Negation of a finite number is exact. -/
theorem neg_finite (x : Float32) (h : x.is_finite = true) :
    (neg x).is_finite = true ∧ (neg x).toRat = -x.toRat := by
  rcases is_finite_cases x h with ⟨q, rfl⟩ | rfl
  · unfold neg
    by_cases hq : q = 0
    · simp [hq, is_finite, toRat]
    · simp [hq, is_finite, toRat]
  · simp [neg, is_finite, toRat]

/-- Addition of finite numbers: one rounding of the exact sum. -/
theorem add_finite (x y : Float32) (hx : x.is_finite = true) (hy : y.is_finite = true)
    (h : |x.toRat + y.toRat| ≤ pow2 127) :
    (add x y).is_finite = true ∧
      |(add x y).toRat - (x.toRat + y.toRat)| ≤
        |x.toRat + y.toRat| / 16777216 + pow2 (-150) := by
  have heta := pow2_pos (-150)
  have hnn : ∀ t : ℚ, 0 ≤ |t| / 16777216 + pow2 (-150) := fun t => by positivity
  rcases is_finite_cases x hx with ⟨p, rfl⟩ | rfl <;>
    rcases is_finite_cases y hy with ⟨q, rfl⟩ | rfl
  · exact round_error (p + q) h
  · simp only [add, is_finite, toRat, add_zero, sub_self, abs_zero]
    exact ⟨trivial, hnn p⟩
  · simp only [add, is_finite, toRat, zero_add, sub_self, abs_zero]
    exact ⟨trivial, hnn q⟩
  · simp only [add, is_finite, toRat, add_zero, sub_self, abs_zero]
    exact ⟨trivial, hnn 0⟩

/-- Subtraction of finite numbers: one rounding of the exact difference. -/
theorem sub_finite (x y : Float32) (hx : x.is_finite = true) (hy : y.is_finite = true)
    (h : |x.toRat - y.toRat| ≤ pow2 127) :
    (sub x y).is_finite = true ∧
      |(sub x y).toRat - (x.toRat - y.toRat)| ≤
        |x.toRat - y.toRat| / 16777216 + pow2 (-150) := by
  obtain ⟨hn1, hn2⟩ := neg_finite y hy
  have := add_finite x (neg y) hx hn1 (by rw [hn2, ← sub_eq_add_neg]; exact h)
  rw [hn2, ← sub_eq_add_neg] at this
  exact this

/-- Division of a finite number by a non-zero finite number: one rounding of the exact
quotient. -/
theorem div_finite (x : Float32) (d : ℚ) (hx : x.is_finite = true) (hd : d ≠ 0)
    (h : |x.toRat / d| ≤ pow2 127) :
    (div x (finite d)).is_finite = true ∧
      |(div x (finite d)).toRat - x.toRat / d| ≤ |x.toRat / d| / 16777216 + pow2 (-150) := by
  have heta := pow2_pos (-150)
  have hz : ∀ b : Bool, (zero b).is_finite = true ∧ (zero b).toRat = 0 := by
    intro b; cases b <;> exact ⟨rfl, rfl⟩
  rcases is_finite_cases x hx with ⟨p, rfl⟩ | rfl
  · by_cases hp : p = 0
    · subst hp
      have e : div (finite 0) (finite d) = zero (xor (finite 0).is_negative (finite d).is_negative) := by
        simp [div, is_zero, hd]
      rw [e, (hz _).2]
      refine ⟨(hz _).1, ?_⟩
      simp only [toRat, zero_div, sub_self, abs_zero, zero_add]
      exact le_of_lt heta
    · have e : div (finite p) (finite d) = round (p / d) := by
        simp [div, is_zero, hd, hp, toRat]
      rw [e]
      exact round_error (p / d) h
  · have e : div neg_zero (finite d) = zero (xor neg_zero.is_negative (finite d).is_negative) := by
      simp [div, is_zero, hd]
    rw [e, (hz _).2]
    refine ⟨(hz _).1, ?_⟩
    simp only [toRat, zero_div, sub_self, abs_zero, zero_add]
    exact le_of_lt heta

end Float32

end cgfs

namespace cgfs

namespace Float32

/-! ## The accumulated error of the interpolation loop -/

theorem pow2_100_le : pow2 100 + pow2 100 ≤ pow2 127 := by
  have h1 : pow2 100 + pow2 100 = pow2 101 := by
    have := pow2_sub_one 101
    rw [show (101 : Int) - 1 = 100 by norm_num] at this
    linarith
  rw [h1]
  exact pow2_le_pow2 (by decide)

theorem four_pow2_100_le : 4 * pow2 100 ≤ pow2 127 := by
  have h1 : pow2 100 + pow2 100 = pow2 101 := by
    have := pow2_sub_one 101
    rw [show (101 : Int) - 1 = 100 by norm_num] at this
    linarith
  have h2 : pow2 101 + pow2 101 = pow2 102 := by
    have := pow2_sub_one 102
    rw [show (102 : Int) - 1 = 101 by norm_num] at this
    linarith
  have h3 : pow2 102 ≤ pow2 127 := pow2_le_pow2 (by decide)
  linarith

/-- The accumulator of `interpolate` after `k` additions of the step.  `V0` and `s` are the
exact start and the exact step, the values `V0 + j * s` stay within `M`, the accumulator
starts within `2 * 2^-24 * M` of `V0` and the rounded step is within `5 * 2^-24 * M / n` of
`s`: after `k <= n <= 767` additions the accumulator is finite and within
`(2 + k * (1.1 + 5.1 / n)) * 2^-24 * M` of `V0 + k * s`. -/
theorem iterate_add_error (M : ℚ) (hM1 : 1 ≤ M) (hM2 : M ≤ pow2 100) (n : Nat) (hn : 0 < n)
    (hn' : n ≤ 767) (V0 s : ℚ) (hL : ∀ j : Nat, j ≤ n → |V0 + (j : ℚ) * s| ≤ M)
    (d0 a : Float32) (hd0 : d0.is_finite = true) (ha : a.is_finite = true)
    (hE0 : |d0.toRat - V0| ≤ 2 * (M / 16777216))
    (hEa : |a.toRat - s| ≤ 5 * (M / 16777216 / (n : ℚ))) :
    ∀ k : Nat, k ≤ n →
      ((fun x => add x a)^[k] d0).is_finite = true ∧
      |((fun x => add x a)^[k] d0).toRat - (V0 + (k : ℚ) * s)| ≤
        2 * (M / 16777216) +
          (k : ℚ) * (11 / 10 * (M / 16777216) + 51 / 10 * (M / 16777216 / (n : ℚ))) := by
  have heta := pow2_neg_150_le
  have heta0 := pow2_pos (-150)
  have h127 := pow2_100_le
  set w : ℚ := M / 16777216 with hw
  have hw0 : 0 < w := by rw [hw]; positivity
  have hwM : w * 16777216 = M := by rw [hw]; field_simp
  have hnq : (1 : ℚ) ≤ (n : ℚ) := by exact_mod_cast hn
  have hnq' : (n : ℚ) ≤ 767 := by exact_mod_cast hn'
  set t : ℚ := w / (n : ℚ) with ht
  have ht0 : 0 < t := by rw [ht]; positivity
  have htw : t ≤ w := by
    rw [ht]; exact div_le_self (le_of_lt hw0) hnq
  intro k
  induction k with
  | zero =>
    intro _
    simp only [Function.iterate_zero, id_eq, Nat.cast_zero, zero_mul, add_zero]
    exact ⟨hd0, hE0⟩
  | succ k ih =>
    intro hk
    obtain ⟨hfin, hE⟩ := ih (Nat.le_of_succ_le hk)
    rw [Function.iterate_succ_apply']
    set d := (fun x => add x a)^[k] d0 with hd
    have hkq : (k : ℚ) ≤ 767 := by
      have : k ≤ 767 := by omega
      exact_mod_cast this
    have hk0 : (0 : ℚ) ≤ (k : ℚ) := by positivity
    -- the bound reached so far is small against `M`
    have hB : (k : ℚ) * (11 / 10 * w + 51 / 10 * t) ≤ 767 * (62 / 10 * w) := by
      apply mul_le_mul hkq (by linarith) (by positivity) (by norm_num)
    have hLk := hL (k + 1) hk
    push_cast at hLk
    have hsum : |d.toRat + a.toRat - (V0 + ((k : ℚ) + 1) * s)| ≤
        2 * w + (k : ℚ) * (11 / 10 * w + 51 / 10 * t) + 5 * t := by
      have e : d.toRat + a.toRat - (V0 + ((k : ℚ) + 1) * s) =
          (d.toRat - (V0 + (k : ℚ) * s)) + (a.toRat - s) := by ring
      rw [e]
      exact le_trans (abs_add _ _) (add_le_add hE hEa)
    have hmag : |d.toRat + a.toRat| ≤ M + (2 * w + (k : ℚ) * (11 / 10 * w + 51 / 10 * t) + 5 * t) := by
      have e : d.toRat + a.toRat =
          (V0 + ((k : ℚ) + 1) * s) + (d.toRat + a.toRat - (V0 + ((k : ℚ) + 1) * s)) := by ring
      rw [e]
      exact le_trans (abs_add _ _) (add_le_add hLk hsum)
    have hmag' : |d.toRat + a.toRat| ≤ pow2 127 := by
      have : w ≤ M / 16777216 := le_of_eq hw
      have : 4763 * w ≤ M := by rw [← hwM]; nlinarith
      linarith
    obtain ⟨hfin', hE'⟩ := add_finite d a hfin ha hmag'
    refine ⟨hfin', ?_⟩
    have e : (add d a).toRat - (V0 + ((k + 1 : Nat) : ℚ) * s) =
        ((add d a).toRat - (d.toRat + a.toRat)) +
          (d.toRat + a.toRat - (V0 + ((k : ℚ) + 1) * s)) := by
      push_cast; ring
    rw [e]
    refine le_trans (abs_add _ _) ?_
    have hstep : |d.toRat + a.toRat| / 16777216 ≤ w + (4763 * w) / 16777216 := by
      have : |d.toRat + a.toRat| ≤ M + 4763 * w := by linarith
      calc |d.toRat + a.toRat| / 16777216 ≤ (M + 4763 * w) / 16777216 := by
            apply div_le_div_of_nonneg_right this; norm_num
        _ = w + (4763 * w) / 16777216 := by rw [← hwM]; ring
    have hw1 : (1 : ℚ) / 16777216 ≤ w := by
      rw [hw]; apply div_le_div_of_nonneg_right hM1; norm_num
    push_cast
    nlinarith

/-- The accumulator of `interpolate` stays within `M / 10000` of the exact interpolation. -/
theorem iterate_add_within (M : ℚ) (hM1 : 1 ≤ M) (hM2 : M ≤ pow2 100) (n : Nat) (hn : 0 < n)
    (hn' : n ≤ 767) (V0 s : ℚ) (hL : ∀ j : Nat, j ≤ n → |V0 + (j : ℚ) * s| ≤ M)
    (d0 a : Float32) (hd0 : d0.is_finite = true) (ha : a.is_finite = true)
    (hE0 : |d0.toRat - V0| ≤ 2 * (M / 16777216))
    (hEa : |a.toRat - s| ≤ 5 * (M / 16777216 / (n : ℚ))) (k : Nat) (hk : k ≤ n) :
    ((fun x => add x a)^[k] d0).is_finite = true ∧
      |((fun x => add x a)^[k] d0).toRat - (V0 + (k : ℚ) * s)| ≤ M / 10000 := by
  obtain ⟨h1, h2⟩ := iterate_add_error M hM1 hM2 n hn hn' V0 s hL d0 a hd0 ha hE0 hEa k hk
  refine ⟨h1, le_trans h2 ?_⟩
  have hnq : (0 : ℚ) < (n : ℚ) := by exact_mod_cast hn
  have hkn : (k : ℚ) ≤ (n : ℚ) := by exact_mod_cast hk
  have hnq' : (n : ℚ) ≤ 767 := by exact_mod_cast hn'
  have hk0 : (0 : ℚ) ≤ (k : ℚ) := by positivity
  have hM0 : 0 < M := by linarith
  have e : (k : ℚ) * (11 / 10 * (M / 16777216) + 51 / 10 * (M / 16777216 / (n : ℚ))) =
      (k : ℚ) * (11 / 10) * (M / 16777216) + 51 / 10 * (M / 16777216) * ((k : ℚ) / (n : ℚ)) := by
    field_simp; ring
  rw [e]
  have hdiv : (k : ℚ) / (n : ℚ) ≤ 1 := (div_le_one hnq).mpr hkn
  have hw0 : 0 < M / 16777216 := by positivity
  have h3 : 51 / 10 * (M / 16777216) * ((k : ℚ) / (n : ℚ)) ≤ 51 / 10 * (M / 16777216) := by
    have := mul_le_mul_of_nonneg_left hdiv (show 0 ≤ 51 / 10 * (M / 16777216) by positivity)
    linarith
  have h4 : (k : ℚ) * (11 / 10) * (M / 16777216) ≤ 767 * (11 / 10) * (M / 16777216) := by
    apply mul_le_mul_of_nonneg_right _ (le_of_lt hw0)
    nlinarith
  have h5 : 2 * (M / 16777216) + 767 * (11 / 10) * (M / 16777216) + 51 / 10 * (M / 16777216) ≤
      M / 10000 := by
    have : M / 16777216 = M * (1 / 16777216) := by ring
    rw [this]
    have : M / 10000 = M * (1 / 10000) := by ring
    rw [this]
    nlinarith
  linarith

end Float32

end cgfs

namespace cgfs

namespace Float32

/-- The exact interpolation between two values of magnitude at most `M` stays within `M`. -/
theorem abs_step_le (M V0 V1 : ℚ) (hV0 : |V0| ≤ M) (hV1 : |V1| ≤ M) (n : Nat) (hn : 0 < n)
    (j : Nat) (hj : j ≤ n) : |V0 + (j : ℚ) * ((V1 - V0) / (n : ℚ))| ≤ M := by
  have hnq : (0 : ℚ) < (n : ℚ) := by exact_mod_cast hn
  have hjq : (j : ℚ) ≤ (n : ℚ) := by exact_mod_cast hj
  have hj0 : (0 : ℚ) ≤ (j : ℚ) := by positivity
  have ht1 : (j : ℚ) / (n : ℚ) ≤ 1 := (div_le_one hnq).mpr hjq
  have ht0 : 0 ≤ (j : ℚ) / (n : ℚ) := by positivity
  have e : V0 + (j : ℚ) * ((V1 - V0) / (n : ℚ)) =
      (1 - (j : ℚ) / (n : ℚ)) * V0 + (j : ℚ) / (n : ℚ) * V1 := by
    field_simp; ring
  rw [e]
  refine le_trans (abs_add _ _) ?_
  rw [abs_mul, abs_mul, abs_of_nonneg ht0, abs_of_nonneg (by linarith : 0 ≤ 1 - (j : ℚ) / (n : ℚ))]
  have h1 := mul_le_mul_of_nonneg_left hV0 (by linarith : 0 ≤ 1 - (j : ℚ) / (n : ℚ))
  have h2 := mul_le_mul_of_nonneg_left hV1 ht0
  linarith

/-- The step of `interpolate`: the rounded difference `S` of the end values, divided by the
span `n` and rounded, is within `5 * 2^-24 * M / n` of the exact step. -/
theorem step_error (M : ℚ) (hM1 : 1 ≤ M) (hM2 : M ≤ pow2 100) (n : Nat) (hn : 0 < n)
    (hn' : n ≤ 767) (V0 V1 : ℚ) (hV0 : |V0| ≤ M) (hV1 : |V1| ≤ M) (S : Float32)
    (hS : S.is_finite = true)
    (hSe : |S.toRat - (V1 - V0)| ≤ |V1 - V0| / 16777216 + pow2 (-150)) :
    (div S (finite (n : ℚ))).is_finite = true ∧
      |(div S (finite (n : ℚ))).toRat - (V1 - V0) / (n : ℚ)| ≤
        5 * (M / 16777216 / (n : ℚ)) := by
  have heta := pow2_neg_150_le
  have heta0 := pow2_pos (-150)
  have h127 := pow2_100_le
  have hnq : (1 : ℚ) ≤ (n : ℚ) := by exact_mod_cast hn
  have hnq' : (n : ℚ) ≤ 767 := by exact_mod_cast hn'
  have hn0 : (0 : ℚ) < (n : ℚ) := by linarith
  have hne : (n : ℚ) ≠ 0 := ne_of_gt hn0
  set w : ℚ := M / 16777216 with hw
  have hw0 : 0 < w := by rw [hw]; positivity
  have hwM : w * 16777216 = M := by rw [hw]; field_simp
  have hw1 : (1 : ℚ) / 16777216 ≤ w := by
    rw [hw]; apply div_le_div_of_nonneg_right hM1; norm_num
  have hdiff : |V1 - V0| ≤ 2 * M := by
    have := abs_sub V1 V0
    linarith
  have hSe' : |S.toRat - (V1 - V0)| ≤ 2 * w + pow2 (-150) := by
    have : |V1 - V0| / 16777216 ≤ 2 * M / 16777216 := by
      apply div_le_div_of_nonneg_right hdiff; norm_num
    have e : 2 * M / 16777216 = 2 * w := by rw [hw]; ring
    linarith
  have hSabs : |S.toRat| ≤ 2 * M + 2 * w + pow2 (-150) := by
    have e : S.toRat = (V1 - V0) + (S.toRat - (V1 - V0)) := by ring
    rw [e]
    refine le_trans (abs_add _ _) ?_
    linarith
  have hSn : |S.toRat / (n : ℚ)| ≤ |S.toRat| := by
    rw [abs_div, abs_of_pos hn0]
    exact div_le_self (abs_nonneg _) hnq
  have hmag : |S.toRat / (n : ℚ)| ≤ pow2 127 := by
    have : 2 * w ≤ M := by rw [← hwM]; nlinarith
    have := four_pow2_100_le
    linarith
  obtain ⟨hfin, hE⟩ := div_finite S (n : ℚ) hS hne hmag
  refine ⟨hfin, ?_⟩
  have e : (div S (finite (n : ℚ))).toRat - (V1 - V0) / (n : ℚ) =
      ((div S (finite (n : ℚ))).toRat - S.toRat / (n : ℚ)) +
        (S.toRat - (V1 - V0)) / (n : ℚ) := by
    field_simp
  rw [e]
  refine le_trans (abs_add _ _) ?_
  have h2 : |(S.toRat - (V1 - V0)) / (n : ℚ)| ≤ (2 * w + pow2 (-150)) / (n : ℚ) := by
    rw [abs_div, abs_of_pos hn0]
    exact div_le_div_of_nonneg_right hSe' (le_of_lt hn0)
  have h3 : |S.toRat / (n : ℚ)| / 16777216 ≤ (2 * w + 1 / 1000 * w) / (n : ℚ) := by
    rw [abs_div, abs_of_pos hn0, div_div, mul_comm, ← div_div]
    apply div_le_div_of_nonneg_right _ (le_of_lt hn0)
    have : |S.toRat| / 16777216 ≤ (2 * M + 2 * w + pow2 (-150)) / 16777216 := by
      apply div_le_div_of_nonneg_right hSabs; norm_num
    have e2 : (2 * M + 2 * w + pow2 (-150)) / 16777216 =
        2 * w + (2 * w + pow2 (-150)) / 16777216 := by
      rw [← hwM]; ring
    rw [e2] at this
    have : (2 * w + pow2 (-150)) / 16777216 ≤ 1 / 1000 * w := by
      rw [div_le_iff₀ (by norm_num)]
      nlinarith
    linarith
  have h4 : pow2 (-150) ≤ (1 / 1000 * w) / (n : ℚ) := by
    rw [le_div_iff₀ hn0]
    nlinarith
  have h5 : (2 * w + 1 / 1000 * w) / (n : ℚ) + (1 / 1000 * w) / (n : ℚ) +
      (2 * w + pow2 (-150)) / (n : ℚ) ≤ 5 * (w / (n : ℚ)) := by
    have e1 : (2 * w + 1 / 1000 * w) / (n : ℚ) + (1 / 1000 * w) / (n : ℚ) +
        (2 * w + pow2 (-150)) / (n : ℚ) =
        (2 * w + 1 / 1000 * w + 1 / 1000 * w + (2 * w + pow2 (-150))) / (n : ℚ) := by ring
    have e2 : 5 * (w / (n : ℚ)) = (5 * w) / (n : ℚ) := by ring
    rw [e1, e2]
    apply div_le_div_of_nonneg_right _ (le_of_lt hn0)
    linarith
  linarith

end Float32

end cgfs

namespace cgfs

namespace Float32

/-- The span of an interpolation that fits the buffer is converted to `float` exactly. -/
theorem round_span (n : Nat) (hn : n ≤ 767) : round (n : ℚ) = finite (n : ℚ) := by
  have h := ofInt_exact (n : Int) (by rw [abs_of_nonneg (by positivity)]; omega)
  rw [ofInt] at h
  simpa using h

/-- The accumulator of `interpolate` for the float kind, after `k` of the `n` steps from
`v0` to `v1`: it is finite and within `M / 10000` of `lerp(v0, v1, k / n)`. -/
theorem accumulator_float_within (M : ℚ) (hM1 : 1 ≤ M) (hM2 : M ≤ pow2 100) (n : Nat)
    (hn : 0 < n) (hn' : n ≤ 767) (k : Nat) (hk : k ≤ n) (v0 v1 : Float32)
    (hf0 : v0.is_finite = true) (hf1 : v1.is_finite = true)
    (h0 : |v0.toRat| ≤ M) (h1 : |v1.toRat| ≤ M) :
    ((fun x => add x (div (sub v1 v0) (round (n : ℚ))))^[k] v0).is_finite = true ∧
      |((fun x => add x (div (sub v1 v0) (round (n : ℚ))))^[k] v0).toRat -
        cgfs.lerp v0.toRat v1.toRat ((k : ℚ) / (n : ℚ))| ≤ M / 10000 := by
  have hne : (n : ℚ) ≠ 0 := by
    have : (0 : ℚ) < (n : ℚ) := by exact_mod_cast hn
    exact ne_of_gt this
  have hdiff : |v1.toRat - v0.toRat| ≤ pow2 127 := by
    have := abs_sub v1.toRat v0.toRat
    have := four_pow2_100_le
    have := pow2_pos 100
    linarith
  obtain ⟨hSf, hSe⟩ := sub_finite v1 v0 hf1 hf0 hdiff
  obtain ⟨haf, hae⟩ := step_error M hM1 hM2 n hn hn' v0.toRat v1.toRat h0 h1
    (sub v1 v0) hSf hSe
  have hw0 : 0 ≤ M / 16777216 := by positivity
  rw [round_span n hn', ← rasterizer.step_eq_lerp _ _ _ _ hne]
  exact iterate_add_within M hM1 hM2 n hn hn' v0.toRat
    ((v1.toRat - v0.toRat) / (n : ℚ))
    (fun j hj => abs_step_le M _ _ h0 h1 n hn j hj) v0
    (div (sub v1 v0) (finite (n : ℚ))) hf0 haf
    (by rw [sub_self, abs_zero]; linarith) hae k hk

/-- The accumulator of `interpolate` for the integer kind, after `k` of the `n` steps from
`v0` to `v1`: it is finite and within `M / 10000` of `lerp(v0, v1, k / n)`. -/
theorem accumulator_int_within (M : ℚ) (hM1 : 1 ≤ M) (hM2 : M ≤ pow2 100) (n : Nat)
    (hn : 0 < n) (hn' : n ≤ 767) (k : Nat) (hk : k ≤ n) (v0 v1 : Int)
    (h0 : |(v0 : ℚ)| ≤ M) (h1 : |(v1 : ℚ)| ≤ M) :
    ((fun x => add x (div (ofInt (v1 - v0)) (round (n : ℚ))))^[k] (ofInt v0)).is_finite = true ∧
      |((fun x => add x (div (ofInt (v1 - v0)) (round (n : ℚ))))^[k] (ofInt v0)).toRat -
        cgfs.lerp (v0 : ℚ) (v1 : ℚ) ((k : ℚ) / (n : ℚ))| ≤ M / 10000 := by
  have hne : (n : ℚ) ≠ 0 := by
    have : (0 : ℚ) < (n : ℚ) := by exact_mod_cast hn
    exact ne_of_gt this
  have h4 := four_pow2_100_le
  have hp := pow2_pos 100
  have heta := pow2_neg_150_le
  have hdiff : |((v1 - v0 : Int) : ℚ)| ≤ pow2 127 := by
    push_cast
    have := abs_sub (v1 : ℚ) (v0 : ℚ)
    linarith
  obtain ⟨hSf, hSe⟩ := round_error ((v1 - v0 : Int) : ℚ) hdiff
  have hSe' : |(ofInt (v1 - v0)).toRat - ((v1 : ℚ) - (v0 : ℚ))| ≤
      |(v1 : ℚ) - (v0 : ℚ)| / 16777216 + pow2 (-150) := by
    have e : ((v1 - v0 : Int) : ℚ) = (v1 : ℚ) - (v0 : ℚ) := by push_cast; rfl
    have := hSe
    rw [e] at this
    rw [ofInt, e]
    exact this
  obtain ⟨haf, hae⟩ := step_error M hM1 hM2 n hn hn' (v0 : ℚ) (v1 : ℚ) h0 h1
    (ofInt (v1 - v0)) hSf hSe'
  obtain ⟨h0f, h0e⟩ := round_error (v0 : ℚ) (by linarith)
  have hE0 : |(ofInt v0).toRat - (v0 : ℚ)| ≤ 2 * (M / 16777216) := by
    have h0e' : |(ofInt v0).toRat - (v0 : ℚ)| ≤ |(v0 : ℚ)| / 16777216 + pow2 (-150) := h0e
    have : |(v0 : ℚ)| / 16777216 ≤ M / 16777216 := by
      apply div_le_div_of_nonneg_right h0; norm_num
    have : (1 : ℚ) / 16777216 ≤ M / 16777216 := by
      apply div_le_div_of_nonneg_right hM1; norm_num
    linarith
  rw [round_span n hn', ← rasterizer.step_eq_lerp _ _ _ _ hne]
  exact iterate_add_within M hM1 hM2 n hn hn' (v0 : ℚ)
    (((v1 : ℚ) - (v0 : ℚ)) / (n : ℚ))
    (fun j hj => abs_step_le M _ _ h0 h1 n hn j hj) (ofInt v0)
    (div (ofInt (v1 - v0)) (finite (n : ℚ))) h0f haf hE0 hae k hk

/-- The conversion `int(d)` of a finite float is within less than `1` of it. -/
theorem abs_to_int_sub_lt_one (d : Float32) : |((to_int d : Int) : ℚ) - d.toRat| < 1 := by
  cases d with
  | finite q => exact rasterizer.abs_truncToInt_sub_lt_one q
  | neg_zero => simp [to_int, toRat]
  | infinity n => simp [to_int, toRat]
  | nan => simp [to_int, toRat]

end Float32

namespace binary32

open rasterizer

/-! ## The samples of `interpolate` in single precision -/

/-- The span of a returned buffer: `n = i1 - i0` with `0 < n <= 767`, and the offset
`k = i - i0` of a sample. -/
theorem span_of_interpolate {T : Type} [Interpolable T] (i0 i1 : Int) (h : i0 < i1) (v0 v1 : T)
    (b : Buffer T) (hb : interpolate i0 v0 i1 v1 = some b) (i : Int) (hi0 : i0 ≤ i)
    (hi1 : i ≤ i1) :
    ∃ n k : Nat, 0 < n ∧ n ≤ 767 ∧ k ≤ n ∧ (i - i0).toNat = k ∧
      ((i1 - i0 : Int) : ℚ) = (n : ℚ) ∧ ((i - i0 : Int) : ℚ) = (k : ℚ) := by
  have hsize := interpolate_size_eq i0 i1 v0 v1 b hb
  have hcap : (i1 + 1 - i0).toNat ≤ 768 := by
    have := hsize.2
    rw [hsize.1] at this
    exact this
  obtain ⟨n, hn⟩ := Int.eq_ofNat_of_zero_le (show 0 ≤ i1 - i0 by omega)
  obtain ⟨k, hk⟩ := Int.eq_ofNat_of_zero_le (show 0 ≤ i - i0 by omega)
  refine ⟨n, k, by omega, by omega, by omega, by omega, ?_, ?_⟩
  · rw [hn]; simp
  · rw [hk]; simp

/-- The float kind: every sample of a returned buffer is finite and within `M / 10000` of
the exact interpolation, for end values of magnitude at most `M`. -/
theorem interpolate_float_within (i0 i1 : Int) (h : i0 < i1) (v0 v1 : Float32) (M : ℚ)
    (hM1 : 1 ≤ M) (hM2 : M ≤ Float32.pow2 100)
    (hf0 : v0.is_finite = true) (hf1 : v1.is_finite = true)
    (h0 : |v0.toRat| ≤ M) (h1 : |v1.toRat| ≤ M)
    (b : Buffer Float32) (hb : interpolate i0 v0 i1 v1 = some b)
    (i : Int) (hi0 : i0 ≤ i) (hi1 : i ≤ i1) :
    ∃ d : Float32, b.get (i - i0) = some d ∧ d.is_finite = true ∧
      |d.toRat - cgfs.lerp v0.toRat v1.toRat (((i - i0 : Int) : ℚ) / ((i1 - i0 : Int) : ℚ))| ≤
        M / 10000 := by
  obtain ⟨n, k, hn0, hn767, hkn, hk, hnq, hkq⟩ := span_of_interpolate i0 i1 h v0 v1 b hb i hi0 hi1
  have hg := interpolate_get i0 i1 v0 v1 h b hb i hi0 hi1
  rw [hk, hnq] at hg
  refine ⟨_, hg, ?_⟩
  rw [hkq, hnq]
  exact Float32.accumulator_float_within M hM1 hM2 n hn0 hn767 k hkn v0 v1 hf0 hf1 h0 h1

/-- The integer kind: every sample of a returned buffer is the truncation `int(d)` of a
finite accumulator `d` that is within `M / 10000` of the exact interpolation, for end
values of magnitude at most `M`; the sample is within less than `1 + M / 10000` of it. -/
theorem interpolate_int_within (i0 i1 : Int) (h : i0 < i1) (v0 v1 : Int) (M : ℚ)
    (hM1 : 1 ≤ M) (hM2 : M ≤ Float32.pow2 100)
    (h0 : |(v0 : ℚ)| ≤ M) (h1 : |(v1 : ℚ)| ≤ M)
    (b : Buffer Int) (hb : @interpolate Int instInterpolableInt i0 v0 i1 v1 = some b)
    (i : Int) (hi0 : i0 ≤ i) (hi1 : i ≤ i1) :
    ∃ d : Float32, b.get (i - i0) = some (Float32.to_int d) ∧ d.is_finite = true ∧
      |d.toRat - cgfs.lerp (v0 : ℚ) (v1 : ℚ) (((i - i0 : Int) : ℚ) / ((i1 - i0 : Int) : ℚ))| ≤
        M / 10000 ∧
      |((Float32.to_int d : Int) : ℚ) -
        cgfs.lerp (v0 : ℚ) (v1 : ℚ) (((i - i0 : Int) : ℚ) / ((i1 - i0 : Int) : ℚ))| <
        1 + M / 10000 := by
  obtain ⟨n, k, hn0, hn767, hkn, hk, hnq, hkq⟩ :=
    @span_of_interpolate Int instInterpolableInt i0 i1 h v0 v1 b hb i hi0 hi1
  have hg := @interpolate_get Int instInterpolableInt i0 i1 v0 v1 h b hb i hi0 hi1
  rw [hk, hnq] at hg
  obtain ⟨hf, he⟩ := Float32.accumulator_int_within M hM1 hM2 n hn0 hn767 k hkn v0 v1 h0 h1
  refine ⟨_, hg, ?_⟩
  rw [hkq, hnq]
  refine ⟨hf, he, ?_⟩
  have ht := Float32.abs_to_int_sub_lt_one
    ((fun x => Float32.add x (Float32.div (Float32.ofInt (v1 - v0))
      (Float32.round (n : ℚ))))^[k] (Float32.ofInt v0))
  have e : ∀ a b c : ℚ, a - c = (a - b) + (b - c) := fun a b c => by ring
  rw [e _ ((fun x => Float32.add x (Float32.div (Float32.ofInt (v1 - v0))
      (Float32.round (n : ℚ))))^[k] (Float32.ofInt v0)).toRat _]
  exact lt_of_le_of_lt (abs_add _ _) (add_lt_add_of_lt_of_le ht he)

end binary32

end cgfs

namespace cgfs

namespace binary32

open rasterizer

/-- The accumulator of texture coordinates is accumulated component by component. -/
theorem single_iterate_add_texcoords (a d : TexCoords) (k : Nat) :
    (fun x => TexCoords.add x a)^[k] d =
      ⟨(fun x => Float32.add x a.u)^[k] d.u, (fun x => Float32.add x a.v)^[k] d.v⟩ := by
  induction k with
  | zero => rfl
  | succ k ih =>
    rw [Function.iterate_succ_apply', Function.iterate_succ_apply',
      Function.iterate_succ_apply', ih]
    rfl

/-- The accumulator of 3-vectors is accumulated component by component. -/
theorem single_iterate_add_vec3 (a d : Vec3) (k : Nat) :
    (fun x => Vec3.add x a)^[k] d =
      ⟨(fun x => Float32.add x a.x)^[k] d.x, (fun x => Float32.add x a.y)^[k] d.y,
        (fun x => Float32.add x a.z)^[k] d.z⟩ := by
  induction k with
  | zero => rfl
  | succ k ih =>
    rw [Function.iterate_succ_apply', Function.iterate_succ_apply',
      Function.iterate_succ_apply', Function.iterate_succ_apply', ih]
    rfl

/-- The kind `TexCoords`: both components of every sample of a returned buffer are finite
and within `M / 10000` of the exact interpolation. -/
theorem interpolate_texcoords_within (i0 i1 : Int) (h : i0 < i1) (v0 v1 : TexCoords) (M : ℚ)
    (hM1 : 1 ≤ M) (hM2 : M ≤ Float32.pow2 100)
    (hf0 : v0.u.is_finite = true ∧ v0.v.is_finite = true)
    (hf1 : v1.u.is_finite = true ∧ v1.v.is_finite = true)
    (h0 : |v0.u.toRat| ≤ M ∧ |v0.v.toRat| ≤ M) (h1 : |v1.u.toRat| ≤ M ∧ |v1.v.toRat| ≤ M)
    (b : Buffer TexCoords) (hb : interpolate i0 v0 i1 v1 = some b)
    (i : Int) (hi0 : i0 ≤ i) (hi1 : i ≤ i1) :
    ∃ d : TexCoords, b.get (i - i0) = some d ∧
      (d.u.is_finite = true ∧
        |d.u.toRat - cgfs.lerp v0.u.toRat v1.u.toRat
          (((i - i0 : Int) : ℚ) / ((i1 - i0 : Int) : ℚ))| ≤ M / 10000) ∧
      (d.v.is_finite = true ∧
        |d.v.toRat - cgfs.lerp v0.v.toRat v1.v.toRat
          (((i - i0 : Int) : ℚ) / ((i1 - i0 : Int) : ℚ))| ≤ M / 10000) := by
  obtain ⟨n, k, hn0, hn767, hkn, hk, hnq, hkq⟩ := span_of_interpolate i0 i1 h v0 v1 b hb i hi0 hi1
  have hg := interpolate_get i0 i1 v0 v1 h b hb i hi0 hi1
  rw [hk, hnq] at hg
  have hiter : (Interpolable.cast ((fun x => Interpolable.add x
      (Interpolable.div (Interpolable.to_float (Interpolable.sub v1 v0)) (n : ℚ)))^[k]
        (Interpolable.to_float v0)) : TexCoords) =
      (fun x => TexCoords.add x
        (TexCoords.div (TexCoords.sub v1 v0) (Float32.round (n : ℚ))))^[k] v0 := rfl
  rw [hiter, single_iterate_add_texcoords] at hg
  refine ⟨_, hg, ?_, ?_⟩
  · rw [hkq, hnq]
    exact Float32.accumulator_float_within M hM1 hM2 n hn0 hn767 k hkn v0.u v1.u hf0.1 hf1.1
      h0.1 h1.1
  · rw [hkq, hnq]
    exact Float32.accumulator_float_within M hM1 hM2 n hn0 hn767 k hkn v0.v v1.v hf0.2 hf1.2
      h0.2 h1.2

/-- The kind `Vec3`: the three components of every sample of a returned buffer are finite
and within `M / 10000` of the exact interpolation. -/
theorem interpolate_vec3_within (i0 i1 : Int) (h : i0 < i1) (v0 v1 : Vec3) (M : ℚ)
    (hM1 : 1 ≤ M) (hM2 : M ≤ Float32.pow2 100)
    (hf0 : v0.x.is_finite = true ∧ v0.y.is_finite = true ∧ v0.z.is_finite = true)
    (hf1 : v1.x.is_finite = true ∧ v1.y.is_finite = true ∧ v1.z.is_finite = true)
    (h0 : |v0.x.toRat| ≤ M ∧ |v0.y.toRat| ≤ M ∧ |v0.z.toRat| ≤ M)
    (h1 : |v1.x.toRat| ≤ M ∧ |v1.y.toRat| ≤ M ∧ |v1.z.toRat| ≤ M)
    (b : Buffer Vec3) (hb : interpolate i0 v0 i1 v1 = some b)
    (i : Int) (hi0 : i0 ≤ i) (hi1 : i ≤ i1) :
    ∃ d : Vec3, b.get (i - i0) = some d ∧
      (d.x.is_finite = true ∧
        |d.x.toRat - cgfs.lerp v0.x.toRat v1.x.toRat
          (((i - i0 : Int) : ℚ) / ((i1 - i0 : Int) : ℚ))| ≤ M / 10000) ∧
      (d.y.is_finite = true ∧
        |d.y.toRat - cgfs.lerp v0.y.toRat v1.y.toRat
          (((i - i0 : Int) : ℚ) / ((i1 - i0 : Int) : ℚ))| ≤ M / 10000) ∧
      (d.z.is_finite = true ∧
        |d.z.toRat - cgfs.lerp v0.z.toRat v1.z.toRat
          (((i - i0 : Int) : ℚ) / ((i1 - i0 : Int) : ℚ))| ≤ M / 10000) := by
  obtain ⟨n, k, hn0, hn767, hkn, hk, hnq, hkq⟩ := span_of_interpolate i0 i1 h v0 v1 b hb i hi0 hi1
  have hg := interpolate_get i0 i1 v0 v1 h b hb i hi0 hi1
  rw [hk, hnq] at hg
  have hiter : (Interpolable.cast ((fun x => Interpolable.add x
      (Interpolable.div (Interpolable.to_float (Interpolable.sub v1 v0)) (n : ℚ)))^[k]
        (Interpolable.to_float v0)) : Vec3) =
      (fun x => Vec3.add x (Vec3.div (Vec3.sub v1 v0) (Float32.round (n : ℚ))))^[k] v0 := rfl
  rw [hiter, single_iterate_add_vec3] at hg
  refine ⟨_, hg, ?_, ?_, ?_⟩
  · rw [hkq, hnq]
    exact Float32.accumulator_float_within M hM1 hM2 n hn0 hn767 k hkn v0.x v1.x hf0.1 hf1.1
      h0.1 h1.1
  · rw [hkq, hnq]
    exact Float32.accumulator_float_within M hM1 hM2 n hn0 hn767 k hkn v0.y v1.y hf0.2.1
      hf1.2.1 h0.2.1 h1.2.1
  · rw [hkq, hnq]
    exact Float32.accumulator_float_within M hM1 hM2 n hn0 hn767 k hkn v0.z v1.z hf0.2.2
      hf1.2.2 h0.2.2 h1.2.2

end binary32

end cgfs

namespace cgfs

namespace binary32

open rasterizer

/-- The exact interpolation at the end of the span is the end value. -/
theorem lerp_end (v0 v1 n : ℚ) (hn : n ≠ 0) : cgfs.lerp v0 v1 (n / n) = v1 := by
  rw [div_self hn]
  unfold cgfs.lerp
  ring

/-! ## C2: the samples of the real-valued kinds -/

/-- C2, amended.  For the real-valued kinds (float, `TexCoords`, `Vec3`), all `i0 < i1` and
every bound `M` with `1 <= M <= 2^100`: when the components of `v0` and `v1` are finite
floats of magnitude at most `M`, `interpolate(i0, v0, i1, v1)` returns whenever the span
fits the capacity, and in every returned buffer each component of the sample at offset
`i - i0`, for each `i0 <= i <= i1`, is a finite float within `M / 10000` of the same
component of `lerp(v0, v1, (i - i0)/(i1 - i0)) = (1 - t) * v0 + t * v1` evaluated exactly.
The samples are computed in single precision by repeated addition of the rounded step. -/
theorem interpolate_real_within_tolerance (i0 i1 : Int) (h : i0 < i1) (M : ℚ) (hM1 : 1 ≤ M)
    (hM2 : M ≤ Float32.pow2 100) :
    (∀ v0 v1 : Float32, v0.is_finite = true → v1.is_finite = true →
      |v0.toRat| ≤ M → |v1.toRat| ≤ M →
      (i1 - i0 + 1 ≤ (kMaxSize : Int) → (interpolate i0 v0 i1 v1).isSome = true) ∧
      ∀ b, interpolate i0 v0 i1 v1 = some b → ∀ i : Int, i0 ≤ i → i ≤ i1 →
        ∃ d : Float32, b.get (i - i0) = some d ∧ d.is_finite = true ∧
          |d.toRat - cgfs.lerp v0.toRat v1.toRat
            (((i - i0 : Int) : ℚ) / ((i1 - i0 : Int) : ℚ))| ≤ M / 10000) ∧
    (∀ v0 v1 : TexCoords, (v0.u.is_finite = true ∧ v0.v.is_finite = true) →
      (v1.u.is_finite = true ∧ v1.v.is_finite = true) →
      (|v0.u.toRat| ≤ M ∧ |v0.v.toRat| ≤ M) → (|v1.u.toRat| ≤ M ∧ |v1.v.toRat| ≤ M) →
      (i1 - i0 + 1 ≤ (kMaxSize : Int) → (interpolate i0 v0 i1 v1).isSome = true) ∧
      ∀ b, interpolate i0 v0 i1 v1 = some b → ∀ i : Int, i0 ≤ i → i ≤ i1 →
        ∃ d : TexCoords, b.get (i - i0) = some d ∧
          (d.u.is_finite = true ∧
            |d.u.toRat - cgfs.lerp v0.u.toRat v1.u.toRat
              (((i - i0 : Int) : ℚ) / ((i1 - i0 : Int) : ℚ))| ≤ M / 10000) ∧
          (d.v.is_finite = true ∧
            |d.v.toRat - cgfs.lerp v0.v.toRat v1.v.toRat
              (((i - i0 : Int) : ℚ) / ((i1 - i0 : Int) : ℚ))| ≤ M / 10000)) ∧
    (∀ v0 v1 : Vec3,
      (v0.x.is_finite = true ∧ v0.y.is_finite = true ∧ v0.z.is_finite = true) →
      (v1.x.is_finite = true ∧ v1.y.is_finite = true ∧ v1.z.is_finite = true) →
      (|v0.x.toRat| ≤ M ∧ |v0.y.toRat| ≤ M ∧ |v0.z.toRat| ≤ M) →
      (|v1.x.toRat| ≤ M ∧ |v1.y.toRat| ≤ M ∧ |v1.z.toRat| ≤ M) →
      (i1 - i0 + 1 ≤ (kMaxSize : Int) → (interpolate i0 v0 i1 v1).isSome = true) ∧
      ∀ b, interpolate i0 v0 i1 v1 = some b → ∀ i : Int, i0 ≤ i → i ≤ i1 →
        ∃ d : Vec3, b.get (i - i0) = some d ∧
          (d.x.is_finite = true ∧
            |d.x.toRat - cgfs.lerp v0.x.toRat v1.x.toRat
              (((i - i0 : Int) : ℚ) / ((i1 - i0 : Int) : ℚ))| ≤ M / 10000) ∧
          (d.y.is_finite = true ∧
            |d.y.toRat - cgfs.lerp v0.y.toRat v1.y.toRat
              (((i - i0 : Int) : ℚ) / ((i1 - i0 : Int) : ℚ))| ≤ M / 10000) ∧
          (d.z.is_finite = true ∧
            |d.z.toRat - cgfs.lerp v0.z.toRat v1.z.toRat
              (((i - i0 : Int) : ℚ) / ((i1 - i0 : Int) : ℚ))| ≤ M / 10000)) := by
  refine ⟨fun v0 v1 hf0 hf1 h0 h1 => ⟨interpolate_isSome i0 i1 v0 v1 (le_of_lt h), ?_⟩,
    fun v0 v1 hf0 hf1 h0 h1 => ⟨interpolate_isSome i0 i1 v0 v1 (le_of_lt h), ?_⟩,
    fun v0 v1 hf0 hf1 h0 h1 => ⟨interpolate_isSome i0 i1 v0 v1 (le_of_lt h), ?_⟩⟩
  · intro b hb i hi0 hi1
    exact interpolate_float_within i0 i1 h v0 v1 M hM1 hM2 hf0 hf1 h0 h1 b hb i hi0 hi1
  · intro b hb i hi0 hi1
    exact interpolate_texcoords_within i0 i1 h v0 v1 M hM1 hM2 hf0 hf1 h0 h1 b hb i hi0 hi1
  · intro b hb i hi0 hi1
    exact interpolate_vec3_within i0 i1 h v0 v1 M hM1 hM2 hf0 hf1 h0 h1 b hb i hi0 hi1

/-- C2, instantiated on the span `0..10` from `0.0f` to `1000.5f` with `M = 1001`: the
buffer is returned, and its last sample, `16392191/16384 = 1000.49993896...`, is finite and
within `1001 / 10000` of `lerp(0, 1000.5, 10/10) = 1000.5`. -/
theorem interpolate_real_within_tolerance_witness :
    (0 : Int) < 10 ∧ (1 : ℚ) ≤ 1001 ∧ (1001 : ℚ) ≤ Float32.pow2 100 ∧
    ∃ b d, interpolate (0 : Int) (0 : Float32) 10 (Float32.round (2001 / 2)) = some b ∧
      b.get (10 - 0) = some d ∧ d.is_finite = true ∧
      |d.toRat - cgfs.lerp (0 : Float32).toRat (Float32.round (2001 / 2)).toRat
        (((10 - 0 : Int) : ℚ) / ((10 - 0 : Int) : ℚ))| ≤ 1001 / 10000 := by
  have hM2 : (1001 : ℚ) ≤ Float32.pow2 100 := by decide!
  have hthm := (interpolate_real_within_tolerance 0 10 (by decide) 1001 (by norm_num) hM2).1
    (0 : Float32) (Float32.round (2001 / 2)) (by decide!) (by decide!) (by decide!) (by decide!)
  obtain ⟨b, hb⟩ := Option.isSome_iff_exists.mp (hthm.1 (by decide))
  obtain ⟨d, hd, hfin, herr⟩ := hthm.2 b hb 10 (by decide) (by decide)
  exact ⟨by decide, by norm_num, hM2, b, d, hb, hd, hfin, herr⟩

/-! ## C3: the samples of the integer kind -/

/-- C3, amended.  For the integer kind, all `i0 < i1`, every bound `M` with
`1 <= M <= 2^100` and all `v0`, `v1` of magnitude at most `M`: `interpolate(i0, v0, i1, v1)`
returns whenever the span fits the capacity, and in every returned buffer the sample at
offset `i - i0`, for each `i0 <= i <= i1`, is `int(d)`, the truncation toward zero of a
finite float accumulator `d` that is within `M / 10000` of
`lerp(v0, v1, (i - i0)/(i1 - i0))` evaluated exactly; so the sample is an integer within
distance less than `1 + M / 10000` of that value. -/
theorem interpolate_int_near_lerp (i0 i1 : Int) (h : i0 < i1) (M : ℚ) (hM1 : 1 ≤ M)
    (hM2 : M ≤ Float32.pow2 100) (v0 v1 : Int) (h0 : |(v0 : ℚ)| ≤ M) (h1 : |(v1 : ℚ)| ≤ M) :
    (i1 - i0 + 1 ≤ (kMaxSize : Int) →
      (@interpolate Int instInterpolableInt i0 v0 i1 v1).isSome = true) ∧
    ∀ b, @interpolate Int instInterpolableInt i0 v0 i1 v1 = some b →
      ∀ i : Int, i0 ≤ i → i ≤ i1 →
        ∃ d : Float32, b.get (i - i0) = some (Float32.to_int d) ∧ d.is_finite = true ∧
          |d.toRat - cgfs.lerp (v0 : ℚ) (v1 : ℚ)
            (((i - i0 : Int) : ℚ) / ((i1 - i0 : Int) : ℚ))| ≤ M / 10000 ∧
          |((Float32.to_int d : Int) : ℚ) - cgfs.lerp (v0 : ℚ) (v1 : ℚ)
            (((i - i0 : Int) : ℚ) / ((i1 - i0 : Int) : ℚ))| < 1 + M / 10000 :=
  ⟨@interpolate_isSome Int instInterpolableInt i0 i1 v0 v1 (le_of_lt h),
    fun b hb i hi0 hi1 => interpolate_int_within i0 i1 h v0 v1 M hM1 hM2 h0 h1 b hb i hi0 hi1⟩

/-- C3, instantiated on the span `0..6` from `0` to `7` with `M = 7`, at `i = 6`: the
sample `6` is the truncation of an accumulator within `7 / 10000` of `lerp = 7`. -/
theorem interpolate_int_near_lerp_witness :
    (0 : Int) < 6 ∧ (1 : ℚ) ≤ 7 ∧ (7 : ℚ) ≤ Float32.pow2 100 ∧
    |((0 : Int) : ℚ)| ≤ 7 ∧ |((7 : Int) : ℚ)| ≤ 7 ∧
    @interpolate Int instInterpolableInt 0 0 6 7 = some ⟨[0, 1, 2, 3, 4, 5, 6]⟩ ∧
    ∃ d : Float32, (⟨[0, 1, 2, 3, 4, 5, 6]⟩ : Buffer Int).get (6 - 0) = some (Float32.to_int d) ∧
      d.is_finite = true ∧
      |d.toRat - cgfs.lerp ((0 : Int) : ℚ) ((7 : Int) : ℚ)
        (((6 - 0 : Int) : ℚ) / ((6 - 0 : Int) : ℚ))| ≤ 7 / 10000 ∧
      |((Float32.to_int d : Int) : ℚ) - cgfs.lerp ((0 : Int) : ℚ) ((7 : Int) : ℚ)
        (((6 - 0 : Int) : ℚ) / ((6 - 0 : Int) : ℚ))| < 1 + 7 / 10000 := by
  have hM2 : (7 : ℚ) ≤ Float32.pow2 100 := by decide!
  have h0 : |((0 : Int) : ℚ)| ≤ 7 := by norm_num
  have h1 : |((7 : Int) : ℚ)| ≤ 7 := by norm_num
  have hb : @interpolate Int instInterpolableInt 0 0 6 7 = some ⟨[0, 1, 2, 3, 4, 5, 6]⟩ := by
    decide!
  exact ⟨by decide, by norm_num, hM2, h0, h1, hb,
    (interpolate_int_near_lerp 0 6 (by decide) 7 (by norm_num) hM2 0 7 h0 h1).2 _ hb 6
      (by decide) (by decide)⟩

end binary32

end cgfs

namespace cgfs

namespace binary32

open rasterizer

/-! ## The edge sequences in single precision -/

/-- What `interpolate_points` returns: the long-edge sequence and the merged short-edge
sequence of the X coordinates, ordered by comparing them at the probe index `size / 2`. -/
theorem single_interpolate_points_eq_some_iff (p0 p1 p2 : Point2) (xl xr : Buffer Int)
    (tag : LeftSide) :
    interpolate_points p0 p1 p2 = some (xl, xr, tag) ↔
      ∃ l m a b, @long_edge Int instInterpolableInt p0 p2 p0.x p2.x = some l ∧
        @merged_short_edges Int instInterpolableInt p0 p1 p2 p0.x p1.x p2.x = some m ∧
        l.get (Int.ofNat (l.size / 2)) = some a ∧ m.get (Int.ofNat (l.size / 2)) = some b ∧
        ((a < b ∧ tag = LeftSide.k02 ∧ xl = l ∧ xr = m) ∨
         (¬ a < b ∧ tag = LeftSide.k01_12 ∧ xl = m ∧ xr = l)) := by
  unfold interpolate_points long_edge merged_short_edges
  cases h01 : @interpolate Int instInterpolableInt p0.y p0.x p1.y p1.x with
  | none => simp
  | some x01 =>
    cases h12 : @interpolate Int instInterpolableInt p1.y p1.x p2.y p2.x with
    | none => simp
    | some x12 =>
      cases h02 : @interpolate Int instInterpolableInt p0.y p0.x p2.y p2.x with
      | none => simp
      | some x02 =>
        simp only [Option.some_bind]
        cases hpop : x01.pop_back with
        | none => simp
        | some x01p =>
          simp only [Option.some_bind]
          cases hcat : concatenate x01p x12 with
          | none => simp
          | some x01_x12 =>
            simp only [Option.some_bind]
            simp only [Option.some.injEq, exists_and_left, exists_eq_left']
            generalize Int.ofNat (x02.size / 2) = mid
            cases ha : x02.get mid with
            | none => simp
            | some a =>
              cases hb : x01_x12.get mid with
              | none => simp
              | some b =>
                simp only [Option.some_bind, Option.some.injEq, exists_eq_left']
                by_cases hab : a < b
                · rw [if_pos hab]
                  constructor
                  · intro h
                    cases h
                    exact Or.inl ⟨hab, rfl, rfl, rfl⟩
                  · rintro (⟨-, rfl, rfl, rfl⟩ | ⟨hn, -⟩)
                    · rfl
                    · exact absurd hab hn
                · rw [if_neg hab]
                  constructor
                  · intro h
                    cases h
                    exact Or.inr ⟨hab, rfl, rfl, rfl⟩
                  · rintro (⟨hn, -⟩ | ⟨-, rfl, rfl, rfl⟩)
                    · exact absurd hn hab
                    · rfl

/-- The edge classifier returns on every sorted triangle whose Y span fits the capacity. -/
theorem single_interpolate_points_isSome (p0 p1 p2 : Point2) (h01 : p0.y ≤ p1.y)
    (h12 : p1.y ≤ p2.y) (hcap : p2.y - p0.y + 1 ≤ (kMaxSize : Int)) :
    ∃ r, interpolate_points p0 p1 p2 = some r := by
  obtain ⟨l, hl⟩ := Option.isSome_iff_exists.mp
    (@interpolate_isSome Int instInterpolableInt p0.y p2.y p0.x p2.x (le_trans h01 h12) hcap)
  obtain ⟨m, hm⟩ := @merged_short_edges_isSome Int instInterpolableInt p0 p1 p2 p0.x p1.x p2.x
    h01 h12 hcap
  have sl := @long_edge_size Int instInterpolableInt p0 p2 p0.x p2.x (le_trans h01 h12) l hl
  have sm := @merged_short_edges_size Int instInterpolableInt p0 p1 p2 p0.x p1.x p2.x h01 h12
    m hm
  have hmid : (0 : Int) ≤ Int.ofNat (l.size / 2) ∧ Int.ofNat (l.size / 2) < (l.size : Int) := by
    simp only [Int.ofNat_eq_coe]
    omega
  obtain ⟨a, ha⟩ := Option.isSome_iff_exists.mp ((buffer_get_isSome_iff l _).mpr hmid)
  obtain ⟨b, hb⟩ := Option.isSome_iff_exists.mp
    ((buffer_get_isSome_iff m _).mpr ⟨hmid.1, by rw [sm, ← sl]; exact hmid.2⟩)
  by_cases hab : a < b
  · exact ⟨(l, m, LeftSide.k02), (single_interpolate_points_eq_some_iff p0 p1 p2 _ _ _).mpr
      ⟨l, m, a, b, hl, hm, ha, hb, Or.inl ⟨hab, rfl, rfl, rfl⟩⟩⟩
  · exact ⟨(m, l, LeftSide.k01_12), (single_interpolate_points_eq_some_iff p0 p1 p2 _ _ _).mpr
      ⟨l, m, a, b, hl, hm, ha, hb, Or.inr ⟨hab, rfl, rfl, rfl⟩⟩⟩

/-- The first sample of a returned buffer is `v0` when the conversion `T(to_float(v0))`
gives back `v0`. -/
theorem interpolate_first_of_cast {T : Type} [Interpolable T] (i0 i1 : Int) (v0 v1 : T)
    (hcast : Interpolable.cast (Interpolable.to_float v0) = v0) (h : i0 ≤ i1) (b : Buffer T)
    (hb : interpolate i0 v0 i1 v1 = some b) : b.get 0 = some v0 := by
  rcases h.lt_or_eq with hlt | heq
  · have hg := interpolate_get i0 i1 v0 v1 hlt b hb i0 (le_refl _) h
    rw [sub_self] at hg
    rw [hg]
    simp only [Int.toNat_zero, Function.iterate_zero, id_eq, hcast]
  · subst heq
    rw [interpolate_eq_of_eq] at hb
    cases hb
    rfl

/-- The merged short-edge sequence of a sorted triangle holds the value of the middle
vertex at the offset `p1.y - p0.y`, when the conversion `T(to_float(a1))` gives back
`a1`. -/
theorem merged_short_edges_middle_of_cast {T : Type} [Interpolable T]
    (p0 p1 p2 : Point2) (a0 a1 a2 : T)
    (hcast : Interpolable.cast (Interpolable.to_float a1) = a1)
    (h01 : p0.y ≤ p1.y) (h12 : p1.y ≤ p2.y)
    (m : Buffer T) (hm : merged_short_edges p0 p1 p2 a0 a1 a2 = some m) :
    m.get (p1.y - p0.y) = some a1 := by
  obtain ⟨a01, a12, h01', h12', hpos, _, hmeq⟩ :=
    (merged_short_edges_eq_some_iff p0 p1 p2 a0 a1 a2 m).mp hm
  have hs01 := (interpolate_size_eq p0.y p1.y a0 a1 a01 h01').1
  have hs12 := (interpolate_size_eq p1.y p2.y a1 a2 a12 h12').1
  have hfirst := interpolate_first_of_cast p1.y p2.y a1 a2 hcast h12 a12 h12'
  have h12pos : 0 < a12.size := by rw [hs12]; omega
  unfold Buffer.get at hfirst ⊢
  have hsize : m.size = a01.size - 1 + a12.size := by
    rw [hmeq]
    simp only [Buffer.size, List.length_append, List.length_dropLast]
  have hidx : (p1.y - p0.y).toNat = a01.size - 1 := by rw [hs01]; omega
  rw [if_pos ⟨by omega, by rw [hsize]; omega⟩]
  rw [if_pos ⟨le_refl _, by exact_mod_cast h12pos⟩] at hfirst
  rw [hmeq, hidx]
  simp only [Buffer.size] at hfirst ⊢
  rw [List.getElem?_append_right (by rw [List.length_dropLast])]
  simp only [List.length_dropLast, Nat.sub_self]
  exact hfirst

/-- The conversion `int(to_float(v))` gives back an `int` of magnitude at most `2^24`. -/
theorem cast_to_float_int (v : Int) (h : |v| ≤ 16777216) :
    @Interpolable.cast Int instInterpolableInt (@Interpolable.to_float Int instInterpolableInt v)
      = v :=
  Float32.to_int_ofInt v h

/-! ## C32: the end samples of an interpolation -/

/-- C32, amended.  For each kind (integer, float, `TexCoords`, `Vec3`) and all `i0 <= i1`:
`interpolate(i0, v0, i1, v1)` returns whenever the span fits the capacity, and the first
sample of a returned buffer is `v0`; for the integer kind this needs `|v0| <= 2^24`, the
range in which the conversion to `float` is exact.  The last sample of a span `i0 < i1` is
the accumulator after `i1 - i0` additions of the rounded step: for end values of magnitude
at most `M`, `1 <= M <= 2^100`, it is a finite float within `M / 10000` of `v1` for the
float kind, and the truncation of such a float, within less than `1 + M / 10000` of `v1`,
for the integer kind.  In `interpolate_points` on a triangle sorted by `y` with
`|p0.x|, |p1.x| <= 2^24` the long-edge sequence starts at `p0.x`, it is the single sample
`p0.x` when `p0.y = p2.y`, and the merged short-edge sequence holds `p1.x` at the offset
`p1.y - p0.y`. -/
theorem interpolate_first_sample (i0 i1 : Int) (h : i0 ≤ i1) :
    (∀ v0 v1 : Int, |v0| ≤ 16777216 →
      (i1 - i0 + 1 ≤ (kMaxSize : Int) →
        (@interpolate Int instInterpolableInt i0 v0 i1 v1).isSome = true) ∧
      ∀ b, @interpolate Int instInterpolableInt i0 v0 i1 v1 = some b →
        b.get 0 = some v0 ∧
        (i0 < i1 → ∀ M : ℚ, 1 ≤ M → M ≤ Float32.pow2 100 → |(v0 : ℚ)| ≤ M → |(v1 : ℚ)| ≤ M →
          ∃ d : Float32, b.get (i1 - i0) = some (Float32.to_int d) ∧ d.is_finite = true ∧
            |d.toRat - (v1 : ℚ)| ≤ M / 10000 ∧
            |((Float32.to_int d : Int) : ℚ) - (v1 : ℚ)| < 1 + M / 10000)) ∧
    (∀ v0 v1 : Float32,
      (i1 - i0 + 1 ≤ (kMaxSize : Int) → (interpolate i0 v0 i1 v1).isSome = true) ∧
      ∀ b, interpolate i0 v0 i1 v1 = some b →
        b.get 0 = some v0 ∧
        (i0 < i1 → ∀ M : ℚ, 1 ≤ M → M ≤ Float32.pow2 100 →
          v0.is_finite = true → v1.is_finite = true → |v0.toRat| ≤ M → |v1.toRat| ≤ M →
          ∃ d : Float32, b.get (i1 - i0) = some d ∧ d.is_finite = true ∧
            |d.toRat - v1.toRat| ≤ M / 10000)) ∧
    (∀ v0 v1 : TexCoords,
      (i1 - i0 + 1 ≤ (kMaxSize : Int) → (interpolate i0 v0 i1 v1).isSome = true) ∧
      ∀ b, interpolate i0 v0 i1 v1 = some b → b.get 0 = some v0) ∧
    (∀ v0 v1 : Vec3,
      (i1 - i0 + 1 ≤ (kMaxSize : Int) → (interpolate i0 v0 i1 v1).isSome = true) ∧
      ∀ b, interpolate i0 v0 i1 v1 = some b → b.get 0 = some v0) ∧
    (∀ p0 p1 p2 : Point2, p0.y ≤ p1.y → p1.y ≤ p2.y →
      |p0.x| ≤ 16777216 → |p1.x| ≤ 16777216 →
      (p2.y - p0.y + 1 ≤ (kMaxSize : Int) → ∃ r, interpolate_points p0 p1 p2 = some r) ∧
      ∀ x_left x_right tag, interpolate_points p0 p1 p2 = some (x_left, x_right, tag) →
        ∃ l m, @long_edge Int instInterpolableInt p0 p2 p0.x p2.x = some l ∧
          @merged_short_edges Int instInterpolableInt p0 p1 p2 p0.x p1.x p2.x = some m ∧
          ((tag = LeftSide.k02 ∧ x_left = l ∧ x_right = m) ∨
            (tag = LeftSide.k01_12 ∧ x_left = m ∧ x_right = l)) ∧
          l.get 0 = some p0.x ∧
          (p0.y = p2.y → l = ⟨[p0.x]⟩) ∧
          m.get (p1.y - p0.y) = some p1.x) := by
  refine ⟨?_, ?_, ?_, ?_, ?_⟩
  · intro v0 v1 hv0
    refine ⟨@interpolate_isSome Int instInterpolableInt i0 i1 v0 v1 h, fun b hb => ⟨?_, ?_⟩⟩
    · exact @interpolate_first_of_cast Int instInterpolableInt i0 i1 v0 v1
        (cast_to_float_int v0 hv0) h b hb
    · intro hlt M hM1 hM2 h0 h1
      obtain ⟨d, hd, hfin, he1, he2⟩ :=
        interpolate_int_within i0 i1 hlt v0 v1 M hM1 hM2 h0 h1 b hb i1 h (le_refl _)
      have hne : ((i1 - i0 : Int) : ℚ) ≠ 0 := by
        have : i1 - i0 ≠ 0 := by omega
        exact_mod_cast this
      rw [lerp_end _ _ _ hne] at he1 he2
      exact ⟨d, hd, hfin, he1, he2⟩
  · intro v0 v1
    refine ⟨interpolate_isSome i0 i1 v0 v1 h, fun b hb => ⟨?_, ?_⟩⟩
    · exact interpolate_first_of_cast i0 i1 v0 v1 rfl h b hb
    · intro hlt M hM1 hM2 hf0 hf1 h0 h1
      obtain ⟨d, hd, hfin, he⟩ :=
        interpolate_float_within i0 i1 hlt v0 v1 M hM1 hM2 hf0 hf1 h0 h1 b hb i1 h (le_refl _)
      have hne : ((i1 - i0 : Int) : ℚ) ≠ 0 := by
        have : i1 - i0 ≠ 0 := by omega
        exact_mod_cast this
      rw [lerp_end _ _ _ hne] at he
      exact ⟨d, hd, hfin, he⟩
  · intro v0 v1
    exact ⟨interpolate_isSome i0 i1 v0 v1 h,
      fun b hb => interpolate_first_of_cast i0 i1 v0 v1 rfl h b hb⟩
  · intro v0 v1
    exact ⟨interpolate_isSome i0 i1 v0 v1 h,
      fun b hb => interpolate_first_of_cast i0 i1 v0 v1 rfl h b hb⟩
  · intro p0 p1 p2 h01 h12 hx0 hx1
    refine ⟨single_interpolate_points_isSome p0 p1 p2 h01 h12, ?_⟩
    intro x_left x_right tag hpts
    obtain ⟨l, m, a, b, hl, hm, -, -, hcase⟩ :=
      (single_interpolate_points_eq_some_iff p0 p1 p2 x_left x_right tag).mp hpts
    refine ⟨l, m, hl, hm, ?_, ?_, ?_, ?_⟩
    · rcases hcase with ⟨-, h1, h2, h3⟩ | ⟨-, h1, h2, h3⟩
      · exact Or.inl ⟨h1, h2, h3⟩
      · exact Or.inr ⟨h1, h2, h3⟩
    · exact @interpolate_first_of_cast Int instInterpolableInt p0.y p2.y p0.x p2.x
        (cast_to_float_int p0.x hx0) (le_trans h01 h12) l hl
    · intro heq
      unfold long_edge at hl
      rw [heq, @interpolate_eq_of_eq Int instInterpolableInt] at hl
      cases hl
      rfl
    · exact @merged_short_edges_middle_of_cast Int instInterpolableInt p0 p1 p2 p0.x p1.x p2.x
        (cast_to_float_int p1.x hx1) h01 h12 m hm

/-- C32, instantiated on the span `0..6` and the triangle `(0,0), (3,3), (7,6)`: its
long-edge sequence `[0,1,2,3,4,5,6]` starts at `p0.x = 0` (and ends at `6`, not at
`p2.x = 7`), and its merged short-edge sequence `[0,1,2,3,4,5,7]` holds `p1.x = 3` at the
offset `3`. -/
theorem interpolate_first_sample_witness :
    (0 : Int) ≤ 6 ∧
    (∀ b, @interpolate Int instInterpolableInt 0 0 6 7 = some b → b.get 0 = some 0) ∧
    interpolate_points ⟨0, 0⟩ ⟨3, 3⟩ ⟨7, 6⟩ =
      some (⟨[0, 1, 2, 3, 4, 5, 7]⟩, ⟨[0, 1, 2, 3, 4, 5, 6]⟩, LeftSide.k01_12) ∧
    ∃ l m, @long_edge Int instInterpolableInt ⟨0, 0⟩ ⟨7, 6⟩ 0 7 = some l ∧
      @merged_short_edges Int instInterpolableInt ⟨0, 0⟩ ⟨3, 3⟩ ⟨7, 6⟩ 0 3 7 = some m ∧
      ((LeftSide.k01_12 = LeftSide.k02 ∧ (⟨[0, 1, 2, 3, 4, 5, 7]⟩ : Buffer Int) = l ∧
          (⟨[0, 1, 2, 3, 4, 5, 6]⟩ : Buffer Int) = m) ∨
        (LeftSide.k01_12 = LeftSide.k01_12 ∧ (⟨[0, 1, 2, 3, 4, 5, 7]⟩ : Buffer Int) = m ∧
          (⟨[0, 1, 2, 3, 4, 5, 6]⟩ : Buffer Int) = l)) ∧
      l.get 0 = some 0 ∧
      ((0 : Int) = 6 → l = ⟨[0]⟩) ∧
      m.get (3 - 0) = some 3 := by
  have hthm := interpolate_first_sample 0 6 (by decide)
  have hpts : interpolate_points ⟨0, 0⟩ ⟨3, 3⟩ ⟨7, 6⟩ =
      some (⟨[0, 1, 2, 3, 4, 5, 7]⟩, ⟨[0, 1, 2, 3, 4, 5, 6]⟩, LeftSide.k01_12) := by decide!
  exact ⟨by decide, fun b hb => ((hthm.1 0 7 (by decide)).2 b hb).1, hpts,
    (hthm.2.2.2.2 ⟨0, 0⟩ ⟨3, 3⟩ ⟨7, 6⟩ (by decide) (by decide) (by decide) (by decide)).2
      _ _ _ hpts⟩

end binary32

end cgfs

namespace cgfs

namespace binary32

open rasterizer

/-! ## The pixels of a filled triangle in single precision -/

/-- The sizes of the two edge sequences of a sorted triangle. -/
theorem single_interpolate_points_sizes (q0 q1 q2 : Point2) (h01 : q0.y ≤ q1.y)
    (h12 : q1.y ≤ q2.y) (x_left x_right : Buffer Int) (tag : LeftSide)
    (hpts : interpolate_points q0 q1 q2 = some (x_left, x_right, tag)) :
    (x_left.size : Int) = q2.y - q0.y + 1 ∧ (x_right.size : Int) = q2.y - q0.y + 1 := by
  obtain ⟨l, m, a, b, hl, hm, _, _, hcase⟩ :=
    (single_interpolate_points_eq_some_iff q0 q1 q2 x_left x_right tag).mp hpts
  have hls := @long_edge_size Int instInterpolableInt q0 q2 q0.x q2.x (le_trans h01 h12) l hl
  have hms := @merged_short_edges_size Int instInterpolableInt q0 q1 q2 q0.x q1.x q2.x h01 h12
    m hm
  rcases hcase with ⟨_, _, rfl, rfl⟩ | ⟨_, _, rfl, rfl⟩
  · exact ⟨hls, hms⟩
  · exact ⟨hms, hls⟩

/-- The body of `draw_filled_triangle_pixels` once the edge sequences are known. -/
theorem single_draw_filled_triangle_pixels_eq (p0 p1 p2 : Point2) (color : Color)
    (x_left x_right : Buffer Int) (tag : LeftSide)
    (hpts : interpolate_points (sort_points_by_y p0 p1 p2).1 (sort_points_by_y p0 p1 p2).2.1
      (sort_points_by_y p0 p1 p2).2.2 = some (x_left, x_right, tag)) :
    draw_filled_triangle_pixels p0 p1 p2 color =
      for_each_concat (draw_filled_triangle_row x_left x_right (sort_points_by_y p0 p1 p2).1
        color) (int_range (sort_points_by_y p0 p1 p2).1.y (sort_points_by_y p0 p1 p2).2.2.y) := by
  unfold draw_filled_triangle_pixels
  simp only []
  rw [hpts]
  rfl

/-- The pixels written by `draw_filled_triangle`, in terms of the edge sequences of the
sorted triangle: the routine makes its calls without failing, and the points written are
the points `(x, y)` of the scanlines `y` with `x_left[y] <= x <= x_right[y]`, all with the
given colour. -/
theorem single_draw_filled_triangle_pixels_spec (p0 p1 p2 : Point2) (color : Color)
    (x_left x_right : Buffer Int) (tag : LeftSide)
    (hpts : interpolate_points (sort_points_by_y p0 p1 p2).1 (sort_points_by_y p0 p1 p2).2.1
      (sort_points_by_y p0 p1 p2).2.2 = some (x_left, x_right, tag)) :
    ∃ pixels, draw_filled_triangle_pixels p0 p1 p2 color = some pixels ∧
      ∀ (pt : Point2) (c : Color), (pt, c) ∈ pixels ↔
        c = color ∧ (sort_points_by_y p0 p1 p2).1.y ≤ pt.y ∧
          pt.y ≤ (sort_points_by_y p0 p1 p2).2.2.y ∧
          ∃ xl xr, x_left.get (pt.y - (sort_points_by_y p0 p1 p2).1.y) = some xl ∧
            x_right.get (pt.y - (sort_points_by_y p0 p1 p2).1.y) = some xr ∧
            xl ≤ pt.x ∧ pt.x ≤ xr := by
  obtain ⟨h01, h12⟩ := sort_points_by_y_sorted p0 p1 p2
  obtain ⟨hsl, hsr⟩ := single_interpolate_points_sizes _ _ _ h01 h12 x_left x_right tag hpts
  have hrun := single_draw_filled_triangle_pixels_eq p0 p1 p2 color x_left x_right tag hpts
  have hrows : ∀ y ∈ int_range (sort_points_by_y p0 p1 p2).1.y (sort_points_by_y p0 p1 p2).2.2.y,
      ∃ calls, draw_filled_triangle_row x_left x_right (sort_points_by_y p0 p1 p2).1 color y
        = some calls := by
    intro y hy
    rw [mem_int_range] at hy
    obtain ⟨xl, hxl⟩ := buffer_get_of_lt x_left (y - (sort_points_by_y p0 p1 p2).1.y)
      (by omega) (by omega)
    obtain ⟨xr, hxr⟩ := buffer_get_of_lt x_right (y - (sort_points_by_y p0 p1 p2).1.y)
      (by omega) (by omega)
    unfold draw_filled_triangle_row
    rw [hxl, hxr]
    exact ⟨_, rfl⟩
  obtain ⟨pixels, hpixels⟩ := for_each_concat_isSome _ _ hrows
  refine ⟨pixels, hrun.trans hpixels, ?_⟩
  intro pt c
  rw [(for_each_concat_mem _ _ _ hpixels).2]
  constructor
  · rintro ⟨y, hy, calls, hcalls, hmem⟩
    rw [mem_int_range] at hy
    unfold draw_filled_triangle_row at hcalls
    cases hxl : x_left.get (y - (sort_points_by_y p0 p1 p2).1.y) with
    | none => rw [hxl] at hcalls; exact Option.noConfusion hcalls
    | some xl =>
      cases hxr : x_right.get (y - (sort_points_by_y p0 p1 p2).1.y) with
      | none => rw [hxl, hxr] at hcalls; exact Option.noConfusion hcalls
      | some xr =>
        rw [hxl, hxr] at hcalls
        simp only [Option.some_bind, Option.some.injEq] at hcalls
        subst hcalls
        rw [List.mem_map] at hmem
        obtain ⟨x, hx, hxe⟩ := hmem
        rw [mem_int_range] at hx
        simp only [Prod.mk.injEq] at hxe
        obtain ⟨hpt, hc⟩ := hxe
        subst hpt
        exact ⟨hc.symm, hy.1, hy.2, xl, xr, hxl, hxr, hx.1, hx.2⟩
  · rintro ⟨hc, hy0, hy1, xl, xr, hxl, hxr, hx0, hx1⟩
    refine ⟨pt.y, (mem_int_range _ _ _).mpr ⟨hy0, hy1⟩,
      (int_range xl xr).map (fun x => ((⟨x, pt.y⟩ : Point2), color)), ?_, ?_⟩
    · unfold draw_filled_triangle_row
      rw [hxl, hxr]
      rfl
    · rw [List.mem_map]
      exact ⟨pt.x, (mem_int_range _ _ _).mpr ⟨hx0, hx1⟩, by rw [hc]⟩

/-- The points written by `draw_filled_triangle` are pairwise distinct. -/
theorem single_draw_filled_triangle_pixels_nodup (p0 p1 p2 : Point2) (color : Color)
    (pixels : List (Point2 × Color))
    (h : draw_filled_triangle_pixels p0 p1 p2 color = some pixels) :
    (pixels.map Prod.fst).Nodup := by
  cases hpts : interpolate_points (sort_points_by_y p0 p1 p2).1 (sort_points_by_y p0 p1 p2).2.1
      (sort_points_by_y p0 p1 p2).2.2 with
  | none =>
    unfold draw_filled_triangle_pixels at h
    simp only [] at h
    rw [hpts] at h
    exact Option.noConfusion h
  | some edges =>
    obtain ⟨x_left, x_right, tag⟩ := edges
    rw [single_draw_filled_triangle_pixels_eq p0 p1 p2 color x_left x_right tag hpts] at h
    have hrow : ∀ (y : Int) (calls : List (Point2 × Color)),
        draw_filled_triangle_row x_left x_right (sort_points_by_y p0 p1 p2).1 color y
          = some calls →
        ∃ xl xr, calls = (int_range xl xr).map fun x => ((⟨x, y⟩ : Point2), color) := by
      intro y calls hc
      unfold draw_filled_triangle_row at hc
      cases hxl : x_left.get (y - (sort_points_by_y p0 p1 p2).1.y) with
      | none => rw [hxl] at hc; exact Option.noConfusion hc
      | some xl =>
        cases hxr : x_right.get (y - (sort_points_by_y p0 p1 p2).1.y) with
        | none => rw [hxl, hxr] at hc; exact Option.noConfusion hc
        | some xr =>
          rw [hxl, hxr] at hc
          simp only [Option.some_bind, Option.some.injEq] at hc
          exact ⟨xl, xr, hc.symm⟩
    apply for_each_concat_nodup Prod.fst _ _ _ h (int_range_nodup _ _)
    · intro y _ calls hc
      obtain ⟨xl, xr, hcalls⟩ := hrow y calls hc
      rw [hcalls, List.map_map]
      apply List.Nodup.map_on _ (int_range_nodup xl xr)
      intro a _ b _ hab
      simp only [Function.comp, Point2.mk.injEq] at hab
      exact hab.1
    · intro y _ y' _ hne calls calls' hc hc' b hb b' hb' hkey
      obtain ⟨xl, xr, hcalls⟩ := hrow y calls hc
      obtain ⟨xl', xr', hcalls'⟩ := hrow y' calls' hc'
      rw [hcalls, List.mem_map] at hb
      rw [hcalls', List.mem_map] at hb'
      obtain ⟨x, _, hx⟩ := hb
      obtain ⟨x', _, hx'⟩ := hb'
      rw [← hx, ← hx'] at hkey
      simp only [Point2.mk.injEq] at hkey
      exact hne hkey.2

/-! ## The edge sequences stay within one pixel of the vertices -/

/-- The exact interpolation between two values lies between them. -/
theorem lerp_between (lo hi v0 v1 t : ℚ) (h0 : lo ≤ v0 ∧ v0 ≤ hi) (h1 : lo ≤ v1 ∧ v1 ≤ hi)
    (ht0 : 0 ≤ t) (ht1 : t ≤ 1) : lo ≤ cgfs.lerp v0 v1 t ∧ cgfs.lerp v0 v1 t ≤ hi := by
  unfold cgfs.lerp
  constructor <;> nlinarith

/-- Every sample of the integer kind, between end values within `[lo, hi]` of magnitude at
most `9999`, lies in `[lo - 1, hi + 1]`. -/
theorem single_interpolate_int_mem_between (i0 i1 : Int) (h : i0 ≤ i1) (v0 v1 lo hi : Int)
    (hlo : -9999 ≤ lo) (hhi : hi ≤ 9999) (h0 : lo ≤ v0 ∧ v0 ≤ hi) (h1 : lo ≤ v1 ∧ v1 ≤ hi)
    (b : Buffer Int) (hb : @interpolate Int instInterpolableInt i0 v0 i1 v1 = some b) :
    ∀ v ∈ b.m_storage, lo - 1 ≤ v ∧ v ≤ hi + 1 := by
  intro v hv
  rcases h.lt_or_eq with hlt | heq
  · obtain ⟨idx, hidx, hget⟩ := List.getElem_of_mem hv
    have hsize := (@interpolate_size_eq Int instInterpolableInt i0 i1 v0 v1 b hb).1
    simp only [Buffer.size] at hsize
    have hg : b.get ((i0 + (idx : Int)) - i0) = some v := by
      unfold Buffer.get
      simp only [Buffer.size]
      rw [if_pos ⟨by omega, by omega⟩]
      have : (i0 + (idx : Int) - i0).toNat = idx := by omega
      rw [this, List.getElem?_eq_getElem hidx, hget]
    have hM2 : (9999 : ℚ) ≤ Float32.pow2 100 := by decide!
    have hq0 : |(v0 : ℚ)| ≤ 9999 := by
      rw [abs_le]
      constructor
      · have : (-9999 : Int) ≤ v0 := by omega
        exact_mod_cast this
      · have : v0 ≤ (9999 : Int) := by omega
        exact_mod_cast this
    have hq1 : |(v1 : ℚ)| ≤ 9999 := by
      rw [abs_le]
      constructor
      · have : (-9999 : Int) ≤ v1 := by omega
        exact_mod_cast this
      · have : v1 ≤ (9999 : Int) := by omega
        exact_mod_cast this
    obtain ⟨d, hd, _, _, hnear⟩ := interpolate_int_within i0 i1 hlt v0 v1 9999 (by norm_num) hM2
      hq0 hq1 b hb (i0 + (idx : Int)) (by omega) (by omega)
    rw [hg] at hd
    have hvd : v = Float32.to_int d := Option.some.inj hd
    rw [← hvd] at hnear
    have hn0 : (0 : ℚ) < ((i1 - i0 : Int) : ℚ) := by
      have : 0 < i1 - i0 := by omega
      exact_mod_cast this
    have hk0 : (0 : ℚ) ≤ ((i0 + (idx : Int) - i0 : Int) : ℚ) := by
      have : 0 ≤ i0 + (idx : Int) - i0 := by omega
      exact_mod_cast this
    have hkn : ((i0 + (idx : Int) - i0 : Int) : ℚ) ≤ ((i1 - i0 : Int) : ℚ) := by
      have : i0 + (idx : Int) - i0 ≤ i1 - i0 := by omega
      exact_mod_cast this
    obtain ⟨hl1, hl2⟩ := lerp_between (lo : ℚ) (hi : ℚ) (v0 : ℚ) (v1 : ℚ)
      (((i0 + (idx : Int) - i0 : Int) : ℚ) / ((i1 - i0 : Int) : ℚ))
      ⟨by exact_mod_cast h0.1, by exact_mod_cast h0.2⟩
      ⟨by exact_mod_cast h1.1, by exact_mod_cast h1.2⟩
      (div_nonneg hk0 (le_of_lt hn0)) ((div_le_one hn0).mpr hkn)
    rw [abs_lt] at hnear
    have ha : ((lo : Int) : ℚ) - 2 < (v : ℚ) := by linarith [hnear.1]
    have hb' : (v : ℚ) < ((hi : Int) : ℚ) + 2 := by linarith [hnear.2]
    have ha' : lo - 2 < v := by exact_mod_cast ha
    have hb'' : v < hi + 2 := by exact_mod_cast hb'
    omega
  · subst heq
    rw [@interpolate_eq_of_eq Int instInterpolableInt] at hb
    cases hb
    simp only [List.mem_singleton] at hv
    subst hv
    omega

/-- Every value of the two edge sequences of a sorted triangle whose vertices have an `x`
of magnitude at most `9999` lies within one pixel of the least and the greatest `x` of the
three vertices. -/
theorem single_edge_sequences_between (q0 q1 q2 : Point2) (h01 : q0.y ≤ q1.y)
    (h12 : q1.y ≤ q2.y) (x_left x_right : Buffer Int) (tag : LeftSide)
    (hpts : interpolate_points q0 q1 q2 = some (x_left, x_right, tag)) (lo hi : Int)
    (hlo : -9999 ≤ lo) (hhi : hi ≤ 9999)
    (h0 : lo ≤ q0.x ∧ q0.x ≤ hi) (h1 : lo ≤ q1.x ∧ q1.x ≤ hi) (h2 : lo ≤ q2.x ∧ q2.x ≤ hi) :
    ∀ (k : Int) (v : Int), (x_left.get k = some v ∨ x_right.get k = some v) →
      lo - 1 ≤ v ∧ v ≤ hi + 1 := by
  obtain ⟨l, m, a, b, hl, hm, _, _, hcase⟩ :=
    (single_interpolate_points_eq_some_iff q0 q1 q2 x_left x_right tag).mp hpts
  have hlb : ∀ v ∈ l.m_storage, lo - 1 ≤ v ∧ v ≤ hi + 1 :=
    single_interpolate_int_mem_between q0.y q2.y (h01.trans h12) q0.x q2.x lo hi hlo hhi h0 h2
      l hl
  have hmb : ∀ v ∈ m.m_storage, lo - 1 ≤ v ∧ v ≤ hi + 1 := by
    obtain ⟨a01, a12, h01', h12', _, _, hmeq⟩ :=
      (@merged_short_edges_eq_some_iff Int instInterpolableInt q0 q1 q2 q0.x q1.x q2.x m).mp hm
    intro v hv
    rw [hmeq] at hv
    simp only [List.mem_append] at hv
    rcases hv with hv | hv
    · exact single_interpolate_int_mem_between q0.y q1.y h01 q0.x q1.x lo hi hlo hhi h0 h1
        a01 h01' v (List.mem_of_mem_dropLast hv)
    · exact single_interpolate_int_mem_between q1.y q2.y h12 q1.x q2.x lo hi hlo hhi h1 h2
        a12 h12' v hv
  intro k v hv
  rcases hcase with ⟨_, _, hxl, hxr⟩ | ⟨_, _, hxl, hxr⟩
  · rw [hxl, hxr] at hv
    rcases hv with hv | hv
    · exact hlb v (buffer_get_mem _ _ _ hv)
    · exact hmb v (buffer_get_mem _ _ _ hv)
  · rw [hxl, hxr] at hv
    rcases hv with hv | hv
    · exact hmb v (buffer_get_mem _ _ _ hv)
    · exact hlb v (buffer_get_mem _ _ _ hv)

end binary32

end cgfs

namespace cgfs

namespace binary32

open rasterizer

/-! ## C33: the bounding box of a filled triangle -/

/-- C33, amended.  For a triangle whose vertices have an `x` of magnitude at most `9999`,
`draw_filled_triangle` makes its calls whenever the triangle spans at most `kMaxSize`
scanlines; whenever it does, every point `(x, y)` it passes to `draw_pixel` satisfies
`min(p0.y,p1.y,p2.y) <= y <= max(p0.y,p1.y,p2.y)` and
`min(p0.x,p1.x,p2.x) - 1 <= x <= max(p0.x,p1.x,p2.x) + 1`, and no point is passed twice.
The edge values are truncations of float accumulators, which can fall short of a vertex by
less than one unit in the last place: the box is the bounding box of the vertices enlarged
by one pixel to the left and to the right. -/
theorem draw_filled_triangle_near_bounding_box (p0 p1 p2 : Point2) (color : Color)
    (hp0 : |p0.x| ≤ 9999) (hp1 : |p1.x| ≤ 9999) (hp2 : |p2.x| ≤ 9999) :
    (max p0.y (max p1.y p2.y) - min p0.y (min p1.y p2.y) + 1 ≤ (kMaxSize : Int) →
      ∃ pixels, draw_filled_triangle_pixels p0 p1 p2 color = some pixels) ∧
    ∀ pixels, draw_filled_triangle_pixels p0 p1 p2 color = some pixels →
      (∀ (canvas : Canvas),
        draw_filled_triangle canvas p0 p1 p2 color = Canvas.draw_pixels canvas pixels) ∧
      (∀ pc ∈ pixels,
        min p0.y (min p1.y p2.y) ≤ pc.1.y ∧ pc.1.y ≤ max p0.y (max p1.y p2.y) ∧
        min p0.x (min p1.x p2.x) - 1 ≤ pc.1.x ∧ pc.1.x ≤ max p0.x (max p1.x p2.x) + 1) ∧
      (pixels.map Prod.fst).Nodup := by
  obtain ⟨h01, h12⟩ := sort_points_by_y_sorted p0 p1 p2
  have hsort := sort_points_by_y_eq_bundles (p0, ()) (p1, ()) (p2, ())
  simp only [] at hsort
  have hbox := sort_point_bundles_by_y_forall
    (fun b : Point2 × Unit =>
      (min p0.y (min p1.y p2.y) ≤ b.1.y ∧ b.1.y ≤ max p0.y (max p1.y p2.y)) ∧
      (min p0.x (min p1.x p2.x) ≤ b.1.x ∧ b.1.x ≤ max p0.x (max p1.x p2.x)))
    (p0, ()) (p1, ()) (p2, ())
    ⟨⟨min_le_left _ _, le_max_left _ _⟩, ⟨min_le_left _ _, le_max_left _ _⟩⟩
    ⟨⟨(min_le_right _ _).trans (min_le_left _ _), (le_max_left _ _).trans (le_max_right _ _)⟩,
      ⟨(min_le_right _ _).trans (min_le_left _ _), (le_max_left _ _).trans (le_max_right _ _)⟩⟩
    ⟨⟨(min_le_right _ _).trans (min_le_right _ _), (le_max_right _ _).trans (le_max_right _ _)⟩,
      ⟨(min_le_right _ _).trans (min_le_right _ _),
        (le_max_right _ _).trans (le_max_right _ _)⟩⟩
  have e0 : (sort_point_bundles_by_y (p0, ()) (p1, ()) (p2, ())).1.1 =
      (sort_points_by_y p0 p1 p2).1 := by rw [hsort]
  have e1 : (sort_point_bundles_by_y (p0, ()) (p1, ()) (p2, ())).2.1.1 =
      (sort_points_by_y p0 p1 p2).2.1 := by rw [hsort]
  have e2 : (sort_point_bundles_by_y (p0, ()) (p1, ()) (p2, ())).2.2.1 =
      (sort_points_by_y p0 p1 p2).2.2 := by rw [hsort]
  simp only [e0, e1, e2] at hbox
  obtain ⟨⟨hy0, hx0⟩, ⟨hy1, hx1⟩, ⟨hy2, hx2⟩⟩ := hbox
  have hlo : -9999 ≤ min p0.x (min p1.x p2.x) := by
    rw [abs_le] at hp0 hp1 hp2
    exact le_min hp0.1 (le_min hp1.1 hp2.1)
  have hhi : max p0.x (max p1.x p2.x) ≤ 9999 := by
    rw [abs_le] at hp0 hp1 hp2
    exact max_le hp0.2 (max_le hp1.2 hp2.2)
  constructor
  · intro hcap
    obtain ⟨⟨x_left, x_right, tag⟩, hpts⟩ := single_interpolate_points_isSome _ _ _ h01 h12
      (by omega)
    obtain ⟨pixels, hpix, _⟩ := single_draw_filled_triangle_pixels_spec p0 p1 p2 color x_left
      x_right tag hpts
    exact ⟨pixels, hpix⟩
  · intro pixels hpix
    refine ⟨?_, ?_, single_draw_filled_triangle_pixels_nodup p0 p1 p2 color pixels hpix⟩
    · intro canvas
      unfold draw_filled_triangle
      rw [hpix]
      rfl
    · intro pc hpc
      cases hpts : interpolate_points (sort_points_by_y p0 p1 p2).1
          (sort_points_by_y p0 p1 p2).2.1 (sort_points_by_y p0 p1 p2).2.2 with
      | none =>
        unfold draw_filled_triangle_pixels at hpix
        simp only [] at hpix
        rw [hpts] at hpix
        exact Option.noConfusion hpix
      | some edges =>
        obtain ⟨x_left, x_right, tag⟩ := edges
        obtain ⟨pixels', hpix', hmem⟩ := single_draw_filled_triangle_pixels_spec p0 p1 p2 color
          x_left x_right tag hpts
        rw [hpix] at hpix'
        cases hpix'
        obtain ⟨_, hya, hyb, xl, xr, hxl, hxr, hxa, hxb⟩ := (hmem pc.1 pc.2).mp hpc
        have hbl := single_edge_sequences_between _ _ _ h01 h12 x_left x_right tag hpts
          (min p0.x (min p1.x p2.x)) (max p0.x (max p1.x p2.x)) hlo hhi hx0 hx1 hx2 _ xl
          (Or.inl hxl)
        have hbr := single_edge_sequences_between _ _ _ h01 h12 x_left x_right tag hpts
          (min p0.x (min p1.x p2.x)) (max p0.x (max p1.x p2.x)) hlo hhi hx0 hx1 hx2 _ xr
          (Or.inr hxr)
        exact ⟨hy0.1.trans hya, hyb.trans hy2.2, hbl.1.trans hxa, hxb.trans hbr.2⟩

/-- C33, instantiated on the triangle `(1,0), (2,0), (1,3)`: the four points passed to
`draw_pixel`, among them `(0,3)` one pixel to the left of the bounding box `1 <= x <= 2`,
lie within the box enlarged by one pixel, and they are pairwise distinct. -/
theorem draw_filled_triangle_near_bounding_box_witness :
    |(1 : Int)| ≤ 9999 ∧ |(2 : Int)| ≤ 9999 ∧
    draw_filled_triangle_pixels ⟨1, 0⟩ ⟨2, 0⟩ ⟨1, 3⟩ Color.kGray =
      some [(⟨1, 1⟩, Color.kGray), (⟨1, 2⟩, Color.kGray), (⟨0, 3⟩, Color.kGray),
        (⟨1, 3⟩, Color.kGray)] ∧
    (∀ pc ∈ [((⟨1, 1⟩ : Point2), Color.kGray), (⟨1, 2⟩, Color.kGray), (⟨0, 3⟩, Color.kGray),
        (⟨1, 3⟩, Color.kGray)],
      min (0 : Int) (min 0 3) ≤ pc.1.y ∧ pc.1.y ≤ max (0 : Int) (max 0 3) ∧
      min (1 : Int) (min 2 1) - 1 ≤ pc.1.x ∧ pc.1.x ≤ max (1 : Int) (max 2 1) + 1) ∧
    ([((⟨1, 1⟩ : Point2), Color.kGray), (⟨1, 2⟩, Color.kGray), (⟨0, 3⟩, Color.kGray),
        (⟨1, 3⟩, Color.kGray)].map Prod.fst).Nodup := by
  have hpix : draw_filled_triangle_pixels ⟨1, 0⟩ ⟨2, 0⟩ ⟨1, 3⟩ Color.kGray =
      some [(⟨1, 1⟩, Color.kGray), (⟨1, 2⟩, Color.kGray), (⟨0, 3⟩, Color.kGray),
        (⟨1, 3⟩, Color.kGray)] := by decide!
  have h := (draw_filled_triangle_near_bounding_box ⟨1, 0⟩ ⟨2, 0⟩ ⟨1, 3⟩ Color.kGray
    (by decide) (by decide) (by decide)).2 _ hpix
  exact ⟨by decide, by decide, hpix, h.2.1, h.2.2⟩

end binary32

end cgfs

namespace cgfs

namespace binary32

open rasterizer

/-! ## Depth tests on a depth buffer of the dimensions of the canvas -/

/-- The depth test on a well-formed buffer, in closed form: out of bounds it returns false
and leaves the buffer; in bounds the addressed cell exists, and the test compares the
stored value with `inv_z`. -/
theorem single_test_and_set_eq (b : DepthBuffer) (hwf : b.WellFormed) (point : Point2)
    (inv_z : Float32) :
    (¬ (0 ≤ Int.tdiv b.m_dimensions.width 2 + point.x ∧
        Int.tdiv b.m_dimensions.width 2 + point.x < b.m_dimensions.width ∧
        0 ≤ Int.tdiv b.m_dimensions.height 2 - point.y - 1 ∧
        Int.tdiv b.m_dimensions.height 2 - point.y - 1 < b.m_dimensions.height) →
      b.test_and_set point inv_z = some (false, b)) ∧
    ((0 ≤ Int.tdiv b.m_dimensions.width 2 + point.x ∧
        Int.tdiv b.m_dimensions.width 2 + point.x < b.m_dimensions.width ∧
        0 ≤ Int.tdiv b.m_dimensions.height 2 - point.y - 1 ∧
        Int.tdiv b.m_dimensions.height 2 - point.y - 1 < b.m_dimensions.height) →
      ∃ stored, b.m_buffer[((Int.tdiv b.m_dimensions.width 2 + point.x) +
          (Int.tdiv b.m_dimensions.height 2 - point.y - 1) * b.m_dimensions.width).toNat]?
            = some stored ∧
        b.test_and_set point inv_z =
          if Float32.lt stored inv_z = true then
            some (true, DepthBuffer.mk b.m_dimensions (b.m_buffer.set
              ((Int.tdiv b.m_dimensions.width 2 + point.x) +
                (Int.tdiv b.m_dimensions.height 2 - point.y - 1) *
                  b.m_dimensions.width).toNat inv_z))
          else some (false, b)) := by
  constructor
  · intro hout
    have hcond : Int.tdiv b.m_dimensions.width 2 + point.x < 0 ∨
        Int.tdiv b.m_dimensions.width 2 + point.x ≥ b.m_dimensions.width ∨
        Int.tdiv b.m_dimensions.height 2 - point.y - 1 < 0 ∨
        Int.tdiv b.m_dimensions.height 2 - point.y - 1 ≥ b.m_dimensions.height := by
      by_contra hc
      push_neg at hc
      exact hout ⟨hc.1, hc.2.1, hc.2.2.1, hc.2.2.2⟩
    unfold DepthBuffer.test_and_set
    simp only []
    rw [if_pos hcond]
  · rintro ⟨hx0, hxw, hy0, hyh⟩
    have hcond : ¬ (Int.tdiv b.m_dimensions.width 2 + point.x < 0 ∨
        Int.tdiv b.m_dimensions.width 2 + point.x ≥ b.m_dimensions.width ∨
        Int.tdiv b.m_dimensions.height 2 - point.y - 1 < 0 ∨
        Int.tdiv b.m_dimensions.height 2 - point.y - 1 ≥ b.m_dimensions.height) := by
      push_neg
      exact ⟨hx0, hxw, hy0, hyh⟩
    have hidx := row_major_index_lt _ _ _ _ hx0 hxw hy0 hyh
    have hlt : ((Int.tdiv b.m_dimensions.width 2 + point.x) +
        (Int.tdiv b.m_dimensions.height 2 - point.y - 1) * b.m_dimensions.width).toNat
          < b.m_buffer.length := by
      rw [hwf.2]
      omega
    refine ⟨b.m_buffer[((Int.tdiv b.m_dimensions.width 2 + point.x) +
        (Int.tdiv b.m_dimensions.height 2 - point.y - 1) * b.m_dimensions.width).toNat],
      List.getElem?_eq_getElem hlt, ?_⟩
    unfold DepthBuffer.test_and_set
    simp only []
    rw [if_neg hcond, List.getElem?_eq_getElem hlt]

/-- The depth test at a point that maps outside the canvas, on a depth buffer of the same
dimensions, returns false. -/
theorem single_test_and_set_out_of_canvas (db : DepthBuffer) (hdb : db.WellFormed)
    (canvas : Canvas) (hdim : db.m_dimensions = canvas.m_dimensions) (pt : Point2)
    (z : Float32) (hout : canvas.in_bounds pt = false) :
    db.test_and_set pt z = some (false, db) := by
  apply (single_test_and_set_eq db hdb pt z).1
  intro hb
  rw [hdim] at hb
  rw [(in_bounds_iff canvas pt).mpr hb] at hout
  exact Bool.noConfusion hout

/-- The depth test at a point that maps inside the canvas and whose cell holds `0.0f`, on a
depth buffer of the same dimensions, passes for every `z` with `0.0f < z` and writes `z` to
the cell. -/
theorem single_test_and_set_in_canvas (db : DepthBuffer) (hdb : db.WellFormed)
    (canvas : Canvas) (hdim : db.m_dimensions = canvas.m_dimensions) (pt : Point2)
    (z : Float32) (hz : Float32.lt 0 z = true) (hin : canvas.in_bounds pt = true)
    (hcell : db.m_buffer[canvas.pixel_index pt]? = some 0) :
    db.test_and_set pt z =
      some (true, ⟨db.m_dimensions, db.m_buffer.set (canvas.pixel_index pt) z⟩) := by
  have hb := (in_bounds_iff canvas pt).mp hin
  rw [← hdim] at hb
  obtain ⟨stored, hstored, heq⟩ := (single_test_and_set_eq db hdb pt z).2 hb
  have hidx : ((Int.tdiv db.m_dimensions.width 2 + pt.x) +
      (Int.tdiv db.m_dimensions.height 2 - pt.y - 1) * db.m_dimensions.width).toNat =
      canvas.pixel_index pt := by
    unfold Canvas.pixel_index
    rw [hdim]
  rw [hidx] at hstored heq
  rw [hcell] at hstored
  cases hstored
  rw [heq, if_pos hz]

/-- The effect of `draw_pixel` in terms of `in_bounds` and `pixel_index`. -/
theorem single_draw_pixel_eq (canvas : Canvas) (point : Point2) (color : Color) :
    Canvas.draw_pixel canvas point color =
      if canvas.in_bounds point = true then
        if canvas.pixel_index point < canvas.m_pixel_buffer.length then
          (Color.to_rgba_u8 color).map fun c =>
            ⟨canvas.m_pixel_buffer.set (canvas.pixel_index point) c, canvas.m_dimensions⟩
        else none
      else some canvas := by
  unfold Canvas.draw_pixel
  by_cases hin : canvas.in_bounds point = true
  · rw [if_pos hin]
    rw [in_bounds_iff] at hin
    obtain ⟨hx0, hxw, hy0, hyh⟩ := hin
    simp only []
    rw [if_neg (by omega)]
    rfl
  · rw [if_neg hin]
    rw [in_bounds_iff] at hin
    simp only []
    rw [if_pos (by omega)]

/-- Writing a pixel keeps a canvas well-formed and keeps its dimensions. -/
theorem single_draw_pixel_wellFormed (canvas : Canvas) (hwf : canvas.WellFormed)
    (point : Point2) (color : Color) (next : Canvas)
    (h : Canvas.draw_pixel canvas point color = some next) :
    next.WellFormed ∧ next.m_dimensions = canvas.m_dimensions := by
  rw [single_draw_pixel_eq] at h
  split at h
  · split at h
    · cases hc : Color.to_rgba_u8 color with
      | none => rw [hc] at h; exact Option.noConfusion h
      | some c =>
        rw [hc] at h
        simp only [Option.map_some', Option.some.injEq] at h
        subst h
        exact ⟨⟨hwf.1, by simpa using hwf.2⟩, rfl⟩
    · exact Option.noConfusion h
  · simp only [Option.some.injEq] at h
    subst h
    exact ⟨hwf, rfl⟩

/-- A sequence of depth-tested pixel writes at pairwise distinct points, with values
`z` that pass `0.0f < z`, on a depth buffer of the dimensions of the canvas that holds
`0.0f` at each of these points, changes the canvas as the plain writes of the same points
do. -/
theorem single_depth_tested_draw_pixels_fresh (color : Color)
    (tests : List (Point2 × Float32)) :
    ∀ (canvas : Canvas) (db : DepthBuffer), canvas.WellFormed → db.WellFormed →
      db.m_dimensions = canvas.m_dimensions →
      (tests.map Prod.fst).Nodup → (∀ t ∈ tests, Float32.lt 0 t.2 = true) →
      (∀ t ∈ tests, canvas.in_bounds t.1 = true →
        db.m_buffer[canvas.pixel_index t.1]? = some 0) →
      (depth_tested_draw_pixels color canvas db tests).map Prod.fst =
        Canvas.draw_pixels canvas (tests.map fun t => (t.1, color)) := by
  induction tests with
  | nil =>
    intro canvas db _ _ _ _ _ _
    rfl
  | cons t rest ih =>
    intro canvas db hwf hdb hdim hnd hpos hcells
    obtain ⟨pt, z⟩ := t
    rw [List.map_cons, List.nodup_cons] at hnd
    have hz : Float32.lt 0 z = true := hpos (pt, z) (List.mem_cons_self _ _)
    rw [List.map_cons]
    unfold depth_tested_draw_pixels Canvas.draw_pixels
    cases hin : canvas.in_bounds pt with
    | false =>
      rw [single_test_and_set_out_of_canvas db hdb canvas hdim pt z hin]
      have hdraw : Canvas.draw_pixel canvas pt color = some canvas := by
        rw [single_draw_pixel_eq, hin]
        rfl
      simp only [hdraw]
      exact ih canvas db hwf hdb hdim hnd.2
        (fun t ht => hpos t (List.mem_cons_of_mem _ ht))
        (fun t ht => hcells t (List.mem_cons_of_mem _ ht))
    | true =>
      rw [single_test_and_set_in_canvas db hdb canvas hdim pt z hz hin
        (hcells (pt, z) (List.mem_cons_self _ _) hin)]
      simp only []
      cases hdraw : Canvas.draw_pixel canvas pt color with
      | none => rfl
      | some next =>
        simp only []
        obtain ⟨hwf', hdim'⟩ := single_draw_pixel_wellFormed canvas hwf pt color next hdraw
        have hdb' : (DepthBuffer.mk db.m_dimensions
            (db.m_buffer.set (canvas.pixel_index pt) z)).WellFormed :=
          ⟨hdb.1, by rw [List.length_set]; exact hdb.2⟩
        apply ih next _ hwf' hdb' (by rw [hdim']; exact hdim) hnd.2
          (fun t ht => hpos t (List.mem_cons_of_mem _ ht))
        intro t ht hint
        rw [in_bounds_of_dimensions next canvas hdim'] at hint
        rw [pixel_index_of_dimensions next canvas hdim']
        have hne : canvas.pixel_index pt ≠ canvas.pixel_index t.1 := by
          intro heq
          have := pixel_index_injective canvas pt t.1 hin hint heq
          apply hnd.1
          rw [this]
          exact List.mem_map.mpr ⟨t, ht, rfl⟩
        simp only []
        rw [List.getElem?_set_ne hne]
        exact hcells t (List.mem_cons_of_mem _ ht) hint

end binary32

end cgfs

namespace cgfs

namespace Float32

/-- The literal `0.0f` is the positive zero. -/
theorem zero_eq_finite : (0 : Float32) = finite 0 := by
  show round ((0 : Nat) : ℚ) = finite 0
  simp [round]

/-- The literal `1.0f`. -/
theorem one_eq_finite : (1 : Float32) = finite 1 := by
  show round ((1 : Nat) : ℚ) = finite 1
  decide!

/-- A finite number of positive value passes the test `0.0f < d`. -/
theorem lt_zero_of_pos (d : Float32) (hf : d.is_finite = true) (hpos : 0 < d.toRat) :
    Float32.lt 0 d = true := by
  rw [zero_eq_finite]
  cases d with
  | finite q =>
    simp only [toRat] at hpos
    simp [lt, toRat, hpos]
  | neg_zero => simp [toRat] at hpos
  | infinity negative => simp [is_finite] at hf
  | nan => simp [is_finite] at hf

/-- The inverse `1.0f / z` of a finite depth `z` with `D <= z <= 4000 D`, for a `D` between
`2^-99` and `1`: it is finite and lies between `249 / 1000000 / D` and `1001 / 1000 / D`. -/
theorem inverse_depth_within (D : ℚ) (hD0 : pow2 (-99) ≤ D) (hD1 : D ≤ 1) (z : Float32)
    (hf : z.is_finite = true) (hz0 : D ≤ z.toRat) (hz1 : z.toRat ≤ 4000 * D) :
    ((1 : Float32) / z).is_finite = true ∧
      249 / 1000000 / D ≤ ((1 : Float32) / z).toRat ∧
      ((1 : Float32) / z).toRat ≤ 1001 / 1000 / D := by
  have hp99 : (0 : ℚ) < pow2 (-99) := pow2_pos _
  have hDpos : 0 < D := lt_of_lt_of_le hp99 hD0
  have hzpos : 0 < z.toRat := lt_of_lt_of_le hDpos hz0
  have hinvD : 1 / D ≤ pow2 99 := by
    have e : pow2 99 = 1 / pow2 (-99) := by decide!
    rw [e]
    exact one_div_le_one_div_of_le hp99 hD0
  have hone : (1 : ℚ) ≤ 1 / D := by
    rw [le_div_iff₀ hDpos]
    linarith
  have hq1 : 1 / z.toRat ≤ 1 / D := one_div_le_one_div_of_le hDpos hz0
  have hq0 : 1 / (4000 * D) ≤ 1 / z.toRat := one_div_le_one_div_of_le hzpos hz1
  have hqpos : 0 < 1 / z.toRat := one_div_pos.mpr hzpos
  have h99 : pow2 99 ≤ pow2 127 := pow2_le_pow2 (by decide)
  have hdiv : (1 : Float32) / z = round (1 / z.toRat) := by
    rw [one_eq_finite]
    cases z with
    | finite q =>
      simp only [toRat] at hzpos
      show div (finite 1) (finite q) = _
      simp [div, is_zero, toRat, hzpos.ne']
    | neg_zero => simp [toRat] at hzpos
    | infinity negative => simp [is_finite] at hf
    | nan => simp [is_finite] at hf
  obtain ⟨hfin, herr⟩ := round_error (1 / z.toRat)
    (by rw [abs_of_pos hqpos]; linarith)
  rw [hdiv]
  refine ⟨hfin, ?_, ?_⟩
  · rw [abs_of_pos hqpos, abs_le] at herr
    have h150 : pow2 (-150) ≤ 1 / 16777216 * (1 / D) := by
      have : pow2 (-150) ≤ 1 / 16777216 := by decide!
      nlinarith
    have e : 1 / (4000 * D) = 1 / 4000 * (1 / D) := by
      field_simp
    have e2 : 249 / 1000000 / D = 249 / 1000000 * (1 / D) := by ring
    rw [e] at hq0
    rw [e2]
    have h1 := herr.1
    nlinarith
  · rw [abs_of_pos hqpos, abs_le] at herr
    have h150 : pow2 (-150) ≤ 1 / 16777216 * (1 / D) := by
      have : pow2 (-150) ≤ 1 / 16777216 := by decide!
      nlinarith
    have e2 : 1001 / 1000 / D = 1001 / 1000 * (1 / D) := by ring
    rw [e2]
    have h2 := herr.2
    nlinarith

end Float32

namespace binary32

open rasterizer

/-! ## Interpolated floats stay near the range of the end values -/

/-- Every sample of the float kind, between finite end values within `[lo, hi]` of magnitude
at most `M`, is finite and lies in `[lo - M / 10000, hi + M / 10000]`. -/
theorem single_interpolate_float_mem_near (i0 i1 : Int) (v0 v1 : Float32) (lo hi M : ℚ)
    (hM1 : 1 ≤ M) (hM2 : M ≤ Float32.pow2 100) (hf0 : v0.is_finite = true)
    (hf1 : v1.is_finite = true) (h0 : lo ≤ v0.toRat ∧ v0.toRat ≤ hi)
    (h1 : lo ≤ v1.toRat ∧ v1.toRat ≤ hi) (hlo : -M ≤ lo) (hhi : hi ≤ M)
    (b : Buffer Float32) (hb : interpolate i0 v0 i1 v1 = some b) :
    ∀ d ∈ b.m_storage, d.is_finite = true ∧ lo - M / 10000 ≤ d.toRat ∧
      d.toRat ≤ hi + M / 10000 := by
  intro d hd
  have hsize := (interpolate_size_eq i0 i1 v0 v1 b hb).1
  simp only [Buffer.size] at hsize
  rcases lt_trichotomy i0 i1 with hlt | heq | hgt
  · obtain ⟨idx, hidx, hget⟩ := List.getElem_of_mem hd
    have hg : b.get ((i0 + (idx : Int)) - i0) = some d := by
      unfold Buffer.get
      simp only [Buffer.size]
      rw [if_pos ⟨by omega, by omega⟩]
      have : (i0 + (idx : Int) - i0).toNat = idx := by omega
      rw [this, List.getElem?_eq_getElem hidx, hget]
    obtain ⟨d', hd', hfin, hnear⟩ := interpolate_float_within i0 i1 hlt v0 v1 M hM1 hM2 hf0 hf1
      (abs_le.mpr ⟨by linarith [h0.1], by linarith [h0.2]⟩)
      (abs_le.mpr ⟨by linarith [h1.1], by linarith [h1.2]⟩) b hb (i0 + (idx : Int))
      (by omega) (by omega)
    rw [hg] at hd'
    cases hd'
    have hn0 : (0 : ℚ) < ((i1 - i0 : Int) : ℚ) := by
      have : 0 < i1 - i0 := by omega
      exact_mod_cast this
    have hk0 : (0 : ℚ) ≤ ((i0 + (idx : Int) - i0 : Int) : ℚ) := by
      have : 0 ≤ i0 + (idx : Int) - i0 := by omega
      exact_mod_cast this
    have hkn : ((i0 + (idx : Int) - i0 : Int) : ℚ) ≤ ((i1 - i0 : Int) : ℚ) := by
      have : i0 + (idx : Int) - i0 ≤ i1 - i0 := by omega
      exact_mod_cast this
    obtain ⟨hl1, hl2⟩ := lerp_between lo hi v0.toRat v1.toRat
      (((i0 + (idx : Int) - i0 : Int) : ℚ) / ((i1 - i0 : Int) : ℚ)) h0 h1
      (div_nonneg hk0 (le_of_lt hn0)) ((div_le_one hn0).mpr hkn)
    rw [abs_le] at hnear
    exact ⟨hfin, by linarith [hnear.1], by linarith [hnear.2]⟩
  · subst heq
    rw [interpolate_eq_of_eq] at hb
    cases hb
    simp only [List.mem_singleton] at hd
    subst hd
    have hM0 : (0 : ℚ) ≤ M / 10000 := by positivity
    exact ⟨hf0, by linarith [h0.1], by linarith [h0.2]⟩
  · have hlen : b.m_storage.length = 0 := by omega
    rw [List.length_eq_zero] at hlen
    rw [hlen] at hd
    exact absurd hd (List.not_mem_nil _)

/-- The float attributes along the edges of a triangle, for finite vertex attributes within
`[lo, hi]` of magnitude at most `M`: every value is finite and lies in
`[lo - M / 10000, hi + M / 10000]`. -/
theorem single_interpolate_attributes_near (lo hi M : ℚ) (hM1 : 1 ≤ M)
    (hM2 : M ≤ Float32.pow2 100) (hlo : -M ≤ lo) (hhi : hi ≤ M) (q0 q1 q2 : Point2)
    (a0 a1 a2 : Float32) (hf0 : a0.is_finite = true) (hf1 : a1.is_finite = true)
    (hf2 : a2.is_finite = true) (h0 : lo ≤ a0.toRat ∧ a0.toRat ≤ hi)
    (h1 : lo ≤ a1.toRat ∧ a1.toRat ≤ hi) (h2 : lo ≤ a2.toRat ∧ a2.toRat ≤ hi)
    (side : LeftSide) (al ar : Buffer Float32)
    (hatt : interpolate_attributes q0 q1 q2 a0 a1 a2 side = some (al, ar)) :
    (∀ d ∈ al.m_storage, d.is_finite = true ∧ lo - M / 10000 ≤ d.toRat ∧
      d.toRat ≤ hi + M / 10000) ∧
    (∀ d ∈ ar.m_storage, d.is_finite = true ∧ lo - M / 10000 ≤ d.toRat ∧
      d.toRat ≤ hi + M / 10000) := by
  obtain ⟨l, m, hl, hm, hcase⟩ :=
    (interpolate_attributes_eq_some_iff q0 q1 q2 a0 a1 a2 side al ar).mp hatt
  have hlb := single_interpolate_float_mem_near _ _ _ _ lo hi M hM1 hM2 hf0 hf2 h0 h2 hlo hhi
    l hl
  have hmb : ∀ d ∈ m.m_storage, d.is_finite = true ∧ lo - M / 10000 ≤ d.toRat ∧
      d.toRat ≤ hi + M / 10000 := by
    obtain ⟨a01, a12, h01, h12, _, _, hmeq⟩ :=
      (merged_short_edges_eq_some_iff q0 q1 q2 a0 a1 a2 m).mp hm
    intro v hv
    rw [hmeq] at hv
    rcases List.mem_append.mp hv with h | h
    · exact single_interpolate_float_mem_near _ _ _ _ lo hi M hM1 hM2 hf0 hf1 h0 h1 hlo hhi
        a01 h01 v (List.mem_of_mem_dropLast h)
    · exact single_interpolate_float_mem_near _ _ _ _ lo hi M hM1 hM2 hf1 hf2 h1 h2 hlo hhi
        a12 h12 v h
  rcases hcase with ⟨_, rfl, rfl⟩ | ⟨_, rfl, rfl⟩
  · exact ⟨hlb, hmb⟩
  · exact ⟨hmb, hlb⟩

/-- The attribute sequences exist whenever the edge sequences do. -/
theorem single_interpolate_attributes_of_points {T : Type} [Interpolable T]
    (q0 q1 q2 : Point2) (a0 a1 a2 : T) (x_left x_right : Buffer Int) (tag : LeftSide)
    (hpts : interpolate_points q0 q1 q2 = some (x_left, x_right, tag)) :
    ∃ al ar, interpolate_attributes q0 q1 q2 a0 a1 a2 tag = some (al, ar) := by
  obtain ⟨l, m, a, b, hl, hm, _, _, hcase⟩ :=
    (single_interpolate_points_eq_some_iff q0 q1 q2 x_left x_right tag).mp hpts
  obtain ⟨l', hl'⟩ := @long_edge_isSome_transfer Int T instInterpolableInt _ q0 q2 q0.x q2.x
    a0 a2 l hl
  obtain ⟨m', hm'⟩ := @merged_short_edges_isSome_transfer Int T instInterpolableInt _ q0 q1 q2
    q0.x q1.x q2.x a0 a1 a2 m hm
  rcases hcase with ⟨_, htag, _, _⟩ | ⟨_, htag, _, _⟩
  · exact ⟨l', m', (interpolate_attributes_eq_some_iff _ _ _ _ _ _ _ _ _).mpr
      ⟨l', m', hl', hm', Or.inl ⟨htag, rfl, rfl⟩⟩⟩
  · exact ⟨m', l', (interpolate_attributes_eq_some_iff _ _ _ _ _ _ _ _ _).mpr
      ⟨l', m', hl', hm', Or.inr ⟨htag, rfl, rfl⟩⟩⟩

end binary32

end cgfs

namespace cgfs

namespace binary32

open rasterizer

/-! ## The depth tests of a depth-tested filled triangle -/

/-- The body of `draw_filled_triangle_depth_tested_tests` once the edge sequences are
known. -/
theorem single_draw_filled_triangle_depth_tested_tests_eq (p0 : Point2) (z0 : Float32)
    (p1 : Point2) (z1 : Float32) (p2 : Point2) (z2 : Float32) (x_left x_right : Buffer Int)
    (tag : LeftSide) (z_left z_right : Buffer Float32)
    (hpts : interpolate_points (sort_point_bundles_by_y (p0, z0) (p1, z1) (p2, z2)).1.1
      (sort_point_bundles_by_y (p0, z0) (p1, z1) (p2, z2)).2.1.1
      (sort_point_bundles_by_y (p0, z0) (p1, z1) (p2, z2)).2.2.1 = some (x_left, x_right, tag))
    (hatt : interpolate_attributes (sort_point_bundles_by_y (p0, z0) (p1, z1) (p2, z2)).1.1
      (sort_point_bundles_by_y (p0, z0) (p1, z1) (p2, z2)).2.1.1
      (sort_point_bundles_by_y (p0, z0) (p1, z1) (p2, z2)).2.2.1
      (1 / (sort_point_bundles_by_y (p0, z0) (p1, z1) (p2, z2)).1.2)
      (1 / (sort_point_bundles_by_y (p0, z0) (p1, z1) (p2, z2)).2.1.2)
      (1 / (sort_point_bundles_by_y (p0, z0) (p1, z1) (p2, z2)).2.2.2) tag
        = some (z_left, z_right)) :
    draw_filled_triangle_depth_tested_tests p0 z0 p1 z1 p2 z2 =
      for_each_concat
        (draw_filled_triangle_depth_tested_row x_left x_right z_left z_right
          (sort_point_bundles_by_y (p0, z0) (p1, z1) (p2, z2)).1.1)
        (int_range (sort_point_bundles_by_y (p0, z0) (p1, z1) (p2, z2)).1.1.y
          (sort_point_bundles_by_y (p0, z0) (p1, z1) (p2, z2)).2.2.1.y) := by
  unfold draw_filled_triangle_depth_tested_tests
  simp only []
  rw [hpts]
  simp only [Option.some_bind]
  rw [hatt]
  rfl

/-- A segment of interpolated values can be read at every pixel of its scanline. -/
theorem single_segment_get (xl xr : Int) (zl zr : Float32) (seg : Buffer Float32)
    (hseg : interpolate xl zl xr zr = some seg) (x : Int) (hx0 : xl ≤ x) (hx1 : x ≤ xr) :
    ∃ s, seg.get (x - xl) = some s := by
  have hsize := (interpolate_size_eq xl xr zl zr seg hseg).1
  exact buffer_get_of_lt seg (x - xl) (by omega) (by omega)

/-- One scanline of `draw_filled_triangle_depth_tested` that fits the capacity of a
`Buffer`: it tests the points of the scanline of `draw_filled_triangle`, in order, each with
a value of the interpolated segment. -/
theorem single_draw_filled_triangle_depth_tested_row_spec (x_left x_right : Buffer Int)
    (z_left z_right : Buffer Float32) (p0 : Point2) (y : Int) (xl xr : Int)
    (zl zr : Float32)
    (hxl : x_left.get (y - p0.y) = some xl) (hxr : x_right.get (y - p0.y) = some xr)
    (hzl : z_left.get (y - p0.y) = some zl) (hzr : z_right.get (y - p0.y) = some zr)
    (hw : xr - xl + 1 ≤ (kMaxSize : Int)) :
    ∃ tests segment_zs, interpolate xl zl xr zr = some segment_zs ∧
      draw_filled_triangle_depth_tested_row x_left x_right z_left z_right p0 y = some tests ∧
      tests.map Prod.fst = (int_range xl xr).map (fun x => (⟨x, y⟩ : Point2)) ∧
      ∀ t ∈ tests, t.2 ∈ segment_zs.m_storage := by
  have hsome : (interpolate xl zl xr zr).isSome = true :=
    (interpolate_isSome_iff xl xr zl zr).mpr (by omega)
  obtain ⟨seg, hseg⟩ := Option.isSome_iff_exists.mp hsome
  have hrow : draw_filled_triangle_depth_tested_row x_left x_right z_left z_right p0 y =
      some ((int_range xl xr).map fun x =>
        ((⟨x, y⟩ : Point2), (seg.get (x - xl)).getD 0)) := by
    unfold draw_filled_triangle_depth_tested_row
    rw [hxl, hxr, hzl, hzr]
    simp only [Option.some_bind]
    rw [hseg]
    simp only [Option.some_bind]
    rw [for_each_concat_congr (draw_filled_triangle_depth_tested_pixel seg xl y)
      (fun x => some [((⟨x, y⟩ : Point2), (seg.get (x - xl)).getD 0)]) (int_range xl xr) (by
        intro x hx
        rw [mem_int_range] at hx
        obtain ⟨s, hs⟩ := single_segment_get xl xr zl zr seg hseg x hx.1 hx.2
        unfold draw_filled_triangle_depth_tested_pixel
        simp only [hs, Option.some_bind, Option.getD_some]),
      for_each_concat_some, flatMap_singleton_eq_map]
  refine ⟨_, seg, hseg, hrow, ?_, ?_⟩
  · rw [List.map_map]
    rfl
  · intro t ht
    rw [List.mem_map] at ht
    obtain ⟨x, hx, hxt⟩ := ht
    rw [mem_int_range] at hx
    obtain ⟨s, hs⟩ := single_segment_get xl xr zl zr seg hseg x hx.1 hx.2
    rw [← hxt, hs]
    exact buffer_get_mem _ _ _ hs

/-- One scanline of `draw_filled_triangle_depth_tested` fails when the scanline exceeds the
capacity of a `Buffer`. -/
theorem single_draw_filled_triangle_depth_tested_row_none (x_left x_right : Buffer Int)
    (z_left z_right : Buffer Float32) (p0 : Point2) (y : Int) (xl xr : Int)
    (zl zr : Float32)
    (hxl : x_left.get (y - p0.y) = some xl) (hxr : x_right.get (y - p0.y) = some xr)
    (hzl : z_left.get (y - p0.y) = some zl) (hzr : z_right.get (y - p0.y) = some zr)
    (hw : (kMaxSize : Int) < xr - xl + 1) :
    draw_filled_triangle_depth_tested_row x_left x_right z_left z_right p0 y = none := by
  have hnone : interpolate xl zl xr zr = none := by
    cases h : interpolate xl zl xr zr with
    | none => rfl
    | some b =>
      have := (interpolate_isSome_iff xl xr zl zr).mp (by rw [h]; rfl)
      omega
  unfold draw_filled_triangle_depth_tested_row
  rw [hxl, hxr, hzl, hzr]
  simp only [Option.some_bind]
  rw [hnone]
  rfl

/-- The depth tests of `draw_filled_triangle_depth_tested` on a triangle whose finite
depths lie between `D` and `4000 D`, for a `D` between `2^-99` and `1`, and whose scanlines
each span at most `kMaxSize` pixels: the points tested are the points written by
`draw_filled_triangle`, in order, and each value tested is finite and positive. -/
theorem single_draw_filled_triangle_depth_tested_tests_spec (p0 : Point2) (z0 : Float32)
    (p1 : Point2) (z1 : Float32) (p2 : Point2) (z2 : Float32) (color : Color) (D : ℚ)
    (hD0 : Float32.pow2 (-99) ≤ D) (hD1 : D ≤ 1)
    (hz0 : z0.is_finite = true ∧ D ≤ z0.toRat ∧ z0.toRat ≤ 4000 * D)
    (hz1 : z1.is_finite = true ∧ D ≤ z1.toRat ∧ z1.toRat ≤ 4000 * D)
    (hz2 : z2.is_finite = true ∧ D ≤ z2.toRat ∧ z2.toRat ≤ 4000 * D)
    (hw : ∀ x_left x_right tag,
      interpolate_points (sort_points_by_y p0 p1 p2).1 (sort_points_by_y p0 p1 p2).2.1
        (sort_points_by_y p0 p1 p2).2.2 = some (x_left, x_right, tag) →
      ∀ (k xl xr : Int), x_left.get k = some xl → x_right.get k = some xr →
        xr - xl + 1 ≤ (kMaxSize : Int)) :
    (draw_filled_triangle_depth_tested_tests p0 z0 p1 z1 p2 z2).map
        (List.map fun t => (t.1, color)) = draw_filled_triangle_pixels p0 p1 p2 color ∧
    ∀ tests, draw_filled_triangle_depth_tested_tests p0 z0 p1 z1 p2 z2 = some tests →
      ∀ t ∈ tests, t.2.is_finite = true ∧ 0 < t.2.toRat := by
  have hsort := sort_points_by_y_eq_bundles (p0, z0) (p1, z1) (p2, z2)
  simp only [] at hsort
  obtain ⟨hs0, hs1, hs2⟩ := sort_point_bundles_by_y_forall
    (fun b : Point2 × Float32 =>
      b.2.is_finite = true ∧ D ≤ b.2.toRat ∧ b.2.toRat ≤ 4000 * D)
    (p0, z0) (p1, z1) (p2, z2) hz0 hz1 hz2
  obtain ⟨h01, h12⟩ := sort_point_bundles_by_y_sorted (p0, z0) (p1, z1) (p2, z2)
  rw [hsort] at hw
  simp only [] at hw
  cases hpts : interpolate_points (sort_point_bundles_by_y (p0, z0) (p1, z1) (p2, z2)).1.1
      (sort_point_bundles_by_y (p0, z0) (p1, z1) (p2, z2)).2.1.1
      (sort_point_bundles_by_y (p0, z0) (p1, z1) (p2, z2)).2.2.1 with
  | none =>
    have htests : draw_filled_triangle_depth_tested_tests p0 z0 p1 z1 p2 z2 = none := by
      unfold draw_filled_triangle_depth_tested_tests
      simp only []
      rw [hpts]
      rfl
    constructor
    · rw [htests]
      unfold draw_filled_triangle_pixels
      rw [hsort]
      simp only []
      rw [hpts]
      rfl
    · intro tests h
      rw [htests] at h
      exact Option.noConfusion h
  | some edges =>
    obtain ⟨x_left, x_right, tag⟩ := edges
    obtain ⟨z_left, z_right, hatt⟩ := single_interpolate_attributes_of_points _ _ _
      (1 / (sort_point_bundles_by_y (p0, z0) (p1, z1) (p2, z2)).1.2)
      (1 / (sort_point_bundles_by_y (p0, z0) (p1, z1) (p2, z2)).2.1.2)
      (1 / (sort_point_bundles_by_y (p0, z0) (p1, z1) (p2, z2)).2.2.2) x_left x_right tag hpts
    obtain ⟨hsl, hsr⟩ := single_interpolate_points_sizes _ _ _ h01 h12 x_left x_right tag hpts
    obtain ⟨hal, har⟩ := interpolate_attributes_sizes _ _ _ h01 h12 _ _ _ tag z_left z_right
      hatt
    obtain ⟨hf0, hl0, hu0⟩ := Float32.inverse_depth_within D hD0 hD1 _ hs0.1 hs0.2.1 hs0.2.2
    obtain ⟨hf1, hl1, hu1⟩ := Float32.inverse_depth_within D hD0 hD1 _ hs1.1 hs1.2.1 hs1.2.2
    obtain ⟨hf2, hl2, hu2⟩ := Float32.inverse_depth_within D hD0 hD1 _ hs2.1 hs2.2.1 hs2.2.2
    have hp99 : (0 : ℚ) < Float32.pow2 (-99) := Float32.pow2_pos _
    have hDpos : 0 < D := lt_of_lt_of_le hp99 hD0
    have hI1 : (1 : ℚ) ≤ 1 / D := by
      rw [le_div_iff₀ hDpos]
      linarith
    have hI2 : 1 / D ≤ Float32.pow2 99 := by
      have e : Float32.pow2 99 = 1 / Float32.pow2 (-99) := by decide!
      rw [e]
      exact one_div_le_one_div_of_le hp99 hD0
    have h100 : Float32.pow2 100 = 2 * Float32.pow2 99 := by decide!
    have e1 : (249 : ℚ) / 1000000 / D = 249 / 1000000 * (1 / D) := by ring
    have e2 : (1001 : ℚ) / 1000 / D = 1001 / 1000 * (1 / D) := by ring
    rw [e1] at hl0 hl1 hl2
    rw [e2] at hu0 hu1 hu2
    have hbounds := single_interpolate_attributes_near (249 / 1000000 * (1 / D))
      (1001 / 1000 * (1 / D)) (1001 / 1000 * (1 / D)) (by linarith) (by rw [h100]; linarith)
      (by linarith) le_rfl _ _ _ _ _ _ hf0 hf1 hf2 ⟨hl0, hu0⟩ ⟨hl1, hu1⟩ ⟨hl2, hu2⟩
      tag z_left z_right hatt
    rw [single_draw_filled_triangle_depth_tested_tests_eq p0 z0 p1 z1 p2 z2 x_left x_right tag
      z_left z_right hpts hatt]
    have hfilled : draw_filled_triangle_pixels p0 p1 p2 color =
        for_each_concat (draw_filled_triangle_row x_left x_right
          (sort_point_bundles_by_y (p0, z0) (p1, z1) (p2, z2)).1.1 color)
          (int_range (sort_point_bundles_by_y (p0, z0) (p1, z1) (p2, z2)).1.1.y
            (sort_point_bundles_by_y (p0, z0) (p1, z1) (p2, z2)).2.2.1.y) := by
      unfold draw_filled_triangle_pixels
      rw [hsort]
      simp only []
      rw [hpts]
      rfl
    have hrows : ∀ y ∈ int_range (sort_point_bundles_by_y (p0, z0) (p1, z1) (p2, z2)).1.1.y
        (sort_point_bundles_by_y (p0, z0) (p1, z1) (p2, z2)).2.2.1.y,
        ∃ tests xl xr zl zr segment_zs,
          x_left.get (y - (sort_point_bundles_by_y (p0, z0) (p1, z1) (p2, z2)).1.1.y)
            = some xl ∧
          x_right.get (y - (sort_point_bundles_by_y (p0, z0) (p1, z1) (p2, z2)).1.1.y)
            = some xr ∧
          z_left.get (y - (sort_point_bundles_by_y (p0, z0) (p1, z1) (p2, z2)).1.1.y)
            = some zl ∧
          z_right.get (y - (sort_point_bundles_by_y (p0, z0) (p1, z1) (p2, z2)).1.1.y)
            = some zr ∧
          interpolate xl zl xr zr = some segment_zs ∧
          draw_filled_triangle_depth_tested_row x_left x_right z_left z_right
            (sort_point_bundles_by_y (p0, z0) (p1, z1) (p2, z2)).1.1 y = some tests ∧
          tests.map Prod.fst = (int_range xl xr).map (fun x => (⟨x, y⟩ : Point2)) ∧
          ∀ t ∈ tests, t.2 ∈ segment_zs.m_storage := by
      intro y hy
      rw [mem_int_range] at hy
      obtain ⟨xl, hxl⟩ := buffer_get_of_lt x_left
        (y - (sort_point_bundles_by_y (p0, z0) (p1, z1) (p2, z2)).1.1.y) (by omega) (by omega)
      obtain ⟨xr, hxr⟩ := buffer_get_of_lt x_right
        (y - (sort_point_bundles_by_y (p0, z0) (p1, z1) (p2, z2)).1.1.y) (by omega) (by omega)
      obtain ⟨zl, hzl⟩ := buffer_get_of_lt z_left
        (y - (sort_point_bundles_by_y (p0, z0) (p1, z1) (p2, z2)).1.1.y) (by omega) (by omega)
      obtain ⟨zr, hzr⟩ := buffer_get_of_lt z_right
        (y - (sort_point_bundles_by_y (p0, z0) (p1, z1) (p2, z2)).1.1.y) (by omega) (by omega)
      obtain ⟨tests, seg, hseg, hrow, hfst, hval⟩ :=
        single_draw_filled_triangle_depth_tested_row_spec x_left x_right z_left z_right _ y
          xl xr zl zr hxl hxr hzl hzr (hw x_left x_right tag hpts _ xl xr hxl hxr)
      exact ⟨tests, xl, xr, zl, zr, seg, hxl, hxr, hzl, hzr, hseg, hrow, hfst, hval⟩
    constructor
    · rw [hfilled]
      apply for_each_concat_map
      intro y hy
      obtain ⟨tests, xl, xr, zl, zr, seg, hxl, hxr, hzl, hzr, hseg, hrow, hfst, hval⟩ :=
        hrows y hy
      rw [hrow]
      unfold draw_filled_triangle_row
      rw [hxl, hxr]
      simp only [Option.some_bind, Option.map_some', Option.some.injEq]
      have e : List.map (fun t : Point2 × Float32 => (t.1, color)) tests =
          List.map (fun p : Point2 => (p, color)) (tests.map Prod.fst) := by
        rw [List.map_map]
        rfl
      rw [e, hfst, List.map_map]
      rfl
    · intro all hall t ht
      obtain ⟨y, hy, calls, hcalls, htc⟩ := ((for_each_concat_mem _ _ _ hall).2 t).mp ht
      obtain ⟨tests, xl, xr, zl, zr, seg, hxl, hxr, hzl, hzr, hseg, hrow, hfst, hval⟩ :=
        hrows y hy
      rw [hrow] at hcalls
      cases hcalls
      obtain ⟨hzlf, hzl0, hzl1⟩ := hbounds.1 zl (buffer_get_mem _ _ _ hzl)
      obtain ⟨hzrf, hzr0, hzr1⟩ := hbounds.2 zr (buffer_get_mem _ _ _ hzr)
      obtain ⟨hfin, hlow, _⟩ := single_interpolate_float_mem_near xl xr zl zr
        (249 / 1000000 * (1 / D) - 1001 / 1000 * (1 / D) / 10000)
        (1001 / 1000 * (1 / D) + 1001 / 1000 * (1 / D) / 10000) (1002 / 1000 * (1 / D))
        (by linarith) (by rw [h100]; linarith) hzlf hzrf ⟨hzl0, hzl1⟩ ⟨hzr0, hzr1⟩
        (by linarith) (by linarith) seg hseg t.2 (hval t htc)
      exact ⟨hfin, by linarith⟩

end binary32

end cgfs

namespace cgfs

namespace binary32

open rasterizer

/-! ## C34: the depth-tested fill on a cleared depth buffer -/

/-- A sequence of pixel writes of normalised colours to a well-formed canvas succeeds. -/
theorem single_draw_pixels_isSome (pixels : List (Point2 × Color)) :
    ∀ (canvas : Canvas), canvas.WellFormed →
      (∀ pc ∈ pixels, pc.2.is_normalized = true) →
      ∃ next, Canvas.draw_pixels canvas pixels = some next := by
  induction pixels with
  | nil =>
    intro canvas _ _
    exact ⟨canvas, rfl⟩
  | cons head rest ih =>
    intro canvas hwf hcol
    obtain ⟨point, color⟩ := head
    have hc := hcol (point, color) (List.mem_cons_self _ _)
    have hstep : ∃ mid, Canvas.draw_pixel canvas point color = some mid := by
      rw [single_draw_pixel_eq]
      split
      · rename_i hin
        rw [if_pos (pixel_index_lt canvas hwf point hin)]
        unfold Color.to_rgba_u8
        unfold Color.is_normalized at hc
        rw [if_pos hc]
        exact ⟨_, rfl⟩
      · exact ⟨_, rfl⟩
    obtain ⟨mid, hmid⟩ := hstep
    obtain ⟨hmidwf, _⟩ := single_draw_pixel_wellFormed canvas hwf point color mid hmid
    obtain ⟨next, hnext⟩ := ih mid hmidwf (fun pc hpc => hcol pc (List.mem_cons_of_mem _ hpc))
    refine ⟨next, ?_⟩
    show (match Canvas.draw_pixel canvas point color with
      | none => none
      | some next => Canvas.draw_pixels next rest) = some next
    rw [hmid]
    exact hnext

/-- The depth-tested fill of the triangle `(0,0), (800,1), (0,2)` fails on its scanline of
`801` pixels, whatever the canvas and the depth buffer, while the plain fill makes its
calls. -/
theorem depth_tested_fill_wide_scanline (canvas : Canvas) (depth_buffer : DepthBuffer)
    (color : Color) :
    (∃ pixels, draw_filled_triangle_pixels ⟨0, 0⟩ ⟨800, 1⟩ ⟨0, 2⟩ color = some pixels ∧
      ∀ pc ∈ pixels, pc.2 = color) ∧
    draw_filled_triangle_depth_tested canvas depth_buffer ⟨0, 0⟩ 1 ⟨800, 1⟩ 1 ⟨0, 2⟩ 1 color
      = none := by
  have hpts : interpolate_points ⟨0, 0⟩ ⟨800, 1⟩ ⟨0, 2⟩ =
      some (⟨[0, 0, 0]⟩, ⟨[0, 800, 0]⟩, LeftSide.k02) := by decide!
  have hsort : sort_points_by_y ⟨0, 0⟩ ⟨800, 1⟩ ⟨0, 2⟩ = (⟨0, 0⟩, ⟨800, 1⟩, ⟨0, 2⟩) := by
    decide
  have hsortb : sort_point_bundles_by_y ((⟨0, 0⟩ : Point2), (1 : Float32)) (⟨800, 1⟩, 1)
      (⟨0, 2⟩, 1) = ((⟨0, 0⟩, 1), (⟨800, 1⟩, 1), (⟨0, 2⟩, 1)) := by decide!
  obtain ⟨z_left, z_right, hatt⟩ := single_interpolate_attributes_of_points
    ⟨0, 0⟩ ⟨800, 1⟩ ⟨0, 2⟩ ((1 : Float32) / 1) ((1 : Float32) / 1) ((1 : Float32) / 1)
    ⟨[0, 0, 0]⟩ ⟨[0, 800, 0]⟩ LeftSide.k02 hpts
  obtain ⟨hal, har⟩ := interpolate_attributes_sizes ⟨0, 0⟩ ⟨800, 1⟩ ⟨0, 2⟩ (by decide)
    (by decide) _ _ _ LeftSide.k02 z_left z_right hatt
  obtain ⟨zl, hzl⟩ := buffer_get_of_lt z_left (1 - 0) (by decide) (by
    rw [hal]
    decide)
  obtain ⟨zr, hzr⟩ := buffer_get_of_lt z_right (1 - 0) (by decide) (by
    rw [har]
    decide)
  have htests : draw_filled_triangle_depth_tested_tests ⟨0, 0⟩ 1 ⟨800, 1⟩ 1 ⟨0, 2⟩ 1
      = none := by
    rw [single_draw_filled_triangle_depth_tested_tests_eq ⟨0, 0⟩ 1 ⟨800, 1⟩ 1 ⟨0, 2⟩ 1
      ⟨[0, 0, 0]⟩ ⟨[0, 800, 0]⟩ LeftSide.k02 z_left z_right
      (by rw [hsortb]; exact hpts) (by rw [hsortb]; exact hatt), hsortb]
    apply for_each_concat_none _ _ 1 ((mem_int_range _ _ _).mpr ⟨by decide, by decide⟩)
    exact single_draw_filled_triangle_depth_tested_row_none _ _ _ _ _ _ 0 800 zl zr
      (by decide) (by decide) hzl hzr (by decide)
  obtain ⟨pixels, hpixels, hmem⟩ := single_draw_filled_triangle_pixels_spec ⟨0, 0⟩ ⟨800, 1⟩
    ⟨0, 2⟩ color ⟨[0, 0, 0]⟩ ⟨[0, 800, 0]⟩ LeftSide.k02 (by rw [hsort]; exact hpts)
  refine ⟨⟨pixels, hpixels, fun pc hpc => ((hmem pc.1 pc.2).mp hpc).1⟩, ?_⟩
  unfold draw_filled_triangle_depth_tested
  rw [htests]
  rfl

/-- C34 as stated fails, in two ways.  (1) The depths `1, 1e8, 1e8` are all positive, yet on
the triangle `(0,0), (2,3), (0,3)` the inverse depth along the edge from `(0,0)` to `(0,3)`
is accumulated as `1, 0.66666662..., 0.33333328..., -2^-24`, so the values passed to
`test_and_set` at the pixels `(0,3)` and `(1,3)` are negative: on a black 8x8 canvas and a
freshly constructed 8x8 depth buffer `draw_filled_triangle` paints `(0,3)` white, the
depth-tested routine leaves it black, and the two canvases differ.  (2) The triangle
`(0,0), (800,1), (0,2)` with the depths `1, 1, 1` has a scanline of `801` pixels:
`draw_filled_triangle` draws it (here in gray on a white 2x2 canvas), whereas the
depth-tested routine fails, the inverse depths of that scanline overflowing the `Buffer`
capacity of `768`. -/
theorem depth_tested_fill_departs :
    ((Float32.lt 0 1 && Float32.lt 0 (Float32.round 100000000)) = true ∧
    draw_filled_triangle_depth_tested_tests ⟨0, 0⟩ 1 ⟨2, 3⟩ (Float32.round 100000000)
        ⟨0, 3⟩ (Float32.round 100000000) =
      some [(⟨0, 0⟩, 1), (⟨0, 1⟩, Float32.finite (5592405 / 8388608)),
        (⟨0, 2⟩, Float32.finite (11184809 / 33554432)),
        (⟨1, 2⟩, Float32.finite (11184809 / 33554432)),
        (⟨0, 3⟩, Float32.finite (-1 / 16777216)),
        (⟨1, 3⟩, Float32.finite (-6981233 / 281474976710656)),
        (⟨2, 3⟩, Float32.finite (1407375 / 140737488355328))] ∧
    ((Canvas.create ⟨8, 8⟩ Color.kBlack).bind fun canvas =>
      (draw_filled_triangle canvas ⟨0, 0⟩ ⟨2, 3⟩ ⟨0, 3⟩ Color.kWhite).bind fun filled =>
        filled.pixel_at ⟨0, 3⟩) = some ⟨255, 255, 255, 255⟩ ∧
    ((Canvas.create ⟨8, 8⟩ Color.kBlack).bind fun canvas =>
      (DepthBuffer.create ⟨8, 8⟩).bind fun depth_buffer =>
        (draw_filled_triangle_depth_tested canvas depth_buffer ⟨0, 0⟩ 1 ⟨2, 3⟩
          (Float32.round 100000000) ⟨0, 3⟩ (Float32.round 100000000) Color.kWhite).bind
          fun tested => tested.1.pixel_at ⟨0, 3⟩) = some ⟨0, 0, 0, 255⟩ ∧
    ((Canvas.create ⟨8, 8⟩ Color.kBlack).bind fun canvas =>
        (draw_filled_triangle canvas ⟨0, 0⟩ ⟨2, 3⟩ ⟨0, 3⟩ Color.kWhite)) ≠
      ((Canvas.create ⟨8, 8⟩ Color.kBlack).bind fun canvas =>
        (DepthBuffer.create ⟨8, 8⟩).bind fun depth_buffer =>
          (draw_filled_triangle_depth_tested canvas depth_buffer ⟨0, 0⟩ 1 ⟨2, 3⟩
            (Float32.round 100000000) ⟨0, 3⟩ (Float32.round 100000000) Color.kWhite).map
            Prod.fst)) ∧
    (DepthBuffer.create ⟨2, 2⟩ = some ⟨⟨2, 2⟩, [0, 0, 0, 0]⟩ ∧
    interpolate_points ⟨0, 0⟩ ⟨800, 1⟩ ⟨0, 2⟩ =
      some (⟨[0, 0, 0]⟩, ⟨[0, 800, 0]⟩, LeftSide.k02) ∧
    (∃ next, draw_filled_triangle ⟨List.replicate 4 ⟨255, 255, 255, 255⟩, ⟨2, 2⟩⟩
      ⟨0, 0⟩ ⟨800, 1⟩ ⟨0, 2⟩ Color.kGray = some next) ∧
    draw_filled_triangle_depth_tested ⟨List.replicate 4 ⟨255, 255, 255, 255⟩, ⟨2, 2⟩⟩
      ⟨⟨2, 2⟩, [0, 0, 0, 0]⟩ ⟨0, 0⟩ 1 ⟨800, 1⟩ 1 ⟨0, 2⟩ 1 Color.kGray = none) := by
  obtain ⟨⟨pixels, hpixels, hcol⟩, hnone⟩ := depth_tested_fill_wide_scanline
    ⟨List.replicate 4 ⟨255, 255, 255, 255⟩, ⟨2, 2⟩⟩ ⟨⟨2, 2⟩, [0, 0, 0, 0]⟩ Color.kGray
  obtain ⟨next, hnext⟩ := single_draw_pixels_isSome pixels
    ⟨List.replicate 4 ⟨255, 255, 255, 255⟩, ⟨2, 2⟩⟩ ⟨by decide, by decide⟩ (by
      intro pc hpc
      rw [hcol pc hpc]
      decide!)
  refine ⟨⟨by decide!, by decide!, by decide!, by decide!, by decide!⟩,
    by decide!, by decide!, ⟨next, ?_⟩, hnone⟩
  unfold draw_filled_triangle
  rw [hpixels]
  exact hnext

/-- C34, amended.  On a depth buffer whose cells are all `0.0f` (freshly constructed or
cleared) and whose dimensions equal the canvas's, for a triangle whose vertex depths
`z0, z1, z2` are finite and lie between `D` and `4000 D` for some `D` with
`2^-99 <= D <= 1` (depths between `1` and `4000`, for instance), and whose scanlines each
span at most `kMaxSize = 768` pixels, `draw_filled_triangle_depth_tested` produces exactly
the same canvas as `draw_filled_triangle` with the same points and colour (and fails
exactly when it does): the points tested are the points `draw_filled_triangle` writes, in
order; every interpolated inverse depth is finite and `> 0` and passes `0.0f < z_val`; each
point is visited once; and a point passes `test_and_set` exactly when it maps inside the
canvas, where `draw_pixel` writes it. -/
theorem depth_tested_fill_matches_filled (canvas : Canvas) (depth_buffer : DepthBuffer)
    (p0 : Point2) (z0 : Float32) (p1 : Point2) (z1 : Float32) (p2 : Point2) (z2 : Float32)
    (color : Color) (D : ℚ)
    (hwf : canvas.WellFormed) (hdb : depth_buffer.WellFormed)
    (hdim : depth_buffer.m_dimensions = canvas.m_dimensions)
    (hzero : ∀ cell ∈ depth_buffer.m_buffer, cell = 0)
    (hD0 : Float32.pow2 (-99) ≤ D) (hD1 : D ≤ 1)
    (hz0 : z0.is_finite = true ∧ D ≤ z0.toRat ∧ z0.toRat ≤ 4000 * D)
    (hz1 : z1.is_finite = true ∧ D ≤ z1.toRat ∧ z1.toRat ≤ 4000 * D)
    (hz2 : z2.is_finite = true ∧ D ≤ z2.toRat ∧ z2.toRat ≤ 4000 * D)
    (hw : ∀ x_left x_right tag,
      interpolate_points (sort_points_by_y p0 p1 p2).1 (sort_points_by_y p0 p1 p2).2.1
        (sort_points_by_y p0 p1 p2).2.2 = some (x_left, x_right, tag) →
      ∀ (k xl xr : Int), x_left.get k = some xl → x_right.get k = some xr →
        xr - xl + 1 ≤ (kMaxSize : Int)) :
    (draw_filled_triangle_depth_tested canvas depth_buffer p0 z0 p1 z1 p2 z2 color).map
        Prod.fst = draw_filled_triangle canvas p0 p1 p2 color ∧
    ((draw_filled_triangle_depth_tested_tests p0 z0 p1 z1 p2 z2).map
        (List.map fun t => (t.1, color)) = draw_filled_triangle_pixels p0 p1 p2 color) ∧
    ∀ tests, draw_filled_triangle_depth_tested_tests p0 z0 p1 z1 p2 z2 = some tests →
      (∀ t ∈ tests, t.2.is_finite = true ∧ 0 < t.2.toRat ∧ Float32.lt 0 t.2 = true) ∧
      (tests.map Prod.fst).Nodup ∧
      ∀ t ∈ tests, ∃ next,
        depth_buffer.test_and_set t.1 t.2 = some (canvas.in_bounds t.1, next) := by
  obtain ⟨hmap, hpos⟩ := single_draw_filled_triangle_depth_tested_tests_spec p0 z0 p1 z1 p2
    z2 color D hD0 hD1 hz0 hz1 hz2 hw
  have hlt : ∀ tests, draw_filled_triangle_depth_tested_tests p0 z0 p1 z1 p2 z2
      = some tests → ∀ t ∈ tests, Float32.lt 0 t.2 = true := fun tests htests t ht =>
    Float32.lt_zero_of_pos t.2 (hpos tests htests t ht).1 (hpos tests htests t ht).2
  have hcell : ∀ pt, canvas.in_bounds pt = true →
      depth_buffer.m_buffer[canvas.pixel_index pt]? = some 0 := by
    intro pt hin
    have hlt : canvas.pixel_index pt < depth_buffer.m_buffer.length := by
      have := pixel_index_lt canvas hwf pt hin
      rw [hwf.2] at this
      rw [hdb.2, hdim]
      exact this
    rw [List.getElem?_eq_getElem hlt]
    exact congrArg some (hzero _ (List.getElem_mem _))
  have hnodup : ∀ tests, draw_filled_triangle_depth_tested_tests p0 z0 p1 z1 p2 z2
      = some tests → (tests.map Prod.fst).Nodup := by
    intro tests htests
    rw [htests, Option.map_some'] at hmap
    have := single_draw_filled_triangle_pixels_nodup p0 p1 p2 color _ hmap.symm
    rw [List.map_map] at this
    exact this
  refine ⟨?_, hmap, ?_⟩
  · unfold draw_filled_triangle_depth_tested draw_filled_triangle
    rw [← hmap]
    cases htests : draw_filled_triangle_depth_tested_tests p0 z0 p1 z1 p2 z2 with
    | none => rfl
    | some tests =>
      simp only [Option.some_bind, Option.map_some']
      exact single_depth_tested_draw_pixels_fresh color tests canvas depth_buffer hwf hdb hdim
        (hnodup tests htests) (hlt tests htests) (fun t _ hin => hcell t.1 hin)
  · intro tests htests
    refine ⟨fun t ht => ⟨(hpos tests htests t ht).1, (hpos tests htests t ht).2,
      hlt tests htests t ht⟩, hnodup tests htests, ?_⟩
    intro t ht
    cases hin : canvas.in_bounds t.1 with
    | false =>
      exact ⟨_, single_test_and_set_out_of_canvas depth_buffer hdb canvas hdim t.1 t.2 hin⟩
    | true =>
      exact ⟨_, single_test_and_set_in_canvas depth_buffer hdb canvas hdim t.1 t.2
        (hlt tests htests t ht) hin (hcell t.1 hin)⟩

/-- C34, instantiated on the triangle `(0,0), (4,2), (-2,3)` with the depths `1, 3, 4000`
(so `D = 1`) in gray on a white `8 x 8` canvas with a fresh `8 x 8` depth buffer; its
scanlines run from `x_left = [0, 0, -1, -2]` to `x_right = [0, 2, 4, -2]`. -/
theorem depth_tested_fill_matches_filled_witness :
    DepthBuffer.create ⟨8, 8⟩ = some ⟨⟨8, 8⟩, List.replicate 64 0⟩ ∧
    (draw_filled_triangle_depth_tested ⟨List.replicate 64 ⟨255, 255, 255, 255⟩, ⟨8, 8⟩⟩
        ⟨⟨8, 8⟩, List.replicate 64 0⟩ ⟨0, 0⟩ 1 ⟨4, 2⟩ 3 ⟨-2, 3⟩ 4000 Color.kGray).map
        Prod.fst =
      draw_filled_triangle ⟨List.replicate 64 ⟨255, 255, 255, 255⟩, ⟨8, 8⟩⟩
        ⟨0, 0⟩ ⟨4, 2⟩ ⟨-2, 3⟩ Color.kGray ∧
    (draw_filled_triangle ⟨List.replicate 64 ⟨255, 255, 255, 255⟩, ⟨8, 8⟩⟩
        ⟨0, 0⟩ ⟨4, 2⟩ ⟨-2, 3⟩ Color.kGray).isSome = true := by
  refine ⟨by decide!, (depth_tested_fill_matches_filled
    ⟨List.replicate 64 ⟨255, 255, 255, 255⟩, ⟨8, 8⟩⟩ ⟨⟨8, 8⟩, List.replicate 64 0⟩
    ⟨0, 0⟩ 1 ⟨4, 2⟩ 3 ⟨-2, 3⟩ 4000 Color.kGray 1 ⟨by decide, by decide⟩
    ⟨by decide, by decide⟩ rfl (fun cell h => (List.mem_replicate.mp h).2)
    (by decide!) (by decide) (by decide!) (by decide!) (by decide!) ?_).1, by decide!⟩
  intro x_left x_right tag h k xl xr hxl hxr
  have hpts : interpolate_points (sort_points_by_y ⟨0, 0⟩ ⟨4, 2⟩ ⟨-2, 3⟩).1
      (sort_points_by_y ⟨0, 0⟩ ⟨4, 2⟩ ⟨-2, 3⟩).2.1 (sort_points_by_y ⟨0, 0⟩ ⟨4, 2⟩ ⟨-2, 3⟩).2.2
      = some (⟨[0, 0, -1, -2]⟩, ⟨[0, 2, 4, -2]⟩, LeftSide.k02) := by decide!
  rw [hpts] at h
  simp only [Option.some.injEq, Prod.mk.injEq] at h
  obtain ⟨hl, hr, _⟩ := h
  subst hl hr
  have h1 := buffer_get_mem _ _ _ hxl
  have h2 := buffer_get_mem _ _ _ hxr
  simp only [List.mem_cons, List.mem_singleton, List.not_mem_nil, or_false] at h1 h2
  unfold kMaxSize
  omega

end binary32

end cgfs

namespace cgfs

namespace Float32

/-! ## Products and square roots in single precision -/

theorem pow2_neg_150_le_small : pow2 (-150) ≤ 1 / 1000000000000000000000000000000000000000000000 := by
  have h : pow2 (-150) = 1 / ((2 ^ 150 : Nat) : ℚ) := by simp [pow2]
  rw [h]
  norm_num

theorem pow2_127_ge : (100000000000000000000000000000000000000 : ℚ) ≤ pow2 127 := by
  have h : pow2 127 = ((2 ^ 127 : Nat) : ℚ) := by simp [pow2]
  rw [h]
  norm_num

/-- One product: a result of magnitude at most `2 ^ 127` is finite, within the relative
error `2 ^ -24` (and the absolute error `2 ^ -150` of the subnormal range). -/
theorem mul_finite (x y : Float32) (hx : x.is_finite = true) (hy : y.is_finite = true)
    (h : |x.toRat * y.toRat| ≤ pow2 127) :
    (mul x y).is_finite = true ∧
      |(mul x y).toRat - x.toRat * y.toRat| ≤
        |x.toRat * y.toRat| / 16777216 + pow2 (-150) := by
  have heta := pow2_pos (-150)
  have hz : ∀ b : Bool, (zero b).is_finite = true ∧ (zero b).toRat = 0 := by
    intro b; cases b <;> exact ⟨rfl, rfl⟩
  by_cases hzero : (x.is_zero || y.is_zero) = true
  · have hm : mul x y = zero (xor x.is_negative y.is_negative) := by
      rcases is_finite_cases x hx with ⟨p, rfl⟩ | rfl <;>
        rcases is_finite_cases y hy with ⟨q, rfl⟩ | rfl <;>
        simp_all [mul]
    have hprod : x.toRat * y.toRat = 0 := by
      rcases is_finite_cases x hx with ⟨p, rfl⟩ | rfl <;>
        rcases is_finite_cases y hy with ⟨q, rfl⟩ | rfl <;>
        simp_all [is_zero, toRat]
    rw [hm, (hz _).2, hprod]
    refine ⟨(hz _).1, ?_⟩
    simp only [sub_self, abs_zero, zero_div, zero_add]
    exact le_of_lt heta
  · have hm : mul x y = round (x.toRat * y.toRat) := by
      rcases is_finite_cases x hx with ⟨p, rfl⟩ | rfl <;>
        rcases is_finite_cases y hy with ⟨q, rfl⟩ | rfl <;>
        simp_all [mul, is_zero]
    rw [hm]
    exact round_error _ h

theorem isqrt_loop_spec (n : Nat) : ∀ (k r : Nat), r * r ≤ n →
    n < (r + 2 ^ k) * (r + 2 ^ k) →
    isqrt_loop n k r * isqrt_loop n k r ≤ n ∧
      n < (isqrt_loop n k r + 1) * (isqrt_loop n k r + 1)
  | 0, r, h1, h2 => by simpa [isqrt_loop] using ⟨h1, h2⟩
  | k + 1, r, h1, h2 => by
    unfold isqrt_loop
    split
    · rename_i h
      exact isqrt_loop_spec n k _ h (by
        have e : r + 2 ^ k + 2 ^ k = r + 2 ^ (k + 1) := by rw [pow_succ]; ring
        rw [e]
        exact h2)
    · rename_i h
      exact isqrt_loop_spec n k _ h1 (by omega)

/-- The integer square root: `isqrt n ^ 2 ≤ n < (isqrt n + 1) ^ 2`. -/
theorem isqrt_spec (n : Nat) (h : 0 < n) :
    isqrt n * isqrt n ≤ n ∧ n < (isqrt n + 1) * (isqrt n + 1) := by
  unfold isqrt
  refine isqrt_loop_spec n _ 0 (Nat.zero_le _) ?_
  obtain ⟨_, h2⟩ := log2_spec n h
  rw [Nat.zero_add, ← pow_add]
  refine lt_of_lt_of_le h2 (Nat.pow_le_pow_right (by decide) ?_)
  omega

/-- The two candidates of the square root of a positive finite number. -/
theorem sqrt_finite_cases (q : ℚ) (hq : 0 < q) :
    sqrt (finite q) = finite ((isqrt (⌊q / (pow2 (Int.fdiv (floor_log2 q) 2 - 23) *
        pow2 (Int.fdiv (floor_log2 q) 2 - 23))⌋).toNat : ℚ) *
          pow2 (Int.fdiv (floor_log2 q) 2 - 23)) ∨
    sqrt (finite q) = finite (((isqrt (⌊q / (pow2 (Int.fdiv (floor_log2 q) 2 - 23) *
        pow2 (Int.fdiv (floor_log2 q) 2 - 23))⌋).toNat + 1 : Nat) : ℚ) *
          pow2 (Int.fdiv (floor_log2 q) 2 - 23)) := by
  generalize hquantum : pow2 (Int.fdiv (floor_log2 q) 2 - 23) = quantum
  generalize hm : isqrt (⌊q / (quantum * quantum)⌋).toNat = m
  have hs : sqrt (finite q) =
      if q < ((2 * m + 1 : Nat) : ℚ) / 2 * quantum * (((2 * m + 1 : Nat) : ℚ) / 2 * quantum) then
        finite ((m : ℚ) * quantum)
      else if ((2 * m + 1 : Nat) : ℚ) / 2 * quantum * (((2 * m + 1 : Nat) : ℚ) / 2 * quantum) < q
        then finite (((m + 1 : Nat) : ℚ) * quantum)
      else finite (((if m % 2 = 0 then m else m + 1 : Nat) : ℚ) * quantum) := by
    unfold sqrt
    simp only []
    rw [if_neg (not_lt.mpr (le_of_lt hq)), if_neg (ne_of_gt hq), hquantum, hm]
  rw [hs]
  by_cases h1 : q < ((2 * m + 1 : Nat) : ℚ) / 2 * quantum * (((2 * m + 1 : Nat) : ℚ) / 2 * quantum)
  · rw [if_pos h1]
    exact Or.inl rfl
  · rw [if_neg h1]
    by_cases h2 : ((2 * m + 1 : Nat) : ℚ) / 2 * quantum * (((2 * m + 1 : Nat) : ℚ) / 2 * quantum) < q
    · rw [if_pos h2]
      exact Or.inr rfl
    · rw [if_neg h2]
      by_cases h3 : m % 2 = 0
      · rw [if_pos h3]
        exact Or.inl rfl
      · rw [if_neg h3]
        exact Or.inr rfl

theorem sqrt_candidate_bounds (q quantum : ℚ) (N m : Nat) (hquantum : 0 < quantum)
    (hNle : (N : ℚ) ≤ q / (quantum * quantum)) (hNlt : q / (quantum * quantum) < (N : ℚ) + 1)
    (m1 : m * m ≤ N) (m2 : N < (m + 1) * (m + 1)) (hNpos : 0 < N) (r : ℚ)
    (hr1 : (m : ℚ) * quantum ≤ r) (hr2 : r ≤ ((m : ℚ) + 1) * quantum) :
    0 < r ∧ r * r ≤ 4 * q ∧ q ≤ 4 * (r * r) := by
  have hqqpos : 0 < quantum * quantum := mul_pos hquantum hquantum
  have hmpos : 0 < m := by
    by_contra hc
    have : m = 0 := by omega
    rw [this] at m2
    omega
  have hm1 : ((m : ℚ) * quantum) * ((m : ℚ) * quantum) ≤ q := by
    have : ((m * m : Nat) : ℚ) ≤ (N : ℚ) := by exact_mod_cast m1
    push_cast at this
    have h3 : (m : ℚ) * m ≤ q / (quantum * quantum) := le_trans this hNle
    rw [le_div_iff₀ hqqpos] at h3
    linarith
  have hm2 : q < (((m : ℚ) + 1) * quantum) * (((m : ℚ) + 1) * quantum) := by
    have : ((N + 1 : Nat) : ℚ) ≤ (((m + 1) * (m + 1) : Nat) : ℚ) := by
      exact_mod_cast m2
    push_cast at this
    have h3 : q / (quantum * quantum) < ((m : ℚ) + 1) * ((m : ℚ) + 1) :=
      lt_of_lt_of_le hNlt this
    rw [div_lt_iff₀ hqqpos] at h3
    linarith
  have hmq : (1 : ℚ) ≤ (m : ℚ) := by exact_mod_cast hmpos
  have hmqpos : 0 < (m : ℚ) * quantum := by positivity
  have hrpos : 0 < r := lt_of_lt_of_le hmqpos hr1
  have h2m : ((m : ℚ) + 1) * quantum ≤ 2 * ((m : ℚ) * quantum) := by
    have : quantum ≤ (m : ℚ) * quantum := by
      calc quantum = 1 * quantum := (one_mul _).symm
        _ ≤ (m : ℚ) * quantum := mul_le_mul_of_nonneg_right hmq (le_of_lt hquantum)
    linarith
  have hr3 : r ≤ 2 * ((m : ℚ) * quantum) := le_trans hr2 h2m
  refine ⟨hrpos, ?_, ?_⟩
  · have h4 : r * r ≤ (2 * ((m : ℚ) * quantum)) * (2 * ((m : ℚ) * quantum)) :=
      mul_le_mul hr3 hr3 (le_of_lt hrpos) (by positivity)
    linarith
  · have h4 : ((m : ℚ) * quantum) * ((m : ℚ) * quantum) ≤ r * r :=
      mul_le_mul hr1 hr1 (le_of_lt hmqpos) (le_of_lt hrpos)
    have h5 : (((m : ℚ) + 1) * quantum) * (((m : ℚ) + 1) * quantum) ≤
        (2 * ((m : ℚ) * quantum)) * (2 * ((m : ℚ) * quantum)) :=
      mul_le_mul h2m h2m (by positivity) (by positivity)
    linarith

/-- The square root of a positive finite number is a positive finite number `r` with
`r ^ 2 ≤ 4 q` and `q ≤ 4 r ^ 2`. -/
theorem sqrt_pos_spec (q : ℚ) (hq : 0 < q) :
    ∃ r : ℚ, sqrt (finite q) = finite r ∧ 0 < r ∧ r * r ≤ 4 * q ∧ q ≤ 4 * (r * r) := by
  obtain ⟨e1, e2⟩ := floor_log2_spec q hq
  have hcase := sqrt_finite_cases q hq
  have hqpos : 0 < pow2 (Int.fdiv (floor_log2 q) 2 - 23) := pow2_pos _
  have hfd : Int.fdiv (floor_log2 q) 2 = (floor_log2 q) / 2 :=
    Int.fdiv_eq_ediv (floor_log2 q) (by decide)
  have hqq : pow2 (Int.fdiv (floor_log2 q) 2 - 23) * pow2 (Int.fdiv (floor_log2 q) 2 - 23) =
      pow2 (2 * (Int.fdiv (floor_log2 q) 2) - 46) := by
    rw [← pow2_add]
    congr 1
    ring
  have hle : pow2 (Int.fdiv (floor_log2 q) 2 - 23) * pow2 (Int.fdiv (floor_log2 q) 2 - 23)
      ≤ q := by
    rw [hqq]
    refine le_trans (pow2_le_pow2 ?_) e1
    rw [hfd]
    omega
  generalize pow2 (Int.fdiv (floor_log2 q) 2 - 23) = quantum at hcase hqpos hle
  have hqqpos : 0 < quantum * quantum := mul_pos hqpos hqpos
  have hone : (1 : ℚ) ≤ q / (quantum * quantum) := by
    rw [le_div_iff₀ hqqpos]
    linarith
  have hfloor1 : (1 : Int) ≤ ⌊q / (quantum * quantum)⌋ :=
    Int.le_floor.mpr (by exact_mod_cast hone)
  have hNcast : (((⌊q / (quantum * quantum)⌋).toNat : Int) : ℚ) =
      ((⌊q / (quantum * quantum)⌋ : Int) : ℚ) := by
    rw [Int.toNat_of_nonneg (by omega)]
  have hNpos : 0 < (⌊q / (quantum * quantum)⌋).toNat := by omega
  have hNle : (((⌊q / (quantum * quantum)⌋).toNat : Nat) : ℚ) ≤ q / (quantum * quantum) := by
    have := Int.floor_le (q / (quantum * quantum))
    rw [← hNcast] at this
    exact_mod_cast this
  have hNlt : q / (quantum * quantum) < (((⌊q / (quantum * quantum)⌋).toNat : Nat) : ℚ) + 1 := by
    have := Int.lt_floor_add_one (q / (quantum * quantum))
    rw [← hNcast] at this
    exact_mod_cast this
  generalize (⌊q / (quantum * quantum)⌋).toNat = N at hcase hNpos hNle hNlt
  obtain ⟨m1, m2⟩ := isqrt_spec N hNpos
  generalize isqrt N = m at hcase m1 m2
  have hmq : (0 : ℚ) ≤ (m : ℚ) := Nat.cast_nonneg m
  rcases hcase with h | h
  · exact ⟨_, h, sqrt_candidate_bounds q quantum N m hqpos hNle hNlt m1 m2 hNpos _ le_rfl
      (by linarith)⟩
  · refine ⟨_, h, sqrt_candidate_bounds q quantum N m hqpos hNle hNlt m1 m2 hNpos _ ?_ ?_⟩
    · push_cast
      linarith
    · push_cast
      exact le_rfl

/-! ## The operators on finite numbers -/

theorem hsub_finite (x y : Float32) (hx : x.is_finite = true) (hy : y.is_finite = true)
    (h : |x.toRat - y.toRat| ≤ pow2 127) :
    (x - y).is_finite = true ∧
      |(x - y).toRat - (x.toRat - y.toRat)| ≤
        |x.toRat - y.toRat| / 16777216 + pow2 (-150) := sub_finite x y hx hy h

theorem hadd_finite (x y : Float32) (hx : x.is_finite = true) (hy : y.is_finite = true)
    (h : |x.toRat + y.toRat| ≤ pow2 127) :
    (x + y).is_finite = true ∧
      |(x + y).toRat - (x.toRat + y.toRat)| ≤
        |x.toRat + y.toRat| / 16777216 + pow2 (-150) := add_finite x y hx hy h

theorem hmul_finite (x y : Float32) (hx : x.is_finite = true) (hy : y.is_finite = true)
    (h : |x.toRat * y.toRat| ≤ pow2 127) :
    (x * y).is_finite = true ∧
      |(x * y).toRat - x.toRat * y.toRat| ≤
        |x.toRat * y.toRat| / 16777216 + pow2 (-150) := mul_finite x y hx hy h

end Float32

end cgfs

namespace cgfs

namespace Float32

/-! ## Rounding errors of differences, cross products and dot products -/

/-- The product of two approximations. -/
theorem abs_mul_sub_mul_le (p q P Q e MP MQ : ℚ) (hp : |p - P| ≤ e) (hq : |q - Q| ≤ e)
    (hP : |P| ≤ MP) (hQ : |Q| ≤ MQ) :
    |p| ≤ MP + e ∧ |p * q - P * Q| ≤ (MP + e) * e + MQ * e := by
  have he : 0 ≤ e := le_trans (abs_nonneg _) hp
  have hpb : |p| ≤ MP + e := by
    have : p = P + (p - P) := by ring
    rw [this]
    exact le_trans (abs_add _ _) (add_le_add hP hp)
  refine ⟨hpb, ?_⟩
  have e1 : p * q - P * Q = p * (q - Q) + (p - P) * Q := by ring
  rw [e1]
  refine le_trans (abs_add _ _) (add_le_add ?_ ?_)
  · rw [abs_mul]
    exact mul_le_mul hpb hq (abs_nonneg _) (le_trans (abs_nonneg _) hpb)
  · rw [abs_mul, mul_comm]
    exact mul_le_mul hQ hp (abs_nonneg _) (le_trans (abs_nonneg _) hQ)

/-- The difference of two finite coordinates of magnitude at most `B`: finite, within
`B / 8000000` of the exact difference. -/
theorem edge_near (x y : Float32) (B : ℚ) (hB0 : 1 / 1048576 ≤ B) (hB1 : B ≤ 1048576)
    (hx : x.is_finite = true) (hy : y.is_finite = true) (hxB : |x.toRat| ≤ B)
    (hyB : |y.toRat| ≤ B) :
    (x - y).is_finite = true ∧ |(x - y).toRat - (x.toRat - y.toRat)| ≤ B / 8000000 ∧
      |x.toRat - y.toRat| ≤ 2 * B := by
  have hd : |x.toRat - y.toRat| ≤ 2 * B := by
    have := abs_sub x.toRat y.toRat
    linarith
  have h127 := pow2_127_ge
  have heta := pow2_neg_150_le_small
  obtain ⟨hf, he⟩ := hsub_finite x y hx hy (by linarith)
  refine ⟨hf, ?_, hd⟩
  linarith

/-- One component of a cross product of two computed edges: `p * q - r * s` for finite
numbers within `B / 8000000` of exact values of magnitude at most `2 B`. -/
theorem cross_component_near (p q r s : Float32) (P Q R S B : ℚ) (hB0 : 1 / 1048576 ≤ B)
    (hB1 : B ≤ 1048576)
    (hp : p.is_finite = true) (hq : q.is_finite = true) (hr : r.is_finite = true)
    (hs : s.is_finite = true)
    (hpP : |p.toRat - P| ≤ B / 8000000) (hqQ : |q.toRat - Q| ≤ B / 8000000)
    (hrR : |r.toRat - R| ≤ B / 8000000) (hsS : |s.toRat - S| ≤ B / 8000000)
    (hP : |P| ≤ 2 * B) (hQ : |Q| ≤ 2 * B) (hR : |R| ≤ 2 * B) (hS : |S| ≤ 2 * B) :
    (p * q - r * s).is_finite = true ∧
      |(p * q - r * s).toRat - (P * Q - R * S)| ≤ B * B / 400000 ∧
      |P * Q - R * S| ≤ 8 * (B * B) := by
  have hBpos : 0 < B := lt_of_lt_of_le (by norm_num) hB0
  have hBB0 : 1 / 1099511627776 ≤ B * B := by nlinarith
  have hBB1 : B * B ≤ 1099511627776 := by nlinarith
  have h127 := pow2_127_ge
  have heta := pow2_neg_150_le_small
  have hetapos := pow2_pos (-150)
  obtain ⟨hpb, hpq⟩ := abs_mul_sub_mul_le p.toRat q.toRat P Q _ _ _ hpP hqQ hP hQ
  obtain ⟨hrb, hrs⟩ := abs_mul_sub_mul_le r.toRat s.toRat R S _ _ _ hrR hsS hR hS
  have hqb := (abs_mul_sub_mul_le q.toRat p.toRat Q P _ _ _ hqQ hpP hQ hP).1
  have hsb := (abs_mul_sub_mul_le s.toRat r.toRat S R _ _ _ hsS hrR hS hR).1
  have hPQ : |P * Q| ≤ 4 * (B * B) := by
    rw [abs_mul]
    have := mul_le_mul hP hQ (abs_nonneg _) (by linarith)
    linarith
  have hRS : |R * S| ≤ 4 * (B * B) := by
    rw [abs_mul]
    have := mul_le_mul hR hS (abs_nonneg _) (by linarith)
    linarith
  have hexact : |P * Q - R * S| ≤ 8 * (B * B) := by
    have := abs_sub (P * Q) (R * S)
    linarith
  have e1 : (2 * B + B / 8000000) * (B / 8000000) + 2 * B * (B / 8000000) =
      (32000001 / 64000000000000) * (B * B) := by ring
  rw [e1] at hpq hrs
  have hpqm : |p.toRat * q.toRat| ≤ 401 / 100 * (B * B) := by
    have h1 : |p.toRat * q.toRat| ≤ |p.toRat * q.toRat - P * Q| + |P * Q| := by
      have : p.toRat * q.toRat = (p.toRat * q.toRat - P * Q) + P * Q := by ring
      conv_lhs => rw [this]
      exact abs_add _ _
    linarith
  have hrsm : |r.toRat * s.toRat| ≤ 401 / 100 * (B * B) := by
    have h1 : |r.toRat * s.toRat| ≤ |r.toRat * s.toRat - R * S| + |R * S| := by
      have : r.toRat * s.toRat = (r.toRat * s.toRat - R * S) + R * S := by ring
      conv_lhs => rw [this]
      exact abs_add _ _
    linarith
  obtain ⟨hf1, he1⟩ := hmul_finite p q hp hq (by linarith)
  obtain ⟨hf2, he2⟩ := hmul_finite r s hr hs (by linarith)
  have hm1 : |(p * q).toRat - P * Q| ≤ 8 / 10000000 * (B * B) := by
    have h1 : |(p * q).toRat - P * Q| ≤
        |(p * q).toRat - p.toRat * q.toRat| + |p.toRat * q.toRat - P * Q| := by
      have : (p * q).toRat - P * Q =
          ((p * q).toRat - p.toRat * q.toRat) + (p.toRat * q.toRat - P * Q) := by ring
      rw [this]
      exact abs_add _ _
    linarith
  have hm2 : |(r * s).toRat - R * S| ≤ 8 / 10000000 * (B * B) := by
    have h1 : |(r * s).toRat - R * S| ≤
        |(r * s).toRat - r.toRat * s.toRat| + |r.toRat * s.toRat - R * S| := by
      have : (r * s).toRat - R * S =
          ((r * s).toRat - r.toRat * s.toRat) + (r.toRat * s.toRat - R * S) := by ring
      rw [this]
      exact abs_add _ _
    linarith
  have hdiff : |(p * q).toRat - (r * s).toRat - (P * Q - R * S)| ≤
      16 / 10000000 * (B * B) := by
    have : (p * q).toRat - (r * s).toRat - (P * Q - R * S) =
        ((p * q).toRat - P * Q) - ((r * s).toRat - R * S) := by ring
    rw [this]
    have := abs_sub ((p * q).toRat - P * Q) ((r * s).toRat - R * S)
    linarith
  have hdm : |(p * q).toRat - (r * s).toRat| ≤ 801 / 100 * (B * B) := by
    have h1 : |(p * q).toRat - (r * s).toRat| ≤
        |(p * q).toRat - (r * s).toRat - (P * Q - R * S)| + |P * Q - R * S| := by
      have : (p * q).toRat - (r * s).toRat =
          ((p * q).toRat - (r * s).toRat - (P * Q - R * S)) + (P * Q - R * S) := by ring
      conv_lhs => rw [this]
      exact abs_add _ _
    linarith
  obtain ⟨hf3, he3⟩ := hsub_finite (p * q) (r * s) hf1 hf2 (by linarith)
  refine ⟨hf3, ?_, hexact⟩
  have h1 : |(p * q - r * s).toRat - (P * Q - R * S)| ≤
      |(p * q - r * s).toRat - ((p * q).toRat - (r * s).toRat)| +
        |(p * q).toRat - (r * s).toRat - (P * Q - R * S)| := by
    have : (p * q - r * s).toRat - (P * Q - R * S) =
        ((p * q - r * s).toRat - ((p * q).toRat - (r * s).toRat)) +
          ((p * q).toRat - (r * s).toRat - (P * Q - R * S)) := by ring
    rw [this]
    exact abs_add _ _
  linarith

/-- A dot product `a0 * n0 + a1 * n1 + a2 * n2` of finite numbers, evaluated from the left:
finite, within `T / 5000000 + 7 * 2^-150` of the exact value, where `T` bounds the sum of the
magnitudes of the three products. -/
theorem dot3_near (a0 a1 a2 n0 n1 n2 : Float32) (T : ℚ)
    (ha0 : a0.is_finite = true) (ha1 : a1.is_finite = true) (ha2 : a2.is_finite = true)
    (hn0 : n0.is_finite = true) (hn1 : n1.is_finite = true) (hn2 : n2.is_finite = true)
    (hT : |a0.toRat * n0.toRat| + |a1.toRat * n1.toRat| + |a2.toRat * n2.toRat| ≤ T)
    (hT1 : T ≤ 10000000000000000000000000000000000000) :
    (a0 * n0 + a1 * n1 + a2 * n2).is_finite = true ∧
      |(a0 * n0 + a1 * n1 + a2 * n2).toRat -
        (a0.toRat * n0.toRat + a1.toRat * n1.toRat + a2.toRat * n2.toRat)| ≤
        T / 5000000 + 7 * pow2 (-150) := by
  have h127 := pow2_127_ge
  have heta := pow2_neg_150_le_small
  have hetapos := pow2_pos (-150)
  have ht0 := abs_nonneg (a0.toRat * n0.toRat)
  have ht1 := abs_nonneg (a1.toRat * n1.toRat)
  have ht2 := abs_nonneg (a2.toRat * n2.toRat)
  obtain ⟨hf0, he0⟩ := hmul_finite a0 n0 ha0 hn0 (by linarith)
  obtain ⟨hf1, he1⟩ := hmul_finite a1 n1 ha1 hn1 (by linarith)
  obtain ⟨hf2, he2⟩ := hmul_finite a2 n2 ha2 hn2 (by linarith)
  have tri : ∀ a b : ℚ, |a| ≤ |a - b| + |b| := by
    intro a b
    have : a = (a - b) + b := by ring
    conv_lhs => rw [this]
    exact abs_add _ _
  have hq0 := tri (a0 * n0).toRat (a0.toRat * n0.toRat)
  have hq1 := tri (a1 * n1).toRat (a1.toRat * n1.toRat)
  have hq2 := tri (a2 * n2).toRat (a2.toRat * n2.toRat)
  have hs1m : |(a0 * n0).toRat + (a1 * n1).toRat| ≤
      (|a0.toRat * n0.toRat| + |a1.toRat * n1.toRat|) * (16777217 / 16777216) +
        2 * pow2 (-150) := by
    have := abs_add (a0 * n0).toRat (a1 * n1).toRat
    linarith
  obtain ⟨hf3, he3⟩ := hadd_finite (a0 * n0) (a1 * n1) hf0 hf1 (by linarith)
  have hq3 := tri (a0 * n0 + a1 * n1).toRat ((a0 * n0).toRat + (a1 * n1).toRat)
  have hs2m : |(a0 * n0 + a1 * n1).toRat + (a2 * n2).toRat| ≤
      T * (1001 / 1000) + 5 * pow2 (-150) := by
    have := abs_add (a0 * n0 + a1 * n1).toRat (a2 * n2).toRat
    linarith
  obtain ⟨hf4, he4⟩ := hadd_finite (a0 * n0 + a1 * n1) (a2 * n2) hf3 hf2 (by linarith)
  refine ⟨hf4, ?_⟩
  have e : (a0 * n0 + a1 * n1 + a2 * n2).toRat -
      (a0.toRat * n0.toRat + a1.toRat * n1.toRat + a2.toRat * n2.toRat) =
      ((a0 * n0 + a1 * n1 + a2 * n2).toRat -
        ((a0 * n0 + a1 * n1).toRat + (a2 * n2).toRat)) +
      ((a0 * n0 + a1 * n1).toRat - ((a0 * n0).toRat + (a1 * n1).toRat)) +
      ((a0 * n0).toRat - a0.toRat * n0.toRat) + ((a1 * n1).toRat - a1.toRat * n1.toRat) +
      ((a2 * n2).toRat - a2.toRat * n2.toRat) := by ring
  rw [e]
  have h4 := abs_add
    (((a0 * n0 + a1 * n1 + a2 * n2).toRat -
        ((a0 * n0 + a1 * n1).toRat + (a2 * n2).toRat)) +
      ((a0 * n0 + a1 * n1).toRat - ((a0 * n0).toRat + (a1 * n1).toRat)) +
      ((a0 * n0).toRat - a0.toRat * n0.toRat) + ((a1 * n1).toRat - a1.toRat * n1.toRat))
    ((a2 * n2).toRat - a2.toRat * n2.toRat)
  have h3 := abs_add
    (((a0 * n0 + a1 * n1 + a2 * n2).toRat -
        ((a0 * n0 + a1 * n1).toRat + (a2 * n2).toRat)) +
      ((a0 * n0 + a1 * n1).toRat - ((a0 * n0).toRat + (a1 * n1).toRat)) +
      ((a0 * n0).toRat - a0.toRat * n0.toRat))
    ((a1 * n1).toRat - a1.toRat * n1.toRat)
  have h2 := abs_add
    (((a0 * n0 + a1 * n1 + a2 * n2).toRat -
        ((a0 * n0 + a1 * n1).toRat + (a2 * n2).toRat)) +
      ((a0 * n0 + a1 * n1).toRat - ((a0 * n0).toRat + (a1 * n1).toRat)))
    ((a0 * n0).toRat - a0.toRat * n0.toRat)
  have h1 := abs_add
    ((a0 * n0 + a1 * n1 + a2 * n2).toRat -
        ((a0 * n0 + a1 * n1).toRat + (a2 * n2).toRat))
    ((a0 * n0 + a1 * n1).toRat - ((a0 * n0).toRat + (a1 * n1).toRat))
  linarith

end Float32

end cgfs

namespace cgfs

namespace Float32

/-! ## The arithmetic of the back-face test -/

/-- The sum of the squares of the components of a vector `c` whose product with a vector
`x` of coordinates of magnitude at most `B` is at least `8 B^3 / 100000`. -/
theorem sum_sq_bounds (X0 X1 X2 C0 C1 C2 B : ℚ) (hB0 : 1 / 1048576 ≤ B) (hB1 : B ≤ 1048576)
    (hxb0 : |X0| ≤ B) (hxb1 : |X1| ≤ B) (hxb2 : |X2| ≤ B)
    (hcb0 : |C0| ≤ 8001 / 1000 * (B * B)) (hcb1 : |C1| ≤ 8001 / 1000 * (B * B))
    (hcb2 : |C2| ≤ 8001 / 1000 * (B * B))
    (hG : 8 / 100000 * (B * B * B) ≤ |X0 * C0 + X1 * C1 + X2 * C2|) :
    1 / 1000000000000000000000000000000000 ≤ C0 * C0 + C1 * C1 + C2 * C2 ∧
      C0 * C0 + C1 * C1 + C2 * C2 ≤ 193 * ((B * B) * (B * B)) ∧
      C0 * C0 + C1 * C1 + C2 * C2 ≤ 1000000000000000000000000000 := by
  have hBpos : 0 < B := lt_of_lt_of_le (by norm_num) hB0
  have hBB0 : 1 / 1099511627776 ≤ B * B := by nlinarith
  have hBB1 : B * B ≤ 1099511627776 := by nlinarith
  have hBBpos : 0 < B * B := by positivity
  have hB4_0 : 1 / 1208925819614629174706176 ≤ (B * B) * (B * B) := by nlinarith
  have hB4_1 : (B * B) * (B * B) ≤ 1208925819614629174706176 := by nlinarith
  have hA0 := abs_nonneg C0
  have hA1 := abs_nonneg C1
  have hA2 := abs_nonneg C2
  have hGle : |X0 * C0 + X1 * C1 + X2 * C2| ≤ B * (|C0| + |C1| + |C2|) := by
    have t1 := abs_add (X0 * C0 + X1 * C1) (X2 * C2)
    have t2 := abs_add (X0 * C0) (X1 * C1)
    have m0 : |X0 * C0| ≤ B * |C0| := by
      rw [abs_mul]
      exact mul_le_mul_of_nonneg_right hxb0 hA0
    have m1 : |X1 * C1| ≤ B * |C1| := by
      rw [abs_mul]
      exact mul_le_mul_of_nonneg_right hxb1 hA1
    have m2 : |X2 * C2| ≤ B * |C2| := by
      rw [abs_mul]
      exact mul_le_mul_of_nonneg_right hxb2 hA2
    linarith only [t1, t2, m0, m1, m2]
  have hsum : 8 / 100000 * (B * B) ≤ |C0| + |C1| + |C2| := by
    have : B * (8 / 100000 * (B * B)) ≤ B * (|C0| + |C1| + |C2|) := by
      have e : B * (8 / 100000 * (B * B)) = 8 / 100000 * (B * B * B) := by ring
      rw [e]
      exact le_trans hG hGle
    exact le_of_mul_le_mul_left this hBpos
  have hsq0 : |C0| * |C0| = C0 * C0 := abs_mul_abs_self _
  have hsq1 : |C1| * |C1| = C1 * C1 := abs_mul_abs_self _
  have hsq2 : |C2| * |C2| = C2 * C2 := abs_mul_abs_self _
  have hS3 : (|C0| + |C1| + |C2|) * (|C0| + |C1| + |C2|) ≤
      3 * (C0 * C0 + C1 * C1 + C2 * C2) := by
    nlinarith only [sq_nonneg (|C0| - |C1|), sq_nonneg (|C1| - |C2|),
      sq_nonneg (|C0| - |C2|), hsq0, hsq1, hsq2]
  have hSlowB : 21 / 10000000000 * ((B * B) * (B * B)) ≤ C0 * C0 + C1 * C1 + C2 * C2 := by
    have h1 : (8 / 100000 * (B * B)) * (8 / 100000 * (B * B)) ≤
        (|C0| + |C1| + |C2|) * (|C0| + |C1| + |C2|) :=
      mul_le_mul hsum hsum (by positivity) (by positivity)
    have e : (8 / 100000 * (B * B)) * (8 / 100000 * (B * B)) =
        64 / 10000000000 * ((B * B) * (B * B)) := by ring
    linarith only [h1, e, hS3, hB4_0]
  have hSup : C0 * C0 + C1 * C1 + C2 * C2 ≤ 193 * ((B * B) * (B * B)) := by
    have b0 : |C0| * |C0| ≤ (8001 / 1000 * (B * B)) * (8001 / 1000 * (B * B)) :=
      mul_le_mul hcb0 hcb0 hA0 (by positivity)
    have b1 : |C1| * |C1| ≤ (8001 / 1000 * (B * B)) * (8001 / 1000 * (B * B)) :=
      mul_le_mul hcb1 hcb1 hA1 (by positivity)
    have b2 : |C2| * |C2| ≤ (8001 / 1000 * (B * B)) * (8001 / 1000 * (B * B)) :=
      mul_le_mul hcb2 hcb2 hA2 (by positivity)
    have e : (8001 / 1000 * (B * B)) * (8001 / 1000 * (B * B)) =
        64016001 / 1000000 * ((B * B) * (B * B)) := by ring
    have hp : (0 : ℚ) ≤ (B * B) * (B * B) := by positivity
    linarith only [b0, b1, b2, e, hp, hsq0, hsq1, hsq2]
  refine ⟨?_, hSup, ?_⟩
  · linarith only [hSlowB, hB4_0]
  · linarith only [hSup, hB4_1]

/-- The computed length `r` of a vector: bounds from the sum of squares `S`, the rounded
sum `q` and the square root specification. -/
theorem length_bounds (S q r eta B : ℚ) (hBB : 0 < (B * B) * (B * B))
    (hS0 : 1 / 1000000000000000000000000000000000 ≤ S)
    (hS1 : S ≤ 193 * ((B * B) * (B * B)))
    (heta : eta ≤ 1 / 1000000000000000000000000000000000000000000000)
    (hq : |q - S| ≤ S / 5000000 + 7 * eta) (hrpos : 0 < r) (hr1 : r * r ≤ 4 * q)
    (hr2 : q ≤ 4 * (r * r)) (hBBpos : 0 < B * B) :
    0 < q ∧ 1 / 100000000000000000 ≤ r ∧ r ≤ 28 * (B * B) ∧ S ≤ 5 * (r * r) := by
  rw [abs_le] at hq
  have hqpos : 0 < q := by linarith only [hq.1, hS0, heta]
  have hrr_low : 1 / 10000000000000000000000000000000000 ≤ r * r := by
    linarith only [hq.1, hS0, heta, hr2]
  have hS5 : S ≤ 5 * (r * r) := by linarith only [hq.1, hS0, heta, hr2]
  have hrr_up : r * r ≤ 776 * ((B * B) * (B * B)) := by
    linarith only [hq.2, hS0, hS1, heta, hr1]
  refine ⟨hqpos, ?_, ?_, hS5⟩
  · by_contra hcon
    push_neg at hcon
    have : r * r < (1 / 100000000000000000) * (1 / 100000000000000000) :=
      mul_lt_mul'' hcon hcon (le_of_lt hrpos) (le_of_lt hrpos)
    norm_num at this
    linarith only [this, hrr_low]
  · by_contra hcon
    push_neg at hcon
    have : (28 * (B * B)) * (28 * (B * B)) < r * r :=
      mul_lt_mul'' hcon hcon (by positivity) (by positivity)
    have e : (28 * (B * B)) * (28 * (B * B)) = 784 * ((B * B) * (B * B)) := by ring
    linarith only [this, e, hrr_up, hBB]

/-- The computed inverse length `K` of a vector. -/
theorem inverse_bounds (S r K eta B : ℚ) (hB0 : 1 / 1048576 ≤ B) (hB1 : B ≤ 1048576)
    (heta0 : 0 < eta) (heta : eta ≤ 1 / 1000000000000000000000000000000000000000000000)
    (hrpos : 0 < r) (hr_up : r ≤ 28 * (B * B))
    (hS5 : S ≤ 5 * (r * r))
    (hK1 : -((1 / r) / 16777216 + eta) ≤ K - 1 / r)
    (hK2 : K - 1 / r ≤ (1 / r) / 16777216 + eta) :
    0 < K ∧ B / 29 ≤ K * (B * B * B) ∧
      ∀ A : ℚ, 0 ≤ A → A * A ≤ S → A ≤ 8001 / 1000 * (B * B) → A * K ≤ 9 / 4 := by
  have hBpos : 0 < B := lt_of_lt_of_le (by norm_num) hB0
  have hBB1 : B * B ≤ 1099511627776 := by nlinarith
  have hBBpos : 0 < B * B := by positivity
  have hrne : r ≠ 0 := ne_of_gt hrpos
  have hRpos : 0 < 1 / r := one_div_pos.mpr hrpos
  have hRr : r * (1 / r) = 1 := mul_one_div_cancel hrne
  have hRlow : 1 / (28 * 1099511627776) ≤ 1 / r := by
    have : r ≤ 28 * 1099511627776 := by linarith only [hr_up, hBB1]
    exact one_div_le_one_div_of_le hrpos this
  have hKpos : 0 < K := by
    have : (0 : ℚ) < 1 / (28 * 1099511627776) := by norm_num
    have h3 : (1 : ℚ) / (28 * 1099511627776) * (16777215 / 16777216) -
        1 / 1000000000000000000000000000000000000000000000 > 0 := by norm_num
    linarith only [hK1, hRlow, heta, h3]
  have hRBB : 1 ≤ (1 / r) * (28 * (B * B)) := by
    calc (1 : ℚ) = (1 / r) * r := by rw [mul_comm]; exact hRr.symm
      _ ≤ (1 / r) * (28 * (B * B)) := mul_le_mul_of_nonneg_left hr_up (le_of_lt hRpos)
  have hKBB : 1 / 29 ≤ K * (B * B) := by
    have e : (1 / r) * (28 * (B * B)) = 28 * ((1 / r) * (B * B)) := by ring
    rw [e] at hRBB
    have h1 : ((1 / r) - (1 / r) / 16777216 - eta) * (B * B) ≤ K * (B * B) :=
      mul_le_mul_of_nonneg_right (by linarith only [hK1]) (le_of_lt hBBpos)
    have h2 : eta * (B * B) ≤
        1 / 1000000000000000000000000000000000000000000000 * 1099511627776 :=
      mul_le_mul heta hBB1 (le_of_lt hBBpos) (by norm_num)
    have e2 : ((1 / r) - (1 / r) / 16777216 - eta) * (B * B) =
        (16777215 / 16777216) * ((1 / r) * (B * B)) - eta * (B * B) := by ring
    rw [e2] at h1
    linarith only [h1, h2, hRBB]
  refine ⟨hKpos, ?_, ?_⟩
  · have := mul_le_mul_of_nonneg_right hKBB (le_of_lt hBpos)
    have e : K * (B * B) * B = K * (B * B * B) := by ring
    rw [e] at this
    linarith only [this]
  · intro A hA0 hAS hAB
    have hAr : A ≤ 224 / 100 * r := by
      by_contra hcon
      push_neg at hcon
      have : (224 / 100 * r) * (224 / 100 * r) < A * A :=
        mul_lt_mul'' hcon hcon (by positivity) (by positivity)
      have e : (224 / 100 * r) * (224 / 100 * r) = 50176 / 10000 * (r * r) := by ring
      have hp : 0 < r * r := mul_pos hrpos hrpos
      linarith only [this, e, hp, hAS, hS5]
    have hAR : A * (1 / r) ≤ 224 / 100 := by
      have := mul_le_mul_of_nonneg_right hAr (le_of_lt hRpos)
      have e : 224 / 100 * r * (1 / r) = 224 / 100 := by
        rw [mul_assoc, hRr, mul_one]
      linarith only [this, e]
    have h1 : A * K ≤ A * ((1 / r) + (1 / r) / 16777216 + eta) :=
      mul_le_mul_of_nonneg_left (by linarith only [hK2]) hA0
    have h2 : A * eta ≤ (8001 / 1000 * (B * B)) *
        (1 / 1000000000000000000000000000000000000000000000) :=
      mul_le_mul hAB heta (le_of_lt heta0) (by positivity)
    have e2 : A * ((1 / r) + (1 / r) / 16777216 + eta) =
        (16777217 / 16777216) * (A * (1 / r)) + A * eta := by ring
    rw [e2] at h1
    linarith only [h1, h2, hAR, hBB1]

/-- The rounding noise of the dot product against its exact value `-(K G)`: the sign is
kept. -/
theorem dot_noise_lt (D K G E W eta B : ℚ) (hB0 : 1 / 1048576 ≤ B)
    (heta0 : 0 < eta) (heta : eta ≤ 1 / 1000000000000000000000000000000000000000000000)
    (hKpos : 0 < K) (hKB3 : B / 29 ≤ K * (B * B * B)) (hW0 : 0 ≤ W)
    (hBWK : B * W ≤ 24003 / 1000 * (K * (B * B * B)))
    (hG : 8 / 100000 * (B * B * B) ≤ |G|)
    (hde : |D - (-(K * G) - E)| ≤
      B * (W * (16777217 / 16777216) + 3 * eta) / 5000000 + 7 * eta)
    (hE : |E| ≤ B * (W / 16777216 + 3 * eta)) :
    |D + K * G| < K * |G| := by
  have hBpos : 0 < B := lt_of_lt_of_le (by norm_num) hB0
  have hKG : K * (8 / 100000 * (B * B * B)) ≤ K * |G| :=
    mul_le_mul_of_nonneg_left hG (le_of_lt hKpos)
  have e3 : K * (8 / 100000 * (B * B * B)) = 8 / 100000 * (K * (B * B * B)) := by ring
  rw [e3] at hKG
  have t := abs_add (D - (-(K * G) - E)) (-E)
  rw [abs_neg] at t
  have e : D + K * G = (D - (-(K * G) - E)) + (-E) := by ring
  rw [e]
  have e4 : B * (W * (16777217 / 16777216) + 3 * eta) / 5000000 + 7 * eta +
      B * (W / 16777216 + 3 * eta) =
      (16777217 / 16777216 / 5000000 + 1 / 16777216) * (B * W) +
      (3 / 5000000 + 3) * (B * eta) + 7 * eta := by ring
  have hBeta2 : (0 : ℚ) ≤ B * eta := by positivity
  have hBeta3 : B * eta ≤ B * (1 / 1000000000000000000000000000000000000000000000) :=
    mul_le_mul_of_nonneg_left heta (le_of_lt hBpos)
  have hBW0 : 0 ≤ B * W := by positivity
  linarith only [t, hde, hE, e4, hBeta2, hBeta3, hBW0, hBWK, hKB3, hKG, heta, heta0, hB0]

end Float32

end cgfs

namespace cgfs

namespace binary32

open rasterizer

/-! ## The sign of the back-face test -/

/-- The components of a normalised vector. -/
theorem normalize_eq (c0 c1 c2 : Float32) :
    Vec3.normalize ⟨c0, c1, c2⟩ =
      ⟨c0 * (1 / Float32.sqrt (c0 * c0 + c1 * c1 + c2 * c2)),
        c1 * (1 / Float32.sqrt (c0 * c0 + c1 * c1 + c2 * c2)),
        c2 * (1 / Float32.sqrt (c0 * c0 + c1 * c1 + c2 * c2))⟩ := rfl

/-- The inverse length `1.0f / length(c)` of a finite vector `c` of coordinates of
magnitude at most `8.001 B^2` whose product with a vector `x` of coordinates of magnitude at
most `B` is at least `8 B^3 / 100000`: it is finite and positive, at least `1 / (29 B^2)`,
and the normalised components have magnitude at most `9/4`. -/
theorem inverse_length_spec (X0 X1 X2 : ℚ) (c0 c1 c2 : Float32) (B : ℚ)
    (hB0 : 1 / 1048576 ≤ B) (hB1 : B ≤ 1048576)
    (hc0 : c0.is_finite = true) (hc1 : c1.is_finite = true) (hc2 : c2.is_finite = true)
    (hxb0 : |X0| ≤ B) (hxb1 : |X1| ≤ B) (hxb2 : |X2| ≤ B)
    (hcb0 : |c0.toRat| ≤ 8001 / 1000 * (B * B)) (hcb1 : |c1.toRat| ≤ 8001 / 1000 * (B * B))
    (hcb2 : |c2.toRat| ≤ 8001 / 1000 * (B * B))
    (hG : 8 / 100000 * (B * B * B) ≤ |X0 * c0.toRat + X1 * c1.toRat + X2 * c2.toRat|) :
    ∃ inv : Float32, 1 / Float32.sqrt (c0 * c0 + c1 * c1 + c2 * c2) = inv ∧
      inv.is_finite = true ∧ 0 < inv.toRat ∧ B / 29 ≤ inv.toRat * (B * B * B) ∧
      |c0.toRat| * inv.toRat ≤ 9 / 4 ∧ |c1.toRat| * inv.toRat ≤ 9 / 4 ∧
      |c2.toRat| * inv.toRat ≤ 9 / 4 := by
  have hBpos : 0 < B := lt_of_lt_of_le (by norm_num) hB0
  have hBBpos : 0 < B * B := by positivity
  have hB4pos : 0 < (B * B) * (B * B) := by positivity
  have heta := Float32.pow2_neg_150_le_small
  have hetapos := Float32.pow2_pos (-150)
  obtain ⟨hSlow, hSup, hSbig⟩ := Float32.sum_sq_bounds X0 X1 X2 c0.toRat c1.toRat c2.toRat B
    hB0 hB1 hxb0 hxb1 hxb2 hcb0 hcb1 hcb2 hG
  have hT : |c0.toRat * c0.toRat| + |c1.toRat * c1.toRat| + |c2.toRat * c2.toRat| ≤
      c0.toRat * c0.toRat + c1.toRat * c1.toRat + c2.toRat * c2.toRat := by
    rw [abs_mul_self, abs_mul_self, abs_mul_self]
  obtain ⟨hQf, hQe⟩ := Float32.dot3_near c0 c1 c2 c0 c1 c2 _ hc0 hc1 hc2 hc0 hc1 hc2 hT
    (by linarith only [hSbig])
  have hQpos : 0 < (c0 * c0 + c1 * c1 + c2 * c2).toRat := by
    rw [abs_le] at hQe
    linarith only [hQe.1, hSlow, heta]
  obtain ⟨q, hq⟩ : ∃ q, c0 * c0 + c1 * c1 + c2 * c2 = Float32.finite q := by
    rcases Float32.is_finite_cases _ hQf with h | h
    · exact h
    · rw [h] at hQpos
      exact absurd hQpos (lt_irrefl _)
  rw [hq] at hQpos hQe
  simp only [Float32.toRat] at hQpos hQe
  obtain ⟨r, hr, hrpos, hr1, hr2⟩ := Float32.sqrt_pos_spec q hQpos
  obtain ⟨_, hr_low, hr_up, hS5⟩ := Float32.length_bounds _ q r _ B hB4pos hSlow hSup heta
    hQe hrpos hr1 hr2 hBBpos
  have hrne : r ≠ 0 := ne_of_gt hrpos
  have hRpos : 0 < 1 / r := one_div_pos.mpr hrpos
  have hRup : 1 / r ≤ 100000000000000000 := by
    rw [div_le_iff₀ hrpos]
    linarith only [hr_low]
  have h127 := Float32.pow2_127_ge
  have hinv := Float32.div_finite (Float32.finite 1) r rfl hrne (by
    simp only [Float32.toRat]
    rw [abs_of_pos hRpos]
    linarith only [hRup, h127])
  simp only [Float32.toRat] at hinv
  rw [abs_of_pos hRpos, abs_le] at hinv
  obtain ⟨hKf, hK1, hK2⟩ := hinv
  obtain ⟨hKpos, hKB3, hAK⟩ := Float32.inverse_bounds _ r _ _ B hB0 hB1 hetapos heta hrpos
    hr_up hS5 hK1 hK2
  refine ⟨Float32.div (Float32.finite 1) (Float32.finite r), ?_, hKf, hKpos, hKB3, ?_, ?_, ?_⟩
  · rw [hq, hr, Float32.one_eq_finite]
    rfl
  · refine hAK _ (abs_nonneg _) ?_ hcb0
    rw [abs_mul_abs_self]
    linarith only [mul_self_nonneg c1.toRat, mul_self_nonneg c2.toRat]
  · refine hAK _ (abs_nonneg _) ?_ hcb1
    rw [abs_mul_abs_self]
    linarith only [mul_self_nonneg c0.toRat, mul_self_nonneg c2.toRat]
  · refine hAK _ (abs_nonneg _) ?_ hcb2
    rw [abs_mul_abs_self]
    linarith only [mul_self_nonneg c0.toRat, mul_self_nonneg c1.toRat]

/-- One normalised component `c * inv`: finite, near `c K`, and bounded. -/
theorem normal_component_near (c inv : Float32) (hc : c.is_finite = true)
    (hK : inv.is_finite = true) (hKpos : 0 < inv.toRat) (hcK : |c.toRat| * inv.toRat ≤ 9 / 4) :
    (c * inv).is_finite = true ∧
      |(c * inv).toRat - c.toRat * inv.toRat| ≤
        |c.toRat| * inv.toRat / 16777216 + Float32.pow2 (-150) ∧
      |(c * inv).toRat| ≤
        |c.toRat| * inv.toRat * (16777217 / 16777216) + Float32.pow2 (-150) := by
  have h127 := Float32.pow2_127_ge
  have habsK : |c.toRat * inv.toRat| = |c.toRat| * inv.toRat := by
    rw [abs_mul, abs_of_pos hKpos]
  obtain ⟨hf, he⟩ := Float32.hmul_finite c inv hc hK (by
    rw [habsK]
    linarith only [hcK, h127])
  rw [habsK] at he
  refine ⟨hf, he, ?_⟩
  have tri : |(c * inv).toRat| ≤ |(c * inv).toRat - c.toRat * inv.toRat| +
      |c.toRat * inv.toRat| := by
    have : (c * inv).toRat = ((c * inv).toRat - c.toRat * inv.toRat) + c.toRat * inv.toRat := by
      ring
    conv_lhs => rw [this]
    exact abs_add _ _
  rw [habsK] at tri
  linarith only [tri, he]

/-- The magnitude of one product of the dot product `dot(-x, n)`. -/
theorem neg_mul_le (x n : Float32) (B M : ℚ) (hB : 0 < B) (hx : x.is_finite = true)
    (hxB : |x.toRat| ≤ B) (hnM : |n.toRat| ≤ M) :
    |(-x).toRat * n.toRat| ≤ B * M := by
  have e : (-x).toRat = -x.toRat := (Float32.neg_finite x hx).2
  rw [e, abs_mul, abs_neg]
  exact mul_le_mul hxB hnM (abs_nonneg _) (le_of_lt hB)

/-- The sign of `dot(-x, normalize(c))` in single precision, for a finite vector `x` of
coordinates of magnitude at most `B` and a finite vector `c` of coordinates of magnitude
at most `8.001 B^2`, when the exact product `G = x . c` has magnitude at least
`8 B^3 / 100000`: the test `dot(-x, normalize(c)) <= 0.0f` holds exactly when `G > 0`. -/
theorem normal_dot_sign (x0 x1 x2 c0 c1 c2 : Float32) (B : ℚ) (hB0 : 1 / 1048576 ≤ B)
    (hB1 : B ≤ 1048576)
    (hx0 : x0.is_finite = true) (hx1 : x1.is_finite = true) (hx2 : x2.is_finite = true)
    (hc0 : c0.is_finite = true) (hc1 : c1.is_finite = true) (hc2 : c2.is_finite = true)
    (hxb0 : |x0.toRat| ≤ B) (hxb1 : |x1.toRat| ≤ B) (hxb2 : |x2.toRat| ≤ B)
    (hcb0 : |c0.toRat| ≤ 8001 / 1000 * (B * B)) (hcb1 : |c1.toRat| ≤ 8001 / 1000 * (B * B))
    (hcb2 : |c2.toRat| ≤ 8001 / 1000 * (B * B))
    (hG : 8 / 100000 * (B * B * B) ≤
      |x0.toRat * c0.toRat + x1.toRat * c1.toRat + x2.toRat * c2.toRat|) :
    Float32.le (Vec3.dot (Vec3.neg ⟨x0, x1, x2⟩) (Vec3.normalize ⟨c0, c1, c2⟩)) 0 =
      decide (0 < x0.toRat * c0.toRat + x1.toRat * c1.toRat + x2.toRat * c2.toRat) := by
  have hBpos : 0 < B := lt_of_lt_of_le (by norm_num) hB0
  have heta := Float32.pow2_neg_150_le_small
  have hetapos := Float32.pow2_pos (-150)
  obtain ⟨inv, hinv, hKf, hKpos, hKB3, hAK0, hAK1, hAK2⟩ := inverse_length_spec x0.toRat
    x1.toRat x2.toRat c0 c1 c2 B hB0 hB1 hc0 hc1 hc2 hxb0 hxb1 hxb2 hcb0 hcb1 hcb2 hG
  have hdot : Vec3.dot (Vec3.neg ⟨x0, x1, x2⟩) (Vec3.normalize ⟨c0, c1, c2⟩) =
      -x0 * (c0 * inv) + -x1 * (c1 * inv) + -x2 * (c2 * inv) := by
    rw [normalize_eq, hinv]
    rfl
  rw [hdot]
  obtain ⟨hn0f, hn0e, hn0b⟩ := normal_component_near c0 inv hc0 hKf hKpos hAK0
  obtain ⟨hn1f, hn1e, hn1b⟩ := normal_component_near c1 inv hc1 hKf hKpos hAK1
  obtain ⟨hn2f, hn2e, hn2b⟩ := normal_component_near c2 inv hc2 hKf hKpos hAK2
  obtain ⟨ha0f, ha0e⟩ := Float32.neg_finite x0 hx0
  obtain ⟨ha1f, ha1e⟩ := Float32.neg_finite x1 hx1
  obtain ⟨ha2f, ha2e⟩ := Float32.neg_finite x2 hx2
  have hp0 := neg_mul_le x0 (c0 * inv) B _ hBpos hx0 hxb0 hn0b
  have hp1 := neg_mul_le x1 (c1 * inv) B _ hBpos hx1 hxb1 hn1b
  have hp2 := neg_mul_le x2 (c2 * inv) B _ hBpos hx2 hxb2 hn2b
  have hA0 := mul_nonneg (abs_nonneg c0.toRat) (le_of_lt hKpos)
  have hA1 := mul_nonneg (abs_nonneg c1.toRat) (le_of_lt hKpos)
  have hA2 := mul_nonneg (abs_nonneg c2.toRat) (le_of_lt hKpos)
  have hW0 : 0 ≤ |c0.toRat| * inv.toRat + |c1.toRat| * inv.toRat + |c2.toRat| * inv.toRat := by
    linarith only [hA0, hA1, hA2]
  have hWup : |c0.toRat| * inv.toRat + |c1.toRat| * inv.toRat + |c2.toRat| * inv.toRat ≤
      27 / 4 := by linarith only [hAK0, hAK1, hAK2]
  have hTd : |(-x0).toRat * (c0 * inv).toRat| + |(-x1).toRat * (c1 * inv).toRat| +
      |(-x2).toRat * (c2 * inv).toRat| ≤
      B * ((|c0.toRat| * inv.toRat + |c1.toRat| * inv.toRat + |c2.toRat| * inv.toRat) *
        (16777217 / 16777216) + 3 * Float32.pow2 (-150)) := by
    have e : B * ((|c0.toRat| * inv.toRat + |c1.toRat| * inv.toRat + |c2.toRat| * inv.toRat) *
        (16777217 / 16777216) + 3 * Float32.pow2 (-150)) =
        B * (|c0.toRat| * inv.toRat * (16777217 / 16777216) + Float32.pow2 (-150)) +
        B * (|c1.toRat| * inv.toRat * (16777217 / 16777216) + Float32.pow2 (-150)) +
        B * (|c2.toRat| * inv.toRat * (16777217 / 16777216) + Float32.pow2 (-150)) := by
      ring
    rw [e]
    linarith only [hp0, hp1, hp2]
  have hBW : B * (|c0.toRat| * inv.toRat + |c1.toRat| * inv.toRat + |c2.toRat| * inv.toRat) ≤
      1048576 * (27 / 4) :=
    mul_le_mul hB1 hWup hW0 (by norm_num)
  have hBeta : B * Float32.pow2 (-150) ≤
      1048576 * (1 / 1000000000000000000000000000000000000000000000) :=
    mul_le_mul hB1 heta (le_of_lt hetapos) (by norm_num)
  obtain ⟨hdf, hde⟩ := Float32.dot3_near (-x0) (-x1) (-x2) (c0 * inv) (c1 * inv) (c2 * inv) _
    ha0f ha1f ha2f hn0f hn1f hn2f hTd (by
      have e : B * ((|c0.toRat| * inv.toRat + |c1.toRat| * inv.toRat +
          |c2.toRat| * inv.toRat) * (16777217 / 16777216) + 3 * Float32.pow2 (-150)) =
          (16777217 / 16777216) * (B * (|c0.toRat| * inv.toRat + |c1.toRat| * inv.toRat +
            |c2.toRat| * inv.toRat)) + 3 * (B * Float32.pow2 (-150)) := by ring
      rw [e]
      linarith only [hBW, hBeta])
  have hnegx0 : (-x0).toRat = -x0.toRat := ha0e
  have hnegx1 : (-x1).toRat = -x1.toRat := ha1e
  have hnegx2 : (-x2).toRat = -x2.toRat := ha2e
  rw [hnegx0, hnegx1, hnegx2] at hde
  have hsplit : -x0.toRat * (c0 * inv).toRat + -x1.toRat * (c1 * inv).toRat +
      -x2.toRat * (c2 * inv).toRat =
      -(inv.toRat * (x0.toRat * c0.toRat + x1.toRat * c1.toRat + x2.toRat * c2.toRat)) -
        (x0.toRat * ((c0 * inv).toRat - c0.toRat * inv.toRat) +
        x1.toRat * ((c1 * inv).toRat - c1.toRat * inv.toRat) +
        x2.toRat * ((c2 * inv).toRat - c2.toRat * inv.toRat)) := by
    ring
  rw [hsplit] at hde
  have hnoise : |x0.toRat * ((c0 * inv).toRat - c0.toRat * inv.toRat) +
        x1.toRat * ((c1 * inv).toRat - c1.toRat * inv.toRat) +
        x2.toRat * ((c2 * inv).toRat - c2.toRat * inv.toRat)| ≤
      B * ((|c0.toRat| * inv.toRat + |c1.toRat| * inv.toRat + |c2.toRat| * inv.toRat) /
        16777216 + 3 * Float32.pow2 (-150)) := by
    have t1 := abs_add (x0.toRat * ((c0 * inv).toRat - c0.toRat * inv.toRat) +
        x1.toRat * ((c1 * inv).toRat - c1.toRat * inv.toRat))
      (x2.toRat * ((c2 * inv).toRat - c2.toRat * inv.toRat))
    have t2 := abs_add (x0.toRat * ((c0 * inv).toRat - c0.toRat * inv.toRat))
      (x1.toRat * ((c1 * inv).toRat - c1.toRat * inv.toRat))
    have m : ∀ (x n c e : ℚ), |x| ≤ B → |n - c| ≤ e → |x * (n - c)| ≤ B * e := by
      intro x n c e hx hn
      rw [abs_mul]
      exact mul_le_mul hx hn (abs_nonneg _) (le_of_lt hBpos)
    have m0 := m _ _ _ _ hxb0 hn0e
    have m1 := m _ _ _ _ hxb1 hn1e
    have m2 := m _ _ _ _ hxb2 hn2e
    have e : B * ((|c0.toRat| * inv.toRat + |c1.toRat| * inv.toRat + |c2.toRat| * inv.toRat) /
        16777216 + 3 * Float32.pow2 (-150)) =
        B * (|c0.toRat| * inv.toRat / 16777216 + Float32.pow2 (-150)) +
        B * (|c1.toRat| * inv.toRat / 16777216 + Float32.pow2 (-150)) +
        B * (|c2.toRat| * inv.toRat / 16777216 + Float32.pow2 (-150)) := by
      ring
    rw [e]
    linarith only [t1, t2, m0, m1, m2]
  have hBWK : B * (|c0.toRat| * inv.toRat + |c1.toRat| * inv.toRat + |c2.toRat| * inv.toRat) ≤
      24003 / 1000 * (inv.toRat * (B * B * B)) := by
    have h1 : |c0.toRat| + |c1.toRat| + |c2.toRat| ≤ 24003 / 1000 * (B * B) := by
      linarith only [hcb0, hcb1, hcb2]
    have h2 : (|c0.toRat| + |c1.toRat| + |c2.toRat|) * inv.toRat ≤
        24003 / 1000 * (B * B) * inv.toRat :=
      mul_le_mul_of_nonneg_right h1 (le_of_lt hKpos)
    have h3 := mul_le_mul_of_nonneg_left h2 (le_of_lt hBpos)
    have e1 : B * ((|c0.toRat| + |c1.toRat| + |c2.toRat|) * inv.toRat) =
        B * (|c0.toRat| * inv.toRat + |c1.toRat| * inv.toRat + |c2.toRat| * inv.toRat) := by
      ring
    have e2 : B * (24003 / 1000 * (B * B) * inv.toRat) =
        24003 / 1000 * (inv.toRat * (B * B * B)) := by ring
    rw [e1, e2] at h3
    exact h3
  have hclose := Float32.dot_noise_lt _ inv.toRat _ _ _ _ B hB0 hetapos heta hKpos hKB3 hW0
    hBWK hG hde hnoise
  generalize hD : (-x0 * (c0 * inv) + -x1 * (c1 * inv) + -x2 * (c2 * inv)).toRat = D at hclose
  generalize x0.toRat * c0.toRat + x1.toRat * c1.toRat + x2.toRat * c2.toRat = G at hclose hG
  have hGne : 0 < |G| := by
    have : 0 < B * B * B := by positivity
    linarith only [this, hG]
  obtain ⟨dq, hdq, hdqD⟩ : ∃ dq, -x0 * (c0 * inv) + -x1 * (c1 * inv) + -x2 * (c2 * inv) =
      Float32.finite dq ∧ dq = D := by
    rcases Float32.is_finite_cases _ hdf with ⟨dq, h⟩ | h
    · refine ⟨dq, h, ?_⟩
      rw [h] at hD
      exact hD
    · rw [h] at hD
      simp only [Float32.toRat] at hD
      rw [← hD, zero_add, abs_mul, abs_of_pos hKpos] at hclose
      exact absurd hclose (lt_irrefl _)
  rw [hdq, Float32.zero_eq_finite]
  show decide (dq ≤ 0) = _
  rw [hdqD]
  rcases lt_or_gt_of_ne (abs_pos.mp hGne) with hneg | hpos
  · rw [abs_of_neg hneg, abs_lt] at hclose
    have hD0 : 0 < D := by linarith only [hclose.1]
    simp [not_le.mpr hD0, not_lt.mpr (le_of_lt hneg)]
  · rw [abs_of_pos hpos, abs_lt] at hclose
    have hD0 : D < 0 := by linarith only [hclose.2]
    simp [le_of_lt hD0, hpos]

end binary32

end cgfs

namespace cgfs

namespace Float32

/-! ## Triple products of nearby vectors -/

/-- A product of three factors of magnitude at most `M`, each moved by at most `e`. -/
theorem triple_near (x y z x' y' z' M e : ℚ) (hx : |x| ≤ M) (hy : |y| ≤ M)
    (hx' : |x' - x| ≤ e) (hy' : |y' - y| ≤ e) (hz' : |z' - z| ≤ e) (hz : |z| ≤ M) :
    |x' * y' * z' - x * y * z| ≤ e * ((M + e) * (M + e)) + M * e * (M + e) + M * M * e := by
  have he : 0 ≤ e := le_trans (abs_nonneg _) hx'
  have hM : 0 ≤ M := le_trans (abs_nonneg _) hx
  have hyb : |y'| ≤ M + e := by
    have : y' = y + (y' - y) := by ring
    rw [this]
    exact le_trans (abs_add _ _) (add_le_add hy hy')
  have hzb : |z'| ≤ M + e := by
    have : z' = z + (z' - z) := by ring
    rw [this]
    exact le_trans (abs_add _ _) (add_le_add hz hz')
  have e1 : x' * y' * z' - x * y * z =
      (x' - x) * (y' * z') + x * ((y' - y) * z') + x * y * (z' - z) := by ring
  rw [e1]
  have t1 := abs_add ((x' - x) * (y' * z') + x * ((y' - y) * z')) (x * y * (z' - z))
  have t2 := abs_add ((x' - x) * (y' * z')) (x * ((y' - y) * z'))
  have b1 : |(x' - x) * (y' * z')| ≤ e * ((M + e) * (M + e)) := by
    rw [abs_mul, abs_mul]
    exact mul_le_mul hx' (mul_le_mul hyb hzb (abs_nonneg _) (by linarith only [hM, he]))
      (by positivity) he
  have b2 : |x * ((y' - y) * z')| ≤ M * (e * (M + e)) := by
    rw [abs_mul, abs_mul]
    exact mul_le_mul hx (mul_le_mul hy' hzb (abs_nonneg _) he) (by positivity) hM
  have b3 : |x * y * (z' - z)| ≤ M * M * e := by
    rw [abs_mul, abs_mul]
    exact mul_le_mul (mul_le_mul hx hy (abs_nonneg _) hM) hz' (abs_nonneg _) (by positivity)
  have e2 : M * (e * (M + e)) = M * e * (M + e) := by ring
  linarith only [t1, t2, b1, b2, b3, e2]

/-- The triple product `a . (b x c)` of three vectors of coordinates of magnitude at most
`M`, each coordinate moved by at most `e`. -/
theorem det3_near (a0 a1 a2 b0 b1 b2 c0 c1 c2 a0' a1' a2' b0' b1' b2' c0' c1' c2' M e : ℚ)
    (ha0 : |a0| ≤ M) (ha1 : |a1| ≤ M) (ha2 : |a2| ≤ M)
    (hb0 : |b0| ≤ M) (hb1 : |b1| ≤ M) (hb2 : |b2| ≤ M)
    (hc0 : |c0| ≤ M) (hc1 : |c1| ≤ M) (hc2 : |c2| ≤ M)
    (ha0' : |a0' - a0| ≤ e) (ha1' : |a1' - a1| ≤ e) (ha2' : |a2' - a2| ≤ e)
    (hb0' : |b0' - b0| ≤ e) (hb1' : |b1' - b1| ≤ e) (hb2' : |b2' - b2| ≤ e)
    (hc0' : |c0' - c0| ≤ e) (hc1' : |c1' - c1| ≤ e) (hc2' : |c2' - c2| ≤ e) :
    |(a0' * (b1' * c2' - b2' * c1') + a1' * (b2' * c0' - b0' * c2') +
        a2' * (b0' * c1' - b1' * c0')) -
      (a0 * (b1 * c2 - b2 * c1) + a1 * (b2 * c0 - b0 * c2) + a2 * (b0 * c1 - b1 * c0))| ≤
      6 * (e * ((M + e) * (M + e)) + M * e * (M + e) + M * M * e) := by
  have t1 := triple_near a0 b1 c2 a0' b1' c2' M e ha0 hb1 ha0' hb1' hc2' hc2
  have t2 := triple_near a0 b2 c1 a0' b2' c1' M e ha0 hb2 ha0' hb2' hc1' hc1
  have t3 := triple_near a1 b2 c0 a1' b2' c0' M e ha1 hb2 ha1' hb2' hc0' hc0
  have t4 := triple_near a1 b0 c2 a1' b0' c2' M e ha1 hb0 ha1' hb0' hc2' hc2
  have t5 := triple_near a2 b0 c1 a2' b0' c1' M e ha2 hb0 ha2' hb0' hc1' hc1
  have t6 := triple_near a2 b1 c0 a2' b1' c0' M e ha2 hb1 ha2' hb1' hc0' hc0
  have e1 : (a0' * (b1' * c2' - b2' * c1') + a1' * (b2' * c0' - b0' * c2') +
        a2' * (b0' * c1' - b1' * c0')) -
      (a0 * (b1 * c2 - b2 * c1) + a1 * (b2 * c0 - b0 * c2) + a2 * (b0 * c1 - b1 * c0)) =
      (a0' * b1' * c2' - a0 * b1 * c2) - (a0' * b2' * c1' - a0 * b2 * c1) +
      (a1' * b2' * c0' - a1 * b2 * c0) - (a1' * b0' * c2' - a1 * b0 * c2) +
      (a2' * b0' * c1' - a2 * b0 * c1) - (a2' * b1' * c0' - a2 * b1 * c0) := by ring
  rw [e1]
  rw [abs_le] at t1 t2 t3 t4 t5 t6 ⊢
  constructor
  · linarith only [t1.1, t1.2, t2.1, t2.2, t3.1, t3.2, t4.1, t4.2, t5.1, t5.2, t6.1, t6.2]
  · linarith only [t1.1, t1.2, t2.1, t2.2, t3.1, t3.2, t4.1, t4.2, t5.1, t5.2, t6.1, t6.2]

end Float32

namespace binary32

open rasterizer

/-! ## The back-face test away from the edge-on position -/

/-- The boolean result of the back-face test. -/
theorem is_back_facing_triangle_fst (v0 v1 v2 : Vec4) :
    (is_back_facing_triangle v0 v1 v2).1 =
      Float32.le (Vec3.dot (Vec3.neg ⟨v0.x, v0.y, v0.z⟩)
        (Vec3.normalize
          ⟨(v1.y - v0.y) * (v2.z - v0.z) - (v1.z - v0.z) * (v2.y - v0.y),
            (v1.z - v0.z) * (v2.x - v0.x) - (v1.x - v0.x) * (v2.z - v0.z),
            (v1.x - v0.x) * (v2.y - v0.y) - (v1.y - v0.y) * (v2.x - v0.x)⟩)) 0 := by
  unfold is_back_facing_triangle
  simp only []
  split
  · rename_i h
    exact h.symm
  · rename_i h
    have : Float32.le (Vec3.dot (Vec3.neg v0.xyz) (compute_triangle_normal v0 v1 v2)) 0 =
        false := by
      cases hc : Float32.le (Vec3.dot (Vec3.neg v0.xyz) (compute_triangle_normal v0 v1 v2)) 0
      · rfl
      · exact absurd hc h
    exact this.symm

/-- The exact triple product `v0 . (v1 x v2)` in terms of the edges from `v0`. -/
theorem triple_product_edges (v0 v1 v2 : Vec4) :
    cgfs.Vec3.dot v0.exact (cgfs.Vec3.cross v1.exact v2.exact) =
      v0.x.toRat * ((v1.y.toRat - v0.y.toRat) * (v2.z.toRat - v0.z.toRat) -
        (v1.z.toRat - v0.z.toRat) * (v2.y.toRat - v0.y.toRat)) +
      v0.y.toRat * ((v1.z.toRat - v0.z.toRat) * (v2.x.toRat - v0.x.toRat) -
        (v1.x.toRat - v0.x.toRat) * (v2.z.toRat - v0.z.toRat)) +
      v0.z.toRat * ((v1.x.toRat - v0.x.toRat) * (v2.y.toRat - v0.y.toRat) -
        (v1.y.toRat - v0.y.toRat) * (v2.x.toRat - v0.x.toRat)) := by
  simp only [cgfs.Vec3.dot, cgfs.Vec3.cross, Vec4.exact]
  ring

/-- The exact triple product is the same for the three cyclic orders of the vertices. -/
theorem triple_product_cyclic (v0 v1 v2 : Vec4) :
    cgfs.Vec3.dot v1.exact (cgfs.Vec3.cross v2.exact v0.exact) =
      cgfs.Vec3.dot v0.exact (cgfs.Vec3.cross v1.exact v2.exact) := by
  simp only [cgfs.Vec3.dot, cgfs.Vec3.cross, Vec4.exact]
  ring

/-- The back-face test away from the edge-on position.  For view-space vertices whose
coordinates are finite floats of magnitude at most `B`, `2^-20 <= B <= 2^20`, and whose
exact triple product `v0 . (v1 x v2)` has magnitude at least `96 B^3 / 1000000`,
`is_back_facing_triangle` answers true exactly when the triple product is positive. -/
theorem back_facing_of_margin (v0 v1 v2 : Vec4) (B : ℚ) (hB0 : 1 / 1048576 ≤ B)
    (hB1 : B ≤ 1048576) (h0 : v0.within B) (h1 : v1.within B) (h2 : v2.within B)
    (hdet : 96 / 1000000 * (B * B * B) ≤
      |cgfs.Vec3.dot v0.exact (cgfs.Vec3.cross v1.exact v2.exact)|) :
    (is_back_facing_triangle v0 v1 v2).1 =
      decide (0 < cgfs.Vec3.dot v0.exact (cgfs.Vec3.cross v1.exact v2.exact)) := by
  obtain ⟨⟨hf0x, hb0x⟩, ⟨hf0y, hb0y⟩, ⟨hf0z, hb0z⟩⟩ := h0
  obtain ⟨⟨hf1x, hb1x⟩, ⟨hf1y, hb1y⟩, ⟨hf1z, hb1z⟩⟩ := h1
  obtain ⟨⟨hf2x, hb2x⟩, ⟨hf2y, hb2y⟩, ⟨hf2z, hb2z⟩⟩ := h2
  have hBpos : 0 < B := lt_of_lt_of_le (by norm_num) hB0
  have hBBpos : 0 < B * B := by positivity
  have hB3pos : 0 < B * B * B := by positivity
  obtain ⟨e1xf, e1xe, e1xb⟩ := Float32.edge_near v1.x v0.x B hB0 hB1 hf1x hf0x hb1x hb0x
  obtain ⟨e1yf, e1ye, e1yb⟩ := Float32.edge_near v1.y v0.y B hB0 hB1 hf1y hf0y hb1y hb0y
  obtain ⟨e1zf, e1ze, e1zb⟩ := Float32.edge_near v1.z v0.z B hB0 hB1 hf1z hf0z hb1z hb0z
  obtain ⟨e2xf, e2xe, e2xb⟩ := Float32.edge_near v2.x v0.x B hB0 hB1 hf2x hf0x hb2x hb0x
  obtain ⟨e2yf, e2ye, e2yb⟩ := Float32.edge_near v2.y v0.y B hB0 hB1 hf2y hf0y hb2y hb0y
  obtain ⟨e2zf, e2ze, e2zb⟩ := Float32.edge_near v2.z v0.z B hB0 hB1 hf2z hf0z hb2z hb0z
  obtain ⟨cxf, cxe, cxb⟩ := Float32.cross_component_near (v1.y - v0.y) (v2.z - v0.z)
    (v1.z - v0.z) (v2.y - v0.y) _ _ _ _ B hB0 hB1 e1yf e2zf e1zf e2yf e1ye e2ze e1ze e2ye
    e1yb e2zb e1zb e2yb
  obtain ⟨cyf, cye, cyb⟩ := Float32.cross_component_near (v1.z - v0.z) (v2.x - v0.x)
    (v1.x - v0.x) (v2.z - v0.z) _ _ _ _ B hB0 hB1 e1zf e2xf e1xf e2zf e1ze e2xe e1xe e2ze
    e1zb e2xb e1xb e2zb
  obtain ⟨czf, cze, czb⟩ := Float32.cross_component_near (v1.x - v0.x) (v2.y - v0.y)
    (v1.y - v0.y) (v2.x - v0.x) _ _ _ _ B hB0 hB1 e1xf e2yf e1yf e2xf e1xe e2ye e1ye e2xe
    e1xb e2yb e1yb e2xb
  rw [is_back_facing_triangle_fst, triple_product_edges] at *
  generalize hcx : (v1.y - v0.y) * (v2.z - v0.z) - (v1.z - v0.z) * (v2.y - v0.y) = cx at *
  generalize hcy : (v1.z - v0.z) * (v2.x - v0.x) - (v1.x - v0.x) * (v2.z - v0.z) = cy at *
  generalize hcz : (v1.x - v0.x) * (v2.y - v0.y) - (v1.y - v0.y) * (v2.x - v0.x) = cz at *
  generalize hCx : (v1.y.toRat - v0.y.toRat) * (v2.z.toRat - v0.z.toRat) -
    (v1.z.toRat - v0.z.toRat) * (v2.y.toRat - v0.y.toRat) = Cx at *
  generalize hCy : (v1.z.toRat - v0.z.toRat) * (v2.x.toRat - v0.x.toRat) -
    (v1.x.toRat - v0.x.toRat) * (v2.z.toRat - v0.z.toRat) = Cy at *
  generalize hCz : (v1.x.toRat - v0.x.toRat) * (v2.y.toRat - v0.y.toRat) -
    (v1.y.toRat - v0.y.toRat) * (v2.x.toRat - v0.x.toRat) = Cz at *
  have tri : ∀ a b : ℚ, |a| ≤ |a - b| + |b| := by
    intro a b
    have : a = (a - b) + b := by ring
    conv_lhs => rw [this]
    exact abs_add _ _
  have hcxb : |cx.toRat| ≤ 8001 / 1000 * (B * B) := by
    linarith only [tri cx.toRat Cx, cxe, cxb, hBBpos]
  have hcyb : |cy.toRat| ≤ 8001 / 1000 * (B * B) := by
    linarith only [tri cy.toRat Cy, cye, cyb, hBBpos]
  have hczb : |cz.toRat| ≤ 8001 / 1000 * (B * B) := by
    linarith only [tri cz.toRat Cz, cze, czb, hBBpos]
  have hGd : |(v0.x.toRat * cx.toRat + v0.y.toRat * cy.toRat + v0.z.toRat * cz.toRat) -
      (v0.x.toRat * Cx + v0.y.toRat * Cy + v0.z.toRat * Cz)| ≤
      3 / 400000 * (B * B * B) := by
    have e : (v0.x.toRat * cx.toRat + v0.y.toRat * cy.toRat + v0.z.toRat * cz.toRat) -
        (v0.x.toRat * Cx + v0.y.toRat * Cy + v0.z.toRat * Cz) =
        v0.x.toRat * (cx.toRat - Cx) + v0.y.toRat * (cy.toRat - Cy) +
          v0.z.toRat * (cz.toRat - Cz) := by ring
    rw [e]
    have t1 := abs_add (v0.x.toRat * (cx.toRat - Cx) + v0.y.toRat * (cy.toRat - Cy))
      (v0.z.toRat * (cz.toRat - Cz))
    have t2 := abs_add (v0.x.toRat * (cx.toRat - Cx)) (v0.y.toRat * (cy.toRat - Cy))
    have m : ∀ (x n c : ℚ), |x| ≤ B → |n - c| ≤ B * B / 400000 →
        |x * (n - c)| ≤ B * (B * B / 400000) := by
      intro x n c hx hn
      rw [abs_mul]
      exact mul_le_mul hx hn (abs_nonneg _) (le_of_lt hBpos)
    have m0 := m _ _ _ hb0x cxe
    have m1 := m _ _ _ hb0y cye
    have m2 := m _ _ _ hb0z cze
    have e2 : B * (B * B / 400000) = 1 / 400000 * (B * B * B) := by ring
    rw [e2] at m0 m1 m2
    linarith only [t1, t2, m0, m1, m2]
  generalize hG : v0.x.toRat * cx.toRat + v0.y.toRat * cy.toRat + v0.z.toRat * cz.toRat = G
    at hGd
  generalize hD : v0.x.toRat * Cx + v0.y.toRat * Cy + v0.z.toRat * Cz = Dt at hGd hdet
  have hGm : 8 / 100000 * (B * B * B) ≤ |G| := by
    have := tri Dt G
    rw [abs_sub_comm] at this
    linarith only [this, hGd, hdet, hB3pos]
  have hsign : decide (0 < G) = decide (0 < Dt) := by
    rw [abs_le] at hGd
    by_cases hpos : 0 < Dt
    · rw [abs_of_pos hpos] at hdet
      have : 0 < G := by linarith only [hGd.1, hdet, hB3pos]
      simp [hpos, this]
    · have hneg : Dt ≤ 0 := not_lt.mp hpos
      rw [abs_of_nonpos hneg] at hdet
      have : ¬ 0 < G := by
        apply not_lt.mpr
        linarith only [hGd.2, hdet, hB3pos]
      simp [hpos, this]
  rw [← hsign, ← hG]
  exact normal_dot_sign v0.x v0.y v0.z cx cy cz B hB0 hB1 hf0x hf0y hf0z cxf cyf czf hb0x hb0y
    hb0z hcxb hcyb hczb (by rw [hG]; exact hGm)

end binary32

end cgfs

namespace cgfs

namespace Float32

/-! ## Scaled vertices -/

/-- One coordinate multiplied by a positive factor `s`, where `2^-20 <= s B <= 10^6`: the
product is finite and within `s B / 8000000` of the exact one. -/
theorem scale_near (x s : Float32) (B : ℚ) (hx : x.is_finite = true) (hs : s.is_finite = true)
    (hs0 : 0 < s.toRat) (hxB : |x.toRat| ≤ B) (hM0 : 1 / 1048576 ≤ s.toRat * B)
    (hM1 : s.toRat * B ≤ 1000000) :
    (x * s).is_finite = true ∧
      |(x * s).toRat - s.toRat * x.toRat| ≤ s.toRat * B / 8000000 ∧
      |s.toRat * x.toRat| ≤ s.toRat * B := by
  have hb : |s.toRat * x.toRat| ≤ s.toRat * B := by
    rw [abs_mul, abs_of_pos hs0]
    exact mul_le_mul_of_nonneg_left hxB (le_of_lt hs0)
  have h127 := pow2_127_ge
  have heta := pow2_neg_150_le_small
  have hc : x.toRat * s.toRat = s.toRat * x.toRat := mul_comm _ _
  obtain ⟨hf, he⟩ := hmul_finite x s hx hs (by rw [hc]; linarith only [hb, hM1, h127])
  rw [hc] at he
  refine ⟨hf, ?_, hb⟩
  linarith only [he, hb, hM0, heta]

end Float32

namespace binary32

open rasterizer

/-- A vertex multiplied by a positive factor `s` (`Vec3 * float`), where
`2^-20 <= s B <= 10^6`: its coordinates are finite, within `s B / 8000000` of the exact
products, which have magnitude at most `s B`. -/
theorem scaled_vertex_near (v : Vec4) (s : Float32) (B : ℚ) (hs : s.is_finite = true)
    (hs0 : 0 < s.toRat) (hM0 : 1 / 1048576 ≤ s.toRat * B) (hM1 : s.toRat * B ≤ 1000000)
    (hv : v.within B) :
    (Vec4.ofVec3 (Vec3.mul v.xyz s) v.w).within (s.toRat * B + s.toRat * B / 8000000) ∧
      (|(Vec4.ofVec3 (Vec3.mul v.xyz s) v.w).x.toRat - s.toRat * v.x.toRat| ≤
          s.toRat * B / 8000000 ∧
        |(Vec4.ofVec3 (Vec3.mul v.xyz s) v.w).y.toRat - s.toRat * v.y.toRat| ≤
          s.toRat * B / 8000000 ∧
        |(Vec4.ofVec3 (Vec3.mul v.xyz s) v.w).z.toRat - s.toRat * v.z.toRat| ≤
          s.toRat * B / 8000000) ∧
      (|s.toRat * v.x.toRat| ≤ s.toRat * B ∧ |s.toRat * v.y.toRat| ≤ s.toRat * B ∧
        |s.toRat * v.z.toRat| ≤ s.toRat * B) := by
  obtain ⟨⟨hfx, hbx⟩, ⟨hfy, hby⟩, ⟨hfz, hbz⟩⟩ := hv
  obtain ⟨fx, ex, bx⟩ := Float32.scale_near v.x s B hfx hs hs0 hbx hM0 hM1
  obtain ⟨fy, ey, by_⟩ := Float32.scale_near v.y s B hfy hs hs0 hby hM0 hM1
  obtain ⟨fz, ez, bz⟩ := Float32.scale_near v.z s B hfz hs hs0 hbz hM0 hM1
  have tri : ∀ a b : ℚ, |a| ≤ |a - b| + |b| := by
    intro a b
    have : a = (a - b) + b := by ring
    conv_lhs => rw [this]
    exact abs_add _ _
  refine ⟨⟨⟨fx, ?_⟩, ⟨fy, ?_⟩, ⟨fz, ?_⟩⟩, ⟨ex, ey, ez⟩, ⟨bx, by_, bz⟩⟩
  · have t := tri (v.x * s).toRat (s.toRat * v.x.toRat)
    exact le_trans t (by linarith only [ex, bx])
  · have t := tri (v.y * s).toRat (s.toRat * v.y.toRat)
    exact le_trans t (by linarith only [ey, by_])
  · have t := tri (v.z * s).toRat (s.toRat * v.z.toRat)
    exact le_trans t (by linarith only [ez, bz])

end binary32

end cgfs

namespace cgfs

namespace binary32

open rasterizer

/-- The back-face test on computed vertices near a scaled exact triangle.  Let `u0, u1, u2`
be exact positions of coordinates of magnitude at most `B`, `s > 0` a factor with
`2^-20 <= s B <= 10^6` and `w0, w1, w2` vertices of finite coordinates within `e` of those
of `s u0, s u1, s u2`, where `e <= s B / 100000`.  When `s^3` times the magnitude of the
triple product `u0 . (u1 x u2)` is at least `96 (s B + e)^3 / 1000000` plus the bound of
`det3_near` on the error of the triple product, `is_back_facing_triangle w0 w1 w2` answers
true exactly when the triple product is positive. -/
theorem back_facing_of_near (u0 u1 u2 : cgfs.Vec3) (w0 w1 w2 : Vec4) (s B e : ℚ)
    (hs : 0 < s) (hM0 : 1 / 1048576 ≤ s * B) (hM1 : s * B ≤ 1000000) (he0 : 0 ≤ e)
    (he1 : e ≤ s * B / 100000)
    (hu0 : |u0.x| ≤ B ∧ |u0.y| ≤ B ∧ |u0.z| ≤ B)
    (hu1 : |u1.x| ≤ B ∧ |u1.y| ≤ B ∧ |u1.z| ≤ B)
    (hu2 : |u2.x| ≤ B ∧ |u2.y| ≤ B ∧ |u2.z| ≤ B)
    (hf0 : w0.x.is_finite = true ∧ w0.y.is_finite = true ∧ w0.z.is_finite = true)
    (hf1 : w1.x.is_finite = true ∧ w1.y.is_finite = true ∧ w1.z.is_finite = true)
    (hf2 : w2.x.is_finite = true ∧ w2.y.is_finite = true ∧ w2.z.is_finite = true)
    (hn0 : |w0.x.toRat - s * u0.x| ≤ e ∧ |w0.y.toRat - s * u0.y| ≤ e ∧
      |w0.z.toRat - s * u0.z| ≤ e)
    (hn1 : |w1.x.toRat - s * u1.x| ≤ e ∧ |w1.y.toRat - s * u1.y| ≤ e ∧
      |w1.z.toRat - s * u1.z| ≤ e)
    (hn2 : |w2.x.toRat - s * u2.x| ≤ e ∧ |w2.y.toRat - s * u2.y| ≤ e ∧
      |w2.z.toRat - s * u2.z| ≤ e)
    (hdet : 96 / 1000000 * ((s * B + e) * (s * B + e) * (s * B + e)) +
        6 * (e * ((s * B + e) * (s * B + e)) + s * B * e * (s * B + e) + s * B * (s * B) * e) ≤
      s * s * s * |cgfs.Vec3.dot u0 (cgfs.Vec3.cross u1 u2)|) :
    (is_back_facing_triangle w0 w1 w2).1 =
      decide (0 < cgfs.Vec3.dot u0 (cgfs.Vec3.cross u1 u2)) := by
  have hs3 : 0 < s * s * s := by positivity
  have hMpos : 0 < s * B := lt_of_lt_of_le (by norm_num) hM0
  have hB'pos : 0 < s * B + e := by linarith only [hMpos, he0]
  have hB'3 : 0 < (s * B + e) * (s * B + e) * (s * B + e) := by positivity
  have sc : ∀ a : ℚ, |a| ≤ B → |s * a| ≤ s * B := by
    intro a ha
    rw [abs_mul, abs_of_pos hs]
    exact mul_le_mul_of_nonneg_left ha (le_of_lt hs)
  have tri : ∀ a b : ℚ, |a - b| ≤ e → |b| ≤ s * B → |a| ≤ s * B + e := by
    intro a b h1 h2
    have : a = (a - b) + b := by ring
    rw [this]
    have := abs_add (a - b) b
    linarith only [this, h1, h2]
  have hnear := Float32.det3_near (s * u0.x) (s * u0.y) (s * u0.z) (s * u1.x) (s * u1.y)
    (s * u1.z) (s * u2.x) (s * u2.y) (s * u2.z) w0.x.toRat w0.y.toRat w0.z.toRat w1.x.toRat
    w1.y.toRat w1.z.toRat w2.x.toRat w2.y.toRat w2.z.toRat (s * B) e
    (sc _ hu0.1) (sc _ hu0.2.1) (sc _ hu0.2.2) (sc _ hu1.1) (sc _ hu1.2.1) (sc _ hu1.2.2)
    (sc _ hu2.1) (sc _ hu2.2.1) (sc _ hu2.2.2) hn0.1 hn0.2.1 hn0.2.2 hn1.1 hn1.2.1 hn1.2.2
    hn2.1 hn2.2.1 hn2.2.2
  have eDw : w0.x.toRat * (w1.y.toRat * w2.z.toRat - w1.z.toRat * w2.y.toRat) +
      w0.y.toRat * (w1.z.toRat * w2.x.toRat - w1.x.toRat * w2.z.toRat) +
      w0.z.toRat * (w1.x.toRat * w2.y.toRat - w1.y.toRat * w2.x.toRat) =
      cgfs.Vec3.dot w0.exact (cgfs.Vec3.cross w1.exact w2.exact) := by
    simp only [cgfs.Vec3.dot, cgfs.Vec3.cross, Vec4.exact]
  have eDu : s * u0.x * (s * u1.y * (s * u2.z) - s * u1.z * (s * u2.y)) +
      s * u0.y * (s * u1.z * (s * u2.x) - s * u1.x * (s * u2.z)) +
      s * u0.z * (s * u1.x * (s * u2.y) - s * u1.y * (s * u2.x)) =
      s * s * s * cgfs.Vec3.dot u0 (cgfs.Vec3.cross u1 u2) := by
    simp only [cgfs.Vec3.dot, cgfs.Vec3.cross]
    ring
  rw [eDw, eDu] at hnear
  generalize cgfs.Vec3.dot u0 (cgfs.Vec3.cross u1 u2) = Du at hnear hdet ⊢
  have hwithin0 : w0.within (s * B + e) :=
    ⟨⟨hf0.1, tri _ _ hn0.1 (sc _ hu0.1)⟩, ⟨hf0.2.1, tri _ _ hn0.2.1 (sc _ hu0.2.1)⟩,
      ⟨hf0.2.2, tri _ _ hn0.2.2 (sc _ hu0.2.2)⟩⟩
  have hwithin1 : w1.within (s * B + e) :=
    ⟨⟨hf1.1, tri _ _ hn1.1 (sc _ hu1.1)⟩, ⟨hf1.2.1, tri _ _ hn1.2.1 (sc _ hu1.2.1)⟩,
      ⟨hf1.2.2, tri _ _ hn1.2.2 (sc _ hu1.2.2)⟩⟩
  have hwithin2 : w2.within (s * B + e) :=
    ⟨⟨hf2.1, tri _ _ hn2.1 (sc _ hu2.1)⟩, ⟨hf2.2.1, tri _ _ hn2.2.1 (sc _ hu2.2.1)⟩,
      ⟨hf2.2.2, tri _ _ hn2.2.2 (sc _ hu2.2.2)⟩⟩
  have hmargin : 96 / 1000000 * ((s * B + e) * (s * B + e) * (s * B + e)) ≤
        |cgfs.Vec3.dot w0.exact (cgfs.Vec3.cross w1.exact w2.exact)| ∧
      (0 < cgfs.Vec3.dot w0.exact (cgfs.Vec3.cross w1.exact w2.exact) ↔ 0 < Du) := by
    generalize cgfs.Vec3.dot w0.exact (cgfs.Vec3.cross w1.exact w2.exact) = Dw at hnear ⊢
    generalize 6 * (e * ((s * B + e) * (s * B + e)) + s * B * e * (s * B + e) +
      s * B * (s * B) * e) = dl at hnear hdet
    rw [abs_le] at hnear
    by_cases hpos : 0 < Du
    · rw [abs_of_pos hpos] at hdet
      have hDw : 0 < Dw := by linarith only [hdet, hnear.1, hB'3]
      rw [abs_of_pos hDw]
      exact ⟨by linarith only [hdet, hnear.1], fun _ => hpos, fun _ => hDw⟩
    · have hneg : Du ≤ 0 := not_lt.mp hpos
      rw [abs_of_nonpos hneg] at hdet
      have e3 : s * s * s * -Du = -(s * s * s * Du) := by ring
      rw [e3] at hdet
      have hDw : Dw < 0 := by linarith only [hdet, hnear.2, hB'3]
      rw [abs_of_neg hDw]
      exact ⟨by linarith only [hdet, hnear.2],
        fun h => absurd h (not_lt.mpr (le_of_lt hDw)), fun h => absurd h hpos⟩
  rw [back_facing_of_margin w0 w1 w2 (s * B + e) (by linarith only [hM0, he0])
    (by linarith only [hM1, he1]) hwithin0 hwithin1 hwithin2 hmargin.1]
  exact decide_eq_decide.mpr hmargin.2

/-- The margin of `back_facing_of_near` for the error `e = s B / 8000000` of one rounded
product: a triple product of magnitude at least `B^3 / 10000` suffices. -/
theorem near_margin_of_scaled (s B D : ℚ) (hs : 0 < s) (hB : 0 < B)
    (hdet : B * B * B / 10000 ≤ |D|) :
    96 / 1000000 * ((s * B + s * B / 8000000) * (s * B + s * B / 8000000) *
          (s * B + s * B / 8000000)) +
        6 * (s * B / 8000000 * ((s * B + s * B / 8000000) * (s * B + s * B / 8000000)) +
          s * B * (s * B / 8000000) * (s * B + s * B / 8000000) +
          s * B * (s * B) * (s * B / 8000000)) ≤ s * s * s * |D| := by
  have hs3 : 0 < s * s * s := by positivity
  have hM3 : 0 < s * B * (s * B) * (s * B) := by positivity
  have h1 := mul_le_mul_of_nonneg_left hdet (le_of_lt hs3)
  have e2 : s * s * s * (B * B * B / 10000) = s * B * (s * B) * (s * B) / 10000 := by ring
  rw [e2] at h1
  have e1 : 96 / 1000000 * ((s * B + s * B / 8000000) * (s * B + s * B / 8000000) *
          (s * B + s * B / 8000000)) +
        6 * (s * B / 8000000 * ((s * B + s * B / 8000000) * (s * B + s * B / 8000000)) +
          s * B * (s * B / 8000000) * (s * B + s * B / 8000000) +
          s * B * (s * B) * (s * B / 8000000)) =
      (96 / 1000000 * ((8000001 / 8000000) * (8000001 / 8000000) * (8000001 / 8000000)) +
        6 * (1 / 8000000 * ((8000001 / 8000000) * (8000001 / 8000000)) +
          1 / 8000000 * (8000001 / 8000000) + 1 / 8000000)) *
        (s * B * (s * B) * (s * B)) := by ring
  rw [e1]
  have hk : (96 / 1000000 * ((8000001 / 8000000) * (8000001 / 8000000) * (8000001 / 8000000)) +
        6 * (1 / 8000000 * ((8000001 / 8000000) * (8000001 / 8000000)) +
          1 / 8000000 * (8000001 / 8000000) + 1 / 8000000) : ℚ) ≤ 1 / 10000 := by norm_num
  have hk2 := mul_le_mul_of_nonneg_right hk (le_of_lt hM3)
  linarith only [hk2, h1]

/-- The margin of `back_facing_of_margin` follows from a triple product of magnitude at
least `B^3 / 10000`. -/
theorem margin_of_triple (B D : ℚ) (hB : 0 < B) (hdet : B * B * B / 10000 ≤ |D|) :
    96 / 1000000 * (B * B * B) ≤ |D| := by
  have : 0 < B * B * B := by positivity
  linarith only [this, hdet]

/-! ## C37, C38: the back-face decision away from the edge-on position -/

/-- C37, amended.  For view-space vertices `v0`, `v1`, `v2` whose coordinates are finite
floats of magnitude at most `B`, where `2^-20 <= B <= 2^20`, and whose exact triple product
`v0 . (v1 x v2)` has magnitude at least `B^3 / 10000` (the triangle is not seen nearly
edge-on), `is_back_facing_triangle` gives the same answer for the three cyclic orders of
the vertices: true exactly when the triple product is positive.  The computed normals are
not part of the statement. -/
theorem back_facing_cyclic_orders_agree (v0 v1 v2 : Vec4) (B : ℚ) (hB0 : 1 / 1048576 ≤ B)
    (hB1 : B ≤ 1048576) (h0 : v0.within B) (h1 : v1.within B) (h2 : v2.within B)
    (hdet : B * B * B / 10000 ≤
      |cgfs.Vec3.dot v0.exact (cgfs.Vec3.cross v1.exact v2.exact)|) :
    (is_back_facing_triangle v0 v1 v2).1 =
        decide (0 < cgfs.Vec3.dot v0.exact (cgfs.Vec3.cross v1.exact v2.exact)) ∧
      (is_back_facing_triangle v1 v2 v0).1 = (is_back_facing_triangle v0 v1 v2).1 ∧
      (is_back_facing_triangle v2 v0 v1).1 = (is_back_facing_triangle v0 v1 v2).1 := by
  have hBpos : 0 < B := lt_of_lt_of_le (by norm_num) hB0
  have hm := margin_of_triple B _ hBpos hdet
  have hm1 := hm
  have hm2 := hm
  rw [← triple_product_cyclic v0 v1 v2] at hm1
  rw [triple_product_cyclic v2 v0 v1] at hm2
  have a0 := back_facing_of_margin v0 v1 v2 B hB0 hB1 h0 h1 h2 hm
  have a1 := back_facing_of_margin v1 v2 v0 B hB0 hB1 h1 h2 h0 hm1
  have a2 := back_facing_of_margin v2 v0 v1 B hB0 hB1 h2 h0 h1 hm2
  rw [triple_product_cyclic v0 v1 v2] at a1
  rw [← triple_product_cyclic v2 v0 v1] at a2
  exact ⟨a0, a1.trans a0.symm, a2.trans a0.symm⟩

/-- C37, instantiated on the triangle `(1,0,5), (0,1,5), (-1,-1,5)` with `B = 5`: the
triple product is `15` and the three cyclic orders answer true. -/
theorem back_facing_cyclic_orders_agree_witness :
    ((5 : ℚ) * 5 * 5 / 10000 ≤
        |cgfs.Vec3.dot (Vec4.exact ⟨1, 0, 5, 1⟩)
          (cgfs.Vec3.cross (Vec4.exact ⟨0, 1, 5, 1⟩) (Vec4.exact ⟨-1, -1, 5, 1⟩))|) ∧
      ((is_back_facing_triangle ⟨1, 0, 5, 1⟩ ⟨0, 1, 5, 1⟩ ⟨-1, -1, 5, 1⟩).1 =
          decide (0 < cgfs.Vec3.dot (Vec4.exact ⟨1, 0, 5, 1⟩)
            (cgfs.Vec3.cross (Vec4.exact ⟨0, 1, 5, 1⟩) (Vec4.exact ⟨-1, -1, 5, 1⟩))) ∧
        (is_back_facing_triangle ⟨0, 1, 5, 1⟩ ⟨-1, -1, 5, 1⟩ ⟨1, 0, 5, 1⟩).1 =
          (is_back_facing_triangle ⟨1, 0, 5, 1⟩ ⟨0, 1, 5, 1⟩ ⟨-1, -1, 5, 1⟩).1 ∧
        (is_back_facing_triangle ⟨-1, -1, 5, 1⟩ ⟨1, 0, 5, 1⟩ ⟨0, 1, 5, 1⟩).1 =
          (is_back_facing_triangle ⟨1, 0, 5, 1⟩ ⟨0, 1, 5, 1⟩ ⟨-1, -1, 5, 1⟩).1) :=
  ⟨by decide!, back_facing_cyclic_orders_agree ⟨1, 0, 5, 1⟩ ⟨0, 1, 5, 1⟩ ⟨-1, -1, 5, 1⟩ 5
    (by norm_num) (by norm_num)
    ⟨⟨by decide!, by decide!⟩, ⟨by decide!, by decide!⟩, ⟨by decide!, by decide!⟩⟩
    ⟨⟨by decide!, by decide!⟩, ⟨by decide!, by decide!⟩, ⟨by decide!, by decide!⟩⟩
    ⟨⟨by decide!, by decide!⟩, ⟨by decide!, by decide!⟩, ⟨by decide!, by decide!⟩⟩ (by decide!)⟩

/-- C38, amended.  For view-space vertices `v0`, `v1`, `v2` whose coordinates are finite
floats of magnitude at most `B`, where `2^-20 <= B <= 2^20`, whose exact triple product
`v0 . (v1 x v2)` has magnitude at least `B^3 / 10000` (the triangle is not seen nearly
edge-on), and for a finite float `s > 0` with `2^-20 <= s B <= 10^6`,
`is_back_facing_triangle` gives the same answer on the vertices scaled by `s` (the
products `v * s` of the code, rounded) as on `v0`, `v1`, `v2`: true exactly when the
triple product is positive.  The computed normals are not part of the statement. -/
theorem back_facing_scaling_agrees (v0 v1 v2 : Vec4) (s : Float32) (B : ℚ)
    (hB0 : 1 / 1048576 ≤ B) (hB1 : B ≤ 1048576) (hs : s.is_finite = true)
    (hs0 : 0 < s.toRat) (hM0 : 1 / 1048576 ≤ s.toRat * B) (hM1 : s.toRat * B ≤ 1000000)
    (h0 : v0.within B) (h1 : v1.within B) (h2 : v2.within B)
    (hdet : B * B * B / 10000 ≤
      |cgfs.Vec3.dot v0.exact (cgfs.Vec3.cross v1.exact v2.exact)|) :
    (is_back_facing_triangle (Vec4.ofVec3 (Vec3.mul v0.xyz s) v0.w)
        (Vec4.ofVec3 (Vec3.mul v1.xyz s) v1.w) (Vec4.ofVec3 (Vec3.mul v2.xyz s) v2.w)).1 =
        (is_back_facing_triangle v0 v1 v2).1 ∧
      (is_back_facing_triangle v0 v1 v2).1 =
        decide (0 < cgfs.Vec3.dot v0.exact (cgfs.Vec3.cross v1.exact v2.exact)) := by
  have hBpos : 0 < B := lt_of_lt_of_le (by norm_num) hB0
  have hMpos : 0 < s.toRat * B := by positivity
  have a0 := back_facing_of_margin v0 v1 v2 B hB0 hB1 h0 h1 h2 (margin_of_triple B _ hBpos hdet)
  obtain ⟨w0, n0, -⟩ := scaled_vertex_near v0 s B hs hs0 hM0 hM1 h0
  obtain ⟨w1, n1, -⟩ := scaled_vertex_near v1 s B hs hs0 hM0 hM1 h1
  obtain ⟨w2, n2, -⟩ := scaled_vertex_near v2 s B hs hs0 hM0 hM1 h2
  have a1 := back_facing_of_near v0.exact v1.exact v2.exact
    (Vec4.ofVec3 (Vec3.mul v0.xyz s) v0.w) (Vec4.ofVec3 (Vec3.mul v1.xyz s) v1.w)
    (Vec4.ofVec3 (Vec3.mul v2.xyz s) v2.w) s.toRat B (s.toRat * B / 8000000) hs0 hM0 hM1
    (by positivity) (by linarith only [hMpos])
    ⟨h0.1.2, h0.2.1.2, h0.2.2.2⟩ ⟨h1.1.2, h1.2.1.2, h1.2.2.2⟩ ⟨h2.1.2, h2.2.1.2, h2.2.2.2⟩
    ⟨w0.1.1, w0.2.1.1, w0.2.2.1⟩ ⟨w1.1.1, w1.2.1.1, w1.2.2.1⟩ ⟨w2.1.1, w2.2.1.1, w2.2.2.1⟩
    n0 n1 n2 (near_margin_of_scaled s.toRat B _ hs0 hBpos hdet)
  exact ⟨a1.trans a0.symm, a0⟩

/-- C38, instantiated on the triangle `(1,0,5), (0,1,5), (-1,-1,5)` with `B = 5` and the
factor `s = 3`: the scaled vertices are `(3,0,15), (0,3,15), (-3,-3,15)` and both answers
are true. -/
theorem back_facing_scaling_agrees_witness :
    (Vec4.ofVec3 (Vec3.mul (Vec4.xyz ⟨1, 0, 5, 1⟩) 3) 1 = ⟨3, 0, 15, 1⟩ ∧
      (5 : ℚ) * 5 * 5 / 10000 ≤
        |cgfs.Vec3.dot (Vec4.exact ⟨1, 0, 5, 1⟩)
          (cgfs.Vec3.cross (Vec4.exact ⟨0, 1, 5, 1⟩) (Vec4.exact ⟨-1, -1, 5, 1⟩))|) ∧
      ((is_back_facing_triangle (Vec4.ofVec3 (Vec3.mul (Vec4.xyz ⟨1, 0, 5, 1⟩) 3) 1)
          (Vec4.ofVec3 (Vec3.mul (Vec4.xyz ⟨0, 1, 5, 1⟩) 3) 1)
          (Vec4.ofVec3 (Vec3.mul (Vec4.xyz ⟨-1, -1, 5, 1⟩) 3) 1)).1 =
          (is_back_facing_triangle ⟨1, 0, 5, 1⟩ ⟨0, 1, 5, 1⟩ ⟨-1, -1, 5, 1⟩).1 ∧
        (is_back_facing_triangle ⟨1, 0, 5, 1⟩ ⟨0, 1, 5, 1⟩ ⟨-1, -1, 5, 1⟩).1 =
          decide (0 < cgfs.Vec3.dot (Vec4.exact ⟨1, 0, 5, 1⟩)
            (cgfs.Vec3.cross (Vec4.exact ⟨0, 1, 5, 1⟩) (Vec4.exact ⟨-1, -1, 5, 1⟩)))) :=
  ⟨⟨by decide!, by decide!⟩,
    back_facing_scaling_agrees ⟨1, 0, 5, 1⟩ ⟨0, 1, 5, 1⟩ ⟨-1, -1, 5, 1⟩ 3 5 (by norm_num)
      (by norm_num) (by decide!) (by decide!) (by decide!) (by decide!)
      ⟨⟨by decide!, by decide!⟩, ⟨by decide!, by decide!⟩, ⟨by decide!, by decide!⟩⟩
      ⟨⟨by decide!, by decide!⟩, ⟨by decide!, by decide!⟩, ⟨by decide!, by decide!⟩⟩
      ⟨⟨by decide!, by decide!⟩, ⟨by decide!, by decide!⟩, ⟨by decide!, by decide!⟩⟩ (by decide!)⟩

end binary32

end cgfs

namespace cgfs

namespace Float32

/-! ## Representable values: rounding is symmetric and idempotent -/

end Float32

end cgfs

namespace cgfs

namespace Float32

/-! ## The value of a rounding -/

end Float32

end cgfs

namespace cgfs

namespace binary32

open rasterizer Float32

/-! ## The matrices of the view transform, entry by entry -/

end binary32

end cgfs

namespace cgfs

namespace Float32

/-! ## The rounding error of the view transform -/

end Float32

end cgfs

namespace cgfs

namespace binary32

open rasterizer Float32

end binary32

end cgfs

namespace cgfs

namespace binary32

open rasterizer Float32

end binary32

end cgfs
